import Mathlib

/-!
# WUROS kernel core: bounded queue, ring buffer, process table, scheduler, mutexes, semaphores and system calls

A shallow embedding of `queue.c`, `ringbuf.c`, `kproc.c`, `scheduler.c`, `kmutex.c`,
`ksem.c` and the parts of `ksyscall.c`, `kernel.c`, `main.c` and `tty.c` that call them or
that they call, followed by theorems about them.

Conventions of the embedding.

* A C `int` (and a `char`) is a Lean `Int`. Signed overflow is undefined in C and is
  not modelled: the counters (`size`, `next_pid`, `locks`, `count`) are taken to stay
  inside the 32-bit range. The conversions between `int` and `size_t` in ringbuf.c are modelled.
* A C array is a `List`; the headers that fix the array lengths (`queue.h`,
  `ringbuf.h`, `kproc.h`, `tty.h`) are not among the sources, so the lengths
  `QUEUE_SIZE`, `RINGBUF_SIZE`, `PROC_MAX`, ... are parameters.
* `a % b` of C truncates towards zero: `Int.tmod`.
* A store through an index outside a queue or ring-buffer array is undefined in C; the
  model drops the store and a load yields 0.
* A pointer argument that the code only tests against `NULL` is taken to be non-null
  where the function is modelled without an `Option` argument.
* A kernel function that can end in `kernel_panic` (which calls `exit`) returns an
  `Option`; `none` stands for "does not return". An access outside the process table has
  no defined result either and is `none` as well.
* `free` is a library call; kmutex.c and ksem.c call it on an entry of a static table,
  and the sources do not say what that does to the entry: its effect on the entry is a
  parameter of `kmutex_destroy` and `ksem_destroy`.
* The trap frame that `proc->trapframe` points to is kept in the slot of the process
  (`frame`); the pointer itself is a byte offset into the stack pool. The identifiers of
  the system calls and `PROC_IO_MAX` come from headers that are not among the sources and
  are parameters. The memory of the caller is outside the state: a buffer argument is
  passed as a list, and what the name calls store there is not tracked.
* A `char *` that points at a C string is a Lean `String`: the bytes at the pointer are
  the UTF-8 encoding of the string followed by the terminating NUL. `strlen` counts the
  bytes before the first NUL, and `strcpy` copies the characters before it.
* Log output is not modelled.
-/

namespace WUROS

/-! ## C arrays -/

/-- Load `a[i]` through an `int` index. -/
def arr_get (a : List Int) (i : Int) : Int :=
  if 0 ≤ i then a.getD i.toNat 0 else 0

/-- Store `a[i] = v` through an `int` index. -/
def arr_set (a : List Int) (i : Int) (v : Int) : List Int :=
  if 0 ≤ i then a.set i.toNat v else a

/-! ## queue.c -/

/-- The `queue_t` of queue.h: `items[QUEUE_SIZE]`, `head`, `tail`, `size`. -/
structure queue_t where
  items : List Int
  head : Int
  tail : Int
  size : Int
deriving DecidableEq, Repr

/-- queue.c `queue_is_empty`: `size == 0`. -/
def queue_is_empty (queue : queue_t) : Bool :=
  queue.size == 0

/-- queue.c `queue_is_full`: `size == QUEUE_SIZE`. -/
def queue_is_full (QUEUE_SIZE : Nat) (queue : queue_t) : Bool :=
  queue.size == (QUEUE_SIZE : Int)

/-- queue.c `queue_init` on a non-null queue (it returns 0): head and tail become -1,
size 0, and the loop stores -1 into the cells 0 .. QUEUE_SIZE-1. -/
def queue_init (QUEUE_SIZE : Nat) (queue : queue_t) : queue_t :=
  { head := -1, tail := -1, size := 0,
    items := (List.range QUEUE_SIZE).foldl (fun (a : List Int) (i : Nat) => arr_set a (i : Int) (-1)) queue.items }

/-- queue.c `queue_in` on a non-null queue: the return code and the queue afterwards. -/
def queue_in (QUEUE_SIZE : Nat) (queue : queue_t) (item : Int) : Int × queue_t :=
  if queue_is_full QUEUE_SIZE queue then (-1, queue)
  else
    let q1 : queue_t := if queue_is_empty queue then { queue with head := 0 } else queue
    let tail := Int.tmod (q1.tail + 1) (QUEUE_SIZE : Int)
    (0, { q1 with tail := tail, items := arr_set q1.items tail item, size := q1.size + 1 })

/-- queue.c `queue_out`: the return code, the queue afterwards and the content of the
output cell `*item` afterwards (`item` is its content before the call). -/
def queue_out (QUEUE_SIZE : Nat) (queue : queue_t) (item : Int) : Int × queue_t × Int :=
  if queue_is_empty queue then (-1, queue, item)
  else
    let v := arr_get queue.items queue.head
    let q1 : queue_t := { queue with items := arr_set queue.items queue.head 0 }
    if q1.head == q1.tail then (0, queue_init QUEUE_SIZE q1, v)
    else (0, { q1 with head := Int.tmod (q1.head + 1) (QUEUE_SIZE : Int), size := q1.size - 1 }, v)

/-- One call made by a client of the queue: `queue_in(q, item)` or `queue_out(q, &x)`
where the variable `x` holds `cell` before the call. -/
inductive queue_call where
  | enq (item : Int)
  | deq (cell : Int)
deriving DecidableEq, Repr

/-- What a client observes over a sequence of calls: the queue at the end, the return
codes in call order, and the values found in the output cell after each `queue_out`. -/
structure queue_trace where
  q : queue_t
  rcs : List Int
  outs : List Int
deriving DecidableEq, Repr

/-- Run a sequence of calls from `q`. -/
def queue_run (QUEUE_SIZE : Nat) : queue_t → List queue_call → queue_trace
  | q, [] => { q := q, rcs := [], outs := [] }
  | q, queue_call.enq x :: cs =>
      let r := queue_in QUEUE_SIZE q x
      let t := queue_run QUEUE_SIZE r.2 cs
      { t with rcs := r.1 :: t.rcs }
  | q, queue_call.deq c :: cs =>
      let r := queue_out QUEUE_SIZE q c
      let t := queue_run QUEUE_SIZE r.2.1 cs
      { t with rcs := r.1 :: t.rcs, outs := r.2.2 :: t.outs }

/-- No `queue_in` is made on a full queue and no `queue_out` on an empty one. -/
def queue_admissible (QUEUE_SIZE : Nat) : queue_t → List queue_call → Bool
  | _, [] => true
  | q, queue_call.enq x :: cs =>
      !queue_is_full QUEUE_SIZE q && queue_admissible QUEUE_SIZE (queue_in QUEUE_SIZE q x).2 cs
  | q, queue_call.deq c :: cs =>
      !queue_is_empty q && queue_admissible QUEUE_SIZE (queue_out QUEUE_SIZE q c).2.1 cs

/-- The values passed to `queue_in`, in call order. -/
def queue_enqueued : List queue_call → List Int
  | [] => []
  | queue_call.enq x :: cs => x :: queue_enqueued cs
  | queue_call.deq _ :: cs => queue_enqueued cs

/-- The number of `queue_out` calls. -/
def queue_deq_count : List queue_call → Nat
  | [] => 0
  | queue_call.enq _ :: cs => queue_deq_count cs
  | queue_call.deq _ :: cs => queue_deq_count cs + 1

/-- The queue as a list, oldest element first: `size` cells from `head`, wrapping. -/
def queue_contents (QUEUE_SIZE : Nat) (q : queue_t) : List Int :=
  (List.range q.size.toNat).map (fun (k : Nat) => arr_get q.items ((q.head + (k : Int)) % (QUEUE_SIZE : Int)))

/-- Well-formed queue: the array has QUEUE_SIZE cells, the size is in range, an empty
queue has head = tail = -1, a non-empty one has its indices in range and
tail = (head + size - 1) mod QUEUE_SIZE. -/
def queue_wf (QUEUE_SIZE : Nat) (q : queue_t) : Prop :=
  q.items.length = QUEUE_SIZE ∧ 0 ≤ q.size ∧ q.size ≤ (QUEUE_SIZE : Int) ∧
  (q.size = 0 → q.head = -1 ∧ q.tail = -1) ∧
  (0 < q.size → 0 ≤ q.head ∧ q.head < (QUEUE_SIZE : Int) ∧
    q.tail = (q.head + q.size - 1) % (QUEUE_SIZE : Int))

/-! ## ringbuf.c -/

/-- The `ringbuf_t` of ringbuf.h: `data[RINGBUF_SIZE]` (of `char`), `head`, `tail`,
`size`. -/
structure ringbuf_t where
  data : List Int
  head : Int
  tail : Int
  size : Int
deriving DecidableEq, Repr

/-- The conversion `(int)size` of a `size_t` on the 32-bit target. -/
def int_of_size_t (n : Nat) : Int :=
  if n % 2 ^ 32 < 2 ^ 31 then ((n % 2 ^ 32 : Nat) : Int) else ((n % 2 ^ 32 : Nat) : Int) - 2 ^ 32

/-- The conversion `(size_t)i` of an `int` on the 32-bit target. -/
def size_t_of_int (i : Int) : Nat :=
  (i % 2 ^ 32).toNat

/-- ringbuf.c `ringbuf_init` on a non-null buffer (it returns 0). -/
def ringbuf_init (RINGBUF_SIZE : Nat) (buf : ringbuf_t) : ringbuf_t :=
  { head := -1, tail := -1, size := 0,
    data := (List.range RINGBUF_SIZE).foldl
      (fun (a : List Int) (i : Nat) => arr_set a (i : Int) 0) buf.data }

/-- ringbuf.c `ringbuf_is_empty`: `head == -1`. -/
def ringbuf_is_empty (buf : ringbuf_t) : Bool :=
  buf.head == -1

/-- ringbuf.c `ringbuf_is_full`: `size == RINGBUF_SIZE`. -/
def ringbuf_is_full (RINGBUF_SIZE : Nat) (buf : ringbuf_t) : Bool :=
  buf.size == (RINGBUF_SIZE : Int)

/-- ringbuf.c `ringbuf_write`: the return code and the buffer afterwards. -/
def ringbuf_write (RINGBUF_SIZE : Nat) (buf : ringbuf_t) (byte : Int) : Int × ringbuf_t :=
  if ringbuf_is_full RINGBUF_SIZE buf then (-1, buf)
  else
    let b1 : ringbuf_t := if ringbuf_is_empty buf then { buf with head := 0 } else buf
    let tail := Int.tmod (b1.tail + 1) (RINGBUF_SIZE : Int)
    (0, { b1 with tail := tail, data := arr_set b1.data tail byte, size := b1.size + 1 })

/-- ringbuf.c `ringbuf_read`: the return code, the buffer afterwards and the content of
`*byte` afterwards (`byte` is its content before the call). -/
def ringbuf_read (RINGBUF_SIZE : Nat) (buf : ringbuf_t) (byte : Int) : Int × ringbuf_t × Int :=
  if ringbuf_is_empty buf then (-1, buf, byte)
  else
    let v := arr_get buf.data buf.head
    if buf.head == buf.tail then (0, ringbuf_init RINGBUF_SIZE buf, v)
    else (0, { buf with head := Int.tmod (buf.head + 1) (RINGBUF_SIZE : Int),
                        size := buf.size - 1 }, v)

/-- ringbuf.c `ringbuf_write_mem`: the guard on the free space, `head = 0` for an empty
buffer, then for each `i < size` the store `data[tail] = mem[i]`, `size++` and the
advance of `tail`, in this order. -/
def ringbuf_write_mem (RINGBUF_SIZE : Nat) (buf : ringbuf_t) (mem : List Int) (size : Nat) :
    Int × ringbuf_t :=
  if int_of_size_t size > (RINGBUF_SIZE : Int) - buf.size then (-1, buf)
  else
    let b1 : ringbuf_t := if ringbuf_is_empty buf then { buf with head := 0 } else buf
    (0, (List.range size).foldl
      (fun (b : ringbuf_t) (i : Nat) =>
        { b with data := arr_set b.data b.tail (arr_get mem (i : Int)),
                 size := b.size + 1,
                 tail := Int.tmod (b.tail + 1) (RINGBUF_SIZE : Int) }) b1)

/-- ringbuf.c `ringbuf_read_mem`: the guard `size > (size_t)buf->size`, then for each
`i < size` the copy `mem[i] = data[head]`, the advance of `head` and `size--`; at the
end `ringbuf_init` when the argument `size` is 0. The result is the return code, the
buffer and the destination array afterwards. -/
def ringbuf_read_mem (RINGBUF_SIZE : Nat) (buf : ringbuf_t) (mem : List Int) (size : Nat) :
    Int × ringbuf_t × List Int :=
  if size > size_t_of_int buf.size then (-1, buf, mem)
  else
    let r := (List.range size).foldl
      (fun (s : ringbuf_t × List Int) (i : Nat) =>
        ({ s.1 with head := Int.tmod (s.1.head + 1) (RINGBUF_SIZE : Int),
                    size := s.1.size - 1 },
         arr_set s.2 (i : Int) (arr_get s.1.data s.1.head))) (buf, mem)
    if size == 0 then (0, ringbuf_init RINGBUF_SIZE r.1, r.2) else (0, r.1, r.2)

/-- ringbuf.c `ringbuf_flush` on a non-null buffer: `ringbuf_init`, return 0. -/
def ringbuf_flush (RINGBUF_SIZE : Nat) (buf : ringbuf_t) : Int × ringbuf_t :=
  (0, ringbuf_init RINGBUF_SIZE buf)

/-- One call made by a client of the ring buffer; `read` carries the content of the
caller's byte variable before the call, `read_mem` the destination array before it. -/
inductive ringbuf_call where
  | write (byte : Int)
  | read (cell : Int)
  | flush
  | write_mem (mem : List Int) (size : Nat)
  | read_mem (mem : List Int) (size : Nat)
deriving DecidableEq, Repr

/-- The buffer after one call. -/
def ringbuf_step (RINGBUF_SIZE : Nat) (buf : ringbuf_t) : ringbuf_call → ringbuf_t
  | ringbuf_call.write b => (ringbuf_write RINGBUF_SIZE buf b).2
  | ringbuf_call.read c => (ringbuf_read RINGBUF_SIZE buf c).2.1
  | ringbuf_call.flush => (ringbuf_flush RINGBUF_SIZE buf).2
  | ringbuf_call.write_mem m n => (ringbuf_write_mem RINGBUF_SIZE buf m n).2
  | ringbuf_call.read_mem m n => (ringbuf_read_mem RINGBUF_SIZE buf m n).2.1

/-- What the client observes of one call: the return code, and for a `read` the content
of the byte variable afterwards, for a `read_mem` the destination array afterwards. -/
def ringbuf_observe (RINGBUF_SIZE : Nat) (buf : ringbuf_t) : ringbuf_call → Int × List Int
  | ringbuf_call.write b => ((ringbuf_write RINGBUF_SIZE buf b).1, [])
  | ringbuf_call.read c =>
      ((ringbuf_read RINGBUF_SIZE buf c).1, [(ringbuf_read RINGBUF_SIZE buf c).2.2])
  | ringbuf_call.flush => ((ringbuf_flush RINGBUF_SIZE buf).1, [])
  | ringbuf_call.write_mem m n => ((ringbuf_write_mem RINGBUF_SIZE buf m n).1, [])
  | ringbuf_call.read_mem m n =>
      ((ringbuf_read_mem RINGBUF_SIZE buf m n).1, (ringbuf_read_mem RINGBUF_SIZE buf m n).2.2)

/-- The buffer after a sequence of calls. -/
def ringbuf_run (RINGBUF_SIZE : Nat) (buf : ringbuf_t) (cs : List ringbuf_call) : ringbuf_t :=
  cs.foldl (ringbuf_step RINGBUF_SIZE) buf

/-- The observations of a sequence of calls, in call order. -/
def ringbuf_trace (RINGBUF_SIZE : Nat) : ringbuf_t → List ringbuf_call → List (Int × List Int)
  | _, [] => []
  | buf, c :: cs =>
      ringbuf_observe RINGBUF_SIZE buf c
        :: ringbuf_trace RINGBUF_SIZE (ringbuf_step RINGBUF_SIZE buf c) cs

/-- The call is one of the single-byte operations `write`, `read`, `flush`. -/
def ringbuf_call.single_byte : ringbuf_call → Bool
  | ringbuf_call.write _ => true
  | ringbuf_call.read _ => true
  | ringbuf_call.flush => true
  | _ => false

/-- The unread bytes, oldest first: `size` cells from `head`, wrapping. -/
def ringbuf_contents (RINGBUF_SIZE : Nat) (buf : ringbuf_t) : List Int :=
  (List.range buf.size.toNat).map
    (fun (k : Nat) => arr_get buf.data ((buf.head + (k : Int)) % (RINGBUF_SIZE : Int)))

/-- The ring-buffer invariant of the data model: the array has RINGBUF_SIZE cells,
0 ≤ size ≤ RINGBUF_SIZE, size = 0 exactly when head = -1, and a non-empty buffer has head
and tail in range with tail = (head + size - 1) mod RINGBUF_SIZE. -/
def ringbuf_wf (RINGBUF_SIZE : Nat) (buf : ringbuf_t) : Prop :=
  buf.data.length = RINGBUF_SIZE ∧ 0 ≤ buf.size ∧ buf.size ≤ (RINGBUF_SIZE : Int) ∧
  (buf.size = 0 ↔ buf.head = -1) ∧
  (buf.size ≠ 0 → 0 ≤ buf.head ∧ buf.head < (RINGBUF_SIZE : Int) ∧ 0 ≤ buf.tail ∧
    buf.tail < (RINGBUF_SIZE : Int) ∧
    buf.tail = (buf.head + buf.size - 1) % (RINGBUF_SIZE : Int))

instance (n : Nat) (buf : ringbuf_t) : Decidable (ringbuf_wf n buf) := by
  unfold ringbuf_wf
  infer_instance

/-- The invariant the single-byte operations maintain: `ringbuf_wf`, and the tail of an
empty buffer is -1 as `ringbuf_init` leaves it. -/
def ringbuf_inv (RINGBUF_SIZE : Nat) (buf : ringbuf_t) : Prop :=
  ringbuf_wf RINGBUF_SIZE buf ∧ (buf.size = 0 → buf.tail = -1)

/-- The FIFO list the specification describes, as a reference model: a list of at most
`cap` bytes; `write` appends unless the list is full, `read` removes the oldest byte
unless the list is empty, `flush` empties the list. The call yields the list afterwards
and the observation (return code, byte read). -/
def fifo_step (cap : Nat) (l : List Int) : ringbuf_call → List Int × (Int × List Int)
  | ringbuf_call.write b => if l.length = cap then (l, (-1, [])) else (l ++ [b], (0, []))
  | ringbuf_call.read c =>
      match l with
      | [] => ([], (-1, [c]))
      | x :: rest => (rest, (0, [x]))
  | ringbuf_call.flush => ([], (0, []))
  | _ => (l, (0, []))

/-- The reference model over a sequence of calls: the final list and the observations. -/
def fifo_run (cap : Nat) : List Int → List ringbuf_call → List Int × List (Int × List Int)
  | l, [] => (l, [])
  | l, c :: cs =>
      let r := fifo_run cap (fifo_step cap l c).1 cs
      (r.1, (fifo_step cap l c).2 :: r.2)

/-! ## kproc.c and scheduler.c -/

/-- The constants the kernel code takes from headers that are not among the sources
(`queue.h`, `kproc.h`, `scheduler.h`, `kmutex.h`, `ksem.h`, `trapframe.h`, `tty.h`, the
SPEDE machine headers), the segment
selectors `get_cs()` ... `get_gs()` read from the CPU, and the addresses of the entry
functions `kproc_idle`, `prog_shell`, `prog_ping`, `prog_pong`. -/
structure kconfig where
  QUEUE_SIZE : Nat
  PROC_MAX : Nat
  PROC_STACK_SIZE : Nat
  PROC_NAME_LEN : Nat
  TRAPFRAME_SIZE : Nat
  TTY_MAX : Nat
  PROC_IO_IN : Nat
  PROC_IO_OUT : Nat
  EF_DEFAULT_VALUE : Nat
  EF_INTR : Nat
  get_cs : Nat
  get_ds : Nat
  get_es : Nat
  get_fs : Nat
  get_gs : Nat
  kproc_idle : Nat
  prog_shell : Nat
  prog_ping : Nat
  prog_pong : Nat
  SCHEDULER_TIMESLICE : Nat
  MUTEX_MAX : Nat
  SEM_MAX : Nat
deriving DecidableEq, Repr

/-- The process states of kproc.h. -/
inductive proc_state_t where
  | NONE | IDLE | ACTIVE | SLEEPING | WAITING
deriving DecidableEq, Repr

/-- The process types of kproc.h. -/
inductive proc_type_t where
  | PROC_TYPE_NONE | PROC_TYPE_KERNEL | PROC_TYPE_USER
deriving DecidableEq, Repr

/-- The registers of a `trapframe_t` that the kernel code reads or writes. -/
structure trapframe_t where
  eax : Nat
  ebx : Nat
  ecx : Nat
  edx : Nat
  eip : Nat
  eflags : Nat
  cs : Nat
  ds : Nat
  es : Nat
  fs : Nat
  gs : Nat
  interrupt : Nat
deriving DecidableEq, Repr

/-- A non-null `ringbuf_t *` held in `proc->io[]`: the input or the output buffer of
the TTY `tty_table[tty]`. -/
inductive io_ref where
  | io_input (tty : Nat)
  | io_output (tty : Nat)
deriving DecidableEq, Repr

/-- The `proc_t` of kproc.h. `stack` and `trapframe` are pointers into `proc_stack`,
kept as byte offsets from `&proc_stack[0][0]` (`none` is NULL); `frame` is the trap frame
that `trapframe` points to; `io0`, `io1` are `io[0]`, `io[1]`. -/
structure proc_t where
  pid : Int
  state : proc_state_t
  type : proc_type_t
  name : String
  start_time : Int
  run_time : Int
  cpu_time : Int
  sleep_time : Int
  stack : Option Int
  trapframe : Option Int
  frame : trapframe_t
  io0 : Option io_ref
  io1 : Option io_ref
deriving DecidableEq, Repr

/-- The store `proc->io[i] = v`; an index other than 0 and 1 is outside the array. -/
def proc_t.io_set (p : proc_t) (i : Nat) (v : Option io_ref) : proc_t :=
  if i = 0 then { p with io0 := v } else if i = 1 then { p with io1 := v } else p

/-- What a load through a pointer outside the process table yields in the model. -/
def proc_none : proc_t :=
  { pid := -1, state := proc_state_t.NONE, type := proc_type_t.PROC_TYPE_NONE, name := "NULL",
    start_time := -1, run_time := -1, cpu_time := -1, sleep_time := 0,
    stack := none, trapframe := none,
    frame := ⟨0, 0, 0, 0, 0, 0, 0, 0, 0, 0, 0, 0⟩, io0 := none, io1 := none }

/-- The `mutex_t` of kmutex.h; `owner` is a `proc_t *` into `proc_table`, kept as the
index of the slot (`none` is NULL). -/
structure mutex_t where
  allocated : Int
  locks : Int
  owner : Option Nat
  wait_queue : queue_t
deriving DecidableEq, Repr

/-- The `sem_t` of ksem.h. -/
structure sem_t where
  allocated : Int
  count : Int
  wait_queue : queue_t
deriving DecidableEq, Repr

/-- The global variables of kproc.c, scheduler.c, kmutex.c and ksem.c, and the tick
counter that `timer_get_ticks()` returns. A `proc_t *` into `proc_table` is the index of
the slot. -/
structure kernel_t where
  next_pid : Int
  proc_allocator : queue_t
  proc_table : List proc_t
  active_proc : Option Nat
  run_queue : queue_t
  sleep_queue : queue_t
  timer_ticks : Int
  mutexes : List mutex_t
  mutex_queue : queue_t
  semaphores : List sem_t
  sem_queue : queue_t
deriving DecidableEq, Repr

/-- The slot `proc_table[i]`. -/
def proc_at (s : kernel_t) (i : Nat) : proc_t :=
  s.proc_table.getD i proc_none

/-- kproc.c `pid_to_proc`: NULL for a pid outside `[0, next_pid)`, else the first slot
in use (`pid >= 0`) that carries the pid. -/
def pid_to_proc (cfg : kconfig) (s : kernel_t) (pid : Int) : Option Nat :=
  if pid < 0 ∨ pid ≥ s.next_pid then none
  else (List.range cfg.PROC_MAX).find?
    (fun i => !decide ((proc_at s i).pid < 0) && (proc_at s i).pid == pid)

/-- kproc.c `proc_to_entry`: -1 for NULL, else the first slot in use whose pid equals
`proc->pid`, or -1 when there is none. -/
def proc_to_entry (cfg : kconfig) (s : kernel_t) (proc : Option Nat) : Int :=
  match proc with
  | none => -1
  | some p =>
    match (List.range cfg.PROC_MAX).find?
        (fun entry => !decide ((proc_at s entry).pid < 0)
          && (proc_at s p).pid == (proc_at s entry).pid) with
    | some entry => (entry : Int)
    | none => -1

/-- scheduler.c `scheduler_add`: panic on NULL; nothing for pid 0; else `queue_in` on the
run queue (panic when it fails), then state IDLE and cpu_time 0. -/
def scheduler_add (cfg : kconfig) (s : kernel_t) (proc : Option Nat) : Option kernel_t :=
  match proc with
  | none => none
  | some p =>
    if (proc_at s p).pid == 0 then some s
    else
      let r := queue_in cfg.QUEUE_SIZE s.run_queue (proc_at s p).pid
      if r.1 != 0 then none
      else
        let proc : proc_t := { proc_at s p with state := proc_state_t.IDLE, cpu_time := 0 }
        some { s with run_queue := r.2, proc_table := s.proc_table.set p proc }

/-- The loop of scheduler.c `scheduler_remove`, `for(i = 0; i < run_queue.size; i++)`
with the bound read again at every round: dequeue a pid, drop it when it is the target,
queue it back otherwise (panic when that fails). `pid` is the local variable, which a
failing `queue_out` leaves as it is. The first argument bounds the number of rounds;
`none` also when it is used up. -/
def scheduler_remove_loop (cfg : kconfig) (target : Int) :
    Nat → Int → queue_t → Int → Option queue_t
  | 0, _, _, _ => none
  | fuel + 1, i, q, pid =>
    if i < q.size then
      let r := queue_out cfg.QUEUE_SIZE q pid
      if target == r.2.2 then scheduler_remove_loop cfg target fuel (i + 1) r.2.1 r.2.2
      else
        let r2 := queue_in cfg.QUEUE_SIZE r.2.1 r.2.2
        if r2.1 != 0 then none
        else scheduler_remove_loop cfg target fuel (i + 1) r2.2 r.2.2
    else some q

/-- scheduler.c `scheduler_remove`: nothing for NULL; else the loop over the run queue
(at most `size` rounds, as `i` grows and `size` does not), then `active_proc = NULL`
when the process is the active one. -/
def scheduler_remove (cfg : kconfig) (s : kernel_t) (proc : Option Nat) : Option kernel_t :=
  match proc with
  | none => some s
  | some p =>
    match scheduler_remove_loop cfg (proc_at s p).pid (s.run_queue.size.toNat + 1) 0
        s.run_queue 0 with
    | none => none
    | some q =>
      let s1 := { s with run_queue := q }
      match s1.active_proc with
      | none => some s1
      | some a =>
        if (proc_at s1 p).pid == (proc_at s1 a).pid then some { s1 with active_proc := none }
        else some s1

/-- The C string that a `char *` to the bytes of `s` denotes: the characters before the
first NUL (U+0000 is the only character whose UTF-8 encoding holds a zero byte). -/
def c_string (s : String) : String :=
  String.mk (s.data.takeWhile (fun c => c != Char.ofNat 0))

/-- The `strlen` of the C library: the number of bytes before the terminating NUL. -/
def strlen (s : String) : Nat :=
  (c_string s).utf8ByteSize

/-- The slot contents that kproc.c `kproc_create` writes into `proc_table[ptable_entry]`
between the allocation and the call of `scheduler_add`: the stack and trap-frame
pointers, the fresh field values, the name (`strcpy` of "DefaultUserName" when
`strlen(proc_name) > PROC_NAME_LEN`, of `proc_name` otherwise) and the registers of the
synthetic trap frame. -/
def kproc_create_proc (cfg : kconfig) (s : kernel_t) (ptable_entry : Int) (proc_ptr : Nat)
    (proc_name : String) (proc_type : proc_type_t) : proc_t :=
  let old := proc_at s ptable_entry.toNat
  let stack : Int := ptable_entry * cfg.PROC_STACK_SIZE + cfg.PROC_STACK_SIZE
  { old with
    stack := some stack,
    trapframe := some (stack + cfg.PROC_STACK_SIZE - cfg.TRAPFRAME_SIZE),
    pid := s.next_pid,
    state := proc_state_t.IDLE,
    type := proc_type,
    start_time := s.timer_ticks,
    run_time := 0,
    cpu_time := 0,
    sleep_time := 0,
    io0 := none,
    io1 := none,
    name := if strlen proc_name > cfg.PROC_NAME_LEN then "DefaultUserName"
            else c_string proc_name,
    frame := { old.frame with
      eip := proc_ptr,
      eflags := cfg.EF_DEFAULT_VALUE ||| cfg.EF_INTR,
      cs := cfg.get_cs, ds := cfg.get_ds, es := cfg.get_es,
      fs := cfg.get_fs, gs := cfg.get_gs } }

/-- kproc.c `kproc_create`: the returned pid (or -1) and the state afterwards; `none`
when `scheduler_add` panics or the index taken from the allocator is outside the
process table. -/
def kproc_create (cfg : kconfig) (s : kernel_t) (proc_ptr : Nat) (proc_name : String)
    (proc_type : proc_type_t) : Option (Int × kernel_t) :=
  let r := queue_out cfg.QUEUE_SIZE s.proc_allocator (-1)
  if r.1 != 0 then some (-1, { s with proc_allocator := r.2.1 })
  else
    let ptable_entry := r.2.2
    if ptable_entry < 0 ∨ (cfg.PROC_MAX : Int) ≤ ptable_entry then none
    else
      let proc := kproc_create_proc cfg s ptable_entry proc_ptr proc_name proc_type
      let s1 : kernel_t :=
        { s with proc_allocator := r.2.1, next_pid := s.next_pid + 1,
                 proc_table := s.proc_table.set ptable_entry.toNat proc }
      match scheduler_add cfg s1 (some ptable_entry.toNat) with
      | none => none
      | some s2 => some ((proc_at s2 ptable_entry.toNat).pid, s2)

/-- kproc.c `kproc_destroy`: -1 for NULL and for pid 0; else `scheduler_remove`, the
reset of the slot `proc_to_entry(proc)` and `queue_in` of that index into the allocator.
`none` when `scheduler_remove` panics or `proc_to_entry` yields -1 (the slot reset would
then go through `proc_table[-1]`). -/
def kproc_destroy (cfg : kconfig) (s : kernel_t) (proc : Option Nat) : Option (Int × kernel_t) :=
  match proc with
  | none => some (-1, s)
  | some p =>
    if (proc_at s p).pid == 0 then some (-1, s)
    else
      match scheduler_remove cfg s (some p) with
      | none => none
      | some s1 =>
        let entry := proc_to_entry cfg s1 (some p)
        if entry < 0 then none
        else
          let e := entry.toNat
          let cleared : proc_t :=
            { proc_at s1 e with
              pid := -1, state := proc_state_t.NONE, type := proc_type_t.PROC_TYPE_NONE,
              name := "NULL", start_time := -1, run_time := -1, cpu_time := -1,
              sleep_time := 0, stack := none, trapframe := none }
          let s2 : kernel_t := { s1 with proc_table := s1.proc_table.set e cleared }
          let r := queue_in cfg.QUEUE_SIZE s2.proc_allocator entry
          if r.1 != 0 then some (-1, s2)
          else some (0, { s2 with proc_allocator := r.2 })

/-- tty.c `tty_get`: NULL for an index outside `[0, TTY_MAX)`, else `&tty_table[tty]`. -/
def tty_get (cfg : kconfig) (tty : Int) : Option Nat :=
  if tty ≥ (cfg.TTY_MAX : Int) ∨ tty < 0 then none else some tty.toNat

/-- kproc.c `kproc_attach_tty`. -/
def kproc_attach_tty (cfg : kconfig) (s : kernel_t) (pid : Int) (tty_index : Int) :
    Int × kernel_t :=
  match pid_to_proc cfg s pid, tty_get cfg tty_index with
  | some p, some t =>
    let proc : proc_t :=
      ((proc_at s p).io_set cfg.PROC_IO_IN (some (io_ref.io_input t))).io_set
        cfg.PROC_IO_OUT (some (io_ref.io_output t))
    (0, { s with proc_table := s.proc_table.set p proc })
  | _, _ => (-1, s)

/-- The first part of kproc.c `kproc_init`: `next_pid = 0`, the allocator emptied and
filled with the indices 0, 1, ... until PROC_MAX is reached or the queue is full, and
every slot of the table reset (the loop does not touch `io[]`). -/
def kproc_init_reset (cfg : kconfig) (s : kernel_t) : kernel_t :=
  { s with
    next_pid := 0,
    proc_allocator := (List.range cfg.PROC_MAX).foldl
      (fun (q : queue_t) (ptable_entry : Nat) =>
        if !queue_is_full cfg.QUEUE_SIZE q
        then (queue_in cfg.QUEUE_SIZE q (ptable_entry : Int)).2 else q)
      (queue_init cfg.QUEUE_SIZE s.proc_allocator),
    proc_table := (List.range cfg.PROC_MAX).map (fun (i : Nat) =>
      { proc_at s i with
        pid := -1, state := proc_state_t.NONE, type := proc_type_t.PROC_TYPE_NONE,
        name := "NULL", start_time := -1, run_time := -1, cpu_time := -1,
        sleep_time := 0, stack := none, trapframe := none }) }

/-- One round of the shell loop of `kproc_init`: create, and attach to TTY `m` when the
creation succeeded. -/
def kproc_init_shell (cfg : kconfig) (s : kernel_t) (m : Nat) : Option kernel_t :=
  match kproc_create cfg s cfg.prog_shell "shell" proc_type_t.PROC_TYPE_USER with
  | none => none
  | some (pid, s1) => some (if pid != -1 then (kproc_attach_tty cfg s1 pid (m : Int)).2 else s1)

/-- One round of the ping and pong loops of `kproc_init`: create, then attach to the TTY
`TTY_MAX - (pid % 2) - 1` whatever the creation returned. -/
def kproc_init_user (cfg : kconfig) (proc_ptr : Nat) (name : String) (s : kernel_t) (_i : Nat) :
    Option kernel_t :=
  match kproc_create cfg s proc_ptr name proc_type_t.PROC_TYPE_USER with
  | none => none
  | some (pid, s1) =>
    some (kproc_attach_tty cfg s1 pid ((cfg.TTY_MAX : Int) - Int.tmod pid 2 - 1)).2

/-- A `for` loop whose body can panic. -/
def for_each {α : Type} (body : kernel_t → α → Option kernel_t) :
    List α → kernel_t → Option kernel_t
  | [], s => some s
  | a :: rest, s =>
    match body s a with
    | none => none
    | some s1 => for_each body rest s1

/-- kproc.c `kproc_init`: the reset, the idle process, four shells, three ping and three
pong processes. -/
def kproc_init (cfg : kconfig) (s : kernel_t) : Option kernel_t :=
  match kproc_create cfg (kproc_init_reset cfg s) cfg.kproc_idle "idle"
      proc_type_t.PROC_TYPE_KERNEL with
  | none => none
  | some (_, s1) =>
    match for_each (kproc_init_shell cfg) [1, 2, 3, 4] s1 with
    | none => none
    | some s2 =>
      match for_each (kproc_init_user cfg cfg.prog_ping "ping") (List.range 3) s2 with
      | none => none
      | some s3 => for_each (kproc_init_user cfg cfg.prog_pong "pong") (List.range 3) s3

/-- A call into the process table: `kproc_create(proc_ptr, name, type)`,
`kproc_destroy(&proc_table[proc])` or `kproc_attach_tty(pid, tty_index)`. -/
inductive kproc_call where
  | create (proc_ptr : Nat) (proc_name : String) (proc_type : proc_type_t)
  | destroy (proc : Nat)
  | attach_tty (pid : Int) (tty_index : Int)
deriving DecidableEq, Repr

/-- The return value and the state after one call; `none` when the call does not
return. -/
def kproc_step (cfg : kconfig) (s : kernel_t) : kproc_call → Option (Int × kernel_t)
  | kproc_call.create p n t => kproc_create cfg s p n t
  | kproc_call.destroy i => kproc_destroy cfg s (some i)
  | kproc_call.attach_tty pid tty => some (kproc_attach_tty cfg s pid tty)

/-- The state after a sequence of calls and their return values in call order; `none`
when a call does not return. -/
def kproc_run (cfg : kconfig) : kernel_t → List kproc_call → Option (kernel_t × List Int)
  | s, [] => some (s, [])
  | s, c :: cs =>
    match kproc_step cfg s c with
    | none => none
    | some (rc, s1) =>
      match kproc_run cfg s1 cs with
      | none => none
      | some (s2, rcs) => some (s2, rc :: rcs)

/-- The pids returned by the successful `kproc_create` calls of a run, in call order
(`rcs` are the return values of the calls). -/
def created_pids : List kproc_call → List Int → List Int
  | kproc_call.create _ _ _ :: cs, rc :: rcs =>
      if rc = -1 then created_pids cs rcs else rc :: created_pids cs rcs
  | _ :: cs, _ :: rcs => created_pids cs rcs
  | _, _ => []

/-- The number of table slots in use (`pid >= 0`). -/
def procs_in_use (s : kernel_t) : Nat :=
  s.proc_table.countP (fun p => decide (0 ≤ p.pid))

instance (n : Nat) (q : queue_t) : Decidable (queue_wf n q) := by
  unfold queue_wf
  infer_instance

/-- A small configuration for worked examples: two process slots, queues of three cells. -/
def example_config : kconfig :=
  { QUEUE_SIZE := 3, PROC_MAX := 2, PROC_STACK_SIZE := 4096, PROC_NAME_LEN := 8,
    TRAPFRAME_SIZE := 64, TTY_MAX := 10, PROC_IO_IN := 0, PROC_IO_OUT := 1,
    EF_DEFAULT_VALUE := 2, EF_INTR := 512, get_cs := 8, get_ds := 16, get_es := 16,
    get_fs := 16, get_gs := 16, kproc_idle := 4096, prog_shell := 8192,
    prog_ping := 12288, prog_pong := 16384, SCHEDULER_TIMESLICE := 3, MUTEX_MAX := 2,
    SEM_MAX := 2 }

/-- The machine before `kproc_init`, after `scheduler_init` has emptied the run and the
sleep queue (for `example_config`); the process globals hold arbitrary values. -/
def example_start : kernel_t :=
  { next_pid := 77,
    proc_allocator := ⟨[5, 5, 5], 2, 1, 3⟩,
    proc_table := [proc_none, proc_none],
    active_proc := none,
    run_queue := queue_init 3 ⟨[0, 0, 0], 0, 0, 0⟩,
    sleep_queue := queue_init 3 ⟨[0, 0, 0], 0, 0, 0⟩,
    timer_ticks := 5,
    mutexes := [⟨0, 0, none, ⟨[0, 0, 0], 0, 0, 0⟩⟩, ⟨0, 0, none, ⟨[0, 0, 0], 0, 0, 0⟩⟩],
    mutex_queue := ⟨[0, 0, 0], 0, 0, 0⟩,
    semaphores := [⟨0, 0, ⟨[0, 0, 0], 0, 0, 0⟩⟩, ⟨0, 0, ⟨[0, 0, 0], 0, 0, 0⟩⟩],
    sem_queue := ⟨[0, 0, 0], 0, 0, 0⟩ }

/-- The machine after the reset part of `kproc_init`. -/
def example_reset : kernel_t :=
  kproc_init_reset example_config example_start

/-- The machine after `kproc_init`: the idle process and one shell fill the two slots,
the other creations of `kproc_init` fail. -/
def example_boot : kernel_t :=
  (kproc_init example_config example_start).getD example_start

/-- The machine after the reset and the creation of the idle process. -/
def example_idle : kernel_t :=
  ((kproc_create example_config example_reset 4096 "idle"
    proc_type_t.PROC_TYPE_KERNEL).map Prod.snd).getD example_reset

/-- The pids of the table: every slot carries a pid below `next_pid`, and no two slots
in use carry the same pid. -/
def pid_inv (cfg : kconfig) (s : kernel_t) : Prop :=
  s.proc_table.length = cfg.PROC_MAX ∧ 0 ≤ s.next_pid ∧
  (∀ i, (proc_at s i).pid < s.next_pid) ∧
  (∀ i j, 0 ≤ (proc_at s i).pid → (proc_at s i).pid = (proc_at s j).pid → i = j)

/-- The allocator against the table: the allocator is a well-formed queue without
duplicates, it holds exactly the indices of the slots whose pid is -1, and every other
slot has a pid >= 0. -/
def alloc_inv (cfg : kconfig) (s : kernel_t) : Prop :=
  queue_wf cfg.QUEUE_SIZE s.proc_allocator ∧
  (queue_contents cfg.QUEUE_SIZE s.proc_allocator).Nodup ∧
  (∀ x ∈ queue_contents cfg.QUEUE_SIZE s.proc_allocator,
    0 ≤ x ∧ x < (cfg.PROC_MAX : Int) ∧ (proc_at s x.toNat).pid = -1) ∧
  (∀ i, i < cfg.PROC_MAX → (proc_at s i).pid = -1 →
    (i : Int) ∈ queue_contents cfg.QUEUE_SIZE s.proc_allocator) ∧
  (∀ i, (proc_at s i).pid = -1 ∨ 0 ≤ (proc_at s i).pid)

/-- A run for worked examples: the idle process and a shell are created and the shell is
attached to TTY 2, a third creation fails (both slots are in use), the shell is
destroyed, and two more creations follow, the second of which fails. -/
def example_calls : List kproc_call :=
  [kproc_call.create 4096 "idle" proc_type_t.PROC_TYPE_KERNEL,
   kproc_call.create 8192 "shell" proc_type_t.PROC_TYPE_USER,
   kproc_call.attach_tty 1 2,
   kproc_call.create 8192 "late" proc_type_t.PROC_TYPE_USER,
   kproc_call.destroy 1,
   kproc_call.create 12288 "ping" proc_type_t.PROC_TYPE_USER,
   kproc_call.create 16384 "pong" proc_type_t.PROC_TYPE_USER]

/-- The final state and the return values of `example_calls` run from `example_reset`. -/
def example_run : kernel_t × List Int :=
  (kproc_run example_config example_reset example_calls).getD (example_start, [])

/-- The final state and the return values of `example_calls` run from `example_boot`. -/
def example_boot_run : kernel_t × List Int :=
  (kproc_run example_config example_boot example_calls).getD (example_start, [])

/-! ## scheduler.c: timer, run, sleep, init -/

/-- The slot `proc_table[p]` with the field values of `f` stored into it. -/
def proc_update (s : kernel_t) (p : Nat) (f : proc_t → proc_t) : kernel_t :=
  { s with proc_table := s.proc_table.set p (f (proc_at s p)) }

/-- The loop of scheduler.c `scheduler_timer` over the sleep queue,
`for(i = 0; i < sleep_queue.size; i++)` with the bound read again at every round:
dequeue a pid (`continue` when that fails or `pid_to_proc` yields NULL); a process with
`sleep_time == 1` gets `sleep_time = 0` and goes through `scheduler_add`, any other has
its `sleep_time` decremented and its pid queued back (the return value of that
`queue_in` is not looked at). `pid` is the local variable. The first argument bounds the
number of rounds; `none` when it is used up or `scheduler_add` panics. -/
def scheduler_timer_loop (cfg : kconfig) : Nat → Int → kernel_t → Int → Option kernel_t
  | 0, _, _, _ => none
  | fuel + 1, i, s, pid =>
    if i < s.sleep_queue.size then
      let r := queue_out cfg.QUEUE_SIZE s.sleep_queue pid
      let s1 : kernel_t := { s with sleep_queue := r.2.1 }
      if r.1 != 0 then scheduler_timer_loop cfg fuel (i + 1) s1 r.2.2
      else
        match pid_to_proc cfg s1 r.2.2 with
        | none => scheduler_timer_loop cfg fuel (i + 1) s1 r.2.2
        | some p =>
          if (proc_at s1 p).sleep_time == 1 then
            match scheduler_add cfg
                (proc_update s1 p (fun x => { x with sleep_time := 0 })) (some p) with
            | none => none
            | some s3 => scheduler_timer_loop cfg fuel (i + 1) s3 r.2.2
          else
            let s2 := proc_update s1 p (fun x => { x with sleep_time := x.sleep_time - 1 })
            let s3 : kernel_t :=
              { s2 with sleep_queue := (queue_in cfg.QUEUE_SIZE s2.sleep_queue r.2.2).2 }
            scheduler_timer_loop cfg fuel (i + 1) s3 r.2.2
    else some s

/-- scheduler.c `scheduler_timer`: `run_time++` and `cpu_time++` of the active process,
then the walk over the sleep queue (at most `size` rounds, as `i` grows and `size` does
not). -/
def scheduler_timer (cfg : kconfig) (s : kernel_t) : Option kernel_t :=
  let s1 : kernel_t :=
    match s.active_proc with
    | some a =>
      proc_update s a (fun x => { x with run_time := x.run_time + 1, cpu_time := x.cpu_time + 1 })
    | none => s
  if !queue_is_empty s1.sleep_queue then
    scheduler_timer_loop cfg (s1.sleep_queue.size.toNat + 1) 0 s1 0
  else some s1

/-- The first part of scheduler.c `scheduler_run`: an active process that is not in
state ACTIVE is unscheduled; an active process whose `cpu_time` has reached
SCHEDULER_TIMESLICE gets `cpu_time = 0`, goes through `scheduler_add` (or, for pid 0,
gets state IDLE) and is unscheduled. -/
def scheduler_run_preempt (cfg : kconfig) (s : kernel_t) : Option kernel_t :=
  let s1 : kernel_t :=
    match s.active_proc with
    | some a =>
      if (proc_at s a).state != proc_state_t.ACTIVE then { s with active_proc := none } else s
    | none => s
  match s1.active_proc with
  | none => some s1
  | some a =>
    if (proc_at s1 a).cpu_time ≥ (cfg.SCHEDULER_TIMESLICE : Int) then
      let s2 := proc_update s1 a (fun x => { x with cpu_time := 0 })
      if (proc_at s2 a).pid != 0 then
        match scheduler_add cfg s2 (some a) with
        | none => none
        | some s3 => some { s3 with active_proc := none }
      else
        some { proc_update s2 a (fun x => { x with state := proc_state_t.IDLE }) with
               active_proc := none }
    else some s1

/-- The second part of scheduler.c `scheduler_run`: without an active process, a pid is
taken from the run queue (pid 0 when that fails) and `active_proc = pid_to_proc(pid)`;
panic when there is still no active process; at the end the active process gets state
ACTIVE. -/
def scheduler_run_select (cfg : kconfig) (s : kernel_t) : Option kernel_t :=
  let s1 : kernel_t :=
    match s.active_proc with
    | some _ => s
    | none =>
      let r := queue_out cfg.QUEUE_SIZE s.run_queue 0
      let pid : Int := if r.1 != 0 then 0 else r.2.2
      let s0 : kernel_t := { s with run_queue := r.2.1 }
      { s0 with active_proc := pid_to_proc cfg s0 pid }
  match s1.active_proc with
  | none => none
  | some a => some (proc_update s1 a (fun x => { x with state := proc_state_t.ACTIVE }))

/-- scheduler.c `scheduler_run`; `none` is `kernel_panic`. -/
def scheduler_run (cfg : kconfig) (s : kernel_t) : Option kernel_t :=
  match scheduler_run_preempt cfg s with
  | none => none
  | some s1 => scheduler_run_select cfg s1

/-- scheduler.c `scheduler_sleep`: panic on NULL; `sleep_time = seconds`; nothing more
for a process that is SLEEPING already; else `scheduler_remove`, state SLEEPING and
`queue_in` on the sleep queue (a failure of which is only logged). -/
def scheduler_sleep (cfg : kconfig) (s : kernel_t) (proc : Option Nat) (seconds : Int) :
    Option kernel_t :=
  match proc with
  | none => none
  | some p =>
    let s1 := proc_update s p (fun x => { x with sleep_time := seconds })
    if (proc_at s1 p).state == proc_state_t.SLEEPING then some s1
    else
      match scheduler_remove cfg s1 (some p) with
      | none => none
      | some s2 =>
        let s3 := proc_update s2 p (fun x => { x with state := proc_state_t.SLEEPING })
        some { s3 with
          sleep_queue := (queue_in cfg.QUEUE_SIZE s3.sleep_queue (proc_at s3 p).pid).2 }

/-- scheduler.c `scheduler_init`: both queues emptied (the registration of
`scheduler_timer` with the timer is not part of the state). -/
def scheduler_init (cfg : kconfig) (s : kernel_t) : kernel_t :=
  { s with run_queue := queue_init cfg.QUEUE_SIZE s.run_queue,
           sleep_queue := queue_init cfg.QUEUE_SIZE s.sleep_queue }

/-- One timer tick as the kernel sees it: `scheduler_timer` (called back by the timer
interrupt), then `scheduler_run` (called by `kernel_context_enter`). -/
def tick (cfg : kconfig) (s : kernel_t) : Option kernel_t :=
  match scheduler_timer cfg s with
  | none => none
  | some s1 => scheduler_run cfg s1

/-- The state after `n` timer ticks. -/
def ticks (cfg : kconfig) : Nat → kernel_t → Option kernel_t
  | 0, s => some s
  | n + 1, s =>
    match tick cfg s with
    | none => none
    | some s1 => ticks cfg n s1

/-- The product of two `int` values as the 32-bit machine computes it: the low 32 bits of
the exact product, read as a signed number. -/
def int_mul (a b : Int) : Int :=
  (a * b + 2147483648) % 4294967296 - 2147483648

/-- ksyscall.c `ksyscall_proc_sleep`: -1 for a negative argument, else
`scheduler_sleep(active_proc, seconds * 100)` and 0. -/
def ksyscall_proc_sleep (cfg : kconfig) (s : kernel_t) (seconds : Int) :
    Option (Int × kernel_t) :=
  if seconds < 0 then some (-1, s)
  else
    match scheduler_sleep cfg s s.active_proc (int_mul seconds 100) with
    | none => none
    | some s1 => some (0, s1)

/-- ksyscall.c `ksyscall_proc_exit`: -1 without an active process, else
`kproc_destroy(active_proc)`. -/
def ksyscall_proc_exit (cfg : kconfig) (s : kernel_t) : Option (Int × kernel_t) :=
  match s.active_proc with
  | none => some (-1, s)
  | some a => kproc_destroy cfg s (some a)

/-- The machine the boot code would leave with the idle process alone: `scheduler_init`,
the reset part of `kproc_init`, then `kproc_create(&kproc_idle, "idle", PROC_TYPE_KERNEL)`. -/
def boot_idle (cfg : kconfig) (s0 : kernel_t) : Option kernel_t :=
  (kproc_create cfg (kproc_init_reset cfg (scheduler_init cfg s0)) cfg.kproc_idle "idle"
    proc_type_t.PROC_TYPE_KERNEL).map Prod.snd

/-- A machine on which only the idle process, in slot `i`, can run: both scheduler queues
are empty and the active process, if there is one, is the idle process. -/
def idle_only (cfg : kconfig) (s : kernel_t) (i : Nat) : Prop :=
  pid_inv cfg s ∧ (proc_at s i).pid = 0 ∧ queue_is_empty s.run_queue = true ∧
  queue_is_empty s.sleep_queue = true ∧ (s.active_proc = none ∨ s.active_proc = some i)

/-- The machine the boot code would leave with the idle process and two user processes:
`boot_idle`, then `kproc_create` of A and of B. -/
def boot_two (cfg : kconfig) (s0 : kernel_t) : Option kernel_t :=
  match boot_idle cfg s0 with
  | none => none
  | some s1 =>
    match kproc_create cfg s1 cfg.prog_ping "ping" proc_type_t.PROC_TYPE_USER with
    | none => none
    | some (_, s2) =>
      (kproc_create cfg s2 cfg.prog_pong "pong" proc_type_t.PROC_TYPE_USER).map Prod.snd

/-- A configuration for worked examples with three process slots, queues of four cells
and a time slice of three ticks. -/
def rr_config : kconfig :=
  { example_config with QUEUE_SIZE := 4, PROC_MAX := 3, SCHEDULER_TIMESLICE := 3 }

/-- The machine before `scheduler_init` and `kproc_init` (for `rr_config`): the globals
hold arbitrary values, `active_proc` is null. -/
def rr_start : kernel_t :=
  { next_pid := 9,
    proc_allocator := ⟨[7, 7, 7, 7], 1, 2, 2⟩,
    proc_table := [proc_none, proc_none, proc_none],
    active_proc := none,
    run_queue := ⟨[3, 3, 3, 3], 0, 0, 1⟩,
    sleep_queue := ⟨[0, 0, 0, 0], 0, 0, 0⟩,
    timer_ticks := 0,
    mutexes := [⟨0, 0, none, ⟨[0, 0, 0, 0], 0, 0, 0⟩⟩, ⟨0, 0, none, ⟨[0, 0, 0, 0], 0, 0, 0⟩⟩],
    mutex_queue := ⟨[0, 0, 0, 0], 0, 0, 0⟩,
    semaphores := [⟨0, 0, ⟨[0, 0, 0, 0], 0, 0, 0⟩⟩, ⟨0, 0, ⟨[0, 0, 0, 0], 0, 0, 0⟩⟩],
    sem_queue := ⟨[0, 0, 0, 0], 0, 0, 0⟩ }

/-- The machine after the boot with the idle process, A (pid 1, slot 1) and B (pid 2,
slot 2), for `rr_config`. -/
def rr_boot : kernel_t :=
  (boot_two rr_config rr_start).getD rr_start

/-- Two sleepers: from `rr_boot`, A is put to sleep for one tick and B for five. -/
def rr_sleepers : kernel_t :=
  ((scheduler_sleep rr_config rr_boot (some 1) 1).bind
    (fun s => scheduler_sleep rr_config s (some 2) 5)).getD rr_boot

/-! ## kmutex.c -/

/-- The entry `mutexes[i]`; an index outside the table yields a placeholder. -/
def mutex_at (s : kernel_t) (i : Nat) : mutex_t :=
  s.mutexes.getD i ⟨0, 0, none, ⟨[], -1, -1, 0⟩⟩

/-- An assignment through the pointer `mutex = &mutexes[i]`. -/
def mutex_update (s : kernel_t) (i : Nat) (f : mutex_t → mutex_t) : kernel_t :=
  { s with mutexes := s.mutexes.set i (f (mutex_at s i)) }

/-- A loop `for(i = 0; i < n; i++) if(queue_in(q, i) != 0) return -1;` followed by
`return 0`: the return code and the queue. -/
def queue_fill (QUEUE_SIZE : Nat) (n : Nat) (q : queue_t) : Int × queue_t :=
  (List.range n).foldl
    (fun (st : Int × queue_t) (i : Nat) =>
      if st.1 != 0 then st
      else
        let r := queue_in QUEUE_SIZE st.2 (i : Int)
        if r.1 != 0 then (-1, r.2) else (0, r.2))
    (0, q)

/-- kmutex.c `kmutexes_init`: every table entry gets `allocated = 0`, `locks = 0`, no
owner and an initialised wait queue; the id queue is initialised and filled with
0 .. MUTEX_MAX-1 (-1 as soon as a `queue_in` fails). -/
def kmutexes_init (cfg : kconfig) (s : kernel_t) : Int × kernel_t :=
  let r := queue_fill cfg.QUEUE_SIZE cfg.MUTEX_MAX (queue_init cfg.QUEUE_SIZE s.mutex_queue)
  (r.1, { s with
    mutexes := (List.range cfg.MUTEX_MAX).map (fun (i : Nat) =>
      { allocated := 0, locks := 0, owner := none,
        wait_queue := queue_init cfg.QUEUE_SIZE (mutex_at s i).wait_queue }),
    mutex_queue := r.2 })

/-- kmutex.c `kmutex_init`: an id is taken from the id queue (-1 when that fails or the
id is out of range); the entry is zeroed by `memset`, its wait queue initialised and
`allocated` set to 1; the id is returned. -/
def kmutex_init (cfg : kconfig) (s : kernel_t) : Int × kernel_t :=
  let r := queue_out cfg.QUEUE_SIZE s.mutex_queue (-1)
  let s1 : kernel_t := { s with mutex_queue := r.2.1 }
  if r.1 != 0 then (-1, s1)
  else
    let id := r.2.2
    if id < 0 ∨ id ≥ (cfg.MUTEX_MAX : Int) then (-1, s1)
    else
      (id, mutex_update s1 id.toNat (fun _ =>
        { allocated := 1, locks := 0, owner := none,
          wait_queue := queue_init cfg.QUEUE_SIZE ⟨List.replicate cfg.QUEUE_SIZE 0, 0, 0, 0⟩ }))

/-- kmutex.c `kmutex_lock`: -1 for an id out of range. With an owner: -1 without an
active process; else the active process gets state WAITING, its pid is queued on the
wait queue (-1 when that fails) and it goes through `scheduler_remove`. Without an
owner: the active process becomes the owner. Then `locks++`, which is returned. `none`
is a panic of `scheduler_remove`. -/
def kmutex_lock (cfg : kconfig) (s : kernel_t) (id : Int) : Option (Int × kernel_t) :=
  if id < 0 ∨ id ≥ (cfg.MUTEX_MAX : Int) then some (-1, s)
  else
    let i := id.toNat
    match (mutex_at s i).owner with
    | some _ =>
      match s.active_proc with
      | none => some (-1, s)
      | some a =>
        let s1 := proc_update s a (fun x => { x with state := proc_state_t.WAITING })
        let r := queue_in cfg.QUEUE_SIZE (mutex_at s1 i).wait_queue (proc_at s1 a).pid
        let s2 := mutex_update s1 i (fun m => { m with wait_queue := r.2 })
        if r.1 != 0 then some (-1, s2)
        else
          match scheduler_remove cfg s2 (some a) with
          | none => none
          | some s3 =>
            let s4 := mutex_update s3 i (fun m => { m with locks := m.locks + 1 })
            some ((mutex_at s4 i).locks, s4)
    | none =>
      let s1 := mutex_update s i (fun m => { m with owner := s.active_proc })
      let s2 := mutex_update s1 i (fun m => { m with locks := m.locks + 1 })
      some ((mutex_at s2 i).locks, s2)

/-- kmutex.c `kmutex_unlock`: -1 for an id out of range, 0 without an owner; else
`locks--`; at 0 the owner is cleared; otherwise a pid is taken from the wait queue (-1
when that fails), `scheduler_add(pid_to_proc(pid))` runs (`none` when it panics) and that
process becomes the owner. The lock count is returned. -/
def kmutex_unlock (cfg : kconfig) (s : kernel_t) (id : Int) : Option (Int × kernel_t) :=
  if id < 0 ∨ id ≥ (cfg.MUTEX_MAX : Int) then some (-1, s)
  else
    let i := id.toNat
    match (mutex_at s i).owner with
    | none => some (0, s)
    | some _ =>
      let s1 := mutex_update s i (fun m => { m with locks := m.locks - 1 })
      if (mutex_at s1 i).locks == 0 then
        let s2 := mutex_update s1 i (fun m => { m with owner := none })
        some ((mutex_at s2 i).locks, s2)
      else
        let r := queue_out cfg.QUEUE_SIZE (mutex_at s1 i).wait_queue (-1)
        let s2 := mutex_update s1 i (fun m => { m with wait_queue := r.2.1 })
        if r.1 != 0 then some (-1, s2)
        else
          let proc := pid_to_proc cfg s2 r.2.2
          match scheduler_add cfg s2 proc with
          | none => none
          | some s3 =>
            let s4 := mutex_update s3 i (fun m => { m with owner := proc })
            some ((mutex_at s4 i).locks, s4)
/-! ## ksem.c -/

/-- The entry `semaphores[i]`; an index outside the table yields a placeholder. -/
def sem_at (s : kernel_t) (i : Nat) : sem_t :=
  s.semaphores.getD i ⟨0, 0, ⟨[], -1, -1, 0⟩⟩

/-- An assignment through the pointer `sem = &semaphores[i]`. -/
def sem_update (s : kernel_t) (i : Nat) (f : sem_t → sem_t) : kernel_t :=
  { s with semaphores := s.semaphores.set i (f (sem_at s i)) }

/-- ksem.c `ksemaphores_init`: every table entry gets `allocated = 0`, `count = 0` and an
initialised wait queue; the id queue is initialised and filled with 0 .. SEM_MAX-1 (-1 as
soon as a `queue_in` fails). -/
def ksemaphores_init (cfg : kconfig) (s : kernel_t) : Int × kernel_t :=
  let r := queue_fill cfg.QUEUE_SIZE cfg.SEM_MAX (queue_init cfg.QUEUE_SIZE s.sem_queue)
  (r.1, { s with
    semaphores := (List.range cfg.SEM_MAX).map (fun (i : Nat) =>
      { allocated := 0, count := 0,
        wait_queue := queue_init cfg.QUEUE_SIZE (sem_at s i).wait_queue }),
    sem_queue := r.2 })

/-- ksem.c `ksem_init`: an id is taken from the id queue (-1 when that fails or the id is
out of range); the entry is zeroed by `memset`, `allocated` set to 1, `count` to the
value, and its wait queue initialised; the id is returned. -/
def ksem_init (cfg : kconfig) (s : kernel_t) (value : Int) : Int × kernel_t :=
  let r := queue_out cfg.QUEUE_SIZE s.sem_queue (-1)
  let s1 : kernel_t := { s with sem_queue := r.2.1 }
  if r.1 != 0 then (-1, s1)
  else
    let sem_id := r.2.2
    if sem_id < 0 ∨ sem_id ≥ (cfg.SEM_MAX : Int) then (-1, s1)
    else
      (sem_id, sem_update s1 sem_id.toNat (fun _ =>
        { allocated := 1, count := value,
          wait_queue := queue_init cfg.QUEUE_SIZE ⟨List.replicate cfg.QUEUE_SIZE 0, 0, 0, 0⟩ }))

/-- ksem.c `ksem_wait`: -1 for an id out of range or a semaphore that is not allocated.
At count 0: -1 without an active process; else the active process gets state WAITING,
its pid is queued on the wait queue (-1 when that fails), it goes through
`scheduler_remove` and 0 is returned. At a positive count: `count--`, which is returned.
Else -1. `none` is a panic of `scheduler_remove`. -/
def ksem_wait (cfg : kconfig) (s : kernel_t) (id : Int) : Option (Int × kernel_t) :=
  if id < 0 ∨ id ≥ (cfg.SEM_MAX : Int) then some (-1, s)
  else
    let i := id.toNat
    if (sem_at s i).allocated == 0 then some (-1, s)
    else if (sem_at s i).count == 0 then
      match s.active_proc with
      | none => some (-1, s)
      | some a =>
        let s1 := proc_update s a (fun x => { x with state := proc_state_t.WAITING })
        let r := queue_in cfg.QUEUE_SIZE (sem_at s1 i).wait_queue (proc_at s1 a).pid
        let s2 := sem_update s1 i (fun m => { m with wait_queue := r.2 })
        if r.1 != 0 then some (-1, s2)
        else
          match scheduler_remove cfg s2 (some a) with
          | none => none
          | some s3 => some (0, s3)
    else if (sem_at s i).count > 0 then
      let s1 := sem_update s i (fun m => { m with count := m.count - 1 })
      some ((sem_at s1 i).count, s1)
    else some (-1, s)

/-- ksem.c `ksem_post`, which does not check the id: `none` (an access outside the
table) for an id out of range. -1 for a semaphore that is not allocated; else `count++`;
with a waiter, a pid is taken from the wait queue, `scheduler_add(pid_to_proc(pid))` runs
(`none` when it panics), `count--`, and the count is returned; without one, -1. -/
def ksem_post (cfg : kconfig) (s : kernel_t) (id : Int) : Option (Int × kernel_t) :=
  if id < 0 ∨ id ≥ (cfg.SEM_MAX : Int) then none
  else
    let i := id.toNat
    if (sem_at s i).allocated == 0 then some (-1, s)
    else
      let s1 := sem_update s i (fun m => { m with count := m.count + 1 })
      if !queue_is_empty (sem_at s1 i).wait_queue then
        let r := queue_out cfg.QUEUE_SIZE (sem_at s1 i).wait_queue (-1)
        let s2 := sem_update s1 i (fun m => { m with wait_queue := r.2.1 })
        if r.1 != 0 then some (-1, s2)
        else
          match scheduler_add cfg s2 (pid_to_proc cfg s2 r.2.2) with
          | none => none
          | some s3 =>
            let s4 := sem_update s3 i (fun m => { m with count := m.count - 1 })
            some ((sem_at s4 i).count, s4)
      else some (-1, s1)

/-! ## ksyscall.c: the mutex and semaphore calls -/

/-- ksyscall.c `ksyscall_mutex_init`. -/
def ksyscall_mutex_init (cfg : kconfig) (s : kernel_t) : Int × kernel_t :=
  kmutex_init cfg s

/-- ksyscall.c `ksyscall_mutex_lock`: -1 for `mutex < 0 || mutex > MUTEX_MAX`, else
`kmutex_lock`. -/
def ksyscall_mutex_lock (cfg : kconfig) (s : kernel_t) (mutex : Int) : Option (Int × kernel_t) :=
  if mutex < 0 ∨ mutex > (cfg.MUTEX_MAX : Int) then some (-1, s) else kmutex_lock cfg s mutex

/-- ksyscall.c `ksyscall_mutex_unlock`: -1 for `mutex < 0 || mutex > MUTEX_MAX`, else
`kmutex_unlock`. -/
def ksyscall_mutex_unlock (cfg : kconfig) (s : kernel_t) (mutex : Int) :
    Option (Int × kernel_t) :=
  if mutex < 0 ∨ mutex > (cfg.MUTEX_MAX : Int) then some (-1, s) else kmutex_unlock cfg s mutex

/-- ksyscall.c `ksyscall_sem_init`: -1 for `value < 0 || value > SEM_MAX`, else
`ksem_init`. -/
def ksyscall_sem_init (cfg : kconfig) (s : kernel_t) (value : Int) : Int × kernel_t :=
  if value < 0 ∨ value > (cfg.SEM_MAX : Int) then (-1, s) else ksem_init cfg s value

/-- ksyscall.c `ksyscall_sem_wait`: -1 for `sem < 0 || sem > SEM_MAX`, else `ksem_wait`. -/
def ksyscall_sem_wait (cfg : kconfig) (s : kernel_t) (sem : Int) : Option (Int × kernel_t) :=
  if sem < 0 ∨ sem > (cfg.SEM_MAX : Int) then some (-1, s) else ksem_wait cfg s sem

/-- ksyscall.c `ksyscall_sem_post`: -1 for `sem < 0 || sem > SEM_MAX`, else `ksem_post`. -/
def ksyscall_sem_post (cfg : kconfig) (s : kernel_t) (sem : Int) : Option (Int × kernel_t) :=
  if sem < 0 ∨ sem > (cfg.SEM_MAX : Int) then some (-1, s) else ksem_post cfg s sem

/-- The machine of `rr_boot` after `kmutexes_init`, `ksemaphores_init` and a first tick:
A (slot 1) is the active process. -/
def rr_running : kernel_t :=
  (tick rr_config (ksemaphores_init rr_config (kmutexes_init rr_config rr_boot).2).2).getD rr_boot

/-- The machine of `rr_running` after A has locked mutex 0. -/
def rr_locked : kernel_t :=
  ((kmutex_lock rr_config rr_running 0).map Prod.snd).getD rr_running

/-- How a state `s2` reached by the sleeper walk of `scheduler_timer` relates to the
state `s1` the walk started from: only the process table, the run queue and the sleep
queue change; no pid and no run_time changes; a cpu_time stays or becomes 0; a slot whose
pid is not on the sleep queue of `s1` is untouched; the run queue grows at the tail by a
list `W` of positive pids that processes of the table carry, and `W` with the new
sleep queue takes its entries from the old sleep queue. -/
def timer_rel (cfg : kconfig) (s1 s2 : kernel_t) : Prop :=
  s2.next_pid = s1.next_pid ∧ s2.proc_allocator = s1.proc_allocator ∧
  s2.active_proc = s1.active_proc ∧ s2.timer_ticks = s1.timer_ticks ∧
  s2.mutexes = s1.mutexes ∧ s2.mutex_queue = s1.mutex_queue ∧
  s2.semaphores = s1.semaphores ∧ s2.sem_queue = s1.sem_queue ∧
  s2.proc_table.length = s1.proc_table.length ∧
  (∀ j, (proc_at s2 j).pid = (proc_at s1 j).pid ∧
    (proc_at s2 j).run_time = (proc_at s1 j).run_time) ∧
  (∀ j, (proc_at s2 j).cpu_time = (proc_at s1 j).cpu_time ∨ (proc_at s2 j).cpu_time = 0) ∧
  (∀ j, (proc_at s1 j).pid ∉ queue_contents cfg.QUEUE_SIZE s1.sleep_queue →
    proc_at s2 j = proc_at s1 j) ∧
  queue_wf cfg.QUEUE_SIZE s2.run_queue ∧ queue_wf cfg.QUEUE_SIZE s2.sleep_queue ∧
  ∃ W, queue_contents cfg.QUEUE_SIZE s2.run_queue
      = queue_contents cfg.QUEUE_SIZE s1.run_queue ++ W ∧
    (W ++ queue_contents cfg.QUEUE_SIZE s2.sleep_queue).Subperm
      (queue_contents cfg.QUEUE_SIZE s1.sleep_queue) ∧
    ∀ w ∈ W, 0 < w ∧ ∃ p, (proc_at s1 p).pid = w

/-- The first part of scheduler.c `scheduler_timer`: `run_time++` and `cpu_time++` of the
active process, if there is one. -/
def scheduler_timer_charge (s : kernel_t) : kernel_t :=
  match s.active_proc with
  | some a =>
    proc_update s a (fun x => { x with run_time := x.run_time + 1, cpu_time := x.cpu_time + 1 })
  | none => s

/-- The machine of `rr_boot` after three ticks: A (slot 1) is active and has used two
ticks of its time slice; B (pid 2) is on the run queue. -/
def rr_three : kernel_t :=
  (ticks rr_config 3 rr_boot).getD rr_boot

/-- How the state `s2` returned by `scheduler_run` relates to the state `s1` it was
called on. Outside the process table, the run queue and `active_proc` nothing changes;
no pid, run_time or sleep_time changes. There is an active process `j` afterwards, in
state ACTIVE; `E` is what the first half appended to the run queue (nothing, or the pid,
other than 0, of the process that was active). Either `j` was active before and the run
queue is as it was, or its pid was the head of the run queue followed by `E`, of which
the rest remains, or that list was empty and `j` carries pid 0. A slot other than `j`
that was not the active one is untouched. -/
def run_rel (cfg : kconfig) (s1 s2 : kernel_t) : Prop :=
  s2.next_pid = s1.next_pid ∧ s2.proc_allocator = s1.proc_allocator ∧
  s2.sleep_queue = s1.sleep_queue ∧ s2.mutexes = s1.mutexes ∧
  s2.semaphores = s1.semaphores ∧ s2.proc_table.length = s1.proc_table.length ∧
  (∀ k, (proc_at s2 k).pid = (proc_at s1 k).pid ∧
    (proc_at s2 k).run_time = (proc_at s1 k).run_time ∧
    (proc_at s2 k).sleep_time = (proc_at s1 k).sleep_time) ∧
  queue_wf cfg.QUEUE_SIZE s2.run_queue ∧
  ∃ j, s2.active_proc = some j ∧ (proc_at s2 j).state = proc_state_t.ACTIVE ∧
    (∀ k, k ≠ j → s1.active_proc ≠ some k → proc_at s2 k = proc_at s1 k) ∧
    ∃ E : List Int,
      (E = [] ∨ ∃ a, s1.active_proc = some a ∧ E = [(proc_at s1 a).pid] ∧
        (proc_at s1 a).pid ≠ 0) ∧
      ((s1.active_proc = some j ∧ E = [] ∧
          queue_contents cfg.QUEUE_SIZE s2.run_queue
            = queue_contents cfg.QUEUE_SIZE s1.run_queue) ∨
       (0 ≤ (proc_at s1 j).pid ∧
          queue_contents cfg.QUEUE_SIZE s1.run_queue ++ E
            = (proc_at s1 j).pid :: queue_contents cfg.QUEUE_SIZE s2.run_queue) ∨
       (queue_contents cfg.QUEUE_SIZE s1.run_queue ++ E = [] ∧
          queue_contents cfg.QUEUE_SIZE s2.run_queue = [] ∧ (proc_at s1 j).pid = 0))

/-- The run-queue slots the machine may still need: one for every queued pid, for every
sleeper, and for the active process unless it is the idle process. -/
def sched_load (cfg : kconfig) (s : kernel_t) : Nat :=
  (queue_contents cfg.QUEUE_SIZE s.run_queue).length
    + (queue_contents cfg.QUEUE_SIZE s.sleep_queue).length
    + (match s.active_proc with
       | none => 0
       | some a => if (proc_at s a).pid = 0 then 0 else 1)

/-- A machine on which the scheduler cannot panic: the process table is sound, both
queues are well formed, the idle process exists, the run queue holds pids of live
processes, the active process (if any) is live, and the run queue is large enough for
`sched_load`. -/
def sched_ok (cfg : kconfig) (s : kernel_t) : Prop :=
  pid_inv cfg s ∧ queue_wf cfg.QUEUE_SIZE s.run_queue ∧ queue_wf cfg.QUEUE_SIZE s.sleep_queue ∧
  (∃ i, (proc_at s i).pid = 0) ∧
  (∀ x ∈ queue_contents cfg.QUEUE_SIZE s.run_queue, 0 ≤ x ∧ ∃ j, (proc_at s j).pid = x) ∧
  (∀ a, s.active_proc = some a → 0 ≤ (proc_at s a).pid) ∧
  sched_load cfg s ≤ cfg.QUEUE_SIZE

/-- The process in slot `x` is the only sleeper: its pid, which is positive, is the one
entry of the sleep queue and is not on the run queue, it is in state SLEEPING with
`k` ticks left, and it is not the active process. -/
def sole_sleeper (cfg : kconfig) (s : kernel_t) (x : Nat) (k : Int) : Prop :=
  queue_contents cfg.QUEUE_SIZE s.sleep_queue = [(proc_at s x).pid] ∧
  (proc_at s x).state = proc_state_t.SLEEPING ∧ (proc_at s x).sleep_time = k ∧
  0 < (proc_at s x).pid ∧
  (proc_at s x).pid ∉ queue_contents cfg.QUEUE_SIZE s.run_queue ∧
  s.active_proc ≠ some x

/-- Two user processes taking turns: `x` is active, in state ACTIVE, with cpu_time `c`
and run_time `rx`; `y` waits alone on the run queue with cpu_time 0 and run_time `ry`;
nobody sleeps. -/
def rr_state (cfg : kconfig) (s : kernel_t) (x y : Nat) (rx ry c : Int) : Prop :=
  pid_inv cfg s ∧ queue_wf cfg.QUEUE_SIZE s.run_queue ∧
  queue_is_empty s.sleep_queue = true ∧ 2 ≤ cfg.QUEUE_SIZE ∧
  s.active_proc = some x ∧ (proc_at s x).state = proc_state_t.ACTIVE ∧
  0 < (proc_at s x).pid ∧ 0 < (proc_at s y).pid ∧ x ≠ y ∧
  queue_contents cfg.QUEUE_SIZE s.run_queue = [(proc_at s y).pid] ∧
  (proc_at s x).run_time = rx ∧ (proc_at s x).cpu_time = c ∧
  (proc_at s y).run_time = ry ∧ (proc_at s y).cpu_time = 0

/-! ## The kernel as a transition system -/

/-- The pids on the wait queues of all mutexes and all semaphores. -/
def wait_pids (cfg : kconfig) (s : kernel_t) : List Int :=
  (s.mutexes.map (fun m => queue_contents cfg.QUEUE_SIZE m.wait_queue)).flatten
    ++ (s.semaphores.map (fun m => queue_contents cfg.QUEUE_SIZE m.wait_queue)).flatten

/-- The pids on the run queue, the sleep queue and all wait queues, with repetitions. -/
def queued_pids (cfg : kconfig) (s : kernel_t) : List Int :=
  queue_contents cfg.QUEUE_SIZE s.run_queue ++ queue_contents cfg.QUEUE_SIZE s.sleep_queue
    ++ wait_pids cfg s

/-- An event the kernel reacts to: the timer interrupt (`scheduler_timer`, then
`scheduler_run`), `scheduler_run` alone (the end of any other interrupt), a system call of
the active process (the handler, then `scheduler_run`), or a call of `kproc_create` or
`kproc_destroy` from kernel code. -/
inductive kernel_event where
  | tick
  | run
  | proc_sleep (seconds : Int)
  | proc_exit
  | mutex_init
  | mutex_lock (mutex : Int)
  | mutex_unlock (mutex : Int)
  | sem_init (value : Int)
  | sem_wait (sem : Int)
  | sem_post (sem : Int)
  | create (proc_ptr : Nat) (proc_name : String) (proc_type : proc_type_t)
  | destroy (proc : Option Nat)
deriving DecidableEq, Repr

/-- Whether the event is a system call. -/
def kernel_event.is_syscall : kernel_event → Bool
  | kernel_event.proc_sleep _ => true
  | kernel_event.proc_exit => true
  | kernel_event.mutex_init => true
  | kernel_event.mutex_lock _ => true
  | kernel_event.mutex_unlock _ => true
  | kernel_event.sem_init _ => true
  | kernel_event.sem_wait _ => true
  | kernel_event.sem_post _ => true
  | _ => false

/-- The handler that ksyscall.c `ksyscall_irq_handler` dispatches to, with its return
value (`none` when it panics or runs outside a table). -/
def ksyscall_dispatch (cfg : kconfig) (s : kernel_t) : kernel_event → Option (Int × kernel_t)
  | kernel_event.proc_sleep seconds => ksyscall_proc_sleep cfg s seconds
  | kernel_event.proc_exit => ksyscall_proc_exit cfg s
  | kernel_event.mutex_init => some (ksyscall_mutex_init cfg s)
  | kernel_event.mutex_lock mutex => ksyscall_mutex_lock cfg s mutex
  | kernel_event.mutex_unlock mutex => ksyscall_mutex_unlock cfg s mutex
  | kernel_event.sem_init value => some (ksyscall_sem_init cfg s value)
  | kernel_event.sem_wait sem => ksyscall_sem_wait cfg s sem
  | kernel_event.sem_post sem => ksyscall_sem_post cfg s sem
  | _ => none

/-- The state after the kernel has handled one event; `none` when it panics. A system
call goes through `ksyscall_irq_handler` (panic without an active process), then
`scheduler_run` as in kernel.c `kernel_context_enter`. -/
def kernel_step (cfg : kconfig) (s : kernel_t) (e : kernel_event) : Option kernel_t :=
  match e with
  | kernel_event.tick => tick cfg s
  | kernel_event.run => scheduler_run cfg s
  | kernel_event.create p n t => (kproc_create cfg s p n t).map Prod.snd
  | kernel_event.destroy p => (kproc_destroy cfg s p).map Prod.snd
  | e =>
    match s.active_proc with
    | none => none
    | some _ =>
      match ksyscall_dispatch cfg s e with
      | none => none
      | some r => scheduler_run cfg r.2

/-- The state after a sequence of events; `none` when the kernel panics on the way. -/
def kernel_run (cfg : kconfig) : kernel_t → List kernel_event → Option kernel_t
  | s, [] => some s
  | s, e :: es =>
    match kernel_step cfg s e with
    | none => none
    | some s1 => kernel_run cfg s1 es

/-- No system call of the sequence is made while the idle process (pid 0) is the active
one: kproc.c `kproc_idle` only halts the processor. -/
def syscalls_by_users (cfg : kconfig) : kernel_t → List kernel_event → Bool
  | _, [] => true
  | s, e :: es =>
    (!e.is_syscall ||
      (match s.active_proc with
       | none => true
       | some a => (proc_at s a).pid != 0)) &&
    (match kernel_step cfg s e with
     | none => true
     | some s1 => syscalls_by_users cfg s1 es)

/-- The boot of main.c as far as it concerns processes: `scheduler_init`, `kproc_init`,
`kmutexes_init`, `ksemaphores_init`. -/
def boot (cfg : kconfig) (s0 : kernel_t) : Option kernel_t :=
  match kproc_init cfg (scheduler_init cfg s0) with
  | none => none
  | some s1 => some (ksemaphores_init cfg (kmutexes_init cfg s1).2).2

/-- The memory the boot starts from: the queue arrays have QUEUE_SIZE cells, the mutex and
semaphore tables have MUTEX_MAX and SEM_MAX entries, `active_proc` is null and no wait
queue has a size other than 0 (static storage is zeroed), and a queue can hold an index
for every process slot. -/
def boot_memory (cfg : kconfig) (s0 : kernel_t) : Prop :=
  cfg.PROC_MAX ≤ cfg.QUEUE_SIZE ∧
  s0.proc_allocator.items.length = cfg.QUEUE_SIZE ∧
  s0.run_queue.items.length = cfg.QUEUE_SIZE ∧
  s0.sleep_queue.items.length = cfg.QUEUE_SIZE ∧
  s0.mutexes.length = cfg.MUTEX_MAX ∧ s0.semaphores.length = cfg.SEM_MAX ∧
  (∀ m ∈ s0.mutexes, m.wait_queue.items.length = cfg.QUEUE_SIZE ∧ m.wait_queue.size = 0) ∧
  (∀ m ∈ s0.semaphores, m.wait_queue.items.length = cfg.QUEUE_SIZE ∧ m.wait_queue.size = 0) ∧
  s0.active_proc = none

/-- State exclusivity and what it rests on, wait queues apart: the table and the
allocator are sound, the run and the sleep queue are well formed, no pid is queued twice,
every queued pid is positive and below `next_pid`, and the active process is live and not
queued. -/
def excl_weak (cfg : kconfig) (s : kernel_t) : Prop :=
  pid_inv cfg s ∧ alloc_inv cfg s ∧
  queue_wf cfg.QUEUE_SIZE s.run_queue ∧ queue_wf cfg.QUEUE_SIZE s.sleep_queue ∧
  (queued_pids cfg s).Nodup ∧
  (∀ p ∈ queued_pids cfg s, 0 < p ∧ p < s.next_pid) ∧
  (∀ a, s.active_proc = some a →
    0 ≤ (proc_at s a).pid ∧ (proc_at s a).pid ∉ queued_pids cfg s)

/-- The invariant behind state exclusivity: `excl_weak` and well-formed wait queues. -/
def excl_inv (cfg : kconfig) (s : kernel_t) : Prop :=
  excl_weak cfg s ∧
  (∀ m ∈ s.mutexes, queue_wf cfg.QUEUE_SIZE m.wait_queue) ∧
  (∀ m ∈ s.semaphores, queue_wf cfg.QUEUE_SIZE m.wait_queue)

/-- Two states with the same scheduling data: table size, `next_pid`, the pid of every
slot, the allocator, the run queue, the sleep queue and `active_proc`. -/
def frame_eq (s s' : kernel_t) : Prop :=
  s'.proc_table.length = s.proc_table.length ∧ s'.next_pid = s.next_pid ∧
  (∀ j, (proc_at s' j).pid = (proc_at s j).pid) ∧
  s'.proc_allocator = s.proc_allocator ∧ s'.run_queue = s.run_queue ∧
  s'.sleep_queue = s.sleep_queue ∧ s'.active_proc = s.active_proc

/-- A run for `rr_config` after the boot (idle, shell A with pid 1, shell B with pid 2):
A is selected, takes mutex 0 and sets up semaphore 0; after the time slice of A, B runs,
asks for the mutex and is parked; A releases the mutex and then waits on the semaphore,
where it is parked; B goes to sleep, so that the idle process runs; A is destroyed and a
process with pid 3 is created in its slot; when it runs it asks for the mutex and is
parked. At the end pid 2 is on the sleep queue and pids 3 and 1 are on wait queues. -/
def excl_events : List kernel_event :=
  [kernel_event.tick, kernel_event.mutex_init, kernel_event.mutex_lock 0,
   kernel_event.sem_init 0, kernel_event.tick, kernel_event.tick, kernel_event.tick,
   kernel_event.mutex_lock 0, kernel_event.mutex_unlock 0, kernel_event.sem_wait 0,
   kernel_event.proc_sleep 1, kernel_event.tick, kernel_event.destroy (some 1),
   kernel_event.create 12288 "ping" proc_type_t.PROC_TYPE_USER,
   kernel_event.tick, kernel_event.tick, kernel_event.tick, kernel_event.tick,
   kernel_event.mutex_lock 0, kernel_event.tick, kernel_event.run]

/-- The machine the boot leaves for `rr_config` from `rr_start`. -/
def excl_booted : kernel_t :=
  (boot rr_config rr_start).getD rr_start

/-- The machine after `excl_events`. -/
def excl_final : kernel_t :=
  (kernel_run rr_config excl_booted excl_events).getD rr_start

/-! ## kmutex.c and ksem.c: the destroy calls -/

/-- kmutex.c `kmutex_destroy`: -1 for an id out of range or a mutex with `locks > 0`
(`allocated` is not looked at); else the id is queued back on the id queue (-1 when that
fails), `free(mutex)` is called on the table entry and 0 is returned. `free` is a library
call on a pointer into the static table `mutexes`; the sources do not say what it does to
the entry, so its effect on the entry is the parameter `free` (the identity: the entry
stays as it is; a constant function: the entry is cleared). -/
def kmutex_destroy (cfg : kconfig) (free : mutex_t → mutex_t) (s : kernel_t) (id : Int) :
    Int × kernel_t :=
  if id < 0 ∨ id ≥ (cfg.MUTEX_MAX : Int) then (-1, s)
  else
    let i := id.toNat
    if (mutex_at s i).locks > 0 then (-1, s)
    else
      let r := queue_in cfg.QUEUE_SIZE s.mutex_queue id
      let s1 : kernel_t := { s with mutex_queue := r.2 }
      if r.1 != 0 then (-1, s1)
      else (0, mutex_update s1 i free)

/-- ksem.c `ksem_destroy`: -1 for an id out of range, a semaphore that is not allocated or
one with `count == 0`; else the id is queued back on the id queue (-1 when that fails),
`free(sem)` is called on the table entry and 0 is returned. As for `kmutex_destroy`, the
effect of `free` on the entry is the parameter `free`. -/
def ksem_destroy (cfg : kconfig) (free : sem_t → sem_t) (s : kernel_t) (id : Int) :
    Int × kernel_t :=
  if id < 0 ∨ id ≥ (cfg.SEM_MAX : Int) then (-1, s)
  else
    let i := id.toNat
    if (sem_at s i).allocated == 0 then (-1, s)
    else if (sem_at s i).count == 0 then (-1, s)
    else
      let r := queue_in cfg.QUEUE_SIZE s.sem_queue id
      let s1 : kernel_t := { s with sem_queue := r.2 }
      if r.1 != 0 then (-1, s1)
      else (0, sem_update s1 i free)

/-- ksyscall.c `ksyscall_mutex_destroy`: -1 for `mutex < 0 || mutex > MUTEX_MAX`, else
`kmutex_destroy`. -/
def ksyscall_mutex_destroy (cfg : kconfig) (free : mutex_t → mutex_t) (s : kernel_t)
    (mutex : Int) : Int × kernel_t :=
  if mutex < 0 ∨ mutex > (cfg.MUTEX_MAX : Int) then (-1, s) else kmutex_destroy cfg free s mutex

/-- ksyscall.c `ksyscall_sem_destroy`: -1 for `sem < 0 || sem > SEM_MAX`, else
`ksem_destroy`. -/
def ksyscall_sem_destroy (cfg : kconfig) (free : sem_t → sem_t) (s : kernel_t) (sem : Int) :
    Int × kernel_t :=
  if sem < 0 ∨ sem > (cfg.SEM_MAX : Int) then (-1, s) else ksem_destroy cfg free s sem

/-- The machine of `rr_running` after A has set up semaphore 0 with count 1. -/
def rr_sem : kernel_t :=
  (ksem_init rr_config rr_running 1).2

/-- The machine of `rr_running` after A has set up semaphore 0 with count 0. -/
def rr_sem_zero : kernel_t :=
  (ksem_init rr_config rr_running 0).2

/-! ## ksyscall.c: IO_WRITE -/

/-- The two ring buffers of a `struct tty_t` (tty.c `tty_table[i].io_input` and
`tty_table[i].io_output`); the other fields of the structure play no part in the system
calls. -/
structure tty_t where
  io_input : ringbuf_t
  io_output : ringbuf_t
deriving DecidableEq, Repr

/-- The entry `tty_table[i]`; an index outside the table yields a placeholder. -/
def tty_at (tty_table : List tty_t) (i : Nat) : tty_t :=
  tty_table.getD i ⟨⟨[], -1, -1, 0⟩, ⟨[], -1, -1, 0⟩⟩

/-- The buffer that a non-null `ringbuf_t *` of `proc->io[]` points to. -/
def io_load (tty_table : List tty_t) : io_ref → ringbuf_t
  | io_ref.io_input t => (tty_at tty_table t).io_input
  | io_ref.io_output t => (tty_at tty_table t).io_output

/-- A store through a non-null `ringbuf_t *` of `proc->io[]`. -/
def io_store (tty_table : List tty_t) (r : io_ref) (b : ringbuf_t) : List tty_t :=
  match r with
  | io_ref.io_input t => tty_table.set t { tty_at tty_table t with io_input := b }
  | io_ref.io_output t => tty_table.set t { tty_at tty_table t with io_output := b }

/-- The pointer `proc->io[io]` for `io` 0 or 1. -/
def proc_t.io_get (p : proc_t) (io : Int) : Option io_ref :=
  if io = 0 then p.io0 else p.io1

/-- ksyscall.c `ksyscall_io_write`: -1 for `io` other than 0 and 1, a NULL `buf`, a
negative `size`, no active process or a NULL `io[io]`; else `ringbuf_write` is called on
the buffer for each of `buf[0]`, ..., `buf[size-1]`, its return value is not looked at,
and `size` is returned. `buf` is the source memory (`none` is NULL, a byte beyond the list
reads as 0); the result is the return value and the TTY table afterwards. -/
def ksyscall_io_write (RINGBUF_SIZE : Nat) (s : kernel_t) (tty_table : List tty_t) (io : Int)
    (buf : Option (List Int)) (size : Int) : Int × List tty_t :=
  if io < 0 ∨ io > 1 then (-1, tty_table)
  else
    match buf with
    | none => (-1, tty_table)
    | some mem =>
      if size < 0 then (-1, tty_table)
      else
        match s.active_proc with
        | none => (-1, tty_table)
        | some a =>
          match (proc_at s a).io_get io with
          | none => (-1, tty_table)
          | some r =>
            (size, (List.range size.toNat).foldl
              (fun (t : List tty_t) (i : Nat) =>
                io_store t r (ringbuf_write RINGBUF_SIZE (io_load t r) (mem.getD i 0)).2)
              tty_table)

/-- A TTY table of TTY_MAX = 10 terminals with ring buffers of four cells, all empty but
the output buffer of TTY 1, which holds the bytes 55, 56 and 57 and so has one free
cell. -/
def io_ttys : List tty_t :=
  (List.replicate 10 (⟨⟨[0, 0, 0, 0], -1, -1, 0⟩, ⟨[0, 0, 0, 0], -1, -1, 0⟩⟩ : tty_t)).set 1
    ⟨⟨[0, 0, 0, 0], -1, -1, 0⟩, ⟨[55, 56, 57, 0], 0, 2, 3⟩⟩

/-- The machine after the boot of main.c for `rr_config` and one tick: the shell with pid
1, attached to TTY 1 by `kproc_init`, is the active process. -/
def io_running : kernel_t :=
  (tick rr_config excl_booted).getD excl_booted

/-- Scenario S4 up to the unlock, for `rr_config`: from `rr_running`, A (pid 1, slot 1)
allocates mutex 0 and locks it; after the three ticks that end the time slice of A, B
(pid 2, slot 2) calls `kmutex_lock(0)`, which parks B on the wait queue of the mutex, and
the `scheduler_run` that follows makes A active again. The lock count is 2. -/
def rr_contended : kernel_t :=
  ((kmutex_lock rr_config (kmutex_init rr_config rr_running).2 0).bind
    (fun r0 => (ticks rr_config 3 r0.2).bind
      (fun s => (kmutex_lock rr_config s 0).bind
        (fun r => scheduler_run rr_config r.2)))).getD rr_running

/-- The configuration of scenario S5: `rr_config` with a process table of four slots,
for the idle process and the shells P (pid 1), Q (pid 2) and R (pid 3). -/
def s5_config : kconfig :=
  { rr_config with PROC_MAX := 4 }

/-- Scenario S5 up to the posts, as the kernel runs it after the boot: the first tick
selects P, which sets up semaphore 0 with count 1 and waits on it (the count becomes 0, P
goes on); the three ticks that end the time slice of P bring in Q, which waits and is
parked, so that R is selected, which waits and is parked, so that P is selected again. -/
def s5_events : List kernel_event :=
  [kernel_event.tick, kernel_event.sem_init 1, kernel_event.sem_wait 0,
   kernel_event.tick, kernel_event.tick, kernel_event.tick,
   kernel_event.sem_wait 0, kernel_event.sem_wait 0]

/-- The machine of S5 when P, Q and R have waited: Q and R are parked in that order,
the count is 0 and P is active. -/
def s5_parked : kernel_t :=
  ((boot s5_config rr_start).bind (fun sb => kernel_run s5_config sb s5_events)).getD rr_start

/-- The machine of S5 after the first post. -/
def s5_posted : kernel_t :=
  ((ksem_post s5_config s5_parked 0).map Prod.snd).getD rr_start

/-- The machine of S5 after the second post. -/
def s5_drained : kernel_t :=
  ((ksem_post s5_config s5_posted 0).map Prod.snd).getD rr_start

/-! ## Runs of mutex calls and of semaphore calls -/

/-- A call of the mutex interface of kmutex.c, or what the scheduler does between two
such calls: a `scheduler_run`, or a timer tick. -/
inductive mutex_call where
  | init
  | destroy (id : Int)
  | lock (id : Int)
  | unlock (id : Int)
  | run
  | tick
deriving DecidableEq, Repr

/-- The state after one call; `none` when the kernel panics. -/
def mutex_step (cfg : kconfig) (free : mutex_t → mutex_t) (s : kernel_t) :
    mutex_call → Option kernel_t
  | mutex_call.init => some (kmutex_init cfg s).2
  | mutex_call.destroy id => some (kmutex_destroy cfg free s id).2
  | mutex_call.lock id => (kmutex_lock cfg s id).map Prod.snd
  | mutex_call.unlock id => (kmutex_unlock cfg s id).map Prod.snd
  | mutex_call.run => scheduler_run cfg s
  | mutex_call.tick => tick cfg s

/-- The state after a sequence of calls; `none` when the kernel panics on the way. -/
def mutex_run (cfg : kconfig) (free : mutex_t → mutex_t) :
    kernel_t → List mutex_call → Option kernel_t
  | s, [] => some s
  | s, c :: cs =>
    match mutex_step cfg free s c with
    | none => none
    | some s1 => mutex_run cfg free s1 cs

/-- Every `kmutex_lock` of the sequence is made while `active_proc` is not null. -/
def locks_with_active (cfg : kconfig) (free : mutex_t → mutex_t) :
    kernel_t → List mutex_call → Bool
  | _, [] => true
  | s, c :: cs =>
    (match c with
     | mutex_call.lock _ => s.active_proc.isSome
     | _ => true) &&
    (match mutex_step cfg free s c with
     | none => true
     | some s1 => locks_with_active cfg free s1 cs)

/-- The owner/count invariant of one mutex: the owner is null exactly when the lock count
is 0, and the lock count is not negative. -/
def mutex_ok (m : mutex_t) : Prop :=
  (m.owner = none ↔ m.locks = 0) ∧ 0 ≤ m.locks

/-- A sequence of mutex calls for `rr_config`: A is selected, allocates mutex 0 and locks
it; after the time slice of A, B asks for the mutex and is parked, and A is selected
again; A unlocks, which hands the mutex to B, and unlocks once more, which frees it; the
mutex is destroyed and allocated again. -/
def mutex_calls_example : List mutex_call :=
  [mutex_call.run, mutex_call.init, mutex_call.lock 0, mutex_call.tick, mutex_call.tick,
   mutex_call.tick, mutex_call.lock 0, mutex_call.run, mutex_call.unlock 0,
   mutex_call.unlock 0, mutex_call.destroy 0, mutex_call.init, mutex_call.init,
   mutex_call.lock 1]

/-- A call of the semaphore interface of ksem.c, or what the scheduler does between two
such calls: a `scheduler_run`, or a timer tick. -/
inductive sem_call where
  | init (value : Int)
  | wait (id : Int)
  | post (id : Int)
  | run
  | tick
deriving DecidableEq, Repr

/-- The state after one call; `none` when the kernel panics or reads outside the
semaphore table. -/
def sem_step (cfg : kconfig) (s : kernel_t) : sem_call → Option kernel_t
  | sem_call.init value => some (ksem_init cfg s value).2
  | sem_call.wait id => (ksem_wait cfg s id).map Prod.snd
  | sem_call.post id => (ksem_post cfg s id).map Prod.snd
  | sem_call.run => scheduler_run cfg s
  | sem_call.tick => tick cfg s

/-- The state after a sequence of calls; `none` when the kernel panics on the way. -/
def sem_run (cfg : kconfig) : kernel_t → List sem_call → Option kernel_t
  | s, [] => some s
  | s, c :: cs =>
    match sem_step cfg s c with
    | none => none
    | some s1 => sem_run cfg s1 cs

/-- Every `ksem_init` of the sequence gets a value that is not negative, and no
`ksem_wait` is made while the idle process (pid 0) is the active one. -/
def sem_calls_ok (cfg : kconfig) : kernel_t → List sem_call → Bool
  | _, [] => true
  | s, c :: cs =>
    (match c with
     | sem_call.init value => decide (0 ≤ value)
     | sem_call.wait _ =>
       (match s.active_proc with
        | none => true
        | some a => (proc_at s a).pid != 0)
     | _ => true) &&
    (match sem_step cfg s c with
     | none => true
     | some s1 => sem_calls_ok cfg s1 cs)

/-- The invariant of the semaphores: no count is negative, a semaphore with a positive
count has nobody on its wait queue, and every pid on a wait queue is the pid of a live
process in state WAITING. -/
def sem_inv (cfg : kconfig) (s : kernel_t) : Prop :=
  ∀ m ∈ s.semaphores,
    0 ≤ m.count ∧
    (0 < m.count → queue_contents cfg.QUEUE_SIZE m.wait_queue = []) ∧
    ∀ p ∈ queue_contents cfg.QUEUE_SIZE m.wait_queue,
      ∃ a, pid_to_proc cfg s p = some a ∧ (proc_at s a).state = proc_state_t.WAITING

/-- What has happened on one semaphore: the number of waits that took a unit of the
count at once, the number of parked waiters that a post has rescheduled, and the number
of posts. -/
structure sem_tally where
  immediate : Nat
  woken : Nat
  posts : Nat
deriving DecidableEq, Repr

/-- The tally of the semaphore `id` after the call `c` made in state `s`: a `ksem_wait`
on it takes a unit at once when the semaphore is allocated with a positive count; a
`ksem_post` on it counts when the semaphore is allocated, and it reschedules a waiter
when the wait queue is not empty. -/
def sem_tally_step (id : Int) (s : kernel_t) (c : sem_call) (t : sem_tally) : sem_tally :=
  match c with
  | sem_call.wait j =>
    if j = id ∧ (sem_at s id.toNat).allocated ≠ 0 ∧ 0 < (sem_at s id.toNat).count
    then { t with immediate := t.immediate + 1 } else t
  | sem_call.post j =>
    if j = id ∧ (sem_at s id.toNat).allocated ≠ 0 then
      { t with posts := t.posts + 1,
               woken := t.woken + (if queue_is_empty (sem_at s id.toNat).wait_queue then 0 else 1) }
    else t
  | _ => t

/-- The state and the tally of the semaphore `id` after a sequence of calls; `none` when
the kernel panics on the way. -/
def sem_account (cfg : kconfig) (id : Int) :
    kernel_t → List sem_call → sem_tally → Option (kernel_t × sem_tally)
  | s, [], t => some (s, t)
  | s, c :: cs, t =>
    match sem_step cfg s c with
    | none => none
    | some s1 => sem_account cfg id s1 cs (sem_tally_step id s c t)

/-- The sequence holds no `ksem_init`. -/
def sem_call.no_init : List sem_call → Bool
  | [] => true
  | sem_call.init _ :: _ => false
  | _ :: cs => sem_call.no_init cs

/-- A sequence of calls on semaphore 0 of `rr_sem` (count 1, A active): A waits and takes
the unit; after the time slice of A, B waits and is parked, and A is selected again; A
posts, which reschedules B, posts again, which raises the count to 1, and waits, which
takes the unit. -/
def sem_calls_example : List sem_call :=
  [sem_call.wait 0, sem_call.tick, sem_call.tick, sem_call.tick, sem_call.wait 0,
   sem_call.run, sem_call.post 0, sem_call.post 0, sem_call.wait 0]

/-- The first six calls of `sem_calls_example`: A has waited and taken the unit, B has
waited and is parked, A is active again. -/
def sem_calls_parked : List sem_call :=
  [sem_call.wait 0, sem_call.tick, sem_call.tick, sem_call.tick, sem_call.wait 0,
   sem_call.run]

/-- A sequence of calls after the boot for `rr_config`: the first tick selects A (pid 1),
which sets up semaphore 0 with count 1; then the calls of `sem_calls_parked`, after which
B (pid 2) is parked on the semaphore. -/
def sem_calls_boot : List sem_call :=
  [sem_call.tick, sem_call.init 1] ++ sem_calls_parked

/-- The machine after the boot for `rr_config` and the calls of `sem_calls_boot`. -/
def sem_final : kernel_t :=
  (sem_run rr_config excl_booted sem_calls_boot).getD rr_start

/-- The bytes of a list written to a ring buffer one after the other with
`ringbuf_write`, return values not looked at: the loop of `ksyscall_io_write` as it acts on
the one buffer. -/
def ringbuf_write_all (RINGBUF_SIZE : Nat) (buf : ringbuf_t) (bytes : List Int) : ringbuf_t :=
  bytes.foldl (fun (b : ringbuf_t) (x : Int) => (ringbuf_write RINGBUF_SIZE b x).2) buf

/-- The table index of the terminal a buffer pointer refers to. -/
def io_ref.tty : io_ref → Nat
  | io_ref.io_input t => t
  | io_ref.io_output t => t

/-! ## Worked states for the scheduler and process claims -/

/-- The machine after the boot of main.c for `s5_config`: the shells P, Q, R (pids 1, 2,
3) are on the run queue in that order and there is no active process yet. -/
def s5_booted : kernel_t :=
  (boot s5_config rr_start).getD rr_start

/-- The machine after the boot of main.c for `rr_config`, the first tick, which selects
the shell A (pid 1, slot 1), and a PROC_SLEEP of A for 5 seconds with the `scheduler_run`
that follows: A is SLEEPING on the sleep queue with sleep_time 500, B (pid 2) is
active. -/
def rr_asleep : kernel_t :=
  (kernel_run rr_config excl_booted [kernel_event.tick, kernel_event.proc_sleep 5]).getD
    rr_start

/-- The machine after the boot of main.c for `rr_config`, the first tick, which selects
the shell A (pid 1, slot 1), and a PROC_SLEEP of A for 0 seconds with the `scheduler_run`
that follows. -/
def rr_sleep_zero : kernel_t :=
  (kernel_run rr_config excl_booted [kernel_event.tick, kernel_event.proc_sleep 0]).getD
    rr_start

/-! ## ksyscall.c: IO_READ and IO_FLUSH -/

/-- ksyscall.c `ksyscall_io_flush`: -1 without an active process, for `io < 0` or
`io > PROC_IO_MAX` and for a NULL `io[io]`; else `ringbuf_flush` on the buffer and 0.
PROC_IO_MAX comes from a header and is a parameter here; `none` is the read of `io[io]`
outside the two-entry array for an `io` of 2 or more that passes the range test. -/
def ksyscall_io_flush (RINGBUF_SIZE PROC_IO_MAX : Nat) (s : kernel_t) (tty_table : List tty_t)
    (io : Int) : Option (Int × List tty_t) :=
  match s.active_proc with
  | none => some (-1, tty_table)
  | some a =>
    if io < 0 ∨ io > (PROC_IO_MAX : Int) then some (-1, tty_table)
    else if io > 1 then none
    else
      match (proc_at s a).io_get io with
      | none => some (-1, tty_table)
      | some r => some (0, io_store tty_table r (ringbuf_flush RINGBUF_SIZE (io_load tty_table r)).2)

/-- The loop of ksyscall.c `ksyscall_io_read`: for each `i < size`, `ringbuf_read` on the
buffer with the address of the local `c`, its return value not looked at, then
`buf[i] = c`. The state is the TTY table, the local `c` and the destination memory. -/
def ksyscall_io_read_loop (RINGBUF_SIZE : Nat) (r : io_ref) (size : Nat)
    (st : List tty_t × Int × List Int) : List tty_t × Int × List Int :=
  (List.range size).foldl
    (fun (st : List tty_t × Int × List Int) (i : Nat) =>
      let rd := ringbuf_read RINGBUF_SIZE (io_load st.1 r) st.2.1
      (io_store st.1 r rd.2.1, rd.2.2, arr_set st.2.2 (i : Int) rd.2.2))
    st

/-- ksyscall.c `ksyscall_io_read`: -1 for `io` other than 0 and 1, a NULL `buf`, a
negative `size` or a NULL `io[io]`; else `s` is the `size` field of the buffer, cut down
to `size`, the loop runs `size` times with `c` starting as 0, `ksyscall_io_flush(io)` is
called, its return value not looked at, and `s` is returned. `buf` is the destination
memory (`none` is NULL); the result is the return value, the TTY table and the
destination memory afterwards. `none` is the read of `active_proc->io[io]` through a
NULL `active_proc`, which comes before the test of `active_proc`. -/
def ksyscall_io_read (RINGBUF_SIZE PROC_IO_MAX : Nat) (s : kernel_t) (tty_table : List tty_t)
    (io : Int) (buf : Option (List Int)) (size : Int) : Option (Int × List tty_t × List Int) :=
  if io < 0 ∨ io > 1 then some (-1, tty_table, buf.getD [])
  else
    match buf with
    | none => some (-1, tty_table, [])
    | some mem =>
      if size < 0 then some (-1, tty_table, mem)
      else
        match s.active_proc with
        | none => none
        | some a =>
          match (proc_at s a).io_get io with
          | none => some (-1, tty_table, mem)
          | some r =>
            let n := (io_load tty_table r).size
            let n := if n > size then size else n
            let st := ksyscall_io_read_loop RINGBUF_SIZE r size.toNat (tty_table, 0, mem)
            match ksyscall_io_flush RINGBUF_SIZE PROC_IO_MAX s st.1 io with
            | none => none
            | some f => some (n, f.2, st.2.2)

/-! ## ksyscall.c: the interrupt handler of the system calls -/

/-- The system call identifiers of the syscall header, which ksyscall.c takes from
outside; their values are parameters. -/
structure syscall_ids where
  SYSCALL_NONE : Nat
  SYSCALL_IO_READ : Nat
  SYSCALL_IO_WRITE : Nat
  SYSCALL_IO_FLUSH : Nat
  SYSCALL_SYS_GET_TIME : Nat
  SYSCALL_SYS_GET_NAME : Nat
  SYSCALL_PROC_SLEEP : Nat
  SYSCALL_PROC_EXIT : Nat
  SYSCALL_PROC_GET_PID : Nat
  SYSCALL_PROC_GET_NAME : Nat
  SYSCALL_MUTEX_INIT : Nat
  SYSCALL_MUTEX_DESTROY : Nat
  SYSCALL_MUTEX_LOCK : Nat
  SYSCALL_MUTEX_UNLOCK : Nat
  SYSCALL_SEM_INIT : Nat
  SYSCALL_SEM_DESTROY : Nat
  SYSCALL_SEM_WAIT : Nat
  SYSCALL_SEM_POST : Nat
deriving DecidableEq, Repr

/-- ksyscall.c `ksyscall_sys_get_time`: `timer_get_ticks() / 100`. -/
def ksyscall_sys_get_time (s : kernel_t) : Int :=
  Int.tdiv s.timer_ticks 100

/-- The return value of ksyscall.c `ksyscall_sys_get_name`: -1 for a NULL `name`
(address 0), else 0; the copy into the caller's memory is not part of the state. -/
def ksyscall_sys_get_name (name : Nat) : Int :=
  if name = 0 then -1 else 0

/-- ksyscall.c `ksyscall_proc_get_pid`: -1 without an active process, else its pid. -/
def ksyscall_proc_get_pid (s : kernel_t) : Int :=
  match s.active_proc with
  | none => -1
  | some a => (proc_at s a).pid

/-- The return value of ksyscall.c `ksyscall_proc_get_name`: -1 without an active process
or for a NULL `name` (address 0), else 0; the copy into the caller's memory is not part of
the state. -/
def ksyscall_proc_get_name (s : kernel_t) (name : Nat) : Int :=
  match s.active_proc with
  | none => -1
  | some _ => if name = 0 then -1 else 0

/-- The `switch` of ksyscall.c `ksyscall_irq_handler`: the service selected by `syscall`,
called with the registers `arg1`, `arg2`, `arg3` converted to its parameter types. The
result is `rc`, the kernel state and the TTY table afterwards; `none` is a kernel panic
(the `default` branch, or one inside the service) or an access outside a table. `user p`
is the caller's memory as seen through the non-null pointer `p`; what IO_READ and the two
name calls store there is not part of the state. -/
def ksyscall_switch (cfg : kconfig) (ids : syscall_ids) (RINGBUF_SIZE PROC_IO_MAX : Nat)
    (free_mutex : mutex_t → mutex_t) (free_sem : sem_t → sem_t) (user : Nat → List Int)
    (s : kernel_t) (tty_table : List tty_t) (syscall arg1 arg2 arg3 : Nat) :
    Option (Int × kernel_t × List tty_t) :=
  if syscall = ids.SYSCALL_IO_READ then
    (ksyscall_io_read RINGBUF_SIZE PROC_IO_MAX s tty_table (int_of_size_t arg1)
      (if arg2 = 0 then none else some (user arg2)) (int_of_size_t arg3)).map
      (fun r => (r.1, s, r.2.1))
  else if syscall = ids.SYSCALL_IO_WRITE then
    let r := ksyscall_io_write RINGBUF_SIZE s tty_table (int_of_size_t arg1)
      (if arg2 = 0 then none else some (user arg2)) (int_of_size_t arg3)
    some (r.1, s, r.2)
  else if syscall = ids.SYSCALL_IO_FLUSH then
    (ksyscall_io_flush RINGBUF_SIZE PROC_IO_MAX s tty_table (int_of_size_t arg1)).map
      (fun r => (r.1, s, r.2))
  else if syscall = ids.SYSCALL_SYS_GET_TIME then
    some (ksyscall_sys_get_time s, s, tty_table)
  else if syscall = ids.SYSCALL_SYS_GET_NAME then
    some (ksyscall_sys_get_name arg1, s, tty_table)
  else if syscall = ids.SYSCALL_PROC_SLEEP then
    (ksyscall_proc_sleep cfg s (int_of_size_t arg1)).map (fun r => (r.1, r.2, tty_table))
  else if syscall = ids.SYSCALL_PROC_EXIT then
    (ksyscall_proc_exit cfg s).map (fun r => (r.1, r.2, tty_table))
  else if syscall = ids.SYSCALL_PROC_GET_PID then
    some (ksyscall_proc_get_pid s, s, tty_table)
  else if syscall = ids.SYSCALL_PROC_GET_NAME then
    some (ksyscall_proc_get_name s arg1, s, tty_table)
  else if syscall = ids.SYSCALL_MUTEX_INIT then
    let r := ksyscall_mutex_init cfg s
    some (r.1, r.2, tty_table)
  else if syscall = ids.SYSCALL_MUTEX_DESTROY then
    let r := ksyscall_mutex_destroy cfg free_mutex s (int_of_size_t arg1)
    some (r.1, r.2, tty_table)
  else if syscall = ids.SYSCALL_MUTEX_LOCK then
    (ksyscall_mutex_lock cfg s (int_of_size_t arg1)).map (fun r => (r.1, r.2, tty_table))
  else if syscall = ids.SYSCALL_MUTEX_UNLOCK then
    (ksyscall_mutex_unlock cfg s (int_of_size_t arg1)).map (fun r => (r.1, r.2, tty_table))
  else if syscall = ids.SYSCALL_SEM_INIT then
    let r := ksyscall_sem_init cfg s (int_of_size_t arg1)
    some (r.1, r.2, tty_table)
  else if syscall = ids.SYSCALL_SEM_DESTROY then
    let r := ksyscall_sem_destroy cfg free_sem s (int_of_size_t arg1)
    some (r.1, r.2, tty_table)
  else if syscall = ids.SYSCALL_SEM_WAIT then
    (ksyscall_sem_wait cfg s (int_of_size_t arg1)).map (fun r => (r.1, r.2, tty_table))
  else if syscall = ids.SYSCALL_SEM_POST then
    (ksyscall_sem_post cfg s (int_of_size_t arg1)).map (fun r => (r.1, r.2, tty_table))
  else none

/-- ksyscall.c `ksyscall_irq_handler`: panic without an active process or with a NULL
`trapframe` pointer; the identifier is read from eax and the arguments from ebx, ecx, edx
of the trap frame of the active process; nothing is done for SYSCALL_NONE; else the
`switch` runs, and at the end, if `active_proc` is not NULL, `(unsigned int)rc` is stored
into eax of the trap frame of the active process. -/
def ksyscall_irq_handler (cfg : kconfig) (ids : syscall_ids) (RINGBUF_SIZE PROC_IO_MAX : Nat)
    (free_mutex : mutex_t → mutex_t) (free_sem : sem_t → sem_t) (user : Nat → List Int)
    (s : kernel_t) (tty_table : List tty_t) : Option (kernel_t × List tty_t) :=
  match s.active_proc with
  | none => none
  | some a =>
    match (proc_at s a).trapframe with
    | none => none
    | some _ =>
      let tf := (proc_at s a).frame
      if tf.eax = ids.SYSCALL_NONE then some (s, tty_table)
      else
        match ksyscall_switch cfg ids RINGBUF_SIZE PROC_IO_MAX free_mutex free_sem user s
            tty_table tf.eax tf.ebx tf.ecx tf.edx with
        | none => none
        | some r =>
          match r.2.1.active_proc with
          | none => some (r.2.1, r.2.2)
          | some b =>
            match (proc_at r.2.1 b).trapframe with
            | none => none
            | some _ =>
              some (proc_update r.2.1 b
                (fun p => { p with frame := { p.frame with eax := size_t_of_int r.1 } }),
                r.2.2)

/-- An example numbering of the system calls: SYSCALL_NONE is 0 and the others follow in
the order of the `switch`. -/
def example_ids : syscall_ids :=
  { SYSCALL_NONE := 0, SYSCALL_IO_READ := 1, SYSCALL_IO_WRITE := 2, SYSCALL_IO_FLUSH := 3,
    SYSCALL_SYS_GET_TIME := 4, SYSCALL_SYS_GET_NAME := 5, SYSCALL_PROC_SLEEP := 6,
    SYSCALL_PROC_EXIT := 7, SYSCALL_PROC_GET_PID := 8, SYSCALL_PROC_GET_NAME := 9,
    SYSCALL_MUTEX_INIT := 10, SYSCALL_MUTEX_DESTROY := 11, SYSCALL_MUTEX_LOCK := 12,
    SYSCALL_MUTEX_UNLOCK := 13, SYSCALL_SEM_INIT := 14, SYSCALL_SEM_DESTROY := 15,
    SYSCALL_SEM_WAIT := 16, SYSCALL_SEM_POST := 17 }

/-- The state `s` at the entry of the kernel for a trap of the active process with the
registers eax, ebx, ecx, edx as given: the context save has put them into the trap frame
of the process. -/
def trap_enter (s : kernel_t) (eax ebx ecx edx : Nat) : kernel_t :=
  match s.active_proc with
  | none => s
  | some a =>
    proc_update s a
      (fun p => { p with frame := { p.frame with eax := eax, ebx := ebx, ecx := ecx, edx := edx } })

/-- The handler on the example machine: `rr_config`, the example numbering, ring buffers
of four cells, PROC_IO_MAX = 2, the TTY table `io_ttys`, and a `free` and a caller's
memory that play no part. -/
def example_handler (s : kernel_t) : Option (kernel_t × List tty_t) :=
  ksyscall_irq_handler rr_config example_ids 4 2 id id (fun _ => []) s io_ttys

/-- The count invariant of one mutex: its wait queue is well formed; without an owner the
lock count is 0 and nobody waits; with an owner the lock count is 1 plus the number of
queued waiters. -/
def mutex_cnt (cfg : kconfig) (m : mutex_t) : Prop :=
  queue_wf cfg.QUEUE_SIZE m.wait_queue ∧
  (m.owner = none → m.locks = 0 ∧ m.wait_queue.size = 0) ∧
  (m.owner ≠ none → m.locks = 1 + m.wait_queue.size)

/-- What holds of the process table between two events: a slot in state ACTIVE is the
one `active_proc` points to, every `cpu_time` is below SCHEDULER_TIMESLICE, and the
active process, if there is one, is in state ACTIVE. -/
def act_inv (cfg : kconfig) (s : kernel_t) : Prop :=
  (∀ k, (proc_at s k).state = proc_state_t.ACTIVE → s.active_proc = some k) ∧
  (∀ k, (proc_at s k).cpu_time < (cfg.SCHEDULER_TIMESLICE : Int)) ∧
  (∀ a, s.active_proc = some a → (proc_at s a).state = proc_state_t.ACTIVE)

/-- From `s` to `s2` no slot has come into state ACTIVE, and a `cpu_time` that has
changed is at most 0. -/
def quiet (s s2 : kernel_t) : Prop :=
  (∀ k, (proc_at s2 k).state = proc_state_t.ACTIVE →
    (proc_at s k).state = proc_state_t.ACTIVE) ∧
  (∀ k, (proc_at s2 k).cpu_time = (proc_at s k).cpu_time ∨ (proc_at s2 k).cpu_time ≤ 0)

/-- Whether the kernel ends its reaction to the event with `scheduler_run`: it does for
the timer interrupt, a scheduling pass and every system call, as these come in through
`kernel_context_enter`. -/
def kernel_event.runs_scheduler : kernel_event → Bool
  | kernel_event.create _ _ _ => false
  | kernel_event.destroy _ => false
  | _ => true

/-- Round robin among the user processes in the slots `l`, none of which sleeps: the
table is sound, the run queue is well formed and has room for all of them, nobody is on
the sleep queue, the slots are distinct and carry positive pids, the first slot of `l` is
the active process, in state ACTIVE with cpu_time `c`, and the others are queued on the
run queue in the order of `l`, each with cpu_time 0. -/
def rot_state (cfg : kconfig) (s : kernel_t) (l : List Nat) (c : Int) : Prop :=
  pid_inv cfg s ∧ queue_wf cfg.QUEUE_SIZE s.run_queue ∧
  queue_is_empty s.sleep_queue = true ∧ l.length ≤ cfg.QUEUE_SIZE ∧ l.Nodup ∧
  (∀ k ∈ l, 0 < (proc_at s k).pid) ∧
  ∃ x ys, l = x :: ys ∧ s.active_proc = some x ∧
    (proc_at s x).state = proc_state_t.ACTIVE ∧ (proc_at s x).cpu_time = c ∧
    (∀ y ∈ ys, (proc_at s y).cpu_time = 0) ∧
    queue_contents cfg.QUEUE_SIZE s.run_queue = ys.map (fun k => (proc_at s k).pid)

/-- The machine as the boot leaves it with the user processes in the slots `l`: as
`rot_state`, but no process is active yet and all of `l` are queued on the run queue,
each with cpu_time 0. -/
def rot_boot (cfg : kconfig) (s : kernel_t) (l : List Nat) : Prop :=
  pid_inv cfg s ∧ queue_wf cfg.QUEUE_SIZE s.run_queue ∧
  queue_is_empty s.sleep_queue = true ∧ l.length ≤ cfg.QUEUE_SIZE ∧ l.Nodup ∧
  (∀ k ∈ l, 0 < (proc_at s k).pid ∧ (proc_at s k).cpu_time = 0) ∧
  s.active_proc = none ∧
  queue_contents cfg.QUEUE_SIZE s.run_queue = l.map (fun k => (proc_at s k).pid)

/-! # Theorems -/

/-! ## Arithmetic and array lemmas -/

theorem emod_cases (a n : Int) (h0 : 0 ≤ a) (h1 : a < 2 * n) :
    (a < n ∧ a % n = a) ∨ (n ≤ a ∧ a % n = a - n) := by
  by_cases h : a < n
  · exact Or.inl ⟨h, Int.emod_eq_of_lt h0 h⟩
  · right
    refine ⟨by omega, ?_⟩
    have h2 : (a - n) % n = a - n := Int.emod_eq_of_lt (by omega) (by omega)
    have h3 : (a - n) % n = a % n := by
      rw [Int.sub_emod, Int.emod_self, sub_zero, Int.emod_emod]
    omega

theorem tmod_nonneg_eq (a : Int) (n : Nat) (h : 0 ≤ a) : Int.tmod a (n : Int) = a % (n : Int) :=
  Int.tmod_eq_emod h (Int.ofNat_nonneg n)

theorem arr_set_length (a : List Int) (i v : Int) : (arr_set a i v).length = a.length := by
  unfold arr_set
  split <;> simp

theorem arr_get_set (a : List Int) (i j v : Int) (hi : 0 ≤ i) (hlt : i < a.length) :
    arr_get (arr_set a i v) j = if j = i then v else arr_get a j := by
  unfold arr_get arr_set
  by_cases hj : 0 ≤ j
  · simp only [hi, hj, if_true]
    by_cases hij : j = i
    · subst hij
      have : j.toNat < a.length := by omega
      simp [List.getD_eq_getElem?_getD, List.getElem?_set, this]
    · have : i.toNat ≠ j.toNat := by omega
      simp [List.getD_eq_getElem?_getD, List.getElem?_set, this, hij]
  · have hij : j ≠ i := by omega
    simp [hj, hij]

theorem foldl_arr_set_range (v : Int) (n : Nat) (l : List Int) (hl : n ≤ l.length) :
    (List.range n).foldl (fun (a : List Int) (i : Nat) => arr_set a (i : Int) v) l
      = List.replicate n v ++ l.drop n := by
  induction n with
  | zero => simp
  | succ n ih =>
    rw [List.range_succ, List.foldl_append, ih (by omega)]
    simp only [List.foldl_cons, List.foldl_nil]
    apply List.ext_getElem?
    intro k
    have hpos : (0 : Int) ≤ (n : Int) := Int.ofNat_nonneg n
    simp only [arr_set, hpos, if_true, Int.toNat_ofNat, List.getElem?_set, List.length_append,
      List.length_replicate, List.length_drop, List.getElem?_append, List.getElem?_replicate,
      List.getElem?_drop]
    by_cases h1 : n = k
    · subst h1
      have : n < n + (l.length - n) := by omega
      simp [this]
    · simp only [h1, if_false]
      by_cases h2 : k < n
      · have : k < n + 1 := by omega
        simp [h2, this]
      · have h3 : ¬ k < n + 1 := by omega
        simp only [h2, h3, if_false]
        congr 1
        omega

theorem queue_init_items (n : Nat) (q : queue_t) (hl : q.items.length = n) :
    (queue_init n q).items = List.replicate n (-1) := by
  unfold queue_init
  simp only
  rw [foldl_arr_set_range (-1) n q.items (by omega)]
  simp [← hl]

/-! ## Queue lemmas -/

theorem queue_init_wf (n : Nat) (q : queue_t) (hl : q.items.length = n) :
    queue_wf n (queue_init n q) := by
  refine ⟨?_, ?_, ?_, ?_, ?_⟩
  · rw [queue_init_items n q hl]; simp
  · simp [queue_init]
  · simp [queue_init]
  · intro _; simp [queue_init]
  · intro h; simp [queue_init] at h

theorem queue_init_contents (n : Nat) (q : queue_t) : queue_contents n (queue_init n q) = [] := by
  simp [queue_contents, queue_init]

theorem queue_in_spec (n : Nat) (q : queue_t) (x : Int) (hwf : queue_wf n q)
    (hnf : queue_is_full n q = false) :
    (queue_in n q x).1 = 0 ∧ queue_wf n (queue_in n q x).2 ∧
    (queue_in n q x).2.size = q.size + 1 ∧
    queue_contents n (queue_in n q x).2 = queue_contents n q ++ [x] := by
  obtain ⟨hlen, hs0, hsn, hemp, hne⟩ := hwf
  have hlt : q.size < (n : Int) := by
    simp only [queue_is_full, beq_eq_false_iff_ne, ne_eq] at hnf
    omega
  by_cases he : q.size = 0
  · -- first element: head = 0, tail = 0
    obtain ⟨hh, ht⟩ := hemp he
    have hq : queue_in n q x
        = (0, { head := 0, tail := 0, size := 1, items := arr_set q.items 0 x }) := by
      have h1 : Int.tmod (0 : Int) (n : Int) = 0 := by simp
      simp [queue_in, hnf, queue_is_empty, he, ht, h1]
    rw [hq]
    refine ⟨rfl, ⟨?_, ?_, ?_, ?_, ?_⟩, ?_, ?_⟩
    · simp [arr_set_length, hlen]
    · simp
    · simp only; omega
    · intro h; simp at h
    · intro _
      dsimp only
      refine ⟨le_refl _, by omega, ?_⟩
      rw [Int.emod_eq_of_lt] <;> omega
    · simp [he]
    · have h0 : (0 : Int) % (n : Int) = 0 := by simp
      have h1 : List.range 1 = [0] := rfl
      simp [queue_contents, he, h0, h1, arr_get_set q.items 0 0 x (le_refl _) (by omega)]
  · have hpos : 0 < q.size := by omega
    obtain ⟨hh0, hhn, ht⟩ := hne hpos
    have hmodt := emod_cases (q.head + q.size - 1) n (by omega) (by omega)
    have hmodn := emod_cases (q.head + q.size) n (by omega) (by omega)
    have ht0 : 0 ≤ q.tail + 1 := by omega
    have htl : Int.tmod (q.tail + 1) (n : Int) = (q.head + q.size) % (n : Int) := by
      rw [tmod_nonneg_eq _ _ ht0]
      have hc := emod_cases (q.tail + 1) n ht0 (by omega)
      omega
    have hq : queue_in n q x
        = (0, { head := q.head, tail := (q.head + q.size) % (n : Int), size := q.size + 1,
                items := arr_set q.items ((q.head + q.size) % (n : Int)) x }) := by
      simp [queue_in, hnf, queue_is_empty, he, htl]
    rw [hq]
    have hti0 : 0 ≤ (q.head + q.size) % (n : Int) := by omega
    have htin : (q.head + q.size) % (n : Int) < (q.items.length : Int) := by omega
    refine ⟨rfl, ⟨?_, ?_, ?_, ?_, ?_⟩, rfl, ?_⟩
    · simp [arr_set_length, hlen]
    · simp only; omega
    · simp only; omega
    · intro h; simp only at h; omega
    · intro _
      refine ⟨hh0, hhn, ?_⟩
      simp only
      congr 1
      omega
    · simp only [queue_contents]
      have hsz : (q.size + 1).toNat = q.size.toNat + 1 := by omega
      rw [hsz, List.range_succ, List.map_append]
      congr 1
      · apply List.map_congr_left
        intro k hk
        rw [List.mem_range] at hk
        rw [arr_get_set _ _ _ _ hti0 htin]
        have hk' : (k : Int) < q.size := by omega
        have hc := emod_cases (q.head + (k : Int)) n (by omega) (by omega)
        have hne' : (q.head + (k : Int)) % (n : Int) ≠ (q.head + q.size) % (n : Int) := by omega
        simp [hne']
      · have hcast : ((q.size.toNat : Nat) : Int) = q.size := by omega
        simp [hcast, arr_get_set _ _ _ _ hti0 htin]
theorem queue_out_spec (n : Nat) (q : queue_t) (c : Int) (hwf : queue_wf n q)
    (hnemp : queue_is_empty q = false) :
    (queue_out n q c).1 = 0 ∧ queue_wf n (queue_out n q c).2.1 ∧
    (queue_out n q c).2.1.size = q.size - 1 ∧
    queue_contents n q = (queue_out n q c).2.2 :: queue_contents n (queue_out n q c).2.1 := by
  obtain ⟨hlen, hs0, hsn, hemp, hne⟩ := hwf
  have he : q.size ≠ 0 := by
    simpa [queue_is_empty] using hnemp
  have hpos : 0 < q.size := by omega
  obtain ⟨hh0, hhn, ht⟩ := hne hpos
  have hmodt := emod_cases (q.head + q.size - 1) n (by omega) (by omega)
  have hhead : q.head % (n : Int) = q.head := Int.emod_eq_of_lt hh0 hhn
  by_cases h1 : q.size = 1
  · have hht : q.head = q.tail := by omega
    have hq : queue_out n q c
        = (0, queue_init n { q with items := arr_set q.items q.head 0 },
            arr_get q.items q.head) := by
      simp [queue_out, hnemp, hht]
    rw [hq]
    refine ⟨rfl, queue_init_wf n _ (by simp [arr_set_length, hlen]), ?_, ?_⟩
    · simp [queue_init, h1]
    · have hr : List.range 1 = [0] := rfl
      rw [queue_init_contents]
      simp [queue_contents, h1, hr, hhead]
  · have hht : q.head ≠ q.tail := by omega
    have hmodh := emod_cases (q.head + 1) n (by omega) (by omega)
    have hq : queue_out n q c
        = (0, { head := (q.head + 1) % (n : Int), tail := q.tail, size := q.size - 1,
                items := arr_set q.items q.head 0 }, arr_get q.items q.head) := by
      simp [queue_out, hnemp, hht, tmod_nonneg_eq (q.head + 1) n (by omega)]
    rw [hq]
    refine ⟨rfl, ⟨?_, ?_, ?_, ?_, ?_⟩, rfl, ?_⟩
    · simp [arr_set_length, hlen]
    · dsimp only; omega
    · dsimp only; omega
    · intro h; dsimp only at h; omega
    · intro _
      dsimp only
      refine ⟨by omega, by omega, ?_⟩
      have hc := emod_cases ((q.head + 1) % (n : Int) + (q.size - 1) - 1) n (by omega) (by omega)
      omega
    · dsimp only [queue_contents]
      have hsz : q.size.toNat = (q.size - 1).toNat + 1 := by omega
      rw [hsz, List.range_succ_eq_map, List.map_cons, List.map_map]
      congr 1
      · simp [hhead]
      · apply List.map_congr_left
        intro k hk
        rw [List.mem_range] at hk
        have hk' : (k : Int) < q.size - 1 := by omega
        have hlenI : q.head < (q.items.length : Int) := by omega
        rw [arr_get_set _ _ _ _ hh0 hlenI]
        have hc1 := emod_cases (q.head + ((k + 1 : Nat) : Int)) n (by omega) (by omega)
        have hc2 := emod_cases ((q.head + 1) % (n : Int) + (k : Int)) n (by omega) (by omega)
        have hne' : ((q.head + 1) % (n : Int) + (k : Int)) % (n : Int) ≠ q.head := by omega
        simp only [Function.comp, hne', if_false]
        congr 1
        push_cast at hc1 ⊢
        omega
theorem queue_admissible_take (n : Nat) :
    ∀ (cs : List queue_call) (q : queue_t) (k : Nat),
      queue_admissible n q cs = true → queue_admissible n q (cs.take k) = true := by
  intro cs
  induction cs with
  | nil => intro q k h; simp [queue_admissible]
  | cons c cs ih =>
    intro q k h
    cases k with
    | zero => simp [queue_admissible]
    | succ k =>
      cases c with
      | enq x =>
        simp only [queue_admissible, List.take_succ_cons, Bool.and_eq_true] at h ⊢
        exact ⟨h.1, ih _ k h.2⟩
      | deq c =>
        simp only [queue_admissible, List.take_succ_cons, Bool.and_eq_true] at h ⊢
        exact ⟨h.1, ih _ k h.2⟩

theorem queue_run_spec (n : Nat) :
    ∀ (cs : List queue_call) (q : queue_t), queue_wf n q → queue_admissible n q cs = true →
      (queue_run n q cs).rcs = List.replicate cs.length 0 ∧
      (queue_run n q cs).outs.length = queue_deq_count cs ∧
      queue_contents n q ++ queue_enqueued cs
        = (queue_run n q cs).outs ++ queue_contents n (queue_run n q cs).q ∧
      (queue_run n q cs).q.size + (queue_deq_count cs : Int)
        = q.size + ((queue_enqueued cs).length : Int) ∧
      queue_wf n (queue_run n q cs).q := by
  intro cs
  induction cs with
  | nil =>
    intro q hwf _
    simp [queue_run, queue_enqueued, queue_deq_count, hwf]
  | cons c cs ih =>
    intro q hwf hadm
    cases c with
    | enq x =>
      simp only [queue_admissible, Bool.and_eq_true, Bool.not_eq_true'] at hadm
      obtain ⟨hrc, hwf', hsz, hcont⟩ := queue_in_spec n q x hwf hadm.1
      obtain ⟨h1, h2, h3, h4, h5⟩ := ih _ hwf' hadm.2
      refine ⟨?_, ?_, ?_, ?_, ?_⟩
      · simp [queue_run, hrc, h1, List.replicate_succ]
      · simpa [queue_run, queue_deq_count] using h2
      · simp only [queue_run, queue_enqueued]
        rw [← h3, hcont]
        simp
      · simp only [queue_run, queue_enqueued, queue_deq_count, List.length_cons]
        push_cast
        omega
      · simpa [queue_run] using h5
    | deq c =>
      simp only [queue_admissible, Bool.and_eq_true, Bool.not_eq_true'] at hadm
      obtain ⟨hrc, hwf', hsz, hcont⟩ := queue_out_spec n q c hwf hadm.1
      obtain ⟨h1, h2, h3, h4, h5⟩ := ih _ hwf' hadm.2
      refine ⟨?_, ?_, ?_, ?_, ?_⟩
      · simp [queue_run, hrc, h1, List.replicate_succ]
      · simpa [queue_run, queue_deq_count] using h2
      · simp only [queue_run, queue_enqueued]
        rw [hcont, List.cons_append, h3]
        simp
      · simp only [queue_run, queue_enqueued, queue_deq_count]
        push_cast
        omega
      · simpa [queue_run] using h5

/-! ## Queue theorems -/

/-- C1. Queue round trip: from `queue_init`, along any sequence of `queue_in` and
`queue_out` calls that never enqueues on a full queue nor dequeues from an empty one,
after each number `k` of calls every call so far has returned 0, the values delivered by
`queue_out` are the first values passed to `queue_in`, in order, and `size` is the number
of `queue_in` calls minus the number of `queue_out` calls. -/
theorem queue_round_trip (QUEUE_SIZE : Nat) (q0 : queue_t)
    (hlen : q0.items.length = QUEUE_SIZE) (cs : List queue_call)
    (hadm : queue_admissible QUEUE_SIZE (queue_init QUEUE_SIZE q0) cs = true) (k : Nat) :
    (queue_run QUEUE_SIZE (queue_init QUEUE_SIZE q0) (cs.take k)).rcs
      = List.replicate (cs.take k).length 0 ∧
    (queue_run QUEUE_SIZE (queue_init QUEUE_SIZE q0) (cs.take k)).outs
      = (queue_enqueued (cs.take k)).take (queue_deq_count (cs.take k)) ∧
    queue_deq_count (cs.take k) ≤ (queue_enqueued (cs.take k)).length ∧
    (queue_run QUEUE_SIZE (queue_init QUEUE_SIZE q0) (cs.take k)).q.size
      = ((queue_enqueued (cs.take k)).length : Int) - (queue_deq_count (cs.take k) : Int) := by
  have hwf := queue_init_wf QUEUE_SIZE q0 hlen
  have hadm' := queue_admissible_take QUEUE_SIZE cs _ k hadm
  obtain ⟨h1, h2, h3, h4, h5⟩ := queue_run_spec QUEUE_SIZE (cs.take k) _ hwf hadm'
  rw [queue_init_contents, List.nil_append] at h3
  have h0 : (queue_init QUEUE_SIZE q0).size = 0 := rfl
  rw [h0] at h4
  have hnn := h5.2.1
  refine ⟨h1, ?_, by omega, by omega⟩
  rw [h3, ← h2, List.take_left']
  rfl

/-- A run over a three-cell queue whose head and tail wrap around. -/
theorem queue_round_trip_witness :
    (queue_run 3 (queue_init 3 ⟨[7, 7, 7], 5, 5, 5⟩)
      ([queue_call.enq 1, queue_call.enq 2, queue_call.deq 0, queue_call.enq 3,
        queue_call.enq 4, queue_call.deq 0, queue_call.deq 0, queue_call.enq 5].take 7)).outs
      = [1, 2, 3] :=
  (queue_round_trip 3 ⟨[7, 7, 7], 5, 5, 5⟩ (by decide)
    [queue_call.enq 1, queue_call.enq 2, queue_call.deq 0, queue_call.enq 3,
      queue_call.enq 4, queue_call.deq 0, queue_call.deq 0, queue_call.enq 5]
    (by decide) 7).2.1
theorem queue_in_wf (n : Nat) (q : queue_t) (x : Int) (hwf : queue_wf n q) :
    queue_wf n (queue_in n q x).2 := by
  cases hf : queue_is_full n q with
  | true => simpa [queue_in, hf] using hwf
  | false => exact (queue_in_spec n q x hwf hf).2.1

theorem queue_out_wf (n : Nat) (q : queue_t) (c : Int) (hwf : queue_wf n q) :
    queue_wf n (queue_out n q c).2.1 := by
  cases he : queue_is_empty q with
  | true => simpa [queue_out, he] using hwf
  | false => exact (queue_out_spec n q c hwf he).2.1

theorem queue_run_wf (n : Nat) :
    ∀ (cs : List queue_call) (q : queue_t), queue_wf n q → queue_wf n (queue_run n q cs).q := by
  intro cs
  induction cs with
  | nil => intro q h; simpa [queue_run] using h
  | cons c cs ih =>
    intro q h
    cases c with
    | enq x => simpa [queue_run] using ih _ (queue_in_wf n q x h)
    | deq c => simpa [queue_run] using ih _ (queue_out_wf n q c h)

/-- C2. Queue failure cases: `queue_in` on a queue with `size = QUEUE_SIZE` returns -1
and `queue_out` on a queue with `size = 0` returns -1, each leaving the queue (and the
output cell) as it was; and on a queue reached from `queue_init` by any calls and holding
one element, `queue_out` returns 0 and leaves exactly the `queue_init` state: every cell
-1, head = tail = -1, size = 0. -/
theorem queue_failure_cases (QUEUE_SIZE : Nat) (qf qe q0 : queue_t) (item cell : Int)
    (cs : List queue_call) (hfull : qf.size = (QUEUE_SIZE : Int)) (hempty : qe.size = 0)
    (hlen : q0.items.length = QUEUE_SIZE)
    (hone : (queue_run QUEUE_SIZE (queue_init QUEUE_SIZE q0) cs).q.size = 1) :
    queue_in QUEUE_SIZE qf item = (-1, qf) ∧
    queue_out QUEUE_SIZE qe cell = (-1, qe, cell) ∧
    (queue_out QUEUE_SIZE (queue_run QUEUE_SIZE (queue_init QUEUE_SIZE q0) cs).q cell).1 = 0 ∧
    (queue_out QUEUE_SIZE (queue_run QUEUE_SIZE (queue_init QUEUE_SIZE q0) cs).q cell).2.1
      = queue_init QUEUE_SIZE q0 ∧
    queue_init QUEUE_SIZE q0
      = { items := List.replicate QUEUE_SIZE (-1), head := -1, tail := -1, size := 0 } := by
  have hinit : queue_init QUEUE_SIZE q0
      = { items := List.replicate QUEUE_SIZE (-1), head := -1, tail := -1, size := 0 } := by
    have := queue_init_items QUEUE_SIZE q0 hlen
    simp only [queue_init] at this ⊢
    rw [this]
  refine ⟨?_, ?_, ?_, ?_, hinit⟩
  · simp [queue_in, queue_is_full, hfull]
  · simp [queue_out, queue_is_empty, hempty]
  · have hwf := queue_run_wf QUEUE_SIZE cs _ (queue_init_wf QUEUE_SIZE q0 hlen)
    exact (queue_out_spec QUEUE_SIZE _ cell hwf (by simp [queue_is_empty, hone])).1
  · have hwf := queue_run_wf QUEUE_SIZE cs _ (queue_init_wf QUEUE_SIZE q0 hlen)
    generalize (queue_run QUEUE_SIZE (queue_init QUEUE_SIZE q0) cs).q = q at hone hwf
    obtain ⟨hl, _, _, _, hne⟩ := hwf
    obtain ⟨hh0, hhn, ht⟩ := hne (by omega)
    have hht : q.head = q.tail := by
      rw [ht, hone]
      have : q.head + 1 - 1 = q.head := by omega
      rw [this, Int.emod_eq_of_lt hh0 hhn]
    have hq : queue_out QUEUE_SIZE q cell
        = (0, queue_init QUEUE_SIZE { q with items := arr_set q.items q.head 0 },
            arr_get q.items q.head) := by
      simp [queue_out, queue_is_empty, hone, hht]
    rw [hq, hinit]
    have := queue_init_items QUEUE_SIZE { q with items := arr_set q.items q.head 0 }
      (by simp [arr_set_length, hl])
    simp only [queue_init] at this ⊢
    rw [this]

/-- A full two-cell queue, an empty one, and a queue left with one element after the
head has moved. -/
theorem queue_failure_cases_witness :
    queue_in 2 ⟨[4, 5], 0, 1, 2⟩ 9 = (-1, ⟨[4, 5], 0, 1, 2⟩) ∧
    queue_out 2 ⟨[-1, -1], -1, -1, 0⟩ 9 = (-1, ⟨[-1, -1], -1, -1, 0⟩, 9) ∧
    (queue_out 2 (queue_run 2 (queue_init 2 ⟨[0, 0], 0, 0, 0⟩)
        [queue_call.enq 4, queue_call.enq 5, queue_call.deq 0]).q 9).1 = 0 ∧
    (queue_out 2 (queue_run 2 (queue_init 2 ⟨[0, 0], 0, 0, 0⟩)
        [queue_call.enq 4, queue_call.enq 5, queue_call.deq 0]).q 9).2.1
      = queue_init 2 ⟨[0, 0], 0, 0, 0⟩ ∧
    queue_init 2 ⟨[0, 0], 0, 0, 0⟩ = { items := [-1, -1], head := -1, tail := -1, size := 0 } :=
  queue_failure_cases 2 ⟨[4, 5], 0, 1, 2⟩ ⟨[-1, -1], -1, -1, 0⟩ ⟨[0, 0], 0, 0, 0⟩ 9 9
    [queue_call.enq 4, queue_call.enq 5, queue_call.deq 0]
    (by decide) (by decide) (by decide) (by decide)

/-! ## Ring-buffer lemmas -/

theorem ringbuf_init_data (n : Nat) (b : ringbuf_t) (hl : b.data.length = n) :
    (ringbuf_init n b).data = List.replicate n 0 := by
  unfold ringbuf_init
  simp only
  rw [foldl_arr_set_range 0 n b.data (by omega)]
  simp [← hl]

theorem ringbuf_init_inv (n : Nat) (b : ringbuf_t) (hl : b.data.length = n) :
    ringbuf_inv n (ringbuf_init n b) := by
  refine ⟨⟨?_, ?_, ?_, ?_, ?_⟩, ?_⟩
  · rw [ringbuf_init_data n b hl]; simp
  · simp [ringbuf_init]
  · simp [ringbuf_init]
  · simp [ringbuf_init]
  · intro h; simp [ringbuf_init] at h
  · intro _; simp [ringbuf_init]

theorem ringbuf_init_contents (n : Nat) (b : ringbuf_t) :
    ringbuf_contents n (ringbuf_init n b) = [] := by
  simp [ringbuf_contents, ringbuf_init]

theorem ringbuf_contents_length (n : Nat) (b : ringbuf_t) :
    (ringbuf_contents n b).length = b.size.toNat := by
  simp [ringbuf_contents]

theorem ringbuf_write_spec (n : Nat) (b : ringbuf_t) (x : Int) (hwf : ringbuf_inv n b)
    (hnf : ringbuf_is_full n b = false) :
    (ringbuf_write n b x).1 = 0 ∧ ringbuf_inv n (ringbuf_write n b x).2 ∧
    ringbuf_contents n (ringbuf_write n b x).2 = ringbuf_contents n b ++ [x] := by
  obtain ⟨⟨hlen, hs0, hsn, hemp, hne⟩, htl⟩ := hwf
  have hlt : b.size < (n : Int) := by
    simp only [ringbuf_is_full, beq_eq_false_iff_ne, ne_eq] at hnf
    omega
  by_cases he : b.size = 0
  · have hh : b.head = -1 := hemp.1 he
    have ht : b.tail = -1 := htl he
    have hq : ringbuf_write n b x
        = (0, { head := 0, tail := 0, size := 1, data := arr_set b.data 0 x }) := by
      have h1 : Int.tmod (0 : Int) (n : Int) = 0 := by simp
      simp [ringbuf_write, hnf, ringbuf_is_empty, he, hh, ht, h1]
    rw [hq]
    have h0 : (0 : Int) % (n : Int) = 0 := by simp
    refine ⟨rfl, ⟨⟨?_, ?_, ?_, ?_, ?_⟩, ?_⟩, ?_⟩
    · simp [arr_set_length, hlen]
    · simp
    · dsimp only; omega
    · simp
    · intro _
      dsimp only
      refine ⟨le_refl _, by omega, le_refl _, by omega, ?_⟩
      rw [Int.emod_eq_of_lt] <;> omega
    · intro h; simp at h
    · have h1 : List.range 1 = [0] := rfl
      simp [ringbuf_contents, he, h0, h1, arr_get_set b.data 0 0 x (le_refl _) (by omega)]
  · have hpos : 0 < b.size := by omega
    have hhne : b.head ≠ -1 := fun h => he (hemp.2 h)
    obtain ⟨hh0, hhn, _, _, ht⟩ := hne he
    have hmodt := emod_cases (b.head + b.size - 1) n (by omega) (by omega)
    have hmodn := emod_cases (b.head + b.size) n (by omega) (by omega)
    have ht0 : 0 ≤ b.tail + 1 := by omega
    have htl' : Int.tmod (b.tail + 1) (n : Int) = (b.head + b.size) % (n : Int) := by
      rw [tmod_nonneg_eq _ _ ht0]
      have hc := emod_cases (b.tail + 1) n ht0 (by omega)
      omega
    have hq : ringbuf_write n b x
        = (0, { head := b.head, tail := (b.head + b.size) % (n : Int), size := b.size + 1,
                data := arr_set b.data ((b.head + b.size) % (n : Int)) x }) := by
      simp [ringbuf_write, hnf, ringbuf_is_empty, hhne, htl']
    rw [hq]
    have hti0 : 0 ≤ (b.head + b.size) % (n : Int) := by omega
    have htin : (b.head + b.size) % (n : Int) < (b.data.length : Int) := by omega
    refine ⟨rfl, ⟨⟨?_, ?_, ?_, ?_, ?_⟩, ?_⟩, ?_⟩
    · simp [arr_set_length, hlen]
    · dsimp only; omega
    · dsimp only; omega
    · dsimp only; constructor <;> intro h <;> omega
    · intro _
      dsimp only
      refine ⟨hh0, hhn, by omega, by omega, ?_⟩
      congr 1
      omega
    · intro h; dsimp only at h; omega
    · simp only [ringbuf_contents]
      have hsz : (b.size + 1).toNat = b.size.toNat + 1 := by omega
      rw [hsz, List.range_succ, List.map_append]
      congr 1
      · apply List.map_congr_left
        intro k hk
        rw [List.mem_range] at hk
        rw [arr_get_set _ _ _ _ hti0 htin]
        have hk' : (k : Int) < b.size := by omega
        have hc := emod_cases (b.head + (k : Int)) n (by omega) (by omega)
        have hne' : (b.head + (k : Int)) % (n : Int) ≠ (b.head + b.size) % (n : Int) := by omega
        simp [hne']
      · have hcast : ((b.size.toNat : Nat) : Int) = b.size := by omega
        simp [hcast, arr_get_set _ _ _ _ hti0 htin]

theorem ringbuf_read_spec (n : Nat) (b : ringbuf_t) (c : Int) (hwf : ringbuf_inv n b)
    (hnemp : ringbuf_is_empty b = false) :
    (ringbuf_read n b c).1 = 0 ∧ ringbuf_inv n (ringbuf_read n b c).2.1 ∧
    ringbuf_contents n b = (ringbuf_read n b c).2.2 :: ringbuf_contents n (ringbuf_read n b c).2.1 := by
  obtain ⟨⟨hlen, hs0, hsn, hemp, hne⟩, htl⟩ := hwf
  have hhne : b.head ≠ -1 := by simpa [ringbuf_is_empty] using hnemp
  have he : b.size ≠ 0 := fun h => hhne (hemp.1 h)
  have hpos : 0 < b.size := by omega
  obtain ⟨hh0, hhn, _, _, ht⟩ := hne he
  have hmodt := emod_cases (b.head + b.size - 1) n (by omega) (by omega)
  have hhead : b.head % (n : Int) = b.head := Int.emod_eq_of_lt hh0 hhn
  by_cases h1 : b.size = 1
  · have hht : b.head = b.tail := by omega
    have hq : ringbuf_read n b c = (0, ringbuf_init n b, arr_get b.data b.head) := by
      simp [ringbuf_read, hnemp, hht]
    rw [hq]
    refine ⟨rfl, ringbuf_init_inv n _ hlen, ?_⟩
    have hr : List.range 1 = [0] := rfl
    rw [ringbuf_init_contents]
    simp [ringbuf_contents, h1, hr, hhead]
  · have hht : b.head ≠ b.tail := by omega
    have hmodh := emod_cases (b.head + 1) n (by omega) (by omega)
    have hq : ringbuf_read n b c
        = (0, { head := (b.head + 1) % (n : Int), tail := b.tail, size := b.size - 1,
                data := b.data }, arr_get b.data b.head) := by
      simp [ringbuf_read, hnemp, hht, tmod_nonneg_eq (b.head + 1) n (by omega)]
    rw [hq]
    refine ⟨rfl, ⟨⟨hlen, ?_, ?_, ?_, ?_⟩, ?_⟩, ?_⟩
    · dsimp only; omega
    · dsimp only; omega
    · dsimp only; constructor <;> intro h <;> omega
    · intro _
      dsimp only
      refine ⟨by omega, by omega, by omega, by omega, ?_⟩
      have hc := emod_cases ((b.head + 1) % (n : Int) + (b.size - 1) - 1) n (by omega) (by omega)
      omega
    · intro h; dsimp only at h; omega
    · dsimp only [ringbuf_contents]
      have hsz : b.size.toNat = (b.size - 1).toNat + 1 := by omega
      rw [hsz, List.range_succ_eq_map, List.map_cons, List.map_map]
      congr 1
      · simp [hhead]
      · apply List.map_congr_left
        intro k hk
        rw [List.mem_range] at hk
        have hk' : (k : Int) < b.size - 1 := by omega
        have hc1 := emod_cases (b.head + ((k + 1 : Nat) : Int)) n (by omega) (by omega)
        have hc2 := emod_cases ((b.head + 1) % (n : Int) + (k : Int)) n (by omega) (by omega)
        simp only [Function.comp]
        congr 1
        push_cast at hc1 ⊢
        omega
theorem ringbuf_full_iff (n : Nat) (b : ringbuf_t) (hwf : ringbuf_inv n b) :
    ringbuf_is_full n b = true ↔ (ringbuf_contents n b).length = n := by
  obtain ⟨⟨_, hs0, _, _, _⟩, _⟩ := hwf
  rw [ringbuf_contents_length]
  simp only [ringbuf_is_full, beq_iff_eq]
  omega

theorem ringbuf_empty_iff (n : Nat) (b : ringbuf_t) (hwf : ringbuf_inv n b) :
    ringbuf_is_empty b = true ↔ ringbuf_contents n b = [] := by
  obtain ⟨⟨_, hs0, _, hemp, _⟩, _⟩ := hwf
  rw [← List.length_eq_zero, ringbuf_contents_length]
  simp only [ringbuf_is_empty, beq_iff_eq]
  rw [← hemp]
  omega

theorem ringbuf_step_refines (n : Nat) (b : ringbuf_t) (c : ringbuf_call)
    (hinv : ringbuf_inv n b) (hsb : ringbuf_call.single_byte c = true) :
    ringbuf_inv n (ringbuf_step n b c) ∧
    ringbuf_observe n b c = (fifo_step n (ringbuf_contents n b) c).2 ∧
    ringbuf_contents n (ringbuf_step n b c) = (fifo_step n (ringbuf_contents n b) c).1 := by
  cases c with
  | write x =>
    cases hf : ringbuf_is_full n b with
    | true =>
      have hl := (ringbuf_full_iff n b hinv).1 hf
      simp [ringbuf_step, ringbuf_observe, fifo_step, ringbuf_write, hf, hl, hinv]
    | false =>
      have hl : (ringbuf_contents n b).length ≠ n := fun h => by
        have := (ringbuf_full_iff n b hinv).2 h
        simp [hf] at this
      obtain ⟨h1, h2, h3⟩ := ringbuf_write_spec n b x hinv hf
      simp only [ringbuf_step, ringbuf_observe, fifo_step, hl, if_false]
      exact ⟨h2, by rw [h1], h3⟩
  | read cell =>
    cases he : ringbuf_is_empty b with
    | true =>
      have hl := (ringbuf_empty_iff n b hinv).1 he
      simp [ringbuf_step, ringbuf_observe, fifo_step, ringbuf_read, he, hl, hinv]
    | false =>
      obtain ⟨h1, h2, h3⟩ := ringbuf_read_spec n b cell hinv he
      rw [h3]
      refine ⟨h2, ?_, rfl⟩
      show ((ringbuf_read n b cell).1, [(ringbuf_read n b cell).2.2]) = _
      rw [h1]
      rfl
  | flush =>
    exact ⟨ringbuf_init_inv n b hinv.1.1, rfl, ringbuf_init_contents n b⟩
  | write_mem m k => simp [ringbuf_call.single_byte] at hsb
  | read_mem m k => simp [ringbuf_call.single_byte] at hsb

theorem ringbuf_run_refines (n : Nat) :
    ∀ (cs : List ringbuf_call) (b : ringbuf_t), ringbuf_inv n b →
      (∀ c ∈ cs, ringbuf_call.single_byte c = true) →
      ringbuf_inv n (ringbuf_run n b cs) ∧
      ringbuf_trace n b cs = (fifo_run n (ringbuf_contents n b) cs).2 ∧
      ringbuf_contents n (ringbuf_run n b cs) = (fifo_run n (ringbuf_contents n b) cs).1 := by
  intro cs
  induction cs with
  | nil => intro b hinv _; simp [ringbuf_run, ringbuf_trace, fifo_run, hinv]
  | cons c cs ih =>
    intro b hinv hsb
    obtain ⟨h1, h2, h3⟩ := ringbuf_step_refines n b c hinv (hsb c (List.mem_cons_self _ _))
    obtain ⟨g1, g2, g3⟩ := ih _ h1 (fun c' hc' => hsb c' (List.mem_cons_of_mem _ hc'))
    simp only [ringbuf_run, List.foldl_cons, ringbuf_trace, fifo_run]
    rw [← h3, ← h2]
    exact ⟨g1, by rw [g2], g3⟩

/-! ## Ring-buffer theorems -/

/-- C3. Ring-buffer conservation for the single-byte operations: from `ringbuf_init`,
over every sequence of `ringbuf_write`, `ringbuf_read` and `ringbuf_flush` calls, the
return codes and the bytes read are those of a FIFO list of at most RINGBUF_SIZE bytes
(a read yields the oldest unread byte, or -1 on the empty list; a write on the full list
yields -1; flush empties the list), the unread bytes of the buffer are that list, and a
write on a buffer holding RINGBUF_SIZE bytes returns -1 and leaves the buffer, every
stored byte included, as it was. -/
theorem ringbuf_single_byte_fifo (RINGBUF_SIZE : Nat) (b0 : ringbuf_t)
    (hlen : b0.data.length = RINGBUF_SIZE) (cs : List ringbuf_call)
    (hsb : ∀ c ∈ cs, ringbuf_call.single_byte c = true) :
    ringbuf_trace RINGBUF_SIZE (ringbuf_init RINGBUF_SIZE b0) cs
      = (fifo_run RINGBUF_SIZE [] cs).2 ∧
    ringbuf_contents RINGBUF_SIZE (ringbuf_run RINGBUF_SIZE (ringbuf_init RINGBUF_SIZE b0) cs)
      = (fifo_run RINGBUF_SIZE [] cs).1 ∧
    (fifo_run RINGBUF_SIZE [] cs).1.length ≤ RINGBUF_SIZE ∧
    ((fifo_run RINGBUF_SIZE [] cs).1.length = RINGBUF_SIZE →
      ∀ byte : Int,
        ringbuf_write RINGBUF_SIZE
            (ringbuf_run RINGBUF_SIZE (ringbuf_init RINGBUF_SIZE b0) cs) byte
          = (-1, ringbuf_run RINGBUF_SIZE (ringbuf_init RINGBUF_SIZE b0) cs)) := by
  obtain ⟨h1, h2, h3⟩ := ringbuf_run_refines RINGBUF_SIZE cs _
    (ringbuf_init_inv RINGBUF_SIZE b0 hlen) hsb
  rw [ringbuf_init_contents] at h2 h3
  refine ⟨h2, h3, ?_, ?_⟩
  · rw [← h3, ringbuf_contents_length]
    have := h1.1.2.2.1
    omega
  · intro hfull byte
    rw [← h3] at hfull
    have hf := (ringbuf_full_iff RINGBUF_SIZE _ h1).2 hfull
    simp [ringbuf_write, hf]

/-- A two-byte buffer that is filled, refuses a third byte, is read, wraps, and is
flushed. -/
theorem ringbuf_single_byte_fifo_witness :
    ringbuf_trace 2 (ringbuf_init 2 ⟨[7, 7], 1, 1, 1⟩)
        [ringbuf_call.write 1, ringbuf_call.write 2, ringbuf_call.write 3, ringbuf_call.read 0,
         ringbuf_call.write 4, ringbuf_call.read 0, ringbuf_call.flush, ringbuf_call.read 9]
      = [(0, []), (0, []), (-1, []), (0, [1]), (0, []), (0, [2]), (0, []), (-1, [9])] :=
  (ringbuf_single_byte_fifo 2 ⟨[7, 7], 1, 1, 1⟩ (by decide)
    [ringbuf_call.write 1, ringbuf_call.write 2, ringbuf_call.write 3, ringbuf_call.read 0,
     ringbuf_call.write 4, ringbuf_call.read 0, ringbuf_call.flush, ringbuf_call.read 9]
    (by decide)).1

/-- C4, the code at a failing input. A four-byte buffer holds the unread byte 120 after
`ringbuf_init` and `ringbuf_write(120)`. Then `ringbuf_write_mem` of the one byte 97
returns 0 and stores 97 into `data[tail]`, the cell of the unread 120, before it advances
`tail`: the unread content becomes 97, 0 instead of 120, 97, and the following reads
deliver 97 and the stale 0. -/
theorem ringbuf_write_mem_overwrites_unread :
    ringbuf_contents 4 (ringbuf_run 4 (ringbuf_init 4 ⟨[0, 0, 0, 0], -1, -1, 0⟩)
      [ringbuf_call.write 120]) = [120] ∧
    ringbuf_write_mem 4 (ringbuf_run 4 (ringbuf_init 4 ⟨[0, 0, 0, 0], -1, -1, 0⟩)
      [ringbuf_call.write 120]) [97] 1
      = (0, { data := [97, 0, 0, 0], head := 0, tail := 1, size := 2 }) ∧
    ringbuf_contents 4 (ringbuf_run 4 (ringbuf_init 4 ⟨[0, 0, 0, 0], -1, -1, 0⟩)
      [ringbuf_call.write 120, ringbuf_call.write_mem [97] 1]) = [97, 0] ∧
    ringbuf_trace 4 (ringbuf_init 4 ⟨[0, 0, 0, 0], -1, -1, 0⟩)
      [ringbuf_call.write 120, ringbuf_call.write_mem [97] 1, ringbuf_call.read 0,
       ringbuf_call.read 0]
      = [(0, []), (0, []), (0, [97]), (0, [0])] := by
  decide

/-- C5, the code at a failing input. A four-byte buffer holds the unread bytes 97, 98.
`ringbuf_read_mem` with `size = 0` returns 0 and, because its last test is on the
argument `size`, calls `ringbuf_init`: the buffer is empty afterwards and the two unread
bytes are gone; the next `ringbuf_read` fails. -/
theorem ringbuf_read_mem_zero_flushes :
    ringbuf_contents 4 (ringbuf_run 4 (ringbuf_init 4 ⟨[0, 0, 0, 0], -1, -1, 0⟩)
      [ringbuf_call.write 97, ringbuf_call.write 98]) = [97, 98] ∧
    ringbuf_read_mem 4 (ringbuf_run 4 (ringbuf_init 4 ⟨[0, 0, 0, 0], -1, -1, 0⟩)
      [ringbuf_call.write 97, ringbuf_call.write 98]) [] 0
      = (0, { data := [0, 0, 0, 0], head := -1, tail := -1, size := 0 }, []) ∧
    ringbuf_trace 4 (ringbuf_init 4 ⟨[0, 0, 0, 0], -1, -1, 0⟩)
      [ringbuf_call.write 97, ringbuf_call.write 98, ringbuf_call.read_mem [] 0,
       ringbuf_call.read 7]
      = [(0, []), (0, []), (0, []), (-1, [7])] := by
  decide

/-- C6, the code at a failing input. After `ringbuf_init`, `ringbuf_write(97)` and a
`ringbuf_read_mem` of one byte, the buffer has size 0 but head 1, so `ringbuf_is_empty`
is false and the invariant fails; the next `ringbuf_read` then succeeds on the drained
buffer, returns a stale cell and leaves size = -1. -/
theorem ringbuf_read_mem_breaks_invariant :
    ringbuf_run 4 (ringbuf_init 4 ⟨[0, 0, 0, 0], -1, -1, 0⟩)
      [ringbuf_call.write 97, ringbuf_call.read_mem [0] 1]
      = { data := [97, 0, 0, 0], head := 1, tail := 0, size := 0 } ∧
    ringbuf_is_empty (ringbuf_run 4 (ringbuf_init 4 ⟨[0, 0, 0, 0], -1, -1, 0⟩)
      [ringbuf_call.write 97, ringbuf_call.read_mem [0] 1]) = false ∧
    ¬ ringbuf_wf 4 (ringbuf_run 4 (ringbuf_init 4 ⟨[0, 0, 0, 0], -1, -1, 0⟩)
      [ringbuf_call.write 97, ringbuf_call.read_mem [0] 1]) ∧
    ringbuf_read 4 (ringbuf_run 4 (ringbuf_init 4 ⟨[0, 0, 0, 0], -1, -1, 0⟩)
      [ringbuf_call.write 97, ringbuf_call.read_mem [0] 1]) 7
      = (0, { data := [97, 0, 0, 0], head := 2, tail := 0, size := -1 }, 0) := by
  decide

/-! ## Process-table lemmas -/

theorem queue_out_nonempty (n : Nat) (q : queue_t) (c : Int)
    (h : queue_is_empty q = false) :
    (queue_out n q c).1 = 0 ∧ (queue_out n q c).2.2 = arr_get q.items q.head := by
  unfold queue_out
  by_cases hht : q.head = q.tail <;> simp [h, hht]

theorem queue_out_empty (n : Nat) (q : queue_t) (c : Int) (h : queue_is_empty q = true) :
    queue_out n q c = (-1, q, c) := by
  simp [queue_out, h]

theorem queue_in_rc (n : Nat) (q : queue_t) (x : Int) :
    (queue_in n q x).1 = if queue_is_full n q then -1 else 0 := by
  unfold queue_in
  split <;> simp

theorem getD_set_eq {α : Type} (t : List α) (e j : Nat) (p d : α) :
    (t.set e p).getD j d = if e = j ∧ e < t.length then p else t.getD j d := by
  simp only [List.getD_eq_getElem?_getD, List.getElem?_set]
  by_cases h1 : e = j
  · subst h1
    by_cases h2 : e < t.length
    · simp [h2]
    · have h3 : t[e]? = none := List.getElem?_eq_none (by omega)
      simp [h2, h3]
  · simp [h1]

theorem proc_at_set (s s' : kernel_t) (e j : Nat) (p : proc_t)
    (h : s'.proc_table = s.proc_table.set e p) :
    proc_at s' j = if e = j ∧ e < s.proc_table.length then p else proc_at s j := by
  unfold proc_at
  rw [h, getD_set_eq]

theorem proc_at_set_self (s s' : kernel_t) (e : Nat) (p : proc_t)
    (h : s'.proc_table = s.proc_table.set e p) (he : e < s.proc_table.length) :
    proc_at s' e = p := by
  rw [proc_at_set s s' e e p h, if_pos ⟨rfl, he⟩]

theorem proc_at_set_other (s s' : kernel_t) (e j : Nat) (p : proc_t)
    (h : s'.proc_table = s.proc_table.set e p) (hj : j ≠ e) :
    proc_at s' j = proc_at s j := by
  rw [proc_at_set s s' e j p h, if_neg (fun hh => hj hh.1.symm)]

/-! ## Process-table theorems -/

/-- C10. `kproc_create` is atomic on failure: when the free-slot queue is empty it
returns -1 and the whole kernel state (next_pid, every slot of the process table, the
free-slot queue, the run queue and the sleep queue) is as before. -/
theorem kproc_create_atomic_on_failure (cfg : kconfig) (s : kernel_t) (proc_ptr : Nat)
    (proc_name : String) (proc_type : proc_type_t)
    (hempty : queue_is_empty s.proc_allocator = true) :
    kproc_create cfg s proc_ptr proc_name proc_type = some (-1, s) := by
  unfold kproc_create
  rw [queue_out_empty _ _ _ hempty]
  simp

/-- With both slots of `example_boot` in use, a further creation fails and changes
nothing. -/
theorem kproc_create_atomic_on_failure_witness :
    procs_in_use example_boot = example_config.PROC_MAX ∧
    kproc_create example_config example_boot 8192 "late" proc_type_t.PROC_TYPE_USER
      = some (-1, example_boot) :=
  ⟨by decide,
   kproc_create_atomic_on_failure example_config example_boot 8192 "late"
     proc_type_t.PROC_TYPE_USER (by decide)⟩
theorem scheduler_add_eq (cfg : kconfig) (s : kernel_t) (p : Nat) :
    scheduler_add cfg s (some p)
      = if (proc_at s p).pid = 0 then some s
        else if queue_is_full cfg.QUEUE_SIZE s.run_queue = true then none
        else some { s with
          run_queue := (queue_in cfg.QUEUE_SIZE s.run_queue (proc_at s p).pid).2,
          proc_table := s.proc_table.set p
            { proc_at s p with state := proc_state_t.IDLE, cpu_time := 0 } } := by
  unfold scheduler_add
  by_cases h0 : (proc_at s p).pid = 0
  · simp [h0]
  · have hb : ((proc_at s p).pid == 0) = false := by simpa using h0
    simp only [hb, Bool.false_eq_true, if_false, h0, queue_in_rc]
    cases hf : queue_is_full cfg.QUEUE_SIZE s.run_queue <;> simp

theorem scheduler_add_returns (cfg : kconfig) (s : kernel_t) (p : Nat)
    (h : (proc_at s p).pid = 0 ∨ queue_is_full cfg.QUEUE_SIZE s.run_queue = false) :
    ∃ s', scheduler_add cfg s (some p) = some s' := by
  rw [scheduler_add_eq]
  by_cases h0 : (proc_at s p).pid = 0
  · exact ⟨_, if_pos h0⟩
  · rcases h with h | h
    · exact absurd h h0
    · rw [if_neg h0, h]
      exact ⟨_, rfl⟩

theorem scheduler_add_props (cfg : kconfig) (s s' : kernel_t) (p : Nat)
    (h : scheduler_add cfg s (some p) = some s') (hp : p < s.proc_table.length) :
    s'.next_pid = s.next_pid ∧ s'.proc_allocator = s.proc_allocator ∧
    s'.sleep_queue = s.sleep_queue ∧ s'.active_proc = s.active_proc ∧
    s'.timer_ticks = s.timer_ticks ∧ s'.proc_table.length = s.proc_table.length ∧
    (∀ j, j ≠ p → proc_at s' j = proc_at s j) ∧
    (∀ j, (proc_at s' j).pid = (proc_at s j).pid) ∧
    ((proc_at s p).pid = 0 → s' = s) ∧
    ((proc_at s p).pid ≠ 0 →
      proc_at s' p = { proc_at s p with state := proc_state_t.IDLE, cpu_time := 0 } ∧
      queue_is_full cfg.QUEUE_SIZE s.run_queue = false ∧
      s'.run_queue = (queue_in cfg.QUEUE_SIZE s.run_queue (proc_at s p).pid).2) := by
  rw [scheduler_add_eq] at h
  by_cases h0 : (proc_at s p).pid = 0
  · rw [if_pos h0] at h
    injection h with h
    subst h
    exact ⟨rfl, rfl, rfl, rfl, rfl, rfl, fun _ _ => rfl, fun _ => rfl, fun _ => rfl,
      fun hne => absurd h0 hne⟩
  · rw [if_neg h0] at h
    cases hf : queue_is_full cfg.QUEUE_SIZE s.run_queue with
    | true => simp [hf] at h
    | false =>
      simp only [hf, Bool.false_eq_true, if_false] at h
      injection h with h
      subst h
      refine ⟨rfl, rfl, rfl, rfl, rfl, by simp, ?_, ?_, fun h => absurd h h0, fun _ => ⟨?_, rfl, rfl⟩⟩
      · intro j hj
        exact proc_at_set_other s _ p j _ rfl hj
      · intro j
        by_cases hj : j = p
        · subst hj
          rw [proc_at_set_self s _ j _ rfl hp]
        · rw [proc_at_set_other s _ p j _ rfl hj]
      · exact proc_at_set_self s _ p _ rfl hp

theorem kproc_create_eq (cfg : kconfig) (s : kernel_t) (proc_ptr : Nat) (proc_name : String)
    (proc_type : proc_type_t) (e : Nat)
    (hne : queue_is_empty s.proc_allocator = false)
    (hhead : arr_get s.proc_allocator.items s.proc_allocator.head = (e : Int))
    (he : e < cfg.PROC_MAX) :
    kproc_create cfg s proc_ptr proc_name proc_type
      = match scheduler_add cfg
          { s with proc_allocator := (queue_out cfg.QUEUE_SIZE s.proc_allocator (-1)).2.1,
                   next_pid := s.next_pid + 1,
                   proc_table := s.proc_table.set e
                     (kproc_create_proc cfg s (e : Int) proc_ptr proc_name proc_type) }
          (some e) with
        | none => none
        | some s2 => some ((proc_at s2 e).pid, s2) := by
  obtain ⟨hrc, hv⟩ := queue_out_nonempty cfg.QUEUE_SIZE s.proc_allocator (-1) hne
  rw [hhead] at hv
  have hcond : ¬ (((e : Int) < 0) ∨ ((cfg.PROC_MAX : Int) ≤ (e : Int))) := by omega
  unfold kproc_create
  simp only [hrc, hv, bne_self_eq_false, Bool.false_eq_true, if_false, hcond, Int.toNat_ofNat]

theorem c_string_of_no_nul (s : String) (h : ∀ c ∈ s.data, c ≠ Char.ofNat 0) :
    c_string s = s := by
  unfold c_string
  have : s.data.takeWhile (fun c => c != Char.ofNat 0) = s.data := by
    rw [List.takeWhile_eq_self_iff]
    intro c hc
    simpa using h c hc
  rw [this]

/-- The fields that `kproc_create` leaves in the slot taken from the head of the
allocator, the run queue afterwards, and the frame of the call. -/
theorem kproc_create_fields (cfg : kconfig) (s : kernel_t) (proc_ptr : Nat)
    (proc_name : String) (proc_type : proc_type_t) (e : Nat)
    (hlen : s.proc_table.length = cfg.PROC_MAX)
    (hne : queue_is_empty s.proc_allocator = false)
    (hhead : arr_get s.proc_allocator.items s.proc_allocator.head = (e : Int))
    (he : e < cfg.PROC_MAX)
    (hrun : queue_wf cfg.QUEUE_SIZE s.run_queue)
    (hroom : s.next_pid = 0 ∨ queue_is_full cfg.QUEUE_SIZE s.run_queue = false) :
    ∃ s', kproc_create cfg s proc_ptr proc_name proc_type = some (s.next_pid, s') ∧
      (proc_at s' e).pid = s.next_pid ∧
      (proc_at s' e).state = proc_state_t.IDLE ∧
      (proc_at s' e).type = proc_type ∧
      (proc_at s' e).start_time = s.timer_ticks ∧
      (proc_at s' e).run_time = 0 ∧
      (proc_at s' e).cpu_time = 0 ∧
      (proc_at s' e).sleep_time = 0 ∧
      (proc_at s' e).io0 = none ∧
      (proc_at s' e).io1 = none ∧
      (proc_at s' e).name
        = (if strlen proc_name ≤ cfg.PROC_NAME_LEN then c_string proc_name
           else "DefaultUserName") ∧
      (s.next_pid ≠ 0 →
        queue_contents cfg.QUEUE_SIZE s'.run_queue
          = queue_contents cfg.QUEUE_SIZE s.run_queue ++ [s.next_pid]) ∧
      (s.next_pid = 0 → s'.run_queue = s.run_queue) ∧
      (∀ j, j ≠ e → proc_at s' j = proc_at s j) ∧
      s'.proc_table.length = cfg.PROC_MAX ∧
      s'.next_pid = s.next_pid + 1 ∧
      s'.proc_allocator = (queue_out cfg.QUEUE_SIZE s.proc_allocator (-1)).2.1 ∧
      s'.sleep_queue = s.sleep_queue ∧ s'.active_proc = s.active_proc := by
  have he' : e < s.proc_table.length := by omega
  have hname : (if strlen proc_name > cfg.PROC_NAME_LEN then "DefaultUserName"
        else c_string proc_name)
      = (if strlen proc_name ≤ cfg.PROC_NAME_LEN then c_string proc_name
         else "DefaultUserName") := by
    by_cases h : strlen proc_name ≤ cfg.PROC_NAME_LEN
    · simp [h, Nat.not_lt.mpr h]
    · simp [h, Nat.lt_of_not_le h]
  rw [kproc_create_eq cfg s proc_ptr proc_name proc_type e hne hhead he]
  generalize hs1 : ({ s with
      proc_allocator := (queue_out cfg.QUEUE_SIZE s.proc_allocator (-1)).2.1,
      next_pid := s.next_pid + 1,
      proc_table := s.proc_table.set e
        (kproc_create_proc cfg s (e : Int) proc_ptr proc_name proc_type) } : kernel_t) = s1
  have hat : proc_at s1 e = kproc_create_proc cfg s (e : Int) proc_ptr proc_name proc_type := by
    subst hs1
    exact proc_at_set_self s _ e _ rfl he'
  have hoth : ∀ j, j ≠ e → proc_at s1 j = proc_at s j := by
    intro j hj
    subst hs1
    exact proc_at_set_other s _ e j _ rfl hj
  have hl1 : s1.proc_table.length = cfg.PROC_MAX := by
    subst hs1
    simp [hlen]
  have hpid : (proc_at s1 e).pid = s.next_pid := by rw [hat]; rfl
  have hrq : s1.run_queue = s.run_queue := by subst hs1; rfl
  obtain ⟨s2, hadd⟩ := scheduler_add_returns cfg s1 e (by rw [hpid, hrq]; exact hroom)
  obtain ⟨p1, p2, p3, p4, _, p6, p7, p8, p9, p10⟩ :=
    scheduler_add_props cfg s1 s2 e hadd (by omega)
  rw [hadd]
  refine ⟨s2, ?_, ?_⟩
  · show some ((proc_at s2 e).pid, s2) = some (s.next_pid, s2)
    rw [p8, hpid]
  · have hfields : (proc_at s2 e).pid = s.next_pid ∧
        (proc_at s2 e).state = proc_state_t.IDLE ∧ (proc_at s2 e).type = proc_type ∧
        (proc_at s2 e).start_time = s.timer_ticks ∧ (proc_at s2 e).run_time = 0 ∧
        (proc_at s2 e).cpu_time = 0 ∧ (proc_at s2 e).sleep_time = 0 ∧
        (proc_at s2 e).io0 = none ∧ (proc_at s2 e).io1 = none ∧
        (proc_at s2 e).name
          = (if strlen proc_name > cfg.PROC_NAME_LEN then "DefaultUserName"
             else c_string proc_name) := by
      by_cases h0 : (proc_at s1 e).pid = 0
      · rw [p9 h0, hat]
        exact ⟨rfl, rfl, rfl, rfl, rfl, rfl, rfl, rfl, rfl, rfl⟩
      · rw [(p10 h0).1, hat]
        exact ⟨rfl, rfl, rfl, rfl, rfl, rfl, rfl, rfl, rfl, rfl⟩
    obtain ⟨f1, f2, f3, f4, f5, f6, f7, f8, f9, f10⟩ := hfields
    refine ⟨f1, f2, f3, f4, f5, f6, f7, f8, f9, hname ▸ f10, ?_, ?_, ?_, ?_, ?_, ?_, ?_, ?_⟩
    · intro h0
      have h0' : (proc_at s1 e).pid ≠ 0 := by rw [hpid]; exact h0
      obtain ⟨_, hnf, hq⟩ := p10 h0'
      rw [hq, hpid, hrq]
      rw [hrq] at hnf
      exact (queue_in_spec cfg.QUEUE_SIZE s.run_queue s.next_pid hrun hnf).2.2.2
    · intro h0
      rw [p9 (by rw [hpid]; exact h0), hrq]
    · intro j hj
      rw [p7 j hj, hoth j hj]
    · rw [p6, hl1]
    · rw [p1, ← hs1]
    · rw [p2, ← hs1]
    · rw [p3, ← hs1]
    · rw [p4, ← hs1]

/-- C9. `kproc_create` postcondition: when the free-slot queue is not empty and holds the
slot index `e` at its head (and the run queue has room, or the new pid is 0, so that
`scheduler_add` does not panic), `kproc_create` returns the old `next_pid` and leaves
slot `e` with that pid, state IDLE, the given type, start_time = the tick count, run_time
= cpu_time = sleep_time = 0, both I/O bindings null, and the given name when its length
(`strlen`, in bytes) is at most PROC_NAME_LEN, "DefaultUserName" otherwise; in particular a
name without a NUL character is stored as it is when its UTF-8 encoding has at most
PROC_NAME_LEN bytes; a pid other than 0 is appended at the tail of the run queue; no other
slot changes. -/
theorem kproc_create_post (cfg : kconfig) (s : kernel_t) (proc_ptr : Nat)
    (proc_name : String) (proc_type : proc_type_t) (e : Nat)
    (hlen : s.proc_table.length = cfg.PROC_MAX)
    (hne : queue_is_empty s.proc_allocator = false)
    (hhead : arr_get s.proc_allocator.items s.proc_allocator.head = (e : Int))
    (he : e < cfg.PROC_MAX)
    (hrun : queue_wf cfg.QUEUE_SIZE s.run_queue)
    (hroom : s.next_pid = 0 ∨ queue_is_full cfg.QUEUE_SIZE s.run_queue = false) :
    ∃ s', kproc_create cfg s proc_ptr proc_name proc_type = some (s.next_pid, s') ∧
      (proc_at s' e).pid = s.next_pid ∧
      (proc_at s' e).state = proc_state_t.IDLE ∧
      (proc_at s' e).type = proc_type ∧
      (proc_at s' e).start_time = s.timer_ticks ∧
      (proc_at s' e).run_time = 0 ∧
      (proc_at s' e).cpu_time = 0 ∧
      (proc_at s' e).sleep_time = 0 ∧
      (proc_at s' e).io0 = none ∧
      (proc_at s' e).io1 = none ∧
      (proc_at s' e).name
        = (if strlen proc_name ≤ cfg.PROC_NAME_LEN then c_string proc_name
           else "DefaultUserName") ∧
      ((∀ c ∈ proc_name.data, c ≠ Char.ofNat 0) →
        proc_name.utf8ByteSize ≤ cfg.PROC_NAME_LEN → (proc_at s' e).name = proc_name) ∧
      (s.next_pid ≠ 0 →
        queue_contents cfg.QUEUE_SIZE s'.run_queue
          = queue_contents cfg.QUEUE_SIZE s.run_queue ++ [s.next_pid]) ∧
      (s.next_pid = 0 → s'.run_queue = s.run_queue) ∧
      (∀ j, j ≠ e → proc_at s' j = proc_at s j) ∧
      s'.proc_table.length = cfg.PROC_MAX ∧
      s'.next_pid = s.next_pid + 1 ∧
      s'.proc_allocator = (queue_out cfg.QUEUE_SIZE s.proc_allocator (-1)).2.1 ∧
      s'.sleep_queue = s.sleep_queue ∧ s'.active_proc = s.active_proc := by
  obtain ⟨s', h0, h1, h2, h3, h4, h5, h6, h7, h8, h9, h10, hrest⟩ :=
    kproc_create_fields cfg s proc_ptr proc_name proc_type e hlen hne hhead he hrun hroom
  refine ⟨s', h0, h1, h2, h3, h4, h5, h6, h7, h8, h9, h10, ?_, hrest⟩
  intro hnul hsize
  have hs : strlen proc_name ≤ cfg.PROC_NAME_LEN := by
    rw [strlen, c_string_of_no_nul proc_name hnul]; exact hsize
  rw [h10, if_pos hs, c_string_of_no_nul proc_name hnul]

/-- After the idle process, slot 1 is at the head of the allocator of `example_idle`; a
creation with the name "ééééé", which has five characters and ten bytes, more than
PROC_NAME_LEN = 8, gets pid 1, the fallback name, and joins the run queue. -/
theorem kproc_create_post_witness :
    ∃ s', kproc_create example_config example_idle 8192 "ééééé"
        proc_type_t.PROC_TYPE_USER = some (1, s') ∧
      (proc_at s' 1).pid = 1 ∧ (proc_at s' 1).name = "DefaultUserName" ∧
      queue_contents 3 s'.run_queue = [1] ∧ proc_at s' 0 = proc_at example_idle 0 := by
  obtain ⟨s', h1, h2, _, _, _, _, _, _, _, _, h11, _, h12, _, h14, _⟩ :=
    kproc_create_post example_config example_idle 8192 "ééééé"
      proc_type_t.PROC_TYPE_USER 1 (by decide) (by decide) (by decide) (by decide) (by decide)
      (Or.inr (by decide))
  exact ⟨s', h1, h2, h11, h12 (by decide), h14 0 (by decide)⟩

/-! ## Lemmas on the calls into the process table -/

theorem kproc_create_cases (cfg : kconfig) (s s' : kernel_t) (proc_ptr : Nat)
    (proc_name : String) (proc_type : proc_type_t) (rc : Int)
    (h : kproc_create cfg s proc_ptr proc_name proc_type = some (rc, s'))
    (hlen : s.proc_table.length = cfg.PROC_MAX) :
    (queue_is_empty s.proc_allocator = true ∧ rc = -1 ∧ s' = s) ∨
    (queue_is_empty s.proc_allocator = false ∧ ∃ e : Nat, e < cfg.PROC_MAX ∧
      arr_get s.proc_allocator.items s.proc_allocator.head = (e : Int) ∧
      rc = s.next_pid ∧ s'.next_pid = s.next_pid + 1 ∧
      s'.proc_allocator = (queue_out cfg.QUEUE_SIZE s.proc_allocator (-1)).2.1 ∧
      s'.proc_table.length = cfg.PROC_MAX ∧
      (proc_at s' e).pid = s.next_pid ∧
      (∀ j, j ≠ e → proc_at s' j = proc_at s j)) := by
  cases hemp : queue_is_empty s.proc_allocator with
  | true =>
    left
    unfold kproc_create at h
    rw [queue_out_empty _ _ _ hemp] at h
    simp at h
    exact ⟨rfl, h.1.symm, h.2.symm⟩
  | false =>
    right
    refine ⟨rfl, ?_⟩
    obtain ⟨hrc, hv⟩ := queue_out_nonempty cfg.QUEUE_SIZE s.proc_allocator (-1) hemp
    by_cases hrange : arr_get s.proc_allocator.items s.proc_allocator.head < 0 ∨
        (cfg.PROC_MAX : Int) ≤ arr_get s.proc_allocator.items s.proc_allocator.head
    · unfold kproc_create at h
      simp [hrc, hv, hrange] at h
    · obtain ⟨e, he⟩ : ∃ e : Nat,
          arr_get s.proc_allocator.items s.proc_allocator.head = (e : Int) :=
        ⟨(arr_get s.proc_allocator.items s.proc_allocator.head).toNat, by omega⟩
      have heN : e < cfg.PROC_MAX := by omega
      have he' : e < s.proc_table.length := by omega
      rw [kproc_create_eq cfg s proc_ptr proc_name proc_type e hemp he heN] at h
      generalize hs1 : ({ s with
        proc_allocator := (queue_out cfg.QUEUE_SIZE s.proc_allocator (-1)).2.1,
        next_pid := s.next_pid + 1,
        proc_table := s.proc_table.set e
          (kproc_create_proc cfg s (e : Int) proc_ptr proc_name proc_type) } : kernel_t) = s1
        at h
      have hat : proc_at s1 e
          = kproc_create_proc cfg s (e : Int) proc_ptr proc_name proc_type := by
        subst hs1
        exact proc_at_set_self s _ e _ rfl he'
      have hoth : ∀ j, j ≠ e → proc_at s1 j = proc_at s j := by
        intro j hj
        subst hs1
        exact proc_at_set_other s _ e j _ rfl hj
      have hl1 : s1.proc_table.length = cfg.PROC_MAX := by
        subst hs1
        simp [hlen]
      have hpid : (proc_at s1 e).pid = s.next_pid := by rw [hat]; rfl
      cases hadd : scheduler_add cfg s1 (some e) with
      | none => simp [hadd] at h
      | some s2 =>
        simp only [hadd, Option.some.injEq, Prod.mk.injEq] at h
        obtain ⟨h1, h2⟩ := h
        subst h2
        obtain ⟨p1, p2, _, _, _, p6, p7, p8, _, _⟩ :=
          scheduler_add_props cfg s1 s2 e hadd (by omega)
        refine ⟨e, heN, he, ?_, ?_, ?_, ?_, ?_, ?_⟩
        · rw [← h1, p8, hpid]
        · rw [p1, ← hs1]
        · rw [p2, ← hs1]
        · rw [p6, hl1]
        · rw [p8, hpid]
        · intro j hj
          rw [p7 j hj, hoth j hj]

theorem find_range_unique (n p : Nat) (f : Nat → Bool) (hp : p < n) (hfp : f p = true)
    (huniq : ∀ k, f k = true → k = p) : (List.range n).find? f = some p := by
  cases hfind : (List.range n).find? f with
  | none =>
    rw [List.find?_eq_none] at hfind
    exact absurd hfp (hfind p (List.mem_range.2 hp))
  | some e =>
    rw [huniq e (List.find?_some hfind)]

theorem proc_to_entry_in_use (cfg : kconfig) (s : kernel_t) (p : Nat) (hinv : pid_inv cfg s)
    (hp : 0 ≤ (proc_at s p).pid) : proc_to_entry cfg s (some p) = (p : Int) := by
  obtain ⟨hlen, _, _, huniq⟩ := hinv
  have hpr : p < cfg.PROC_MAX := by
    by_contra hge
    have : (proc_at s p).pid = -1 := by
      unfold proc_at
      rw [List.getD_eq_getElem?_getD, List.getElem?_eq_none (by omega)]
      rfl
    omega
  have hfind := find_range_unique cfg.PROC_MAX p
    (fun entry => !decide ((proc_at s entry).pid < 0)
      && (proc_at s p).pid == (proc_at s entry).pid) hpr
  simp only [proc_to_entry]
  rw [hfind]
  · have : ¬ (proc_at s p).pid < 0 := by omega
    simp [this]
  · intro k hk
    simp only [Bool.and_eq_true, Bool.not_eq_true', decide_eq_false_iff_not, beq_iff_eq] at hk
    exact (huniq p k hp hk.2).symm

theorem proc_to_entry_free (cfg : kconfig) (s : kernel_t) (p : Nat)
    (hp : (proc_at s p).pid < 0) : proc_to_entry cfg s (some p) = -1 := by
  simp only [proc_to_entry]
  have : (List.range cfg.PROC_MAX).find?
      (fun entry => !decide ((proc_at s entry).pid < 0)
        && (proc_at s p).pid == (proc_at s entry).pid) = none := by
    rw [List.find?_eq_none]
    intro k _
    simp only [Bool.and_eq_true, Bool.not_eq_true', decide_eq_false_iff_not, beq_iff_eq, not_and]
    intro h1 h2
    omega
  rw [this]

theorem scheduler_remove_props (cfg : kconfig) (s s' : kernel_t) (proc : Option Nat)
    (h : scheduler_remove cfg s proc = some s') :
    s'.next_pid = s.next_pid ∧ s'.proc_allocator = s.proc_allocator ∧
    s'.proc_table = s.proc_table ∧ s'.sleep_queue = s.sleep_queue ∧
    s'.timer_ticks = s.timer_ticks := by
  unfold scheduler_remove at h
  cases proc with
  | none =>
    simp only [Option.some.injEq] at h
    subst h
    exact ⟨rfl, rfl, rfl, rfl, rfl⟩
  | some p =>
    simp only at h
    cases hl : scheduler_remove_loop cfg (proc_at s p).pid (s.run_queue.size.toNat + 1) 0
        s.run_queue 0 with
    | none => simp [hl] at h
    | some q =>
      simp only [hl] at h
      cases ha : s.active_proc with
      | none =>
        simp only [ha, Option.some.injEq] at h
        subst h
        exact ⟨rfl, rfl, rfl, rfl, rfl⟩
      | some a =>
        simp only [ha] at h
        split at h <;>
        · simp only [Option.some.injEq] at h
          subst h
          exact ⟨rfl, rfl, rfl, rfl, rfl⟩
theorem proc_at_congr (s1 s : kernel_t) (h : s1.proc_table = s.proc_table) (j : Nat) :
    proc_at s1 j = proc_at s j := by
  unfold proc_at
  rw [h]

theorem proc_to_entry_congr (cfg : kconfig) (s1 s : kernel_t) (proc : Option Nat)
    (h : s1.proc_table = s.proc_table) :
    proc_to_entry cfg s1 proc = proc_to_entry cfg s proc := by
  unfold proc_to_entry proc_at
  rw [h]

theorem kproc_destroy_cases (cfg : kconfig) (s s' : kernel_t) (p : Nat) (rc : Int)
    (h : kproc_destroy cfg s (some p) = some (rc, s')) (hinv : pid_inv cfg s) :
    ((proc_at s p).pid = 0 ∧ rc = -1 ∧ s' = s) ∨
    (0 < (proc_at s p).pid ∧ p < cfg.PROC_MAX ∧ s'.next_pid = s.next_pid ∧
      s'.proc_table.length = cfg.PROC_MAX ∧ (proc_at s' p).pid = -1 ∧
      (∀ j, j ≠ p → proc_at s' j = proc_at s j) ∧
      ((queue_is_full cfg.QUEUE_SIZE s.proc_allocator = true ∧ rc = -1 ∧
          s'.proc_allocator = s.proc_allocator) ∨
       (queue_is_full cfg.QUEUE_SIZE s.proc_allocator = false ∧ rc = 0 ∧
          s'.proc_allocator = (queue_in cfg.QUEUE_SIZE s.proc_allocator (p : Int)).2))) := by
  by_cases h0 : (proc_at s p).pid = 0
  · left
    simp [kproc_destroy, h0] at h
    exact ⟨h0, h.1.symm, h.2.symm⟩
  · right
    have hb : ((proc_at s p).pid == 0) = false := by simpa using h0
    simp only [kproc_destroy, hb, Bool.false_eq_true, if_false] at h
    cases hrem : scheduler_remove cfg s (some p) with
    | none => simp [hrem] at h
    | some s1 =>
      simp only [hrem] at h
      obtain ⟨r1, r2, r3, _, _⟩ := scheduler_remove_props cfg s s1 (some p) hrem
      rw [proc_to_entry_congr cfg s1 s (some p) r3] at h
      by_cases hneg : (proc_at s p).pid < 0
      · rw [proc_to_entry_free cfg s p hneg] at h
        simp at h
      · have hpos : 0 ≤ (proc_at s p).pid := by omega
        have hpr : p < cfg.PROC_MAX := by
          by_contra hge
          have : (proc_at s p).pid = -1 := by
            unfold proc_at
            rw [List.getD_eq_getElem?_getD, List.getElem?_eq_none (by have := hinv.1; omega)]
            rfl
          omega
        have hpl : p < s1.proc_table.length := by rw [r3, hinv.1]; exact hpr
        rw [proc_to_entry_in_use cfg s p hinv hpos] at h
        have hnn : ¬ ((p : Int) < 0) := by omega
        simp only [hnn, if_false, Int.toNat_ofNat, queue_in_rc, r2] at h
        refine ⟨by omega, hpr, ?_⟩
        cases hf : queue_is_full cfg.QUEUE_SIZE s.proc_allocator with
        | true =>
          simp only [hf, if_true] at h
          simp only [show ((-1 : Int) != 0) = true by decide, if_true, Option.some.injEq,
            Prod.mk.injEq] at h
          obtain ⟨h1, h2⟩ := h
          subst h2
          refine ⟨r1, by simp [r3, hinv.1], ?_, ?_, Or.inl ⟨rfl, h1.symm, rfl⟩⟩
          · rw [proc_at_set_self s1 _ p _ rfl hpl]
          · intro j hj
            rw [proc_at_set_other s1 _ p j _ rfl hj, proc_at_congr s1 s r3]
        | false =>
          simp only [hf, Bool.false_eq_true, if_false, bne_self_eq_false, Option.some.injEq,
            Prod.mk.injEq] at h
          obtain ⟨h1, h2⟩ := h
          subst h2
          refine ⟨r1, by simp [r3, hinv.1], ?_, ?_, Or.inr ⟨rfl, h1.symm, ?_⟩⟩
          · rw [proc_at_set_self s1 _ p _ rfl hpl]
          · intro j hj
            rw [proc_at_set_other s1 _ p j _ rfl hj, proc_at_congr s1 s r3]
          · rfl

theorem io_set_pid (p : proc_t) (i : Nat) (v : Option io_ref) : (p.io_set i v).pid = p.pid := by
  unfold proc_t.io_set
  split
  · rfl
  · split <;> rfl

theorem kproc_attach_tty_props (cfg : kconfig) (s : kernel_t) (pid tty : Int) :
    (kproc_attach_tty cfg s pid tty).2.next_pid = s.next_pid ∧
    (kproc_attach_tty cfg s pid tty).2.proc_allocator = s.proc_allocator ∧
    (kproc_attach_tty cfg s pid tty).2.proc_table.length = s.proc_table.length ∧
    (∀ j, (proc_at (kproc_attach_tty cfg s pid tty).2 j).pid = (proc_at s j).pid) := by
  unfold kproc_attach_tty
  cases hp : pid_to_proc cfg s pid with
  | none => exact ⟨rfl, rfl, rfl, fun _ => rfl⟩
  | some p =>
    cases ht : tty_get cfg tty with
    | none => exact ⟨rfl, rfl, rfl, fun _ => rfl⟩
    | some t =>
      refine ⟨rfl, rfl, by simp, ?_⟩
      intro j
      dsimp only
      rw [proc_at_set s _ p j _ rfl]
      split
      · rename_i hj
        rw [io_set_pid, io_set_pid, hj.1]
      · rfl
theorem proc_at_ge (s : kernel_t) (i : Nat) (h : s.proc_table.length ≤ i) :
    (proc_at s i).pid = -1 := by
  unfold proc_at
  rw [List.getD_eq_getElem?_getD, List.getElem?_eq_none h]
  rfl

theorem created_pids_cons (c : kproc_call) (cs : List kproc_call) (rc : Int) (rcs : List Int) :
    created_pids (c :: cs) (rc :: rcs) = created_pids [c] [rc] ++ created_pids cs rcs := by
  cases c with
  | create p n t =>
    by_cases h : rc = -1 <;> simp [created_pids, h]
  | destroy i => simp [created_pids]
  | attach_tty pid tty => simp [created_pids]

theorem pid_inv_create (cfg : kconfig) (s s' : kernel_t) (proc_ptr : Nat)
    (proc_name : String) (proc_type : proc_type_t) (rc : Int)
    (h : kproc_create cfg s proc_ptr proc_name proc_type = some (rc, s'))
    (hinv : pid_inv cfg s) :
    pid_inv cfg s' ∧
    ((rc = -1 ∧ s' = s) ∨
     (rc = s.next_pid ∧ s'.next_pid = s.next_pid + 1 ∧
      ∀ i, 0 ≤ (proc_at s' i).pid →
        (∃ j, (proc_at s j).pid = (proc_at s' i).pid) ∨ (proc_at s' i).pid = s.next_pid)) := by
  obtain ⟨hlen, hnn, hlt, huniq⟩ := hinv
  rcases kproc_create_cases cfg s s' proc_ptr proc_name proc_type rc h hlen with
    ⟨_, hrc, hs⟩ | ⟨_, e, he, _, hrc, hnp, _, hl', hpe, hoth⟩
  · subst hs
    exact ⟨⟨hlen, hnn, hlt, huniq⟩, Or.inl ⟨hrc, rfl⟩⟩
  · have hpid : ∀ j, (proc_at s' j).pid = if j = e then s.next_pid else (proc_at s j).pid := by
      intro j
      by_cases hj : j = e
      · rw [if_pos hj, hj, hpe]
      · rw [if_neg hj, hoth j hj]
    refine ⟨⟨hl', by omega, ?_, ?_⟩, Or.inr ⟨hrc, hnp, ?_⟩⟩
    · intro i
      rw [hpid i, hnp]
      have := hlt i
      split <;> omega
    · intro i j hi hij
      rw [hpid i] at hi hij
      rw [hpid j] at hij
      have hli := hlt i
      have hlj := hlt j
      by_cases hie : i = e
      · by_cases hje : j = e
        · rw [hie, hje]
        · rw [if_pos hie, if_neg hje] at hij
          omega
      · by_cases hje : j = e
        · rw [if_neg hie, if_pos hje] at hij
          omega
        · rw [if_neg hie] at hi hij
          rw [if_neg hje] at hij
          exact huniq i j hi hij
    · intro i _
      rw [hpid i]
      by_cases hie : i = e
      · right; rw [if_pos hie]
      · left; exact ⟨i, by rw [if_neg hie]⟩

theorem pid_inv_destroy (cfg : kconfig) (s s' : kernel_t) (p : Nat) (rc : Int)
    (h : kproc_destroy cfg s (some p) = some (rc, s')) (hinv : pid_inv cfg s) :
    pid_inv cfg s' ∧ s'.next_pid = s.next_pid ∧
    ∀ i, 0 ≤ (proc_at s' i).pid → ∃ j, (proc_at s j).pid = (proc_at s' i).pid := by
  rcases kproc_destroy_cases cfg s s' p rc h hinv with
    ⟨_, _, hs⟩ | ⟨_, _, hnp, hl', hpp, hoth, _⟩
  · subst hs
    exact ⟨hinv, rfl, fun i _ => ⟨i, rfl⟩⟩
  · obtain ⟨hlen, hnn, hlt, huniq⟩ := hinv
    have hpid : ∀ j, (proc_at s' j).pid = if j = p then -1 else (proc_at s j).pid := by
      intro j
      by_cases hj : j = p
      · rw [if_pos hj, hj, hpp]
      · rw [if_neg hj, hoth j hj]
    refine ⟨⟨hl', by omega, ?_, ?_⟩, hnp, ?_⟩
    · intro i
      rw [hpid i, hnp]
      have := hlt i
      split <;> omega
    · intro i j hi hij
      rw [hpid i] at hi hij
      rw [hpid j] at hij
      by_cases hie : i = p
      · rw [if_pos hie] at hi
        omega
      · rw [if_neg hie] at hi hij
        by_cases hje : j = p
        · rw [if_pos hje] at hij
          omega
        · rw [if_neg hje] at hij
          exact huniq i j hi hij
    · intro i hi
      rw [hpid i] at hi ⊢
      by_cases hie : i = p
      · rw [if_pos hie] at hi
        omega
      · exact ⟨i, by rw [if_neg hie]⟩

theorem pid_inv_attach (cfg : kconfig) (s : kernel_t) (pid tty : Int) (hinv : pid_inv cfg s) :
    pid_inv cfg (kproc_attach_tty cfg s pid tty).2 := by
  obtain ⟨hlen, hnn, hlt, huniq⟩ := hinv
  obtain ⟨a1, _, a3, a4⟩ := kproc_attach_tty_props cfg s pid tty
  refine ⟨by rw [a3, hlen], by rw [a1]; exact hnn, ?_, ?_⟩
  · intro i
    rw [a4 i, a1]
    exact hlt i
  · intro i j hi hij
    rw [a4 i] at hi hij
    rw [a4 j] at hij
    exact huniq i j hi hij

theorem kproc_step_pid (cfg : kconfig) (s s' : kernel_t) (c : kproc_call) (rc : Int)
    (h : kproc_step cfg s c = some (rc, s')) (hinv : pid_inv cfg s) :
    pid_inv cfg s' ∧
    ((created_pids [c] [rc] = [] ∧ s'.next_pid = s.next_pid ∧
      ∀ i, 0 ≤ (proc_at s' i).pid → ∃ j, (proc_at s j).pid = (proc_at s' i).pid) ∨
     (created_pids [c] [rc] = [s.next_pid] ∧ s'.next_pid = s.next_pid + 1 ∧
      ∀ i, 0 ≤ (proc_at s' i).pid →
        (∃ j, (proc_at s j).pid = (proc_at s' i).pid) ∨ (proc_at s' i).pid = s.next_pid)) := by
  cases c with
  | create p n t =>
    obtain ⟨h1, h2⟩ := pid_inv_create cfg s s' p n t rc h hinv
    refine ⟨h1, ?_⟩
    rcases h2 with ⟨hrc, hs⟩ | ⟨hrc, hnp, hsub⟩
    · left
      subst hs
      exact ⟨by simp [created_pids, hrc], rfl, fun i _ => ⟨i, rfl⟩⟩
    · right
      have hne : rc ≠ -1 := by have := hinv.2.1; omega
      refine ⟨?_, hnp, hsub⟩
      rw [← hrc]
      simp only [created_pids, hne, if_false]
  | destroy i =>
    obtain ⟨h1, h2, h3⟩ := pid_inv_destroy cfg s s' i rc h hinv
    exact ⟨h1, Or.inl ⟨by simp [created_pids], h2, h3⟩⟩
  | attach_tty pid tty =>
    simp only [kproc_step, Option.some.injEq] at h
    have hs : s' = (kproc_attach_tty cfg s pid tty).2 := by rw [h]
    subst hs
    obtain ⟨a1, _, _, a4⟩ := kproc_attach_tty_props cfg s pid tty
    exact ⟨pid_inv_attach cfg s pid tty hinv,
      Or.inl ⟨by simp [created_pids], a1, fun i _ => ⟨i, (a4 i).symm⟩⟩⟩

theorem kproc_run_pid (cfg : kconfig) :
    ∀ (calls : List kproc_call) (s s' : kernel_t) (rets : List Int),
      kproc_run cfg s calls = some (s', rets) → pid_inv cfg s →
      pid_inv cfg s' ∧
      created_pids calls rets
        = (List.range (created_pids calls rets).length).map (fun (k : Nat) => s.next_pid + (k : Int)) ∧
      s'.next_pid = s.next_pid + ((created_pids calls rets).length : Int) ∧
      ∀ i, 0 ≤ (proc_at s' i).pid →
        (∃ j, (proc_at s j).pid = (proc_at s' i).pid) ∨
        (proc_at s' i).pid ∈ created_pids calls rets := by
  intro calls
  induction calls with
  | nil =>
    intro s s' rets h hinv
    simp only [kproc_run, Option.some.injEq, Prod.mk.injEq] at h
    obtain ⟨h1, h2⟩ := h
    subst h1 h2
    exact ⟨hinv, by simp [created_pids], by simp [created_pids], fun i _ => Or.inl ⟨i, rfl⟩⟩
  | cons c cs ih =>
    intro s s' rets h hinv
    simp only [kproc_run] at h
    cases hstep : kproc_step cfg s c with
    | none => simp [hstep] at h
    | some r =>
      obtain ⟨rc, s1⟩ := r
      simp only [hstep] at h
      cases hrun : kproc_run cfg s1 cs with
      | none => simp [hrun] at h
      | some r2 =>
        obtain ⟨s2, rcs⟩ := r2
        simp only [hrun, Option.some.injEq, Prod.mk.injEq] at h
        obtain ⟨h1, h2⟩ := h
        subst h1 h2
        obtain ⟨hinv1, hcase⟩ := kproc_step_pid cfg s s1 c rc hstep hinv
        obtain ⟨g1, g2, g3, g4⟩ := ih s1 s2 rcs hrun hinv1
        rw [created_pids_cons]
        rcases hcase with ⟨hc, hnp, hsub⟩ | ⟨hc, hnp, hsub⟩
        · rw [hc, List.nil_append]
          rw [hnp] at g2 g3
          refine ⟨g1, g2, g3, ?_⟩
          intro i hi
          rcases g4 i hi with ⟨j, hj⟩ | hmem
          · obtain ⟨j', hj'⟩ := hsub j (by rw [hj]; exact hi)
            exact Or.inl ⟨j', by rw [hj', hj]⟩
          · exact Or.inr hmem
        · rw [hc]
          refine ⟨g1, ?_, ?_, ?_⟩
          · simp only [List.singleton_append, List.length_cons]
            rw [List.range_succ_eq_map, List.map_cons, List.map_map]
            congr 1
            · simp
            · rw [g2, hnp]
              simp only [List.length_map, List.length_range]
              apply List.map_congr_left
              intro k _
              simp only [Function.comp, Nat.succ_eq_add_one]
              push_cast
              omega
          · rw [g3, hnp]
            simp only [List.singleton_append, List.length_cons]
            push_cast
            omega
          · intro i hi
            rcases g4 i hi with ⟨j, hj⟩ | hmem
            · rcases hsub j (by rw [hj]; exact hi) with ⟨j', hj'⟩ | heq
              · exact Or.inl ⟨j', by rw [hj', hj]⟩
              · right
                rw [← hj, heq]
                simp
            · right
              simp [hmem]
theorem kproc_init_reset_pid (cfg : kconfig) (s0 : kernel_t) (i : Nat) :
    (proc_at (kproc_init_reset cfg s0) i).pid = -1 := by
  by_cases hi : i < cfg.PROC_MAX
  · simp [proc_at, kproc_init_reset, List.getD_eq_getElem?_getD, hi]
  · exact proc_at_ge _ i (by simp [kproc_init_reset]; omega)

theorem pid_inv_reset (cfg : kconfig) (s0 : kernel_t) : pid_inv cfg (kproc_init_reset cfg s0) := by
  refine ⟨by simp [kproc_init_reset], le_refl _, ?_, ?_⟩
  · intro i
    rw [kproc_init_reset_pid]
    show (-1 : Int) < 0
    decide
  · intro i j hi
    rw [kproc_init_reset_pid] at hi
    omega

/-- C8. Pid uniqueness and monotonic assignment: over every run of `kproc_create`,
`kproc_destroy` and `kproc_attach_tty` calls from the reset of `kproc_init`, the pids
returned by the successful creations are 0, 1, 2, ... in call order (the first is 0, each
is the `next_pid` of the moment and strictly greater than all before it, so none is
handed out twice), `next_pid` is their number, no two slots in use carry the same pid,
and every pid in the table is one of the pids returned. -/
theorem pid_unique_monotone (cfg : kconfig) (s0 s : kernel_t) (calls : List kproc_call)
    (rets : List Int)
    (hrun : kproc_run cfg (kproc_init_reset cfg s0) calls = some (s, rets)) :
    created_pids calls rets
      = (List.range (created_pids calls rets).length).map (fun (k : Nat) => (k : Int)) ∧
    (created_pids calls rets).Pairwise (fun a b => a < b) ∧
    s.next_pid = ((created_pids calls rets).length : Int) ∧
    (∀ i j, 0 ≤ (proc_at s i).pid → (proc_at s i).pid = (proc_at s j).pid → i = j) ∧
    (∀ i, 0 ≤ (proc_at s i).pid → (proc_at s i).pid ∈ created_pids calls rets) := by
  obtain ⟨h1, h2, h3, h4⟩ :=
    kproc_run_pid cfg calls _ s rets hrun (pid_inv_reset cfg s0)
  have hnp : (kproc_init_reset cfg s0).next_pid = 0 := rfl
  rw [hnp] at h2 h3
  simp only [zero_add] at h2 h3
  refine ⟨h2, ?_, h3, h1.2.2.2, ?_⟩
  · rw [h2]
    exact List.Pairwise.map _ (fun a b hab => by exact_mod_cast hab) (List.pairwise_lt_range _)
  · intro i hi
    rcases h4 i hi with ⟨j, hj⟩ | hmem
    · rw [kproc_init_reset_pid] at hj
      omega
    · exact hmem

/-- In `example_run` the creations return 0, 1, then fail, then return 2 after the
shell with pid 1 was destroyed, then fail. -/
theorem pid_unique_monotone_witness :
    example_run.2 = [0, 1, 0, -1, 0, 2, -1] ∧
    created_pids example_calls example_run.2 = [0, 1, 2] ∧
    example_run.1.next_pid = 3 := by
  obtain ⟨h1, _, h3, _, _⟩ :=
    pid_unique_monotone example_config example_start example_run.1 example_calls example_run.2
      (by decide)
  have hr : example_run.2 = [0, 1, 0, -1, 0, 2, -1] := by decide
  refine ⟨hr, ?_, ?_⟩
  · rw [hr]; decide
  · rw [h3, hr]; decide

/-! ## The allocator against the table -/

theorem queue_contents_length (n : Nat) (q : queue_t) :
    (queue_contents n q).length = q.size.toNat := by
  simp [queue_contents]

theorem kproc_init_fill (n : Nat) (q0 : queue_t) (hlen : q0.items.length = n) :
    ∀ k, k ≤ n →
      queue_wf n ((List.range k).foldl
        (fun (q : queue_t) (ptable_entry : Nat) =>
          if !queue_is_full n q then (queue_in n q (ptable_entry : Int)).2 else q)
        (queue_init n q0)) ∧
      queue_contents n ((List.range k).foldl
        (fun (q : queue_t) (ptable_entry : Nat) =>
          if !queue_is_full n q then (queue_in n q (ptable_entry : Int)).2 else q)
        (queue_init n q0)) = (List.range k).map (fun (i : Nat) => (i : Int)) := by
  intro k
  induction k with
  | zero =>
    intro _
    exact ⟨queue_init_wf n q0 hlen, by simp [queue_init_contents]⟩
  | succ k ih =>
    intro hk
    obtain ⟨hwf, hc⟩ := ih (by omega)
    rw [List.range_succ, List.foldl_append]
    simp only [List.foldl_cons, List.foldl_nil]
    generalize (List.range k).foldl
      (fun (q : queue_t) (ptable_entry : Nat) =>
        if !queue_is_full n q then (queue_in n q (ptable_entry : Int)).2 else q)
      (queue_init n q0) = q at hwf hc
    have hsz : q.size.toNat = k := by
      rw [← queue_contents_length n q, hc]
      simp
    have hnf : queue_is_full n q = false := by
      have := hwf.2.1
      simp only [queue_is_full, beq_eq_false_iff_ne, ne_eq]
      omega
    obtain ⟨_, hwf', _, hc'⟩ := queue_in_spec n q (k : Int) hwf hnf
    simp only [hnf, Bool.not_false, if_true]
    refine ⟨hwf', ?_⟩
    rw [hc', hc, List.map_append]
    rfl

theorem alloc_inv_reset (cfg : kconfig) (s0 : kernel_t)
    (hcap : cfg.PROC_MAX ≤ cfg.QUEUE_SIZE)
    (hlen : s0.proc_allocator.items.length = cfg.QUEUE_SIZE) :
    alloc_inv cfg (kproc_init_reset cfg s0) := by
  obtain ⟨hwf, hc⟩ := kproc_init_fill cfg.QUEUE_SIZE s0.proc_allocator hlen cfg.PROC_MAX hcap
  have hq : (kproc_init_reset cfg s0).proc_allocator = (List.range cfg.PROC_MAX).foldl
      (fun (q : queue_t) (ptable_entry : Nat) =>
        if !queue_is_full cfg.QUEUE_SIZE q
        then (queue_in cfg.QUEUE_SIZE q (ptable_entry : Int)).2 else q)
      (queue_init cfg.QUEUE_SIZE s0.proc_allocator) := rfl
  unfold alloc_inv
  rw [hq, hc]
  refine ⟨hwf, ?_, ?_, ?_, ?_⟩
  · exact List.Nodup.map (fun a b h => by exact_mod_cast h) (List.nodup_range _)
  · intro x hx
    rw [List.mem_map] at hx
    obtain ⟨i, hi, rfl⟩ := hx
    rw [List.mem_range] at hi
    exact ⟨by omega, by omega, kproc_init_reset_pid cfg s0 _⟩
  · intro i hi _
    exact List.mem_map.2 ⟨i, List.mem_range.2 hi, rfl⟩
  · intro i
    exact Or.inl (kproc_init_reset_pid cfg s0 i)

theorem alloc_not_full (cfg : kconfig) (s : kernel_t) (p : Nat)
    (hcap : cfg.PROC_MAX ≤ cfg.QUEUE_SIZE) (hA : alloc_inv cfg s) (hp : p < cfg.PROC_MAX)
    (hpid : 0 ≤ (proc_at s p).pid) :
    queue_is_full cfg.QUEUE_SIZE s.proc_allocator = false := by
  obtain ⟨hwf, hnd, hfree, _, _⟩ := hA
  have hnd' : ((queue_contents cfg.QUEUE_SIZE s.proc_allocator).map Int.toNat).Nodup := by
    apply List.Nodup.map_on _ hnd
    intro x hx y hy hxy
    have := (hfree x hx).1
    have := (hfree y hy).1
    omega
  have hsub : (queue_contents cfg.QUEUE_SIZE s.proc_allocator).map Int.toNat
      ⊆ (List.range cfg.PROC_MAX).erase p := by
    intro k hk
    rw [List.mem_map] at hk
    obtain ⟨x, hx, rfl⟩ := hk
    obtain ⟨h0, h1, h2⟩ := hfree x hx
    rw [(List.nodup_range _).mem_erase_iff]
    refine ⟨?_, List.mem_range.2 (by omega)⟩
    intro heq
    rw [heq] at h2
    omega
  have hle := (List.subperm_of_subset hnd' hsub).length_le
  rw [List.length_map, queue_contents_length,
    List.length_erase_of_mem (List.mem_range.2 hp), List.length_range] at hle
  have := hwf.2.1
  simp only [queue_is_full, beq_eq_false_iff_ne, ne_eq]
  omega
theorem alloc_inv_create (cfg : kconfig) (s s' : kernel_t) (proc_ptr : Nat)
    (proc_name : String) (proc_type : proc_type_t) (rc : Int)
    (h : kproc_create cfg s proc_ptr proc_name proc_type = some (rc, s'))
    (hP : pid_inv cfg s) (hA : alloc_inv cfg s) : alloc_inv cfg s' := by
  rcases kproc_create_cases cfg s s' proc_ptr proc_name proc_type rc h hP.1 with
    ⟨_, _, hs⟩ | ⟨hne, e, he, hhead, _, _, halloc, _, hpe, hoth⟩
  · subst hs
    exact hA
  · obtain ⟨hwf, hnd, hfree, hall, hsign⟩ := hA
    obtain ⟨_, hwf', _, hc⟩ := queue_out_spec cfg.QUEUE_SIZE s.proc_allocator (-1) hwf hne
    rw [(queue_out_nonempty cfg.QUEUE_SIZE s.proc_allocator (-1) hne).2, hhead] at hc
    rw [hc] at hnd hfree hall
    rw [List.nodup_cons] at hnd
    unfold alloc_inv
    rw [halloc]
    refine ⟨hwf', hnd.2, ?_, ?_, ?_⟩
    · intro x hx
      obtain ⟨h0, h1, h2⟩ := hfree x (List.mem_cons_of_mem _ hx)
      have hxe : x.toNat ≠ e := by
        intro heq
        have : x = (e : Int) := by omega
        rw [this] at hx
        exact hnd.1 hx
      exact ⟨h0, h1, by rw [hoth _ hxe]; exact h2⟩
    · intro i hi hpid
      have hie : i ≠ e := by
        intro heq
        rw [heq, hpe] at hpid
        have := hP.2.1
        omega
      rw [hoth i hie] at hpid
      rcases List.mem_cons.1 (hall i hi hpid) with heq | hmem
      · exact absurd (by exact_mod_cast heq) hie
      · exact hmem
    · intro i
      by_cases hie : i = e
      · right
        rw [hie, hpe]
        exact hP.2.1
      · rw [hoth i hie]
        exact hsign i

theorem alloc_inv_destroy (cfg : kconfig) (s s' : kernel_t) (p : Nat) (rc : Int)
    (hcap : cfg.PROC_MAX ≤ cfg.QUEUE_SIZE)
    (h : kproc_destroy cfg s (some p) = some (rc, s'))
    (hP : pid_inv cfg s) (hA : alloc_inv cfg s) : alloc_inv cfg s' := by
  rcases kproc_destroy_cases cfg s s' p rc h hP with
    ⟨_, _, hs⟩ | ⟨hpos, hpr, _, _, hpp, hoth, hq⟩
  · subst hs
    exact hA
  · have hnf := alloc_not_full cfg s p hcap hA hpr (by omega)
    rcases hq with ⟨hf, _, _⟩ | ⟨_, _, halloc⟩
    · rw [hnf] at hf
      exact absurd hf (by decide)
    · obtain ⟨hwf, hnd, hfree, hall, hsign⟩ := hA
      obtain ⟨_, hwf', _, hc⟩ := queue_in_spec cfg.QUEUE_SIZE s.proc_allocator (p : Int) hwf hnf
      have hpnot : (p : Int) ∉ queue_contents cfg.QUEUE_SIZE s.proc_allocator := by
        intro hmem
        have := (hfree _ hmem).2.2
        simp only [Int.toNat_ofNat] at this
        omega
      unfold alloc_inv
      rw [halloc, hc]
      refine ⟨hwf', ?_, ?_, ?_, ?_⟩
      · rw [List.nodup_append]
        refine ⟨hnd, List.nodup_singleton _, ?_⟩
        intro x hx hx'
        rw [List.mem_singleton] at hx'
        rw [hx'] at hx
        exact hpnot hx
      · intro x hx
        rcases List.mem_append.1 hx with hmem | hmem
        · obtain ⟨h0, h1, h2⟩ := hfree x hmem
          have hxp : x.toNat ≠ p := by
            intro heq
            have : x = (p : Int) := by omega
            rw [this] at hmem
            exact hpnot hmem
          exact ⟨h0, h1, by rw [hoth _ hxp]; exact h2⟩
        · rw [List.mem_singleton] at hmem
          subst hmem
          exact ⟨by omega, by omega, by simpa using hpp⟩
      · intro i hi hpid
        by_cases hip : i = p
        · rw [hip]
          exact List.mem_append_right _ (List.mem_singleton_self _)
        · rw [hoth i hip] at hpid
          exact List.mem_append_left _ (hall i hi hpid)
      · intro i
        by_cases hip : i = p
        · left
          rw [hip, hpp]
        · rw [hoth i hip]
          exact hsign i

theorem alloc_inv_attach (cfg : kconfig) (s : kernel_t) (pid tty : Int)
    (hA : alloc_inv cfg s) : alloc_inv cfg (kproc_attach_tty cfg s pid tty).2 := by
  obtain ⟨hwf, hnd, hfree, hall, hsign⟩ := hA
  obtain ⟨_, a2, _, a4⟩ := kproc_attach_tty_props cfg s pid tty
  unfold alloc_inv
  rw [a2]
  refine ⟨hwf, hnd, ?_, ?_, ?_⟩
  · intro x hx
    obtain ⟨h0, h1, h2⟩ := hfree x hx
    exact ⟨h0, h1, by rw [a4]; exact h2⟩
  · intro i hi hpid
    rw [a4] at hpid
    exact hall i hi hpid
  · intro i
    rw [a4]
    exact hsign i

theorem kproc_step_inv (cfg : kconfig) (s s' : kernel_t) (c : kproc_call) (rc : Int)
    (hcap : cfg.PROC_MAX ≤ cfg.QUEUE_SIZE)
    (h : kproc_step cfg s c = some (rc, s')) (hP : pid_inv cfg s) (hA : alloc_inv cfg s) :
    pid_inv cfg s' ∧ alloc_inv cfg s' := by
  refine ⟨(kproc_step_pid cfg s s' c rc h hP).1, ?_⟩
  cases c with
  | create p n t => exact alloc_inv_create cfg s s' p n t rc h hP hA
  | destroy i => exact alloc_inv_destroy cfg s s' i rc hcap h hP hA
  | attach_tty pid tty =>
    simp only [kproc_step, Option.some.injEq] at h
    have hs : s' = (kproc_attach_tty cfg s pid tty).2 := by rw [h]
    subst hs
    exact alloc_inv_attach cfg s pid tty hA

theorem kproc_run_inv (cfg : kconfig) (hcap : cfg.PROC_MAX ≤ cfg.QUEUE_SIZE) :
    ∀ (calls : List kproc_call) (s s' : kernel_t) (rets : List Int),
      kproc_run cfg s calls = some (s', rets) → pid_inv cfg s → alloc_inv cfg s →
      pid_inv cfg s' ∧ alloc_inv cfg s' := by
  intro calls
  induction calls with
  | nil =>
    intro s s' rets h hP hA
    simp only [kproc_run, Option.some.injEq, Prod.mk.injEq] at h
    obtain ⟨h1, _⟩ := h
    subst h1
    exact ⟨hP, hA⟩
  | cons c cs ih =>
    intro s s' rets h hP hA
    simp only [kproc_run] at h
    cases hstep : kproc_step cfg s c with
    | none => simp [hstep] at h
    | some r =>
      obtain ⟨rc, s1⟩ := r
      simp only [hstep] at h
      cases hrun : kproc_run cfg s1 cs with
      | none => simp [hrun] at h
      | some r2 =>
        obtain ⟨s2, rcs⟩ := r2
        simp only [hrun, Option.some.injEq, Prod.mk.injEq] at h
        obtain ⟨h1, _⟩ := h
        subst h1
        obtain ⟨hP1, hA1⟩ := kproc_step_inv cfg s s1 c rc hcap hstep hP hA
        exact ih s1 s2 rcs hrun hP1 hA1
theorem proc_table_eq_map (s : kernel_t) :
    s.proc_table = (List.range s.proc_table.length).map (proc_at s) := by
  apply List.ext_getElem
  · simp
  · intro n h1 h2
    simp [proc_at, List.getD_eq_getElem?_getD, List.getElem?_eq_getElem h1]

theorem alloc_count (cfg : kconfig) (s : kernel_t) (hP : pid_inv cfg s)
    (hA : alloc_inv cfg s) :
    s.proc_allocator.size + (procs_in_use s : Int) = (cfg.PROC_MAX : Int) := by
  obtain ⟨hwf, hnd, hfree, hall, hsign⟩ := hA
  have hnd' : ((queue_contents cfg.QUEUE_SIZE s.proc_allocator).map Int.toNat).Nodup := by
    apply List.Nodup.map_on _ hnd
    intro x hx y hy hxy
    have := (hfree x hx).1
    have := (hfree y hy).1
    omega
  have hperm : ((queue_contents cfg.QUEUE_SIZE s.proc_allocator).map Int.toNat).Perm
      ((List.range cfg.PROC_MAX).filter (fun i => decide ((proc_at s i).pid = -1))) := by
    rw [List.perm_ext_iff_of_nodup hnd' ((List.nodup_range _).filter _)]
    intro k
    simp only [List.mem_map, List.mem_filter, List.mem_range, decide_eq_true_eq]
    constructor
    · rintro ⟨x, hx, rfl⟩
      obtain ⟨h0, h1, h2⟩ := hfree x hx
      exact ⟨by omega, h2⟩
    · rintro ⟨hk, hpid⟩
      exact ⟨(k : Int), hall k hk hpid, by simp⟩
  have hlen := hperm.length_eq
  rw [List.length_map, queue_contents_length, ← List.countP_eq_length_filter] at hlen
  have huse : procs_in_use s
      = (List.range cfg.PROC_MAX).countP (fun i => decide (0 ≤ (proc_at s i).pid)) := by
    unfold procs_in_use
    conv_lhs => rw [proc_table_eq_map s, hP.1]
    rw [List.countP_map]
    rfl
  have hsplit := List.length_eq_countP_add_countP
    (fun i => decide (0 ≤ (proc_at s i).pid)) (List.range cfg.PROC_MAX)
  have hcongr : (List.range cfg.PROC_MAX).countP
        (fun a => decide ¬ (fun i => decide (0 ≤ (proc_at s i).pid)) a = true)
      = (List.range cfg.PROC_MAX).countP (fun i => decide ((proc_at s i).pid = -1)) := by
    apply List.countP_congr
    intro i _
    simp only [decide_eq_true_eq, decide_not, Bool.not_eq_true', decide_eq_false_iff_not]
    have := hsign i
    omega
  rw [hcongr, List.length_range] at hsplit
  have := hwf.2.1
  omega

theorem for_each_inv {α : Type} (body : kernel_t → α → Option kernel_t) (I : kernel_t → Prop)
    (hbody : ∀ s a s', body s a = some s' → I s → I s') :
    ∀ (l : List α) (s s' : kernel_t), for_each body l s = some s' → I s → I s' := by
  intro l
  induction l with
  | nil =>
    intro s s' h hI
    simp only [for_each, Option.some.injEq] at h
    subst h
    exact hI
  | cons a rest ih =>
    intro s s' h hI
    simp only [for_each] at h
    cases hb : body s a with
    | none => simp [hb] at h
    | some s1 =>
      simp only [hb] at h
      exact ih s1 s' h (hbody s a s1 hb hI)

theorem kproc_init_shell_inv (cfg : kconfig) (s s' : kernel_t) (m : Nat)
    (h : kproc_init_shell cfg s m = some s')
    (hI : pid_inv cfg s ∧ alloc_inv cfg s) : pid_inv cfg s' ∧ alloc_inv cfg s' := by
  unfold kproc_init_shell at h
  cases hc : kproc_create cfg s cfg.prog_shell "shell" proc_type_t.PROC_TYPE_USER with
  | none => simp [hc] at h
  | some r =>
    obtain ⟨pid, s1⟩ := r
    simp only [hc, Option.some.injEq] at h
    have hP1 := (pid_inv_create cfg s s1 _ _ _ pid hc hI.1).1
    have hA1 := alloc_inv_create cfg s s1 _ _ _ pid hc hI.1 hI.2
    subst h
    split
    · exact ⟨pid_inv_attach cfg s1 pid _ hP1, alloc_inv_attach cfg s1 pid _ hA1⟩
    · exact ⟨hP1, hA1⟩

theorem kproc_init_user_inv (cfg : kconfig) (proc_ptr : Nat) (name : String)
    (s s' : kernel_t) (i : Nat)
    (h : kproc_init_user cfg proc_ptr name s i = some s')
    (hI : pid_inv cfg s ∧ alloc_inv cfg s) : pid_inv cfg s' ∧ alloc_inv cfg s' := by
  unfold kproc_init_user at h
  cases hc : kproc_create cfg s proc_ptr name proc_type_t.PROC_TYPE_USER with
  | none => simp [hc] at h
  | some r =>
    obtain ⟨pid, s1⟩ := r
    simp only [hc, Option.some.injEq] at h
    have hP1 := (pid_inv_create cfg s s1 _ _ _ pid hc hI.1).1
    have hA1 := alloc_inv_create cfg s s1 _ _ _ pid hc hI.1 hI.2
    subst h
    exact ⟨pid_inv_attach cfg s1 pid _ hP1, alloc_inv_attach cfg s1 pid _ hA1⟩

theorem kproc_init_inv (cfg : kconfig) (s0 s1 : kernel_t)
    (hcap : cfg.PROC_MAX ≤ cfg.QUEUE_SIZE)
    (hlen : s0.proc_allocator.items.length = cfg.QUEUE_SIZE)
    (h : kproc_init cfg s0 = some s1) : pid_inv cfg s1 ∧ alloc_inv cfg s1 := by
  unfold kproc_init at h
  cases hc : kproc_create cfg (kproc_init_reset cfg s0) cfg.kproc_idle "idle"
      proc_type_t.PROC_TYPE_KERNEL with
  | none => simp [hc] at h
  | some r =>
    obtain ⟨pid, t1⟩ := r
    simp only [hc] at h
    have hP0 := pid_inv_reset cfg s0
    have hA0 := alloc_inv_reset cfg s0 hcap hlen
    have hI1 : pid_inv cfg t1 ∧ alloc_inv cfg t1 :=
      ⟨(pid_inv_create cfg _ t1 _ _ _ pid hc hP0).1, alloc_inv_create cfg _ t1 _ _ _ pid hc hP0 hA0⟩
    cases h2 : for_each (kproc_init_shell cfg) [1, 2, 3, 4] t1 with
    | none => simp [h2] at h
    | some t2 =>
      simp only [h2] at h
      have hI2 := for_each_inv (kproc_init_shell cfg) (fun s => pid_inv cfg s ∧ alloc_inv cfg s)
        (fun s a s' hb hI => kproc_init_shell_inv cfg s s' a hb hI) _ t1 t2 h2 hI1
      cases h3 : for_each (kproc_init_user cfg cfg.prog_ping "ping") (List.range 3) t2 with
      | none => simp [h3] at h
      | some t3 =>
        simp only [h3] at h
        have hI3 := for_each_inv (kproc_init_user cfg cfg.prog_ping "ping")
          (fun s => pid_inv cfg s ∧ alloc_inv cfg s)
          (fun s a s' hb hI => kproc_init_user_inv cfg _ _ s s' a hb hI) _ t2 t3 h3 hI2
        exact for_each_inv (kproc_init_user cfg cfg.prog_pong "pong")
          (fun s => pid_inv cfg s ∧ alloc_inv cfg s)
          (fun s a s' hb hI => kproc_init_user_inv cfg _ _ s s' a hb hI) _ t3 s1 h hI3

/-- C7. Process-slot conservation: with QUEUE_SIZE >= PROC_MAX, in every state reached
from `kproc_init` by `kproc_create`, `kproc_destroy` and `kproc_attach_tty` calls (a
`kproc_destroy` on a slot that is not in use has no defined result), the size of the
free-slot allocator plus the number of table slots with pid >= 0 is PROC_MAX, the
allocator holds no index twice, and an index below PROC_MAX is in the allocator exactly
when its slot has pid = -1. -/
theorem proc_slot_conservation (cfg : kconfig) (hcap : cfg.PROC_MAX ≤ cfg.QUEUE_SIZE)
    (s0 s1 s : kernel_t) (hlen : s0.proc_allocator.items.length = cfg.QUEUE_SIZE)
    (hinit : kproc_init cfg s0 = some s1) (calls : List kproc_call) (rets : List Int)
    (hrun : kproc_run cfg s1 calls = some (s, rets)) :
    s.proc_allocator.size + (procs_in_use s : Int) = (cfg.PROC_MAX : Int) ∧
    (queue_contents cfg.QUEUE_SIZE s.proc_allocator).Nodup ∧
    (∀ i, i < cfg.PROC_MAX →
      ((i : Int) ∈ queue_contents cfg.QUEUE_SIZE s.proc_allocator ↔ (proc_at s i).pid = -1)) := by
  obtain ⟨hP1, hA1⟩ := kproc_init_inv cfg s0 s1 hcap hlen hinit
  obtain ⟨hP, hA⟩ := kproc_run_inv cfg hcap calls s1 s rets hrun hP1 hA1
  refine ⟨alloc_count cfg s hP hA, hA.2.1, ?_⟩
  intro i hi
  constructor
  · intro hmem
    have := (hA.2.2.1 _ hmem).2.2
    simpa using this
  · exact hA.2.2.2.1 i hi

/-- The machine of `example_config` after `kproc_init` and `example_calls`: the shell
was destroyed and its slot handed to a new process with pid 2; allocator size and slots
in use add up to the two slots of the table. -/
theorem proc_slot_conservation_witness :
    example_boot_run.1.proc_allocator.size + (procs_in_use example_boot_run.1 : Int) = 2 ∧
    example_boot_run.2 = [-1, -1, 0, -1, 0, 2, -1] :=
  ⟨(proc_slot_conservation example_config (by decide) example_start example_boot
      example_boot_run.1 (by decide) (by decide) example_calls example_boot_run.2
      (by decide)).1,
   by decide⟩

/-! ## The loop of `scheduler_remove` always ends within its bound -/

theorem queue_out_size_le (n : Nat) (q : queue_t) (c : Int) (h : 0 < q.size) :
    (queue_out n q c).2.1.size ≤ q.size - 1 := by
  have hne : queue_is_empty q = false := by
    simp only [queue_is_empty, beq_eq_false_iff_ne, ne_eq]
    omega
  unfold queue_out
  by_cases hht : q.head = q.tail
  · simp only [hne, Bool.false_eq_true, if_false, hht, beq_self_eq_true, if_true, queue_init]
    omega
  · simp [hne, hht]

theorem queue_in_size_le (n : Nat) (q : queue_t) (x : Int) :
    (queue_in n q x).2.size ≤ q.size + 1 := by
  unfold queue_in
  split
  · simp
  · by_cases he : queue_is_empty q = true <;> simp [he]

/-- More rounds than `size - i + 1` are never used: the result of the loop does not
depend on the bound once the bound exceeds `size - i`. -/
theorem scheduler_remove_loop_fuel (cfg : kconfig) (target : Int) :
    ∀ (fuel extra : Nat) (i : Int) (q : queue_t) (pid : Int), 0 ≤ i →
      (q.size - i).toNat < fuel →
      scheduler_remove_loop cfg target (fuel + extra) i q pid
        = scheduler_remove_loop cfg target fuel i q pid := by
  intro fuel
  induction fuel with
  | zero => intro extra i q pid _ h; omega
  | succ fuel ih =>
    intro extra i q pid hi hfuel
    have hadd : fuel + 1 + extra = (fuel + extra) + 1 := by omega
    rw [hadd]
    simp only [scheduler_remove_loop]
    by_cases hlt : i < q.size
    · have hpos : 0 < q.size := by omega
      have h1 := queue_out_size_le cfg.QUEUE_SIZE q pid hpos
      have h2 := queue_in_size_le cfg.QUEUE_SIZE (queue_out cfg.QUEUE_SIZE q pid).2.1
        (queue_out cfg.QUEUE_SIZE q pid).2.2
      simp only [hlt, if_true]
      split
      · exact ih extra (i + 1) _ _ (by omega) (by omega)
      · split
        · rfl
        · exact ih extra (i + 1) _ _ (by omega) (by omega)
    · simp [hlt]

/-- Where `kproc_create` does not return: the allocator yields a slot, the new pid is not
0 and the run queue is full, so `scheduler_add` ends in `kernel_panic`. -/
theorem kproc_create_run_queue_full (cfg : kconfig) (s : kernel_t) (proc_ptr : Nat)
    (proc_name : String) (proc_type : proc_type_t) (e : Nat)
    (hlen : s.proc_table.length = cfg.PROC_MAX)
    (hne : queue_is_empty s.proc_allocator = false)
    (hhead : arr_get s.proc_allocator.items s.proc_allocator.head = (e : Int))
    (he : e < cfg.PROC_MAX) (hpid : s.next_pid ≠ 0)
    (hfull : queue_is_full cfg.QUEUE_SIZE s.run_queue = true) :
    kproc_create cfg s proc_ptr proc_name proc_type = none := by
  rw [kproc_create_eq cfg s proc_ptr proc_name proc_type e hne hhead he, scheduler_add_eq]
  have hat : (proc_at
      { s with proc_allocator := (queue_out cfg.QUEUE_SIZE s.proc_allocator (-1)).2.1,
               next_pid := s.next_pid + 1,
               proc_table := s.proc_table.set e
                 (kproc_create_proc cfg s (e : Int) proc_ptr proc_name proc_type) } e).pid
      = s.next_pid := by
    rw [proc_at_set_self s _ e _ rfl (by omega)]
    rfl
  rw [hat, if_neg hpid, if_pos hfull]

/-! ## The run queue under `scheduler_remove` -/

theorem queue_is_empty_iff (n : Nat) (q : queue_t) (hwf : queue_wf n q) :
    queue_is_empty q = true ↔ queue_contents n q = [] := by
  rw [← List.length_eq_zero, queue_contents_length]
  have := hwf.2.1
  simp only [queue_is_empty, beq_iff_eq]
  omega

theorem queue_is_full_iff (n : Nat) (q : queue_t) (hwf : queue_wf n q) :
    queue_is_full n q = true ↔ (queue_contents n q).length = n := by
  rw [queue_contents_length]
  have := hwf.2.1
  simp only [queue_is_full, beq_iff_eq]
  omega

/-- One round of the loop on a pid that is kept: the head moves to the tail. -/
theorem queue_rotate_step (n : Nat) (q : queue_t) (c : Int) (hwf : queue_wf n q)
    (hne : queue_is_empty q = false) :
    (queue_in n (queue_out n q c).2.1 (queue_out n q c).2.2).1 = 0 ∧
    queue_wf n (queue_in n (queue_out n q c).2.1 (queue_out n q c).2.2).2 ∧
    (queue_in n (queue_out n q c).2.1 (queue_out n q c).2.2).2.size = q.size ∧
    queue_contents n q = (queue_out n q c).2.2 :: queue_contents n (queue_out n q c).2.1 ∧
    queue_contents n (queue_in n (queue_out n q c).2.1 (queue_out n q c).2.2).2
      = queue_contents n (queue_out n q c).2.1 ++ [(queue_out n q c).2.2] := by
  obtain ⟨_, hwf1, hs1, hc1⟩ := queue_out_spec n q c hwf hne
  have hnf : queue_is_full n (queue_out n q c).2.1 = false := by
    have := hwf.2.2.1
    simp only [queue_is_full, beq_eq_false_iff_ne, ne_eq]
    omega
  obtain ⟨h1, h2, h3, h4⟩ := queue_in_spec n _ (queue_out n q c).2.2 hwf1 hnf
  exact ⟨h1, h2, by omega, hc1, h4⟩

theorem scheduler_remove_loop_absent (cfg : kconfig) (target : Int) :
    ∀ (fuel : Nat) (i : Int) (q : queue_t) (pid : Int),
      queue_wf cfg.QUEUE_SIZE q → target ∉ queue_contents cfg.QUEUE_SIZE q → 0 ≤ i →
      (q.size - i).toNat < fuel →
      ∃ q', scheduler_remove_loop cfg target fuel i q pid = some q' ∧
        queue_wf cfg.QUEUE_SIZE q' ∧
        queue_contents cfg.QUEUE_SIZE q'
          = (queue_contents cfg.QUEUE_SIZE q).rotate (q.size - i).toNat := by
  intro fuel
  induction fuel with
  | zero => intro i q pid _ _ _ h; omega
  | succ fuel ih =>
    intro i q pid hwf habs hi hfuel
    simp only [scheduler_remove_loop]
    by_cases hlt : i < q.size
    · have hne : queue_is_empty q = false := by
        simp only [queue_is_empty, beq_eq_false_iff_ne, ne_eq]
        omega
      obtain ⟨hrc, hwf2, hsz2, hc, hc2⟩ := queue_rotate_step cfg.QUEUE_SIZE q pid hwf hne
      have hv : target ≠ (queue_out cfg.QUEUE_SIZE q pid).2.2 := by
        intro heq
        apply habs
        rw [hc, ← heq]
        exact List.mem_cons_self _ _
      have hb : (target == (queue_out cfg.QUEUE_SIZE q pid).2.2) = false := by
        simpa using hv
      simp only [hlt, if_true, hb, Bool.false_eq_true, if_false, hrc, bne_self_eq_false]
      have habs2 : target ∉ queue_contents cfg.QUEUE_SIZE
          (queue_in cfg.QUEUE_SIZE (queue_out cfg.QUEUE_SIZE q pid).2.1
            (queue_out cfg.QUEUE_SIZE q pid).2.2).2 := by
        rw [hc2]
        intro hmem
        apply habs
        rw [hc]
        rcases List.mem_append.1 hmem with h | h
        · exact List.mem_cons_of_mem _ h
        · rw [List.mem_singleton] at h
          rw [h]
          exact List.mem_cons_self _ _
      obtain ⟨q', h1, h2, h3⟩ := ih (i + 1) _ (queue_out cfg.QUEUE_SIZE q pid).2.2 hwf2 habs2
        (by omega) (by omega)
      refine ⟨q', h1, h2, ?_⟩
      rw [h3, hc2, hsz2, hc]
      have hk : (q.size - i).toNat = (q.size - (i + 1)).toNat + 1 := by omega
      rw [hk, List.rotate_cons_succ]
    · simp only [hlt, if_false]
      refine ⟨q, rfl, hwf, ?_⟩
      have : (q.size - i).toNat = 0 := by omega
      rw [this, List.rotate_zero]

theorem scheduler_remove_loop_present (cfg : kconfig) (target : Int) :
    ∀ (A : List Int) (fuel : Nat) (i : Int) (q : queue_t) (pid : Int) (R : List Int),
      queue_wf cfg.QUEUE_SIZE q → queue_contents cfg.QUEUE_SIZE q = A ++ target :: R →
      target ∉ A → target ∉ R → 0 ≤ i → i ≤ (R.length : Int) →
      (q.size - i).toNat < fuel →
      ∃ q', scheduler_remove_loop cfg target fuel i q pid = some q' ∧
        queue_wf cfg.QUEUE_SIZE q' ∧
        queue_contents cfg.QUEUE_SIZE q' = (R ++ A).rotate (R.length - i.toNat - 1) := by
  intro A
  induction A with
  | nil =>
    intro fuel i q pid R hwf hc hA hR hi hiR hfuel
    have hsz : q.size = (R.length : Int) + 1 := by
      have := queue_contents_length cfg.QUEUE_SIZE q
      rw [hc] at this
      simp only [List.nil_append, List.length_cons] at this
      have := hwf.2.1
      omega
    cases fuel with
    | zero => omega
    | succ fuel =>
      simp only [scheduler_remove_loop]
      have hlt : i < q.size := by omega
      have hne : queue_is_empty q = false := by
        simp only [queue_is_empty, beq_eq_false_iff_ne, ne_eq]
        omega
      obtain ⟨_, hwf1, hs1, hc1⟩ := queue_out_spec cfg.QUEUE_SIZE q pid hwf hne
      rw [hc, List.nil_append] at hc1
      injection hc1 with hv hrest
      have hb : (target == (queue_out cfg.QUEUE_SIZE q pid).2.2) = true := by
        simpa using hv
      simp only [hlt, if_true, hb]
      have habs : target ∉ queue_contents cfg.QUEUE_SIZE (queue_out cfg.QUEUE_SIZE q pid).2.1 := by
        rw [← hrest]; exact hR
      obtain ⟨q', h1, h2, h3⟩ := scheduler_remove_loop_absent cfg target fuel (i + 1) _
        (queue_out cfg.QUEUE_SIZE q pid).2.2 hwf1 habs (by omega) (by omega)
      refine ⟨q', h1, h2, ?_⟩
      rw [h3, ← hrest, List.append_nil, hs1, hsz]
      congr 1
      omega
  | cons a A ih =>
    intro fuel i q pid R hwf hc hA hR hi hiR hfuel
    have hsz : q.size = (A.length : Int) + (R.length : Int) + 2 := by
      have := queue_contents_length cfg.QUEUE_SIZE q
      rw [hc] at this
      simp only [List.cons_append, List.length_cons, List.length_append] at this
      have := hwf.2.1
      omega
    cases fuel with
    | zero => omega
    | succ fuel =>
      simp only [scheduler_remove_loop]
      have hlt : i < q.size := by omega
      have hne : queue_is_empty q = false := by
        simp only [queue_is_empty, beq_eq_false_iff_ne, ne_eq]
        omega
      obtain ⟨hrc, hwf2, hsz2, hc1, hc2⟩ := queue_rotate_step cfg.QUEUE_SIZE q pid hwf hne
      rw [hc, List.cons_append] at hc1
      injection hc1 with hv hrest
      have hta : target ≠ a := fun h => hA (by rw [h]; exact List.mem_cons_self _ _)
      have hb : (target == (queue_out cfg.QUEUE_SIZE q pid).2.2) = false := by
        rw [← hv]
        simpa using hta
      simp only [hlt, if_true, hb, Bool.false_eq_true, if_false, hrc, bne_self_eq_false]
      have hc3 : queue_contents cfg.QUEUE_SIZE
          (queue_in cfg.QUEUE_SIZE (queue_out cfg.QUEUE_SIZE q pid).2.1
            (queue_out cfg.QUEUE_SIZE q pid).2.2).2 = A ++ target :: (R ++ [a]) := by
        rw [hc2, ← hrest, ← hv]
        simp
      obtain ⟨q', h1, h2, h3⟩ := ih fuel (i + 1) _ (queue_out cfg.QUEUE_SIZE q pid).2.2
        (R ++ [a]) hwf2 hc3 (fun h => hA (List.mem_cons_of_mem _ h))
        (by
          intro hmem
          rcases List.mem_append.1 hmem with h | h
          · exact hR h
          · rw [List.mem_singleton] at h
            exact hta h)
        (by omega) (by simp; omega) (by omega)
      refine ⟨q', h1, h2, ?_⟩
      rw [h3]
      simp only [List.length_append, List.length_singleton, List.append_assoc,
        List.singleton_append]
      congr 1
      omega
theorem scheduler_remove_loop_spec (cfg : kconfig) (target : Int) (q : queue_t)
    (hwf : queue_wf cfg.QUEUE_SIZE q) (hnd : (queue_contents cfg.QUEUE_SIZE q).Nodup) :
    ∃ q', scheduler_remove_loop cfg target (q.size.toNat + 1) 0 q 0 = some q' ∧
      queue_wf cfg.QUEUE_SIZE q' ∧
      (queue_contents cfg.QUEUE_SIZE q').Perm ((queue_contents cfg.QUEUE_SIZE q).erase target) ∧
      target ∉ queue_contents cfg.QUEUE_SIZE q' ∧
      (target ∉ queue_contents cfg.QUEUE_SIZE q →
        queue_contents cfg.QUEUE_SIZE q' = queue_contents cfg.QUEUE_SIZE q) := by
  have hsz := queue_contents_length cfg.QUEUE_SIZE q
  by_cases hmem : target ∈ queue_contents cfg.QUEUE_SIZE q
  · obtain ⟨A, R, hsplit⟩ := List.append_of_mem hmem
    have hnd' := hnd
    rw [hsplit] at hnd'
    have hA : target ∉ A := fun h =>
      (List.nodup_append.1 hnd').2.2 h (List.mem_cons_self _ _)
    have hR : target ∉ R := (List.nodup_cons.1 (List.nodup_append.1 hnd').2.1).1
    obtain ⟨q', h1, h2, h3⟩ := scheduler_remove_loop_present cfg target A (q.size.toNat + 1) 0 q 0
      R hwf hsplit hA hR (le_refl _) (by omega) (by omega)
    have herase : (queue_contents cfg.QUEUE_SIZE q).erase target = A ++ R := by
      rw [hsplit, List.erase_append_right _ hA, List.erase_cons_head]
    refine ⟨q', h1, h2, ?_, ?_, fun h => absurd hmem h⟩
    · rw [h3, herase]
      exact (List.rotate_perm _ _).trans List.perm_append_comm
    · rw [h3, List.mem_rotate]
      intro h
      rcases List.mem_append.1 h with h | h
      · exact hR h
      · exact hA h
  · obtain ⟨q', h1, h2, h3⟩ := scheduler_remove_loop_absent cfg target (q.size.toNat + 1) 0 q 0
      hwf hmem (le_refl _) (by omega)
    have hrot : queue_contents cfg.QUEUE_SIZE q' = queue_contents cfg.QUEUE_SIZE q := by
      rw [h3]
      have : (q.size - 0).toNat = (queue_contents cfg.QUEUE_SIZE q).length := by
        rw [hsz]; simp
      rw [this, List.rotate_length]
    refine ⟨q', h1, h2, ?_, ?_, fun _ => hrot⟩
    · rw [hrot, List.erase_of_not_mem hmem]
    · rw [hrot]; exact hmem

/-- The process that `scheduler_remove` leaves in `active_proc`. -/
theorem scheduler_remove_spec (cfg : kconfig) (s : kernel_t) (p : Nat)
    (hwf : queue_wf cfg.QUEUE_SIZE s.run_queue)
    (hnd : (queue_contents cfg.QUEUE_SIZE s.run_queue).Nodup) :
    ∃ s', scheduler_remove cfg s (some p) = some s' ∧
      s'.next_pid = s.next_pid ∧ s'.proc_allocator = s.proc_allocator ∧
      s'.proc_table = s.proc_table ∧ s'.sleep_queue = s.sleep_queue ∧
      s'.timer_ticks = s.timer_ticks ∧ s'.mutexes = s.mutexes ∧
      s'.mutex_queue = s.mutex_queue ∧ s'.semaphores = s.semaphores ∧
      s'.sem_queue = s.sem_queue ∧
      queue_wf cfg.QUEUE_SIZE s'.run_queue ∧
      (queue_contents cfg.QUEUE_SIZE s'.run_queue).Perm
        ((queue_contents cfg.QUEUE_SIZE s.run_queue).erase (proc_at s p).pid) ∧
      (proc_at s p).pid ∉ queue_contents cfg.QUEUE_SIZE s'.run_queue ∧
      ((proc_at s p).pid ∉ queue_contents cfg.QUEUE_SIZE s.run_queue →
        queue_contents cfg.QUEUE_SIZE s'.run_queue
          = queue_contents cfg.QUEUE_SIZE s.run_queue) ∧
      (∀ a, s.active_proc = some a → (proc_at s p).pid = (proc_at s a).pid →
        s'.active_proc = none) ∧
      (∀ a, s.active_proc = some a → (proc_at s p).pid ≠ (proc_at s a).pid →
        s'.active_proc = some a) ∧
      (s.active_proc = none → s'.active_proc = none) := by
  obtain ⟨q', h1, h2, h3, h4, h5⟩ :=
    scheduler_remove_loop_spec cfg (proc_at s p).pid s.run_queue hwf hnd
  have key : scheduler_remove cfg s (some p) = some
      (match s.active_proc with
       | none => { s with run_queue := q' }
       | some a =>
         if (proc_at s p).pid = (proc_at s a).pid
         then { s with run_queue := q', active_proc := none } else { s with run_queue := q' }) := by
    simp only [scheduler_remove, h1]
    cases s.active_proc with
    | none => rfl
    | some a =>
      simp only [proc_at, beq_iff_eq]
      split <;> rfl
  rw [key]
  cases ha : s.active_proc with
  | none =>
    exact ⟨_, rfl, rfl, rfl, rfl, rfl, rfl, rfl, rfl, rfl, rfl, h2, h3, h4, h5,
      fun a h => by simp at h, fun a h => by simp at h, fun _ => rfl⟩
  | some a =>
    simp only
    by_cases hpa : (proc_at s p).pid = (proc_at s a).pid
    · rw [if_pos hpa]
      refine ⟨_, rfl, rfl, rfl, rfl, rfl, rfl, rfl, rfl, rfl, rfl, h2, h3, h4, h5,
        fun _ _ _ => rfl, ?_, fun h => by simp at h⟩
      intro a' ha' hne
      simp only [Option.some.injEq] at ha'
      subst ha'
      exact absurd hpa hne
    · rw [if_neg hpa]
      refine ⟨_, rfl, rfl, rfl, rfl, rfl, rfl, rfl, rfl, rfl, rfl, h2, h3, h4, h5, ?_, ?_,
        fun h => by simp at h⟩
      · intro a' ha' heq
        simp only [Option.some.injEq] at ha'
        subst ha'
        exact absurd heq hpa
      · intro a' ha' _
        simp only [Option.some.injEq] at ha'
        subst ha'
        rfl

/-! ## Slots, pids and `pid_to_proc` -/

theorem proc_at_update (s : kernel_t) (p j : Nat) (f : proc_t → proc_t) :
    proc_at (proc_update s p f) j
      = if p = j ∧ p < s.proc_table.length then f (proc_at s p) else proc_at s j :=
  proc_at_set s _ p j _ rfl

theorem proc_at_update_self (s : kernel_t) (p : Nat) (f : proc_t → proc_t)
    (hp : p < s.proc_table.length) : proc_at (proc_update s p f) p = f (proc_at s p) :=
  proc_at_set_self s _ p _ rfl hp

theorem proc_at_update_other (s : kernel_t) (p j : Nat) (f : proc_t → proc_t) (hj : j ≠ p) :
    proc_at (proc_update s p f) j = proc_at s j :=
  proc_at_set_other s _ p j _ rfl hj

theorem proc_update_length (s : kernel_t) (p : Nat) (f : proc_t → proc_t) :
    (proc_update s p f).proc_table.length = s.proc_table.length := by
  simp [proc_update]

theorem proc_update_pid (s : kernel_t) (p j : Nat) (f : proc_t → proc_t)
    (hf : ∀ x, (f x).pid = x.pid) : (proc_at (proc_update s p f) j).pid = (proc_at s j).pid := by
  rw [proc_at_update]
  split
  · rename_i h
    rw [hf, h.1]
  · rfl

/-- A slot stored back unchanged leaves the state as it is. -/
theorem proc_update_id (s : kernel_t) (p : Nat) (f : proc_t → proc_t)
    (hf : f (proc_at s p) = proc_at s p) : proc_update s p f = s := by
  unfold proc_update
  rw [hf]
  have : s.proc_table.set p (proc_at s p) = s.proc_table := by
    apply List.ext_getElem?
    intro k
    rw [List.getElem?_set]
    by_cases hk : p = k
    · subst hk
      by_cases hl : p < s.proc_table.length
      · simp [hl, proc_at, List.getD_eq_getElem?_getD, List.getElem?_eq_getElem hl]
      · simp [hl, List.getElem?_eq_none (Nat.le_of_not_lt hl)]
    · simp [hk]
  rw [this]

theorem proc_at_in_range (s : kernel_t) (j : Nat) (h : (proc_at s j).pid ≠ -1) :
    j < s.proc_table.length := by
  by_contra hge
  exact h (proc_at_ge s j (Nat.le_of_not_lt hge))

theorem pid_to_proc_congr (cfg : kconfig) (s s' : kernel_t) (pid : Int)
    (hn : s'.next_pid = s.next_pid) (hp : ∀ j, (proc_at s' j).pid = (proc_at s j).pid) :
    pid_to_proc cfg s' pid = pid_to_proc cfg s pid := by
  unfold pid_to_proc
  rw [hn]
  have : (fun i => !decide ((proc_at s' i).pid < 0) && (proc_at s' i).pid == pid)
      = (fun i => !decide ((proc_at s i).pid < 0) && (proc_at s i).pid == pid) := by
    funext i
    rw [hp i]
  rw [this]

theorem pid_to_proc_some (cfg : kconfig) (s : kernel_t) (pid : Int) (j : Nat)
    (h : pid_to_proc cfg s pid = some j) :
    (proc_at s j).pid = pid ∧ 0 ≤ pid ∧ pid < s.next_pid ∧ j < cfg.PROC_MAX := by
  unfold pid_to_proc at h
  split at h
  · simp at h
  · rename_i hr
    have hf := List.find?_some h
    have hm := List.mem_of_find?_eq_some h
    simp only [Bool.and_eq_true, Bool.not_eq_true', decide_eq_false_iff_not, beq_iff_eq] at hf
    exact ⟨hf.2, by omega, by omega, List.mem_range.1 hm⟩

theorem pid_to_proc_in_use (cfg : kconfig) (s : kernel_t) (j : Nat) (hinv : pid_inv cfg s)
    (hj : 0 ≤ (proc_at s j).pid) : pid_to_proc cfg s (proc_at s j).pid = some j := by
  obtain ⟨hlen, _, hlt, huniq⟩ := hinv
  have hjr : j < cfg.PROC_MAX := by
    rw [← hlen]
    exact proc_at_in_range s j (by omega)
  unfold pid_to_proc
  have hr : ¬ ((proc_at s j).pid < 0 ∨ (proc_at s j).pid ≥ s.next_pid) := by
    have := hlt j
    omega
  rw [if_neg hr]
  apply find_range_unique cfg.PROC_MAX j _ hjr
  · have : ¬ (proc_at s j).pid < 0 := by omega
    simp [this]
  · intro k hk
    simp only [Bool.and_eq_true, Bool.not_eq_true', decide_eq_false_iff_not, beq_iff_eq] at hk
    exact huniq k j (by omega) hk.2

theorem pid_inv_congr (cfg : kconfig) (s s' : kernel_t) (hinv : pid_inv cfg s)
    (hl : s'.proc_table.length = s.proc_table.length) (hn : s'.next_pid = s.next_pid)
    (hp : ∀ j, (proc_at s' j).pid = (proc_at s j).pid) : pid_inv cfg s' := by
  obtain ⟨hlen, hnn, hlt, huniq⟩ := hinv
  refine ⟨by rw [hl, hlen], by rw [hn]; exact hnn, ?_, ?_⟩
  · intro i
    rw [hp, hn]
    exact hlt i
  · intro i j hi hij
    rw [hp] at hi hij
    rw [hp] at hij
    exact huniq i j hi hij

/-! ## `scheduler_run` case by case -/

theorem scheduler_run_preempt_none (cfg : kconfig) (s : kernel_t) (h : s.active_proc = none) :
    scheduler_run_preempt cfg s = some s := by
  simp [scheduler_run_preempt, h]

theorem scheduler_run_preempt_not_active (cfg : kconfig) (s : kernel_t) (a : Nat)
    (h : s.active_proc = some a) (hst : (proc_at s a).state ≠ proc_state_t.ACTIVE) :
    scheduler_run_preempt cfg s = some { s with active_proc := none } := by
  simp [scheduler_run_preempt, h, hst]

theorem scheduler_run_preempt_keep (cfg : kconfig) (s : kernel_t) (a : Nat)
    (h : s.active_proc = some a) (hst : (proc_at s a).state = proc_state_t.ACTIVE)
    (hcpu : (proc_at s a).cpu_time < (cfg.SCHEDULER_TIMESLICE : Int)) :
    scheduler_run_preempt cfg s = some s := by
  have : ¬ (cfg.SCHEDULER_TIMESLICE : Int) ≤ (proc_at s a).cpu_time := by omega
  simp [scheduler_run_preempt, h, hst, this]

theorem scheduler_run_preempt_idle (cfg : kconfig) (s : kernel_t) (a : Nat)
    (h : s.active_proc = some a) (hst : (proc_at s a).state = proc_state_t.ACTIVE)
    (hcpu : (cfg.SCHEDULER_TIMESLICE : Int) ≤ (proc_at s a).cpu_time)
    (hpid : (proc_at s a).pid = 0) :
    scheduler_run_preempt cfg s
      = some { proc_update (proc_update s a (fun x => { x with cpu_time := 0 })) a
                 (fun x => { x with state := proc_state_t.IDLE }) with active_proc := none } := by
  have hp : (proc_at (proc_update s a (fun x => { x with cpu_time := 0 })) a).pid = 0 :=
    (proc_update_pid s a a (fun x => { x with cpu_time := 0 }) (fun _ => rfl)).trans hpid
  simp [scheduler_run_preempt, h, hst, hcpu, hp]

theorem scheduler_run_preempt_user (cfg : kconfig) (s : kernel_t) (a : Nat)
    (h : s.active_proc = some a) (hst : (proc_at s a).state = proc_state_t.ACTIVE)
    (hcpu : (cfg.SCHEDULER_TIMESLICE : Int) ≤ (proc_at s a).cpu_time)
    (hpid : (proc_at s a).pid ≠ 0) :
    scheduler_run_preempt cfg s
      = match scheduler_add cfg (proc_update s a (fun x => { x with cpu_time := 0 })) (some a) with
        | none => none
        | some s3 => some { s3 with active_proc := none } := by
  have hp : (proc_at (proc_update s a (fun x => { x with cpu_time := 0 })) a).pid ≠ 0 := by
    rw [proc_update_pid s a a (fun x => { x with cpu_time := 0 }) (fun _ => rfl)]
    exact hpid
  simp [scheduler_run_preempt, h, hst, hcpu, hp]

theorem scheduler_run_select_active (cfg : kconfig) (s : kernel_t) (a : Nat)
    (h : s.active_proc = some a) :
    scheduler_run_select cfg s
      = some (proc_update s a (fun x => { x with state := proc_state_t.ACTIVE })) := by
  simp [scheduler_run_select, h]

theorem scheduler_run_select_empty (cfg : kconfig) (s : kernel_t)
    (h : s.active_proc = none) (hq : queue_is_empty s.run_queue = true) :
    scheduler_run_select cfg s
      = match pid_to_proc cfg s 0 with
        | none => none
        | some a => some (proc_update { s with active_proc := some a } a
            (fun x => { x with state := proc_state_t.ACTIVE })) := by
  cases s
  simp only at h hq
  subst h
  simp only [scheduler_run_select, queue_out_empty _ _ _ hq]
  simp only [show ((-1 : Int) != 0) = true by decide, if_true]
  generalize pid_to_proc cfg _ 0 = r
  cases r <;> rfl

theorem scheduler_run_select_queue (cfg : kconfig) (s : kernel_t)
    (h : s.active_proc = none) (hq : queue_is_empty s.run_queue = false) :
    scheduler_run_select cfg s
      = match pid_to_proc cfg s (arr_get s.run_queue.items s.run_queue.head) with
        | none => none
        | some a => some (proc_update
            { s with run_queue := (queue_out cfg.QUEUE_SIZE s.run_queue 0).2.1,
                     active_proc := some a } a
            (fun x => { x with state := proc_state_t.ACTIVE })) := by
  obtain ⟨hrc, hv⟩ := queue_out_nonempty cfg.QUEUE_SIZE s.run_queue 0 hq
  have hcongr : pid_to_proc cfg
      { s with run_queue := (queue_out cfg.QUEUE_SIZE s.run_queue 0).2.1 }
      (arr_get s.run_queue.items s.run_queue.head)
      = pid_to_proc cfg s (arr_get s.run_queue.items s.run_queue.head) :=
    pid_to_proc_congr cfg s _ _ rfl (fun _ => rfl)
  rw [← hcongr]
  cases s
  simp only at h hq hrc hv
  subst h
  simp only [scheduler_run_select, hrc, hv, bne_self_eq_false, Bool.false_eq_true, if_false]
  generalize pid_to_proc cfg _ _ = r
  cases r <;> rfl

/-! ## C11: the idle process cannot be destroyed -/

/-- C11: the idle process cannot be destroyed. On the slot whose pid is 0, `kproc_destroy`
returns -1 and leaves the whole machine state as it is (slot, free-slot queue, run queue,
sleep queue and `active_proc` included); and when a `scheduler_run` on that state has to
select (no active process, or one that is not in state ACTIVE) from an empty run queue,
it returns with the pid-0 slot as the active process, in state ACTIVE, the run queue
still being the same. -/
theorem idle_not_destroyed (cfg : kconfig) (s : kernel_t) (i : Nat)
    (hinv : pid_inv cfg s) (hpid : (proc_at s i).pid = 0) :
    ∃ s1, kproc_destroy cfg s (some i) = some (-1, s1) ∧ s1 = s ∧
      ((s1.active_proc = none ∨
          ∃ a, s1.active_proc = some a ∧ (proc_at s1 a).state ≠ proc_state_t.ACTIVE) →
        queue_is_empty s1.run_queue = true →
        ∃ s2, scheduler_run cfg s1 = some s2 ∧ s2.active_proc = some i ∧
          (proc_at s2 i).pid = 0 ∧ (proc_at s2 i).state = proc_state_t.ACTIVE ∧
          s2.run_queue = s1.run_queue ∧ s2.sleep_queue = s1.sleep_queue ∧
          ∀ j, j ≠ i → proc_at s2 j = proc_at s1 j) := by
  refine ⟨s, by simp [kproc_destroy, hpid], rfl, ?_⟩
  intro hact hq
  have hlook : pid_to_proc cfg s 0 = some i := by
    have := pid_to_proc_in_use cfg s i hinv (by omega)
    rwa [hpid] at this
  have hi : i < s.proc_table.length := proc_at_in_range s i (by omega)
  have hsel : ∀ t : kernel_t, t.active_proc = none → t.run_queue = s.run_queue →
      t.next_pid = s.next_pid → t.proc_table = s.proc_table → t.sleep_queue = s.sleep_queue →
      ∃ s2, scheduler_run_select cfg t = some s2 ∧ s2.active_proc = some i ∧
        (proc_at s2 i).pid = 0 ∧ (proc_at s2 i).state = proc_state_t.ACTIVE ∧
        s2.run_queue = s.run_queue ∧ s2.sleep_queue = s.sleep_queue ∧
        ∀ j, j ≠ i → proc_at s2 j = proc_at s j := by
    intro t ht hrq hnp htab hsq
    have hl : pid_to_proc cfg t 0 = some i := by
      rw [pid_to_proc_congr cfg s t 0 hnp (fun j => by simp [proc_at, htab])]
      exact hlook
    have hti : i < ({ t with active_proc := some i } : kernel_t).proc_table.length := by
      show i < t.proc_table.length
      rw [htab]
      exact hi
    rw [scheduler_run_select_empty cfg t ht (by rw [hrq]; exact hq), hl]
    refine ⟨_, rfl, rfl, ?_, ?_, hrq, hsq, ?_⟩
    · rw [proc_at_update_self _ i _ hti]
      show (proc_at { t with active_proc := some i } i).pid = 0
      have : proc_at { t with active_proc := some i } i = proc_at s i := by
        simp [proc_at, htab]
      rw [this, hpid]
    · rw [proc_at_update_self _ i _ hti]
    · intro j hj
      rw [proc_at_update_other _ i j _ hj]
      simp [proc_at, htab]
  rcases hact with hnone | ⟨a, ha, hst⟩
  · obtain ⟨s2, h2, hrest⟩ := hsel s hnone rfl rfl rfl rfl
    exact ⟨s2, by simp only [scheduler_run, scheduler_run_preempt_none cfg s hnone, h2], hrest⟩
  · obtain ⟨s2, h2, hrest⟩ := hsel { s with active_proc := none } rfl rfl rfl rfl rfl
    exact ⟨s2, by
      simp only [scheduler_run, scheduler_run_preempt_not_active cfg s a ha hst, h2], hrest⟩

theorem example_idle_create :
    kproc_create example_config example_reset 4096 "idle" proc_type_t.PROC_TYPE_KERNEL
      = some (0, example_idle) := by
  decide

theorem example_idle_pid_inv : pid_inv example_config example_idle :=
  (pid_inv_create example_config example_reset example_idle 4096 "idle"
    proc_type_t.PROC_TYPE_KERNEL 0 example_idle_create
    (pid_inv_reset example_config example_start)).1

theorem idle_not_destroyed_witness :
    ∃ s1, kproc_destroy example_config example_idle (some 0) = some (-1, s1) ∧
      s1 = example_idle ∧
      ∃ s2, scheduler_run example_config s1 = some s2 ∧ s2.active_proc = some 0 ∧
        (proc_at s2 0).pid = 0 ∧ (proc_at s2 0).state = proc_state_t.ACTIVE := by
  obtain ⟨s1, h1, h2, h3⟩ :=
    idle_not_destroyed example_config example_idle 0 example_idle_pid_inv (by decide)
  subst h2
  obtain ⟨s2, h4, h5, h6, h7, _⟩ := h3 (Or.inl (by decide)) (by decide)
  exact ⟨_, h1, rfl, s2, h4, h5, h6, h7⟩

/-! ## C12: what `kproc_destroy` leaves in the slot -/

/-- C12: on the machine after `kproc_init` (idle process in slot 0, a shell with pid 1 in
slot 1, attached to TTY 1), `kproc_destroy` of the shell returns 0, gives the slot pid -1
and appends index 1 to the free-slot queue, but both I/O bindings of the slot still
point into TTY 1, whereas after the table reset of `kproc_init` they were null. -/
theorem kproc_destroy_keeps_io :
    (proc_at example_boot 1).pid = 1 ∧
    (proc_at example_reset 1).io0 = none ∧ (proc_at example_reset 1).io1 = none ∧
    ∃ s1, kproc_destroy example_config example_boot (some 1) = some (0, s1) ∧
      (proc_at s1 1).pid = -1 ∧ (proc_at s1 1).state = proc_state_t.NONE ∧
      queue_contents 3 s1.proc_allocator = [1] ∧
      (proc_at s1 1).io0 = some (io_ref.io_input 1) ∧
      (proc_at s1 1).io1 = some (io_ref.io_output 1) := by
  refine ⟨by decide, by decide, by decide, ?_⟩
  have h : (kproc_destroy example_config example_boot (some 1)).isSome = true := by decide
  obtain ⟨r, hr⟩ := Option.isSome_iff_exists.1 h
  have h0 : ((kproc_destroy example_config example_boot (some 1)).map Prod.fst) = some 0 := by
    decide
  have h1 : ((kproc_destroy example_config example_boot (some 1)).map
      (fun r => ((proc_at r.2 1).pid, (proc_at r.2 1).state, queue_contents 3 r.2.proc_allocator,
        (proc_at r.2 1).io0, (proc_at r.2 1).io1)))
      = some (-1, proc_state_t.NONE, [1], some (io_ref.io_input 1),
          some (io_ref.io_output 1)) := by
    decide
  rw [hr] at h0 h1
  simp only [Option.map_some', Option.some.injEq, Prod.mk.injEq] at h0 h1
  obtain ⟨r1, r2⟩ := r
  simp only at h0 h1
  subst h0
  exact ⟨r2, hr, h1.1, h1.2.1, h1.2.2.1, h1.2.2.2.1, h1.2.2.2.2⟩

/-! ## C15: the idle fallback -/

theorem scheduler_timer_no_sleepers (cfg : kconfig) (s : kernel_t)
    (h : queue_is_empty s.sleep_queue = true) :
    scheduler_timer cfg s = some (match s.active_proc with
      | some a => proc_update s a
          (fun x => { x with run_time := x.run_time + 1, cpu_time := x.cpu_time + 1 })
      | none => s) := by
  unfold scheduler_timer
  cases s.active_proc with
  | none => simp [h]
  | some a => simp [proc_update, h]

theorem idle_only_update (cfg : kconfig) (s : kernel_t) (i a : Nat) (f : proc_t → proc_t)
    (hf : ∀ x, (f x).pid = x.pid) (h : idle_only cfg s i) :
    idle_only cfg (proc_update s a f) i := by
  obtain ⟨h1, h2, h3, h4, h5⟩ := h
  exact ⟨pid_inv_congr cfg s _ h1 (proc_update_length s a f) rfl
      (fun j => proc_update_pid s a j f hf),
    (proc_update_pid s a i f hf).trans h2, h3, h4, h5⟩

/-- With only the idle process runnable, `scheduler_run` returns with the idle process
active, in state ACTIVE, and the queues as they were. -/
theorem scheduler_run_idle_only (cfg : kconfig) (s : kernel_t) (i : Nat)
    (h : idle_only cfg s i) :
    ∃ s', scheduler_run cfg s = some s' ∧ idle_only cfg s' i ∧ s'.active_proc = some i ∧
      (proc_at s' i).state = proc_state_t.ACTIVE := by
  have hi : i < s.proc_table.length := proc_at_in_range s i (by rw [h.2.1]; decide)
  -- selection from the empty run queue
  have hsel : ∀ t : kernel_t, idle_only cfg t i → t.active_proc = none →
      ∃ s', scheduler_run_select cfg t = some s' ∧ idle_only cfg s' i ∧
        s'.active_proc = some i ∧ (proc_at s' i).state = proc_state_t.ACTIVE := by
    intro t ht hnone
    have hti : i < t.proc_table.length := proc_at_in_range t i (by rw [ht.2.1]; decide)
    have hl : pid_to_proc cfg t 0 = some i := by
      have := pid_to_proc_in_use cfg t i ht.1 (by rw [ht.2.1])
      rwa [ht.2.1] at this
    rw [scheduler_run_select_empty cfg t hnone ht.2.2.1, hl]
    refine ⟨_, rfl, ?_, rfl, ?_⟩
    · refine idle_only_update cfg _ i i _ (fun _ => rfl) ?_
      exact ⟨pid_inv_congr cfg t _ ht.1 rfl rfl (fun _ => rfl), ht.2.1, ht.2.2.1, ht.2.2.2.1,
        Or.inr rfl⟩
    · rw [proc_at_update_self _ i _
        (show i < ({ t with active_proc := some i } : kernel_t).proc_table.length from hti)]
  obtain ⟨h1, h2, h3, h4, h5⟩ := h
  rcases h5 with hnone | hact
  · obtain ⟨s', hs, hrest⟩ := hsel s ⟨h1, h2, h3, h4, Or.inl hnone⟩ hnone
    exact ⟨s', by simp only [scheduler_run, scheduler_run_preempt_none cfg s hnone, hs], hrest⟩
  · by_cases hst : (proc_at s i).state = proc_state_t.ACTIVE
    · by_cases hcpu : (cfg.SCHEDULER_TIMESLICE : Int) ≤ (proc_at s i).cpu_time
      · obtain ⟨s', hs, hrest⟩ := hsel
          { proc_update (proc_update s i (fun x => { x with cpu_time := 0 })) i
              (fun x => { x with state := proc_state_t.IDLE }) with active_proc := none }
          (by
            have hb := idle_only_update cfg _ i i (fun x => { x with state := proc_state_t.IDLE })
              (fun _ => rfl)
              (idle_only_update cfg s i i (fun x => { x with cpu_time := 0 }) (fun _ => rfl)
                ⟨h1, h2, h3, h4, Or.inr hact⟩)
            exact ⟨pid_inv_congr cfg _ _ hb.1 rfl rfl (fun _ => rfl), hb.2.1, hb.2.2.1,
              hb.2.2.2.1, Or.inl rfl⟩)
          rfl
        exact ⟨s', by
          simp only [scheduler_run, scheduler_run_preempt_idle cfg s i hact hst hcpu h2, hs],
          hrest⟩
      · refine ⟨proc_update s i (fun x => { x with state := proc_state_t.ACTIVE }), ?_, ?_, hact,
          ?_⟩
        · simp only [scheduler_run,
            scheduler_run_preempt_keep cfg s i hact hst (by omega),
            scheduler_run_select_active cfg s i hact]
        · exact idle_only_update cfg s i i _ (fun _ => rfl) ⟨h1, h2, h3, h4, Or.inr hact⟩
        · rw [proc_at_update_self _ i _ hi]
    · obtain ⟨s', hs, hrest⟩ := hsel { s with active_proc := none }
        ⟨pid_inv_congr cfg s _ h1 rfl rfl (fun _ => rfl), h2, h3, h4, Or.inl rfl⟩ rfl
      exact ⟨s', by
        simp only [scheduler_run, scheduler_run_preempt_not_active cfg s i hact hst, hs], hrest⟩

theorem tick_idle_only (cfg : kconfig) (s : kernel_t) (i : Nat) (h : idle_only cfg s i) :
    ∃ s', tick cfg s = some s' ∧ idle_only cfg s' i ∧ s'.active_proc = some i ∧
      (proc_at s' i).state = proc_state_t.ACTIVE := by
  have ht := scheduler_timer_no_sleepers cfg s h.2.2.2.1
  have h1 : idle_only cfg (match s.active_proc with
      | some a => proc_update s a
          (fun x => { x with run_time := x.run_time + 1, cpu_time := x.cpu_time + 1 })
      | none => s) i := by
    cases s.active_proc with
    | none => exact h
    | some a => exact idle_only_update cfg s i a _ (fun _ => rfl) h
  obtain ⟨s', hs, hrest⟩ := scheduler_run_idle_only cfg _ i h1
  exact ⟨s', by simp only [tick, ht, hs], hrest⟩

theorem ticks_idle_only (cfg : kconfig) (i : Nat) :
    ∀ (n : Nat) (s : kernel_t), idle_only cfg s i → 1 ≤ n →
      ∃ s', ticks cfg n s = some s' ∧ idle_only cfg s' i ∧ s'.active_proc = some i ∧
        (proc_at s' i).state = proc_state_t.ACTIVE := by
  intro n
  induction n with
  | zero => intro s _ hn; omega
  | succ k ih =>
    intro s h _
    obtain ⟨s1, hs1, hi1, ha1, hst1⟩ := tick_idle_only cfg s i h
    by_cases hk : k = 0
    · subst hk
      exact ⟨s1, by simp only [ticks, hs1], hi1, ha1, hst1⟩
    · obtain ⟨s', hs, hrest⟩ := ih s1 hi1 (by omega)
      exact ⟨s', by simp only [ticks, hs1, hs], hrest⟩

theorem kproc_init_reset_alloc_head (cfg : kconfig) (s0 : kernel_t)
    (h1 : 1 ≤ cfg.PROC_MAX) (hcap : cfg.PROC_MAX ≤ cfg.QUEUE_SIZE)
    (hlen : s0.proc_allocator.items.length = cfg.QUEUE_SIZE) :
    queue_is_empty (kproc_init_reset cfg s0).proc_allocator = false ∧
    arr_get (kproc_init_reset cfg s0).proc_allocator.items
      (kproc_init_reset cfg s0).proc_allocator.head = ((0 : Nat) : Int) := by
  obtain ⟨hwf, hc⟩ := kproc_init_fill cfg.QUEUE_SIZE s0.proc_allocator hlen cfg.PROC_MAX hcap
  have hq : (kproc_init_reset cfg s0).proc_allocator = (List.range cfg.PROC_MAX).foldl
      (fun (q : queue_t) (ptable_entry : Nat) =>
        if !queue_is_full cfg.QUEUE_SIZE q
        then (queue_in cfg.QUEUE_SIZE q (ptable_entry : Int)).2 else q)
      (queue_init cfg.QUEUE_SIZE s0.proc_allocator) := rfl
  rw [← hq] at hwf hc
  obtain ⟨m, hm⟩ : ∃ m, cfg.PROC_MAX = m + 1 := ⟨cfg.PROC_MAX - 1, by omega⟩
  have hc0 : queue_contents cfg.QUEUE_SIZE (kproc_init_reset cfg s0).proc_allocator
      = (0 : Int) :: (List.range m).map (fun (i : Nat) => ((i + 1 : Nat) : Int)) := by
    rw [hc, hm, List.range_succ_eq_map]
    simp [List.map_map, Function.comp_def]
  have hne : queue_is_empty (kproc_init_reset cfg s0).proc_allocator = false := by
    cases hb : queue_is_empty (kproc_init_reset cfg s0).proc_allocator
    · rfl
    · rw [(queue_is_empty_iff cfg.QUEUE_SIZE _ hwf).1 hb] at hc0
      simp at hc0
  refine ⟨hne, ?_⟩
  obtain ⟨_, _, _, hcons⟩ := queue_out_spec cfg.QUEUE_SIZE _ 0 hwf hne
  rw [hc0, (queue_out_nonempty cfg.QUEUE_SIZE _ 0 hne).2] at hcons
  simp only [List.cons.injEq] at hcons
  rw [← hcons.1]
  rfl

theorem boot_idle_spec (cfg : kconfig) (s0 : kernel_t)
    (h1 : 1 ≤ cfg.PROC_MAX) (hcap : cfg.PROC_MAX ≤ cfg.QUEUE_SIZE)
    (hlen : s0.proc_allocator.items.length = cfg.QUEUE_SIZE)
    (hrun : s0.run_queue.items.length = cfg.QUEUE_SIZE)
    (hact : s0.active_proc = none) :
    ∃ sb, boot_idle cfg s0 = some sb ∧ idle_only cfg sb 0 ∧ sb.active_proc = none := by
  obtain ⟨hne, hhead⟩ := kproc_init_reset_alloc_head cfg (scheduler_init cfg s0) h1 hcap hlen
  have hP := pid_inv_reset cfg (scheduler_init cfg s0)
  have hrw : queue_wf cfg.QUEUE_SIZE (kproc_init_reset cfg (scheduler_init cfg s0)).run_queue :=
    queue_init_wf cfg.QUEUE_SIZE s0.run_queue hrun
  obtain ⟨sb, hsb, hpid, _, _, _, _, _, _, _, _, _, _, hrq, _, _, _, _, hsq, hap⟩ :=
    kproc_create_fields cfg (kproc_init_reset cfg (scheduler_init cfg s0)) cfg.kproc_idle "idle"
      proc_type_t.PROC_TYPE_KERNEL 0 hP.1 hne hhead (by omega) hrw (Or.inl rfl)
  have hP2 := (pid_inv_create cfg _ sb cfg.kproc_idle "idle" proc_type_t.PROC_TYPE_KERNEL _
    hsb hP).1
  refine ⟨sb, by simp only [boot_idle, hsb, Option.map_some'], ⟨hP2, hpid, ?_, ?_, Or.inl ?_⟩, ?_⟩
  · rw [hrq rfl]
    rfl
  · rw [hsq]
    rfl
  · rw [hap]
    exact hact
  · rw [hap]
    exact hact

/-- C15: the idle fallback. From the machine left by `scheduler_init`, the table reset of
`kproc_init` and the creation of the idle process alone (`active_proc` still null), the
boot returns a state from which, for every n >= 1, n ticks (`scheduler_timer` then
`scheduler_run`) return a state whose active process is the slot with pid 0, in state
ACTIVE, with an empty run queue; and `scheduler_add` on a process with pid 0 returns
with the state (the run queue in particular) exactly as it was. -/
theorem idle_fallback (cfg : kconfig) (s0 : kernel_t)
    (h1 : 1 ≤ cfg.PROC_MAX) (hcap : cfg.PROC_MAX ≤ cfg.QUEUE_SIZE)
    (hlen : s0.proc_allocator.items.length = cfg.QUEUE_SIZE)
    (hrun : s0.run_queue.items.length = cfg.QUEUE_SIZE)
    (hact : s0.active_proc = none) :
    ∃ sb, boot_idle cfg s0 = some sb ∧
      (∀ n, 1 ≤ n → ∃ sn i, ticks cfg n sb = some sn ∧ sn.active_proc = some i ∧
        (proc_at sn i).pid = 0 ∧ (proc_at sn i).state = proc_state_t.ACTIVE ∧
        queue_is_empty sn.run_queue = true ∧
        queue_contents cfg.QUEUE_SIZE sn.run_queue = []) ∧
      (∀ (s : kernel_t) (p : Nat), (proc_at s p).pid = 0 →
        scheduler_add cfg s (some p) = some s) := by
  obtain ⟨sb, hsb, hidle, _⟩ := boot_idle_spec cfg s0 h1 hcap hlen hrun hact
  refine ⟨sb, hsb, ?_, ?_⟩
  · intro n hn
    obtain ⟨sn, hsn, hio, ha, hst⟩ := ticks_idle_only cfg 0 n sb hidle hn
    refine ⟨sn, 0, hsn, ha, hio.2.1, hst, hio.2.2.1, ?_⟩
    have he := hio.2.2.1
    simp only [queue_is_empty, beq_iff_eq] at he
    simp [queue_contents, he]
  · intro s p hp
    simp [scheduler_add, hp]

theorem idle_fallback_witness :
    ∃ sb, boot_idle example_config example_start = some sb ∧
      ∃ sn i, ticks example_config 7 sb = some sn ∧ sn.active_proc = some i ∧
        (proc_at sn i).pid = 0 ∧ (proc_at sn i).state = proc_state_t.ACTIVE ∧
        queue_contents example_config.QUEUE_SIZE sn.run_queue = [] := by
  obtain ⟨sb, h1, h2, _⟩ := idle_fallback example_config example_start (by decide) (by decide)
    (by decide) (by decide) (by decide)
  obtain ⟨sn, i, h3, h4, h5, h6, _, h7⟩ := h2 7 (by decide)
  exact ⟨sb, h1, sn, i, h3, h4, h5, h6, h7⟩

/-! ## C16 and C18: two worked runs -/

theorem map_eq_some_elim {α β : Type} (o : Option α) (g : α → β) (v : β)
    (h : o.map g = some v) : ∃ a, o = some a ∧ g a = v := by
  cases o with
  | none => simp at h
  | some a => exact ⟨a, rfl, by simpa using h⟩

theorem rr_boot_eq : boot_two rr_config rr_start = some rr_boot := by
  decide

/-- C16, as claimed, fails: with SCHEDULER_TIMESLICE = 3, from the machine the boot leaves
with the idle process, A (pid 1) and B (pid 2) and `active_proc` null, seven ticks return
a state in which run_time(A) is 3, not 4 (run_time(B) is 3 and A is active): the first
tick only selects A, since `scheduler_timer` finds no active process to charge. -/
theorem round_robin_seven_ticks_not_four :
    rr_config.SCHEDULER_TIMESLICE = 3 ∧ boot_two rr_config rr_start = some rr_boot ∧
    rr_boot.active_proc = none ∧
    (proc_at rr_boot 0).pid = 0 ∧ (proc_at rr_boot 1).pid = 1 ∧ (proc_at rr_boot 2).pid = 2 ∧
    ∃ s7, ticks rr_config 7 rr_boot = some s7 ∧ (proc_at s7 1).pid = 1 ∧
      (proc_at s7 2).pid = 2 ∧ (proc_at s7 1).run_time = 3 ∧ (proc_at s7 1).run_time ≠ 4 ∧
      (proc_at s7 2).run_time = 3 ∧ s7.active_proc = some 1 := by
  refine ⟨rfl, rr_boot_eq, by decide, by decide, by decide, by decide, ?_⟩
  have h : (ticks rr_config 7 rr_boot).map (fun s => ((proc_at s 1).pid, (proc_at s 2).pid,
      (proc_at s 1).run_time, (proc_at s 2).run_time, s.active_proc))
      = some (1, 2, 3, 3, some 1) := by
    decide
  obtain ⟨s7, h7, hv⟩ := map_eq_some_elim _ _ _ h
  simp only [Prod.mk.injEq] at hv
  obtain ⟨h1, h2, h3, h4, h5⟩ := hv
  exact ⟨s7, h7, h1, h2, h3, by rw [h3]; decide, h4, h5⟩

/-- C18: one call of `scheduler_timer` with two sleepers, A (pid 1, sleep_time 1) ahead
of B (pid 2, sleep_time 5) on the sleep queue. A wakes (sleep_time 0, state IDLE, on the
run queue); the loop bound `sleep_queue.size`, read again after A has left the queue,
ends the walk before B is reached: B stays on the sleep queue with sleep_time 5, not 4. -/
theorem scheduler_timer_skips_sleeper :
    queue_contents 4 rr_sleepers.sleep_queue = [1, 2] ∧
    (proc_at rr_sleepers 1).pid = 1 ∧ (proc_at rr_sleepers 1).sleep_time = 1 ∧
    (proc_at rr_sleepers 1).state = proc_state_t.SLEEPING ∧
    (proc_at rr_sleepers 2).pid = 2 ∧ (proc_at rr_sleepers 2).sleep_time = 5 ∧
    (proc_at rr_sleepers 2).state = proc_state_t.SLEEPING ∧
    ∃ s1, scheduler_timer rr_config rr_sleepers = some s1 ∧
      (proc_at s1 1).sleep_time = 0 ∧ (proc_at s1 1).state = proc_state_t.IDLE ∧
      queue_contents 4 s1.run_queue = [1] ∧
      queue_contents 4 s1.sleep_queue = [2] ∧
      (proc_at s1 2).state = proc_state_t.SLEEPING ∧
      (proc_at s1 2).sleep_time = 5 := by
  refine ⟨by decide, by decide, by decide, by decide, by decide, by decide, by decide, ?_⟩
  have h : (scheduler_timer rr_config rr_sleepers).map (fun s => ((proc_at s 1).sleep_time,
      (proc_at s 1).state, queue_contents 4 s.run_queue, queue_contents 4 s.sleep_queue,
      (proc_at s 2).state, (proc_at s 2).sleep_time))
      = some (0, proc_state_t.IDLE, [1], [2], proc_state_t.SLEEPING, 5) := by
    decide
  obtain ⟨s1, h1, hv⟩ := map_eq_some_elim _ _ _ h
  simp only [Prod.mk.injEq] at hv
  obtain ⟨h2, h3, h4, h5, h6, h7⟩ := hv
  exact ⟨s1, h1, h2, h3, h4, h5, h6, h7⟩

/-! ## C17: `scheduler_sleep` -/

theorem scheduler_sleep_eq (cfg : kconfig) (s : kernel_t) (p : Nat) (n : Int) :
    scheduler_sleep cfg s (some p) n
      = if (proc_at (proc_update s p (fun x => { x with sleep_time := n })) p).state
            = proc_state_t.SLEEPING
        then some (proc_update s p (fun x => { x with sleep_time := n }))
        else
          match scheduler_remove cfg (proc_update s p (fun x => { x with sleep_time := n }))
              (some p) with
          | none => none
          | some s2 =>
            some { proc_update s2 p (fun x => { x with state := proc_state_t.SLEEPING }) with
              sleep_queue := (queue_in cfg.QUEUE_SIZE s2.sleep_queue
                (proc_at (proc_update s2 p
                  (fun x => { x with state := proc_state_t.SLEEPING })) p).pid).2 } := by
  simp only [scheduler_sleep, beq_iff_eq]
  rfl

/-- What `scheduler_sleep` does to a process that is not SLEEPING, given a well-formed
run queue without duplicates. -/
theorem scheduler_sleep_awake (cfg : kconfig) (s : kernel_t) (p : Nat) (n : Int)
    (hp : p < s.proc_table.length)
    (hst : (proc_at s p).state ≠ proc_state_t.SLEEPING)
    (hrun : queue_wf cfg.QUEUE_SIZE s.run_queue)
    (hnd : (queue_contents cfg.QUEUE_SIZE s.run_queue).Nodup) :
    ∃ s', scheduler_sleep cfg s (some p) n = some s' ∧
      proc_at s' p = { proc_at s p with sleep_time := n, state := proc_state_t.SLEEPING } ∧
      (∀ j, j ≠ p → proc_at s' j = proc_at s j) ∧
      s'.proc_table.length = s.proc_table.length ∧
      s'.next_pid = s.next_pid ∧ s'.proc_allocator = s.proc_allocator ∧
      s'.timer_ticks = s.timer_ticks ∧ s'.mutexes = s.mutexes ∧
      s'.mutex_queue = s.mutex_queue ∧ s'.semaphores = s.semaphores ∧
      s'.sem_queue = s.sem_queue ∧
      queue_wf cfg.QUEUE_SIZE s'.run_queue ∧
      (queue_contents cfg.QUEUE_SIZE s'.run_queue).Perm
        ((queue_contents cfg.QUEUE_SIZE s.run_queue).erase (proc_at s p).pid) ∧
      (proc_at s p).pid ∉ queue_contents cfg.QUEUE_SIZE s'.run_queue ∧
      ((proc_at s p).pid ∉ queue_contents cfg.QUEUE_SIZE s.run_queue →
        queue_contents cfg.QUEUE_SIZE s'.run_queue
          = queue_contents cfg.QUEUE_SIZE s.run_queue) ∧
      (∀ a, s.active_proc = some a → (proc_at s p).pid = (proc_at s a).pid →
        s'.active_proc = none) ∧
      (∀ a, s.active_proc = some a → (proc_at s p).pid ≠ (proc_at s a).pid →
        s'.active_proc = some a) ∧
      (s.active_proc = none → s'.active_proc = none) ∧
      s'.sleep_queue = (queue_in cfg.QUEUE_SIZE s.sleep_queue (proc_at s p).pid).2 := by
  have hpid : ∀ j, (proc_at (proc_update s p (fun x => { x with sleep_time := n })) j).pid
      = (proc_at s j).pid := fun j => proc_update_pid s p j _ (fun _ => rfl)
  have hst1 : ¬ (proc_at (proc_update s p (fun x => { x with sleep_time := n })) p).state
      = proc_state_t.SLEEPING := by
    rw [proc_at_update_self s p _ hp]
    exact hst
  obtain ⟨s2, h2, hnp, hal, htab, hsq, htt, hmu, hmq, hse, hsmq, hwf2, hperm, hnot, hsame,
      hact1, hact2, hact3⟩ :=
    scheduler_remove_spec cfg (proc_update s p (fun x => { x with sleep_time := n })) p hrun hnd
  rw [hpid] at hperm hnot hsame hact1 hact2
  have hp2 : p < s2.proc_table.length := by
    rw [htab, proc_update_length]
    exact hp
  have hat2 : ∀ j, proc_at s2 j
      = proc_at (proc_update s p (fun x => { x with sleep_time := n })) j := by
    intro j
    simp only [proc_at, htab]
  rw [scheduler_sleep_eq, if_neg hst1, h2]
  refine ⟨_, rfl, ?_, ?_, ?_, hnp, hal, htt, hmu, hmq, hse, hsmq, hwf2, hperm, hnot, hsame,
    ?_, ?_, hact3, ?_⟩
  · show proc_at (proc_update s2 p (fun x => { x with state := proc_state_t.SLEEPING })) p = _
    rw [proc_at_update_self s2 p _ hp2, hat2, proc_at_update_self s p _ hp]
  · intro j hj
    show proc_at (proc_update s2 p (fun x => { x with state := proc_state_t.SLEEPING })) j = _
    rw [proc_at_update_other s2 p j _ hj, hat2, proc_at_update_other s p j _ hj]
  · show (proc_update s2 p (fun x => { x with state := proc_state_t.SLEEPING })).proc_table.length
      = _
    rw [proc_update_length, htab, proc_update_length]
  · intro a ha hpa
    exact hact1 a ha (by rw [hpid]; exact hpa)
  · intro a ha hpa
    exact hact2 a ha (by rw [hpid]; exact hpa)
  · show (queue_in cfg.QUEUE_SIZE s2.sleep_queue
      (proc_at (proc_update s2 p (fun x => { x with state := proc_state_t.SLEEPING })) p).pid).2
      = _
    rw [proc_at_update_self s2 p _ hp2, hat2, proc_at_update_self s p _ hp, hsq]
    rfl

/-- C17: `scheduler_sleep`. For a process (slot `p`) that is not SLEEPING, with a
well-formed duplicate-free run queue and room on the well-formed sleep queue, the call
returns a state in which the slot has sleep_time = n_ticks and state SLEEPING (nothing
else in the table changed), the pid is not on the run queue (whose other entries are all
kept: a permutation of the old content without the pid, the old content itself when the
pid was not on it), `active_proc` is null if the process was the active one and as
before otherwise, and the sleep queue is the old one followed by the pid. For a process
that is SLEEPING already the call only overwrites sleep_time: the table apart from that
field, both queues and `active_proc` are as before. -/
theorem scheduler_sleep_spec (cfg : kconfig) (s : kernel_t) (p : Nat) (n_ticks : Int)
    (hp : p < s.proc_table.length)
    (hrun : queue_wf cfg.QUEUE_SIZE s.run_queue)
    (hnd : (queue_contents cfg.QUEUE_SIZE s.run_queue).Nodup)
    (hsl : queue_wf cfg.QUEUE_SIZE s.sleep_queue) :
    ((proc_at s p).state ≠ proc_state_t.SLEEPING →
      queue_is_full cfg.QUEUE_SIZE s.sleep_queue = false →
      ∃ s', scheduler_sleep cfg s (some p) n_ticks = some s' ∧
        proc_at s' p
          = { proc_at s p with sleep_time := n_ticks, state := proc_state_t.SLEEPING } ∧
        (∀ j, j ≠ p → proc_at s' j = proc_at s j) ∧
        (proc_at s p).pid ∉ queue_contents cfg.QUEUE_SIZE s'.run_queue ∧
        (queue_contents cfg.QUEUE_SIZE s'.run_queue).Perm
          ((queue_contents cfg.QUEUE_SIZE s.run_queue).erase (proc_at s p).pid) ∧
        ((proc_at s p).pid ∉ queue_contents cfg.QUEUE_SIZE s.run_queue →
          queue_contents cfg.QUEUE_SIZE s'.run_queue
            = queue_contents cfg.QUEUE_SIZE s.run_queue) ∧
        (s.active_proc = some p → s'.active_proc = none) ∧
        (∀ a, s.active_proc = some a → (proc_at s p).pid ≠ (proc_at s a).pid →
          s'.active_proc = some a) ∧
        (s.active_proc = none → s'.active_proc = none) ∧
        queue_contents cfg.QUEUE_SIZE s'.sleep_queue
          = queue_contents cfg.QUEUE_SIZE s.sleep_queue ++ [(proc_at s p).pid]) ∧
    ((proc_at s p).state = proc_state_t.SLEEPING →
      ∃ s', scheduler_sleep cfg s (some p) n_ticks = some s' ∧
        proc_at s' p = { proc_at s p with sleep_time := n_ticks } ∧
        (∀ j, j ≠ p → proc_at s' j = proc_at s j) ∧
        s'.run_queue = s.run_queue ∧ s'.sleep_queue = s.sleep_queue ∧
        s'.active_proc = s.active_proc) := by
  constructor
  · intro hst hroom
    obtain ⟨s', h1, h2, h3, _, _, _, _, _, _, _, _, _, hperm, hnot, hsame, ha1, ha2, ha3, hsq⟩ :=
      scheduler_sleep_awake cfg s p n_ticks hp hst hrun hnd
    refine ⟨s', h1, h2, h3, hnot, hperm, hsame, fun ha => ha1 p ha rfl, ha2, ha3, ?_⟩
    rw [hsq]
    exact (queue_in_spec cfg.QUEUE_SIZE s.sleep_queue _ hsl hroom).2.2.2
  · intro hst
    have hst1 : (proc_at (proc_update s p (fun x => { x with sleep_time := n_ticks })) p).state
        = proc_state_t.SLEEPING := by
      rw [proc_at_update_self s p _ hp]
      exact hst
    rw [scheduler_sleep_eq, if_pos hst1]
    exact ⟨_, rfl, proc_at_update_self s p _ hp,
      fun j hj => proc_at_update_other s p j _ hj, rfl, rfl, rfl⟩

theorem scheduler_sleep_spec_witness :
    (∃ s', scheduler_sleep rr_config rr_boot (some 1) 5 = some s' ∧
      (proc_at s' 1).sleep_time = 5 ∧ (proc_at s' 1).state = proc_state_t.SLEEPING ∧
      queue_contents 4 rr_boot.run_queue = [1, 2] ∧
      (1 : Int) ∉ queue_contents 4 s'.run_queue ∧
      queue_contents 4 s'.sleep_queue = [1]) ∧
    (∃ s', scheduler_sleep rr_config rr_sleepers (some 2) 9 = some s' ∧
      (proc_at s' 2).sleep_time = 9 ∧ s'.sleep_queue = rr_sleepers.sleep_queue) := by
  have ha := (scheduler_sleep_spec rr_config rr_boot 1 5 (by decide) (by decide) (by decide)
    (by decide)).1 (by decide) (by decide)
  have hb := (scheduler_sleep_spec rr_config rr_sleepers 2 9 (by decide) (by decide)
    (by decide) (by decide)).2 (by decide)
  obtain ⟨s', h1, h2, _, h4, _, _, _, _, _, h5⟩ := ha
  obtain ⟨t', g1, g2, _, _, g3, _⟩ := hb
  refine ⟨⟨s', h1, by rw [h2], by rw [h2], by decide, ?_, ?_⟩, ⟨t', g1, by rw [g2], g3⟩⟩
  · have : (proc_at rr_boot 1).pid = 1 := by decide
    rw [this] at h4
    exact h4
  · have : (proc_at rr_boot 1).pid = 1 := by decide
    rw [this] at h5
    exact h5.trans (by decide)

/-! ## C20: `kmutex_lock` -/

theorem mutex_at_update_self (s : kernel_t) (i : Nat) (f : mutex_t → mutex_t)
    (hi : i < s.mutexes.length) : mutex_at (mutex_update s i f) i = f (mutex_at s i) := by
  simp only [mutex_at, mutex_update]
  rw [getD_set_eq, if_pos ⟨rfl, hi⟩]

theorem mutex_at_update_other (s : kernel_t) (i j : Nat) (f : mutex_t → mutex_t)
    (hj : j ≠ i) : mutex_at (mutex_update s i f) j = mutex_at s j := by
  simp only [mutex_at, mutex_update]
  rw [getD_set_eq, if_neg (fun hh => hj hh.1.symm)]

theorem mutex_update_length (s : kernel_t) (i : Nat) (f : mutex_t → mutex_t) :
    (mutex_update s i f).mutexes.length = s.mutexes.length := by
  simp [mutex_update]

/-- The free branch of `kmutex_lock`. -/
theorem kmutex_lock_free (cfg : kconfig) (s : kernel_t) (id : Int)
    (h0 : 0 ≤ id) (h1 : id < (cfg.MUTEX_MAX : Int))
    (hown : (mutex_at s id.toNat).owner = none) :
    kmutex_lock cfg s id
      = some ((mutex_at (mutex_update (mutex_update s id.toNat
            (fun m => { m with owner := s.active_proc })) id.toNat
            (fun m => { m with locks := m.locks + 1 })) id.toNat).locks,
          mutex_update (mutex_update s id.toNat (fun m => { m with owner := s.active_proc }))
            id.toNat (fun m => { m with locks := m.locks + 1 })) := by
  have hr : ¬ (id < 0 ∨ id ≥ (cfg.MUTEX_MAX : Int)) := by omega
  simp only [kmutex_lock, if_neg hr, hown]

/-- The contended branch of `kmutex_lock`, up to `scheduler_remove`. -/
theorem kmutex_lock_owned (cfg : kconfig) (s : kernel_t) (id : Int) (o a : Nat)
    (h0 : 0 ≤ id) (h1 : id < (cfg.MUTEX_MAX : Int))
    (hown : (mutex_at s id.toNat).owner = some o) (hact : s.active_proc = some a)
    (hroom : queue_is_full cfg.QUEUE_SIZE (mutex_at s id.toNat).wait_queue = false) :
    kmutex_lock cfg s id
      = match scheduler_remove cfg
          (mutex_update (proc_update s a (fun x => { x with state := proc_state_t.WAITING }))
            id.toNat (fun m => { m with wait_queue :=
              (queue_in cfg.QUEUE_SIZE (mutex_at s id.toNat).wait_queue (proc_at s a).pid).2 }))
          (some a) with
        | none => none
        | some s3 =>
          some ((mutex_at (mutex_update s3 id.toNat
              (fun m => { m with locks := m.locks + 1 })) id.toNat).locks,
            mutex_update s3 id.toNat (fun m => { m with locks := m.locks + 1 })) := by
  have hr : ¬ (id < 0 ∨ id ≥ (cfg.MUTEX_MAX : Int)) := by omega
  have hm : mutex_at (proc_update s a (fun x => { x with state := proc_state_t.WAITING }))
      id.toNat = mutex_at s id.toNat := rfl
  have hp : (proc_at (proc_update s a (fun x => { x with state := proc_state_t.WAITING })) a).pid
      = (proc_at s a).pid := proc_update_pid s a a _ (fun _ => rfl)
  have hrc : (queue_in cfg.QUEUE_SIZE (mutex_at s id.toNat).wait_queue (proc_at s a).pid).1 = 0 := by
    rw [queue_in_rc, hroom]
    rfl
  simp only [kmutex_lock, if_neg hr, hown, hact, hm, hp, hrc, bne_self_eq_false,
    Bool.false_eq_true, if_false]

/-- C20: `kmutex_lock` by the active process P (slot `a`, state ACTIVE) on the mutex
`id` of a mutex table in which a mutex without owner has lock-count 0, the run queue
being well formed and duplicate-free. Without an owner the call returns with owner = P,
lock-count = old lock-count + 1 = 1, P still active in state ACTIVE, the wait queue and
the run queue untouched. With an owner (P itself included) and room on the well-formed
wait queue it returns with P in state WAITING, the wait queue being the old one followed
by P's pid, P's pid not on the run queue, `active_proc` null, the owner as before and
lock-count = old lock-count + 1. In both cases the value returned is the new
lock-count. -/
theorem kmutex_lock_spec (cfg : kconfig) (s : kernel_t) (id : Int) (a : Nat)
    (h0 : 0 ≤ id) (h1 : id < (cfg.MUTEX_MAX : Int))
    (hlen : s.mutexes.length = cfg.MUTEX_MAX)
    (hcons : (mutex_at s id.toNat).owner = none → (mutex_at s id.toNat).locks = 0)
    (hact : s.active_proc = some a) (ha : a < s.proc_table.length)
    (hst : (proc_at s a).state = proc_state_t.ACTIVE)
    (hrun : queue_wf cfg.QUEUE_SIZE s.run_queue)
    (hnd : (queue_contents cfg.QUEUE_SIZE s.run_queue).Nodup) :
    ((mutex_at s id.toNat).owner = none →
      ∃ s', kmutex_lock cfg s id = some ((mutex_at s' id.toNat).locks, s') ∧
        (mutex_at s' id.toNat).owner = some a ∧
        (mutex_at s' id.toNat).locks = (mutex_at s id.toNat).locks + 1 ∧
        (mutex_at s' id.toNat).locks = 1 ∧
        s'.active_proc = some a ∧ (proc_at s' a).state = proc_state_t.ACTIVE ∧
        (mutex_at s' id.toNat).wait_queue = (mutex_at s id.toNat).wait_queue ∧
        s'.run_queue = s.run_queue ∧ s'.proc_table = s.proc_table) ∧
    (∀ o, (mutex_at s id.toNat).owner = some o →
      queue_wf cfg.QUEUE_SIZE (mutex_at s id.toNat).wait_queue →
      queue_is_full cfg.QUEUE_SIZE (mutex_at s id.toNat).wait_queue = false →
      ∃ s', kmutex_lock cfg s id = some ((mutex_at s' id.toNat).locks, s') ∧
        (proc_at s' a).state = proc_state_t.WAITING ∧
        (proc_at s' a).pid = (proc_at s a).pid ∧
        queue_contents cfg.QUEUE_SIZE (mutex_at s' id.toNat).wait_queue
          = queue_contents cfg.QUEUE_SIZE (mutex_at s id.toNat).wait_queue
              ++ [(proc_at s a).pid] ∧
        (proc_at s a).pid ∉ queue_contents cfg.QUEUE_SIZE s'.run_queue ∧
        s'.active_proc = none ∧
        (mutex_at s' id.toNat).owner = some o ∧
        (mutex_at s' id.toNat).locks = (mutex_at s id.toNat).locks + 1) := by
  have hi : id.toNat < s.mutexes.length := by omega
  constructor
  · intro hown
    have hi1 : id.toNat < (mutex_update s id.toNat
        (fun m => { m with owner := s.active_proc })).mutexes.length := by
      rw [mutex_update_length]
      exact hi
    have hm : mutex_at (mutex_update (mutex_update s id.toNat
        (fun m => { m with owner := s.active_proc })) id.toNat
        (fun m => { m with locks := m.locks + 1 })) id.toNat
        = { mutex_at s id.toNat with owner := some a,
                                      locks := (mutex_at s id.toNat).locks + 1 } := by
      rw [mutex_at_update_self _ _ _ hi1, mutex_at_update_self _ _ _ hi, hact]
    refine ⟨_, kmutex_lock_free cfg s id h0 h1 hown, ?_, ?_, ?_, hact, hst, ?_, rfl, rfl⟩
    · rw [hm]
    · rw [hm]
    · rw [hm]
      show (mutex_at s id.toNat).locks + 1 = 1
      rw [hcons hown]
      rfl
    · rw [hm]
  · intro o hown hwq hroom
    have hpid : ∀ j, (proc_at (mutex_update (proc_update s a
        (fun x => { x with state := proc_state_t.WAITING })) id.toNat
        (fun m => { m with wait_queue :=
          (queue_in cfg.QUEUE_SIZE (mutex_at s id.toNat).wait_queue (proc_at s a).pid).2 })) j).pid
        = (proc_at s j).pid := fun j =>
      proc_update_pid s a j (fun x => { x with state := proc_state_t.WAITING }) (fun _ => rfl)
    obtain ⟨s3, h3, _, _, htab, _, _, hmu, _, _, _, _, _, hnot, _, hact1, _, _⟩ :=
      scheduler_remove_spec cfg (mutex_update (proc_update s a
        (fun x => { x with state := proc_state_t.WAITING })) id.toNat
        (fun m => { m with wait_queue :=
          (queue_in cfg.QUEUE_SIZE (mutex_at s id.toNat).wait_queue (proc_at s a).pid).2 }))
        a hrun hnd
    rw [hpid] at hnot
    have hi3 : id.toNat < s3.mutexes.length := by
      rw [hmu, mutex_update_length]
      exact hi
    have hm3 : mutex_at s3 id.toNat = { mutex_at s id.toNat with wait_queue :=
        (queue_in cfg.QUEUE_SIZE (mutex_at s id.toNat).wait_queue (proc_at s a).pid).2 } := by
      have : mutex_at s3 id.toNat = mutex_at (mutex_update (proc_update s a
          (fun x => { x with state := proc_state_t.WAITING })) id.toNat
          (fun m => { m with wait_queue :=
            (queue_in cfg.QUEUE_SIZE (mutex_at s id.toNat).wait_queue (proc_at s a).pid).2 }))
          id.toNat := by
        simp only [mutex_at, hmu]
      rw [this, mutex_at_update_self _ _ _ (by exact hi)]
      rfl
    have hm4 : mutex_at (mutex_update s3 id.toNat (fun m => { m with locks := m.locks + 1 }))
        id.toNat = { mutex_at s id.toNat with
          wait_queue :=
            (queue_in cfg.QUEUE_SIZE (mutex_at s id.toNat).wait_queue (proc_at s a).pid).2,
          locks := (mutex_at s id.toNat).locks + 1 } := by
      rw [mutex_at_update_self _ _ _ hi3, hm3]
    have hp3 : proc_at (mutex_update s3 id.toNat (fun m => { m with locks := m.locks + 1 })) a
        = { proc_at s a with state := proc_state_t.WAITING } := by
      have : proc_at (mutex_update s3 id.toNat (fun m => { m with locks := m.locks + 1 })) a
          = proc_at (proc_update s a (fun x => { x with state := proc_state_t.WAITING })) a := by
        simp only [proc_at, mutex_update, htab]
      rw [this, proc_at_update_self s a _ ha]
    refine ⟨mutex_update s3 id.toNat (fun m => { m with locks := m.locks + 1 }), ?_, ?_, ?_, ?_,
      hnot, ?_, ?_, ?_⟩
    · rw [kmutex_lock_owned cfg s id o a h0 h1 hown hact hroom, h3]
    · rw [hp3]
    · rw [hp3]
    · rw [hm4]
      exact (queue_in_spec cfg.QUEUE_SIZE _ _ hwq hroom).2.2.2
    · exact hact1 a hact rfl
    · rw [hm4]
      exact hown
    · rw [hm4]

theorem kmutex_lock_spec_witness :
    (∃ s', kmutex_lock rr_config rr_running 0 = some (1, s') ∧
      (mutex_at s' 0).owner = some 1 ∧ s'.active_proc = some 1) ∧
    (∃ s', kmutex_lock rr_config rr_locked 0 = some (2, s') ∧
      (proc_at s' 1).state = proc_state_t.WAITING ∧
      queue_contents 4 (mutex_at s' 0).wait_queue = [1] ∧ s'.active_proc = none ∧
      (mutex_at s' 0).owner = some 1) := by
  have hf := (kmutex_lock_spec rr_config rr_running 0 1 (by decide) (by decide) (by decide)
    (by decide) (by decide) (by decide) (by decide) (by decide) (by decide)).1 (by decide)
  have ho := (kmutex_lock_spec rr_config rr_locked 0 1 (by decide) (by decide) (by decide)
    (by decide) (by decide) (by decide) (by decide) (by decide) (by decide)).2 1 (by decide)
    (by decide) (by decide)
  obtain ⟨s1, h1, h2, _, h3, h4, _⟩ := hf
  obtain ⟨s2, g1, g2, _, g3, _, g4, g5, g6⟩ := ho
  refine ⟨⟨s1, ?_, h2, h4⟩, ⟨s2, ?_, g2, ?_, g4, g5⟩⟩
  · rw [h1, h3]
  · rw [g1, g6]
    have : (mutex_at rr_locked (Int.toNat 0)).locks = 1 := by decide
    rw [this]
    rfl
  · exact g3.trans (by decide)

/-! ## The sleeper walk of `scheduler_timer` -/

theorem scheduler_timer_loop_exit (cfg : kconfig) (fuel : Nat) (i : Int) (s : kernel_t)
    (pid : Int) (h : ¬ i < s.sleep_queue.size) :
    scheduler_timer_loop cfg (fuel + 1) i s pid = some s := by
  simp only [scheduler_timer_loop, if_neg h]

theorem scheduler_timer_loop_stale (cfg : kconfig) (fuel : Nat) (i : Int) (s : kernel_t)
    (pid : Int) (h : i < s.sleep_queue.size) (hne : queue_is_empty s.sleep_queue = false)
    (hl : pid_to_proc cfg s (arr_get s.sleep_queue.items s.sleep_queue.head) = none) :
    scheduler_timer_loop cfg (fuel + 1) i s pid
      = scheduler_timer_loop cfg fuel (i + 1)
          { s with sleep_queue := (queue_out cfg.QUEUE_SIZE s.sleep_queue pid).2.1 }
          (arr_get s.sleep_queue.items s.sleep_queue.head) := by
  obtain ⟨hrc, hv⟩ := queue_out_nonempty cfg.QUEUE_SIZE s.sleep_queue pid hne
  have hl1 : pid_to_proc cfg
      { s with sleep_queue := (queue_out cfg.QUEUE_SIZE s.sleep_queue pid).2.1 }
      (arr_get s.sleep_queue.items s.sleep_queue.head) = none := by
    exact (pid_to_proc_congr cfg s _ _ rfl (fun _ => rfl)).trans hl
  simp only [scheduler_timer_loop, if_pos h, hrc, hv, bne_self_eq_false, Bool.false_eq_true,
    if_false, hl1]

theorem scheduler_timer_loop_wake (cfg : kconfig) (fuel : Nat) (i : Int) (s : kernel_t)
    (pid : Int) (p : Nat) (h : i < s.sleep_queue.size)
    (hne : queue_is_empty s.sleep_queue = false)
    (hl : pid_to_proc cfg s (arr_get s.sleep_queue.items s.sleep_queue.head) = some p)
    (h1 : (proc_at s p).sleep_time = 1) :
    scheduler_timer_loop cfg (fuel + 1) i s pid
      = match scheduler_add cfg
          (proc_update { s with sleep_queue := (queue_out cfg.QUEUE_SIZE s.sleep_queue pid).2.1 }
            p (fun x => { x with sleep_time := 0 })) (some p) with
        | none => none
        | some s3 => scheduler_timer_loop cfg fuel (i + 1) s3
            (arr_get s.sleep_queue.items s.sleep_queue.head) := by
  obtain ⟨hrc, hv⟩ := queue_out_nonempty cfg.QUEUE_SIZE s.sleep_queue pid hne
  have hl1 : pid_to_proc cfg
      { s with sleep_queue := (queue_out cfg.QUEUE_SIZE s.sleep_queue pid).2.1 }
      (arr_get s.sleep_queue.items s.sleep_queue.head) = some p := by
    exact (pid_to_proc_congr cfg s _ _ rfl (fun _ => rfl)).trans hl
  have h2 : (proc_at { s with sleep_queue := (queue_out cfg.QUEUE_SIZE s.sleep_queue pid).2.1 }
      p).sleep_time = 1 := h1
  simp only [scheduler_timer_loop, if_pos h, hrc, hv, bne_self_eq_false, Bool.false_eq_true,
    if_false, hl1, h2, beq_self_eq_true, if_true]

theorem scheduler_timer_loop_count (cfg : kconfig) (fuel : Nat) (i : Int) (s : kernel_t)
    (pid : Int) (p : Nat) (h : i < s.sleep_queue.size)
    (hne : queue_is_empty s.sleep_queue = false)
    (hl : pid_to_proc cfg s (arr_get s.sleep_queue.items s.sleep_queue.head) = some p)
    (h1 : (proc_at s p).sleep_time ≠ 1) :
    scheduler_timer_loop cfg (fuel + 1) i s pid
      = scheduler_timer_loop cfg fuel (i + 1)
          { proc_update { s with sleep_queue := (queue_out cfg.QUEUE_SIZE s.sleep_queue pid).2.1 }
              p (fun x => { x with sleep_time := x.sleep_time - 1 }) with
            sleep_queue := (queue_in cfg.QUEUE_SIZE
              (queue_out cfg.QUEUE_SIZE s.sleep_queue pid).2.1
              (arr_get s.sleep_queue.items s.sleep_queue.head)).2 }
          (arr_get s.sleep_queue.items s.sleep_queue.head) := by
  obtain ⟨hrc, hv⟩ := queue_out_nonempty cfg.QUEUE_SIZE s.sleep_queue pid hne
  have hl1 : pid_to_proc cfg
      { s with sleep_queue := (queue_out cfg.QUEUE_SIZE s.sleep_queue pid).2.1 }
      (arr_get s.sleep_queue.items s.sleep_queue.head) = some p := by
    exact (pid_to_proc_congr cfg s _ _ rfl (fun _ => rfl)).trans hl
  have h2 : ¬ (proc_at { s with sleep_queue := (queue_out cfg.QUEUE_SIZE s.sleep_queue pid).2.1 }
      p).sleep_time = 1 := h1
  simp only [scheduler_timer_loop, if_pos h, hrc, hv, bne_self_eq_false, Bool.false_eq_true,
    if_false, hl1, beq_iff_eq, h2]
  rfl

theorem timer_rel_refl (cfg : kconfig) (s : kernel_t)
    (hrun : queue_wf cfg.QUEUE_SIZE s.run_queue) (hsl : queue_wf cfg.QUEUE_SIZE s.sleep_queue) :
    timer_rel cfg s s :=
  ⟨rfl, rfl, rfl, rfl, rfl, rfl, rfl, rfl, rfl, fun _ => ⟨rfl, rfl⟩, fun _ => Or.inl rfl,
    fun _ _ => rfl, hrun, hsl, [], by simp, List.Subperm.refl _, by simp⟩

theorem timer_rel_trans (cfg : kconfig) (s1 s2 s3 : kernel_t)
    (h12 : timer_rel cfg s1 s2) (h23 : timer_rel cfg s2 s3) : timer_rel cfg s1 s3 := by
  obtain ⟨a1, a2, a3, a4, a5, a6, a7, a8, a9, a10, a11, a12, _, _, W1, aw1, aw2, aw3⟩ := h12
  obtain ⟨b1, b2, b3, b4, b5, b6, b7, b8, b9, b10, b11, b12, b13, b14, W2, bw1, bw2, bw3⟩ := h23
  refine ⟨b1.trans a1, b2.trans a2, b3.trans a3, b4.trans a4, b5.trans a5, b6.trans a6,
    b7.trans a7, b8.trans a8, b9.trans a9, ?_, ?_, ?_, b13, b14, W1 ++ W2, ?_, ?_, ?_⟩
  · intro j
    exact ⟨(b10 j).1.trans (a10 j).1, (b10 j).2.trans (a10 j).2⟩
  · intro j
    rcases b11 j with h | h
    · rcases a11 j with h' | h'
      · exact Or.inl (h.trans h')
      · exact Or.inr (h.trans h')
    · exact Or.inr h
  · intro j hj
    have hj2 : (proc_at s2 j).pid ∉ queue_contents cfg.QUEUE_SIZE s2.sleep_queue := by
      rw [(a10 j).1]
      intro hmem
      exact hj (aw2.subset (List.mem_append_right _ hmem))
    rw [b12 j hj2, a12 j hj]
  · rw [bw1, aw1, List.append_assoc]
  · rw [List.append_assoc]
    exact ((List.subperm_append_left W1).2 bw2).trans aw2
  · intro w hw
    rcases List.mem_append.1 hw with h | h
    · exact aw3 w h
    · obtain ⟨hw0, p, hp⟩ := bw3 w h
      exact ⟨hw0, p, by rw [← (a10 p).1]; exact hp⟩

/-- A stale pid (no process carries it) is dropped from the sleep queue. -/
theorem timer_rel_stale (cfg : kconfig) (s : kernel_t) (pid : Int)
    (hrun : queue_wf cfg.QUEUE_SIZE s.run_queue) (hsl : queue_wf cfg.QUEUE_SIZE s.sleep_queue)
    (hne : queue_is_empty s.sleep_queue = false) :
    timer_rel cfg s { s with sleep_queue := (queue_out cfg.QUEUE_SIZE s.sleep_queue pid).2.1 } := by
  obtain ⟨_, hwf, _, hc⟩ := queue_out_spec cfg.QUEUE_SIZE s.sleep_queue pid hsl hne
  refine ⟨rfl, rfl, rfl, rfl, rfl, rfl, rfl, rfl, rfl, fun _ => ⟨rfl, rfl⟩, fun _ => Or.inl rfl,
    fun _ _ => rfl, hrun, hwf, [], by simp, ?_, by simp⟩
  rw [hc]
  exact (List.sublist_cons_self _ _).subperm

/-- A sleeper with more than one tick left: sleep_time goes down by one and the pid
moves to the tail of the sleep queue. -/
theorem timer_rel_count (cfg : kconfig) (s : kernel_t) (pid : Int) (p : Nat)
    (hrun : queue_wf cfg.QUEUE_SIZE s.run_queue) (hsl : queue_wf cfg.QUEUE_SIZE s.sleep_queue)
    (hne : queue_is_empty s.sleep_queue = false)
    (hp : (proc_at s p).pid = arr_get s.sleep_queue.items s.sleep_queue.head) :
    timer_rel cfg s
      { proc_update { s with sleep_queue := (queue_out cfg.QUEUE_SIZE s.sleep_queue pid).2.1 }
          p (fun x => { x with sleep_time := x.sleep_time - 1 }) with
        sleep_queue := (queue_in cfg.QUEUE_SIZE
          (queue_out cfg.QUEUE_SIZE s.sleep_queue pid).2.1
          (arr_get s.sleep_queue.items s.sleep_queue.head)).2 } := by
  obtain ⟨_, hwf, _, hc, hc2⟩ := queue_rotate_step cfg.QUEUE_SIZE s.sleep_queue pid hsl hne
  have hv := (queue_out_nonempty cfg.QUEUE_SIZE s.sleep_queue pid hne).2
  rw [hv] at hwf hc hc2
  have hat : ∀ j, proc_at
      { proc_update { s with sleep_queue := (queue_out cfg.QUEUE_SIZE s.sleep_queue pid).2.1 }
          p (fun x => { x with sleep_time := x.sleep_time - 1 }) with
        sleep_queue := (queue_in cfg.QUEUE_SIZE
          (queue_out cfg.QUEUE_SIZE s.sleep_queue pid).2.1
          (arr_get s.sleep_queue.items s.sleep_queue.head)).2 } j
      = proc_at (proc_update s p (fun x => { x with sleep_time := x.sleep_time - 1 })) j :=
    fun _ => rfl
  refine ⟨rfl, rfl, rfl, rfl, rfl, rfl, rfl, rfl, by simp [proc_update], ?_, ?_, ?_, hrun, hwf,
    [], (List.append_nil _).symm, ?_, by simp⟩
  · intro j
    rw [hat, proc_at_update]
    split <;> rename_i h
    · rw [h.1]
      exact ⟨rfl, rfl⟩
    · exact ⟨rfl, rfl⟩
  · intro j
    rw [hat, proc_at_update]
    split <;> rename_i h
    · rw [h.1]
      exact Or.inl rfl
    · exact Or.inl rfl
  · intro j hj
    rw [hat]
    apply proc_at_update_other
    intro hjp
    apply hj
    rw [hjp, hp, hc]
    exact List.mem_cons_self _ _
  · rw [List.nil_append, hc2, hc]
    exact (List.perm_append_singleton _ _).subperm

/-- A sleeper with one tick left: sleep_time becomes 0 and the process goes through
`scheduler_add`. -/
theorem timer_rel_wake (cfg : kconfig) (s s3 : kernel_t) (pid : Int) (p : Nat)
    (hrun : queue_wf cfg.QUEUE_SIZE s.run_queue) (hsl : queue_wf cfg.QUEUE_SIZE s.sleep_queue)
    (hne : queue_is_empty s.sleep_queue = false)
    (hp : (proc_at s p).pid = arr_get s.sleep_queue.items s.sleep_queue.head)
    (hpl : p < s.proc_table.length) (hp0 : 0 ≤ (proc_at s p).pid)
    (h : scheduler_add cfg
      (proc_update { s with sleep_queue := (queue_out cfg.QUEUE_SIZE s.sleep_queue pid).2.1 }
        p (fun x => { x with sleep_time := 0 })) (some p) = some s3) :
    timer_rel cfg s s3 := by
  obtain ⟨_, hwf, _, hc⟩ := queue_out_spec cfg.QUEUE_SIZE s.sleep_queue pid hsl hne
  have hv := (queue_out_nonempty cfg.QUEUE_SIZE s.sleep_queue pid hne).2
  rw [hv] at hc
  have hat : ∀ j, proc_at
      (proc_update { s with sleep_queue := (queue_out cfg.QUEUE_SIZE s.sleep_queue pid).2.1 }
        p (fun x => { x with sleep_time := 0 })) j
      = proc_at (proc_update s p (fun x => { x with sleep_time := 0 })) j := fun _ => rfl
  have hpp : (proc_at (proc_update s p (fun x => { x with sleep_time := 0 })) p).pid
      = (proc_at s p).pid := proc_update_pid s p p (fun x => { x with sleep_time := 0 })
        (fun _ => rfl)
  rw [scheduler_add_eq, hat, hpp] at h
  by_cases h0 : (proc_at s p).pid = 0
  · rw [if_pos h0] at h
    simp only [Option.some.injEq] at h
    have hat3 : ∀ j, proc_at s3 j
        = proc_at (proc_update s p (fun x => { x with sleep_time := 0 })) j := by
      intro j
      rw [← h]
      rfl
    refine ⟨by rw [← h]; rfl, by rw [← h]; rfl, by rw [← h]; rfl, by rw [← h]; rfl,
      by rw [← h]; rfl, by rw [← h]; rfl, by rw [← h]; rfl, by rw [← h]; rfl,
      by rw [← h]; simp [proc_update], ?_, ?_, ?_, by rw [← h]; exact hrun,
      by rw [← h]; exact hwf, [], by rw [← h]; exact (List.append_nil _).symm, ?_, by simp⟩
    · intro j
      rw [hat3, proc_at_update]
      split <;> rename_i hh
      · rw [hh.1]
        exact ⟨rfl, rfl⟩
      · exact ⟨rfl, rfl⟩
    · intro j
      rw [hat3, proc_at_update]
      split <;> rename_i hh
      · rw [hh.1]
        exact Or.inl rfl
      · exact Or.inl rfl
    · intro j hj
      rw [hat3]
      apply proc_at_update_other
      intro hjp
      apply hj
      rw [hjp, hp, hc]
      exact List.mem_cons_self _ _
    · rw [List.nil_append, hc, ← h]
      exact (List.sublist_cons_self _ _).subperm
  · rw [if_neg h0] at h
    split at h
    · simp at h
    · rename_i hfull
      simp only [Option.some.injEq] at h
      have hroom : queue_is_full cfg.QUEUE_SIZE s.run_queue = false := by
        cases hb : queue_is_full cfg.QUEUE_SIZE s.run_queue
        · rfl
        · exact absurd hb hfull
      obtain ⟨_, hwr, _, hcr⟩ := queue_in_spec cfg.QUEUE_SIZE s.run_queue (proc_at s p).pid hrun
        hroom
      have hlen : (proc_update s p (fun x => { x with sleep_time := 0 })).proc_table.length
          = s.proc_table.length := proc_update_length s p _
      have hat2 : ∀ j, proc_at s3 j
          = if p = j then
              { proc_at s p with sleep_time := 0, state := proc_state_t.IDLE, cpu_time := 0 }
            else proc_at s j := by
        intro j
        rw [← h]
        rw [proc_at_set (proc_update s p (fun x => { x with sleep_time := 0 })) _ p j _ rfl]
        by_cases hj : p = j
        · subst hj
          rw [if_pos ⟨rfl, by rw [hlen]; exact hpl⟩, if_pos rfl, proc_at_update_self s p _ hpl]
        · rw [if_neg (fun hh => hj hh.1), if_neg hj, proc_at_update_other s p j _ (Ne.symm hj)]
      refine ⟨by rw [← h]; rfl, by rw [← h]; rfl, by rw [← h]; rfl, by rw [← h]; rfl,
        by rw [← h]; rfl, by rw [← h]; rfl, by rw [← h]; rfl, by rw [← h]; rfl,
        by rw [← h]; simp [proc_update], ?_, ?_, ?_, by rw [← h]; exact hwr,
        by rw [← h]; exact hwf, [(proc_at s p).pid], by rw [← h]; exact hcr, ?_, ?_⟩
      · intro j
        rw [hat2]
        split <;> rename_i hh
        · rw [← hh]
          exact ⟨rfl, rfl⟩
        · exact ⟨rfl, rfl⟩
      · intro j
        rw [hat2]
        split <;> rename_i hh
        · exact Or.inr rfl
        · exact Or.inl rfl
      · intro j hj
        rw [hat2, if_neg]
        intro hjp
        apply hj
        rw [← hjp, hp, hc]
        exact List.mem_cons_self _ _
      · rw [hc, hp, ← h]
        exact List.Subperm.refl _
      · intro w hw
        rw [List.mem_singleton] at hw
        rw [hw]
        exact ⟨by omega, p, rfl⟩

theorem timer_rel_sizes (cfg : kconfig) (s s' : kernel_t) (h : timer_rel cfg s s')
    (hsl : queue_wf cfg.QUEUE_SIZE s.sleep_queue) :
    (queue_contents cfg.QUEUE_SIZE s'.run_queue).length
        + (queue_contents cfg.QUEUE_SIZE s'.sleep_queue).length
      ≤ (queue_contents cfg.QUEUE_SIZE s.run_queue).length
        + (queue_contents cfg.QUEUE_SIZE s.sleep_queue).length ∧
    s'.sleep_queue.size ≤ s.sleep_queue.size := by
  obtain ⟨_, _, _, _, _, _, _, _, _, _, _, _, _, hsl', W, hw1, hw2, _⟩ := h
  have hl := hw2.length_le
  rw [List.length_append] at hl
  have h1 := queue_contents_length cfg.QUEUE_SIZE s.sleep_queue
  have h2 := queue_contents_length cfg.QUEUE_SIZE s'.sleep_queue
  have p1 := hsl.2.1
  have p2 := hsl'.2.1
  constructor
  · rw [hw1, List.length_append]
    omega
  · omega

/-- The sleeper walk as a whole: whatever it returns is related to the start by
`timer_rel`, and it does return when the run queue has room for every sleeper. -/
theorem scheduler_timer_loop_spec (cfg : kconfig) :
    ∀ (fuel : Nat) (i : Int) (s : kernel_t) (pid : Int),
      queue_wf cfg.QUEUE_SIZE s.run_queue → queue_wf cfg.QUEUE_SIZE s.sleep_queue → 0 ≤ i →
      (∀ s', scheduler_timer_loop cfg fuel i s pid = some s' → timer_rel cfg s s') ∧
      ((s.sleep_queue.size - i).toNat < fuel →
        (queue_contents cfg.QUEUE_SIZE s.run_queue).length
          + (queue_contents cfg.QUEUE_SIZE s.sleep_queue).length ≤ cfg.QUEUE_SIZE →
        ∃ s', scheduler_timer_loop cfg fuel i s pid = some s') := by
  intro fuel
  induction fuel with
  | zero =>
    intro i s pid _ _ _
    exact ⟨fun s' h => by simp [scheduler_timer_loop] at h, fun h => by omega⟩
  | succ fuel ih =>
    intro i s pid hrun hsl hi0
    by_cases hi : i < s.sleep_queue.size
    · have hne : queue_is_empty s.sleep_queue = false := by
        simp only [queue_is_empty, beq_eq_false_iff_ne, ne_eq]
        omega
      have hlen := queue_contents_length cfg.QUEUE_SIZE s.sleep_queue
      have hroomrun : (queue_contents cfg.QUEUE_SIZE s.run_queue).length
          + (queue_contents cfg.QUEUE_SIZE s.sleep_queue).length ≤ cfg.QUEUE_SIZE →
          queue_is_full cfg.QUEUE_SIZE s.run_queue = false := by
        intro hcap
        cases hb : queue_is_full cfg.QUEUE_SIZE s.run_queue
        · rfl
        · have := (queue_is_full_iff cfg.QUEUE_SIZE _ hrun).1 hb
          omega
      -- one round, then the rest of the walk
      have hnext : ∀ (s1 : kernel_t) (v : Int), timer_rel cfg s s1 →
          scheduler_timer_loop cfg (fuel + 1) i s pid = scheduler_timer_loop cfg fuel (i + 1) s1 v →
          (∀ s', scheduler_timer_loop cfg (fuel + 1) i s pid = some s' → timer_rel cfg s s') ∧
          ((s.sleep_queue.size - i).toNat < fuel + 1 →
            (queue_contents cfg.QUEUE_SIZE s.run_queue).length
              + (queue_contents cfg.QUEUE_SIZE s.sleep_queue).length ≤ cfg.QUEUE_SIZE →
            ∃ s', scheduler_timer_loop cfg (fuel + 1) i s pid = some s') := by
        intro s1 v hrel heq
        obtain ⟨hA, hB⟩ := ih (i + 1) s1 v hrel.2.2.2.2.2.2.2.2.2.2.2.2.1
          hrel.2.2.2.2.2.2.2.2.2.2.2.2.2.1 (by omega)
        obtain ⟨hsz1, hsz2⟩ := timer_rel_sizes cfg s s1 hrel hsl
        rw [heq]
        exact ⟨fun s' h' => timer_rel_trans cfg s s1 s' hrel (hA s' h'),
          fun hf hcap => hB (by omega) (by omega)⟩
      cases hl : pid_to_proc cfg s (arr_get s.sleep_queue.items s.sleep_queue.head) with
      | none =>
        exact hnext _ _ (timer_rel_stale cfg s pid hrun hsl hne)
          (scheduler_timer_loop_stale cfg fuel i s pid hi hne hl)
      | some p =>
        obtain ⟨hpp, hp0, _, _⟩ := pid_to_proc_some cfg s _ p hl
        have hpl : p < s.proc_table.length := proc_at_in_range s p (by omega)
        by_cases h1 : (proc_at s p).sleep_time = 1
        · have heq := scheduler_timer_loop_wake cfg fuel i s pid p hi hne hl h1
          cases hadd : scheduler_add cfg
              (proc_update
                { s with sleep_queue := (queue_out cfg.QUEUE_SIZE s.sleep_queue pid).2.1 }
                p (fun x => { x with sleep_time := 0 })) (some p) with
          | none =>
            rw [hadd] at heq
            refine ⟨fun s' h' => by rw [heq] at h'; simp at h', fun _ hcap => ?_⟩
            obtain ⟨s3, h3⟩ := scheduler_add_returns cfg
              (proc_update
                { s with sleep_queue := (queue_out cfg.QUEUE_SIZE s.sleep_queue pid).2.1 }
                p (fun x => { x with sleep_time := 0 })) p (Or.inr (hroomrun hcap))
            rw [hadd] at h3
            simp at h3
          | some s3 =>
            rw [hadd] at heq
            exact hnext s3 _ (timer_rel_wake cfg s s3 pid p hrun hsl hne hpp hpl
              (by rw [hpp]; exact hp0) hadd) heq
        · exact hnext _ _ (timer_rel_count cfg s pid p hrun hsl hne hpp)
            (scheduler_timer_loop_count cfg fuel i s pid p hi hne hl h1)
    · rw [scheduler_timer_loop_exit cfg fuel i s pid hi]
      exact ⟨fun s' h' => by
        simp only [Option.some.injEq] at h'
        rw [← h']
        exact timer_rel_refl cfg s hrun hsl, fun _ _ => ⟨s, rfl⟩⟩

theorem scheduler_timer_eq (cfg : kconfig) (s : kernel_t) :
    scheduler_timer cfg s
      = if !queue_is_empty (scheduler_timer_charge s).sleep_queue then
          scheduler_timer_loop cfg ((scheduler_timer_charge s).sleep_queue.size.toNat + 1) 0
            (scheduler_timer_charge s) 0
        else some (scheduler_timer_charge s) := rfl

theorem scheduler_timer_charge_queues (s : kernel_t) :
    (scheduler_timer_charge s).run_queue = s.run_queue ∧
    (scheduler_timer_charge s).sleep_queue = s.sleep_queue ∧
    (scheduler_timer_charge s).active_proc = s.active_proc ∧
    (scheduler_timer_charge s).next_pid = s.next_pid ∧
    (scheduler_timer_charge s).proc_allocator = s.proc_allocator ∧
    (scheduler_timer_charge s).mutexes = s.mutexes ∧
    (scheduler_timer_charge s).semaphores = s.semaphores ∧
    (scheduler_timer_charge s).proc_table.length = s.proc_table.length ∧
    ∀ j, (proc_at (scheduler_timer_charge s) j).pid = (proc_at s j).pid := by
  unfold scheduler_timer_charge
  split
  · rename_i a _
    exact ⟨rfl, rfl, rfl, rfl, rfl, rfl, rfl, proc_update_length s a _,
      fun j => proc_update_pid s a j
        (fun x => { x with run_time := x.run_time + 1, cpu_time := x.cpu_time + 1 })
        (fun _ => rfl)⟩
  · exact ⟨rfl, rfl, rfl, rfl, rfl, rfl, rfl, rfl, fun _ => rfl⟩

/-- The result of `scheduler_timer`: related by `timer_rel` to the state with the active process
charged; and there is a result when the run queue has room for every sleeper. -/
theorem scheduler_timer_spec (cfg : kconfig) (s : kernel_t)
    (hrun : queue_wf cfg.QUEUE_SIZE s.run_queue) (hsl : queue_wf cfg.QUEUE_SIZE s.sleep_queue) :
    (∀ s', scheduler_timer cfg s = some s' → timer_rel cfg (scheduler_timer_charge s) s') ∧
    ((queue_contents cfg.QUEUE_SIZE s.run_queue).length
        + (queue_contents cfg.QUEUE_SIZE s.sleep_queue).length ≤ cfg.QUEUE_SIZE →
      ∃ s', scheduler_timer cfg s = some s') := by
  obtain ⟨hq1, hq2, _⟩ := scheduler_timer_charge_queues s
  have hrun' : queue_wf cfg.QUEUE_SIZE (scheduler_timer_charge s).run_queue := by
    rw [hq1]; exact hrun
  have hsl' : queue_wf cfg.QUEUE_SIZE (scheduler_timer_charge s).sleep_queue := by
    rw [hq2]; exact hsl
  rw [scheduler_timer_eq]
  by_cases he : queue_is_empty (scheduler_timer_charge s).sleep_queue = true
  · simp only [he, Bool.not_true, Bool.false_eq_true, if_false]
    exact ⟨fun s' h => by
      simp only [Option.some.injEq] at h
      rw [← h]
      exact timer_rel_refl cfg _ hrun' hsl', fun _ => ⟨_, rfl⟩⟩
  · have he' : queue_is_empty (scheduler_timer_charge s).sleep_queue = false := by
      cases hb : queue_is_empty (scheduler_timer_charge s).sleep_queue
      · rfl
      · exact absurd hb he
    simp only [he', Bool.not_false, if_true]
    obtain ⟨hA, hB⟩ := scheduler_timer_loop_spec cfg
      ((scheduler_timer_charge s).sleep_queue.size.toNat + 1) 0 (scheduler_timer_charge s) 0
      hrun' hsl' (le_refl _)
    refine ⟨hA, fun hcap => hB (by simp) ?_⟩
    rw [hq1, hq2]
    exact hcap

theorem proc_at_in_range_of_state (s : kernel_t) (j : Nat)
    (h : (proc_at s j).state ≠ proc_state_t.NONE) : j < s.proc_table.length := by
  by_contra hge
  apply h
  unfold proc_at
  rw [List.getD_eq_getElem?_getD, List.getElem?_eq_none (Nat.le_of_not_lt hge)]
  rfl

/-- The preemption of a user process by `scheduler_run`. -/
theorem scheduler_run_preempt_user_spec (cfg : kconfig) (s : kernel_t) (a : Nat)
    (h : s.active_proc = some a) (hst : (proc_at s a).state = proc_state_t.ACTIVE)
    (hcpu : (cfg.SCHEDULER_TIMESLICE : Int) ≤ (proc_at s a).cpu_time)
    (hpid : (proc_at s a).pid ≠ 0)
    (hrun : queue_wf cfg.QUEUE_SIZE s.run_queue)
    (hroom : queue_is_full cfg.QUEUE_SIZE s.run_queue = false) :
    ∃ sp, scheduler_run_preempt cfg s = some sp ∧ sp.active_proc = none ∧
      proc_at sp a = { proc_at s a with cpu_time := 0, state := proc_state_t.IDLE } ∧
      (∀ j, j ≠ a → proc_at sp j = proc_at s j) ∧
      queue_wf cfg.QUEUE_SIZE sp.run_queue ∧
      queue_contents cfg.QUEUE_SIZE sp.run_queue
        = queue_contents cfg.QUEUE_SIZE s.run_queue ++ [(proc_at s a).pid] ∧
      sp.sleep_queue = s.sleep_queue ∧ sp.next_pid = s.next_pid ∧
      sp.proc_table.length = s.proc_table.length ∧ sp.proc_allocator = s.proc_allocator ∧
      sp.mutexes = s.mutexes ∧ sp.semaphores = s.semaphores := by
  have ha : a < s.proc_table.length :=
    proc_at_in_range_of_state s a (by rw [hst]; decide)
  obtain ⟨_, hwr, _, hcr⟩ := queue_in_spec cfg.QUEUE_SIZE s.run_queue (proc_at s a).pid hrun hroom
  have hpp : (proc_at (proc_update s a (fun x => { x with cpu_time := 0 })) a).pid
      = (proc_at s a).pid :=
    proc_update_pid s a a (fun x => { x with cpu_time := 0 }) (fun _ => rfl)
  have hfull : ¬ queue_is_full cfg.QUEUE_SIZE
      (proc_update s a (fun x => { x with cpu_time := 0 })).run_queue = true := by
    show ¬ queue_is_full cfg.QUEUE_SIZE s.run_queue = true
    rw [hroom]
    decide
  have hlen : (proc_update s a (fun x => { x with cpu_time := 0 })).proc_table.length
      = s.proc_table.length := proc_update_length s a _
  rw [scheduler_run_preempt_user cfg s a h hst hcpu hpid, scheduler_add_eq, hpp, if_neg hpid,
    if_neg hfull]
  refine ⟨_, rfl, rfl, ?_, ?_, hwr, hcr, rfl, rfl, ?_, rfl, rfl, rfl⟩
  · rw [proc_at_set_self (proc_update s a (fun x => { x with cpu_time := 0 })) _ a _ rfl
      (by rw [hlen]; exact ha), proc_at_update_self s a _ ha]
  · intro j hj
    rw [proc_at_set_other (proc_update s a (fun x => { x with cpu_time := 0 })) _ a j _ rfl hj,
      proc_at_update_other s a j _ hj]
  · simp [proc_update]

/-- The preemption of the idle process by `scheduler_run`. -/
theorem scheduler_run_preempt_idle_spec (cfg : kconfig) (s : kernel_t) (a : Nat)
    (h : s.active_proc = some a) (hst : (proc_at s a).state = proc_state_t.ACTIVE)
    (hcpu : (cfg.SCHEDULER_TIMESLICE : Int) ≤ (proc_at s a).cpu_time)
    (hpid : (proc_at s a).pid = 0) :
    ∃ sp, scheduler_run_preempt cfg s = some sp ∧ sp.active_proc = none ∧
      proc_at sp a = { proc_at s a with cpu_time := 0, state := proc_state_t.IDLE } ∧
      (∀ j, j ≠ a → proc_at sp j = proc_at s j) ∧
      sp.run_queue = s.run_queue ∧
      sp.sleep_queue = s.sleep_queue ∧ sp.next_pid = s.next_pid ∧
      sp.proc_table.length = s.proc_table.length ∧ sp.proc_allocator = s.proc_allocator ∧
      sp.mutexes = s.mutexes ∧ sp.semaphores = s.semaphores := by
  have ha : a < s.proc_table.length :=
    proc_at_in_range_of_state s a (by rw [hst]; decide)
  have hlen : (proc_update s a (fun x => { x with cpu_time := 0 })).proc_table.length
      = s.proc_table.length := proc_update_length s a _
  rw [scheduler_run_preempt_idle cfg s a h hst hcpu hpid]
  refine ⟨_, rfl, rfl, ?_, ?_, rfl, rfl, rfl, ?_, rfl, rfl, rfl⟩
  · show proc_at (proc_update (proc_update s a (fun x => { x with cpu_time := 0 })) a
      (fun x => { x with state := proc_state_t.IDLE })) a = _
    rw [proc_at_update_self _ a _ (by rw [hlen]; exact ha), proc_at_update_self s a _ ha]
  · intro j hj
    show proc_at (proc_update (proc_update s a (fun x => { x with cpu_time := 0 })) a
      (fun x => { x with state := proc_state_t.IDLE })) j = _
    rw [proc_at_update_other _ a j _ hj, proc_at_update_other s a j _ hj]
  · simp [proc_update]

/-- The selection by `scheduler_run` from a run queue with head `h`. -/
theorem scheduler_run_select_head (cfg : kconfig) (s : kernel_t) (h : Int) (t : List Int)
    (j : Nat) (hact : s.active_proc = none) (hrun : queue_wf cfg.QUEUE_SIZE s.run_queue)
    (hc : queue_contents cfg.QUEUE_SIZE s.run_queue = h :: t)
    (hl : pid_to_proc cfg s h = some j) :
    ∃ s2, scheduler_run_select cfg s = some s2 ∧ s2.active_proc = some j ∧
      proc_at s2 j = { proc_at s j with state := proc_state_t.ACTIVE } ∧
      (proc_at s j).pid = h ∧
      (∀ k, k ≠ j → proc_at s2 k = proc_at s k) ∧
      queue_wf cfg.QUEUE_SIZE s2.run_queue ∧
      queue_contents cfg.QUEUE_SIZE s2.run_queue = t ∧
      s2.sleep_queue = s.sleep_queue ∧ s2.next_pid = s.next_pid ∧
      s2.proc_table.length = s.proc_table.length ∧ s2.proc_allocator = s.proc_allocator ∧
      s2.mutexes = s.mutexes ∧ s2.semaphores = s.semaphores := by
  have hne : queue_is_empty s.run_queue = false := by
    cases hb : queue_is_empty s.run_queue
    · rfl
    · rw [(queue_is_empty_iff cfg.QUEUE_SIZE _ hrun).1 hb] at hc
      simp at hc
  obtain ⟨_, hwo, _, hco⟩ := queue_out_spec cfg.QUEUE_SIZE s.run_queue 0 hrun hne
  have hv := (queue_out_nonempty cfg.QUEUE_SIZE s.run_queue 0 hne).2
  rw [hc, hv] at hco
  simp only [List.cons.injEq] at hco
  obtain ⟨hpj, _, _, _⟩ := pid_to_proc_some cfg s h j hl
  have hj : j < s.proc_table.length := proc_at_in_range s j (by omega)
  rw [scheduler_run_select_queue cfg s hact hne, ← hco.1, hl]
  refine ⟨_, rfl, rfl, ?_, hpj, ?_, hwo, hco.2.symm, rfl, rfl, ?_, rfl, rfl, rfl⟩
  · rw [proc_at_update_self _ j _ (by exact hj)]
    rfl
  · intro k hk
    rw [proc_at_update_other _ j k _ hk]
    rfl
  · simp [proc_update]

/-! ## C14: the time-slice policy -/

/-- C14: the time-slice policy. Let process `a` be active, in state ACTIVE, with a pid
that is on neither queue, in a machine with a sound process table, well-formed queues
that together hold fewer than QUEUE_SIZE pids, and a run queue of pids of live
processes. Then `scheduler_timer` returns a state `s1` in which exactly run_time and
cpu_time of `a` went up by one, no other process has another run_time, and the cpu_time
of another process is as before or 0 (a sleeper woken by this tick). In the following
`scheduler_run`: below SCHEDULER_TIMESLICE nothing changes at all (the active process
stays, the run queue is as it was); from SCHEDULER_TIMESLICE on, the first half of
`scheduler_run` leaves `a` with cpu_time 0 and state IDLE, unscheduled, its pid appended
behind everything on the run queue unless it is pid 0, which is not queued; and the
process selected by the second half is the one whose pid was at the head of that run
queue, which loses this head. -/
theorem timeslice_policy (cfg : kconfig) (s : kernel_t) (a : Nat)
    (hinv : pid_inv cfg s)
    (hrun : queue_wf cfg.QUEUE_SIZE s.run_queue) (hsl : queue_wf cfg.QUEUE_SIZE s.sleep_queue)
    (hcap : (queue_contents cfg.QUEUE_SIZE s.run_queue).length
      + (queue_contents cfg.QUEUE_SIZE s.sleep_queue).length < cfg.QUEUE_SIZE)
    (hlive : ∀ x ∈ queue_contents cfg.QUEUE_SIZE s.run_queue, 0 ≤ x ∧ ∃ j, (proc_at s j).pid = x)
    (hact : s.active_proc = some a) (hst : (proc_at s a).state = proc_state_t.ACTIVE)
    (ha0 : 0 ≤ (proc_at s a).pid)
    (hnr : (proc_at s a).pid ∉ queue_contents cfg.QUEUE_SIZE s.run_queue)
    (hns : (proc_at s a).pid ∉ queue_contents cfg.QUEUE_SIZE s.sleep_queue) :
    ∃ s1, scheduler_timer cfg s = some s1 ∧ s1.active_proc = some a ∧
      proc_at s1 a = { proc_at s a with run_time := (proc_at s a).run_time + 1,
                                        cpu_time := (proc_at s a).cpu_time + 1 } ∧
      (∀ j, j ≠ a → (proc_at s1 j).run_time = (proc_at s j).run_time ∧
        ((proc_at s1 j).cpu_time = (proc_at s j).cpu_time ∨ (proc_at s1 j).cpu_time = 0)) ∧
      ((proc_at s1 a).cpu_time < (cfg.SCHEDULER_TIMESLICE : Int) →
        scheduler_run cfg s1 = some s1) ∧
      ((cfg.SCHEDULER_TIMESLICE : Int) ≤ (proc_at s1 a).cpu_time →
        ∃ sp, scheduler_run_preempt cfg s1 = some sp ∧ sp.active_proc = none ∧
          (proc_at sp a).cpu_time = 0 ∧ (proc_at sp a).state = proc_state_t.IDLE ∧
          ((proc_at s a).pid ≠ 0 →
            queue_contents cfg.QUEUE_SIZE sp.run_queue
              = queue_contents cfg.QUEUE_SIZE s1.run_queue ++ [(proc_at s a).pid]) ∧
          ((proc_at s a).pid = 0 → sp.run_queue = s1.run_queue) ∧
          ∀ h t, queue_contents cfg.QUEUE_SIZE sp.run_queue = h :: t →
            ∃ s2 j, scheduler_run cfg s1 = some s2 ∧ s2.active_proc = some j ∧
              (proc_at s2 j).pid = h ∧ (proc_at s2 j).state = proc_state_t.ACTIVE ∧
              queue_contents cfg.QUEUE_SIZE s2.run_queue = t ∧
              (j ≠ a → (proc_at s2 a).cpu_time = 0 ∧
                (proc_at s2 a).state = proc_state_t.IDLE)) := by
  have ha : a < s.proc_table.length := proc_at_in_range_of_state s a (by rw [hst]; decide)
  obtain ⟨hq1, hq2, hq3, hq4, _, _, _, hq8, hq9⟩ := scheduler_timer_charge_queues s
  have hch : ∀ j, proc_at (scheduler_timer_charge s) j
      = if a = j then { proc_at s a with run_time := (proc_at s a).run_time + 1,
                                           cpu_time := (proc_at s a).cpu_time + 1 }
        else proc_at s j := by
    intro j
    simp only [scheduler_timer_charge, hact]
    rw [proc_at_update]
    by_cases hj : a = j
    · rw [if_pos ⟨hj, ha⟩, if_pos hj]
    · rw [if_neg (fun hh => hj hh.1), if_neg hj]
  obtain ⟨hA, hB⟩ := scheduler_timer_spec cfg s hrun hsl
  obtain ⟨s1, hs1⟩ := hB (by omega)
  have hrel := hA s1 hs1
  obtain ⟨r1, r2, r3, _, r5, _, r7, _, r9, r10, r11, r12, r13, r14, W, rw1, rw2, rw3⟩ := hrel
  rw [hq1] at rw1
  rw [hq2] at rw2
  have hs1a : proc_at s1 a = { proc_at s a with run_time := (proc_at s a).run_time + 1,
                                                cpu_time := (proc_at s a).cpu_time + 1 } := by
    rw [r12 a (by rw [hq9, hq2]; exact hns), hch, if_pos rfl]
  have hpid1 : ∀ j, (proc_at s1 j).pid = (proc_at s j).pid := fun j => by
    rw [(r10 j).1, hq9]
  have hinv1 : pid_inv cfg s1 :=
    pid_inv_congr cfg s s1 hinv (by rw [r9, hq8]) (by rw [r1, hq4]) hpid1
  have hst1 : (proc_at s1 a).state = proc_state_t.ACTIVE := by
    rw [hs1a]
    exact hst
  have hact1 : s1.active_proc = some a := by rw [r3, hq3, hact]
  have hlen1 := rw2.length_le
  rw [List.length_append] at hlen1
  have hroom1 : queue_is_full cfg.QUEUE_SIZE s1.run_queue = false := by
    cases hb : queue_is_full cfg.QUEUE_SIZE s1.run_queue
    · rfl
    · have := (queue_is_full_iff cfg.QUEUE_SIZE _ r13).1 hb
      rw [rw1, List.length_append] at this
      omega
  have hlive1 : ∀ x ∈ queue_contents cfg.QUEUE_SIZE s1.run_queue,
      x ≠ (proc_at s a).pid ∧ ∃ j, pid_to_proc cfg s1 x = some j := by
    intro x hx
    rw [rw1] at hx
    rcases List.mem_append.1 hx with hx | hx
    · obtain ⟨hx0, j, hj⟩ := hlive x hx
      refine ⟨fun he => hnr (he ▸ hx), j, ?_⟩
      have := pid_to_proc_in_use cfg s1 j hinv1 (by rw [hpid1, hj]; exact hx0)
      rwa [hpid1, hj] at this
    · obtain ⟨hx0, j, hj⟩ := rw3 x hx
      rw [hq9] at hj
      refine ⟨fun he => hns (he ▸ rw2.subset (List.mem_append_left _ hx)), j, ?_⟩
      have := pid_to_proc_in_use cfg s1 j hinv1 (by rw [hpid1, hj]; omega)
      rwa [hpid1, hj] at this
  refine ⟨s1, hs1, hact1, hs1a, ?_, ?_, ?_⟩
  · intro j hj
    have h1 := (r10 j).2
    have h2 := r11 j
    rw [hch, if_neg (Ne.symm hj)] at h1 h2
    exact ⟨h1, h2⟩
  · intro hlt
    simp only [scheduler_run, scheduler_run_preempt_keep cfg s1 a hact1 hst1 hlt,
      scheduler_run_select_active cfg s1 a hact1]
    rw [proc_update_id s1 a _ (by
      show ({ proc_at s1 a with state := proc_state_t.ACTIVE } : proc_t) = proc_at s1 a
      rw [← hst1])]
  · intro hge
    -- what the second half does on a state `sp` left by the first half
    have hsel : ∀ sp : kernel_t, scheduler_run_preempt cfg s1 = some sp →
        sp.active_proc = none → queue_wf cfg.QUEUE_SIZE sp.run_queue →
        sp.next_pid = s1.next_pid → sp.proc_table.length = s1.proc_table.length →
        (∀ j, j ≠ a → proc_at sp j = proc_at s1 j) →
        proc_at sp a = { proc_at s1 a with cpu_time := 0, state := proc_state_t.IDLE } →
        (∀ x ∈ queue_contents cfg.QUEUE_SIZE sp.run_queue, ∃ j, pid_to_proc cfg s1 x = some j) →
        ∀ h t, queue_contents cfg.QUEUE_SIZE sp.run_queue = h :: t →
          ∃ s2 j, scheduler_run cfg s1 = some s2 ∧ s2.active_proc = some j ∧
            (proc_at s2 j).pid = h ∧ (proc_at s2 j).state = proc_state_t.ACTIVE ∧
            queue_contents cfg.QUEUE_SIZE s2.run_queue = t ∧
            (j ≠ a → (proc_at s2 a).cpu_time = 0 ∧
              (proc_at s2 a).state = proc_state_t.IDLE) := by
      intro sp hsp hnone hwf hnp hlen hoth hself hlook h t hc
      have hpids : ∀ j, (proc_at sp j).pid = (proc_at s1 j).pid := by
        intro j
        by_cases hj : j = a
        · rw [hj, hself]
        · rw [hoth j hj]
      obtain ⟨j, hj⟩ := hlook h (by rw [hc]; exact List.mem_cons_self _ _)
      have hj' : pid_to_proc cfg sp h = some j :=
        (pid_to_proc_congr cfg s1 sp h hnp hpids).trans hj
      obtain ⟨s2, h2, hact2, hp2, hph, hoth2, _, hc2, _⟩ :=
        scheduler_run_select_head cfg sp h t j hnone hwf hc hj'
      refine ⟨s2, j, by simp only [scheduler_run, hsp, h2], hact2, ?_, ?_, hc2, ?_⟩
      · rw [hp2]
        exact hph
      · rw [hp2]
      · intro hja
        rw [hoth2 a (Ne.symm hja), hself]
        exact ⟨rfl, rfl⟩
    by_cases hp0 : (proc_at s a).pid = 0
    · obtain ⟨sp, hsp, hnone, hself, hoth, hrq, _, hnp, hlen, _⟩ :=
        scheduler_run_preempt_idle_spec cfg s1 a hact1 hst1 hge (by rw [hpid1]; exact hp0)
      refine ⟨sp, hsp, hnone, by rw [hself], by rw [hself], fun hne => absurd hp0 hne,
        fun _ => hrq, ?_⟩
      exact hsel sp hsp hnone (by rw [hrq]; exact r13) hnp hlen hoth hself
        (fun x hx => (hlive1 x (by rw [← hrq]; exact hx)).2)
    · obtain ⟨sp, hsp, hnone, hself, hoth, hwf, hc, _, hnp, hlen, _⟩ :=
        scheduler_run_preempt_user_spec cfg s1 a hact1 hst1 hge (by rw [hpid1]; exact hp0) r13
          hroom1
      rw [hpid1] at hc
      refine ⟨sp, hsp, hnone, by rw [hself], by rw [hself], fun _ => hc,
        fun h0 => absurd h0 hp0, ?_⟩
      refine hsel sp hsp hnone hwf hnp hlen hoth hself ?_
      intro x hx
      rw [hc] at hx
      rcases List.mem_append.1 hx with hx | hx
      · exact (hlive1 x hx).2
      · rw [List.mem_singleton] at hx
        rw [hx]
        have := pid_to_proc_in_use cfg s1 a hinv1 (by rw [hpid1]; exact ha0)
        rw [hpid1] at this
        exact ⟨a, this⟩

/-- The table invariant from checks over the slots of the table alone. -/
theorem pid_inv_of_bounded (cfg : kconfig) (s : kernel_t)
    (h1 : s.proc_table.length = cfg.PROC_MAX) (h2 : 0 ≤ s.next_pid)
    (h3 : ∀ i, i < cfg.PROC_MAX → (proc_at s i).pid < s.next_pid)
    (h4 : ∀ i, i < cfg.PROC_MAX → ∀ j, j < cfg.PROC_MAX →
      0 ≤ (proc_at s i).pid → (proc_at s i).pid = (proc_at s j).pid → i = j) :
    pid_inv cfg s := by
  refine ⟨h1, h2, ?_, ?_⟩
  · intro i
    by_cases hi : i < cfg.PROC_MAX
    · exact h3 i hi
    · rw [proc_at_ge s i (by omega)]
      omega
  · intro i j hi hij
    have hir : i < cfg.PROC_MAX := by
      rw [← h1]
      exact proc_at_in_range s i (by omega)
    have hjr : j < cfg.PROC_MAX := by
      rw [← h1]
      exact proc_at_in_range s j (by omega)
    exact h4 i hir j hjr hi hij

theorem timeslice_policy_witness :
    (proc_at rr_three 1).cpu_time = 2 ∧ (proc_at rr_three 1).run_time = 2 ∧
    ∃ s1, scheduler_timer rr_config rr_three = some s1 ∧ s1.active_proc = some 1 ∧
      (proc_at s1 1).cpu_time = 3 ∧ (proc_at s1 1).run_time = 3 ∧
      ∃ sp, scheduler_run_preempt rr_config s1 = some sp ∧ sp.active_proc = none ∧
        (proc_at sp 1).cpu_time = 0 ∧ (proc_at sp 1).state = proc_state_t.IDLE ∧
        queue_contents 4 sp.run_queue = [2, 1] ∧
        ∃ s2 j, scheduler_run rr_config s1 = some s2 ∧ s2.active_proc = some j ∧
          (proc_at s2 j).pid = 2 ∧ (proc_at s2 j).state = proc_state_t.ACTIVE ∧
          queue_contents 4 s2.run_queue = [1] := by
  have hrq : queue_contents rr_config.QUEUE_SIZE rr_three.run_queue = [2] := by decide
  obtain ⟨s1, h1, h2, h3, _, _, h6⟩ := timeslice_policy rr_config rr_three 1
    (pid_inv_of_bounded _ _ (by decide) (by decide) (by decide) (by decide))
    (by decide) (by decide) (by decide)
    (by
      intro x hx
      rw [hrq, List.mem_singleton] at hx
      subst hx
      exact ⟨by decide, 2, by decide⟩)
    (by decide) (by decide) (by decide) (by decide) (by decide)
  have hc : (proc_at s1 1).cpu_time = 3 := by rw [h3]; decide
  have hr : (proc_at s1 1).run_time = 3 := by rw [h3]; decide
  obtain ⟨sp, g1, g2, g3, g4, g5, _, g7⟩ := h6 (by rw [hc]; decide)
  have hs1 : queue_contents rr_config.QUEUE_SIZE s1.run_queue = [2] := by
    have hm : (scheduler_timer rr_config rr_three).map
        (fun s => queue_contents rr_config.QUEUE_SIZE s.run_queue) = some [2] := by decide
    rw [h1] at hm
    simpa using hm
  have hq : queue_contents rr_config.QUEUE_SIZE sp.run_queue = [2, 1] := by
    rw [g5 (by decide), hs1]
    decide
  obtain ⟨s2, j, k1, k2, k3, k4, k5, _⟩ := g7 2 [1] hq
  exact ⟨by decide, by decide, s1, h1, h2, hc, hr, sp, g1, g2, g3, g4, hq, s2, j, k1, k2, k3, k4,
    k5⟩

/-! ## `scheduler_run` as a relation -/

/-- The second half of `scheduler_run` on a state without active process. -/
theorem scheduler_run_select_rel (cfg : kconfig) (t s' : kernel_t)
    (hact : t.active_proc = none) (hrun : queue_wf cfg.QUEUE_SIZE t.run_queue)
    (h : scheduler_run_select cfg t = some s') :
    s'.next_pid = t.next_pid ∧ s'.proc_allocator = t.proc_allocator ∧
    s'.sleep_queue = t.sleep_queue ∧ s'.mutexes = t.mutexes ∧
    s'.semaphores = t.semaphores ∧ s'.proc_table.length = t.proc_table.length ∧
    queue_wf cfg.QUEUE_SIZE s'.run_queue ∧
    ∃ j, s'.active_proc = some j ∧
      proc_at s' j = { proc_at t j with state := proc_state_t.ACTIVE } ∧
      (∀ k, k ≠ j → proc_at s' k = proc_at t k) ∧ 0 ≤ (proc_at t j).pid ∧
      ((queue_contents cfg.QUEUE_SIZE t.run_queue
          = (proc_at t j).pid :: queue_contents cfg.QUEUE_SIZE s'.run_queue) ∨
       (queue_contents cfg.QUEUE_SIZE t.run_queue = [] ∧
          queue_contents cfg.QUEUE_SIZE s'.run_queue = [] ∧ (proc_at t j).pid = 0)) := by
  cases hq : queue_contents cfg.QUEUE_SIZE t.run_queue with
  | nil =>
    have he : queue_is_empty t.run_queue = true := (queue_is_empty_iff cfg.QUEUE_SIZE _ hrun).2 hq
    rw [scheduler_run_select_empty cfg t hact he] at h
    cases hl : pid_to_proc cfg t 0 with
    | none => rw [hl] at h; simp at h
    | some i =>
      rw [hl] at h
      simp only [Option.some.injEq] at h
      obtain ⟨hp, _, _, _⟩ := pid_to_proc_some cfg t 0 i hl
      have hi : i < t.proc_table.length := proc_at_in_range t i (by omega)
      have hat : ∀ k, proc_at s' k
          = proc_at (proc_update t i (fun x => { x with state := proc_state_t.ACTIVE })) k := by
        intro k
        rw [← h]
        rfl
      refine ⟨by rw [← h]; rfl, by rw [← h]; rfl, by rw [← h]; rfl, by rw [← h]; rfl,
        by rw [← h]; rfl, by rw [← h]; simp [proc_update], by rw [← h]; exact hrun, i,
        by rw [← h]; rfl, ?_, ?_, by omega, Or.inr ⟨rfl, ?_, hp⟩⟩
      · rw [hat, proc_at_update_self t i _ hi]
      · intro k hk
        rw [hat, proc_at_update_other t i k _ hk]
      · rw [← h]
        exact hq
  | cons hd tl =>
    cases hl : pid_to_proc cfg t hd with
    | none =>
      have hne : queue_is_empty t.run_queue = false := by
        cases hb : queue_is_empty t.run_queue
        · rfl
        · rw [(queue_is_empty_iff cfg.QUEUE_SIZE _ hrun).1 hb] at hq
          simp at hq
      obtain ⟨_, _, _, hco⟩ := queue_out_spec cfg.QUEUE_SIZE t.run_queue 0 hrun hne
      have hv := (queue_out_nonempty cfg.QUEUE_SIZE t.run_queue 0 hne).2
      rw [hq, hv] at hco
      simp only [List.cons.injEq] at hco
      rw [scheduler_run_select_queue cfg t hact hne, ← hco.1, hl] at h
      simp at h
    | some j =>
      obtain ⟨s2, h2, hact2, hp2, hph, hoth2, hwf2, hc2, e1, e2, e3, e4, e5, e6⟩ :=
        scheduler_run_select_head cfg t hd tl j hact hrun hq hl
      rw [h] at h2
      simp only [Option.some.injEq] at h2
      subst h2
      obtain ⟨_, hp0, _, _⟩ := pid_to_proc_some cfg t hd j hl
      exact ⟨e2, e4, e1, e5, e6, e3, hwf2, j, hact2, hp2, hoth2, by rw [hph]; exact hp0,
        Or.inl (by rw [hc2, hph])⟩

/-- The first half of `scheduler_run`: either the active process is kept, nothing being
changed, or there is no active process afterwards and the run queue has grown by `E`. -/
theorem scheduler_run_preempt_rel (cfg : kconfig) (s sp : kernel_t)
    (hrun : queue_wf cfg.QUEUE_SIZE s.run_queue)
    (h : scheduler_run_preempt cfg s = some sp) :
    sp.next_pid = s.next_pid ∧ sp.proc_allocator = s.proc_allocator ∧
    sp.sleep_queue = s.sleep_queue ∧ sp.mutexes = s.mutexes ∧
    sp.semaphores = s.semaphores ∧ sp.proc_table.length = s.proc_table.length ∧
    (∀ k, (proc_at sp k).pid = (proc_at s k).pid ∧
      (proc_at sp k).run_time = (proc_at s k).run_time ∧
      (proc_at sp k).sleep_time = (proc_at s k).sleep_time) ∧
    queue_wf cfg.QUEUE_SIZE sp.run_queue ∧
    (∀ k, s.active_proc ≠ some k → proc_at sp k = proc_at s k) ∧
    ((sp = s ∧ ∃ a, s.active_proc = some a ∧ (proc_at s a).state = proc_state_t.ACTIVE) ∨
     (sp.active_proc = none ∧ ∃ E : List Int,
        (E = [] ∨ ∃ a, s.active_proc = some a ∧ E = [(proc_at s a).pid] ∧
          (proc_at s a).pid ≠ 0) ∧
        queue_contents cfg.QUEUE_SIZE sp.run_queue
          = queue_contents cfg.QUEUE_SIZE s.run_queue ++ E)) := by
  cases hact : s.active_proc with
  | none =>
    rw [scheduler_run_preempt_none cfg s hact] at h
    simp only [Option.some.injEq] at h
    subst h
    exact ⟨rfl, rfl, rfl, rfl, rfl, rfl, fun _ => ⟨rfl, rfl, rfl⟩, hrun, fun _ _ => rfl,
      Or.inr ⟨hact, [], Or.inl rfl, (List.append_nil _).symm⟩⟩
  | some a =>
    by_cases hst : (proc_at s a).state = proc_state_t.ACTIVE
    · by_cases hcpu : (cfg.SCHEDULER_TIMESLICE : Int) ≤ (proc_at s a).cpu_time
      · by_cases hpid : (proc_at s a).pid = 0
        · obtain ⟨sp', hsp, hnone, hself, hoth, hrq, e1, e2, e3, e4, e5, e6⟩ :=
            scheduler_run_preempt_idle_spec cfg s a hact hst hcpu hpid
          rw [h] at hsp
          simp only [Option.some.injEq] at hsp
          subst hsp
          have hk : ∀ k, (proc_at sp k).pid = (proc_at s k).pid ∧
              (proc_at sp k).run_time = (proc_at s k).run_time ∧
              (proc_at sp k).sleep_time = (proc_at s k).sleep_time := by
            intro k
            by_cases hka : k = a
            · rw [hka, hself]
              exact ⟨rfl, rfl, rfl⟩
            · rw [hoth k hka]
              exact ⟨rfl, rfl, rfl⟩
          refine ⟨e2, e4, e1, e5, e6, e3, hk, by rw [hrq]; exact hrun, ?_,
            Or.inr ⟨hnone, [], Or.inl rfl, by rw [hrq, List.append_nil]⟩⟩
          intro k hk'
          exact hoth k (fun hka => hk' (by rw [hka]))
        · have hroom : queue_is_full cfg.QUEUE_SIZE s.run_queue = false := by
            cases hb : queue_is_full cfg.QUEUE_SIZE s.run_queue
            · rfl
            · exfalso
              have hpp : (proc_at (proc_update s a (fun x => { x with cpu_time := 0 })) a).pid
                  = (proc_at s a).pid :=
                proc_update_pid s a a (fun x => { x with cpu_time := 0 }) (fun _ => rfl)
              have hfull : queue_is_full cfg.QUEUE_SIZE
                  (proc_update s a (fun x => { x with cpu_time := 0 })).run_queue = true := hb
              rw [scheduler_run_preempt_user cfg s a hact hst hcpu hpid, scheduler_add_eq, hpp,
                if_neg hpid, if_pos hfull] at h
              simp at h
          obtain ⟨sp', hsp, hnone, hself, hoth, hwf, hc, e1, e2, e3, e4, e5, e6⟩ :=
            scheduler_run_preempt_user_spec cfg s a hact hst hcpu hpid hrun hroom
          rw [h] at hsp
          simp only [Option.some.injEq] at hsp
          subst hsp
          have hk : ∀ k, (proc_at sp k).pid = (proc_at s k).pid ∧
              (proc_at sp k).run_time = (proc_at s k).run_time ∧
              (proc_at sp k).sleep_time = (proc_at s k).sleep_time := by
            intro k
            by_cases hka : k = a
            · rw [hka, hself]
              exact ⟨rfl, rfl, rfl⟩
            · rw [hoth k hka]
              exact ⟨rfl, rfl, rfl⟩
          refine ⟨e2, e4, e1, e5, e6, e3, hk, hwf, ?_,
            Or.inr ⟨hnone, [(proc_at s a).pid], Or.inr ⟨a, rfl, rfl, hpid⟩, hc⟩⟩
          intro k hk'
          exact hoth k (fun hka => hk' (by rw [hka]))
      · rw [scheduler_run_preempt_keep cfg s a hact hst (by omega)] at h
        simp only [Option.some.injEq] at h
        subst h
        exact ⟨rfl, rfl, rfl, rfl, rfl, rfl, fun _ => ⟨rfl, rfl, rfl⟩, hrun, fun _ _ => rfl,
          Or.inl ⟨rfl, a, rfl, hst⟩⟩
    · rw [scheduler_run_preempt_not_active cfg s a hact hst] at h
      simp only [Option.some.injEq] at h
      subst h
      exact ⟨rfl, rfl, rfl, rfl, rfl, rfl, fun _ => ⟨rfl, rfl, rfl⟩, hrun, fun _ _ => rfl,
        Or.inr ⟨rfl, [], Or.inl rfl, (List.append_nil _).symm⟩⟩

/-- Whatever `scheduler_run` returns is related to the state it was called on by
`run_rel`. -/
theorem scheduler_run_rel (cfg : kconfig) (s s' : kernel_t)
    (hrun : queue_wf cfg.QUEUE_SIZE s.run_queue) (h : scheduler_run cfg s = some s') :
    run_rel cfg s s' := by
  unfold scheduler_run at h
  cases hp : scheduler_run_preempt cfg s with
  | none => rw [hp] at h; simp at h
  | some sp =>
    rw [hp] at h
    simp only at h
    obtain ⟨p1, p2, p3, p4, p5, p6, p7, p8, p9, p10⟩ :=
      scheduler_run_preempt_rel cfg s sp hrun hp
    rcases p10 with ⟨hsame, a, ha, hst⟩ | ⟨hnone, E, hE, hq⟩
    · subst hsame
      rw [scheduler_run_select_active cfg sp a ha] at h
      simp only [Option.some.injEq] at h
      have hal : a < sp.proc_table.length :=
        proc_at_in_range_of_state sp a (by rw [hst]; decide)
      have hid : proc_update sp a (fun x => { x with state := proc_state_t.ACTIVE }) = sp :=
        proc_update_id sp a _ (by
          show ({ proc_at sp a with state := proc_state_t.ACTIVE } : proc_t) = proc_at sp a
          rw [← hst])
      rw [hid] at h
      subst h
      exact ⟨rfl, rfl, rfl, rfl, rfl, rfl, fun _ => ⟨rfl, rfl, rfl⟩, hrun, a, ha, hst,
        fun _ _ _ => rfl, [], Or.inl rfl, Or.inl ⟨ha, rfl, rfl⟩⟩
    · obtain ⟨q1, q2, q3, q4, q5, q6, q7, j, hj, hself, hoth, hpos, hcase⟩ :=
        scheduler_run_select_rel cfg sp s' hnone p8 h
      have hk : ∀ k, (proc_at s' k).pid = (proc_at s k).pid ∧
          (proc_at s' k).run_time = (proc_at s k).run_time ∧
          (proc_at s' k).sleep_time = (proc_at s k).sleep_time := by
        intro k
        by_cases hkj : k = j
        · rw [hkj, hself]
          exact p7 j
        · rw [hoth k hkj]
          exact p7 k
      refine ⟨q1.trans p1, q2.trans p2, q3.trans p3, q4.trans p4, q5.trans p5, q6.trans p6, hk,
        q7, j, hj, by rw [hself], ?_, E, hE, ?_⟩
      · intro k hkj hka
        rw [hoth k hkj, p9 k hka]
      · rw [(p7 j).1, hq] at hcase
        rw [(p7 j).1] at hpos
        rcases hcase with hc | ⟨hc1, hc2, hc3⟩
        · exact Or.inr (Or.inl ⟨hpos, hc⟩)
        · exact Or.inr (Or.inr ⟨hc1, hc2, hc3⟩)

/-! ## Ticks that cannot panic -/

theorem scheduler_run_total (cfg : kconfig) (s : kernel_t) (h : sched_ok cfg s) :
    ∃ s', scheduler_run cfg s = some s' := by
  obtain ⟨hinv, hrun, hsl, ⟨i0, hi0⟩, hlive, hal, hload⟩ := h
  -- the first half returns
  have hpre : ∃ sp, scheduler_run_preempt cfg s = some sp := by
    cases hact : s.active_proc with
    | none => exact ⟨s, scheduler_run_preempt_none cfg s hact⟩
    | some a =>
      by_cases hst : (proc_at s a).state = proc_state_t.ACTIVE
      · by_cases hcpu : (cfg.SCHEDULER_TIMESLICE : Int) ≤ (proc_at s a).cpu_time
        · by_cases hpid : (proc_at s a).pid = 0
          · exact ⟨_, scheduler_run_preempt_idle cfg s a hact hst hcpu hpid⟩
          · have hroom : queue_is_full cfg.QUEUE_SIZE s.run_queue = false := by
              cases hb : queue_is_full cfg.QUEUE_SIZE s.run_queue
              · rfl
              · have := (queue_is_full_iff cfg.QUEUE_SIZE _ hrun).1 hb
                simp only [sched_load, hact, if_neg hpid] at hload
                omega
            obtain ⟨sp, hsp, _⟩ :=
              scheduler_run_preempt_user_spec cfg s a hact hst hcpu hpid hrun hroom
            exact ⟨sp, hsp⟩
        · exact ⟨s, scheduler_run_preempt_keep cfg s a hact hst (by omega)⟩
      · exact ⟨_, scheduler_run_preempt_not_active cfg s a hact hst⟩
  obtain ⟨sp, hsp⟩ := hpre
  obtain ⟨p1, _, _, _, _, p6, p7, p8, _, p10⟩ := scheduler_run_preempt_rel cfg s sp hrun hsp
  have hinvp : pid_inv cfg sp := pid_inv_congr cfg s sp hinv p6 p1 (fun k => (p7 k).1)
  have hfind : ∀ x, 0 ≤ x → (∃ j, (proc_at s j).pid = x) → ∃ j, pid_to_proc cfg sp x = some j := by
    intro x hx ⟨j, hj⟩
    have := pid_to_proc_in_use cfg sp j hinvp (by rw [(p7 j).1, hj]; exact hx)
    rw [(p7 j).1, hj] at this
    exact ⟨j, this⟩
  simp only [scheduler_run, hsp]
  rcases p10 with ⟨hsame, a, ha, _⟩ | ⟨hnone, E, hE, hq⟩
  · subst hsame
    exact ⟨_, scheduler_run_select_active cfg sp a ha⟩
  · cases hc : queue_contents cfg.QUEUE_SIZE sp.run_queue with
    | nil =>
      obtain ⟨j, hj⟩ := hfind 0 (le_refl _) ⟨i0, hi0⟩
      have he : queue_is_empty sp.run_queue = true :=
        (queue_is_empty_iff cfg.QUEUE_SIZE _ p8).2 hc
      rw [scheduler_run_select_empty cfg sp hnone he, hj]
      exact ⟨_, rfl⟩
    | cons hd tl =>
      have hmem : hd ∈ queue_contents cfg.QUEUE_SIZE s.run_queue ++ E := by
        rw [← hq, hc]
        exact List.mem_cons_self _ _
      have hlv : 0 ≤ hd ∧ ∃ j, (proc_at s j).pid = hd := by
        rcases List.mem_append.1 hmem with hm | hm
        · exact hlive hd hm
        · rcases hE with hE | ⟨a, ha, hE, _⟩
          · rw [hE] at hm
            simp at hm
          · rw [hE, List.mem_singleton] at hm
            rw [hm]
            exact ⟨hal a ha, a, rfl⟩
      obtain ⟨j, hj⟩ := hfind hd hlv.1 hlv.2
      obtain ⟨s2, h2, _⟩ := scheduler_run_select_head cfg sp hd tl j hnone p8 hc hj
      exact ⟨s2, h2⟩

theorem sched_ok_run (cfg : kconfig) (s s' : kernel_t) (h : sched_ok cfg s)
    (hr : run_rel cfg s s') : sched_ok cfg s' := by
  obtain ⟨hinv, hrun, hsl, ⟨i0, hi0⟩, hlive, hal, hload⟩ := h
  obtain ⟨r1, _, r3, _, _, r6, r7, r8, j, hj, _, _, E, hE, hcase⟩ := hr
  have hElive : ∀ x ∈ E, 0 ≤ x ∧ ∃ k, (proc_at s k).pid = x := by
    intro x hx
    rcases hE with hE | ⟨a, ha, hE, _⟩
    · rw [hE] at hx
      simp at hx
    · rw [hE, List.mem_singleton] at hx
      rw [hx]
      exact ⟨hal a ha, a, rfl⟩
  have hsub : ∀ x ∈ queue_contents cfg.QUEUE_SIZE s'.run_queue,
      x ∈ queue_contents cfg.QUEUE_SIZE s.run_queue ++ E := by
    intro x hx
    rcases hcase with ⟨_, _, hc⟩ | ⟨_, hc⟩ | ⟨_, hc, _⟩
    · rw [hc] at hx
      exact List.mem_append_left _ hx
    · rw [hc]
      exact List.mem_cons_of_mem _ hx
    · rw [hc] at hx
      simp at hx
  refine ⟨pid_inv_congr cfg s s' hinv r6 r1 (fun k => (r7 k).1), r8, by rw [r3]; exact hsl,
    ⟨i0, by rw [(r7 i0).1]; exact hi0⟩, ?_, ?_, ?_⟩
  · intro x hx
    have hl : 0 ≤ x ∧ ∃ k, (proc_at s k).pid = x := by
      rcases List.mem_append.1 (hsub x hx) with hm | hm
      · exact hlive x hm
      · exact hElive x hm
    obtain ⟨h0, k, hk⟩ := hl
    exact ⟨h0, k, by rw [(r7 k).1]; exact hk⟩
  · intro a ha
    rw [hj] at ha
    simp only [Option.some.injEq] at ha
    subst ha
    rw [(r7 j).1]
    rcases hcase with ⟨hc, _, _⟩ | ⟨hc, _⟩ | ⟨_, _, hc⟩
    · exact hal j hc
    · exact hc
    · omega
  · have hload' := hload
    simp only [sched_load] at hload' ⊢
    rw [hj, r3]
    simp only [(r7 j).1]
    rcases hcase with ⟨hc, _, hq⟩ | ⟨_, hc⟩ | ⟨_, hq, hp⟩
    · rw [hc] at hload'
      rw [hq]
      exact hload'
    · have hlen := congrArg List.length hc
      rw [List.length_append, List.length_cons] at hlen
      rcases hE with hE | ⟨a, ha, hE, hpa⟩
      · rw [hE] at hlen
        simp only [List.length_nil, Nat.add_zero] at hlen
        have : (if (proc_at s j).pid = 0 then 0 else 1) ≤ 1 := by split <;> omega
        have h3 : ∀ n : Nat, (queue_contents cfg.QUEUE_SIZE s.run_queue).length
            + (queue_contents cfg.QUEUE_SIZE s.sleep_queue).length + n ≤ cfg.QUEUE_SIZE →
            (queue_contents cfg.QUEUE_SIZE s.run_queue).length
            + (queue_contents cfg.QUEUE_SIZE s.sleep_queue).length ≤ cfg.QUEUE_SIZE :=
          fun n hn => by omega
        have := h3 _ hload'
        omega
      · rw [hE] at hlen
        simp only [List.length_singleton] at hlen
        rw [ha] at hload'
        simp only [if_neg hpa] at hload'
        have : (if (proc_at s j).pid = 0 then 0 else 1) ≤ 1 := by split <;> omega
        omega
    · rw [hq, if_pos hp]
      have h3 : ∀ n : Nat, (queue_contents cfg.QUEUE_SIZE s.run_queue).length
          + (queue_contents cfg.QUEUE_SIZE s.sleep_queue).length + n ≤ cfg.QUEUE_SIZE →
          (queue_contents cfg.QUEUE_SIZE s.sleep_queue).length ≤ cfg.QUEUE_SIZE :=
        fun n hn => by omega
      have := h3 _ hload'
      simp only [List.length_nil]
      omega

theorem sched_ok_timer (cfg : kconfig) (s s' : kernel_t) (h : sched_ok cfg s)
    (hr : timer_rel cfg (scheduler_timer_charge s) s') : sched_ok cfg s' := by
  obtain ⟨hinv, hrun, hsl, ⟨i0, hi0⟩, hlive, hal, hload⟩ := h
  obtain ⟨hq1, hq2, hq3, hq4, _, _, _, hq8, hq9⟩ := scheduler_timer_charge_queues s
  have hsl' : queue_wf cfg.QUEUE_SIZE (scheduler_timer_charge s).sleep_queue := by
    rw [hq2]; exact hsl
  obtain ⟨hsz, _⟩ := timer_rel_sizes cfg _ s' hr hsl'
  obtain ⟨r1, _, r3, _, _, _, _, _, r9, r10, _, _, r13, r14, W, rw1, _, rw3⟩ := hr
  have hpid : ∀ k, (proc_at s' k).pid = (proc_at s k).pid := fun k => by rw [(r10 k).1, hq9]
  refine ⟨pid_inv_congr cfg s s' hinv (by rw [r9, hq8]) (by rw [r1, hq4]) hpid, r13, r14,
    ⟨i0, by rw [hpid]; exact hi0⟩, ?_, ?_, ?_⟩
  · intro x hx
    rw [rw1, hq1] at hx
    rcases List.mem_append.1 hx with hm | hm
    · obtain ⟨h0, k, hk⟩ := hlive x hm
      exact ⟨h0, k, by rw [hpid]; exact hk⟩
    · obtain ⟨h0, k, hk⟩ := rw3 x hm
      exact ⟨by omega, k, by rw [(r10 k).1]; exact hk⟩
  · intro a ha
    rw [r3, hq3] at ha
    rw [hpid]
    exact hal a ha
  · rw [hq1, hq2] at hsz
    simp only [sched_load] at hload ⊢
    rw [r3, hq3]
    cases hact : s.active_proc with
    | none =>
      rw [hact] at hload
      simp only at hload ⊢
      omega
    | some a =>
      rw [hact] at hload
      simp only [hpid] at hload ⊢
      omega

/-- A tick on a machine that satisfies `sched_ok` returns, through an intermediate state
`s1` left by `scheduler_timer`, and both states satisfy `sched_ok` again. -/
theorem tick_total (cfg : kconfig) (s : kernel_t) (h : sched_ok cfg s) :
    ∃ s1 s', scheduler_timer cfg s = some s1 ∧ scheduler_run cfg s1 = some s' ∧
      tick cfg s = some s' ∧ timer_rel cfg (scheduler_timer_charge s) s1 ∧
      run_rel cfg s1 s' ∧ sched_ok cfg s1 ∧ sched_ok cfg s' := by
  obtain ⟨hA, hB⟩ := scheduler_timer_spec cfg s h.2.1 h.2.2.1
  obtain ⟨s1, hs1⟩ := hB (by
    have := h.2.2.2.2.2.2
    simp only [sched_load] at this
    omega)
  have hrel := hA s1 hs1
  have hok1 := sched_ok_timer cfg s s1 h hrel
  obtain ⟨s', hs'⟩ := scheduler_run_total cfg s1 hok1
  have hrr := scheduler_run_rel cfg s1 s' hok1.2.1 hs'
  exact ⟨s1, s', hs1, hs', by simp only [tick, hs1, hs'], hrel, hrr, hok1,
    sched_ok_run cfg s1 s' hok1 hrr⟩

/-! ## A single sleeper -/

theorem queue_singleton (n : Nat) (q : queue_t) (v c : Int) (hwf : queue_wf n q)
    (hc : queue_contents n q = [v]) :
    queue_is_empty q = false ∧ q.size = 1 ∧ arr_get q.items q.head = v ∧
    queue_contents n (queue_out n q c).2.1 = [] ∧ (queue_out n q c).2.1.size = 0 := by
  have hne : queue_is_empty q = false := by
    cases hb : queue_is_empty q
    · rfl
    · rw [(queue_is_empty_iff n q hwf).1 hb] at hc
      simp at hc
  have hlen := queue_contents_length n q
  rw [hc] at hlen
  have hsz : q.size = 1 := by
    have := hwf.2.1
    simp only [List.length_singleton] at hlen
    omega
  obtain ⟨_, _, ho, hco⟩ := queue_out_spec n q c hwf hne
  rw [hc, (queue_out_nonempty n q c hne).2] at hco
  simp only [List.cons.injEq] at hco
  exact ⟨hne, hsz, hco.1.symm, hco.2.symm, by rw [ho, hsz]; rfl⟩

/-- The sleeper walk with the process in slot `x` as the only sleeper, more than one
tick away from waking. -/
theorem scheduler_timer_single_count (cfg : kconfig) (s : kernel_t) (x : Nat)
    (hinv : pid_inv cfg s) (hrun : queue_wf cfg.QUEUE_SIZE s.run_queue)
    (hsl : queue_wf cfg.QUEUE_SIZE s.sleep_queue)
    (hc : queue_contents cfg.QUEUE_SIZE s.sleep_queue = [(proc_at s x).pid])
    (hx0 : 0 ≤ (proc_at s x).pid) (hna : s.active_proc ≠ some x)
    (h1 : (proc_at s x).sleep_time ≠ 1) :
    ∃ s1, scheduler_timer cfg s = some s1 ∧ timer_rel cfg (scheduler_timer_charge s) s1 ∧
      proc_at s1 x = { proc_at s x with sleep_time := (proc_at s x).sleep_time - 1 } ∧
      queue_contents cfg.QUEUE_SIZE s1.sleep_queue = [(proc_at s x).pid] ∧
      queue_contents cfg.QUEUE_SIZE s1.run_queue = queue_contents cfg.QUEUE_SIZE s.run_queue := by
  obtain ⟨hq1, hq2, hq3, hq4, _, _, _, hq8, hq9⟩ := scheduler_timer_charge_queues s
  have hxl : x < s.proc_table.length := proc_at_in_range s x (by omega)
  have hcx : proc_at (scheduler_timer_charge s) x = proc_at s x := by
    unfold scheduler_timer_charge
    split
    · rename_i a ha
      exact proc_at_update_other s a x _ (fun hxa => hna (by rw [ha, hxa]))
    · rfl
  have hinvc : pid_inv cfg (scheduler_timer_charge s) :=
    pid_inv_congr cfg s _ hinv hq8 hq4 hq9
  have hslc : queue_wf cfg.QUEUE_SIZE (scheduler_timer_charge s).sleep_queue := by
    rw [hq2]; exact hsl
  have hcc : queue_contents cfg.QUEUE_SIZE (scheduler_timer_charge s).sleep_queue
      = [(proc_at s x).pid] := by rw [hq2]; exact hc
  obtain ⟨hne, hsz, hhd, _, _⟩ := queue_singleton cfg.QUEUE_SIZE _ _ 0 hslc hcc
  have hl : pid_to_proc cfg (scheduler_timer_charge s)
      (arr_get (scheduler_timer_charge s).sleep_queue.items
        (scheduler_timer_charge s).sleep_queue.head) = some x := by
    rw [hhd]
    have := pid_to_proc_in_use cfg _ x hinvc (by rw [hcx]; exact hx0)
    rwa [hcx] at this
  have h1c : (proc_at (scheduler_timer_charge s) x).sleep_time ≠ 1 := by
    rw [hcx]; exact h1
  obtain ⟨_, hwf3, hsz3, hco, hci⟩ :=
    queue_rotate_step cfg.QUEUE_SIZE (scheduler_timer_charge s).sleep_queue 0 hslc hne
  have hv := (queue_out_nonempty cfg.QUEUE_SIZE (scheduler_timer_charge s).sleep_queue 0 hne).2
  rw [hv] at hsz3 hci hco
  rw [hcc] at hco
  simp only [List.cons.injEq] at hco
  have hfuel : (scheduler_timer_charge s).sleep_queue.size.toNat + 1 = 1 + 1 := by
    rw [hsz]; rfl
  have hres : scheduler_timer cfg s = some
      { proc_update { scheduler_timer_charge s with
            sleep_queue := (queue_out cfg.QUEUE_SIZE (scheduler_timer_charge s).sleep_queue 0).2.1 }
          x (fun p => { p with sleep_time := p.sleep_time - 1 }) with
        sleep_queue := (queue_in cfg.QUEUE_SIZE
          (queue_out cfg.QUEUE_SIZE (scheduler_timer_charge s).sleep_queue 0).2.1
          (arr_get (scheduler_timer_charge s).sleep_queue.items
            (scheduler_timer_charge s).sleep_queue.head)).2 } := by
    rw [scheduler_timer_eq, hne]
    simp only [Bool.not_false, if_true]
    rw [hfuel, scheduler_timer_loop_count cfg 1 0 _ 0 x (by rw [hsz]; decide) hne hl h1c]
    exact scheduler_timer_loop_exit cfg 0 (0 + 1) _ _ (by
      show ¬ (0 + 1 : Int) < (queue_in cfg.QUEUE_SIZE
        (queue_out cfg.QUEUE_SIZE (scheduler_timer_charge s).sleep_queue 0).2.1
        (arr_get (scheduler_timer_charge s).sleep_queue.items
          (scheduler_timer_charge s).sleep_queue.head)).2.size
      rw [hsz3, hsz]
      decide)
  refine ⟨_, hres, (scheduler_timer_spec cfg s hrun hsl).1 _ hres, ?_, ?_, ?_⟩
  · show proc_at (proc_update (scheduler_timer_charge s) x
      (fun p => { p with sleep_time := p.sleep_time - 1 })) x = _
    rw [proc_at_update_self _ x _ (by rw [hq8]; exact hxl), hcx]
  · show queue_contents cfg.QUEUE_SIZE (queue_in cfg.QUEUE_SIZE
      (queue_out cfg.QUEUE_SIZE (scheduler_timer_charge s).sleep_queue 0).2.1
      (arr_get (scheduler_timer_charge s).sleep_queue.items
        (scheduler_timer_charge s).sleep_queue.head)).2 = _
    rw [hci, ← hco.2, ← hco.1]
    rfl
  · show queue_contents cfg.QUEUE_SIZE (scheduler_timer_charge s).run_queue = _
    rw [hq1]

/-- The sleeper walk with the process in slot `x` as the only sleeper, one tick away from
waking, and room on the run queue. -/
theorem scheduler_timer_single_wake (cfg : kconfig) (s : kernel_t) (x : Nat)
    (hinv : pid_inv cfg s) (hrun : queue_wf cfg.QUEUE_SIZE s.run_queue)
    (hsl : queue_wf cfg.QUEUE_SIZE s.sleep_queue)
    (hc : queue_contents cfg.QUEUE_SIZE s.sleep_queue = [(proc_at s x).pid])
    (hx0 : 0 < (proc_at s x).pid) (hna : s.active_proc ≠ some x)
    (h1 : (proc_at s x).sleep_time = 1)
    (hroom : queue_is_full cfg.QUEUE_SIZE s.run_queue = false) :
    ∃ s1, scheduler_timer cfg s = some s1 ∧ timer_rel cfg (scheduler_timer_charge s) s1 ∧
      proc_at s1 x = { proc_at s x with sleep_time := 0, state := proc_state_t.IDLE,
                                        cpu_time := 0 } ∧
      queue_contents cfg.QUEUE_SIZE s1.sleep_queue = [] ∧
      queue_contents cfg.QUEUE_SIZE s1.run_queue
        = queue_contents cfg.QUEUE_SIZE s.run_queue ++ [(proc_at s x).pid] := by
  obtain ⟨hq1, hq2, hq3, hq4, _, _, _, hq8, hq9⟩ := scheduler_timer_charge_queues s
  have hxl : x < s.proc_table.length := proc_at_in_range s x (by omega)
  have hcx : proc_at (scheduler_timer_charge s) x = proc_at s x := by
    unfold scheduler_timer_charge
    split
    · rename_i a ha
      exact proc_at_update_other s a x _ (fun hxa => hna (by rw [ha, hxa]))
    · rfl
  have hinvc : pid_inv cfg (scheduler_timer_charge s) :=
    pid_inv_congr cfg s _ hinv hq8 hq4 hq9
  have hslc : queue_wf cfg.QUEUE_SIZE (scheduler_timer_charge s).sleep_queue := by
    rw [hq2]; exact hsl
  have hcc : queue_contents cfg.QUEUE_SIZE (scheduler_timer_charge s).sleep_queue
      = [(proc_at s x).pid] := by rw [hq2]; exact hc
  obtain ⟨hne, hsz, hhd, hoc, hosz⟩ := queue_singleton cfg.QUEUE_SIZE _ _ 0 hslc hcc
  have hl : pid_to_proc cfg (scheduler_timer_charge s)
      (arr_get (scheduler_timer_charge s).sleep_queue.items
        (scheduler_timer_charge s).sleep_queue.head) = some x := by
    rw [hhd]
    have := pid_to_proc_in_use cfg _ x hinvc (by rw [hcx]; omega)
    rwa [hcx] at this
  have h1c : (proc_at (scheduler_timer_charge s) x).sleep_time = 1 := by
    rw [hcx]; exact h1
  have hfuel : (scheduler_timer_charge s).sleep_queue.size.toNat + 1 = 1 + 1 := by
    rw [hsz]; rfl
  -- the state handed to `scheduler_add`
  have hxt : x < (proc_update { scheduler_timer_charge s with
      sleep_queue := (queue_out cfg.QUEUE_SIZE (scheduler_timer_charge s).sleep_queue 0).2.1 }
      x (fun p => { p with sleep_time := 0 })).proc_table.length := by
    rw [proc_update_length]
    show x < (scheduler_timer_charge s).proc_table.length
    rw [hq8]
    exact hxl
  have htx : proc_at (proc_update { scheduler_timer_charge s with
      sleep_queue := (queue_out cfg.QUEUE_SIZE (scheduler_timer_charge s).sleep_queue 0).2.1 }
      x (fun p => { p with sleep_time := 0 })) x = { proc_at s x with sleep_time := 0 } := by
    rw [proc_at_update_self _ x _ (by
      show x < (scheduler_timer_charge s).proc_table.length
      rw [hq8]
      exact hxl)]
    show ({ proc_at (scheduler_timer_charge s) x with sleep_time := 0 } : proc_t) = _
    rw [hcx]
  obtain ⟨s3, h3⟩ := scheduler_add_returns cfg (proc_update { scheduler_timer_charge s with
      sleep_queue := (queue_out cfg.QUEUE_SIZE (scheduler_timer_charge s).sleep_queue 0).2.1 }
      x (fun p => { p with sleep_time := 0 })) x (Or.inr (by
        show queue_is_full cfg.QUEUE_SIZE (scheduler_timer_charge s).run_queue = false
        rw [hq1]
        exact hroom))
  obtain ⟨_, _, a3, _, _, _, _, _, _, a10⟩ := scheduler_add_props cfg _ s3 x h3 hxt
  obtain ⟨b1, _, b3⟩ := a10 (by rw [htx]; show (proc_at s x).pid ≠ 0; omega)
  have hres : scheduler_timer cfg s = some s3 := by
    rw [scheduler_timer_eq, hne]
    simp only [Bool.not_false, if_true]
    rw [hfuel, scheduler_timer_loop_wake cfg 1 0 _ 0 x (by rw [hsz]; decide) hne hl h1c, h3]
    exact scheduler_timer_loop_exit cfg 0 (0 + 1) _ _ (by
      rw [a3]
      show ¬ (0 + 1 : Int)
        < (queue_out cfg.QUEUE_SIZE (scheduler_timer_charge s).sleep_queue 0).2.1.size
      rw [hosz]
      decide)
  refine ⟨s3, hres, (scheduler_timer_spec cfg s hrun hsl).1 _ hres, ?_, ?_, ?_⟩
  · rw [b1, htx]
  · rw [a3]
    exact hoc
  · rw [b3, htx]
    show queue_contents cfg.QUEUE_SIZE
      (queue_in cfg.QUEUE_SIZE (scheduler_timer_charge s).run_queue (proc_at s x).pid).2 = _
    rw [hq1]
    exact (queue_in_spec cfg.QUEUE_SIZE _ _ hrun hroom).2.2.2

/-- A tick with a sole sleeper more than one tick away from waking: the tick returns and
the sleeper has one tick less to go. -/
theorem tick_sole_sleeper (cfg : kconfig) (s : kernel_t) (x : Nat) (k : Int)
    (hok : sched_ok cfg s) (hx : sole_sleeper cfg s x k) (hk : k ≠ 1) :
    ∃ s', tick cfg s = some s' ∧ sched_ok cfg s' ∧ sole_sleeper cfg s' x (k - 1) ∧
      (proc_at s' x).pid = (proc_at s x).pid := by
  obtain ⟨hc, hst, hk', hp0, hnr, hna⟩ := hx
  obtain ⟨s1, hs1, hrel, hx1, hsl1, hrq1⟩ := scheduler_timer_single_count cfg s x hok.1 hok.2.1
    hok.2.2.1 hc (by omega) hna (by rw [hk']; exact hk)
  have hok1 := sched_ok_timer cfg s s1 hok hrel
  obtain ⟨s', hs'⟩ := scheduler_run_total cfg s1 hok1
  have hrr := scheduler_run_rel cfg s1 s' hok1.2.1 hs'
  have hok' := sched_ok_run cfg s1 s' hok1 hrr
  have hact1 : s1.active_proc = s.active_proc := by
    rw [hrel.2.2.1, (scheduler_timer_charge_queues s).2.2.1]
  obtain ⟨_, _, r3, _, _, _, r7, _, j, hj, _, hoth, E, hE, hcase⟩ := hrr
  have hpx1 : (proc_at s1 x).pid = (proc_at s x).pid := by rw [hx1]
  have hEx : (proc_at s x).pid ∉ E := by
    intro hm
    rcases hE with hE | ⟨a, ha, hE, _⟩
    · rw [hE] at hm
      simp at hm
    · rw [hE, List.mem_singleton] at hm
      have hax : x = a := hok1.1.2.2.2 x a (by rw [hpx1]; omega) (by rw [hpx1]; exact hm)
      rw [hact1] at ha
      exact hna (by rw [ha, hax])
  have hjx : x ≠ j := by
    intro hxj
    subst hxj
    rcases hcase with ⟨hc1, _, _⟩ | ⟨_, hc1⟩ | ⟨_, _, hc1⟩
    · rw [hact1] at hc1
      exact hna hc1
    · have hm : (proc_at s1 x).pid ∈ queue_contents cfg.QUEUE_SIZE s1.run_queue ++ E := by
        rw [hc1]
        exact List.mem_cons_self _ _
      rw [hpx1, hrq1] at hm
      rcases List.mem_append.1 hm with hm | hm
      · exact hnr hm
      · exact hEx hm
    · rw [hpx1] at hc1
      omega
  have hx' : proc_at s' x = proc_at s1 x :=
    hoth x hjx (by rw [hact1]; exact hna)
  refine ⟨s', by simp only [tick, hs1, hs'], hok', ⟨?_, ?_, ?_, ?_, ?_, ?_⟩, ?_⟩
  · rw [r3, hsl1, hx', hpx1]
  · rw [hx', hx1]
    exact hst
  · rw [hx', hx1]
    show (proc_at s x).sleep_time - 1 = k - 1
    rw [hk']
  · rw [hx', hpx1]
    exact hp0
  · rw [hx', hpx1]
    intro hm
    have hm2 : (proc_at s x).pid ∈ queue_contents cfg.QUEUE_SIZE s1.run_queue ++ E := by
      rcases hcase with ⟨_, _, hc1⟩ | ⟨_, hc1⟩ | ⟨_, hc1, _⟩
      · rw [hc1] at hm
        exact List.mem_append_left _ hm
      · rw [hc1]
        exact List.mem_cons_of_mem _ hm
      · rw [hc1] at hm
        simp at hm
    rw [hrq1] at hm2
    rcases List.mem_append.1 hm2 with hm3 | hm3
    · exact hnr hm3
    · exact hEx hm3
  · rw [hj]
    intro hh
    simp only [Option.some.injEq] at hh
    exact hjx hh.symm
  · rw [hx', hpx1]

theorem ticks_sole_sleeper (cfg : kconfig) (x : Nat) :
    ∀ (m : Nat) (s : kernel_t) (k : Int), sched_ok cfg s → sole_sleeper cfg s x k →
      (m : Int) < k →
      ∃ s', ticks cfg m s = some s' ∧ sched_ok cfg s' ∧ sole_sleeper cfg s' x (k - m) ∧
        (proc_at s' x).pid = (proc_at s x).pid := by
  intro m
  induction m with
  | zero =>
    intro s k hok hx _
    exact ⟨s, rfl, hok, by simpa using hx, rfl⟩
  | succ n ih =>
    intro s k hok hx hlt
    obtain ⟨s1, h1, hok1, hx1, hp1⟩ := tick_sole_sleeper cfg s x k hok hx (by omega)
    obtain ⟨s', h2, hok2, hx2, hp2⟩ := ih s1 (k - 1) hok1 hx1 (by omega)
    refine ⟨s', by simp only [ticks, h1, h2], hok2, ?_, hp2.trans hp1⟩
    have : k - ((n + 1 : Nat) : Int) = k - 1 - (n : Int) := by omega
    rw [this]
    exact hx2

/-! ## C19: how long a process sleeps -/

theorem int_mul_small (a b : Int) (h0 : -2147483648 ≤ a * b) (h1 : a * b ≤ 2147483647) :
    int_mul a b = a * b := by
  unfold int_mul
  omega

/-- C19: the sleep duration. Let X (slot `x`) be the active process, in state ACTIVE,
with a positive pid, on a machine that satisfies `sched_ok`, with a duplicate-free run
queue and an empty sleep queue, and let X call PROC_SLEEP with `sec` >= 1 seconds,
`100 * sec` fitting an `int`. The call returns 0 and leaves X in state SLEEPING with
sleep_time = 100 * sec, alone on the sleep queue. With ticks only from then on, after
each of the ticks 1 .. 100 * sec - 1 X is still the one entry of the sleep queue, in
state SLEEPING, with sleep_time = 100 * sec minus the number of ticks; and
`scheduler_timer` of tick 100 * sec returns with an empty sleep queue, X in state IDLE
with sleep_time 0, and X's pid at the tail of the run queue. PROC_SLEEP with a negative
argument returns -1 and changes nothing. -/
theorem sleep_duration (cfg : kconfig) (s0 : kernel_t) (x : Nat) (sec : Int)
    (hok : sched_ok cfg s0)
    (hnd : (queue_contents cfg.QUEUE_SIZE s0.run_queue).Nodup)
    (hempty : queue_contents cfg.QUEUE_SIZE s0.sleep_queue = [])
    (hact : s0.active_proc = some x) (hst : (proc_at s0 x).state = proc_state_t.ACTIVE)
    (hpid : 0 < (proc_at s0 x).pid)
    (hsec : 1 ≤ sec) (hmax : 100 * sec ≤ 2147483647) :
    (∃ s1, ksyscall_proc_sleep cfg s0 sec = some (0, s1) ∧
      (proc_at s1 x).sleep_time = 100 * sec ∧
      (proc_at s1 x).state = proc_state_t.SLEEPING ∧
      (proc_at s1 x).pid = (proc_at s0 x).pid ∧
      queue_contents cfg.QUEUE_SIZE s1.sleep_queue = [(proc_at s0 x).pid] ∧
      (∀ m : Nat, 1 ≤ m → (m : Int) < 100 * sec →
        ∃ sm, ticks cfg m s1 = some sm ∧
          queue_contents cfg.QUEUE_SIZE sm.sleep_queue = [(proc_at s0 x).pid] ∧
          (proc_at sm x).pid = (proc_at s0 x).pid ∧
          (proc_at sm x).state = proc_state_t.SLEEPING ∧
          (proc_at sm x).sleep_time = 100 * sec - m) ∧
      ∃ sT s', ticks cfg (100 * sec - 1).toNat s1 = some sT ∧
        scheduler_timer cfg sT = some s' ∧
        queue_contents cfg.QUEUE_SIZE s'.sleep_queue = [] ∧
        (proc_at s' x).pid = (proc_at s0 x).pid ∧
        (proc_at s' x).sleep_time = 0 ∧ (proc_at s' x).state = proc_state_t.IDLE ∧
        queue_contents cfg.QUEUE_SIZE s'.run_queue
          = queue_contents cfg.QUEUE_SIZE sT.run_queue ++ [(proc_at s0 x).pid]) ∧
    (∀ neg : Int, neg < 0 → ksyscall_proc_sleep cfg s0 neg = some (-1, s0)) := by
  obtain ⟨hinv, hrun, hsl, ⟨i0, hi0⟩, hlive, hal, hload⟩ := hok
  have hxl : x < s0.proc_table.length := proc_at_in_range s0 x (by omega)
  constructor
  · obtain ⟨s1, h1, hx1, hoth, hlen, hnp, _, _, _, _, _, _, hwf1, hperm, hnot, _, ha1, _, _,
        hsq⟩ := scheduler_sleep_awake cfg s0 x (100 * sec) hxl (by rw [hst]; decide) hrun hnd
    have hqs : 1 ≤ cfg.QUEUE_SIZE := by
      simp only [sched_load, hact] at hload
      rw [if_neg (by omega)] at hload
      omega
    have hroom : queue_is_full cfg.QUEUE_SIZE s0.sleep_queue = false := by
      cases hb : queue_is_full cfg.QUEUE_SIZE s0.sleep_queue
      · rfl
      · have := (queue_is_full_iff cfg.QUEUE_SIZE _ hsl).1 hb
        rw [hempty] at this
        simp at this
        omega
    obtain ⟨_, hwfs, _, hcs⟩ := queue_in_spec cfg.QUEUE_SIZE s0.sleep_queue (proc_at s0 x).pid hsl
      hroom
    rw [hempty, List.nil_append] at hcs
    have hpids : ∀ j, (proc_at s1 j).pid = (proc_at s0 j).pid := by
      intro j
      by_cases hj : j = x
      · rw [hj, hx1]
      · rw [hoth j hj]
    have hact1 : s1.active_proc = none := ha1 x hact rfl
    have hok1 : sched_ok cfg s1 := by
      refine ⟨pid_inv_congr cfg s0 s1 hinv hlen hnp hpids, hwf1, by rw [hsq]; exact hwfs,
        ⟨i0, by rw [hpids]; exact hi0⟩, ?_, ?_, ?_⟩
      · intro y hy
        obtain ⟨hy0, j, hj⟩ := hlive y (List.mem_of_mem_erase (hperm.subset hy))
        exact ⟨hy0, j, by rw [hpids]; exact hj⟩
      · intro a ha
        rw [hact1] at ha
        simp at ha
      · have hl := hperm.length_eq
        have hle := List.length_erase_le (proc_at s0 x).pid
          (queue_contents cfg.QUEUE_SIZE s0.run_queue)
        simp only [sched_load, hact] at hload
        rw [if_neg (by omega), hempty] at hload
        simp only [sched_load, hact1, hsq, hcs, List.length_singleton]
        simp only [List.length_nil] at hload
        omega
    have hsole : sole_sleeper cfg s1 x (100 * sec) := by
      refine ⟨by rw [hsq, hcs, hpids], by rw [hx1], by rw [hx1], by rw [hpids]; exact hpid,
        by rw [hpids]; exact hnot, by rw [hact1]; simp⟩
    refine ⟨s1, ?_, by rw [hx1], by rw [hx1], hpids x, by rw [hsq, hcs], ?_, ?_⟩
    · have hneg : ¬ sec < 0 := by omega
      simp only [ksyscall_proc_sleep, if_neg hneg, hact,
        int_mul_small sec 100 (by omega) (by omega)]
      have : sec * 100 = 100 * sec := by ring
      rw [this, h1]
    · intro m _ hm
      obtain ⟨sm, hsm, _, ⟨c1, c2, c3, _, _, _⟩, hp⟩ :=
        ticks_sole_sleeper cfg x m s1 (100 * sec) hok1 hsole hm
      exact ⟨sm, hsm, by rw [c1, hp, hpids], by rw [hp, hpids], c2, c3⟩
    · obtain ⟨sT, hsT, hokT, ⟨c1, c2, c3, c4, c5, c6⟩, hp⟩ :=
        ticks_sole_sleeper cfg x (100 * sec - 1).toNat s1 (100 * sec) hok1 hsole (by omega)
      have hk1 : 100 * sec - ((100 * sec - 1).toNat : Int) = 1 := by omega
      rw [hk1] at c3
      have hroomT : queue_is_full cfg.QUEUE_SIZE sT.run_queue = false := by
        cases hb : queue_is_full cfg.QUEUE_SIZE sT.run_queue
        · rfl
        · have := (queue_is_full_iff cfg.QUEUE_SIZE _ hokT.2.1).1 hb
          have hl := hokT.2.2.2.2.2.2
          simp only [sched_load, c1, List.length_singleton] at hl
          omega
      obtain ⟨s', hs', _, hx', hsl', hrq'⟩ := scheduler_timer_single_wake cfg sT x hokT.1 hokT.2.1
        hokT.2.2.1 c1 c4 c6 c3 hroomT
      refine ⟨sT, s', hsT, hs', hsl', ?_, by rw [hx'], by rw [hx'], ?_⟩
      · rw [hx']
        show (proc_at sT x).pid = _
        rw [hp, hpids]
      · rw [hrq', hp, hpids]
  · intro neg hneg
    simp only [ksyscall_proc_sleep]
    rw [if_pos hneg]

theorem rr_running_sched_ok : sched_ok rr_config rr_running := by
  have hrq : queue_contents rr_config.QUEUE_SIZE rr_running.run_queue = [2] := by decide
  have hact : rr_running.active_proc = some 1 := by decide
  refine ⟨pid_inv_of_bounded _ _ (by decide) (by decide) (by decide) (by decide), by decide,
    by decide, ⟨0, by decide⟩, ?_, ?_, by decide⟩
  · intro y hy
    rw [hrq, List.mem_singleton] at hy
    subst hy
    exact ⟨by decide, 2, by decide⟩
  · intro a ha
    rw [hact] at ha
    simp only [Option.some.injEq] at ha
    subst ha
    decide

theorem sleep_duration_witness :
    (proc_at rr_running 1).pid = 1 ∧
    ∃ s1, ksyscall_proc_sleep rr_config rr_running 1 = some (0, s1) ∧
      (proc_at s1 1).sleep_time = 100 ∧
      (∃ sm, ticks rr_config 99 s1 = some sm ∧
        queue_contents rr_config.QUEUE_SIZE sm.sleep_queue = [1] ∧
        (proc_at sm 1).state = proc_state_t.SLEEPING ∧ (proc_at sm 1).sleep_time = 1) ∧
      ∃ sT s', ticks rr_config 99 s1 = some sT ∧ scheduler_timer rr_config sT = some s' ∧
        queue_contents rr_config.QUEUE_SIZE s'.sleep_queue = [] ∧
        (proc_at s' 1).sleep_time = 0 ∧ (proc_at s' 1).state = proc_state_t.IDLE := by
  have hp : (proc_at rr_running 1).pid = 1 := by decide
  obtain ⟨⟨s1, h1, h2, _, _, _, h6, sT, s', h7, h8, h9, _, h11, h12, _⟩, _⟩ :=
    sleep_duration rr_config rr_running 1 1 rr_running_sched_ok (by decide) (by decide)
      (by decide) (by decide) (by decide) (by decide) (by decide)
  obtain ⟨sm, g1, g2, _, g4, g5⟩ := h6 99 (by decide) (by decide)
  rw [hp] at g2
  exact ⟨hp, s1, h1, h2, ⟨sm, g1, g2, g4, g5⟩, sT, s', h7, h8, h9, h11, h12⟩

/-! ## C16: two processes taking turns -/

theorem ticks_step (cfg : kconfig) (n : Nat) (s s1 : kernel_t) (h : tick cfg s = some s1) :
    ticks cfg (n + 1) s = ticks cfg n s1 := by
  simp only [ticks, h]

/-- A tick that leaves the active process `x` running. -/
theorem rr_state_keep (cfg : kconfig) (s : kernel_t) (x y : Nat) (rx ry c : Int)
    (h : rr_state cfg s x y rx ry c) (hc : c + 1 < (cfg.SCHEDULER_TIMESLICE : Int)) :
    ∃ s', tick cfg s = some s' ∧ rr_state cfg s' x y (rx + 1) ry (c + 1) ∧
      ∀ j, (proc_at s' j).pid = (proc_at s j).pid := by
  obtain ⟨hinv, hrun, hsl, hqs, hact, hst, hpx, hpy, hxy, hq, hrx, hcx, hry, hcy⟩ := h
  have hxl : x < s.proc_table.length := proc_at_in_range s x (by omega)
  have ht := scheduler_timer_no_sleepers cfg s hsl
  rw [hact] at ht
  simp only at ht
  generalize hs1 : proc_update s x
      (fun p => { p with run_time := p.run_time + 1, cpu_time := p.cpu_time + 1 }) = s1 at ht
  have hx1 : proc_at s1 x = { proc_at s x with run_time := (proc_at s x).run_time + 1,
                                                cpu_time := (proc_at s x).cpu_time + 1 } := by
    rw [← hs1]
    exact proc_at_update_self s x _ hxl
  have hy1 : proc_at s1 y = proc_at s y := by
    rw [← hs1]
    exact proc_at_update_other s x y _ (Ne.symm hxy)
  have hpids : ∀ j, (proc_at s1 j).pid = (proc_at s j).pid := fun j => by
    rw [← hs1]
    exact proc_update_pid s x j
      (fun p => { p with run_time := p.run_time + 1, cpu_time := p.cpu_time + 1 })
      (fun _ => rfl)
  have hlen1 : s1.proc_table.length = s.proc_table.length := by
    rw [← hs1]
    exact proc_update_length s x _
  have hrq1 : s1.run_queue = s.run_queue := by rw [← hs1]; rfl
  have hsq1 : s1.sleep_queue = s.sleep_queue := by rw [← hs1]; rfl
  have hnp1 : s1.next_pid = s.next_pid := by rw [← hs1]; rfl
  have hact1 : s1.active_proc = some x := by rw [← hs1]; exact hact
  have hst1 : (proc_at s1 x).state = proc_state_t.ACTIVE := by rw [hx1]; exact hst
  have hrun1 : scheduler_run cfg s1 = some s1 := by
    simp only [scheduler_run]
    rw [scheduler_run_preempt_keep cfg s1 x hact1 hst1 (by
      rw [hx1]
      show (proc_at s x).cpu_time + 1 < _
      rw [hcx]
      exact hc)]
    simp only
    rw [scheduler_run_select_active cfg s1 x hact1, proc_update_id s1 x _ (by
      show ({ proc_at s1 x with state := proc_state_t.ACTIVE } : proc_t) = _
      rw [← hst1])]
  refine ⟨s1, by simp only [tick, ht, hrun1], ⟨pid_inv_congr cfg s s1 hinv hlen1 hnp1 hpids,
    by rw [hrq1]; exact hrun, by rw [hsq1]; exact hsl, hqs, hact1, hst1,
    by rw [hpids]; exact hpx, by rw [hpids]; exact hpy, hxy, by rw [hrq1, hpids]; exact hq,
    ?_, ?_, ?_, ?_⟩, hpids⟩
  · rw [hx1]
    show (proc_at s x).run_time + 1 = rx + 1
    rw [hrx]
  · rw [hx1]
    show (proc_at s x).cpu_time + 1 = c + 1
    rw [hcx]
  · rw [hy1]
    exact hry
  · rw [hy1]
    exact hcy

/-- A tick at the end of the time slice of `x`: `x` goes to the tail of the run queue and
`y` becomes active. -/
theorem rr_state_switch (cfg : kconfig) (s : kernel_t) (x y : Nat) (rx ry c : Int)
    (h : rr_state cfg s x y rx ry c) (hc : (cfg.SCHEDULER_TIMESLICE : Int) ≤ c + 1) :
    ∃ s', tick cfg s = some s' ∧ rr_state cfg s' y x ry (rx + 1) 0 ∧
      ∀ j, (proc_at s' j).pid = (proc_at s j).pid := by
  obtain ⟨hinv, hrun, hsl, hqs, hact, hst, hpx, hpy, hxy, hq, hrx, hcx, hry, hcy⟩ := h
  have hxl : x < s.proc_table.length := proc_at_in_range s x (by omega)
  have ht := scheduler_timer_no_sleepers cfg s hsl
  rw [hact] at ht
  simp only at ht
  generalize hs1 : proc_update s x
      (fun p => { p with run_time := p.run_time + 1, cpu_time := p.cpu_time + 1 }) = s1 at ht
  have hx1 : proc_at s1 x = { proc_at s x with run_time := (proc_at s x).run_time + 1,
                                                cpu_time := (proc_at s x).cpu_time + 1 } := by
    rw [← hs1]
    exact proc_at_update_self s x _ hxl
  have hy1 : proc_at s1 y = proc_at s y := by
    rw [← hs1]
    exact proc_at_update_other s x y _ (Ne.symm hxy)
  have hpids : ∀ j, (proc_at s1 j).pid = (proc_at s j).pid := fun j => by
    rw [← hs1]
    exact proc_update_pid s x j
      (fun p => { p with run_time := p.run_time + 1, cpu_time := p.cpu_time + 1 })
      (fun _ => rfl)
  have hlen1 : s1.proc_table.length = s.proc_table.length := by
    rw [← hs1]
    exact proc_update_length s x _
  have hrq1 : s1.run_queue = s.run_queue := by rw [← hs1]; rfl
  have hsq1 : s1.sleep_queue = s.sleep_queue := by rw [← hs1]; rfl
  have hnp1 : s1.next_pid = s.next_pid := by rw [← hs1]; rfl
  have hact1 : s1.active_proc = some x := by rw [← hs1]; exact hact
  have hinv1 : pid_inv cfg s1 := pid_inv_congr cfg s s1 hinv hlen1 hnp1 hpids
  have hroom : queue_is_full cfg.QUEUE_SIZE s1.run_queue = false := by
    rw [hrq1]
    cases hb : queue_is_full cfg.QUEUE_SIZE s.run_queue
    · rfl
    · have := (queue_is_full_iff cfg.QUEUE_SIZE _ hrun).1 hb
      rw [hq] at this
      simp only [List.length_singleton] at this
      omega
  obtain ⟨sp, hsp, hnone, hselfp, hothp, hwfp, hcp, hsqp, hnpp, hlenp, _⟩ :=
    scheduler_run_preempt_user_spec cfg s1 x hact1 (by rw [hx1]; exact hst)
      (by rw [hx1]; show _ ≤ (proc_at s x).cpu_time + 1; rw [hcx]; exact hc)
      (by rw [hpids]; omega) (by rw [hrq1]; exact hrun) hroom
  rw [hrq1, hq, hpids] at hcp
  have hpidp : ∀ j, (proc_at sp j).pid = (proc_at s j).pid := by
    intro j
    by_cases hj : j = x
    · rw [hj, hselfp]
      exact hpids x
    · rw [hothp j hj, hpids]
  have hinvp : pid_inv cfg sp :=
    pid_inv_congr cfg s sp hinv (hlenp.trans hlen1) (hnpp.trans hnp1) hpidp
  have hly : pid_to_proc cfg sp (proc_at s y).pid = some y := by
    have := pid_to_proc_in_use cfg sp y hinvp (by rw [hpidp]; omega)
    rwa [hpidp] at this
  obtain ⟨s2, h2, hact2, hself2, _, hoth2, hwf2, hc2, hsq2, hnp2, hlen2, _⟩ :=
    scheduler_run_select_head cfg sp (proc_at s y).pid [(proc_at s x).pid] y hnone hwfp hcp hly
  have hpid2 : ∀ j, (proc_at s2 j).pid = (proc_at s j).pid := by
    intro j
    by_cases hj : j = y
    · rw [hj, hself2]
      exact hpidp y
    · rw [hoth2 j hj, hpidp]
  have hx2 : proc_at s2 x = { proc_at s1 x with cpu_time := 0, state := proc_state_t.IDLE } := by
    rw [hoth2 x hxy, hselfp]
  have hy2 : proc_at s2 y = { proc_at s y with state := proc_state_t.ACTIVE } := by
    rw [hself2, hothp y (Ne.symm hxy), hy1]
  refine ⟨s2, by simp only [tick, ht, scheduler_run, hsp, h2], ⟨pid_inv_congr cfg s s2 hinv
    (hlen2.trans (hlenp.trans hlen1)) (hnp2.trans (hnpp.trans hnp1)) hpid2, hwf2,
    by rw [hsq2, hsqp, hsq1]; exact hsl, hqs, hact2, by rw [hy2], by rw [hpid2]; exact hpy,
    by rw [hpid2]; exact hpx, Ne.symm hxy, by rw [hc2, hpid2], ?_, ?_, ?_, ?_⟩, hpid2⟩
  · rw [hy2]
    exact hry
  · rw [hy2]
    exact hcy
  · rw [hx2, hx1]
    show (proc_at s x).run_time + 1 = rx + 1
    rw [hrx]
  · rw [hx2]

theorem queue_head_of_contents (n : Nat) (q : queue_t) (v c : Int) (rest : List Int)
    (hwf : queue_wf n q) (hc : queue_contents n q = v :: rest) :
    queue_is_empty q = false ∧ arr_get q.items q.head = v ∧
    queue_wf n (queue_out n q c).2.1 ∧ queue_contents n (queue_out n q c).2.1 = rest := by
  have hne : queue_is_empty q = false := by
    cases hb : queue_is_empty q
    · rfl
    · rw [(queue_is_empty_iff n q hwf).1 hb] at hc
      simp at hc
  obtain ⟨_, hwo, _, hco⟩ := queue_out_spec n q c hwf hne
  rw [hc, (queue_out_nonempty n q c hne).2] at hco
  simp only [List.cons.injEq] at hco
  exact ⟨hne, hco.1.symm, hwo, hco.2.symm⟩

theorem queue_not_full_of_length (n : Nat) (q : queue_t) (hwf : queue_wf n q)
    (h : (queue_contents n q).length < n) : queue_is_full n q = false := by
  cases hb : queue_is_full n q
  · rfl
  · have := (queue_is_full_iff n q hwf).1 hb
    omega

theorem kproc_create_run_wf (cfg : kconfig) (s s' : kernel_t) (proc_ptr : Nat)
    (proc_name : String) (proc_type : proc_type_t) (rc : Int)
    (h : kproc_create cfg s proc_ptr proc_name proc_type = some (rc, s'))
    (hrun : queue_wf cfg.QUEUE_SIZE s.run_queue) : queue_wf cfg.QUEUE_SIZE s'.run_queue := by
  unfold kproc_create at h
  simp only at h
  split at h
  · simp only [Option.some.injEq, Prod.mk.injEq] at h
    rw [← h.2]
    exact hrun
  · split at h
    · simp at h
    · split at h
      · simp at h
      · rename_i s2 hadd
        simp only [Option.some.injEq, Prod.mk.injEq] at h
        rw [← h.2]
        rw [scheduler_add_eq] at hadd
        split at hadd
        · simp only [Option.some.injEq] at hadd
          rw [← hadd]
          exact hrun
        · split at hadd
          · simp at hadd
          · simp only [Option.some.injEq] at hadd
            rw [← hadd]
            exact queue_in_wf cfg.QUEUE_SIZE _ _ hrun

/-- The machine left by `boot_two`: idle, A and B in the slots 0, 1 and 2 with the pids
0, 1 and 2; A and B fresh and on the run queue, in this order; nobody active, nobody
asleep. -/
theorem boot_two_spec (cfg : kconfig) (s0 : kernel_t)
    (h3 : 3 ≤ cfg.PROC_MAX) (hcap : cfg.PROC_MAX ≤ cfg.QUEUE_SIZE)
    (hlen : s0.proc_allocator.items.length = cfg.QUEUE_SIZE)
    (hrun : s0.run_queue.items.length = cfg.QUEUE_SIZE)
    (hact : s0.active_proc = none) :
    ∃ sb, boot_two cfg s0 = some sb ∧ pid_inv cfg sb ∧ queue_wf cfg.QUEUE_SIZE sb.run_queue ∧
      queue_contents cfg.QUEUE_SIZE sb.run_queue = [1, 2] ∧
      queue_is_empty sb.sleep_queue = true ∧ sb.active_proc = none ∧
      (proc_at sb 0).pid = 0 ∧ (proc_at sb 1).pid = 1 ∧ (proc_at sb 2).pid = 2 ∧
      (proc_at sb 1).run_time = 0 ∧ (proc_at sb 1).cpu_time = 0 ∧
      (proc_at sb 2).run_time = 0 ∧ (proc_at sb 2).cpu_time = 0 := by
  have hP := pid_inv_reset cfg (scheduler_init cfg s0)
  obtain ⟨hwfa, hca⟩ := kproc_init_fill cfg.QUEUE_SIZE s0.proc_allocator hlen cfg.PROC_MAX hcap
  have hq : (kproc_init_reset cfg (scheduler_init cfg s0)).proc_allocator
      = (List.range cfg.PROC_MAX).foldl
      (fun (q : queue_t) (ptable_entry : Nat) =>
        if !queue_is_full cfg.QUEUE_SIZE q
        then (queue_in cfg.QUEUE_SIZE q (ptable_entry : Int)).2 else q)
      (queue_init cfg.QUEUE_SIZE s0.proc_allocator) := rfl
  rw [← hq] at hwfa hca
  obtain ⟨m, hm⟩ : ∃ m, cfg.PROC_MAX = m + 3 := ⟨cfg.PROC_MAX - 3, by omega⟩
  have hca0 : queue_contents cfg.QUEUE_SIZE
      (kproc_init_reset cfg (scheduler_init cfg s0)).proc_allocator
      = ((0 : Nat) : Int) :: ((1 : Nat) : Int) :: ((2 : Nat) : Int)
          :: (List.range m).map (fun (i : Nat) => ((i + 3 : Nat) : Int)) := by
    rw [hca, hm, List.range_succ_eq_map, List.range_succ_eq_map, List.range_succ_eq_map]
    simp [List.map_map, Function.comp_def]
    intro a _
    omega
  have hrw : queue_wf cfg.QUEUE_SIZE (kproc_init_reset cfg (scheduler_init cfg s0)).run_queue :=
    queue_init_wf cfg.QUEUE_SIZE s0.run_queue hrun
  have hrc : queue_contents cfg.QUEUE_SIZE
      (kproc_init_reset cfg (scheduler_init cfg s0)).run_queue = [] :=
    queue_init_contents cfg.QUEUE_SIZE s0.run_queue
  -- the idle process
  obtain ⟨hne0, hhd0, hwf0, hrest0⟩ := queue_head_of_contents cfg.QUEUE_SIZE _ _ (-1) _ hwfa hca0
  obtain ⟨s1, hs1, hpid1, _, _, _, _, _, _, _, _, _, _, hrq1, hoth1, hl1, hnp1, hal1, hsq1,
      hap1⟩ :=
    kproc_create_fields cfg (kproc_init_reset cfg (scheduler_init cfg s0)) cfg.kproc_idle "idle"
      proc_type_t.PROC_TYPE_KERNEL 0 hP.1 hne0 hhd0 (by omega) hrw (Or.inl rfl)
  have hP1 := (pid_inv_create cfg _ s1 cfg.kproc_idle "idle" proc_type_t.PROC_TYPE_KERNEL _
    hs1 hP).1
  have hnp1' : s1.next_pid = 1 := by
    rw [hnp1]
    rfl
  have hrw1 : queue_wf cfg.QUEUE_SIZE s1.run_queue := by rw [hrq1 rfl]; exact hrw
  have hrc1 : queue_contents cfg.QUEUE_SIZE s1.run_queue = [] := by rw [hrq1 rfl]; exact hrc
  rw [← hal1] at hwf0 hrest0
  -- process A
  obtain ⟨hne1, hhd1, hwf1, hrest1⟩ := queue_head_of_contents cfg.QUEUE_SIZE _ _ (-1) _ hwf0 hrest0
  obtain ⟨s2, hs2, hpid2, _, _, _, hrt2, hct2, _, _, _, _, hrq2, _, hoth2, hl2, hnp2, hal2, hsq2,
      hap2⟩ :=
    kproc_create_fields cfg s1 cfg.prog_ping "ping" proc_type_t.PROC_TYPE_USER 1 hl1 hne1 hhd1
      (by omega) hrw1
      (Or.inr (queue_not_full_of_length _ _ hrw1 (by rw [hrc1]; simp; omega)))
  have hP2 := (pid_inv_create cfg _ s2 cfg.prog_ping "ping" proc_type_t.PROC_TYPE_USER _
    hs2 hP1).1
  have hrw2 := kproc_create_run_wf cfg s1 s2 _ _ _ _ hs2 hrw1
  have hrc2 : queue_contents cfg.QUEUE_SIZE s2.run_queue = [1] := by
    rw [hrq2 (by rw [hnp1']; decide), hrc1, hnp1']
    rfl
  have hnp2' : s2.next_pid = 2 := by
    rw [hnp2, hnp1']
    rfl
  rw [← hal2] at hwf1 hrest1
  -- process B
  obtain ⟨hne2, hhd2, _, _⟩ := queue_head_of_contents cfg.QUEUE_SIZE _ _ (-1) _ hwf1 hrest1
  obtain ⟨s3, hs3, hpid3, _, _, _, hrt3, hct3, _, _, _, _, hrq3, _, hoth3, _, _, _, hsq3,
      hap3⟩ :=
    kproc_create_fields cfg s2 cfg.prog_pong "pong" proc_type_t.PROC_TYPE_USER 2 hl2 hne2 hhd2
      (by omega) hrw2
      (Or.inr (queue_not_full_of_length _ _ hrw2 (by rw [hrc2]; simp; omega)))
  have hP3 := (pid_inv_create cfg _ s3 cfg.prog_pong "pong" proc_type_t.PROC_TYPE_USER _
    hs3 hP2).1
  have hrw3 := kproc_create_run_wf cfg s2 s3 _ _ _ _ hs3 hrw2
  have hrc3 : queue_contents cfg.QUEUE_SIZE s3.run_queue = [1, 2] := by
    rw [hrq3 (by rw [hnp2']; decide), hrc2, hnp2']
    rfl
  refine ⟨s3, ?_, hP3, hrw3, hrc3, ?_, ?_, ?_, ?_, ?_, ?_, ?_, hrt3, hct3⟩
  · simp only [boot_two, boot_idle, hs1, Option.map_some', hs2, hs3]
  · rw [hsq3, hsq2, hsq1]
    rfl
  · rw [hap3, hap2, hap1]
    exact hact
  · rw [hoth3 0 (by decide), hoth2 0 (by decide), hpid1]
    rfl
  · rw [hoth3 1 (by decide), hpid2, hnp1']
  · rw [hpid3, hnp2']
  · rw [hoth3 1 (by decide), hrt2]
  · rw [hoth3 1 (by decide), hct2]

/-- C16, amended: two-process round robin. With SCHEDULER_TIMESLICE = 3, at least three
process slots and queues that can hold them, from the machine the boot leaves
(`scheduler_init`, the table reset, idle process pid 0, then A = pid 1 and B = pid 2
created, `active_proc` null), seven ticks return a state with run_time(A) = 3,
run_time(B) = 3 and A active: the first tick selects A without charging anybody, A is
charged at the ticks 2 to 4, B at the ticks 5 to 7, and the seventh tick hands the
processor back to A. -/
theorem round_robin_seven_ticks (cfg : kconfig) (s0 : kernel_t)
    (hts : cfg.SCHEDULER_TIMESLICE = 3)
    (h3 : 3 ≤ cfg.PROC_MAX) (hcap : cfg.PROC_MAX ≤ cfg.QUEUE_SIZE)
    (hlen : s0.proc_allocator.items.length = cfg.QUEUE_SIZE)
    (hrun : s0.run_queue.items.length = cfg.QUEUE_SIZE)
    (hact : s0.active_proc = none) :
    ∃ sb s7, boot_two cfg s0 = some sb ∧ sb.active_proc = none ∧
      (proc_at sb 0).pid = 0 ∧ (proc_at sb 1).pid = 1 ∧ (proc_at sb 2).pid = 2 ∧
      ticks cfg 7 sb = some s7 ∧ (proc_at s7 1).pid = 1 ∧ (proc_at s7 2).pid = 2 ∧
      (proc_at s7 1).run_time = 3 ∧ (proc_at s7 2).run_time = 3 ∧
      s7.active_proc = some 1 := by
  obtain ⟨sb, hsb, hinv, hwf, hc, hsl, hnone, hp0, hp1, hp2, hr1, hc1, hr2, hc2⟩ :=
    boot_two_spec cfg s0 h3 hcap hlen hrun hact
  -- the first tick selects A
  have ht := scheduler_timer_no_sleepers cfg sb hsl
  rw [hnone] at ht
  simp only at ht
  have hl1 : pid_to_proc cfg sb 1 = some 1 := by
    have := pid_to_proc_in_use cfg sb 1 hinv (by rw [hp1]; decide)
    rwa [hp1] at this
  obtain ⟨s1, h1, hact1, hself1, _, hoth1, hwf1, hcq1, hsq1, hnp1, hlen1, _⟩ :=
    scheduler_run_select_head cfg sb 1 [2] 1 hnone hwf hc hl1
  have hpid1 : ∀ j, (proc_at s1 j).pid = (proc_at sb j).pid := by
    intro j
    by_cases hj : j = 1
    · rw [hj, hself1]
    · rw [hoth1 j hj]
  have htick1 : tick cfg sb = some s1 := by
    simp only [tick, ht, scheduler_run, scheduler_run_preempt_none cfg sb hnone, h1]
  have hrr1 : rr_state cfg s1 1 2 0 0 0 := by
    refine ⟨pid_inv_congr cfg sb s1 hinv hlen1 hnp1 hpid1, hwf1, by rw [hsq1]; exact hsl,
      by omega, hact1, by rw [hself1], by rw [hpid1, hp1]; decide, by rw [hpid1, hp2]; decide,
      by decide, by rw [hcq1, hpid1, hp2], ?_, ?_, ?_, ?_⟩
    · rw [hself1]
      exact hr1
    · rw [hself1]
      exact hc1
    · rw [hoth1 2 (by decide)]
      exact hr2
    · rw [hoth1 2 (by decide)]
      exact hc2
  have hT : (cfg.SCHEDULER_TIMESLICE : Int) = 3 := by rw [hts]; rfl
  obtain ⟨t2, k2, hrr2, q2⟩ := rr_state_keep cfg s1 1 2 0 0 0 hrr1 (by rw [hT]; decide)
  obtain ⟨t3, k3, hrr3, q3⟩ := rr_state_keep cfg t2 1 2 _ _ _ hrr2 (by rw [hT]; decide)
  obtain ⟨t4, k4, hrr4, q4⟩ := rr_state_switch cfg t3 1 2 _ _ _ hrr3 (by rw [hT]; decide)
  obtain ⟨t5, k5, hrr5, q5⟩ := rr_state_keep cfg t4 2 1 _ _ _ hrr4 (by rw [hT]; decide)
  obtain ⟨t6, k6, hrr6, q6⟩ := rr_state_keep cfg t5 2 1 _ _ _ hrr5 (by rw [hT]; decide)
  obtain ⟨t7, k7, hrr7, q7⟩ := rr_state_switch cfg t6 2 1 _ _ _ hrr6 (by rw [hT]; decide)
  have hpid7 : ∀ j, (proc_at t7 j).pid = (proc_at sb j).pid := fun j => by
    rw [q7, q6, q5, q4, q3, q2, hpid1]
  obtain ⟨_, _, _, _, hact7, _, _, _, _, _, hrx7, _, hry7, _⟩ := hrr7
  refine ⟨sb, t7, hsb, hnone, hp0, hp1, hp2, ?_, by rw [hpid7, hp1], by rw [hpid7, hp2], ?_, ?_,
    hact7⟩
  · rw [ticks_step cfg 6 sb s1 htick1, ticks_step cfg 5 s1 t2 k2, ticks_step cfg 4 t2 t3 k3,
      ticks_step cfg 3 t3 t4 k4, ticks_step cfg 2 t4 t5 k5, ticks_step cfg 1 t5 t6 k6,
      ticks_step cfg 0 t6 t7 k7]
    rfl
  · rw [hrx7]
    decide
  · rw [hry7]
    decide

theorem round_robin_seven_ticks_witness :
    ∃ sb s7, boot_two rr_config rr_start = some sb ∧ ticks rr_config 7 sb = some s7 ∧
      (proc_at s7 1).pid = 1 ∧ (proc_at s7 2).pid = 2 ∧
      (proc_at s7 1).run_time = 3 ∧ (proc_at s7 2).run_time = 3 ∧
      s7.active_proc = some 1 := by
  obtain ⟨sb, s7, h1, _, _, _, _, h6, h7, h8, h9, h10, h11⟩ :=
    round_robin_seven_ticks rr_config rr_start (by decide) (by decide) (by decide) (by decide)
      (by decide) (by decide)
  exact ⟨sb, s7, h1, h6, h7, h8, h9, h10, h11⟩

/-! ## C13: state exclusivity -/

theorem nodup_of_subperm {l1 l2 : List Int} (h : l1.Subperm l2) (hn : l2.Nodup) : l1.Nodup := by
  obtain ⟨l, hp, hs⟩ := h
  exact hp.nodup_iff.1 (hn.sublist hs)

/-- Replacing one entry of a table of queues: the pids of the table before and after,
up to order, with the pids of the other entries as `rest`. -/
theorem flatten_map_set_perm {α : Type} (f : α → List Int) (d x : α) :
    ∀ (L : List α) (i : Nat), i < L.length →
      ∃ rest, (L.map f).flatten.Perm (f (L.getD i d) ++ rest) ∧
        ((L.set i x).map f).flatten.Perm (f x ++ rest) := by
  intro L
  induction L with
  | nil => intro i hi; simp at hi
  | cons a L ih =>
    intro i hi
    cases i with
    | zero => exact ⟨(L.map f).flatten, List.Perm.refl _, List.Perm.refl _⟩
    | succ k =>
      obtain ⟨rest, h1, h2⟩ := ih k (by simpa using hi)
      refine ⟨f a ++ rest, ?_, ?_⟩
      · simp only [List.map_cons, List.flatten_cons, List.getD_cons_succ]
        exact ((List.perm_append_left_iff (f a)).2 h1).trans
          (by
            rw [← List.append_assoc, ← List.append_assoc]
            exact List.Perm.append_right rest List.perm_append_comm)
      · simp only [List.set_cons_succ, List.map_cons, List.flatten_cons]
        exact ((List.perm_append_left_iff (f a)).2 h2).trans
          (by
            rw [← List.append_assoc, ← List.append_assoc]
            exact List.Perm.append_right rest List.perm_append_comm)

theorem wait_pids_mutex_update (cfg : kconfig) (s : kernel_t) (i : Nat) (g : mutex_t → mutex_t)
    (hi : i < s.mutexes.length) :
    ∃ rest, (wait_pids cfg s).Perm
        (queue_contents cfg.QUEUE_SIZE (mutex_at s i).wait_queue ++ rest) ∧
      (wait_pids cfg (mutex_update s i g)).Perm
        (queue_contents cfg.QUEUE_SIZE (g (mutex_at s i)).wait_queue ++ rest) := by
  obtain ⟨rest, h1, h2⟩ := flatten_map_set_perm
    (fun m : mutex_t => queue_contents cfg.QUEUE_SIZE m.wait_queue)
    ⟨0, 0, none, ⟨[], -1, -1, 0⟩⟩ (g (mutex_at s i)) s.mutexes i hi
  refine ⟨rest ++ (s.semaphores.map
    (fun m => queue_contents cfg.QUEUE_SIZE m.wait_queue)).flatten, ?_, ?_⟩
  · unfold wait_pids
    rw [← List.append_assoc]
    exact List.Perm.append_right _ h1
  · unfold wait_pids
    rw [← List.append_assoc]
    exact List.Perm.append_right _ h2

theorem wait_pids_sem_update (cfg : kconfig) (s : kernel_t) (i : Nat) (g : sem_t → sem_t)
    (hi : i < s.semaphores.length) :
    ∃ rest, (wait_pids cfg s).Perm
        (queue_contents cfg.QUEUE_SIZE (sem_at s i).wait_queue ++ rest) ∧
      (wait_pids cfg (sem_update s i g)).Perm
        (queue_contents cfg.QUEUE_SIZE (g (sem_at s i)).wait_queue ++ rest) := by
  obtain ⟨rest, h1, h2⟩ := flatten_map_set_perm
    (fun m : sem_t => queue_contents cfg.QUEUE_SIZE m.wait_queue)
    ⟨0, 0, ⟨[], -1, -1, 0⟩⟩ (g (sem_at s i)) s.semaphores i hi
  refine ⟨(s.mutexes.map
    (fun m => queue_contents cfg.QUEUE_SIZE m.wait_queue)).flatten ++ rest, ?_, ?_⟩
  · unfold wait_pids
    exact ((List.perm_append_left_iff _).2 h1).trans (by
      rw [← List.append_assoc, ← List.append_assoc]
      exact List.Perm.append_right rest List.perm_append_comm)
  · unfold wait_pids
    exact ((List.perm_append_left_iff _).2 h2).trans (by
      rw [← List.append_assoc, ← List.append_assoc]
      exact List.Perm.append_right rest List.perm_append_comm)

theorem mutex_update_out_of_range (s : kernel_t) (i : Nat) (g : mutex_t → mutex_t)
    (hi : s.mutexes.length ≤ i) : mutex_update s i g = s := by
  unfold mutex_update
  rw [List.set_eq_of_length_le hi]

theorem sem_update_out_of_range (s : kernel_t) (i : Nat) (g : sem_t → sem_t)
    (hi : s.semaphores.length ≤ i) : sem_update s i g = s := by
  unfold sem_update
  rw [List.set_eq_of_length_le hi]

/-- The wait queues stay well formed when one entry gets a well-formed queue. -/
theorem mutex_update_wf (cfg : kconfig) (s : kernel_t) (i : Nat) (g : mutex_t → mutex_t)
    (h : ∀ m ∈ s.mutexes, queue_wf cfg.QUEUE_SIZE m.wait_queue)
    (hg : queue_wf cfg.QUEUE_SIZE (g (mutex_at s i)).wait_queue) :
    ∀ m ∈ (mutex_update s i g).mutexes, queue_wf cfg.QUEUE_SIZE m.wait_queue := by
  intro m hm
  rcases List.mem_or_eq_of_mem_set hm with hm | hm
  · exact h m hm
  · rw [hm]
    exact hg

theorem sem_update_wf (cfg : kconfig) (s : kernel_t) (i : Nat) (g : sem_t → sem_t)
    (h : ∀ m ∈ s.semaphores, queue_wf cfg.QUEUE_SIZE m.wait_queue)
    (hg : queue_wf cfg.QUEUE_SIZE (g (sem_at s i)).wait_queue) :
    ∀ m ∈ (sem_update s i g).semaphores, queue_wf cfg.QUEUE_SIZE m.wait_queue := by
  intro m hm
  rcases List.mem_or_eq_of_mem_set hm with hm | hm
  · exact h m hm
  · rw [hm]
    exact hg

theorem mutex_at_mem (s : kernel_t) (i : Nat) (hi : i < s.mutexes.length) :
    mutex_at s i ∈ s.mutexes := by
  unfold mutex_at
  rw [List.getD_eq_getElem?_getD, List.getElem?_eq_getElem hi]
  exact List.getElem_mem hi

theorem sem_at_mem (s : kernel_t) (i : Nat) (hi : i < s.semaphores.length) :
    sem_at s i ∈ s.semaphores := by
  unfold sem_at
  rw [List.getD_eq_getElem?_getD, List.getElem?_eq_getElem hi]
  exact List.getElem_mem hi

/-- The common core of every preservation proof: the new queued pids are among the old
ones and a list `E` of fresh positive pids. -/
theorem excl_weak_step (cfg : kconfig) (s s' : kernel_t) (E : List Int)
    (hinv : excl_weak cfg s)
    (hP : pid_inv cfg s') (hA : alloc_inv cfg s')
    (hrun : queue_wf cfg.QUEUE_SIZE s'.run_queue) (hsl : queue_wf cfg.QUEUE_SIZE s'.sleep_queue)
    (hq : (queued_pids cfg s').Subperm (queued_pids cfg s ++ E))
    (hE : ∀ p ∈ E, 0 < p ∧ p < s'.next_pid ∧ p ∉ queued_pids cfg s) (hEnd : E.Nodup)
    (hnp : s.next_pid ≤ s'.next_pid)
    (hact : ∀ a, s'.active_proc = some a →
      0 ≤ (proc_at s' a).pid ∧ (proc_at s' a).pid ∉ queued_pids cfg s') :
    excl_weak cfg s' := by
  obtain ⟨_, _, _, _, hnd, hrange, _⟩ := hinv
  refine ⟨hP, hA, hrun, hsl, ?_, ?_, hact⟩
  · apply nodup_of_subperm hq
    rw [List.nodup_append]
    exact ⟨hnd, hEnd, fun p hp1 hp2 => (hE p hp2).2.2 hp1⟩
  · intro p hp
    rcases List.mem_append.1 (hq.subset hp) with h | h
    · obtain ⟨h1, h2⟩ := hrange p h
      exact ⟨h1, by omega⟩
    · exact ⟨(hE p h).1, (hE p h).2.1⟩

theorem alloc_inv_congr (cfg : kconfig) (s s' : kernel_t) (h : alloc_inv cfg s)
    (ha : s'.proc_allocator = s.proc_allocator)
    (hp : ∀ j, (proc_at s' j).pid = (proc_at s j).pid) : alloc_inv cfg s' := by
  obtain ⟨h1, h2, h3, h4, h5⟩ := h
  refine ⟨by rw [ha]; exact h1, by rw [ha]; exact h2, ?_, ?_, ?_⟩
  · intro x hx
    rw [ha] at hx
    obtain ⟨a, b, c⟩ := h3 x hx
    exact ⟨a, b, by rw [hp]; exact c⟩
  · intro i hi hpi
    rw [ha]
    exact h4 i hi (by rw [← hp]; exact hpi)
  · intro i
    rw [hp]
    exact h5 i

theorem wait_pids_congr (cfg : kconfig) (s s' : kernel_t) (hm : s'.mutexes = s.mutexes)
    (hs : s'.semaphores = s.semaphores) : wait_pids cfg s' = wait_pids cfg s := by
  unfold wait_pids
  rw [hm, hs]

/-- The invariant survives `scheduler_timer`. -/
theorem excl_inv_timer (cfg : kconfig) (s s' : kernel_t) (hinv : excl_inv cfg s)
    (hr : timer_rel cfg (scheduler_timer_charge s) s') : excl_inv cfg s' := by
  obtain ⟨hw, hmw, hsw⟩ := hinv
  obtain ⟨hq1, hq2, hq3, hq4, hq5, hq6, hq7, hq8, hq9⟩ := scheduler_timer_charge_queues s
  obtain ⟨r1, r2, r3, _, r5, _, r7, _, r9, r10, _, _, r13, r14, W, rw1, rw2, _⟩ := hr
  have hpid : ∀ k, (proc_at s' k).pid = (proc_at s k).pid := fun k => by rw [(r10 k).1, hq9]
  have hwp : wait_pids cfg s' = wait_pids cfg s :=
    wait_pids_congr cfg s s' (by rw [r5, hq6]) (by rw [r7, hq7])
  have hq : (queued_pids cfg s').Subperm (queued_pids cfg s ++ []) := by
    rw [List.append_nil]
    unfold queued_pids
    rw [hwp, rw1, hq1, List.append_assoc (queue_contents cfg.QUEUE_SIZE s.run_queue)]
    rw [hq2] at rw2
    exact (List.subperm_append_right _).2 ((List.subperm_append_left _).2 rw2)
  have hq' : (queued_pids cfg s').Subperm (queued_pids cfg s) := by
    rw [List.append_nil] at hq
    exact hq
  refine ⟨excl_weak_step cfg s s' [] hw
    (pid_inv_congr cfg s s' hw.1 (by rw [r9, hq8]) (by rw [r1, hq4]) hpid)
    (alloc_inv_congr cfg s s' hw.2.1 (by rw [r2, hq5]) hpid) r13 r14 hq
    (fun p hp => by simp at hp) List.nodup_nil (by rw [r1, hq4]) ?_,
    by rw [r5, hq6]; exact hmw, by rw [r7, hq7]; exact hsw⟩
  intro a ha
  rw [r3, hq3] at ha
  obtain ⟨h0, hn⟩ := hw.2.2.2.2.2.2 a ha
  rw [hpid]
  exact ⟨h0, fun hm => hn (hq'.subset hm)⟩

/-- The invariant survives `scheduler_run`. -/
theorem excl_inv_run (cfg : kconfig) (s s' : kernel_t) (hinv : excl_inv cfg s)
    (hr : run_rel cfg s s') : excl_inv cfg s' := by
  obtain ⟨hw, hmw, hsw⟩ := hinv
  obtain ⟨hP, hA, hrun, hsl, hnd, hrange, hact⟩ := hw
  obtain ⟨r1, r2, r3, r4, r5, r6, r7, r8, j, hj, _, _, E, hE, hcase⟩ := hr
  have hpid : ∀ k, (proc_at s' k).pid = (proc_at s k).pid := fun k => (r7 k).1
  have hwp : wait_pids cfg s' = wait_pids cfg s := wait_pids_congr cfg s s' r4 r5
  -- the pid that the first half may have queued is fresh and positive
  have hEf : ∀ p ∈ E, 0 < p ∧ p < s'.next_pid ∧ p ∉ queued_pids cfg s := by
    intro p hp
    rcases hE with hE | ⟨a, ha, hE, hpa⟩
    · rw [hE] at hp
      simp at hp
    · rw [hE, List.mem_singleton] at hp
      obtain ⟨h0, hn⟩ := hact a ha
      rw [hp, r1]
      exact ⟨by omega, hP.2.2.1 a, hn⟩
  have hEnd : E.Nodup := by
    rcases hE with hE | ⟨a, _, hE, _⟩
    · rw [hE]
      exact List.nodup_nil
    · rw [hE]
      exact List.nodup_singleton _
  have hndE : (queued_pids cfg s ++ E).Nodup := by
    rw [List.nodup_append]
    exact ⟨hnd, hEnd, fun p hp1 hp2 => (hEf p hp2).2.2 hp1⟩
  -- the queued pids grow by `E` and lose the head, if any
  have hqE : (queued_pids cfg s ++ E).Perm
      ((queue_contents cfg.QUEUE_SIZE s.run_queue ++ E)
        ++ (queue_contents cfg.QUEUE_SIZE s.sleep_queue ++ wait_pids cfg s)) := by
    unfold queued_pids
    rw [List.append_assoc (queue_contents cfg.QUEUE_SIZE s.run_queue),
      List.append_assoc (queue_contents cfg.QUEUE_SIZE s.run_queue),
      List.append_assoc (queue_contents cfg.QUEUE_SIZE s.run_queue)]
    exact (List.perm_append_left_iff _).2 List.perm_append_comm
  have hq'eq : queued_pids cfg s' = queue_contents cfg.QUEUE_SIZE s'.run_queue
      ++ (queue_contents cfg.QUEUE_SIZE s.sleep_queue ++ wait_pids cfg s) := by
    unfold queued_pids
    rw [hwp, r3, List.append_assoc]
  have hq : (queued_pids cfg s').Subperm (queued_pids cfg s ++ E) ∧
      (proc_at s j).pid ∉ queued_pids cfg s' ∧ 0 ≤ (proc_at s j).pid := by
    rcases hcase with ⟨hc1, hc2, hc3⟩ | ⟨hc0, hc⟩ | ⟨hc1, hc2, hc3⟩
    · obtain ⟨h0, hn⟩ := hact j hc1
      rw [hq'eq, hc3, hc2, List.append_nil]
      refine ⟨?_, ?_, h0⟩
      · unfold queued_pids
        rw [List.append_assoc]
      · unfold queued_pids at hn
        rw [List.append_assoc] at hn
        exact hn
    · have hnd2 := hqE.nodup_iff.1 hndE
      rw [hc, List.cons_append] at hnd2
      refine ⟨?_, ?_, hc0⟩
      · rw [hq'eq]
        refine List.Subperm.trans ?_ hqE.symm.subperm
        rw [hc, List.cons_append]
        exact (List.sublist_cons_self _ _).subperm
      · rw [hq'eq]
        exact (List.nodup_cons.1 hnd2).1
    · rw [hq'eq, hc2, List.nil_append]
      refine ⟨?_, ?_, by omega⟩
      · refine List.Subperm.trans ?_ hqE.symm.subperm
        exact (List.sublist_append_right _ _).subperm
      · intro hm
        have hm' : (proc_at s j).pid ∈ queued_pids cfg s := by
          unfold queued_pids
          rw [List.append_assoc]
          exact List.mem_append_right _ hm
        have := (hrange _ hm').1
        omega
  refine ⟨excl_weak_step cfg s s' E ⟨hP, hA, hrun, hsl, hnd, hrange, hact⟩
    (pid_inv_congr cfg s s' hP r6 r1 hpid) (alloc_inv_congr cfg s s' hA r2 hpid) r8
    (by rw [r3]; exact hsl) hq.1 hEf hEnd (by rw [r1]) ?_,
    by rw [r4]; exact hmw, by rw [r5]; exact hsw⟩
  intro a ha
  rw [hj] at ha
  simp only [Option.some.injEq] at ha
  subst ha
  rw [hpid]
  exact ⟨hq.2.2, hq.2.1⟩

theorem queue_in_contents_cases (n : Nat) (q : queue_t) (x : Int) (hwf : queue_wf n q) :
    ((queue_in n q x).1 ≠ 0 ∧ (queue_in n q x).2 = q) ∨
    ((queue_in n q x).1 = 0 ∧
      queue_contents n (queue_in n q x).2 = queue_contents n q ++ [x]) := by
  cases hb : queue_is_full n q
  · exact Or.inr ⟨(queue_in_spec n q x hwf hb).1, (queue_in_spec n q x hwf hb).2.2.2⟩
  · refine Or.inl ?_
    simp [queue_in, hb]

theorem queue_out_contents_cases (n : Nat) (q : queue_t) (c : Int) (hwf : queue_wf n q) :
    ((queue_out n q c).1 ≠ 0 ∧ (queue_out n q c).2.1 = q) ∨
    ((queue_out n q c).1 = 0 ∧
      queue_contents n q = (queue_out n q c).2.2 :: queue_contents n (queue_out n q c).2.1) := by
  cases hb : queue_is_empty q
  · exact Or.inr ⟨(queue_out_spec n q c hwf hb).1, (queue_out_spec n q c hwf hb).2.2.2⟩
  · refine Or.inl ?_
    rw [queue_out_empty n q c hb]
    exact ⟨by simp, rfl⟩

/-- The invariant under a change that leaves every pid, the allocator, both scheduler
queues and `active_proc` alone and at most reorders the waiting pids. -/
theorem excl_weak_congr (cfg : kconfig) (s s' : kernel_t) (hinv : excl_weak cfg s)
    (hl : s'.proc_table.length = s.proc_table.length) (hn : s'.next_pid = s.next_pid)
    (hp : ∀ j, (proc_at s' j).pid = (proc_at s j).pid)
    (ha : s'.proc_allocator = s.proc_allocator)
    (hr : s'.run_queue = s.run_queue) (hs : s'.sleep_queue = s.sleep_queue)
    (hact : s'.active_proc = s.active_proc)
    (hw : (wait_pids cfg s').Subperm (wait_pids cfg s)) : excl_weak cfg s' := by
  have hq : (queued_pids cfg s').Subperm (queued_pids cfg s) := by
    unfold queued_pids
    rw [hr, hs]
    exact (List.subperm_append_left _).2 hw
  refine excl_weak_step cfg s s' [] hinv (pid_inv_congr cfg s s' hinv.1 hl hn hp)
    (alloc_inv_congr cfg s s' hinv.2.1 ha hp) (by rw [hr]; exact hinv.2.2.1)
    (by rw [hs]; exact hinv.2.2.2.1) (by rw [List.append_nil]; exact hq)
    (fun p hp' => by simp at hp') List.nodup_nil (by rw [hn]) ?_
  intro a ha'
  rw [hact] at ha'
  obtain ⟨h0, hnq⟩ := hinv.2.2.2.2.2.2 a ha'
  rw [hp]
  exact ⟨h0, fun hm => hnq (hq.subset hm)⟩

theorem run_nodup_of_excl (cfg : kconfig) (s : kernel_t) (h : excl_weak cfg s) :
    (queue_contents cfg.QUEUE_SIZE s.run_queue).Nodup := by
  have := h.2.2.2.2.1
  unfold queued_pids at this
  rw [List.append_assoc] at this
  exact (List.nodup_append.1 this).1

theorem mem_queued_of_run (cfg : kconfig) (s : kernel_t) (p : Int)
    (h : p ∈ queue_contents cfg.QUEUE_SIZE s.run_queue) : p ∈ queued_pids cfg s := by
  unfold queued_pids
  exact List.mem_append_left _ (List.mem_append_left _ h)

/-- The invariant survives `scheduler_sleep` of the active process, which is not the
idle process. -/
theorem excl_inv_sleep (cfg : kconfig) (s s' : kernel_t) (a : Nat) (n : Int)
    (hinv : excl_inv cfg s) (hact : s.active_proc = some a) (hpa : (proc_at s a).pid ≠ 0)
    (h : scheduler_sleep cfg s (some a) n = some s') : excl_inv cfg s' := by
  obtain ⟨hw, hmw, hsw⟩ := hinv
  obtain ⟨ha0, hanq⟩ := hw.2.2.2.2.2.2 a hact
  have hal : a < s.proc_table.length := proc_at_in_range s a (by omega)
  by_cases hst : (proc_at s a).state = proc_state_t.SLEEPING
  · have hst1 : (proc_at (proc_update s a (fun x => { x with sleep_time := n })) a).state
        = proc_state_t.SLEEPING := by
      rw [proc_at_update_self s a _ hal]
      exact hst
    rw [scheduler_sleep_eq, if_pos hst1] at h
    simp only [Option.some.injEq] at h
    subst h
    exact ⟨excl_weak_congr cfg s _ hw (proc_update_length s a _) rfl
      (fun j => proc_update_pid s a j (fun x => { x with sleep_time := n }) (fun _ => rfl))
      rfl rfl rfl rfl (List.Subperm.refl _), hmw, hsw⟩
  · obtain ⟨s1, h1, hx1, hoth, hlen, hnp, hal', _, hmu, _, hse, _, hwf1, hperm, _, hsame, ha1, _,
        _, hsq⟩ := scheduler_sleep_awake cfg s a n hal hst hw.2.2.1 (run_nodup_of_excl cfg s hw)
    rw [h] at h1
    simp only [Option.some.injEq] at h1
    subst h1
    have hpids : ∀ j, (proc_at s' j).pid = (proc_at s j).pid := by
      intro j
      by_cases hj : j = a
      · rw [hj, hx1]
      · rw [hoth j hj]
    have hrc : queue_contents cfg.QUEUE_SIZE s'.run_queue
        = queue_contents cfg.QUEUE_SIZE s.run_queue :=
      hsame (fun hm => hanq (mem_queued_of_run cfg s _ hm))
    have hwp : wait_pids cfg s' = wait_pids cfg s := wait_pids_congr cfg s s' hmu hse
    have hq : (queued_pids cfg s').Subperm (queued_pids cfg s ++ [(proc_at s a).pid]) := by
      unfold queued_pids
      rw [hwp, hrc, hsq]
      rcases queue_in_contents_cases cfg.QUEUE_SIZE s.sleep_queue (proc_at s a).pid hw.2.2.2.1
        with ⟨_, hc⟩ | ⟨_, hc⟩
      · rw [hc]
        exact (List.sublist_append_left _ _).subperm
      · rw [hc]
        refine List.Perm.subperm ?_
        rw [List.append_assoc, List.append_assoc, List.append_assoc, List.append_assoc]
        exact (List.perm_append_left_iff _).2 ((List.perm_append_left_iff _).2
          List.perm_append_comm)
    refine ⟨excl_weak_step cfg s s' [(proc_at s a).pid] hw
      (pid_inv_congr cfg s s' hw.1 hlen hnp hpids) (alloc_inv_congr cfg s s' hw.2.1 hal' hpids)
      hwf1 (by rw [hsq]; exact queue_in_wf cfg.QUEUE_SIZE _ _ hw.2.2.2.1) hq ?_
      (List.nodup_singleton _) (by rw [hnp]) ?_, by rw [hmu]; exact hmw, by rw [hse]; exact hsw⟩
    · intro p hp
      rw [List.mem_singleton] at hp
      rw [hp, hnp]
      exact ⟨by omega, hw.1.2.2.1 a, hanq⟩
    · intro b hb
      rw [ha1 a hact rfl] at hb
      simp at hb

/-- What `kproc_destroy` leaves outside the process table and the allocator. -/
theorem kproc_destroy_frame (cfg : kconfig) (s s' : kernel_t) (p : Nat) (rc : Int)
    (h : kproc_destroy cfg s (some p) = some (rc, s'))
    (hrun : queue_wf cfg.QUEUE_SIZE s.run_queue)
    (hnd : (queue_contents cfg.QUEUE_SIZE s.run_queue).Nodup) :
    s'.sleep_queue = s.sleep_queue ∧ s'.mutexes = s.mutexes ∧ s'.semaphores = s.semaphores ∧
    queue_wf cfg.QUEUE_SIZE s'.run_queue ∧
    (queue_contents cfg.QUEUE_SIZE s'.run_queue).Subperm
      (queue_contents cfg.QUEUE_SIZE s.run_queue) ∧
    (∀ a, s'.active_proc = some a → s.active_proc = some a ∧
      ((proc_at s p).pid = 0 ∨ (proc_at s p).pid ≠ (proc_at s a).pid)) := by
  unfold kproc_destroy at h
  simp only at h
  by_cases h0 : (proc_at s p).pid = 0
  · simp only [h0, beq_self_eq_true, if_true, Option.some.injEq, Prod.mk.injEq] at h
    rw [← h.2]
    exact ⟨rfl, rfl, rfl, hrun, List.Subperm.refl _, fun a ha => ⟨ha, Or.inl h0⟩⟩
  · have hb : ((proc_at s p).pid == 0) = false := by simpa using h0
    rw [hb] at h
    simp only [Bool.false_eq_true, if_false] at h
    obtain ⟨s1, h1, _, _, _, e4, _, e6, _, e8, _, e10, e11, _, _, e14, e15, e16⟩ :=
      scheduler_remove_spec cfg s p hrun hnd
    rw [h1] at h
    simp only at h
    have hsub : (queue_contents cfg.QUEUE_SIZE s1.run_queue).Subperm
        (queue_contents cfg.QUEUE_SIZE s.run_queue) :=
      e11.subperm.trans (List.erase_sublist _ _).subperm
    have hactive : ∀ a, s1.active_proc = some a → s.active_proc = some a ∧
        ((proc_at s p).pid = 0 ∨ (proc_at s p).pid ≠ (proc_at s a).pid) := by
      intro a ha
      cases hsa : s.active_proc with
      | none => rw [e16 hsa] at ha; simp at ha
      | some b =>
        by_cases hpb : (proc_at s p).pid = (proc_at s b).pid
        · rw [e14 b hsa hpb] at ha
          simp at ha
        · rw [e15 b hsa hpb] at ha
          simp only [Option.some.injEq] at ha
          subst ha
          exact ⟨rfl, Or.inr hpb⟩
    split at h
    · simp at h
    · split at h
      · simp only [Option.some.injEq, Prod.mk.injEq] at h
        rw [← h.2]
        exact ⟨e4, e6, e8, e10, hsub, hactive⟩
      · simp only [Option.some.injEq, Prod.mk.injEq] at h
        rw [← h.2]
        exact ⟨e4, e6, e8, e10, hsub, hactive⟩

/-- The invariant survives `kproc_destroy`. -/
theorem excl_inv_destroy (cfg : kconfig) (s s' : kernel_t) (proc : Option Nat) (rc : Int)
    (hcap : cfg.PROC_MAX ≤ cfg.QUEUE_SIZE)
    (hinv : excl_inv cfg s) (h : kproc_destroy cfg s proc = some (rc, s')) :
    excl_inv cfg s' := by
  cases proc with
  | none =>
    simp only [kproc_destroy, Option.some.injEq, Prod.mk.injEq] at h
    rw [← h.2]
    exact hinv
  | some p =>
    obtain ⟨hw, hmw, hsw⟩ := hinv
    obtain ⟨f1, f2, f3, f4, f5, f6⟩ :=
      kproc_destroy_frame cfg s s' p rc h hw.2.2.1 (run_nodup_of_excl cfg s hw)
    obtain ⟨hP', hnp, _⟩ := pid_inv_destroy cfg s s' p rc h hw.1
    have hA' := alloc_inv_destroy cfg s s' p rc hcap h hw.1 hw.2.1
    have hwp : wait_pids cfg s' = wait_pids cfg s := wait_pids_congr cfg s s' f2 f3
    have hq : (queued_pids cfg s').Subperm (queued_pids cfg s) := by
      unfold queued_pids
      rw [hwp, f1, List.append_assoc, List.append_assoc]
      exact (List.subperm_append_right _).2 f5
    refine ⟨excl_weak_step cfg s s' [] hw hP' hA' f4 (by rw [f1]; exact hw.2.2.2.1)
      (by rw [List.append_nil]; exact hq) (fun q hq' => by simp at hq') List.nodup_nil
      (by rw [hnp]) ?_, by rw [f2]; exact hmw, by rw [f3]; exact hsw⟩
    intro a ha
    obtain ⟨hsa, hne⟩ := f6 a ha
    obtain ⟨ha0, hanq⟩ := hw.2.2.2.2.2.2 a hsa
    have hsame : proc_at s' a = proc_at s a := by
      rcases kproc_destroy_cases cfg s s' p rc h hw.1 with ⟨_, _, hs⟩ | ⟨hpos, _, _, _, _, hoth, _⟩
      · rw [hs]
      · apply hoth
        intro hap
        rcases hne with hne | hne
        · omega
        · exact hne (by rw [hap])
    rw [hsame]
    exact ⟨ha0, fun hm => hanq (hq.subset hm)⟩

/-- What `kproc_create` leaves outside the process table and the allocator. -/
theorem kproc_create_frame (cfg : kconfig) (s s' : kernel_t) (proc_ptr : Nat)
    (proc_name : String) (proc_type : proc_type_t) (rc : Int)
    (h : kproc_create cfg s proc_ptr proc_name proc_type = some (rc, s'))
    (hlen : s.proc_table.length = cfg.PROC_MAX)
    (hrun : queue_wf cfg.QUEUE_SIZE s.run_queue) :
    s'.sleep_queue = s.sleep_queue ∧ s'.mutexes = s.mutexes ∧ s'.semaphores = s.semaphores ∧
    s'.active_proc = s.active_proc ∧ queue_wf cfg.QUEUE_SIZE s'.run_queue ∧
    s.next_pid ≤ s'.next_pid ∧
    (queue_contents cfg.QUEUE_SIZE s'.run_queue = queue_contents cfg.QUEUE_SIZE s.run_queue ∨
     (queue_contents cfg.QUEUE_SIZE s'.run_queue
        = queue_contents cfg.QUEUE_SIZE s.run_queue ++ [s.next_pid] ∧
      s.next_pid ≠ 0 ∧ s'.next_pid = s.next_pid + 1)) := by
  have hwf' := kproc_create_run_wf cfg s s' proc_ptr proc_name proc_type rc h hrun
  cases hemp : queue_is_empty s.proc_allocator with
  | true =>
    unfold kproc_create at h
    simp only [queue_out_empty _ _ _ hemp] at h
    simp only [show ((-1 : Int) != 0) = true by decide, if_true, Option.some.injEq,
      Prod.mk.injEq] at h
    rw [← h.2]
    exact ⟨rfl, rfl, rfl, rfl, hrun, le_refl _, Or.inl rfl⟩
  | false =>
    obtain ⟨hrc, hv⟩ := queue_out_nonempty cfg.QUEUE_SIZE s.proc_allocator (-1) hemp
    by_cases hr : arr_get s.proc_allocator.items s.proc_allocator.head < 0 ∨
        (cfg.PROC_MAX : Int) ≤ arr_get s.proc_allocator.items s.proc_allocator.head
    · unfold kproc_create at h
      simp only [hrc, hv, bne_self_eq_false, Bool.false_eq_true, if_false, if_pos hr] at h
      simp at h
    · obtain ⟨e, he⟩ : ∃ e : Nat, arr_get s.proc_allocator.items s.proc_allocator.head
          = (e : Int) :=
        ⟨(arr_get s.proc_allocator.items s.proc_allocator.head).toNat, by omega⟩
      have heP : e < cfg.PROC_MAX := by omega
      rw [kproc_create_eq cfg s proc_ptr proc_name proc_type e hemp he heP] at h
      generalize hs1 : ({ s with
          proc_allocator := (queue_out cfg.QUEUE_SIZE s.proc_allocator (-1)).2.1,
          next_pid := s.next_pid + 1,
          proc_table := s.proc_table.set e
            (kproc_create_proc cfg s (e : Int) proc_ptr proc_name proc_type) } : kernel_t)
        = s1 at h
      have hpe : (proc_at s1 e).pid = s.next_pid := by
        rw [← hs1, proc_at_set_self s _ e _ rfl (by omega)]
        rfl
      have hq1 : s1.run_queue = s.run_queue := by rw [← hs1]
      have hf1 : s1.sleep_queue = s.sleep_queue ∧ s1.mutexes = s.mutexes ∧
          s1.semaphores = s.semaphores ∧ s1.active_proc = s.active_proc ∧
          s1.next_pid = s.next_pid + 1 := by
        rw [← hs1]
        exact ⟨rfl, rfl, rfl, rfl, rfl⟩
      cases hadd : scheduler_add cfg s1 (some e) with
      | none => rw [hadd] at h; simp at h
      | some s2 =>
        rw [hadd] at h
        simp only [Option.some.injEq, Prod.mk.injEq] at h
        rw [← h.2] at hwf' ⊢
        rw [scheduler_add_eq, hpe] at hadd
        by_cases hp0 : s.next_pid = 0
        · rw [if_pos hp0] at hadd
          simp only [Option.some.injEq] at hadd
          rw [← hadd]
          exact ⟨hf1.1, hf1.2.1, hf1.2.2.1, hf1.2.2.2.1, by rw [hq1]; exact hrun,
            by rw [hf1.2.2.2.2]; omega, Or.inl (by rw [hq1])⟩
        · rw [if_neg hp0] at hadd
          split at hadd
          · simp at hadd
          · rename_i hfull
            simp only [Option.some.injEq] at hadd
            have hroom : queue_is_full cfg.QUEUE_SIZE s.run_queue = false := by
              cases hb : queue_is_full cfg.QUEUE_SIZE s.run_queue
              · rfl
              · rw [hq1] at hfull
                exact absurd hb hfull
            have hc := (queue_in_spec cfg.QUEUE_SIZE s.run_queue s.next_pid hrun hroom).2.2.2
            refine ⟨by rw [← hadd]; exact hf1.1, by rw [← hadd]; exact hf1.2.1,
              by rw [← hadd]; exact hf1.2.2.1, by rw [← hadd]; exact hf1.2.2.2.1, hwf',
              by rw [← hadd]; show s.next_pid ≤ s1.next_pid; rw [hf1.2.2.2.2]; omega,
              Or.inr ⟨?_, hp0, by rw [← hadd]; exact hf1.2.2.2.2⟩⟩
            rw [← hadd]
            show queue_contents cfg.QUEUE_SIZE
              (queue_in cfg.QUEUE_SIZE s1.run_queue s.next_pid).2 = _
            rw [hq1]
            exact hc

/-- The invariant survives `kproc_create`. -/
theorem excl_weak_create (cfg : kconfig) (s s' : kernel_t) (proc_ptr : Nat)
    (proc_name : String) (proc_type : proc_type_t) (rc : Int)
    (hinv : excl_weak cfg s)
    (h : kproc_create cfg s proc_ptr proc_name proc_type = some (rc, s')) :
    excl_weak cfg s' ∧ s'.mutexes = s.mutexes ∧ s'.semaphores = s.semaphores := by
  obtain ⟨hP, hA, hrun, hsl, hnd, hrange, hact⟩ := hinv
  obtain ⟨f1, f2, f3, f4, f5, f6, f7⟩ :=
    kproc_create_frame cfg s s' proc_ptr proc_name proc_type rc h hP.1 hrun
  have hP' := (pid_inv_create cfg s s' proc_ptr proc_name proc_type rc h hP).1
  have hA' := alloc_inv_create cfg s s' proc_ptr proc_name proc_type rc h hP hA
  have hwp : wait_pids cfg s' = wait_pids cfg s := wait_pids_congr cfg s s' f2 f3
  -- the slots in use are untouched
  have hsame : ∀ a, 0 ≤ (proc_at s a).pid → proc_at s' a = proc_at s a := by
    intro a ha
    rcases kproc_create_cases cfg s s' proc_ptr proc_name proc_type rc h hP.1 with
      ⟨_, _, hs⟩ | ⟨hne, e, _, hhead, _, _, _, _, _, hoth⟩
    · rw [hs]
    · apply hoth
      intro hae
      have hmem : (e : Int) ∈ queue_contents cfg.QUEUE_SIZE s.proc_allocator := by
        rw [(queue_out_spec cfg.QUEUE_SIZE s.proc_allocator (-1) hA.1 hne).2.2.2,
          (queue_out_nonempty cfg.QUEUE_SIZE s.proc_allocator (-1) hne).2, hhead]
        exact List.mem_cons_self _ _
      have := (hA.2.2.1 _ hmem).2.2
      simp only [Int.toNat_ofNat] at this
      rw [hae] at ha
      omega
  have hfin : ∀ E : List Int,
      (queued_pids cfg s').Subperm (queued_pids cfg s ++ E) →
      (∀ p ∈ E, 0 < p ∧ p < s'.next_pid ∧ p ∉ queued_pids cfg s ∧ p = s.next_pid) →
      E.Nodup → excl_weak cfg s' := by
    intro E hq hE hEnd
    refine excl_weak_step cfg s s' E ⟨hP, hA, hrun, hsl, hnd, hrange, hact⟩ hP' hA' f5
      (by rw [f1]; exact hsl) hq (fun p hp => ⟨(hE p hp).1, (hE p hp).2.1, (hE p hp).2.2.1⟩)
      hEnd f6 ?_
    intro a ha
    rw [f4] at ha
    obtain ⟨ha0, hanq⟩ := hact a ha
    rw [hsame a ha0]
    refine ⟨ha0, fun hm => ?_⟩
    rcases List.mem_append.1 (hq.subset hm) with hm | hm
    · exact hanq hm
    · have := (hE _ hm).2.2.2
      have := hP.2.2.1 a
      omega
  refine ⟨?_, f2, f3⟩
  rcases f7 with hc | ⟨hc, hn0, hn1⟩
  · refine hfin [] ?_ (fun p hp => by simp at hp) List.nodup_nil
    rw [List.append_nil]
    unfold queued_pids
    rw [hwp, hc, f1]
  · refine hfin [s.next_pid] ?_ ?_ (List.nodup_singleton _)
    · unfold queued_pids
      rw [hwp, hc, f1]
      refine List.Perm.subperm ?_
      rw [List.append_assoc, List.append_assoc, List.append_assoc, List.append_assoc]
      exact (List.perm_append_left_iff _).2 (List.perm_append_comm.trans (by
        rw [List.append_assoc]))
    · intro p hp
      rw [List.mem_singleton] at hp
      rw [hp, hn1]
      refine ⟨by have := hP.2.1; omega, by omega, fun hm => ?_, rfl⟩
      have := (hrange _ hm).2
      omega

theorem frame_eq_refl (s : kernel_t) : frame_eq s s :=
  ⟨rfl, rfl, fun _ => rfl, rfl, rfl, rfl, rfl⟩

theorem frame_eq_trans (s1 s2 s3 : kernel_t) (h12 : frame_eq s1 s2) (h23 : frame_eq s2 s3) :
    frame_eq s1 s3 := by
  obtain ⟨a1, a2, a3, a4, a5, a6, a7⟩ := h12
  obtain ⟨b1, b2, b3, b4, b5, b6, b7⟩ := h23
  exact ⟨b1.trans a1, b2.trans a2, fun j => (b3 j).trans (a3 j), b4.trans a4, b5.trans a5,
    b6.trans a6, b7.trans a7⟩

theorem frame_eq_proc_update (s : kernel_t) (a : Nat) (f : proc_t → proc_t)
    (hf : ∀ x, (f x).pid = x.pid) : frame_eq s (proc_update s a f) :=
  ⟨proc_update_length s a f, rfl, fun j => proc_update_pid s a j f hf, rfl, rfl, rfl, rfl⟩

theorem frame_eq_mutex_update (s : kernel_t) (i : Nat) (g : mutex_t → mutex_t) :
    frame_eq s (mutex_update s i g) :=
  ⟨rfl, rfl, fun _ => rfl, rfl, rfl, rfl, rfl⟩

theorem frame_eq_sem_update (s : kernel_t) (i : Nat) (g : sem_t → sem_t) :
    frame_eq s (sem_update s i g) :=
  ⟨rfl, rfl, fun _ => rfl, rfl, rfl, rfl, rfl⟩

/-- The invariant under a change of the wait queues that adds no pid. -/
theorem excl_inv_frame (cfg : kconfig) (s s' : kernel_t) (hinv : excl_inv cfg s)
    (hf : frame_eq s s') (hw : (wait_pids cfg s').Subperm (wait_pids cfg s))
    (hmw : ∀ m ∈ s'.mutexes, queue_wf cfg.QUEUE_SIZE m.wait_queue)
    (hsw : ∀ m ∈ s'.semaphores, queue_wf cfg.QUEUE_SIZE m.wait_queue) : excl_inv cfg s' := by
  obtain ⟨f1, f2, f3, f4, f5, f6, f7⟩ := hf
  exact ⟨excl_weak_congr cfg s s' hinv.1 f1 f2 f3 f4 f5 f6 f7 hw, hmw, hsw⟩

/-- The active process, which is not the idle process, has been put on a wait queue
(state `s2`) and goes through `scheduler_remove`. -/
theorem excl_inv_park (cfg : kconfig) (s s2 s3 : kernel_t) (a : Nat)
    (hinv : excl_inv cfg s) (hact : s.active_proc = some a) (hpa : (proc_at s a).pid ≠ 0)
    (hf : frame_eq s s2)
    (hw : (wait_pids cfg s2).Subperm (wait_pids cfg s ++ [(proc_at s a).pid]))
    (hmw : ∀ m ∈ s2.mutexes, queue_wf cfg.QUEUE_SIZE m.wait_queue)
    (hsw : ∀ m ∈ s2.semaphores, queue_wf cfg.QUEUE_SIZE m.wait_queue)
    (h : scheduler_remove cfg s2 (some a) = some s3) : excl_inv cfg s3 := by
  obtain ⟨hwk, _, _⟩ := hinv
  obtain ⟨f1, f2, f3, f4, f5, f6, f7⟩ := hf
  obtain ⟨ha0, hanq⟩ := hwk.2.2.2.2.2.2 a hact
  obtain ⟨s3', h3, e1, e2, e3, e4, _, e6, _, e8, _, e10, _, _, e13, e14, _, _⟩ :=
    scheduler_remove_spec cfg s2 a (by rw [f5]; exact hwk.2.2.1)
      (by rw [f5]; exact run_nodup_of_excl cfg s hwk)
  rw [h] at h3
  simp only [Option.some.injEq] at h3
  subst h3
  have hpids : ∀ j, (proc_at s3 j).pid = (proc_at s j).pid := fun j => by
    have : proc_at s3 j = proc_at s2 j := by simp only [proc_at, e3]
    rw [this, f3]
  have hrc : queue_contents cfg.QUEUE_SIZE s3.run_queue
      = queue_contents cfg.QUEUE_SIZE s.run_queue := by
    rw [e13 (by rw [f3, f5]; exact fun hm => hanq (mem_queued_of_run cfg s _ hm)), f5]
  have hwp : wait_pids cfg s3 = wait_pids cfg s2 := wait_pids_congr cfg s2 s3 e6 e8
  have hq : (queued_pids cfg s3).Subperm (queued_pids cfg s ++ [(proc_at s a).pid]) := by
    unfold queued_pids
    rw [hwp, hrc, e4, f6, List.append_assoc
      (queue_contents cfg.QUEUE_SIZE s.run_queue ++ queue_contents cfg.QUEUE_SIZE s.sleep_queue)]
    exact (List.subperm_append_left _).2 hw
  refine ⟨excl_weak_step cfg s s3 [(proc_at s a).pid] hwk
    (pid_inv_congr cfg s s3 hwk.1 (by rw [e3, f1]) (by rw [e1, f2]) hpids)
    (alloc_inv_congr cfg s s3 hwk.2.1 (by rw [e2, f4]) hpids) e10
    (by rw [e4, f6]; exact hwk.2.2.2.1) hq ?_ (List.nodup_singleton _) (by rw [e1, f2]) ?_,
    by rw [e6]; exact hmw, by rw [e8]; exact hsw⟩
  · intro p hp
    rw [List.mem_singleton] at hp
    rw [hp, e1, f2]
    exact ⟨by omega, hwk.1.2.2.1 a, hanq⟩
  · intro b hb
    rw [e14 a (by rw [f7]; exact hact) rfl] at hb
    simp at hb

/-- A pid `v` has been taken from a wait queue (state `s2`) and its process goes through
`scheduler_add`. -/
theorem excl_inv_wake (cfg : kconfig) (s s2 s3 : kernel_t) (v : Int)
    (hinv : excl_inv cfg s) (hf : frame_eq s s2)
    (hw : (v :: wait_pids cfg s2).Subperm (wait_pids cfg s))
    (hmw : ∀ m ∈ s2.mutexes, queue_wf cfg.QUEUE_SIZE m.wait_queue)
    (hsw : ∀ m ∈ s2.semaphores, queue_wf cfg.QUEUE_SIZE m.wait_queue)
    (h : scheduler_add cfg s2 (pid_to_proc cfg s2 v) = some s3) :
    excl_inv cfg s3 ∧ s3.mutexes = s2.mutexes ∧ s3.semaphores = s2.semaphores := by
  obtain ⟨hwk, _, _⟩ := hinv
  obtain ⟨f1, f2, f3, f4, f5, f6, f7⟩ := hf
  have hvq : v ∈ queued_pids cfg s := by
    unfold queued_pids
    exact List.mem_append_right _ (hw.subset (List.mem_cons_self _ _))
  have hv0 : 0 < v := (hwk.2.2.2.2.2.1 v hvq).1
  cases hl : pid_to_proc cfg s2 v with
  | none => rw [hl] at h; simp [scheduler_add] at h
  | some x =>
    rw [hl] at h
    obtain ⟨hpx, _, _, _⟩ := pid_to_proc_some cfg s2 v x hl
    have hxl : x < s2.proc_table.length := proc_at_in_range s2 x (by omega)
    rw [scheduler_add_eq, if_neg (by rw [hpx]; omega)] at h
    split at h
    · simp at h
    · rename_i hfull
      simp only [Option.some.injEq] at h
      have hroom : queue_is_full cfg.QUEUE_SIZE s.run_queue = false := by
        cases hb : queue_is_full cfg.QUEUE_SIZE s.run_queue
        · rfl
        · rw [f5] at hfull
          exact absurd hb hfull
      obtain ⟨_, hwr, _, hcr⟩ := queue_in_spec cfg.QUEUE_SIZE s.run_queue v hwk.2.2.1 hroom
      have e_np : s3.next_pid = s.next_pid := by rw [← h]; exact f2
      have e_al : s3.proc_allocator = s.proc_allocator := by rw [← h]; exact f4
      have e_sl : s3.sleep_queue = s.sleep_queue := by rw [← h]; exact f6
      have e_ac : s3.active_proc = s.active_proc := by rw [← h]; exact f7
      have e_mu : s3.mutexes = s2.mutexes := by rw [← h]
      have e_se : s3.semaphores = s2.semaphores := by rw [← h]
      have e_rq : s3.run_queue = (queue_in cfg.QUEUE_SIZE s.run_queue v).2 := by
        rw [← h]
        show (queue_in cfg.QUEUE_SIZE s2.run_queue (proc_at s2 x).pid).2 = _
        rw [f5, hpx]
      have e_len : s3.proc_table.length = s.proc_table.length := by
        rw [← h]
        simp [f1]
      have hpids : ∀ j, (proc_at s3 j).pid = (proc_at s j).pid := by
        intro j
        rw [← f3]
        rw [← h, proc_at_set s2 _ x j _ rfl]
        split
        · rename_i hh
          rw [← hh.1]
        · rfl
      have hwp : wait_pids cfg s3 = wait_pids cfg s2 := wait_pids_congr cfg s2 s3 e_mu e_se
      have hq : (queued_pids cfg s3).Subperm (queued_pids cfg s ++ []) := by
        rw [List.append_nil]
        unfold queued_pids
        rw [hwp, e_rq, hcr, e_sl, List.append_assoc, List.append_assoc, List.append_assoc]
        refine (List.subperm_append_left _).2 ?_
        refine List.Subperm.trans (List.Perm.subperm ?_)
          ((List.subperm_append_left (queue_contents cfg.QUEUE_SIZE s.sleep_queue)).2 hw)
        rw [← List.append_assoc]
        have hrw : [v] ++ queue_contents cfg.QUEUE_SIZE s.sleep_queue ++ wait_pids cfg s2
            = v :: (queue_contents cfg.QUEUE_SIZE s.sleep_queue ++ wait_pids cfg s2) := by
          simp
        rw [hrw]
        exact List.perm_middle.symm
      have hq' : (queued_pids cfg s3).Subperm (queued_pids cfg s) := by
        rw [List.append_nil] at hq
        exact hq
      refine ⟨⟨excl_weak_step cfg s s3 [] hwk
        (pid_inv_congr cfg s s3 hwk.1 e_len e_np hpids)
        (alloc_inv_congr cfg s s3 hwk.2.1 e_al hpids) (by rw [e_rq]; exact hwr)
        (by rw [e_sl]; exact hwk.2.2.2.1) hq (fun p hp => by simp at hp) List.nodup_nil
        (by rw [e_np]) ?_, by rw [e_mu]; exact hmw, by rw [e_se]; exact hsw⟩, e_mu, e_se⟩
      intro b hb
      rw [e_ac] at hb
      obtain ⟨hb0, hbnq⟩ := hwk.2.2.2.2.2.2 b hb
      rw [hpids]
      exact ⟨hb0, fun hm => hbnq (hq'.subset hm)⟩

/-- An assignment to a mutex that adds no pid to its wait queue. -/
theorem excl_inv_mutex_update (cfg : kconfig) (s : kernel_t) (i : Nat) (g : mutex_t → mutex_t)
    (hinv : excl_inv cfg s)
    (hsub : (queue_contents cfg.QUEUE_SIZE (g (mutex_at s i)).wait_queue).Subperm
      (queue_contents cfg.QUEUE_SIZE (mutex_at s i).wait_queue))
    (hwf : i < s.mutexes.length → queue_wf cfg.QUEUE_SIZE (g (mutex_at s i)).wait_queue) :
    excl_inv cfg (mutex_update s i g) := by
  by_cases hi : i < s.mutexes.length
  · obtain ⟨rest, h1, h2⟩ := wait_pids_mutex_update cfg s i g hi
    exact excl_inv_frame cfg s _ hinv (frame_eq_mutex_update s i g)
      ((h2.subperm.trans ((List.subperm_append_right rest).2 hsub)).trans h1.symm.subperm)
      (mutex_update_wf cfg s i g hinv.2.1 (hwf hi)) hinv.2.2
  · rw [mutex_update_out_of_range s i g (Nat.le_of_not_lt hi)]
    exact hinv

/-- An assignment to a semaphore that adds no pid to its wait queue. -/
theorem excl_inv_sem_update (cfg : kconfig) (s : kernel_t) (i : Nat) (g : sem_t → sem_t)
    (hinv : excl_inv cfg s)
    (hsub : (queue_contents cfg.QUEUE_SIZE (g (sem_at s i)).wait_queue).Subperm
      (queue_contents cfg.QUEUE_SIZE (sem_at s i).wait_queue))
    (hwf : i < s.semaphores.length → queue_wf cfg.QUEUE_SIZE (g (sem_at s i)).wait_queue) :
    excl_inv cfg (sem_update s i g) := by
  by_cases hi : i < s.semaphores.length
  · obtain ⟨rest, h1, h2⟩ := wait_pids_sem_update cfg s i g hi
    exact excl_inv_frame cfg s _ hinv (frame_eq_sem_update s i g)
      ((h2.subperm.trans ((List.subperm_append_right rest).2 hsub)).trans h1.symm.subperm)
      hinv.2.1 (sem_update_wf cfg s i g hinv.2.2 (hwf hi))
  · rw [sem_update_out_of_range s i g (Nat.le_of_not_lt hi)]
    exact hinv

theorem queue_init_replicate_wf (n : Nat) :
    queue_wf n (queue_init n ⟨List.replicate n 0, 0, 0, 0⟩) :=
  queue_init_wf n _ (by simp)

theorem nil_subperm (l : List Int) : ([] : List Int).Subperm l :=
  (List.nil_sublist l).subperm

/-- The invariant survives `kmutex_init`. -/
theorem excl_inv_kmutex_init (cfg : kconfig) (s : kernel_t) (hinv : excl_inv cfg s) :
    excl_inv cfg (kmutex_init cfg s).2 := by
  have h1 : excl_inv cfg
      { s with mutex_queue := (queue_out cfg.QUEUE_SIZE s.mutex_queue (-1)).2.1 } :=
    excl_inv_frame cfg s _ hinv ⟨rfl, rfl, fun _ => rfl, rfl, rfl, rfl, rfl⟩
      (List.Subperm.refl _) hinv.2.1 hinv.2.2
  unfold kmutex_init
  simp only
  split
  · exact h1
  · split
    · exact h1
    · apply excl_inv_mutex_update cfg _ _ _ h1
      · rw [queue_init_contents]
        exact nil_subperm _
      · intro _
        exact queue_init_replicate_wf cfg.QUEUE_SIZE

/-- The invariant survives `ksem_init`. -/
theorem excl_inv_ksem_init (cfg : kconfig) (s : kernel_t) (value : Int)
    (hinv : excl_inv cfg s) : excl_inv cfg (ksem_init cfg s value).2 := by
  have h1 : excl_inv cfg
      { s with sem_queue := (queue_out cfg.QUEUE_SIZE s.sem_queue (-1)).2.1 } :=
    excl_inv_frame cfg s _ hinv ⟨rfl, rfl, fun _ => rfl, rfl, rfl, rfl, rfl⟩
      (List.Subperm.refl _) hinv.2.1 hinv.2.2
  unfold ksem_init
  simp only
  split
  · exact h1
  · split
    · exact h1
    · apply excl_inv_sem_update cfg _ _ _ h1
      · rw [queue_init_contents]
        exact nil_subperm _
      · intro _
        exact queue_init_replicate_wf cfg.QUEUE_SIZE

theorem excl_inv_proc_update (cfg : kconfig) (s : kernel_t) (a : Nat) (f : proc_t → proc_t)
    (hf : ∀ x, (f x).pid = x.pid) (hinv : excl_inv cfg s) : excl_inv cfg (proc_update s a f) :=
  excl_inv_frame cfg s _ hinv (frame_eq_proc_update s a f hf) (List.Subperm.refl _)
    hinv.2.1 hinv.2.2

theorem mutex_at_out_of_range (s : kernel_t) (i : Nat) (hi : s.mutexes.length ≤ i) :
    mutex_at s i = ⟨0, 0, none, ⟨[], -1, -1, 0⟩⟩ := by
  unfold mutex_at
  rw [List.getD_eq_getElem?_getD, List.getElem?_eq_none hi]
  rfl

theorem sem_at_out_of_range (s : kernel_t) (i : Nat) (hi : s.semaphores.length ≤ i) :
    sem_at s i = ⟨0, 0, ⟨[], -1, -1, 0⟩⟩ := by
  unfold sem_at
  rw [List.getD_eq_getElem?_getD, List.getElem?_eq_none hi]
  rfl

/-- A pid is queued on the wait queue of a mutex. -/
theorem mutex_enqueue_waits (cfg : kconfig) (s : kernel_t) (i : Nat) (x : Int)
    (hmw : ∀ m ∈ s.mutexes, queue_wf cfg.QUEUE_SIZE m.wait_queue) :
    (wait_pids cfg (mutex_update s i (fun m => { m with wait_queue :=
        (queue_in cfg.QUEUE_SIZE (mutex_at s i).wait_queue x).2 }))).Subperm
      (wait_pids cfg s ++ [x]) ∧
    (∀ m ∈ (mutex_update s i (fun m => { m with wait_queue :=
        (queue_in cfg.QUEUE_SIZE (mutex_at s i).wait_queue x).2 })).mutexes,
      queue_wf cfg.QUEUE_SIZE m.wait_queue) ∧
    ((queue_in cfg.QUEUE_SIZE (mutex_at s i).wait_queue x).1 ≠ 0 →
      (wait_pids cfg (mutex_update s i (fun m => { m with wait_queue :=
        (queue_in cfg.QUEUE_SIZE (mutex_at s i).wait_queue x).2 }))).Subperm
      (wait_pids cfg s)) := by
  by_cases hi : i < s.mutexes.length
  · have hwf := hmw _ (mutex_at_mem s i hi)
    obtain ⟨rest, h1, h2⟩ := wait_pids_mutex_update cfg s i (fun m => { m with wait_queue :=
        (queue_in cfg.QUEUE_SIZE (mutex_at s i).wait_queue x).2 }) hi
    simp only at h2
    refine ⟨?_, mutex_update_wf cfg s i _ hmw (queue_in_wf cfg.QUEUE_SIZE _ _ hwf), ?_⟩
    · rcases queue_in_contents_cases cfg.QUEUE_SIZE (mutex_at s i).wait_queue x hwf with
        ⟨_, hc⟩ | ⟨_, hc⟩
      · have hcq := congrArg (queue_contents cfg.QUEUE_SIZE) hc
        rw [hcq] at h2
        exact (h2.trans h1.symm).subperm.trans (List.sublist_append_left _ _).subperm
      · rw [hc] at h2
        refine (h2.trans ?_).subperm
        refine List.Perm.trans ?_ (List.Perm.append_right [x] h1.symm)
        rw [List.append_assoc, List.append_assoc]
        exact (List.perm_append_left_iff _).2 List.perm_append_comm
    · intro hne
      rcases queue_in_contents_cases cfg.QUEUE_SIZE (mutex_at s i).wait_queue x hwf with
        ⟨_, hc⟩ | ⟨h0, _⟩
      · have hcq := congrArg (queue_contents cfg.QUEUE_SIZE) hc
        rw [hcq] at h2
        exact (h2.trans h1.symm).subperm
      · exact absurd h0 hne
  · rw [mutex_update_out_of_range s i _ (Nat.le_of_not_lt hi)]
    exact ⟨(List.sublist_append_left _ _).subperm, hmw, fun _ => List.Subperm.refl _⟩

/-- A pid is taken from the wait queue of a mutex. -/
theorem mutex_dequeue_waits (cfg : kconfig) (s : kernel_t) (i : Nat) (c : Int)
    (hmw : ∀ m ∈ s.mutexes, queue_wf cfg.QUEUE_SIZE m.wait_queue) :
    (∀ m ∈ (mutex_update s i (fun m => { m with wait_queue :=
        (queue_out cfg.QUEUE_SIZE (mutex_at s i).wait_queue c).2.1 })).mutexes,
      queue_wf cfg.QUEUE_SIZE m.wait_queue) ∧
    ((queue_out cfg.QUEUE_SIZE (mutex_at s i).wait_queue c).1 ≠ 0 →
      (wait_pids cfg (mutex_update s i (fun m => { m with wait_queue :=
        (queue_out cfg.QUEUE_SIZE (mutex_at s i).wait_queue c).2.1 }))).Subperm
      (wait_pids cfg s)) ∧
    ((queue_out cfg.QUEUE_SIZE (mutex_at s i).wait_queue c).1 = 0 →
      ((queue_out cfg.QUEUE_SIZE (mutex_at s i).wait_queue c).2.2 ::
        wait_pids cfg (mutex_update s i (fun m => { m with wait_queue :=
          (queue_out cfg.QUEUE_SIZE (mutex_at s i).wait_queue c).2.1 }))).Subperm
      (wait_pids cfg s)) := by
  by_cases hi : i < s.mutexes.length
  · have hwf := hmw _ (mutex_at_mem s i hi)
    obtain ⟨rest, h1, h2⟩ := wait_pids_mutex_update cfg s i (fun m => { m with wait_queue :=
        (queue_out cfg.QUEUE_SIZE (mutex_at s i).wait_queue c).2.1 }) hi
    simp only at h2
    refine ⟨mutex_update_wf cfg s i _ hmw (queue_out_wf cfg.QUEUE_SIZE _ _ hwf), ?_, ?_⟩
    · intro hne
      rcases queue_out_contents_cases cfg.QUEUE_SIZE (mutex_at s i).wait_queue c hwf with
        ⟨_, hc⟩ | ⟨h0, _⟩
      · have hcq := congrArg (queue_contents cfg.QUEUE_SIZE) hc
        rw [hcq] at h2
        exact (h2.trans h1.symm).subperm
      · exact absurd h0 hne
    · intro h0
      rcases queue_out_contents_cases cfg.QUEUE_SIZE (mutex_at s i).wait_queue c hwf with
        ⟨hne, _⟩ | ⟨_, hc⟩
      · exact absurd h0 hne
      · rw [hc] at h1
        exact ((List.Perm.cons _ h2).trans h1.symm).subperm
  · have hph := mutex_at_out_of_range s i (Nat.le_of_not_lt hi)
    have hout : queue_out cfg.QUEUE_SIZE (mutex_at s i).wait_queue c
        = (-1, (mutex_at s i).wait_queue, c) :=
      queue_out_empty _ _ _ (by rw [hph]; rfl)
    rw [mutex_update_out_of_range s i _ (Nat.le_of_not_lt hi)]
    refine ⟨hmw, fun _ => List.Subperm.refl _, fun h0 => ?_⟩
    rw [hout] at h0
    simp at h0

/-- A pid is queued on the wait queue of a semaphore. -/
theorem sem_enqueue_waits (cfg : kconfig) (s : kernel_t) (i : Nat) (x : Int)
    (hsw : ∀ m ∈ s.semaphores, queue_wf cfg.QUEUE_SIZE m.wait_queue) :
    (wait_pids cfg (sem_update s i (fun m => { m with wait_queue :=
        (queue_in cfg.QUEUE_SIZE (sem_at s i).wait_queue x).2 }))).Subperm
      (wait_pids cfg s ++ [x]) ∧
    (∀ m ∈ (sem_update s i (fun m => { m with wait_queue :=
        (queue_in cfg.QUEUE_SIZE (sem_at s i).wait_queue x).2 })).semaphores,
      queue_wf cfg.QUEUE_SIZE m.wait_queue) ∧
    ((queue_in cfg.QUEUE_SIZE (sem_at s i).wait_queue x).1 ≠ 0 →
      (wait_pids cfg (sem_update s i (fun m => { m with wait_queue :=
        (queue_in cfg.QUEUE_SIZE (sem_at s i).wait_queue x).2 }))).Subperm
      (wait_pids cfg s)) := by
  by_cases hi : i < s.semaphores.length
  · have hwf := hsw _ (sem_at_mem s i hi)
    obtain ⟨rest, h1, h2⟩ := wait_pids_sem_update cfg s i (fun m => { m with wait_queue :=
        (queue_in cfg.QUEUE_SIZE (sem_at s i).wait_queue x).2 }) hi
    simp only at h2
    refine ⟨?_, sem_update_wf cfg s i _ hsw (queue_in_wf cfg.QUEUE_SIZE _ _ hwf), ?_⟩
    · rcases queue_in_contents_cases cfg.QUEUE_SIZE (sem_at s i).wait_queue x hwf with
        ⟨_, hc⟩ | ⟨_, hc⟩
      · have hcq := congrArg (queue_contents cfg.QUEUE_SIZE) hc
        rw [hcq] at h2
        exact (h2.trans h1.symm).subperm.trans (List.sublist_append_left _ _).subperm
      · rw [hc] at h2
        refine (h2.trans ?_).subperm
        refine List.Perm.trans ?_ (List.Perm.append_right [x] h1.symm)
        rw [List.append_assoc, List.append_assoc]
        exact (List.perm_append_left_iff _).2 List.perm_append_comm
    · intro hne
      rcases queue_in_contents_cases cfg.QUEUE_SIZE (sem_at s i).wait_queue x hwf with
        ⟨_, hc⟩ | ⟨h0, _⟩
      · have hcq := congrArg (queue_contents cfg.QUEUE_SIZE) hc
        rw [hcq] at h2
        exact (h2.trans h1.symm).subperm
      · exact absurd h0 hne
  · rw [sem_update_out_of_range s i _ (Nat.le_of_not_lt hi)]
    exact ⟨(List.sublist_append_left _ _).subperm, hsw, fun _ => List.Subperm.refl _⟩

/-- A pid is taken from the wait queue of a semaphore. -/
theorem sem_dequeue_waits (cfg : kconfig) (s : kernel_t) (i : Nat) (c : Int)
    (hsw : ∀ m ∈ s.semaphores, queue_wf cfg.QUEUE_SIZE m.wait_queue) :
    (∀ m ∈ (sem_update s i (fun m => { m with wait_queue :=
        (queue_out cfg.QUEUE_SIZE (sem_at s i).wait_queue c).2.1 })).semaphores,
      queue_wf cfg.QUEUE_SIZE m.wait_queue) ∧
    ((queue_out cfg.QUEUE_SIZE (sem_at s i).wait_queue c).1 ≠ 0 →
      (wait_pids cfg (sem_update s i (fun m => { m with wait_queue :=
        (queue_out cfg.QUEUE_SIZE (sem_at s i).wait_queue c).2.1 }))).Subperm
      (wait_pids cfg s)) ∧
    ((queue_out cfg.QUEUE_SIZE (sem_at s i).wait_queue c).1 = 0 →
      ((queue_out cfg.QUEUE_SIZE (sem_at s i).wait_queue c).2.2 ::
        wait_pids cfg (sem_update s i (fun m => { m with wait_queue :=
          (queue_out cfg.QUEUE_SIZE (sem_at s i).wait_queue c).2.1 }))).Subperm
      (wait_pids cfg s)) := by
  by_cases hi : i < s.semaphores.length
  · have hwf := hsw _ (sem_at_mem s i hi)
    obtain ⟨rest, h1, h2⟩ := wait_pids_sem_update cfg s i (fun m => { m with wait_queue :=
        (queue_out cfg.QUEUE_SIZE (sem_at s i).wait_queue c).2.1 }) hi
    simp only at h2
    refine ⟨sem_update_wf cfg s i _ hsw (queue_out_wf cfg.QUEUE_SIZE _ _ hwf), ?_, ?_⟩
    · intro hne
      rcases queue_out_contents_cases cfg.QUEUE_SIZE (sem_at s i).wait_queue c hwf with
        ⟨_, hc⟩ | ⟨h0, _⟩
      · have hcq := congrArg (queue_contents cfg.QUEUE_SIZE) hc
        rw [hcq] at h2
        exact (h2.trans h1.symm).subperm
      · exact absurd h0 hne
    · intro h0
      rcases queue_out_contents_cases cfg.QUEUE_SIZE (sem_at s i).wait_queue c hwf with
        ⟨hne, _⟩ | ⟨_, hc⟩
      · exact absurd h0 hne
      · rw [hc] at h1
        exact ((List.Perm.cons _ h2).trans h1.symm).subperm
  · have hph := sem_at_out_of_range s i (Nat.le_of_not_lt hi)
    have hout : queue_out cfg.QUEUE_SIZE (sem_at s i).wait_queue c
        = (-1, (sem_at s i).wait_queue, c) :=
      queue_out_empty _ _ _ (by rw [hph]; rfl)
    rw [sem_update_out_of_range s i _ (Nat.le_of_not_lt hi)]
    refine ⟨hsw, fun _ => List.Subperm.refl _, fun h0 => ?_⟩
    rw [hout] at h0
    simp at h0

theorem excl_inv_mutex_update_same (cfg : kconfig) (s : kernel_t) (i : Nat)
    (g : mutex_t → mutex_t) (hinv : excl_inv cfg s)
    (hg : (g (mutex_at s i)).wait_queue = (mutex_at s i).wait_queue) :
    excl_inv cfg (mutex_update s i g) :=
  excl_inv_mutex_update cfg s i g hinv (by rw [hg])
    (fun hi => by rw [hg]; exact hinv.2.1 _ (mutex_at_mem s i hi))

theorem excl_inv_sem_update_same (cfg : kconfig) (s : kernel_t) (i : Nat)
    (g : sem_t → sem_t) (hinv : excl_inv cfg s)
    (hg : (g (sem_at s i)).wait_queue = (sem_at s i).wait_queue) :
    excl_inv cfg (sem_update s i g) :=
  excl_inv_sem_update cfg s i g hinv (by rw [hg])
    (fun hi => by rw [hg]; exact hinv.2.2 _ (sem_at_mem s i hi))

/-- The invariant survives `kmutex_lock` by a process other than the idle process. -/
theorem excl_inv_kmutex_lock (cfg : kconfig) (s s' : kernel_t) (id rc : Int)
    (hinv : excl_inv cfg s)
    (huser : ∀ a, s.active_proc = some a → (proc_at s a).pid ≠ 0)
    (h : kmutex_lock cfg s id = some (rc, s')) : excl_inv cfg s' := by
  unfold kmutex_lock at h
  simp only at h
  split at h
  · simp only [Option.some.injEq, Prod.mk.injEq] at h
    rw [← h.2]
    exact hinv
  · split at h
    · split at h
      · simp only [Option.some.injEq, Prod.mk.injEq] at h
        rw [← h.2]
        exact hinv
      · rename_i a ha
        have hinv1 := excl_inv_proc_update cfg s a
          (fun x => { x with state := proc_state_t.WAITING }) (fun _ => rfl) hinv
        have hpa : (proc_at (proc_update s a
            (fun x => { x with state := proc_state_t.WAITING })) a).pid ≠ 0 := by
          rw [proc_update_pid s a a (fun x => { x with state := proc_state_t.WAITING })
            (fun _ => rfl)]
          exact huser a ha
        obtain ⟨w1, w2, w3⟩ := mutex_enqueue_waits cfg
          (proc_update s a (fun x => { x with state := proc_state_t.WAITING })) id.toNat
          (proc_at (proc_update s a
            (fun x => { x with state := proc_state_t.WAITING })) a).pid hinv1.2.1
        split at h
        · rename_i hrc
          simp only [Option.some.injEq, Prod.mk.injEq] at h
          rw [← h.2]
          exact excl_inv_frame cfg _ _ hinv1 (frame_eq_mutex_update _ _ _)
            (w3 (by simpa using hrc)) w2 hinv1.2.2
        · split at h
          · simp at h
          · rename_i s3 hrem
            simp only [Option.some.injEq, Prod.mk.injEq] at h
            rw [← h.2]
            have hinv3 := excl_inv_park cfg _ _ s3 a hinv1 ha hpa
              (frame_eq_mutex_update _ _ _) w1 w2 hinv1.2.2 hrem
            exact excl_inv_mutex_update_same cfg s3 id.toNat _ hinv3 rfl
    · simp only [Option.some.injEq, Prod.mk.injEq] at h
      rw [← h.2]
      exact excl_inv_mutex_update_same cfg _ id.toNat _
        (excl_inv_mutex_update_same cfg s id.toNat _ hinv rfl) rfl

/-- The invariant survives `kmutex_unlock`. -/
theorem excl_inv_kmutex_unlock (cfg : kconfig) (s s' : kernel_t) (id rc : Int)
    (hinv : excl_inv cfg s) (h : kmutex_unlock cfg s id = some (rc, s')) :
    excl_inv cfg s' := by
  unfold kmutex_unlock at h
  simp only at h
  split at h
  · simp only [Option.some.injEq, Prod.mk.injEq] at h
    rw [← h.2]
    exact hinv
  · split at h
    · simp only [Option.some.injEq, Prod.mk.injEq] at h
      rw [← h.2]
      exact hinv
    · have hinv1 := excl_inv_mutex_update_same cfg s id.toNat
        (fun m => { m with locks := m.locks - 1 }) hinv rfl
      split at h
      · simp only [Option.some.injEq, Prod.mk.injEq] at h
        rw [← h.2]
        exact excl_inv_mutex_update_same cfg _ id.toNat _ hinv1 rfl
      · obtain ⟨w1, w2, w3⟩ := mutex_dequeue_waits cfg
          (mutex_update s id.toNat (fun m => { m with locks := m.locks - 1 })) id.toNat (-1)
          hinv1.2.1
        split at h
        · rename_i hrc
          simp only [Option.some.injEq, Prod.mk.injEq] at h
          rw [← h.2]
          exact excl_inv_frame cfg _ _ hinv1 (frame_eq_mutex_update _ _ _)
            (w2 (by simpa using hrc)) w1 hinv1.2.2
        · rename_i hrc
          split at h
          · simp at h
          · rename_i s3 hadd
            simp only [Option.some.injEq, Prod.mk.injEq] at h
            rw [← h.2]
            obtain ⟨hinv3, _, _⟩ := excl_inv_wake cfg _ _ s3 _ hinv1
              (frame_eq_mutex_update _ _ _) (w3 (by simpa using hrc)) w1 hinv1.2.2 hadd
            exact excl_inv_mutex_update_same cfg s3 id.toNat _ hinv3 rfl

/-- The invariant survives `ksem_wait` by a process other than the idle process. -/
theorem excl_inv_ksem_wait (cfg : kconfig) (s s' : kernel_t) (id rc : Int)
    (hinv : excl_inv cfg s)
    (huser : ∀ a, s.active_proc = some a → (proc_at s a).pid ≠ 0)
    (h : ksem_wait cfg s id = some (rc, s')) : excl_inv cfg s' := by
  unfold ksem_wait at h
  simp only at h
  split at h
  · simp only [Option.some.injEq, Prod.mk.injEq] at h
    rw [← h.2]
    exact hinv
  · split at h
    · simp only [Option.some.injEq, Prod.mk.injEq] at h
      rw [← h.2]
      exact hinv
    · split at h
      · split at h
        · simp only [Option.some.injEq, Prod.mk.injEq] at h
          rw [← h.2]
          exact hinv
        · rename_i a ha
          have hinv1 := excl_inv_proc_update cfg s a
            (fun x => { x with state := proc_state_t.WAITING }) (fun _ => rfl) hinv
          have hpa : (proc_at (proc_update s a
              (fun x => { x with state := proc_state_t.WAITING })) a).pid ≠ 0 := by
            rw [proc_update_pid s a a (fun x => { x with state := proc_state_t.WAITING })
              (fun _ => rfl)]
            exact huser a ha
          obtain ⟨w1, w2, w3⟩ := sem_enqueue_waits cfg
            (proc_update s a (fun x => { x with state := proc_state_t.WAITING })) id.toNat
            (proc_at (proc_update s a
              (fun x => { x with state := proc_state_t.WAITING })) a).pid hinv1.2.2
          split at h
          · rename_i hrc
            simp only [Option.some.injEq, Prod.mk.injEq] at h
            rw [← h.2]
            exact excl_inv_frame cfg _ _ hinv1 (frame_eq_sem_update _ _ _)
              (w3 (by simpa using hrc)) hinv1.2.1 w2
          · split at h
            · simp at h
            · rename_i s3 hrem
              simp only [Option.some.injEq, Prod.mk.injEq] at h
              rw [← h.2]
              exact excl_inv_park cfg _ _ s3 a hinv1 ha hpa
                (frame_eq_sem_update _ _ _) w1 hinv1.2.1 w2 hrem
      · split at h
        · simp only [Option.some.injEq, Prod.mk.injEq] at h
          rw [← h.2]
          exact excl_inv_sem_update_same cfg s id.toNat _ hinv rfl
        · simp only [Option.some.injEq, Prod.mk.injEq] at h
          rw [← h.2]
          exact hinv

/-- The invariant survives `ksem_post`. -/
theorem excl_inv_ksem_post (cfg : kconfig) (s s' : kernel_t) (id rc : Int)
    (hinv : excl_inv cfg s) (h : ksem_post cfg s id = some (rc, s')) :
    excl_inv cfg s' := by
  unfold ksem_post at h
  simp only at h
  split at h
  · simp at h
  · split at h
    · simp only [Option.some.injEq, Prod.mk.injEq] at h
      rw [← h.2]
      exact hinv
    · have hinv1 := excl_inv_sem_update_same cfg s id.toNat
        (fun m => { m with count := m.count + 1 }) hinv rfl
      split at h
      · obtain ⟨w1, w2, w3⟩ := sem_dequeue_waits cfg
          (sem_update s id.toNat (fun m => { m with count := m.count + 1 })) id.toNat (-1)
          hinv1.2.2
        split at h
        · rename_i hrc
          simp only [Option.some.injEq, Prod.mk.injEq] at h
          rw [← h.2]
          exact excl_inv_frame cfg _ _ hinv1 (frame_eq_sem_update _ _ _)
            (w2 (by simpa using hrc)) hinv1.2.1 w1
        · rename_i hrc
          split at h
          · simp at h
          · rename_i s3 hadd
            simp only [Option.some.injEq, Prod.mk.injEq] at h
            rw [← h.2]
            obtain ⟨hinv3, _, _⟩ := excl_inv_wake cfg _ _ s3 _ hinv1
              (frame_eq_sem_update _ _ _) (w3 (by simpa using hrc)) hinv1.2.1 w1 hadd
            exact excl_inv_sem_update_same cfg s3 id.toNat _ hinv3 rfl
      · simp only [Option.some.injEq, Prod.mk.injEq] at h
        rw [← h.2]
        exact hinv1

/-- What `kproc_attach_tty` leaves alone: everything but the I/O bindings of one slot. -/
theorem kproc_attach_tty_frame (cfg : kconfig) (s : kernel_t) (pid tty : Int) :
    frame_eq s (kproc_attach_tty cfg s pid tty).2 ∧
    (kproc_attach_tty cfg s pid tty).2.mutexes = s.mutexes ∧
    (kproc_attach_tty cfg s pid tty).2.semaphores = s.semaphores := by
  have hprops := kproc_attach_tty_props cfg s pid tty
  cases hp : pid_to_proc cfg s pid with
  | none =>
    simp only [kproc_attach_tty, hp]
    exact ⟨frame_eq_refl s, trivial, trivial⟩
  | some p =>
    cases ht : tty_get cfg tty with
    | none =>
      simp only [kproc_attach_tty, hp, ht]
      exact ⟨frame_eq_refl s, trivial, trivial⟩
    | some t =>
      simp only [kproc_attach_tty, hp, ht] at hprops ⊢
      exact ⟨⟨hprops.2.2.1, rfl, hprops.2.2.2, rfl, rfl, rfl, rfl⟩, trivial, trivial⟩

theorem excl_weak_attach (cfg : kconfig) (s : kernel_t) (pid tty : Int)
    (hinv : excl_weak cfg s) : excl_weak cfg (kproc_attach_tty cfg s pid tty).2 := by
  obtain ⟨⟨f1, f2, f3, f4, f5, f6, f7⟩, hm, hs⟩ := kproc_attach_tty_frame cfg s pid tty
  exact excl_weak_congr cfg s _ hinv f1 f2 f3 f4 f5 f6 f7
    (by rw [wait_pids_congr cfg s _ hm hs])

theorem boot_inv_shell (cfg : kconfig) (s0 s s' : kernel_t) (m : Nat)
    (h : kproc_init_shell cfg s m = some s')
    (hI : excl_weak cfg s ∧ s.mutexes = s0.mutexes ∧ s.semaphores = s0.semaphores) :
    excl_weak cfg s' ∧ s'.mutexes = s0.mutexes ∧ s'.semaphores = s0.semaphores := by
  unfold kproc_init_shell at h
  cases hc : kproc_create cfg s cfg.prog_shell "shell" proc_type_t.PROC_TYPE_USER with
  | none => simp [hc] at h
  | some r =>
    obtain ⟨pid, s1⟩ := r
    simp only [hc, Option.some.injEq] at h
    obtain ⟨hw1, hm1, hs1⟩ := excl_weak_create cfg s s1 _ _ _ pid hI.1 hc
    subst h
    split
    · obtain ⟨_, hm, hs⟩ := kproc_attach_tty_frame cfg s1 pid (m : Int)
      exact ⟨excl_weak_attach cfg s1 pid _ hw1, by rw [hm, hm1, hI.2.1],
        by rw [hs, hs1, hI.2.2]⟩
    · exact ⟨hw1, by rw [hm1, hI.2.1], by rw [hs1, hI.2.2]⟩

theorem boot_inv_user (cfg : kconfig) (proc_ptr : Nat) (name : String) (s0 s s' : kernel_t)
    (i : Nat) (h : kproc_init_user cfg proc_ptr name s i = some s')
    (hI : excl_weak cfg s ∧ s.mutexes = s0.mutexes ∧ s.semaphores = s0.semaphores) :
    excl_weak cfg s' ∧ s'.mutexes = s0.mutexes ∧ s'.semaphores = s0.semaphores := by
  unfold kproc_init_user at h
  cases hc : kproc_create cfg s proc_ptr name proc_type_t.PROC_TYPE_USER with
  | none => simp [hc] at h
  | some r =>
    obtain ⟨pid, s1⟩ := r
    simp only [hc, Option.some.injEq] at h
    obtain ⟨hw1, hm1, hs1⟩ := excl_weak_create cfg s s1 _ _ _ pid hI.1 hc
    subst h
    obtain ⟨_, hm, hs⟩ := kproc_attach_tty_frame cfg s1 pid
      ((cfg.TTY_MAX : Int) - Int.tmod pid 2 - 1)
    exact ⟨excl_weak_attach cfg s1 pid _ hw1, by rw [hm, hm1, hI.2.1], by rw [hs, hs1, hI.2.2]⟩

theorem wait_pids_of_sizes (cfg : kconfig) (s : kernel_t)
    (hm : ∀ m ∈ s.mutexes, m.wait_queue.size = 0)
    (hs : ∀ m ∈ s.semaphores, m.wait_queue.size = 0) : wait_pids cfg s = [] := by
  unfold wait_pids
  have h1 : (s.mutexes.map (fun m => queue_contents cfg.QUEUE_SIZE m.wait_queue)).flatten = [] := by
    rw [List.flatten_eq_nil_iff]
    intro l hl
    obtain ⟨m, hmm, rfl⟩ := List.mem_map.1 hl
    simp [queue_contents, hm m hmm]
  have h2 : (s.semaphores.map (fun m => queue_contents cfg.QUEUE_SIZE m.wait_queue)).flatten
      = [] := by
    rw [List.flatten_eq_nil_iff]
    intro l hl
    obtain ⟨m, hmm, rfl⟩ := List.mem_map.1 hl
    simp [queue_contents, hs m hmm]
  rw [h1, h2]
  rfl

/-- The state after `scheduler_init` and `kproc_init` satisfies `excl_weak`, with the
mutex and semaphore tables untouched. -/
theorem boot_kproc_init (cfg : kconfig) (s0 s1 : kernel_t) (hmem : boot_memory cfg s0)
    (h : kproc_init cfg (scheduler_init cfg s0) = some s1) :
    excl_weak cfg s1 ∧ s1.mutexes = s0.mutexes ∧ s1.semaphores = s0.semaphores := by
  obtain ⟨hcap, hal, hrl, hsl, _, _, hmz, hsz, hact⟩ := hmem
  have hw0 : excl_weak cfg (kproc_init_reset cfg (scheduler_init cfg s0)) := by
    have hwp : wait_pids cfg (kproc_init_reset cfg (scheduler_init cfg s0)) = [] :=
      wait_pids_of_sizes cfg _ (fun m hm => (hmz m hm).2) (fun m hm => (hsz m hm).2)
    have hq : queued_pids cfg (kproc_init_reset cfg (scheduler_init cfg s0)) = [] := by
      unfold queued_pids
      rw [hwp]
      show queue_contents cfg.QUEUE_SIZE (queue_init cfg.QUEUE_SIZE s0.run_queue)
        ++ queue_contents cfg.QUEUE_SIZE (queue_init cfg.QUEUE_SIZE s0.sleep_queue) ++ [] = []
      rw [queue_init_contents, queue_init_contents]
      rfl
    refine ⟨pid_inv_reset cfg _, alloc_inv_reset cfg _ hcap hal,
      queue_init_wf cfg.QUEUE_SIZE s0.run_queue hrl,
      queue_init_wf cfg.QUEUE_SIZE s0.sleep_queue hsl, by rw [hq]; exact List.nodup_nil,
      fun p hp => by rw [hq] at hp; simp at hp, fun a ha => ?_⟩
    have : (kproc_init_reset cfg (scheduler_init cfg s0)).active_proc = none := hact
    rw [this] at ha
    simp at ha
  unfold kproc_init at h
  cases hc : kproc_create cfg (kproc_init_reset cfg (scheduler_init cfg s0)) cfg.kproc_idle "idle"
      proc_type_t.PROC_TYPE_KERNEL with
  | none => simp [hc] at h
  | some r =>
    obtain ⟨pid, t1⟩ := r
    simp only [hc] at h
    obtain ⟨hw1, hm1, hs1⟩ := excl_weak_create cfg _ t1 _ _ _ pid hw0 hc
    have hI1 : excl_weak cfg t1 ∧ t1.mutexes = s0.mutexes ∧ t1.semaphores = s0.semaphores :=
      ⟨hw1, hm1, hs1⟩
    cases h2 : for_each (kproc_init_shell cfg) [1, 2, 3, 4] t1 with
    | none => simp [h2] at h
    | some t2 =>
      simp only [h2] at h
      have hI2 := for_each_inv (kproc_init_shell cfg)
        (fun s => excl_weak cfg s ∧ s.mutexes = s0.mutexes ∧ s.semaphores = s0.semaphores)
        (fun s a s' hb hI => boot_inv_shell cfg s0 s s' a hb hI) _ t1 t2 h2 hI1
      cases h3 : for_each (kproc_init_user cfg cfg.prog_ping "ping") (List.range 3) t2 with
      | none => simp [h3] at h
      | some t3 =>
        simp only [h3] at h
        have hI3 := for_each_inv (kproc_init_user cfg cfg.prog_ping "ping")
          (fun s => excl_weak cfg s ∧ s.mutexes = s0.mutexes ∧ s.semaphores = s0.semaphores)
          (fun s a s' hb hI => boot_inv_user cfg _ _ s0 s s' a hb hI) _ t2 t3 h3 hI2
        exact for_each_inv (kproc_init_user cfg cfg.prog_pong "pong")
          (fun s => excl_weak cfg s ∧ s.mutexes = s0.mutexes ∧ s.semaphores = s0.semaphores)
          (fun s a s' hb hI => boot_inv_user cfg _ _ s0 s s' a hb hI) _ t3 s1 h hI3

/-- The state the boot leaves satisfies the invariant. -/
theorem boot_excl_inv (cfg : kconfig) (s0 sb : kernel_t) (hmem : boot_memory cfg s0)
    (h : boot cfg s0 = some sb) : excl_inv cfg sb := by
  unfold boot at h
  cases h1 : kproc_init cfg (scheduler_init cfg s0) with
  | none => simp [h1] at h
  | some s1 =>
    simp only [h1, Option.some.injEq] at h
    obtain ⟨hw1, hm1, hs1⟩ := boot_kproc_init cfg s0 s1 hmem h1
    obtain ⟨_, _, _, _, hml, hsl, hmz, hsz, _⟩ := hmem
    have hmwf : ∀ m ∈ sb.mutexes, queue_wf cfg.QUEUE_SIZE m.wait_queue ∧ m.wait_queue.size = 0 := by
      intro m hm
      rw [← h] at hm
      have hm' : m ∈ (List.range cfg.MUTEX_MAX).map (fun (i : Nat) =>
          ({ allocated := 0, locks := 0, owner := none,
             wait_queue := queue_init cfg.QUEUE_SIZE (mutex_at s1 i).wait_queue } : mutex_t)) := hm
      obtain ⟨i, hi, rfl⟩ := List.mem_map.1 hm'
      have hir : i < s1.mutexes.length := by
        rw [hm1, hml]
        exact List.mem_range.1 hi
      have hty := (hmz _ (by rw [← hm1]; exact mutex_at_mem s1 i hir)).1
      exact ⟨queue_init_wf cfg.QUEUE_SIZE _ hty, rfl⟩
    have hswf : ∀ m ∈ sb.semaphores,
        queue_wf cfg.QUEUE_SIZE m.wait_queue ∧ m.wait_queue.size = 0 := by
      intro m hm
      rw [← h] at hm
      have hm' : m ∈ (List.range cfg.SEM_MAX).map (fun (i : Nat) =>
          ({ allocated := 0, count := 0,
             wait_queue := queue_init cfg.QUEUE_SIZE
               (sem_at (kmutexes_init cfg s1).2 i).wait_queue } : sem_t)) := hm
      obtain ⟨i, hi, rfl⟩ := List.mem_map.1 hm'
      have hse : (kmutexes_init cfg s1).2.semaphores = s1.semaphores := rfl
      have hir : i < (kmutexes_init cfg s1).2.semaphores.length := by
        rw [hse, hs1, hsl]
        exact List.mem_range.1 hi
      have hty := (hsz _ (by
        rw [← hs1, ← hse]
        exact sem_at_mem (kmutexes_init cfg s1).2 i hir)).1
      exact ⟨queue_init_wf cfg.QUEUE_SIZE _ hty, rfl⟩
    have hwp : wait_pids cfg sb = [] :=
      wait_pids_of_sizes cfg sb (fun m hm => (hmwf m hm).2) (fun m hm => (hswf m hm).2)
    refine ⟨excl_weak_congr cfg s1 sb hw1 (by rw [← h]; rfl) (by rw [← h]; rfl)
      (fun j => by rw [← h]; rfl) (by rw [← h]; rfl) (by rw [← h]; rfl) (by rw [← h]; rfl)
      (by rw [← h]; rfl) (by rw [hwp]; exact nil_subperm _),
      fun m hm => (hmwf m hm).1, fun m hm => (hswf m hm).1⟩

/-- The invariant survives a system call handler, when the caller is not the idle
process. -/
theorem excl_inv_dispatch (cfg : kconfig) (s : kernel_t) (e : kernel_event)
    (r : Int × kernel_t) (hcap : cfg.PROC_MAX ≤ cfg.QUEUE_SIZE) (hinv : excl_inv cfg s)
    (huser : ∀ a, s.active_proc = some a → (proc_at s a).pid ≠ 0)
    (h : ksyscall_dispatch cfg s e = some r) : excl_inv cfg r.2 := by
  obtain ⟨rc, s'⟩ := r
  cases e with
  | tick => simp [ksyscall_dispatch] at h
  | run => simp [ksyscall_dispatch] at h
  | create p n t => simp [ksyscall_dispatch] at h
  | destroy p => simp [ksyscall_dispatch] at h
  | proc_sleep seconds =>
    simp only [ksyscall_dispatch, ksyscall_proc_sleep] at h
    split at h
    · simp only [Option.some.injEq, Prod.mk.injEq] at h
      rw [← h.2]
      exact hinv
    · cases hact : s.active_proc with
      | none =>
        rw [hact] at h
        simp [scheduler_sleep] at h
      | some a =>
        rw [hact] at h
        split at h
        · simp at h
        · rename_i s1 hs1
          simp only [Option.some.injEq, Prod.mk.injEq] at h
          rw [← h.2]
          exact excl_inv_sleep cfg s s1 a _ hinv hact (huser a hact) hs1
  | proc_exit =>
    simp only [ksyscall_dispatch, ksyscall_proc_exit] at h
    split at h
    · simp only [Option.some.injEq, Prod.mk.injEq] at h
      rw [← h.2]
      exact hinv
    · exact excl_inv_destroy cfg s s' _ rc hcap hinv h
  | mutex_init =>
    simp only [ksyscall_dispatch, ksyscall_mutex_init, Option.some.injEq] at h
    have := excl_inv_kmutex_init cfg s hinv
    rw [h] at this
    exact this
  | mutex_lock mutex =>
    simp only [ksyscall_dispatch, ksyscall_mutex_lock] at h
    split at h
    · simp only [Option.some.injEq, Prod.mk.injEq] at h
      rw [← h.2]
      exact hinv
    · exact excl_inv_kmutex_lock cfg s s' mutex rc hinv huser h
  | mutex_unlock mutex =>
    simp only [ksyscall_dispatch, ksyscall_mutex_unlock] at h
    split at h
    · simp only [Option.some.injEq, Prod.mk.injEq] at h
      rw [← h.2]
      exact hinv
    · exact excl_inv_kmutex_unlock cfg s s' mutex rc hinv h
  | sem_init value =>
    simp only [ksyscall_dispatch, ksyscall_sem_init, Option.some.injEq] at h
    split at h
    · simp only [Prod.mk.injEq] at h
      rw [← h.2]
      exact hinv
    · have := excl_inv_ksem_init cfg s value hinv
      rw [h] at this
      exact this
  | sem_wait sem =>
    simp only [ksyscall_dispatch, ksyscall_sem_wait] at h
    split at h
    · simp only [Option.some.injEq, Prod.mk.injEq] at h
      rw [← h.2]
      exact hinv
    · exact excl_inv_ksem_wait cfg s s' sem rc hinv huser h
  | sem_post sem =>
    simp only [ksyscall_dispatch, ksyscall_sem_post] at h
    split at h
    · simp only [Option.some.injEq, Prod.mk.injEq] at h
      rw [← h.2]
      exact hinv
    · exact excl_inv_ksem_post cfg s s' sem rc hinv h

/-- The invariant survives every transition of the kernel: a timer tick, a scheduling
pass, a creation, a destruction, and a system call of a process other than the idle one
with the scheduling pass that follows it. -/
theorem excl_inv_step (cfg : kconfig) (s s' : kernel_t) (e : kernel_event)
    (hcap : cfg.PROC_MAX ≤ cfg.QUEUE_SIZE) (hinv : excl_inv cfg s)
    (huser : e.is_syscall = true → ∀ a, s.active_proc = some a → (proc_at s a).pid ≠ 0)
    (h : kernel_step cfg s e = some s') : excl_inv cfg s' := by
  have hsys : ∀ e1 : kernel_event, e1.is_syscall = true →
      (∀ a, s.active_proc = some a → (proc_at s a).pid ≠ 0) →
      (match s.active_proc with
       | none => none
       | some _ =>
         match ksyscall_dispatch cfg s e1 with
         | none => none
         | some r => scheduler_run cfg r.2) = some s' → excl_inv cfg s' := by
    intro e1 _ hu h1
    split at h1
    · simp at h1
    · split at h1
      · simp at h1
      · rename_i r hr
        have hi := excl_inv_dispatch cfg s e1 r hcap hinv hu hr
        exact excl_inv_run cfg r.2 s' hi (scheduler_run_rel cfg r.2 s' hi.1.2.2.1 h1)
  cases e with
  | tick =>
    simp only [kernel_step, tick] at h
    split at h
    · simp at h
    · rename_i t ht
      have hrel := (scheduler_timer_spec cfg s hinv.1.2.2.1 hinv.1.2.2.2.1).1 t ht
      have hi := excl_inv_timer cfg s t hinv hrel
      exact excl_inv_run cfg t s' hi (scheduler_run_rel cfg t s' hi.1.2.2.1 h)
  | run =>
    simp only [kernel_step] at h
    exact excl_inv_run cfg s s' hinv (scheduler_run_rel cfg s s' hinv.1.2.2.1 h)
  | create p n t =>
    simp only [kernel_step, Option.map_eq_some', Prod.exists, exists_eq_right] at h
    obtain ⟨rc, hc⟩ := h
    obtain ⟨hw, hm, hs⟩ := excl_weak_create cfg s s' p n t rc hinv.1 hc
    exact ⟨hw, by rw [hm]; exact hinv.2.1, by rw [hs]; exact hinv.2.2⟩
  | destroy p =>
    simp only [kernel_step, Option.map_eq_some', Prod.exists, exists_eq_right] at h
    obtain ⟨rc, hc⟩ := h
    exact excl_inv_destroy cfg s s' p rc hcap hinv hc
  | proc_sleep seconds => exact hsys (kernel_event.proc_sleep seconds) rfl (huser rfl) (by simpa only [kernel_step] using h)
  | proc_exit => exact hsys kernel_event.proc_exit rfl (huser rfl) (by simpa only [kernel_step] using h)
  | mutex_init => exact hsys kernel_event.mutex_init rfl (huser rfl) (by simpa only [kernel_step] using h)
  | mutex_lock m => exact hsys (kernel_event.mutex_lock m) rfl (huser rfl) (by simpa only [kernel_step] using h)
  | mutex_unlock m => exact hsys (kernel_event.mutex_unlock m) rfl (huser rfl) (by simpa only [kernel_step] using h)
  | sem_init v => exact hsys (kernel_event.sem_init v) rfl (huser rfl) (by simpa only [kernel_step] using h)
  | sem_wait m => exact hsys (kernel_event.sem_wait m) rfl (huser rfl) (by simpa only [kernel_step] using h)
  | sem_post m => exact hsys (kernel_event.sem_post m) rfl (huser rfl) (by simpa only [kernel_step] using h)

/-- The invariant holds after any sequence of transitions in which the idle process makes
no system call. -/
theorem excl_inv_kernel_run (cfg : kconfig) (hcap : cfg.PROC_MAX ≤ cfg.QUEUE_SIZE)
    (events : List kernel_event) :
    ∀ s s' : kernel_t, excl_inv cfg s → kernel_run cfg s events = some s' →
      syscalls_by_users cfg s events = true → excl_inv cfg s' := by
  induction events with
  | nil =>
    intro s s' hinv h _
    simp only [kernel_run, Option.some.injEq] at h
    rw [← h]
    exact hinv
  | cons e es ih =>
    intro s s' hinv h hu
    simp only [kernel_run] at h
    simp only [syscalls_by_users, Bool.and_eq_true, Bool.or_eq_true, Bool.not_eq_true'] at hu
    cases hs : kernel_step cfg s e with
    | none => rw [hs] at h; simp at h
    | some s1 =>
      rw [hs] at h hu
      simp only at h hu
      refine ih s1 s' (excl_inv_step cfg s s1 e hcap hinv ?_ hs) h hu.2
      intro hsys a ha
      rcases hu.1 with hn | hp
      · rw [hsys] at hn
        cases hn
      · rw [ha] at hp
        simpa using hp

/-- C13: state exclusivity. From memory as the loader leaves it (tables of the declared
sizes, wait queues and `active_proc` zeroed), after the boot of main.c and any sequence
of timer ticks, scheduling passes, system calls of the active process (sleep, exit, mutex
init, lock and unlock, semaphore init, wait and post, each followed by `scheduler_run`),
`kproc_create` and `kproc_destroy` calls that the kernel survives, and in which the idle
process makes no system call, every pid above 0 occurs at most once in the run queue, the
sleep queue and all the wait queues of mutexes and semaphores taken together, and the pid
of `active_proc` occurs in none of them. -/
theorem state_exclusivity (cfg : kconfig) (s0 sb s : kernel_t) (events : List kernel_event)
    (hmem : boot_memory cfg s0) (hboot : boot cfg s0 = some sb)
    (hrun : kernel_run cfg sb events = some s)
    (husers : syscalls_by_users cfg sb events = true) :
    (∀ p, 0 < p → (queued_pids cfg s).count p ≤ 1) ∧
    (∀ a, s.active_proc = some a → (proc_at s a).pid ∉ queued_pids cfg s) := by
  have hinv := excl_inv_kernel_run cfg hmem.1 events sb s
    (boot_excl_inv cfg s0 sb hmem hboot) hrun husers
  exact ⟨fun p _ => List.nodup_iff_count_le_one.1 hinv.1.2.2.2.2.1 p,
    fun a ha => (hinv.1.2.2.2.2.2.2 a ha).2⟩

theorem state_exclusivity_witness :
    boot_memory rr_config rr_start ∧ boot rr_config rr_start = some excl_booted ∧
    kernel_run rr_config excl_booted excl_events = some excl_final ∧
    syscalls_by_users rr_config excl_booted excl_events = true ∧
    queued_pids rr_config excl_final = [2, 3, 1] ∧
    (∀ p, 0 < p → (queued_pids rr_config excl_final).count p ≤ 1) ∧
    (∀ a, excl_final.active_proc = some a →
      (proc_at excl_final a).pid ∉ queued_pids rr_config excl_final) :=
  have hm : boot_memory rr_config rr_start := by
    unfold boot_memory
    decide
  ⟨hm, by decide, by decide, by decide, by decide,
    state_exclusivity rr_config rr_start excl_booted excl_final excl_events hm
      (by decide) (by decide) (by decide)⟩

/-! ## C23 and C26: ids that are not allocated, and the return value of a post -/

/-- C23 fails in the code: `kmutex_lock`, `kmutex_unlock` and `kmutex_destroy` never look
at `allocated`. On the machine after the boot with A (slot 1) active, where no mutex has
been handed out, mutex 0 has `allocated = 0`; yet `kmutex_lock(0)` returns 1 and makes A
the owner with lock count 1, `kmutex_unlock(0)` returns 0, and `kmutex_destroy(0)` returns
0 and queues the id 0, which is on the id queue already, a second time. -/
theorem kmutex_calls_accept_unallocated :
    (mutex_at rr_running 0).allocated = 0 ∧
    (∃ s', kmutex_lock rr_config rr_running 0 = some (1, s') ∧
      (mutex_at s' 0).owner = some 1 ∧ (mutex_at s' 0).locks = 1 ∧
      (mutex_at rr_running 0).owner = none ∧ (mutex_at rr_running 0).locks = 0) ∧
    kmutex_unlock rr_config rr_running 0 = some (0, rr_running) ∧
    queue_contents 4 rr_running.mutex_queue = [0, 1] ∧
    (∀ free : mutex_t → mutex_t,
      (kmutex_destroy rr_config free rr_running 0).1 = 0 ∧
      queue_contents 4 (kmutex_destroy rr_config free rr_running 0).2.mutex_queue
        = [0, 1, 0]) := by
  refine ⟨by decide, ⟨((kmutex_lock rr_config rr_running 0).map Prod.snd).getD rr_running,
    by decide, by decide, by decide, by decide, by decide⟩, by decide, by decide, ?_⟩
  intro free
  have h0 : ¬ ((0 : Int) < 0 ∨ (0 : Int) ≥ (rr_config.MUTEX_MAX : Int)) := by decide
  have h1 : ¬ (mutex_at rr_running (0 : Int).toNat).locks > 0 := by decide
  have h2 : ((queue_in rr_config.QUEUE_SIZE rr_running.mutex_queue 0).1 != 0) = false := by
    decide
  have h3 : queue_contents 4 (queue_in rr_config.QUEUE_SIZE rr_running.mutex_queue 0).2
      = [0, 1, 0] := by decide
  simp only [kmutex_destroy, if_neg h0, if_neg h1, h2, Bool.false_eq_true, if_false]
  exact ⟨trivial, h3⟩

/-- C26 fails in the code: on semaphore 0, allocated with count 1 and nobody waiting,
`ksem_post` returns -1, not the count 2 that it leaves behind. -/
theorem ksem_post_returns_minus_one :
    (sem_at rr_sem 0).allocated = 1 ∧ (sem_at rr_sem 0).count = 1 ∧
    queue_contents 4 (sem_at rr_sem 0).wait_queue = [] ∧
    ∃ s', ksem_post rr_config rr_sem 0 = some (-1, s') ∧ (sem_at s' 0).count = 2 ∧
      (sem_at s' 0).allocated = 1 :=
  ⟨by decide, by decide, by decide,
    ((ksem_post rr_config rr_sem 0).map Prod.snd).getD rr_sem, by decide, by decide, by decide⟩

/-! ## C30: the return value of IO_WRITE -/

/-- C30 fails in the code as far as the return value goes: `ksyscall_io_write` returns
`size` whatever `ringbuf_write` returned. The active process (slot 1) writes the three
bytes 65, 66, 67 to its output buffer, the output buffer of TTY 1, which holds 55, 56, 57
and has one free cell of four: the byte 65 alone is stored, and the call returns 3, not
min(3, 1) = 1. -/
theorem ksyscall_io_write_returns_size :
    io_running.active_proc = some 1 ∧
    (proc_at io_running 1).io1 = some (io_ref.io_output 1) ∧
    ringbuf_inv 4 (io_load io_ttys (io_ref.io_output 1)) ∧
    ringbuf_contents 4 (io_load io_ttys (io_ref.io_output 1)) = [55, 56, 57] ∧
    (ksyscall_io_write 4 io_running io_ttys 1 (some [65, 66, 67]) 3).1 = 3 ∧
    ringbuf_contents 4
      (io_load (ksyscall_io_write 4 io_running io_ttys 1 (some [65, 66, 67]) 3).2
        (io_ref.io_output 1)) = [55, 56, 57, 65] := by
  refine ⟨by decide, by decide, ?_, by decide, by decide, by decide⟩
  unfold ringbuf_inv
  decide

/-! ## C29: `ksem_destroy` -/

/-- C29, as claimed, fails: semaphore 0 is allocated with count 0, and `ksem_destroy(0)`
returns -1 and leaves the machine, the id queue included, as it was, whatever `free`
does. -/
theorem ksem_destroy_refuses_zero_count :
    (sem_at rr_sem_zero 0).allocated = 1 ∧ (sem_at rr_sem_zero 0).count = 0 ∧
    queue_contents 4 rr_sem_zero.sem_queue = [1] ∧
    ∀ free : sem_t → sem_t, ksem_destroy rr_config free rr_sem_zero 0 = (-1, rr_sem_zero) := by
  refine ⟨by decide, by decide, by decide, ?_⟩
  intro free
  have h0 : ¬ ((0 : Int) < 0 ∨ (0 : Int) ≥ (rr_config.SEM_MAX : Int)) := by decide
  have h1 : ((sem_at rr_sem_zero (0 : Int).toNat).allocated == 0) = false := by decide
  have h2 : ((sem_at rr_sem_zero (0 : Int).toNat).count == 0) = true := by decide
  simp only [ksem_destroy, if_neg h0, h1, h2, Bool.false_eq_true, if_false, if_true]

/-- C29, amended: for an id in [0, SEM_MAX), `ksem_destroy` returns -1 and changes nothing
when the semaphore is not allocated, and also when it is allocated with count 0; when it
is allocated with a count other than 0 and the id queue has room, it returns 0, the id is
appended at the tail of the id queue, the table entry is what `free` makes of it and
nothing else changes; if the id queue was empty, the next `ksem_init` returns this id. -/
theorem ksem_destroy_spec (cfg : kconfig) (free : sem_t → sem_t) (s : kernel_t) (id : Int)
    (h0 : 0 ≤ id) (h1 : id < (cfg.SEM_MAX : Int)) :
    ((sem_at s id.toNat).allocated = 0 → ksem_destroy cfg free s id = (-1, s)) ∧
    ((sem_at s id.toNat).allocated ≠ 0 → (sem_at s id.toNat).count = 0 →
      ksem_destroy cfg free s id = (-1, s)) ∧
    ((sem_at s id.toNat).allocated ≠ 0 → (sem_at s id.toNat).count ≠ 0 →
      queue_wf cfg.QUEUE_SIZE s.sem_queue → queue_is_full cfg.QUEUE_SIZE s.sem_queue = false →
      ksem_destroy cfg free s id
        = (0, sem_update { s with sem_queue := (queue_in cfg.QUEUE_SIZE s.sem_queue id).2 }
            id.toNat free) ∧
      queue_wf cfg.QUEUE_SIZE (ksem_destroy cfg free s id).2.sem_queue ∧
      queue_contents cfg.QUEUE_SIZE (ksem_destroy cfg free s id).2.sem_queue
        = queue_contents cfg.QUEUE_SIZE s.sem_queue ++ [id] ∧
      (queue_contents cfg.QUEUE_SIZE s.sem_queue = [] →
        ∀ value, (ksem_init cfg (ksem_destroy cfg free s id).2 value).1 = id)) := by
  have hr : ¬ (id < 0 ∨ id ≥ (cfg.SEM_MAX : Int)) := by omega
  refine ⟨?_, ?_, ?_⟩
  · intro ha
    simp only [ksem_destroy, if_neg hr, ha, beq_self_eq_true, if_true]
  · intro ha hc
    have hb : ((sem_at s id.toNat).allocated == 0) = false := by simpa using ha
    simp only [ksem_destroy, if_neg hr, hb, hc, beq_self_eq_true, if_true,
      Bool.false_eq_true, if_false]
  · intro ha hc hwf hnf
    have hb : ((sem_at s id.toNat).allocated == 0) = false := by simpa using ha
    have hcb : ((sem_at s id.toNat).count == 0) = false := by simpa using hc
    obtain ⟨q1, q2, q3, q4⟩ := queue_in_spec cfg.QUEUE_SIZE s.sem_queue id hwf hnf
    have hrc : ((queue_in cfg.QUEUE_SIZE s.sem_queue id).1 != 0) = false := by
      rw [q1]; rfl
    have heq : ksem_destroy cfg free s id
        = (0, sem_update { s with sem_queue := (queue_in cfg.QUEUE_SIZE s.sem_queue id).2 }
            id.toNat free) := by
      simp only [ksem_destroy, if_neg hr, hb, hcb, hrc, Bool.false_eq_true, if_false]
    have hq : (ksem_destroy cfg free s id).2.sem_queue
        = (queue_in cfg.QUEUE_SIZE s.sem_queue id).2 := by
      rw [heq]; rfl
    refine ⟨heq, by rw [hq]; exact q2, by rw [hq]; exact q4, ?_⟩
    intro hemp value
    have hc4 : queue_contents cfg.QUEUE_SIZE (queue_in cfg.QUEUE_SIZE s.sem_queue id).2
        = [id] := by rw [q4, hemp]; rfl
    have hne : queue_is_empty (queue_in cfg.QUEUE_SIZE s.sem_queue id).2 = false := by
      cases he : queue_is_empty (queue_in cfg.QUEUE_SIZE s.sem_queue id).2 with
      | false => rfl
      | true =>
        rw [(queue_is_empty_iff cfg.QUEUE_SIZE _ q2).1 he] at hc4
        simp at hc4
    obtain ⟨o1, _, _, o4⟩ :=
      queue_out_spec cfg.QUEUE_SIZE (queue_in cfg.QUEUE_SIZE s.sem_queue id).2 (-1) q2 hne
    rw [hc4] at o4
    have hid : (queue_out cfg.QUEUE_SIZE (queue_in cfg.QUEUE_SIZE s.sem_queue id).2 (-1)).2.2
        = id := by
      have := List.head_eq_of_cons_eq o4
      exact this.symm
    have hrc2 : ((queue_out cfg.QUEUE_SIZE (queue_in cfg.QUEUE_SIZE s.sem_queue id).2 (-1)).1
        != 0) = false := by rw [o1]; rfl
    unfold ksem_init
    simp only [hq, hrc2, Bool.false_eq_true, if_false, hid, if_neg hr]

theorem ksem_destroy_spec_witness :
    (sem_at rr_sem 0).allocated = 1 ∧ (sem_at rr_sem 0).count = 1 ∧
    queue_contents 4 rr_sem.sem_queue = [1] ∧
    (ksem_destroy rr_config id rr_sem 0).1 = 0 ∧
    queue_contents 4 (ksem_destroy rr_config id rr_sem 0).2.sem_queue = [1, 0] := by
  obtain ⟨h1, _, h3, _⟩ := (ksem_destroy_spec rr_config id rr_sem 0 (by decide) (by decide)).2.2
    (by decide) (by decide) (by unfold queue_wf; decide) (by decide)
  refine ⟨by decide, by decide, by decide, by rw [h1], ?_⟩
  exact h3.trans (by decide)

/-! ## C21: `kmutex_unlock` -/

theorem pid_to_proc_mutex_update (cfg : kconfig) (s : kernel_t) (i : Nat)
    (f : mutex_t → mutex_t) (x : Int) :
    pid_to_proc cfg (mutex_update s i f) x = pid_to_proc cfg s x := rfl

theorem pid_to_proc_sem_update (cfg : kconfig) (s : kernel_t) (i : Nat)
    (f : sem_t → sem_t) (x : Int) :
    pid_to_proc cfg (sem_update s i f) x = pid_to_proc cfg s x := rfl

/-- The branch of `kmutex_unlock` that clears the owner. -/
theorem kmutex_unlock_last (cfg : kconfig) (s : kernel_t) (id : Int) (o : Nat)
    (h0 : 0 ≤ id) (h1 : id < (cfg.MUTEX_MAX : Int)) (hi : id.toNat < s.mutexes.length)
    (hown : (mutex_at s id.toNat).owner = some o) (hl : (mutex_at s id.toNat).locks = 1) :
    kmutex_unlock cfg s id
      = some (0, mutex_update (mutex_update s id.toNat
          (fun m => { m with locks := m.locks - 1 })) id.toNat
          (fun m => { m with owner := none })) := by
  have hr : ¬ (id < 0 ∨ id ≥ (cfg.MUTEX_MAX : Int)) := by omega
  have hi1 : id.toNat < (mutex_update s id.toNat
      (fun m => { m with locks := m.locks - 1 })).mutexes.length := by
    rw [mutex_update_length]; exact hi
  have hm1 : mutex_at (mutex_update s id.toNat (fun m => { m with locks := m.locks - 1 }))
      id.toNat = { mutex_at s id.toNat with locks := (mutex_at s id.toNat).locks - 1 } :=
    mutex_at_update_self _ _ _ hi
  have hm2 : (mutex_at (mutex_update (mutex_update s id.toNat
      (fun m => { m with locks := m.locks - 1 })) id.toNat
      (fun m => { m with owner := none })) id.toNat).locks = 0 := by
    rw [mutex_at_update_self _ _ _ hi1, hm1]
    show (mutex_at s id.toNat).locks - 1 = 0
    omega
  have hz : ((mutex_at (mutex_update s id.toNat (fun m => { m with locks := m.locks - 1 }))
      id.toNat).locks == 0) = true := by
    rw [hm1]
    show ((mutex_at s id.toNat).locks - 1 == 0) = true
    rw [hl]; rfl
  simp only [kmutex_unlock, if_neg hr, hown, hz, if_true, hm2]

/-- The branch of `kmutex_unlock` that hands the mutex to the head of the wait queue, up
to `scheduler_add`. -/
theorem kmutex_unlock_handoff (cfg : kconfig) (s : kernel_t) (id : Int) (o p : Nat)
    (h0 : 0 ≤ id) (h1 : id < (cfg.MUTEX_MAX : Int)) (hi : id.toNat < s.mutexes.length)
    (hown : (mutex_at s id.toNat).owner = some o) (hl : (mutex_at s id.toNat).locks ≠ 1)
    (hne : queue_is_empty (mutex_at s id.toNat).wait_queue = false)
    (hp : pid_to_proc cfg s
      (queue_out cfg.QUEUE_SIZE (mutex_at s id.toNat).wait_queue (-1)).2.2 = some p) :
    kmutex_unlock cfg s id
      = match scheduler_add cfg (mutex_update (mutex_update s id.toNat
            (fun m => { m with locks := m.locks - 1 })) id.toNat
            (fun m => { m with wait_queue :=
              (queue_out cfg.QUEUE_SIZE (mutex_at s id.toNat).wait_queue (-1)).2.1 }))
          (some p) with
        | none => none
        | some s3 =>
          some ((mutex_at (mutex_update s3 id.toNat (fun m => { m with owner := some p }))
              id.toNat).locks,
            mutex_update s3 id.toNat (fun m => { m with owner := some p })) := by
  have hr : ¬ (id < 0 ∨ id ≥ (cfg.MUTEX_MAX : Int)) := by omega
  have hm1 : mutex_at (mutex_update s id.toNat (fun m => { m with locks := m.locks - 1 }))
      id.toNat = { mutex_at s id.toNat with locks := (mutex_at s id.toNat).locks - 1 } :=
    mutex_at_update_self _ _ _ hi
  have hz : ((mutex_at (mutex_update s id.toNat (fun m => { m with locks := m.locks - 1 }))
      id.toNat).locks == 0) = false := by
    rw [hm1]
    show ((mutex_at s id.toNat).locks - 1 == 0) = false
    rw [beq_eq_false_iff_ne]
    omega
  have hwq : (mutex_at (mutex_update s id.toNat (fun m => { m with locks := m.locks - 1 }))
      id.toNat).wait_queue = (mutex_at s id.toNat).wait_queue := by
    rw [hm1]
  have hrc : (queue_out cfg.QUEUE_SIZE (mutex_at s id.toNat).wait_queue (-1)).1 = 0 :=
    (queue_out_nonempty cfg.QUEUE_SIZE _ (-1) hne).1
  simp only [kmutex_unlock, if_neg hr, hown, hz, Bool.false_eq_true, if_false, hwq, hrc,
    bne_self_eq_false, pid_to_proc_mutex_update, hp]

/-! ## The scheduler leaves the mutex and semaphore tables alone -/

theorem scheduler_add_sync (cfg : kconfig) (s s' : kernel_t) (proc : Option Nat)
    (h : scheduler_add cfg s proc = some s') :
    s'.mutexes = s.mutexes ∧ s'.mutex_queue = s.mutex_queue ∧
    s'.semaphores = s.semaphores ∧ s'.sem_queue = s.sem_queue := by
  cases proc with
  | none => simp [scheduler_add] at h
  | some p =>
    rw [scheduler_add_eq] at h
    split at h
    · simp only [Option.some.injEq] at h
      subst h
      exact ⟨rfl, rfl, rfl, rfl⟩
    · split at h
      · simp at h
      · simp only [Option.some.injEq] at h
        subst h
        exact ⟨rfl, rfl, rfl, rfl⟩

theorem scheduler_remove_sync (cfg : kconfig) (s s' : kernel_t) (proc : Option Nat)
    (h : scheduler_remove cfg s proc = some s') :
    s'.mutexes = s.mutexes ∧ s'.mutex_queue = s.mutex_queue ∧
    s'.semaphores = s.semaphores ∧ s'.sem_queue = s.sem_queue := by
  unfold scheduler_remove at h
  cases proc with
  | none =>
    simp only [Option.some.injEq] at h
    subst h
    exact ⟨rfl, rfl, rfl, rfl⟩
  | some p =>
    simp only at h
    split at h
    · simp at h
    · split at h
      · simp only [Option.some.injEq] at h
        subst h
        exact ⟨rfl, rfl, rfl, rfl⟩
      · split at h <;>
        · simp only [Option.some.injEq] at h
          subst h
          exact ⟨rfl, rfl, rfl, rfl⟩

theorem scheduler_run_sync (cfg : kconfig) (s s' : kernel_t)
    (h : scheduler_run cfg s = some s') :
    s'.mutexes = s.mutexes ∧ s'.mutex_queue = s.mutex_queue ∧
    s'.semaphores = s.semaphores ∧ s'.sem_queue = s.sem_queue := by
  unfold scheduler_run at h
  cases hp : scheduler_run_preempt cfg s with
  | none => rw [hp] at h; simp at h
  | some sp =>
    rw [hp] at h
    simp only at h
    have h1 : sp.mutexes = s.mutexes ∧ sp.mutex_queue = s.mutex_queue ∧
        sp.semaphores = s.semaphores ∧ sp.sem_queue = s.sem_queue := by
      unfold scheduler_run_preempt at hp
      simp only at hp
      have hs1 : ∀ s1 : kernel_t, s1 = (match s.active_proc with
          | some a =>
            if (proc_at s a).state != proc_state_t.ACTIVE then { s with active_proc := none }
            else s
          | none => s) →
          s1.mutexes = s.mutexes ∧ s1.mutex_queue = s.mutex_queue ∧
          s1.semaphores = s.semaphores ∧ s1.sem_queue = s.sem_queue := by
        intro s1 e
        subst e
        split
        · split <;> exact ⟨rfl, rfl, rfl, rfl⟩
        · exact ⟨rfl, rfl, rfl, rfl⟩
      generalize hg : (match s.active_proc with
          | some a =>
            if (proc_at s a).state != proc_state_t.ACTIVE then { s with active_proc := none }
            else s
          | none => s) = s1 at hp
      obtain ⟨g1, g2, g3, g4⟩ := hs1 s1 hg.symm
      split at hp
      · simp only [Option.some.injEq] at hp
        subst hp
        exact ⟨g1, g2, g3, g4⟩
      · split at hp
        · split at hp
          · split at hp
            · simp at hp
            · rename_i s3 hadd
              simp only [Option.some.injEq] at hp
              subst hp
              obtain ⟨k1, k2, k3, k4⟩ := scheduler_add_sync cfg _ s3 _ hadd
              exact ⟨k1.trans g1, k2.trans g2, k3.trans g3, k4.trans g4⟩
          · simp only [Option.some.injEq] at hp
            subst hp
            exact ⟨g1, g2, g3, g4⟩
        · simp only [Option.some.injEq] at hp
          subst hp
          exact ⟨g1, g2, g3, g4⟩
    obtain ⟨g1, g2, g3, g4⟩ := h1
    unfold scheduler_run_select at h
    simp only at h
    split at h
    · simp at h
    · rename_i a ha
      simp only [Option.some.injEq] at h
      subst h
      have h2 : ∀ s1 : kernel_t, s1 = (match sp.active_proc with
          | some _ => sp
          | none =>
            { sp with run_queue := (queue_out cfg.QUEUE_SIZE sp.run_queue 0).2.1,
                      active_proc := pid_to_proc cfg
                        { sp with run_queue := (queue_out cfg.QUEUE_SIZE sp.run_queue 0).2.1 }
                        (if (queue_out cfg.QUEUE_SIZE sp.run_queue 0).1 != 0 then 0
                          else (queue_out cfg.QUEUE_SIZE sp.run_queue 0).2.2) }) →
          s1.mutexes = sp.mutexes ∧ s1.mutex_queue = sp.mutex_queue ∧
          s1.semaphores = sp.semaphores ∧ s1.sem_queue = sp.sem_queue := by
        intro s1 e
        subst e
        split <;> exact ⟨rfl, rfl, rfl, rfl⟩
      obtain ⟨k1, k2, k3, k4⟩ := h2 _ rfl
      exact ⟨k1.trans g1, k2.trans g2, k3.trans g3, k4.trans g4⟩

theorem scheduler_timer_loop_sync (cfg : kconfig) :
    ∀ (fuel : Nat) (i : Int) (s : kernel_t) (pid : Int) (s' : kernel_t),
      scheduler_timer_loop cfg fuel i s pid = some s' →
      s'.mutexes = s.mutexes ∧ s'.mutex_queue = s.mutex_queue ∧
      s'.semaphores = s.semaphores ∧ s'.sem_queue = s.sem_queue := by
  intro fuel
  induction fuel with
  | zero =>
    intro i s pid s' h
    simp [scheduler_timer_loop] at h
  | succ fuel ih =>
    intro i s pid s' h
    unfold scheduler_timer_loop at h
    simp only at h
    split at h
    · split at h
      · exact (by have hh := ih _ _ _ _ h; exact hh)
      · split at h
        · exact (by have hh := ih _ _ _ _ h; exact hh)
        · split at h
          · split at h
            · simp at h
            · rename_i s3 hadd
              obtain ⟨k1, k2, k3, k4⟩ := scheduler_add_sync cfg _ s3 _ hadd
              obtain ⟨g1, g2, g3, g4⟩ := ih _ _ _ _ h
              exact ⟨g1.trans k1, g2.trans k2, g3.trans k3, g4.trans k4⟩
          · exact (by have hh := ih _ _ _ _ h; exact hh)
    · simp only [Option.some.injEq] at h
      subst h
      exact ⟨rfl, rfl, rfl, rfl⟩

theorem scheduler_timer_sync (cfg : kconfig) (s s' : kernel_t)
    (h : scheduler_timer cfg s = some s') :
    s'.mutexes = s.mutexes ∧ s'.mutex_queue = s.mutex_queue ∧
    s'.semaphores = s.semaphores ∧ s'.sem_queue = s.sem_queue := by
  have hc : (scheduler_timer_charge s).mutexes = s.mutexes ∧
      (scheduler_timer_charge s).mutex_queue = s.mutex_queue ∧
      (scheduler_timer_charge s).semaphores = s.semaphores ∧
      (scheduler_timer_charge s).sem_queue = s.sem_queue := by
    unfold scheduler_timer_charge
    split <;> exact ⟨rfl, rfl, rfl, rfl⟩
  have he : scheduler_timer cfg s
      = if !queue_is_empty (scheduler_timer_charge s).sleep_queue then
          scheduler_timer_loop cfg ((scheduler_timer_charge s).sleep_queue.size.toNat + 1) 0
            (scheduler_timer_charge s) 0
        else some (scheduler_timer_charge s) := rfl
  rw [he] at h
  obtain ⟨g1, g2, g3, g4⟩ := hc
  split at h
  · obtain ⟨k1, k2, k3, k4⟩ := scheduler_timer_loop_sync cfg _ _ _ _ _ h
    exact ⟨k1.trans g1, k2.trans g2, k3.trans g3, k4.trans g4⟩
  · simp only [Option.some.injEq] at h
    subst h
    exact ⟨g1, g2, g3, g4⟩

theorem tick_sync (cfg : kconfig) (s s' : kernel_t) (h : tick cfg s = some s') :
    s'.mutexes = s.mutexes ∧ s'.mutex_queue = s.mutex_queue ∧
    s'.semaphores = s.semaphores ∧ s'.sem_queue = s.sem_queue := by
  unfold tick at h
  split at h
  · simp at h
  · rename_i t ht
    obtain ⟨g1, g2, g3, g4⟩ := scheduler_timer_sync cfg s t ht
    obtain ⟨k1, k2, k3, k4⟩ := scheduler_run_sync cfg t s' h
    exact ⟨k1.trans g1, k2.trans g2, k3.trans g3, k4.trans g4⟩

/-- C21: `kmutex_unlock` on the mutex `id` of a full-size mutex table. Without an owner
the call returns 0 and the machine is unchanged. With an owner and lock-count 1 it
returns 0, the owner is null and the lock-count 0 afterwards, and nothing else changes.
With an owner, lock-count at least 2, a well-formed wait queue w1, rest, where w1 is the
pid, other than 0, of a live process (slot `p`), and room on the well-formed run queue,
it returns the lock-count decreased by one; the wait queue is `rest` in its old order,
`p` is the owner, in state IDLE, its pid at the tail of the run queue; no other process
slot changes, and neither do `active_proc` and the sleep queue. -/
theorem kmutex_unlock_spec (cfg : kconfig) (s : kernel_t) (id : Int)
    (h0 : 0 ≤ id) (h1 : id < (cfg.MUTEX_MAX : Int))
    (hlen : s.mutexes.length = cfg.MUTEX_MAX) :
    ((mutex_at s id.toNat).owner = none → kmutex_unlock cfg s id = some (0, s)) ∧
    (∀ o, (mutex_at s id.toNat).owner = some o → (mutex_at s id.toNat).locks = 1 →
      ∃ s', kmutex_unlock cfg s id = some (0, s') ∧
        (mutex_at s' id.toNat).owner = none ∧ (mutex_at s' id.toNat).locks = 0 ∧
        (mutex_at s' id.toNat).wait_queue = (mutex_at s id.toNat).wait_queue ∧
        s'.proc_table = s.proc_table ∧ s'.run_queue = s.run_queue ∧
        s'.sleep_queue = s.sleep_queue ∧ s'.active_proc = s.active_proc) ∧
    (∀ o w1 rest p, (mutex_at s id.toNat).owner = some o →
      2 ≤ (mutex_at s id.toNat).locks →
      queue_wf cfg.QUEUE_SIZE (mutex_at s id.toNat).wait_queue →
      queue_contents cfg.QUEUE_SIZE (mutex_at s id.toNat).wait_queue = w1 :: rest →
      pid_to_proc cfg s w1 = some p → w1 ≠ 0 →
      queue_wf cfg.QUEUE_SIZE s.run_queue →
      queue_is_full cfg.QUEUE_SIZE s.run_queue = false →
      ∃ s', kmutex_unlock cfg s id = some ((mutex_at s id.toNat).locks - 1, s') ∧
        (mutex_at s' id.toNat).locks = (mutex_at s id.toNat).locks - 1 ∧
        (mutex_at s' id.toNat).owner = some p ∧
        queue_contents cfg.QUEUE_SIZE (mutex_at s' id.toNat).wait_queue = rest ∧
        (proc_at s' p).pid = w1 ∧ (proc_at s' p).state = proc_state_t.IDLE ∧
        queue_contents cfg.QUEUE_SIZE s'.run_queue
          = queue_contents cfg.QUEUE_SIZE s.run_queue ++ [w1] ∧
        (∀ j, j ≠ p → proc_at s' j = proc_at s j) ∧
        s'.active_proc = s.active_proc ∧ s'.sleep_queue = s.sleep_queue) := by
  have hi : id.toNat < s.mutexes.length := by omega
  have hr : ¬ (id < 0 ∨ id ≥ (cfg.MUTEX_MAX : Int)) := by omega
  have hi1 : id.toNat < (mutex_update s id.toNat
      (fun m => { m with locks := m.locks - 1 })).mutexes.length := by
    rw [mutex_update_length]; exact hi
  have hm1 : mutex_at (mutex_update s id.toNat (fun m => { m with locks := m.locks - 1 }))
      id.toNat = { mutex_at s id.toNat with locks := (mutex_at s id.toNat).locks - 1 } :=
    mutex_at_update_self _ _ _ hi
  refine ⟨?_, ?_, ?_⟩
  · intro hown
    simp only [kmutex_unlock, if_neg hr, hown]
  · intro o hown hl
    have hm2 : mutex_at (mutex_update (mutex_update s id.toNat
        (fun m => { m with locks := m.locks - 1 })) id.toNat
        (fun m => { m with owner := none })) id.toNat
        = { mutex_at s id.toNat with locks := (mutex_at s id.toNat).locks - 1,
                                      owner := none } := by
      rw [mutex_at_update_self _ _ _ hi1, hm1]
    refine ⟨_, kmutex_unlock_last cfg s id o h0 h1 hi hown hl, ?_, ?_, ?_, rfl, rfl, rfl, rfl⟩
    · rw [hm2]
    · rw [hm2]
      show (mutex_at s id.toNat).locks - 1 = 0
      omega
    · rw [hm2]
  · intro o w1 rest p hown hl hwq hc hp hw0 hrun hnf
    have hne : queue_is_empty (mutex_at s id.toNat).wait_queue = false := by
      cases he : queue_is_empty (mutex_at s id.toNat).wait_queue with
      | false => rfl
      | true =>
        rw [(queue_is_empty_iff cfg.QUEUE_SIZE _ hwq).1 he] at hc
        simp at hc
    obtain ⟨_, _, _, o4⟩ := queue_out_spec cfg.QUEUE_SIZE (mutex_at s id.toNat).wait_queue (-1)
      hwq hne
    rw [hc] at o4
    have hhead : (queue_out cfg.QUEUE_SIZE (mutex_at s id.toNat).wait_queue (-1)).2.2 = w1 :=
      (List.head_eq_of_cons_eq o4).symm
    have hrest : queue_contents cfg.QUEUE_SIZE
        (queue_out cfg.QUEUE_SIZE (mutex_at s id.toNat).wait_queue (-1)).2.1 = rest :=
      (List.tail_eq_of_cons_eq o4).symm
    obtain ⟨hpp, hp0, _, _⟩ := pid_to_proc_some cfg s w1 p hp
    have hpl : p < s.proc_table.length := proc_at_in_range s p (by omega)
    have hq := kmutex_unlock_handoff cfg s id o p h0 h1 hi hown (by omega) hne
      (by rw [hhead]; exact hp)
    have hi2 : id.toNat < (mutex_update (mutex_update s id.toNat
        (fun m => { m with locks := m.locks - 1 })) id.toNat
        (fun m => { m with wait_queue :=
          (queue_out cfg.QUEUE_SIZE (mutex_at s id.toNat).wait_queue (-1)).2.1 })).mutexes.length := by
      rw [mutex_update_length]; exact hi1
    have hm2 : mutex_at (mutex_update (mutex_update s id.toNat
        (fun m => { m with locks := m.locks - 1 })) id.toNat
        (fun m => { m with wait_queue :=
          (queue_out cfg.QUEUE_SIZE (mutex_at s id.toNat).wait_queue (-1)).2.1 })) id.toNat
        = { mutex_at s id.toNat with
            locks := (mutex_at s id.toNat).locks - 1,
            wait_queue := (queue_out cfg.QUEUE_SIZE (mutex_at s id.toNat).wait_queue (-1)).2.1 } := by
      rw [mutex_at_update_self _ _ _ hi1, hm1]
    generalize hs2 : mutex_update (mutex_update s id.toNat
        (fun m => { m with locks := m.locks - 1 })) id.toNat
        (fun m => { m with wait_queue :=
          (queue_out cfg.QUEUE_SIZE (mutex_at s id.toNat).wait_queue (-1)).2.1 }) = s2
      at hq hm2 hi2
    have e1 : s2.proc_table = s.proc_table := by rw [← hs2]; rfl
    have e2 : s2.run_queue = s.run_queue := by rw [← hs2]; rfl
    have e3 : s2.sleep_queue = s.sleep_queue := by rw [← hs2]; rfl
    have e4 : s2.active_proc = s.active_proc := by rw [← hs2]; rfl
    have e5 : ∀ j, proc_at s2 j = proc_at s j := fun j => by rw [← hs2]; rfl
    obtain ⟨s3, h3⟩ := scheduler_add_returns cfg s2 p (Or.inr (by rw [e2]; exact hnf))
    obtain ⟨_, _, a3, a4, _, _, a7, a8, _, a10⟩ :=
      scheduler_add_props cfg s2 s3 p h3 (by rw [e1]; exact hpl)
    obtain ⟨b1, _, _, _⟩ := scheduler_add_sync cfg s2 s3 _ h3
    obtain ⟨c1, _, c3⟩ := a10 (by rw [e5, hpp]; exact hw0)
    have hi3 : id.toNat < s3.mutexes.length := by rw [b1]; exact hi2
    have hm3 : mutex_at s3 id.toNat = mutex_at s2 id.toNat := by
      simp only [mutex_at, b1]
    have hm4 : mutex_at (mutex_update s3 id.toNat (fun m => { m with owner := some p })) id.toNat
        = { mutex_at s id.toNat with
            locks := (mutex_at s id.toNat).locks - 1,
            wait_queue := (queue_out cfg.QUEUE_SIZE (mutex_at s id.toNat).wait_queue (-1)).2.1,
            owner := some p } := by
      rw [mutex_at_update_self _ _ _ hi3, hm3, hm2]
    have hpj : ∀ j, proc_at (mutex_update s3 id.toNat (fun m => { m with owner := some p })) j
        = proc_at s3 j := fun j => rfl
    rw [h3] at hq
    simp only at hq
    refine ⟨mutex_update s3 id.toNat (fun m => { m with owner := some p }),
      ?_, ?_, ?_, ?_, ?_, ?_, ?_, ?_, ?_, ?_⟩
    · rw [hq, hm4]
    · rw [hm4]
    · rw [hm4]
    · rw [hm4]
      exact hrest
    · rw [hpj, a8, e5]
      exact hpp
    · rw [hpj, c1]
    · show queue_contents cfg.QUEUE_SIZE s3.run_queue = _
      rw [c3, e2, e5, hpp]
      exact (queue_in_spec cfg.QUEUE_SIZE _ _ hrun hnf).2.2.2
    · intro j hj
      rw [hpj, a7 j hj, e5]
    · show s3.active_proc = _
      rw [a4, e4]
    · show s3.sleep_queue = _
      rw [a3, e3]

theorem kmutex_unlock_spec_witness :
    (mutex_at rr_contended 0).owner = some 1 ∧ (mutex_at rr_contended 0).locks = 2 ∧
    queue_contents 4 (mutex_at rr_contended 0).wait_queue = [2] ∧
    (proc_at rr_contended 2).state = proc_state_t.WAITING ∧
    queue_contents 4 rr_contended.run_queue = [] ∧
    ∃ s', kmutex_unlock rr_config rr_contended 0 = some (1, s') ∧
      (mutex_at s' 0).locks = 1 ∧ (mutex_at s' 0).owner = some 2 ∧
      queue_contents 4 (mutex_at s' 0).wait_queue = [] ∧
      (proc_at s' 2).pid = 2 ∧ (proc_at s' 2).state = proc_state_t.IDLE ∧
      queue_contents 4 s'.run_queue = [2] := by
  obtain ⟨s', g1, g2, g3, g4, g5, g6, g7, _⟩ :=
    (kmutex_unlock_spec rr_config rr_contended 0 (by decide) (by decide) (by decide)).2.2
      1 2 [] 2 (by decide) (by decide) (by unfold queue_wf; decide) (by decide) (by decide)
      (by decide) (by unfold queue_wf; decide) (by decide)
  have hl : (mutex_at rr_contended (Int.toNat 0)).locks - 1 = 1 := by decide
  refine ⟨by decide, by decide, by decide, by decide, by decide, s', ?_, ?_, g3, g4, g5, g6, ?_⟩
  · rw [g1, hl]
  · exact g2.trans hl
  · exact g7.trans (by decide)

/-! ## C24: `ksem_wait` -/

theorem sem_at_update_self (s : kernel_t) (i : Nat) (f : sem_t → sem_t)
    (hi : i < s.semaphores.length) : sem_at (sem_update s i f) i = f (sem_at s i) := by
  simp only [sem_at, sem_update]
  rw [getD_set_eq, if_pos ⟨rfl, hi⟩]

theorem sem_at_update_other (s : kernel_t) (i j : Nat) (f : sem_t → sem_t)
    (hj : j ≠ i) : sem_at (sem_update s i f) j = sem_at s j := by
  simp only [sem_at, sem_update]
  rw [getD_set_eq, if_neg (fun hh => hj hh.1.symm)]

theorem sem_update_length (s : kernel_t) (i : Nat) (f : sem_t → sem_t) :
    (sem_update s i f).semaphores.length = s.semaphores.length := by
  simp [sem_update]

/-- The branch of `ksem_wait` that takes a unit of the count. -/
theorem ksem_wait_take (cfg : kconfig) (s : kernel_t) (id : Int)
    (h0 : 0 ≤ id) (h1 : id < (cfg.SEM_MAX : Int))
    (halloc : (sem_at s id.toNat).allocated ≠ 0) (hc : 0 < (sem_at s id.toNat).count) :
    ksem_wait cfg s id
      = some ((sem_at (sem_update s id.toNat (fun m => { m with count := m.count - 1 }))
            id.toNat).count,
          sem_update s id.toNat (fun m => { m with count := m.count - 1 })) := by
  have hr : ¬ (id < 0 ∨ id ≥ (cfg.SEM_MAX : Int)) := by omega
  have hb : ((sem_at s id.toNat).allocated == 0) = false := by simpa using halloc
  have hz : ((sem_at s id.toNat).count == 0) = false := by
    rw [beq_eq_false_iff_ne]; omega
  have hg : (sem_at s id.toNat).count > 0 := hc
  simp only [ksem_wait, if_neg hr, hb, hz, Bool.false_eq_true, if_false, if_pos hg]

/-- The branch of `ksem_wait` that parks the caller, up to `scheduler_remove`. -/
theorem ksem_wait_park (cfg : kconfig) (s : kernel_t) (id : Int) (a : Nat)
    (h0 : 0 ≤ id) (h1 : id < (cfg.SEM_MAX : Int))
    (halloc : (sem_at s id.toNat).allocated ≠ 0) (hc : (sem_at s id.toNat).count = 0)
    (hact : s.active_proc = some a)
    (hroom : queue_is_full cfg.QUEUE_SIZE (sem_at s id.toNat).wait_queue = false) :
    ksem_wait cfg s id
      = match scheduler_remove cfg
          (sem_update (proc_update s a (fun x => { x with state := proc_state_t.WAITING }))
            id.toNat (fun m => { m with wait_queue :=
              (queue_in cfg.QUEUE_SIZE (sem_at s id.toNat).wait_queue (proc_at s a).pid).2 }))
          (some a) with
        | none => none
        | some s3 => some (0, s3) := by
  have hr : ¬ (id < 0 ∨ id ≥ (cfg.SEM_MAX : Int)) := by omega
  have hb : ((sem_at s id.toNat).allocated == 0) = false := by simpa using halloc
  have hz : ((sem_at s id.toNat).count == 0) = true := by rw [hc]; rfl
  have hm : sem_at (proc_update s a (fun x => { x with state := proc_state_t.WAITING }))
      id.toNat = sem_at s id.toNat := rfl
  have hp : (proc_at (proc_update s a (fun x => { x with state := proc_state_t.WAITING })) a).pid
      = (proc_at s a).pid :=
    proc_update_pid s a a (fun x => { x with state := proc_state_t.WAITING }) (fun _ => rfl)
  have hrc : (queue_in cfg.QUEUE_SIZE (sem_at s id.toNat).wait_queue (proc_at s a).pid).1 = 0 := by
    rw [queue_in_rc, hroom]
    rfl
  simp only [ksem_wait, if_neg hr, hb, hz, hact, hm, hp, hrc, bne_self_eq_false,
    Bool.false_eq_true, if_false, if_true]

/-- C24: `ksem_wait` by the active process P (slot `a`) on the allocated semaphore `id` of
a full-size semaphore table, the run queue being well formed and duplicate-free. With a
positive count the call returns the count decreased by one, which is the new count; P is
still active, and the process table, the run queue, the sleep queue, the mutex table and
every wait queue of a semaphore are as before. With count 0 and room on the well-formed
wait queue it returns 0 with P in state WAITING, the wait queue being the old one
followed by P's pid, P's pid not on the run queue, `active_proc` null and the count still
0. -/
theorem ksem_wait_spec (cfg : kconfig) (s : kernel_t) (id : Int) (a : Nat)
    (h0 : 0 ≤ id) (h1 : id < (cfg.SEM_MAX : Int))
    (hlen : s.semaphores.length = cfg.SEM_MAX)
    (halloc : (sem_at s id.toNat).allocated ≠ 0)
    (hact : s.active_proc = some a) (ha : a < s.proc_table.length)
    (hrun : queue_wf cfg.QUEUE_SIZE s.run_queue)
    (hnd : (queue_contents cfg.QUEUE_SIZE s.run_queue).Nodup) :
    (0 < (sem_at s id.toNat).count →
      ∃ s', ksem_wait cfg s id = some ((sem_at s id.toNat).count - 1, s') ∧
        (sem_at s' id.toNat).count = (sem_at s id.toNat).count - 1 ∧
        s'.active_proc = some a ∧ s'.proc_table = s.proc_table ∧
        s'.run_queue = s.run_queue ∧ s'.sleep_queue = s.sleep_queue ∧
        s'.mutexes = s.mutexes ∧
        (∀ j, (sem_at s' j).wait_queue = (sem_at s j).wait_queue)) ∧
    ((sem_at s id.toNat).count = 0 →
      queue_wf cfg.QUEUE_SIZE (sem_at s id.toNat).wait_queue →
      queue_is_full cfg.QUEUE_SIZE (sem_at s id.toNat).wait_queue = false →
      ∃ s', ksem_wait cfg s id = some (0, s') ∧
        (proc_at s' a).state = proc_state_t.WAITING ∧
        (proc_at s' a).pid = (proc_at s a).pid ∧
        queue_contents cfg.QUEUE_SIZE (sem_at s' id.toNat).wait_queue
          = queue_contents cfg.QUEUE_SIZE (sem_at s id.toNat).wait_queue
              ++ [(proc_at s a).pid] ∧
        (proc_at s a).pid ∉ queue_contents cfg.QUEUE_SIZE s'.run_queue ∧
        s'.active_proc = none ∧
        (sem_at s' id.toNat).count = 0) := by
  have hi : id.toNat < s.semaphores.length := by omega
  constructor
  · intro hc
    have hm : sem_at (sem_update s id.toNat (fun m => { m with count := m.count - 1 })) id.toNat
        = { sem_at s id.toNat with count := (sem_at s id.toNat).count - 1 } :=
      sem_at_update_self _ _ _ hi
    refine ⟨sem_update s id.toNat (fun m => { m with count := m.count - 1 }), ?_, ?_, hact,
      rfl, rfl, rfl, rfl, ?_⟩
    · rw [ksem_wait_take cfg s id h0 h1 halloc hc, hm]
    · rw [hm]
    · intro j
      by_cases hj : j = id.toNat
      · rw [hj, hm]
      · rw [sem_at_update_other _ _ _ _ hj]
  · intro hc hwq hroom
    have hpid : ∀ j, (proc_at (sem_update (proc_update s a
        (fun x => { x with state := proc_state_t.WAITING })) id.toNat
        (fun m => { m with wait_queue :=
          (queue_in cfg.QUEUE_SIZE (sem_at s id.toNat).wait_queue (proc_at s a).pid).2 })) j).pid
        = (proc_at s j).pid := fun j =>
      proc_update_pid s a j (fun x => { x with state := proc_state_t.WAITING }) (fun _ => rfl)
    obtain ⟨s3, h3, _, _, htab, _, _, _, _, hse, _, _, _, hnot, _, hact1, _, _⟩ :=
      scheduler_remove_spec cfg (sem_update (proc_update s a
        (fun x => { x with state := proc_state_t.WAITING })) id.toNat
        (fun m => { m with wait_queue :=
          (queue_in cfg.QUEUE_SIZE (sem_at s id.toNat).wait_queue (proc_at s a).pid).2 }))
        a hrun hnd
    rw [hpid] at hnot
    have hm3 : sem_at s3 id.toNat = { sem_at s id.toNat with wait_queue :=
        (queue_in cfg.QUEUE_SIZE (sem_at s id.toNat).wait_queue (proc_at s a).pid).2 } := by
      have : sem_at s3 id.toNat = sem_at (sem_update (proc_update s a
          (fun x => { x with state := proc_state_t.WAITING })) id.toNat
          (fun m => { m with wait_queue :=
            (queue_in cfg.QUEUE_SIZE (sem_at s id.toNat).wait_queue (proc_at s a).pid).2 }))
          id.toNat := by
        simp only [sem_at, hse]
      rw [this, sem_at_update_self _ _ _ (by exact hi)]
      rfl
    have hp3 : proc_at s3 a = { proc_at s a with state := proc_state_t.WAITING } := by
      have : proc_at s3 a
          = proc_at (proc_update s a (fun x => { x with state := proc_state_t.WAITING })) a := by
        simp only [proc_at, htab, sem_update]
      rw [this, proc_at_update_self s a _ ha]
    refine ⟨s3, ?_, ?_, ?_, ?_, hnot, ?_, ?_⟩
    · rw [ksem_wait_park cfg s id a h0 h1 halloc hc hact hroom, h3]
    · rw [hp3]
    · rw [hp3]
    · rw [hm3]
      exact (queue_in_spec cfg.QUEUE_SIZE _ _ hwq hroom).2.2.2
    · exact hact1 a hact rfl
    · rw [hm3]
      exact hc

theorem ksem_wait_spec_witness :
    (sem_at rr_sem 0).count = 1 ∧ (sem_at rr_sem_zero 0).count = 0 ∧
    (∃ s', ksem_wait rr_config rr_sem 0 = some (0, s') ∧ (sem_at s' 0).count = 0 ∧
      s'.active_proc = some 1 ∧ s'.run_queue = rr_sem.run_queue) ∧
    (∃ s', ksem_wait rr_config rr_sem_zero 0 = some (0, s') ∧
      (proc_at s' 1).state = proc_state_t.WAITING ∧
      queue_contents 4 (sem_at s' 0).wait_queue = [1] ∧ s'.active_proc = none ∧
      (sem_at s' 0).count = 0) := by
  obtain ⟨s1, a1, a2, a3, _, a5, _⟩ :=
    (ksem_wait_spec rr_config rr_sem 0 1 (by decide) (by decide) (by decide) (by decide)
      (by decide) (by decide) (by unfold queue_wf; decide) (by decide)).1 (by decide)
  obtain ⟨s2, b1, b2, _, b4, _, b6, b7⟩ :=
    (ksem_wait_spec rr_config rr_sem_zero 0 1 (by decide) (by decide) (by decide) (by decide)
      (by decide) (by decide) (by unfold queue_wf; decide) (by decide)).2 (by decide)
      (by unfold queue_wf; decide) (by decide)
  have hl : (sem_at rr_sem (Int.toNat 0)).count - 1 = 0 := by decide
  refine ⟨by decide, by decide, ⟨s1, ?_, a2.trans hl, a3, a5⟩, ⟨s2, b1, b2, ?_, b6, b7⟩⟩
  · rw [a1, hl]
  · exact b4.trans (by decide)

/-! ## C25: `ksem_post` -/

/-- The branch of `ksem_post` without a waiter. -/
theorem ksem_post_empty (cfg : kconfig) (s : kernel_t) (id : Int)
    (h0 : 0 ≤ id) (h1 : id < (cfg.SEM_MAX : Int)) (hi : id.toNat < s.semaphores.length)
    (halloc : (sem_at s id.toNat).allocated ≠ 0)
    (he : queue_is_empty (sem_at s id.toNat).wait_queue = true) :
    ksem_post cfg s id
      = some (-1, sem_update s id.toNat (fun m => { m with count := m.count + 1 })) := by
  have hr : ¬ (id < 0 ∨ id ≥ (cfg.SEM_MAX : Int)) := by omega
  have hb : ((sem_at s id.toNat).allocated == 0) = false := by simpa using halloc
  have hm1 : sem_at (sem_update s id.toNat (fun m => { m with count := m.count + 1 }))
      id.toNat = { sem_at s id.toNat with count := (sem_at s id.toNat).count + 1 } :=
    sem_at_update_self _ _ _ hi
  have hwq : (sem_at (sem_update s id.toNat (fun m => { m with count := m.count + 1 }))
      id.toNat).wait_queue = (sem_at s id.toNat).wait_queue := by
    rw [hm1]
  simp only [ksem_post, if_neg hr, hb, Bool.false_eq_true, if_false, hwq, he, Bool.not_true]

/-- The branch of `ksem_post` that wakes the head of the wait queue, up to
`scheduler_add`. -/
theorem ksem_post_handoff (cfg : kconfig) (s : kernel_t) (id : Int) (p : Nat)
    (h0 : 0 ≤ id) (h1 : id < (cfg.SEM_MAX : Int)) (hi : id.toNat < s.semaphores.length)
    (halloc : (sem_at s id.toNat).allocated ≠ 0)
    (hne : queue_is_empty (sem_at s id.toNat).wait_queue = false)
    (hp : pid_to_proc cfg s
      (queue_out cfg.QUEUE_SIZE (sem_at s id.toNat).wait_queue (-1)).2.2 = some p) :
    ksem_post cfg s id
      = match scheduler_add cfg (sem_update (sem_update s id.toNat
            (fun m => { m with count := m.count + 1 })) id.toNat
            (fun m => { m with wait_queue :=
              (queue_out cfg.QUEUE_SIZE (sem_at s id.toNat).wait_queue (-1)).2.1 }))
          (some p) with
        | none => none
        | some s3 =>
          some ((sem_at (sem_update s3 id.toNat (fun m => { m with count := m.count - 1 }))
              id.toNat).count,
            sem_update s3 id.toNat (fun m => { m with count := m.count - 1 })) := by
  have hr : ¬ (id < 0 ∨ id ≥ (cfg.SEM_MAX : Int)) := by omega
  have hb : ((sem_at s id.toNat).allocated == 0) = false := by simpa using halloc
  have hm1 : sem_at (sem_update s id.toNat (fun m => { m with count := m.count + 1 }))
      id.toNat = { sem_at s id.toNat with count := (sem_at s id.toNat).count + 1 } :=
    sem_at_update_self _ _ _ hi
  have hwq : (sem_at (sem_update s id.toNat (fun m => { m with count := m.count + 1 }))
      id.toNat).wait_queue = (sem_at s id.toNat).wait_queue := by
    rw [hm1]
  have hrc : (queue_out cfg.QUEUE_SIZE (sem_at s id.toNat).wait_queue (-1)).1 = 0 :=
    (queue_out_nonempty cfg.QUEUE_SIZE _ (-1) hne).1
  simp only [ksem_post, if_neg hr, hb, Bool.false_eq_true, if_false, hwq, hne, Bool.not_false,
    if_true, hrc, bne_self_eq_false, pid_to_proc_sem_update, hp]

/-- C25: `ksem_post` on the allocated semaphore `id` of a full-size semaphore table with a
well-formed wait queue. With the wait queue w1, rest, where w1 is the pid, other than 0,
of a live process (slot `p`), and room on the well-formed run queue, the call returns the
count, which is what it was before; the wait queue is `rest` in its old order, `p` is in
state IDLE with its pid at the tail of the run queue; no other process slot changes, and
neither do `active_proc` and the sleep queue. With an empty wait queue the count is
increased by one and the process table, the run queue, the sleep queue, `active_proc`,
the mutex table and the wait queues are as before. In scenario S5 (count 1; P, Q and R
wait in that order) the first post leaves Q in state IDLE on the run queue, R parked and
the count 0, and the second post leaves R in state IDLE on the run queue behind Q, nobody
parked and the count 0. -/
theorem ksem_post_spec (cfg : kconfig) (s : kernel_t) (id : Int)
    (h0 : 0 ≤ id) (h1 : id < (cfg.SEM_MAX : Int))
    (hlen : s.semaphores.length = cfg.SEM_MAX)
    (halloc : (sem_at s id.toNat).allocated ≠ 0)
    (hwq : queue_wf cfg.QUEUE_SIZE (sem_at s id.toNat).wait_queue) :
    (∀ w1 rest p,
      queue_contents cfg.QUEUE_SIZE (sem_at s id.toNat).wait_queue = w1 :: rest →
      pid_to_proc cfg s w1 = some p → w1 ≠ 0 →
      queue_wf cfg.QUEUE_SIZE s.run_queue →
      queue_is_full cfg.QUEUE_SIZE s.run_queue = false →
      ∃ s', ksem_post cfg s id = some ((sem_at s id.toNat).count, s') ∧
        (sem_at s' id.toNat).count = (sem_at s id.toNat).count ∧
        queue_contents cfg.QUEUE_SIZE (sem_at s' id.toNat).wait_queue = rest ∧
        (proc_at s' p).pid = w1 ∧ (proc_at s' p).state = proc_state_t.IDLE ∧
        queue_contents cfg.QUEUE_SIZE s'.run_queue
          = queue_contents cfg.QUEUE_SIZE s.run_queue ++ [w1] ∧
        (∀ j, j ≠ p → proc_at s' j = proc_at s j) ∧
        s'.active_proc = s.active_proc ∧ s'.sleep_queue = s.sleep_queue) ∧
    (queue_contents cfg.QUEUE_SIZE (sem_at s id.toNat).wait_queue = [] →
      ∃ s', (ksem_post cfg s id).map Prod.snd = some s' ∧
        (sem_at s' id.toNat).count = (sem_at s id.toNat).count + 1 ∧
        s'.proc_table = s.proc_table ∧ s'.run_queue = s.run_queue ∧
        s'.sleep_queue = s.sleep_queue ∧ s'.active_proc = s.active_proc ∧
        s'.mutexes = s.mutexes ∧
        (∀ j, (sem_at s' j).wait_queue = (sem_at s j).wait_queue)) ∧
    ((sem_at s5_parked 0).count = 0 ∧
      queue_contents 4 (sem_at s5_parked 0).wait_queue = [2, 3] ∧
      queue_contents 4 s5_parked.run_queue = [] ∧
      (ksem_post s5_config s5_parked 0).map Prod.snd = some s5_posted ∧
      (sem_at s5_posted 0).count = 0 ∧
      queue_contents 4 (sem_at s5_posted 0).wait_queue = [3] ∧
      queue_contents 4 s5_posted.run_queue = [2] ∧
      (proc_at s5_posted 2).pid = 2 ∧ (proc_at s5_posted 2).state = proc_state_t.IDLE ∧
      (proc_at s5_posted 3).state = proc_state_t.WAITING ∧
      (ksem_post s5_config s5_posted 0).map Prod.snd = some s5_drained ∧
      (sem_at s5_drained 0).count = 0 ∧
      queue_contents 4 (sem_at s5_drained 0).wait_queue = [] ∧
      queue_contents 4 s5_drained.run_queue = [2, 3] ∧
      (proc_at s5_drained 3).pid = 3 ∧ (proc_at s5_drained 3).state = proc_state_t.IDLE) := by
  have hi : id.toNat < s.semaphores.length := by omega
  have hi1 : id.toNat < (sem_update s id.toNat
      (fun m => { m with count := m.count + 1 })).semaphores.length := by
    rw [sem_update_length]; exact hi
  have hm1 : sem_at (sem_update s id.toNat (fun m => { m with count := m.count + 1 }))
      id.toNat = { sem_at s id.toNat with count := (sem_at s id.toNat).count + 1 } :=
    sem_at_update_self _ _ _ hi
  refine ⟨?_, ?_, by decide⟩
  · intro w1 rest p hc hp hw0 hrun hnf
    have hne : queue_is_empty (sem_at s id.toNat).wait_queue = false := by
      cases he : queue_is_empty (sem_at s id.toNat).wait_queue with
      | false => rfl
      | true =>
        rw [(queue_is_empty_iff cfg.QUEUE_SIZE _ hwq).1 he] at hc
        simp at hc
    obtain ⟨_, _, _, o4⟩ := queue_out_spec cfg.QUEUE_SIZE (sem_at s id.toNat).wait_queue (-1)
      hwq hne
    rw [hc] at o4
    have hhead : (queue_out cfg.QUEUE_SIZE (sem_at s id.toNat).wait_queue (-1)).2.2 = w1 :=
      (List.head_eq_of_cons_eq o4).symm
    have hrest : queue_contents cfg.QUEUE_SIZE
        (queue_out cfg.QUEUE_SIZE (sem_at s id.toNat).wait_queue (-1)).2.1 = rest :=
      (List.tail_eq_of_cons_eq o4).symm
    obtain ⟨hpp, hp0, _, _⟩ := pid_to_proc_some cfg s w1 p hp
    have hpl : p < s.proc_table.length := proc_at_in_range s p (by omega)
    have hq := ksem_post_handoff cfg s id p h0 h1 hi halloc hne (by rw [hhead]; exact hp)
    have hi2 : id.toNat < (sem_update (sem_update s id.toNat
        (fun m => { m with count := m.count + 1 })) id.toNat
        (fun m => { m with wait_queue :=
          (queue_out cfg.QUEUE_SIZE (sem_at s id.toNat).wait_queue (-1)).2.1 })).semaphores.length := by
      rw [sem_update_length]; exact hi1
    have hm2 : sem_at (sem_update (sem_update s id.toNat
        (fun m => { m with count := m.count + 1 })) id.toNat
        (fun m => { m with wait_queue :=
          (queue_out cfg.QUEUE_SIZE (sem_at s id.toNat).wait_queue (-1)).2.1 })) id.toNat
        = { sem_at s id.toNat with
            count := (sem_at s id.toNat).count + 1,
            wait_queue := (queue_out cfg.QUEUE_SIZE (sem_at s id.toNat).wait_queue (-1)).2.1 } := by
      rw [sem_at_update_self _ _ _ hi1, hm1]
    generalize hs2 : sem_update (sem_update s id.toNat
        (fun m => { m with count := m.count + 1 })) id.toNat
        (fun m => { m with wait_queue :=
          (queue_out cfg.QUEUE_SIZE (sem_at s id.toNat).wait_queue (-1)).2.1 }) = s2
      at hq hm2 hi2
    have e1 : s2.proc_table = s.proc_table := by rw [← hs2]; rfl
    have e2 : s2.run_queue = s.run_queue := by rw [← hs2]; rfl
    have e3 : s2.sleep_queue = s.sleep_queue := by rw [← hs2]; rfl
    have e4 : s2.active_proc = s.active_proc := by rw [← hs2]; rfl
    have e5 : ∀ j, proc_at s2 j = proc_at s j := fun j => by rw [← hs2]; rfl
    obtain ⟨s3, h3⟩ := scheduler_add_returns cfg s2 p (Or.inr (by rw [e2]; exact hnf))
    obtain ⟨_, _, a3, a4, _, _, a7, a8, _, a10⟩ :=
      scheduler_add_props cfg s2 s3 p h3 (by rw [e1]; exact hpl)
    obtain ⟨_, _, b3, _⟩ := scheduler_add_sync cfg s2 s3 _ h3
    obtain ⟨c1, _, c3⟩ := a10 (by rw [e5, hpp]; exact hw0)
    have hi3 : id.toNat < s3.semaphores.length := by rw [b3]; exact hi2
    have hm3 : sem_at s3 id.toNat = sem_at s2 id.toNat := by
      simp only [sem_at, b3]
    have hm4 : sem_at (sem_update s3 id.toNat (fun m => { m with count := m.count - 1 })) id.toNat
        = { sem_at s id.toNat with
            count := (sem_at s id.toNat).count + 1 - 1,
            wait_queue := (queue_out cfg.QUEUE_SIZE (sem_at s id.toNat).wait_queue (-1)).2.1 } := by
      rw [sem_at_update_self _ _ _ hi3, hm3, hm2]
    have hpj : ∀ j, proc_at (sem_update s3 id.toNat (fun m => { m with count := m.count - 1 })) j
        = proc_at s3 j := fun j => rfl
    rw [h3] at hq
    simp only at hq
    have hcc : (sem_at s id.toNat).count + 1 - 1 = (sem_at s id.toNat).count := by omega
    refine ⟨sem_update s3 id.toNat (fun m => { m with count := m.count - 1 }),
      ?_, ?_, ?_, ?_, ?_, ?_, ?_, ?_, ?_⟩
    · rw [hq, hm4]
      show some ((sem_at s id.toNat).count + 1 - 1, _) = _
      rw [hcc]
    · rw [hm4]
      exact hcc
    · rw [hm4]
      exact hrest
    · rw [hpj, a8, e5]
      exact hpp
    · rw [hpj, c1]
    · show queue_contents cfg.QUEUE_SIZE s3.run_queue = _
      rw [c3, e2, e5, hpp]
      exact (queue_in_spec cfg.QUEUE_SIZE _ _ hrun hnf).2.2.2
    · intro j hj
      rw [hpj, a7 j hj, e5]
    · show s3.active_proc = _
      rw [a4, e4]
    · show s3.sleep_queue = _
      rw [a3, e3]
  · intro hc
    have he : queue_is_empty (sem_at s id.toNat).wait_queue = true :=
      (queue_is_empty_iff cfg.QUEUE_SIZE _ hwq).2 hc
    refine ⟨sem_update s id.toNat (fun m => { m with count := m.count + 1 }), ?_, ?_,
      rfl, rfl, rfl, rfl, rfl, ?_⟩
    · rw [ksem_post_empty cfg s id h0 h1 hi halloc he]
      rfl
    · rw [hm1]
    · intro j
      by_cases hj : j = id.toNat
      · rw [hj, hm1]
      · rw [sem_at_update_other _ _ _ _ hj]

theorem ksem_post_spec_witness :
    (sem_at s5_parked 0).allocated = 1 ∧ (sem_at s5_parked 0).count = 0 ∧
    queue_contents 4 (sem_at s5_parked 0).wait_queue = [2, 3] ∧
    (∃ s', ksem_post s5_config s5_parked 0 = some (0, s') ∧ (sem_at s' 0).count = 0 ∧
      queue_contents 4 (sem_at s' 0).wait_queue = [3] ∧
      (proc_at s' 2).pid = 2 ∧ (proc_at s' 2).state = proc_state_t.IDLE ∧
      queue_contents 4 s'.run_queue = [2]) ∧
    (sem_at s5_drained 0).count = 0 ∧
    queue_contents 4 (sem_at s5_drained 0).wait_queue = [] ∧
    (∃ s', (ksem_post s5_config s5_drained 0).map Prod.snd = some s' ∧
      (sem_at s' 0).count = 1 ∧ s'.run_queue = s5_drained.run_queue) := by
  have hth := ksem_post_spec s5_config s5_parked 0 (by decide) (by decide) (by decide)
    (by decide) (by unfold queue_wf; decide)
  obtain ⟨s1, a1, a2, a3, a4, a5, a6, _⟩ := hth.1 2 [3] 2 (by decide) (by decide) (by decide)
    (by unfold queue_wf; decide) (by decide)
  obtain ⟨s2, b1, b2, _, b4, _⟩ := (ksem_post_spec s5_config s5_drained 0 (by decide)
    (by decide) (by decide) (by decide) (by unfold queue_wf; decide)).2.1 (by decide)
  have hl : (sem_at s5_parked (Int.toNat 0)).count = 0 := by decide
  refine ⟨by decide, by decide, by decide, ⟨s1, ?_, a2.trans hl, a3, a4, a5, ?_⟩,
    by decide, by decide, ⟨s2, b1, ?_, b4⟩⟩
  · rw [a1, hl]
  · exact a6.trans (by decide)
  · exact b2.trans (by decide)

/-! ## C22: the owner/count invariant of the mutexes -/

theorem mutex_ok_at (s : kernel_t) (i : Nat) (hinv : ∀ m ∈ s.mutexes, mutex_ok m) :
    mutex_ok (mutex_at s i) := by
  by_cases hi : i < s.mutexes.length
  · exact hinv _ (mutex_at_mem s i hi)
  · rw [mutex_at_out_of_range s i (by omega)]
    exact ⟨⟨fun _ => rfl, fun _ => rfl⟩, le_refl _⟩

theorem mutex_ok_update (s : kernel_t) (i : Nat) (g : mutex_t → mutex_t)
    (hinv : ∀ m ∈ s.mutexes, mutex_ok m) (hg : mutex_ok (g (mutex_at s i))) :
    ∀ m ∈ (mutex_update s i g).mutexes, mutex_ok m := by
  intro m hm
  rcases List.mem_or_eq_of_mem_set hm with hm | hm
  · exact hinv m hm
  · rw [hm]
    exact hg

theorem mutex_update_comp (s : kernel_t) (i : Nat) (g1 g2 : mutex_t → mutex_t) :
    mutex_update (mutex_update s i g1) i g2 = mutex_update s i (fun m => g2 (g1 m)) := by
  by_cases hi : i < s.mutexes.length
  · have h1 := mutex_at_update_self s i g1 hi
    unfold mutex_update at h1 ⊢
    simp only [h1, List.set_set]
  · rw [mutex_update_out_of_range s i g1 (by omega), mutex_update_out_of_range s i g2 (by omega),
      mutex_update_out_of_range s i _ (by omega)]

theorem mutex_ok_kmutexes_init (cfg : kconfig) (s : kernel_t) :
    ∀ m ∈ (kmutexes_init cfg s).2.mutexes, mutex_ok m := by
  intro m hm
  have hm' : m ∈ (List.range cfg.MUTEX_MAX).map (fun (i : Nat) =>
      ({ allocated := 0, locks := 0, owner := none,
         wait_queue := queue_init cfg.QUEUE_SIZE (mutex_at s i).wait_queue } : mutex_t)) := hm
  obtain ⟨i, _, rfl⟩ := List.mem_map.1 hm'
  exact ⟨⟨fun _ => rfl, fun _ => rfl⟩, le_refl _⟩

theorem mutex_ok_kmutex_init (cfg : kconfig) (s : kernel_t)
    (hinv : ∀ m ∈ s.mutexes, mutex_ok m) :
    ∀ m ∈ (kmutex_init cfg s).2.mutexes, mutex_ok m := by
  unfold kmutex_init
  simp only
  split
  · exact hinv
  · split
    · exact hinv
    · exact mutex_ok_update _ _ _ hinv ⟨⟨fun _ => rfl, fun _ => rfl⟩, le_refl _⟩

theorem mutex_ok_kmutex_destroy (cfg : kconfig) (free : mutex_t → mutex_t) (s : kernel_t)
    (id : Int) (hfree : ∀ m, mutex_ok m → mutex_ok (free m))
    (hinv : ∀ m ∈ s.mutexes, mutex_ok m) :
    ∀ m ∈ (kmutex_destroy cfg free s id).2.mutexes, mutex_ok m := by
  unfold kmutex_destroy
  simp only
  split
  · exact hinv
  · split
    · exact hinv
    · split
      · exact hinv
      · exact mutex_ok_update _ _ _ hinv (hfree _ (mutex_ok_at _ _ hinv))

theorem mutex_ok_kmutex_lock (cfg : kconfig) (s s' : kernel_t) (id rc : Int)
    (hinv : ∀ m ∈ s.mutexes, mutex_ok m) (hact : s.active_proc.isSome = true)
    (h : kmutex_lock cfg s id = some (rc, s')) : ∀ m ∈ s'.mutexes, mutex_ok m := by
  unfold kmutex_lock at h
  simp only at h
  split at h
  · simp only [Option.some.injEq, Prod.mk.injEq] at h
    rw [← h.2]
    exact hinv
  · split at h
    · rename_i o hown
      split at h
      · simp only [Option.some.injEq, Prod.mk.injEq] at h
        rw [← h.2]
        exact hinv
      · rename_i a ha
        have hinv1 : ∀ m ∈ (proc_update s a
            (fun x => { x with state := proc_state_t.WAITING })).mutexes, mutex_ok m := hinv
        have hat1 : mutex_at (proc_update s a
            (fun x => { x with state := proc_state_t.WAITING })) id.toNat
            = mutex_at s id.toNat := rfl
        have hok := mutex_ok_at s id.toNat hinv
        have hinv2 := mutex_ok_update _ id.toNat (fun m => { m with wait_queue :=
          (queue_in cfg.QUEUE_SIZE (mutex_at (proc_update s a
            (fun x => { x with state := proc_state_t.WAITING })) id.toNat).wait_queue
            (proc_at (proc_update s a
              (fun x => { x with state := proc_state_t.WAITING })) a).pid).2 }) hinv1
          (by rw [hat1]; exact hok)
        split at h
        · simp only [Option.some.injEq, Prod.mk.injEq] at h
          rw [← h.2]
          exact hinv2
        · split at h
          · simp at h
          · rename_i s3 hrem
            simp only [Option.some.injEq, Prod.mk.injEq] at h
            rw [← h.2]
            obtain ⟨k1, _, _, _⟩ := scheduler_remove_sync cfg _ s3 _ hrem
            have hinv3 : ∀ m ∈ s3.mutexes, mutex_ok m := by rw [k1]; exact hinv2
            have hok3 := mutex_ok_at s3 id.toNat hinv3
            have hown3 : (mutex_at s3 id.toNat).owner ≠ none := by
              by_cases hi : id.toNat < s.mutexes.length
              · have : mutex_at s3 id.toNat = mutex_at (mutex_update (proc_update s a
                    (fun x => { x with state := proc_state_t.WAITING })) id.toNat
                    (fun m => { m with wait_queue :=
                      (queue_in cfg.QUEUE_SIZE (mutex_at (proc_update s a
                        (fun x => { x with state := proc_state_t.WAITING })) id.toNat).wait_queue
                      (proc_at (proc_update s a
                        (fun x => { x with state := proc_state_t.WAITING })) a).pid).2 }))
                    id.toNat := by
                  simp only [mutex_at, k1]
                rw [this, mutex_at_update_self _ _ _ (by exact hi), hat1]
                show (mutex_at s id.toNat).owner ≠ none
                rw [hown]
                simp
              · rw [mutex_at_out_of_range s id.toNat (by omega)] at hown
                simp at hown
            refine mutex_ok_update _ _ _ hinv3 ⟨⟨fun ho => absurd ho hown3, fun hl => ?_⟩, ?_⟩
            · have := hok3.2
              have hl' : (mutex_at s3 id.toNat).locks + 1 = 0 := hl
              omega
            · have := hok3.2
              show 0 ≤ (mutex_at s3 id.toNat).locks + 1
              omega
    · rename_i hown
      simp only [Option.some.injEq, Prod.mk.injEq] at h
      rw [← h.2, mutex_update_comp]
      have hok := mutex_ok_at s id.toNat hinv
      obtain ⟨a, ha⟩ := Option.isSome_iff_exists.1 hact
      have hl0 : (mutex_at s id.toNat).locks = 0 := hok.1.1 hown
      refine mutex_ok_update s id.toNat _ hinv ⟨⟨fun ho => ?_, fun hl => ?_⟩, ?_⟩
      · have ho' : s.active_proc = none := ho
        rw [ha] at ho'
        simp at ho'
      · have hl' : (mutex_at s id.toNat).locks + 1 = 0 := hl
        omega
      · show 0 ≤ (mutex_at s id.toNat).locks + 1
        omega

theorem mutex_ok_kmutex_unlock (cfg : kconfig) (s s' : kernel_t) (id rc : Int)
    (hinv : ∀ m ∈ s.mutexes, mutex_ok m)
    (h : kmutex_unlock cfg s id = some (rc, s')) : ∀ m ∈ s'.mutexes, mutex_ok m := by
  unfold kmutex_unlock at h
  simp only at h
  split at h
  · simp only [Option.some.injEq, Prod.mk.injEq] at h
    rw [← h.2]
    exact hinv
  · split at h
    · simp only [Option.some.injEq, Prod.mk.injEq] at h
      rw [← h.2]
      exact hinv
    · rename_i o hown
      have hok := mutex_ok_at s id.toNat hinv
      have hl1 : 1 ≤ (mutex_at s id.toNat).locks := by
        have h1 := hok.2
        have h2 : (mutex_at s id.toNat).locks ≠ 0 := fun hz => by
          have := hok.1.2 hz
          rw [hown] at this
          simp at this
        omega
      have hi : id.toNat < s.mutexes.length := by
        by_contra hge
        rw [mutex_at_out_of_range s id.toNat (by omega)] at hown
        simp at hown
      have hm1 : mutex_at (mutex_update s id.toNat (fun m => { m with locks := m.locks - 1 }))
          id.toNat = { mutex_at s id.toNat with locks := (mutex_at s id.toNat).locks - 1 } :=
        mutex_at_update_self _ _ _ hi
      split at h
      · rename_i hz
        simp only [Option.some.injEq, Prod.mk.injEq] at h
        rw [← h.2, mutex_update_comp]
        rw [hm1] at hz
        have hz' : (mutex_at s id.toNat).locks - 1 = 0 := by simpa using hz
        exact mutex_ok_update s id.toNat _ hinv ⟨⟨fun _ => hz', fun _ => rfl⟩, by
          show 0 ≤ (mutex_at s id.toNat).locks - 1
          omega⟩
      · rename_i hz
        rw [hm1] at hz
        have hz' : (mutex_at s id.toNat).locks - 1 ≠ 0 := by simpa using hz
        have hinv2 : ∀ m ∈ (mutex_update (mutex_update s id.toNat
            (fun m => { m with locks := m.locks - 1 })) id.toNat
            (fun m => { m with wait_queue :=
              (queue_out cfg.QUEUE_SIZE (mutex_at (mutex_update s id.toNat
                (fun m => { m with locks := m.locks - 1 })) id.toNat).wait_queue
                (-1)).2.1 })).mutexes, mutex_ok m := by
          rw [mutex_update_comp]
          refine mutex_ok_update s id.toNat _ hinv ⟨⟨fun ho => ?_, fun hl => ?_⟩, ?_⟩
          · have ho' : (mutex_at s id.toNat).owner = none := ho
            rw [hown] at ho'
            simp at ho'
          · exact absurd hl hz'
          · show 0 ≤ (mutex_at s id.toNat).locks - 1
            omega
        split at h
        · simp only [Option.some.injEq, Prod.mk.injEq] at h
          rw [← h.2]
          exact hinv2
        · split at h
          · simp at h
          · rename_i s3 hadd
            simp only [Option.some.injEq, Prod.mk.injEq] at h
            rw [← h.2]
            obtain ⟨k1, _, _, _⟩ := scheduler_add_sync cfg _ s3 _ hadd
            have hinv3 : ∀ m ∈ s3.mutexes, mutex_ok m := by rw [k1]; exact hinv2
            have hok3 := mutex_ok_at s3 id.toNat hinv3
            have hi3 : id.toNat < s3.mutexes.length := by
              rw [k1, mutex_update_length, mutex_update_length]
              exact hi
            have hat3 : mutex_at s3 id.toNat = mutex_at (mutex_update (mutex_update s id.toNat
                (fun m => { m with locks := m.locks - 1 })) id.toNat
                (fun m => { m with wait_queue :=
                  (queue_out cfg.QUEUE_SIZE (mutex_at (mutex_update s id.toNat
                    (fun m => { m with locks := m.locks - 1 })) id.toNat).wait_queue
                    (-1)).2.1 })) id.toNat := by
              simp only [mutex_at, k1]
            have hl3 : (mutex_at s3 id.toNat).locks = (mutex_at s id.toNat).locks - 1 := by
              rw [hat3, mutex_at_update_self _ _ _ (by rw [mutex_update_length]; exact hi), hm1]
            cases hpp : pid_to_proc cfg (mutex_update (mutex_update s id.toNat
                (fun m => { m with locks := m.locks - 1 })) id.toNat
                (fun m => { m with wait_queue :=
                  (queue_out cfg.QUEUE_SIZE (mutex_at (mutex_update s id.toNat
                    (fun m => { m with locks := m.locks - 1 })) id.toNat).wait_queue
                    (-1)).2.1 }))
                (queue_out cfg.QUEUE_SIZE (mutex_at (mutex_update s id.toNat
                    (fun m => { m with locks := m.locks - 1 })) id.toNat).wait_queue
                    (-1)).2.2 with
            | none =>
              rw [hpp] at hadd
              simp [scheduler_add] at hadd
            | some p =>
              refine mutex_ok_update s3 id.toNat _ hinv3 ⟨⟨fun ho => ?_, fun hl => ?_⟩, ?_⟩
              · simp at ho
              · have hl' : (mutex_at s3 id.toNat).locks = 0 := hl
                omega
              · show 0 ≤ (mutex_at s3 id.toNat).locks
                omega

theorem mutex_ok_step (cfg : kconfig) (free : mutex_t → mutex_t) (s s' : kernel_t)
    (c : mutex_call) (hfree : ∀ m, mutex_ok m → mutex_ok (free m))
    (hinv : ∀ m ∈ s.mutexes, mutex_ok m)
    (hact : (match c with
      | mutex_call.lock _ => s.active_proc.isSome
      | _ => true) = true)
    (h : mutex_step cfg free s c = some s') : ∀ m ∈ s'.mutexes, mutex_ok m := by
  cases c with
  | init =>
    simp only [mutex_step, Option.some.injEq] at h
    rw [← h]
    exact mutex_ok_kmutex_init cfg s hinv
  | destroy id =>
    simp only [mutex_step, Option.some.injEq] at h
    rw [← h]
    exact mutex_ok_kmutex_destroy cfg free s id hfree hinv
  | lock id =>
    simp only [mutex_step, Option.map_eq_some', Prod.exists, exists_eq_right] at h
    obtain ⟨rc, hc⟩ := h
    exact mutex_ok_kmutex_lock cfg s s' id rc hinv hact hc
  | unlock id =>
    simp only [mutex_step, Option.map_eq_some', Prod.exists, exists_eq_right] at h
    obtain ⟨rc, hc⟩ := h
    exact mutex_ok_kmutex_unlock cfg s s' id rc hinv hc
  | run =>
    simp only [mutex_step] at h
    rw [(scheduler_run_sync cfg s s' h).1]
    exact hinv
  | tick =>
    simp only [mutex_step] at h
    rw [(tick_sync cfg s s' h).1]
    exact hinv

theorem mutex_ok_run (cfg : kconfig) (free : mutex_t → mutex_t)
    (hfree : ∀ m, mutex_ok m → mutex_ok (free m)) (calls : List mutex_call) :
    ∀ s s' : kernel_t, (∀ m ∈ s.mutexes, mutex_ok m) →
      mutex_run cfg free s calls = some s' →
      locks_with_active cfg free s calls = true → ∀ m ∈ s'.mutexes, mutex_ok m := by
  induction calls with
  | nil =>
    intro s s' hinv h _
    simp only [mutex_run, Option.some.injEq] at h
    rw [← h]
    exact hinv
  | cons c cs ih =>
    intro s s' hinv h hu
    simp only [mutex_run] at h
    simp only [locks_with_active, Bool.and_eq_true] at hu
    cases hs : mutex_step cfg free s c with
    | none => rw [hs] at h; simp at h
    | some s1 =>
      rw [hs] at h hu
      simp only at h hu
      exact ih s1 s' (mutex_ok_step cfg free s s1 c hfree hinv hu.1 hs) h hu.2

/-- C22: the owner/count invariant of the mutexes. From the state that `kmutexes_init`
leaves, after any sequence of `kmutex_init`, `kmutex_destroy`, `kmutex_lock` and
`kmutex_unlock` calls, interleaved in any way with `scheduler_run` and timer ticks, that
the kernel survives and in which every `kmutex_lock` is made while `active_proc` is not
null, every mutex has owner = null exactly when its lock count is 0, a lock count of at
least 1 when it has an owner, and never a negative lock count. `free` is what the library
call `free(mutex)` of `kmutex_destroy` does to the table entry; it is assumed to leave an
entry that satisfies the invariant (as leaving the entry alone or clearing it does). -/
theorem mutex_owner_count (cfg : kconfig) (free : mutex_t → mutex_t) (s0 s : kernel_t)
    (calls : List mutex_call)
    (hfree : ∀ m, mutex_ok m → mutex_ok (free m))
    (hrun : mutex_run cfg free (kmutexes_init cfg s0).2 calls = some s)
    (hact : locks_with_active cfg free (kmutexes_init cfg s0).2 calls = true) :
    ∀ m ∈ s.mutexes,
      (m.owner = none ↔ m.locks = 0) ∧ (m.owner ≠ none → 1 ≤ m.locks) ∧ 0 ≤ m.locks := by
  intro m hm
  obtain ⟨h1, h2⟩ := mutex_ok_run cfg free hfree calls _ s (mutex_ok_kmutexes_init cfg s0)
    hrun hact m hm
  refine ⟨h1, fun ho => ?_, h2⟩
  have : m.locks ≠ 0 := fun hz => ho (h1.2 hz)
  omega

theorem mutex_owner_count_witness :
    (mutex_run rr_config (fun m => m) (kmutexes_init rr_config rr_boot).2
      (mutex_calls_example.take 8)).map (fun s => (mutex_at s 0).locks) = some 2 ∧
    ∃ s, mutex_run rr_config (fun m => m) (kmutexes_init rr_config rr_boot).2
        mutex_calls_example = some s ∧
      (mutex_at s 1).owner = some 1 ∧ (mutex_at s 1).locks = 1 ∧
      ∀ m ∈ s.mutexes,
        (m.owner = none ↔ m.locks = 0) ∧ (m.owner ≠ none → 1 ≤ m.locks) ∧ 0 ≤ m.locks := by
  obtain ⟨s, hs, h1⟩ := map_eq_some_elim
    (mutex_run rr_config (fun m => m) (kmutexes_init rr_config rr_boot).2 mutex_calls_example)
    (fun s => ((mutex_at s 1).owner, (mutex_at s 1).locks)) (some 1, 1) (by decide)
  simp only [Prod.mk.injEq] at h1
  exact ⟨by decide, s, hs, h1.1, h1.2,
    mutex_owner_count rr_config (fun m => m) rr_boot s mutex_calls_example (fun _ h => h) hs
      (by decide)⟩

/-! ## C28: the accounting of a semaphore -/

theorem sem_at_congr (s s' : kernel_t) (i : Nat) (h : s'.semaphores = s.semaphores) :
    sem_at s' i = sem_at s i := by
  simp only [sem_at, h]

/-- What `ksem_wait(j)` does to the count of the semaphore `id`. -/
theorem ksem_wait_count (cfg : kconfig) (s s' : kernel_t) (id j rc : Int)
    (h0 : 0 ≤ id) (h1 : id < (cfg.SEM_MAX : Int)) (hi : id.toNat < s.semaphores.length)
    (h : ksem_wait cfg s j = some (rc, s')) :
    s'.semaphores.length = s.semaphores.length ∧
    (sem_at s' id.toNat).count
      = if j = id ∧ (sem_at s id.toNat).allocated ≠ 0 ∧ 0 < (sem_at s id.toNat).count
        then (sem_at s id.toNat).count - 1 else (sem_at s id.toNat).count := by
  unfold ksem_wait at h
  simp only at h
  split at h
  · rename_i hr
    simp only [Option.some.injEq, Prod.mk.injEq] at h
    rw [← h.2]
    refine ⟨rfl, ?_⟩
    rw [if_neg]
    rintro ⟨rfl, _, _⟩
    omega
  · rename_i hr
    have hjr : 0 ≤ j := by omega
    split at h
    · rename_i ha
      simp only [Option.some.injEq, Prod.mk.injEq] at h
      rw [← h.2]
      refine ⟨rfl, ?_⟩
      rw [if_neg]
      rintro ⟨rfl, ha', _⟩
      exact ha' (by simpa using ha)
    · rename_i ha
      split at h
      · rename_i hz
        have hz' : (sem_at s j.toNat).count = 0 := by simpa using hz
        have hneg : ¬ (j = id ∧ (sem_at s id.toNat).allocated ≠ 0 ∧
            0 < (sem_at s id.toNat).count) := by
          rintro ⟨rfl, _, hp⟩
          omega
        rw [if_neg hneg]
        split at h
        · simp only [Option.some.injEq, Prod.mk.injEq] at h
          rw [← h.2]
          exact ⟨rfl, rfl⟩
        · rename_i a hact
          have hc2 : ∀ g : sem_t → sem_t, (∀ m, (g m).count = m.count) →
              (sem_at (sem_update (proc_update s a
                (fun x => { x with state := proc_state_t.WAITING })) j.toNat g) id.toNat).count
              = (sem_at s id.toNat).count := by
            intro g hg
            by_cases hji : id.toNat = j.toNat
            · rw [hji, sem_at_update_self _ _ _ (by rw [← hji]; exact hi), hg]
              rfl
            · rw [sem_at_update_other _ _ _ _ hji]
              rfl
          split at h
          · simp only [Option.some.injEq, Prod.mk.injEq] at h
            rw [← h.2]
            exact ⟨sem_update_length _ _ _, hc2 _ (fun _ => rfl)⟩
          · split at h
            · simp at h
            · rename_i s3 hrem
              simp only [Option.some.injEq, Prod.mk.injEq] at h
              rw [← h.2]
              obtain ⟨_, _, k3, _⟩ := scheduler_remove_sync cfg _ s3 _ hrem
              refine ⟨by rw [k3]; exact sem_update_length _ _ _, ?_⟩
              rw [sem_at_congr _ _ _ k3]
              exact hc2 _ (fun _ => rfl)
      · rename_i hz
        split at h
        · rename_i hp
          simp only [Option.some.injEq, Prod.mk.injEq] at h
          rw [← h.2]
          refine ⟨sem_update_length _ _ _, ?_⟩
          by_cases hji : j = id
          · subst hji
            rw [sem_at_update_self _ _ _ hi, if_pos ⟨rfl, by simpa using ha, hp⟩]
          · have hne : id.toNat ≠ j.toNat := by omega
            rw [sem_at_update_other _ _ _ _ hne, if_neg (fun hh => hji hh.1)]
        · rename_i hp
          simp only [Option.some.injEq, Prod.mk.injEq] at h
          rw [← h.2]
          refine ⟨rfl, ?_⟩
          rw [if_neg]
          rintro ⟨rfl, _, hp'⟩
          exact hp hp'

/-- What `ksem_post(j)` does to the count of the semaphore `id`. -/
theorem ksem_post_count (cfg : kconfig) (s s' : kernel_t) (id j rc : Int)
    (h0 : 0 ≤ id) (hi : id.toNat < s.semaphores.length)
    (h : ksem_post cfg s j = some (rc, s')) :
    s'.semaphores.length = s.semaphores.length ∧
    (sem_at s' id.toNat).count
      = if j = id ∧ (sem_at s id.toNat).allocated ≠ 0 ∧
            queue_is_empty (sem_at s id.toNat).wait_queue = true
        then (sem_at s id.toNat).count + 1 else (sem_at s id.toNat).count := by
  unfold ksem_post at h
  simp only at h
  split at h
  · simp at h
  · rename_i hr
    have hjr : 0 ≤ j := by omega
    split at h
    · rename_i ha
      simp only [Option.some.injEq, Prod.mk.injEq] at h
      rw [← h.2]
      refine ⟨rfl, ?_⟩
      rw [if_neg]
      rintro ⟨rfl, ha', _⟩
      exact ha' (by simpa using ha)
    · rename_i ha
      by_cases hji : j = id
      · subst hji
        have hm1 : sem_at (sem_update s j.toNat (fun m => { m with count := m.count + 1 }))
            j.toNat = { sem_at s j.toNat with count := (sem_at s j.toNat).count + 1 } :=
          sem_at_update_self _ _ _ hi
        rw [hm1] at h
        simp only at h
        split at h
        · rename_i hne
          have hne' : queue_is_empty (sem_at s j.toNat).wait_queue = false := by
            simpa using hne
          have hrc := (queue_out_nonempty cfg.QUEUE_SIZE (sem_at s j.toNat).wait_queue (-1)
            hne').1
          rw [if_neg (fun hh => by rw [hne'] at hh; simp at hh)]
          split at h
          · rename_i hbad
            rw [hrc] at hbad
            simp at hbad
          · split at h
            · simp at h
            · rename_i s3 hadd
              simp only [Option.some.injEq, Prod.mk.injEq] at h
              rw [← h.2]
              obtain ⟨_, _, k3, _⟩ := scheduler_add_sync cfg _ s3 _ hadd
              have hl3 : s3.semaphores.length = s.semaphores.length := by
                rw [k3, sem_update_length, sem_update_length]
              refine ⟨by rw [sem_update_length]; exact hl3, ?_⟩
              rw [sem_at_update_self _ _ _ (by rw [hl3]; exact hi), sem_at_congr _ _ _ k3,
                sem_at_update_self _ _ _ (by rw [sem_update_length]; exact hi), hm1]
              show (sem_at s j.toNat).count + 1 - 1 = _
              omega
        · rename_i hne
          have he : queue_is_empty (sem_at s j.toNat).wait_queue = true := by
            simpa using hne
          simp only [Option.some.injEq, Prod.mk.injEq] at h
          rw [← h.2]
          refine ⟨sem_update_length _ _ _, ?_⟩
          rw [hm1, if_pos ⟨rfl, by simpa using ha, he⟩]
      · have hne : id.toNat ≠ j.toNat := by omega
        rw [if_neg (fun hh => hji hh.1)]
        split at h
        · split at h
          · simp only [Option.some.injEq, Prod.mk.injEq] at h
            rw [← h.2]
            refine ⟨by rw [sem_update_length, sem_update_length], ?_⟩
            rw [sem_at_update_other _ _ _ _ hne, sem_at_update_other _ _ _ _ hne]
          · split at h
            · simp at h
            · rename_i s3 hadd
              simp only [Option.some.injEq, Prod.mk.injEq] at h
              rw [← h.2]
              obtain ⟨_, _, k3, _⟩ := scheduler_add_sync cfg _ s3 _ hadd
              have hl3 : s3.semaphores.length = s.semaphores.length := by
                rw [k3, sem_update_length, sem_update_length]
              refine ⟨by rw [sem_update_length]; exact hl3, ?_⟩
              rw [sem_at_update_other _ _ _ _ hne, sem_at_congr _ _ _ k3,
                sem_at_update_other _ _ _ _ hne, sem_at_update_other _ _ _ _ hne]
        · simp only [Option.some.injEq, Prod.mk.injEq] at h
          rw [← h.2]
          exact ⟨sem_update_length _ _ _, by rw [sem_at_update_other _ _ _ _ hne]⟩

/-- A successful `ksem_init`: the id is in range and the entry is allocated with the value
as count and an empty wait queue. -/
theorem ksem_init_spec (cfg : kconfig) (s0 s1 : kernel_t) (value id : Int)
    (hlen : s0.semaphores.length = cfg.SEM_MAX)
    (hinit : ksem_init cfg s0 value = (id, s1)) (hid : 0 ≤ id) :
    id < (cfg.SEM_MAX : Int) ∧ s1.semaphores.length = cfg.SEM_MAX ∧
    (sem_at s1 id.toNat).count = value ∧ (sem_at s1 id.toNat).allocated = 1 ∧
    queue_contents cfg.QUEUE_SIZE (sem_at s1 id.toNat).wait_queue = [] := by
  unfold ksem_init at hinit
  simp only at hinit
  split at hinit
  · simp only [Prod.mk.injEq] at hinit
    omega
  · split at hinit
    · simp only [Prod.mk.injEq] at hinit
      omega
    · rename_i hr
      simp only [Prod.mk.injEq] at hinit
      obtain ⟨e1, e2⟩ := hinit
      rw [← e2, ← e1]
      have hi : (queue_out cfg.QUEUE_SIZE s0.sem_queue (-1)).2.2.toNat
          < ({ s0 with sem_queue :=
            (queue_out cfg.QUEUE_SIZE s0.sem_queue (-1)).2.1 } : kernel_t).semaphores.length := by
        show _ < s0.semaphores.length
        omega
      refine ⟨by omega, ?_, ?_, ?_, ?_⟩
      · rw [sem_update_length]
        exact hlen
      · rw [sem_at_update_self _ _ _ hi]
      · rw [sem_at_update_self _ _ _ hi]
      · rw [sem_at_update_self _ _ _ hi]
        exact queue_init_contents _ _

theorem sem_account_inv (cfg : kconfig) (id : Int) (h0 : 0 ≤ id)
    (h1 : id < (cfg.SEM_MAX : Int)) (calls : List sem_call) :
    ∀ (s s' : kernel_t) (t t' : sem_tally), sem_call.no_init calls = true →
      id.toNat < s.semaphores.length →
      sem_account cfg id s calls t = some (s', t') →
      ((t'.immediate : Int) + t'.woken) + (sem_at s' id.toNat).count - t'.posts
        = ((t.immediate : Int) + t.woken) + (sem_at s id.toNat).count - t.posts := by
  induction calls with
  | nil =>
    intro s s' t t' _ _ h
    simp only [sem_account, Option.some.injEq, Prod.mk.injEq] at h
    rw [← h.1, ← h.2]
  | cons c cs ih =>
    intro s s' t t' hno hi h
    simp only [sem_account] at h
    cases hs : sem_step cfg s c with
    | none => rw [hs] at h; simp at h
    | some s1 =>
      rw [hs] at h
      simp only at h
      have key : s1.semaphores.length = s.semaphores.length ∧
          (((sem_tally_step id s c t).immediate : Int) + (sem_tally_step id s c t).woken)
            + (sem_at s1 id.toNat).count - (sem_tally_step id s c t).posts
          = ((t.immediate : Int) + t.woken) + (sem_at s id.toNat).count - t.posts := by
        cases c with
        | init v => simp [sem_call.no_init] at hno
        | wait j =>
          simp only [sem_step, Option.map_eq_some', Prod.exists, exists_eq_right] at hs
          obtain ⟨rc, hc⟩ := hs
          obtain ⟨e1, e2⟩ := ksem_wait_count cfg s s1 id j rc h0 h1 hi hc
          refine ⟨e1, ?_⟩
          rw [e2]
          simp only [sem_tally_step]
          split
          · push_cast
            omega
          · rfl
        | post j =>
          simp only [sem_step, Option.map_eq_some', Prod.exists, exists_eq_right] at hs
          obtain ⟨rc, hc⟩ := hs
          obtain ⟨e1, e2⟩ := ksem_post_count cfg s s1 id j rc h0 hi hc
          refine ⟨e1, ?_⟩
          rw [e2]
          simp only [sem_tally_step]
          split_ifs <;> first
            | rfl
            | (push_cast; omega)
            | (exfalso; simp_all)
        | run =>
          simp only [sem_step] at hs
          obtain ⟨_, _, k3, _⟩ := scheduler_run_sync cfg s s1 hs
          exact ⟨by rw [k3], by rw [sem_at_congr _ _ _ k3]; rfl⟩
        | tick =>
          simp only [sem_step] at hs
          obtain ⟨_, _, k3, _⟩ := tick_sync cfg s s1 hs
          exact ⟨by rw [k3], by rw [sem_at_congr _ _ _ k3]; rfl⟩
      have hno' : sem_call.no_init cs = true := by
        cases c <;> simp [sem_call.no_init] at hno ⊢ <;> exact hno
      rw [ih s1 s' _ t' hno' (by rw [key.1]; exact hi) h]
      exact key.2

/-- C28, as claimed, fails: semaphore 0 is created with count C = 1; A waits and takes the
unit, B waits and is parked. One wait has completed, no post was made and one waiter is
parked: 1 is not C + posts - parked = 1 + 0 - 1. (The count is 0.) -/
theorem semaphore_accounting_not_parked :
    ksem_init rr_config rr_running 1 = (0, rr_sem) ∧
    (sem_account rr_config 0 rr_sem sem_calls_parked ⟨0, 0, 0⟩).map
        (fun r => (r.2, (sem_at r.1 0).count,
          (queue_contents 4 (sem_at r.1 0).wait_queue).length))
      = some (⟨1, 0, 0⟩, 0, 1) ∧
    ((1 : Int) + 0 ≠ 1 + 0 - 1) := by
  refine ⟨by decide, by decide, by decide⟩

/-- C28, amended: for a semaphore created by `ksem_init` with count C, after any sequence
of `ksem_wait` and `ksem_post` calls, on it or on other semaphores, interleaved in any
way with `scheduler_run` and timer ticks, that the kernel survives, the number of waits
on it that took a unit at once plus the number of its parked waiters that a post has
rescheduled equals C plus the number of posts on it minus its current count. -/
theorem semaphore_accounting (cfg : kconfig) (s0 s1 s : kernel_t) (C id : Int)
    (calls : List sem_call) (t : sem_tally)
    (hlen : s0.semaphores.length = cfg.SEM_MAX)
    (hinit : ksem_init cfg s0 C = (id, s1)) (hid : 0 ≤ id)
    (hno : sem_call.no_init calls = true)
    (hrun : sem_account cfg id s1 calls ⟨0, 0, 0⟩ = some (s, t)) :
    (t.immediate : Int) + t.woken = C + t.posts - (sem_at s id.toNat).count := by
  obtain ⟨h1, hl1, hc, _, _⟩ := ksem_init_spec cfg s0 s1 C id hlen hinit hid
  have h := sem_account_inv cfg id hid h1 calls s1 s ⟨0, 0, 0⟩ t hno (by omega) hrun
  rw [hc] at h
  simp only [Nat.cast_zero] at h
  omega

theorem semaphore_accounting_witness :
    ksem_init rr_config rr_running 1 = (0, rr_sem) ∧
    ∃ s t, sem_account rr_config 0 rr_sem sem_calls_example ⟨0, 0, 0⟩ = some (s, t) ∧
      t = ⟨2, 1, 2⟩ ∧ (sem_at s 0).count = 0 ∧
      (t.immediate : Int) + t.woken = 1 + t.posts - (sem_at s (Int.toNat 0)).count := by
  obtain ⟨r, hr, h1⟩ := map_eq_some_elim
    (sem_account rr_config 0 rr_sem sem_calls_example ⟨0, 0, 0⟩)
    (fun r => (r.2, (sem_at r.1 0).count)) (⟨2, 1, 2⟩, 0) (by decide)
  obtain ⟨s, t⟩ := r
  simp only [Prod.mk.injEq] at h1
  exact ⟨by decide, s, t, hr, h1.1, h1.2,
    semaphore_accounting rr_config rr_running rr_sem s 1 0 sem_calls_example t (by decide)
      (by decide) (by decide) (by decide) hr⟩

/-! ## C27: the invariant of the semaphores -/

theorem mem_wait_pids_sem (cfg : kconfig) (s : kernel_t) (m : sem_t) (p : Int)
    (hm : m ∈ s.semaphores) (hp : p ∈ queue_contents cfg.QUEUE_SIZE m.wait_queue) :
    p ∈ wait_pids cfg s := by
  unfold wait_pids
  refine List.mem_append_right _ (List.mem_flatten.2 ⟨_, List.mem_map.2 ⟨m, hm, rfl⟩, hp⟩)

theorem not_queued_of_waiting (cfg : kconfig) (s : kernel_t) (p : Int)
    (hnd : (queued_pids cfg s).Nodup) (hp : p ∈ wait_pids cfg s) :
    p ∉ queue_contents cfg.QUEUE_SIZE s.run_queue ∧
    p ∉ queue_contents cfg.QUEUE_SIZE s.sleep_queue := by
  unfold queued_pids at hnd
  have hd := (List.nodup_append.1 hnd).2.2
  constructor
  · intro h
    exact hd (List.mem_append_left _ h) hp
  · intro h
    exact hd (List.mem_append_right _ h) hp

/-- The invariant under a change that leaves the semaphore table and every pid alone and
keeps every waiting process in state WAITING. -/
theorem sem_inv_frame (cfg : kconfig) (s s' : kernel_t) (hinv : sem_inv cfg s)
    (hsem : s'.semaphores = s.semaphores) (hn : s'.next_pid = s.next_pid)
    (hp : ∀ j, (proc_at s' j).pid = (proc_at s j).pid)
    (hst : ∀ a, (proc_at s a).pid ∈ wait_pids cfg s →
      (proc_at s a).state = proc_state_t.WAITING →
      (proc_at s' a).state = proc_state_t.WAITING) : sem_inv cfg s' := by
  intro m hm
  rw [hsem] at hm
  obtain ⟨h1, h2, h3⟩ := hinv m hm
  refine ⟨h1, h2, fun p hpm => ?_⟩
  obtain ⟨a, ha, hw⟩ := h3 p hpm
  refine ⟨a, (pid_to_proc_congr cfg s s' p hn hp).trans ha, hst a ?_ hw⟩
  rw [(pid_to_proc_some cfg s p a ha).1]
  exact mem_wait_pids_sem cfg s m p hm hpm

/-- The invariant survives `scheduler_run`. -/
theorem sem_inv_run (cfg : kconfig) (s s' : kernel_t) (hex : excl_inv cfg s)
    (hinv : sem_inv cfg s) (hr : run_rel cfg s s') : sem_inv cfg s' := by
  have hex' := excl_inv_run cfg s s' hex hr
  obtain ⟨r1, _, _, r4, r5, _, r7, _, j, hj, _, hjk, _⟩ := hr
  have hwp : wait_pids cfg s' = wait_pids cfg s := wait_pids_congr cfg s s' r4 r5
  refine sem_inv_frame cfg s s' hinv r5 r1 (fun k => (r7 k).1) (fun a hpa hw => ?_)
  have hq : (proc_at s a).pid ∈ queued_pids cfg s := by
    unfold queued_pids
    exact List.mem_append_right _ hpa
  have hq' : (proc_at s' a).pid ∈ queued_pids cfg s' := by
    unfold queued_pids
    rw [hwp, (r7 a).1]
    exact List.mem_append_right _ hpa
  have haj : a ≠ j := by
    intro e
    rw [e] at hq'
    exact (hex'.1.2.2.2.2.2.2 j hj).2 hq'
  have hao : s.active_proc ≠ some a := by
    intro e
    exact (hex.1.2.2.2.2.2.2 a e).2 hq
  rw [hjk a haj hao]
  exact hw

theorem scheduler_timer_charge_state (s : kernel_t) (j : Nat) :
    (proc_at (scheduler_timer_charge s) j).state = (proc_at s j).state := by
  unfold scheduler_timer_charge
  split
  · rw [proc_at_update]
    split
    · rename_i h
      rw [h.1]
    · rfl
  · rfl

/-- The invariant survives `scheduler_timer`. -/
theorem sem_inv_timer (cfg : kconfig) (s s' : kernel_t) (hex : excl_inv cfg s)
    (hinv : sem_inv cfg s) (hr : timer_rel cfg (scheduler_timer_charge s) s') :
    sem_inv cfg s' := by
  obtain ⟨hq1, hq2, hq3, hq4, hq5, hq6, hq7, hq8, hq9⟩ := scheduler_timer_charge_queues s
  obtain ⟨r1, _, _, _, _, _, r7, _, _, r10, _, r12, _⟩ := hr
  refine sem_inv_frame cfg s s' hinv (by rw [r7, hq7]) (by rw [r1, hq4])
    (fun k => by rw [(r10 k).1, hq9]) (fun a hpa hw => ?_)
  have hns := (not_queued_of_waiting cfg s _ hex.1.2.2.2.2.1 hpa).2
  rw [r12 a (by rw [hq9, hq2]; exact hns), scheduler_timer_charge_state]
  exact hw

/-- The invariant survives a timer tick. -/
theorem sem_inv_tick (cfg : kconfig) (s s' : kernel_t) (hex : excl_inv cfg s)
    (hinv : sem_inv cfg s) (h : tick cfg s = some s') : excl_inv cfg s' ∧ sem_inv cfg s' := by
  unfold tick at h
  split at h
  · simp at h
  · rename_i t ht
    have hrel := (scheduler_timer_spec cfg s hex.1.2.2.1 hex.1.2.2.2.1).1 t ht
    have hext := excl_inv_timer cfg s t hex hrel
    have hit := sem_inv_timer cfg s t hex hinv hrel
    have hrr := scheduler_run_rel cfg t s' hext.1.2.2.1 h
    exact ⟨excl_inv_run cfg t s' hext hrr, sem_inv_run cfg t s' hext hit hrr⟩

theorem sem_update_comp (s : kernel_t) (i : Nat) (g1 g2 : sem_t → sem_t) :
    sem_update (sem_update s i g1) i g2 = sem_update s i (fun m => g2 (g1 m)) := by
  by_cases hi : i < s.semaphores.length
  · have h1 := sem_at_update_self s i g1 hi
    unfold sem_update at h1 ⊢
    simp only [h1, List.set_set]
  · rw [sem_update_out_of_range s i g1 (by omega), sem_update_out_of_range s i g2 (by omega),
      sem_update_out_of_range s i _ (by omega)]

/-- The invariant when one entry of the table is replaced by an entry that satisfies
it. -/
theorem sem_inv_sem_update (cfg : kconfig) (s : kernel_t) (i : Nat) (g : sem_t → sem_t)
    (hinv : sem_inv cfg s)
    (hg : 0 ≤ (g (sem_at s i)).count ∧
      (0 < (g (sem_at s i)).count →
        queue_contents cfg.QUEUE_SIZE (g (sem_at s i)).wait_queue = []) ∧
      ∀ p ∈ queue_contents cfg.QUEUE_SIZE (g (sem_at s i)).wait_queue,
        ∃ a, pid_to_proc cfg s p = some a ∧ (proc_at s a).state = proc_state_t.WAITING) :
    sem_inv cfg (sem_update s i g) := by
  intro m hm
  rcases List.mem_or_eq_of_mem_set hm with hm | hm
  · exact hinv m hm
  · rw [hm]
    exact hg

/-- The invariant survives `ksem_init` with a value that is not negative. -/
theorem sem_inv_ksem_init (cfg : kconfig) (s : kernel_t) (value : Int) (hv : 0 ≤ value)
    (hinv : sem_inv cfg s) : sem_inv cfg (ksem_init cfg s value).2 := by
  have h1 : sem_inv cfg
      { s with sem_queue := (queue_out cfg.QUEUE_SIZE s.sem_queue (-1)).2.1 } := hinv
  unfold ksem_init
  simp only
  split
  · exact h1
  · split
    · exact h1
    · refine sem_inv_sem_update cfg _ _ _ h1 ⟨hv, fun _ => queue_init_contents _ _, ?_⟩
      intro p hp
      rw [queue_init_contents] at hp
      simp at hp

/-- The invariant survives `ksem_wait`, the exclusivity invariant being given. -/
theorem sem_inv_ksem_wait (cfg : kconfig) (s s' : kernel_t) (id rc : Int)
    (hex : excl_inv cfg s) (hinv : sem_inv cfg s)
    (hlen : s.semaphores.length = cfg.SEM_MAX)
    (h : ksem_wait cfg s id = some (rc, s')) : sem_inv cfg s' := by
  unfold ksem_wait at h
  simp only at h
  split at h
  · simp only [Option.some.injEq, Prod.mk.injEq] at h
    rw [← h.2]
    exact hinv
  · rename_i hr
    have hi : id.toNat < s.semaphores.length := by omega
    have hmem := sem_at_mem s id.toNat hi
    obtain ⟨c1, c2, c3⟩ := hinv _ hmem
    split at h
    · simp only [Option.some.injEq, Prod.mk.injEq] at h
      rw [← h.2]
      exact hinv
    · split at h
      · rename_i hz
        have hz' : (sem_at s id.toNat).count = 0 := by simpa using hz
        split at h
        · simp only [Option.some.injEq, Prod.mk.injEq] at h
          rw [← h.2]
          exact hinv
        · rename_i a hact
          obtain ⟨ha0, _⟩ := hex.1.2.2.2.2.2.2 a hact
          have hal : a < s.proc_table.length := proc_at_in_range s a (by omega)
          have hex1 := excl_inv_proc_update cfg s a
            (fun x => { x with state := proc_state_t.WAITING }) (fun _ => rfl) hex
          have hpid1 : ∀ j, (proc_at (proc_update s a
              (fun x => { x with state := proc_state_t.WAITING })) j).pid = (proc_at s j).pid :=
            fun j => proc_update_pid s a j
              (fun x => { x with state := proc_state_t.WAITING }) (fun _ => rfl)
          have hst1 : (proc_at (proc_update s a
              (fun x => { x with state := proc_state_t.WAITING })) a).state
              = proc_state_t.WAITING := by
            rw [proc_at_update_self s a _ hal]
          have hinv1 : sem_inv cfg (proc_update s a
              (fun x => { x with state := proc_state_t.WAITING })) := by
            refine sem_inv_frame cfg s _ hinv rfl rfl hpid1 (fun k _ hw => ?_)
            by_cases hk : k = a
            · rw [hk]
              exact hst1
            · rw [proc_at_update_other s a k _ hk]
              exact hw
          generalize hs1 : proc_update s a
              (fun x => { x with state := proc_state_t.WAITING }) = s1
            at h hex1 hpid1 hst1 hinv1
          have hse1 : s1.semaphores = s.semaphores := by rw [← hs1]; rfl
          have hat1 : sem_at s1 id.toNat = sem_at s id.toNat := sem_at_congr _ _ _ hse1
          have hmem1 : sem_at s1 id.toNat ∈ s1.semaphores := by
            rw [hat1, hse1]
            exact hmem
          have hwf1 := hex1.2.2 _ hmem1
          have hinv2 : sem_inv cfg (sem_update s1 id.toNat (fun m => { m with wait_queue :=
              (queue_in cfg.QUEUE_SIZE (sem_at s1 id.toNat).wait_queue
                (proc_at s1 a).pid).2 })) := by
            refine sem_inv_sem_update cfg s1 _ _ hinv1 ⟨?_, ?_, ?_⟩
            · show 0 ≤ (sem_at s1 id.toNat).count
              rw [hat1, hz']
            · intro hpos
              have hpos' : 0 < (sem_at s1 id.toNat).count := hpos
              rw [hat1, hz'] at hpos'
              omega
            · intro p hp
              have hp' : p ∈ queue_contents cfg.QUEUE_SIZE
                  (queue_in cfg.QUEUE_SIZE (sem_at s1 id.toNat).wait_queue
                    (proc_at s1 a).pid).2 := hp
              rcases queue_in_contents_cases cfg.QUEUE_SIZE (sem_at s1 id.toNat).wait_queue
                (proc_at s1 a).pid hwf1 with ⟨_, hq⟩ | ⟨_, hq⟩
              · rw [hq] at hp'
                exact (hinv1 _ hmem1).2.2 p hp'
              · rw [hq] at hp'
                rcases List.mem_append.1 hp' with hp' | hp'
                · exact (hinv1 _ hmem1).2.2 p hp'
                · simp only [List.mem_singleton] at hp'
                  rw [hp']
                  exact ⟨a, pid_to_proc_in_use cfg s1 a hex1.1.1
                    (by rw [hpid1]; exact ha0), hst1⟩
          split at h
          · simp only [Option.some.injEq, Prod.mk.injEq] at h
            rw [← h.2]
            exact hinv2
          · split at h
            · simp at h
            · rename_i s3 hrem
              simp only [Option.some.injEq, Prod.mk.injEq] at h
              rw [← h.2]
              obtain ⟨p1, _, p3, _, _⟩ := scheduler_remove_props cfg _ s3 _ hrem
              obtain ⟨_, _, k3, _⟩ := scheduler_remove_sync cfg _ s3 _ hrem
              have hpa : ∀ j, proc_at s3 j = proc_at (sem_update s1 id.toNat
                  (fun m => { m with wait_queue :=
                    (queue_in cfg.QUEUE_SIZE (sem_at s1 id.toNat).wait_queue
                      (proc_at s1 a).pid).2 })) j := fun j => by
                simp only [proc_at, p3]
              exact sem_inv_frame cfg _ s3 hinv2 k3 p1 (fun j => by rw [hpa])
                (fun k _ hw => by rw [hpa]; exact hw)
      · rename_i hz
        split at h
        · rename_i hp
          simp only [Option.some.injEq, Prod.mk.injEq] at h
          rw [← h.2]
          refine sem_inv_sem_update cfg s _ _ hinv ⟨?_, ?_, c3⟩
          · show 0 ≤ (sem_at s id.toNat).count - 1
            omega
          · intro _
            exact c2 hp
        · simp only [Option.some.injEq, Prod.mk.injEq] at h
          rw [← h.2]
          exact hinv

theorem wait_pids_nodup_of_excl (cfg : kconfig) (s : kernel_t) (h : excl_inv cfg s) :
    (wait_pids cfg s).Nodup := by
  have := h.1.2.2.2.2.1
  unfold queued_pids at this
  exact (List.nodup_append.1 this).2.1

/-- The invariant survives `ksem_post`, the exclusivity invariant being given. -/
theorem sem_inv_ksem_post (cfg : kconfig) (s s' : kernel_t) (id rc : Int)
    (hex : excl_inv cfg s) (hinv : sem_inv cfg s)
    (hlen : s.semaphores.length = cfg.SEM_MAX)
    (h : ksem_post cfg s id = some (rc, s')) : sem_inv cfg s' := by
  unfold ksem_post at h
  simp only at h
  split at h
  · simp at h
  · rename_i hr
    have hi : id.toNat < s.semaphores.length := by omega
    have hmem := sem_at_mem s id.toNat hi
    obtain ⟨c1, c2, c3⟩ := hinv _ hmem
    have hwf := hex.2.2 _ hmem
    split at h
    · simp only [Option.some.injEq, Prod.mk.injEq] at h
      rw [← h.2]
      exact hinv
    · have hm1 : sem_at (sem_update s id.toNat (fun m => { m with count := m.count + 1 }))
          id.toNat = { sem_at s id.toNat with count := (sem_at s id.toNat).count + 1 } :=
        sem_at_update_self _ _ _ hi
      rw [hm1] at h
      simp only at h
      split at h
      · rename_i hne
        have hne' : queue_is_empty (sem_at s id.toNat).wait_queue = false := by
          simpa using hne
        obtain ⟨o1, _, _, o4⟩ := queue_out_spec cfg.QUEUE_SIZE (sem_at s id.toNat).wait_queue
          (-1) hwf hne'
        split at h
        · rename_i hbad
          rw [o1] at hbad
          simp at hbad
        · split at h
          · simp at h
          · rename_i s3 hadd
            simp only [Option.some.injEq, Prod.mk.injEq] at h
            rw [← h.2]
            -- the head of the wait queue and the slot that carries it
            have hw1 : (queue_out cfg.QUEUE_SIZE (sem_at s id.toNat).wait_queue (-1)).2.2
                ∈ queue_contents cfg.QUEUE_SIZE (sem_at s id.toNat).wait_queue := by
              rw [o4]
              exact List.mem_cons_self _ _
            obtain ⟨p, hp, _⟩ := c3 _ hw1
            have hc0 : (sem_at s id.toNat).count = 0 := by
              by_contra hne0
              have := c2 (by omega)
              rw [this] at hw1
              simp at hw1
            rw [sem_update_comp] at hadd
            have hp2 : pid_to_proc cfg (sem_update s id.toNat (fun m =>
                { ({ m with count := m.count + 1 } : sem_t) with wait_queue :=
                  (queue_out cfg.QUEUE_SIZE (sem_at s id.toNat).wait_queue (-1)).2.1 }))
                (queue_out cfg.QUEUE_SIZE (sem_at s id.toNat).wait_queue (-1)).2.2
                = some p := hp
            rw [hp2] at hadd
            obtain ⟨hpp, hp0, _, _⟩ := pid_to_proc_some cfg s _ p hp
            have hpl : p < s.proc_table.length := proc_at_in_range s p (by omega)
            obtain ⟨a1, _, _, _, _, _, a7, a8, _, _⟩ :=
              scheduler_add_props cfg _ s3 p hadd (by exact hpl)
            obtain ⟨b1, _, b3, _⟩ := scheduler_add_sync cfg _ s3 _ hadd
            -- the table afterwards is the old one with one entry replaced
            have hsem : (sem_update s3 id.toNat
                (fun m => { m with count := m.count - 1 })).semaphores
                = (sem_update s id.toNat (fun m =>
                  { ({ ({ m with count := m.count + 1 } : sem_t) with wait_queue :=
                      (queue_out cfg.QUEUE_SIZE (sem_at s id.toNat).wait_queue (-1)).2.1 }
                    : sem_t) with count := m.count + 1 - 1 })).semaphores := by
              have e1 : sem_at s3 id.toNat = sem_at (sem_update s id.toNat (fun m =>
                  { ({ m with count := m.count + 1 } : sem_t) with wait_queue :=
                    (queue_out cfg.QUEUE_SIZE (sem_at s id.toNat).wait_queue (-1)).2.1 }))
                  id.toNat := sem_at_congr _ _ _ b3
              have e2 : (sem_update s3 id.toNat
                  (fun m => { m with count := m.count - 1 })).semaphores
                  = (sem_update (sem_update s id.toNat (fun m =>
                    { ({ m with count := m.count + 1 } : sem_t) with wait_queue :=
                      (queue_out cfg.QUEUE_SIZE (sem_at s id.toNat).wait_queue (-1)).2.1 }))
                    id.toNat (fun m => { m with count := m.count - 1 })).semaphores := by
                simp only [sem_update, e1, b3]
              rw [e2, sem_update_comp]
            generalize hg : (fun m : sem_t =>
                ({ ({ ({ m with count := m.count + 1 } : sem_t) with wait_queue :=
                    (queue_out cfg.QUEUE_SIZE (sem_at s id.toNat).wait_queue (-1)).2.1 }
                  : sem_t) with count := m.count + 1 - 1 } : sem_t)) = g at hsem
            have hgc : (g (sem_at s id.toNat)).count = (sem_at s id.toNat).count + 1 - 1 := by
              rw [← hg]
            have hgq : (g (sem_at s id.toNat)).wait_queue
                = (queue_out cfg.QUEUE_SIZE (sem_at s id.toNat).wait_queue (-1)).2.1 := by
              rw [← hg]
            have hwp : wait_pids cfg (sem_update s3 id.toNat
                (fun m => { m with count := m.count - 1 }))
                = wait_pids cfg (sem_update s id.toNat g) :=
              wait_pids_congr cfg _ _ (by
                show s3.mutexes = s.mutexes
                rw [b1]
                rfl) hsem
            obtain ⟨R, q1, q2⟩ := wait_pids_sem_update cfg s id.toNat g hi
            rw [hgq] at q2
            rw [o4] at q1
            have hnd := (q1.nodup_iff).1 (wait_pids_nodup_of_excl cfg s hex)
            have hnotin : (queue_out cfg.QUEUE_SIZE (sem_at s id.toNat).wait_queue (-1)).2.2
                ∉ wait_pids cfg (sem_update s3 id.toNat
                  (fun m => { m with count := m.count - 1 })) := by
              rw [hwp]
              intro hin
              have := q2.subset hin
              rw [List.cons_append] at hnd
              exact (List.nodup_cons.1 hnd).1 this
            have hpid4 : ∀ j, (proc_at (sem_update s3 id.toNat
                (fun m => { m with count := m.count - 1 })) j).pid = (proc_at s j).pid :=
              fun j => a8 j
            have hnp4 : (sem_update s3 id.toNat
                (fun m => { m with count := m.count - 1 })).next_pid = s.next_pid := a1
            intro m hm
            have hm' := hm
            rw [hsem] at hm'
            have hold : ∀ q ∈ queue_contents cfg.QUEUE_SIZE m.wait_queue,
                ∃ a, pid_to_proc cfg s q = some a ∧
                  (proc_at s a).state = proc_state_t.WAITING := by
              intro q hq
              rcases List.mem_or_eq_of_mem_set hm' with hm1' | hm1'
              · exact (hinv m hm1').2.2 q hq
              · rw [hm1', hgq] at hq
                exact c3 q (by rw [o4]; exact List.mem_cons_of_mem _ hq)
            refine ⟨?_, ?_, ?_⟩
            · rcases List.mem_or_eq_of_mem_set hm' with hm1' | hm1'
              · exact (hinv m hm1').1
              · rw [hm1', hgc]
                omega
            · intro hpos
              rcases List.mem_or_eq_of_mem_set hm' with hm1' | hm1'
              · exact (hinv m hm1').2.1 hpos
              · rw [hm1', hgc] at hpos
                omega
            · intro q hq
              obtain ⟨a, ha, hwa⟩ := hold q hq
              have hqw := mem_wait_pids_sem cfg _ m q hm hq
              have hqne : q ≠ (queue_out cfg.QUEUE_SIZE (sem_at s id.toNat).wait_queue
                  (-1)).2.2 := fun e => hnotin (e ▸ hqw)
              have hap : a ≠ p := by
                intro e
                rw [e] at ha
                exact hqne ((pid_to_proc_some cfg s q p ha).1.symm.trans hpp)
              refine ⟨a, (pid_to_proc_congr cfg s _ q hnp4 hpid4).trans ha, ?_⟩
              have : proc_at (sem_update s3 id.toNat
                  (fun m => { m with count := m.count - 1 })) a = proc_at s a := a7 a hap
              rw [this]
              exact hwa
      · rename_i hne
        have he : queue_is_empty (sem_at s id.toNat).wait_queue = true := by
          simpa using hne
        simp only [Option.some.injEq, Prod.mk.injEq] at h
        rw [← h.2]
        have hce := (queue_is_empty_iff cfg.QUEUE_SIZE _ hwf).1 he
        refine sem_inv_sem_update cfg s _ _ hinv ⟨?_, fun _ => hce, ?_⟩
        · show 0 ≤ (sem_at s id.toNat).count + 1
          omega
        · intro q hq
          have hq' : q ∈ queue_contents cfg.QUEUE_SIZE (sem_at s id.toNat).wait_queue := hq
          rw [hce] at hq'
          simp at hq'

theorem ksem_init_length (cfg : kconfig) (s : kernel_t) (value : Int) :
    (ksem_init cfg s value).2.semaphores.length = s.semaphores.length := by
  unfold ksem_init
  simp only
  split
  · rfl
  · split
    · rfl
    · rw [sem_update_length]

theorem ksem_wait_length (cfg : kconfig) (s s' : kernel_t) (id rc : Int)
    (h : ksem_wait cfg s id = some (rc, s')) :
    s'.semaphores.length = s.semaphores.length := by
  unfold ksem_wait at h
  simp only at h
  split at h
  · simp only [Option.some.injEq, Prod.mk.injEq] at h
    rw [← h.2]
  · split at h
    · simp only [Option.some.injEq, Prod.mk.injEq] at h
      rw [← h.2]
    · split at h
      · split at h
        · simp only [Option.some.injEq, Prod.mk.injEq] at h
          rw [← h.2]
        · split at h
          · simp only [Option.some.injEq, Prod.mk.injEq] at h
            rw [← h.2, sem_update_length]
            rfl
          · split at h
            · simp at h
            · rename_i s3 hrem
              simp only [Option.some.injEq, Prod.mk.injEq] at h
              rw [← h.2, (scheduler_remove_sync cfg _ s3 _ hrem).2.2.1, sem_update_length]
              rfl
      · split at h
        · simp only [Option.some.injEq, Prod.mk.injEq] at h
          rw [← h.2, sem_update_length]
        · simp only [Option.some.injEq, Prod.mk.injEq] at h
          rw [← h.2]

theorem ksem_post_length (cfg : kconfig) (s s' : kernel_t) (id rc : Int)
    (h : ksem_post cfg s id = some (rc, s')) :
    s'.semaphores.length = s.semaphores.length := by
  unfold ksem_post at h
  simp only at h
  split at h
  · simp at h
  · split at h
    · simp only [Option.some.injEq, Prod.mk.injEq] at h
      rw [← h.2]
    · split at h
      · split at h
        · simp only [Option.some.injEq, Prod.mk.injEq] at h
          rw [← h.2, sem_update_length, sem_update_length]
        · split at h
          · simp at h
          · rename_i s3 hadd
            simp only [Option.some.injEq, Prod.mk.injEq] at h
            rw [← h.2, sem_update_length, (scheduler_add_sync cfg _ s3 _ hadd).2.2.1,
              sem_update_length, sem_update_length]
      · simp only [Option.some.injEq, Prod.mk.injEq] at h
        rw [← h.2, sem_update_length]

/-- The exclusivity invariant, the invariant of the semaphores and the size of the
semaphore table survive every call of a run. -/
theorem sem_inv_step (cfg : kconfig) (s s' : kernel_t) (c : sem_call)
    (hex : excl_inv cfg s) (hinv : sem_inv cfg s)
    (hlen : s.semaphores.length = cfg.SEM_MAX)
    (hok : (match c with
      | sem_call.init value => decide (0 ≤ value)
      | sem_call.wait _ =>
        (match s.active_proc with
         | none => true
         | some a => (proc_at s a).pid != 0)
      | _ => true) = true)
    (h : sem_step cfg s c = some s') :
    excl_inv cfg s' ∧ sem_inv cfg s' ∧ s'.semaphores.length = cfg.SEM_MAX := by
  cases c with
  | init v =>
    simp only [sem_step, Option.some.injEq] at h
    simp only [decide_eq_true_eq] at hok
    rw [← h]
    exact ⟨excl_inv_ksem_init cfg s v hex, sem_inv_ksem_init cfg s v hok hinv,
      by rw [ksem_init_length]; exact hlen⟩
  | wait id =>
    simp only [sem_step, Option.map_eq_some', Prod.exists, exists_eq_right] at h
    obtain ⟨rc, hc⟩ := h
    have huser : ∀ a, s.active_proc = some a → (proc_at s a).pid ≠ 0 := by
      intro a ha
      rw [ha] at hok
      simpa using hok
    exact ⟨excl_inv_ksem_wait cfg s s' id rc hex huser hc,
      sem_inv_ksem_wait cfg s s' id rc hex hinv hlen hc,
      by rw [ksem_wait_length cfg s s' id rc hc]; exact hlen⟩
  | post id =>
    simp only [sem_step, Option.map_eq_some', Prod.exists, exists_eq_right] at h
    obtain ⟨rc, hc⟩ := h
    exact ⟨excl_inv_ksem_post cfg s s' id rc hex hc,
      sem_inv_ksem_post cfg s s' id rc hex hinv hlen hc,
      by rw [ksem_post_length cfg s s' id rc hc]; exact hlen⟩
  | run =>
    simp only [sem_step] at h
    have hrr := scheduler_run_rel cfg s s' hex.1.2.2.1 h
    exact ⟨excl_inv_run cfg s s' hex hrr, sem_inv_run cfg s s' hex hinv hrr,
      by rw [(scheduler_run_sync cfg s s' h).2.2.1]; exact hlen⟩
  | tick =>
    simp only [sem_step] at h
    obtain ⟨h1, h2⟩ := sem_inv_tick cfg s s' hex hinv h
    exact ⟨h1, h2, by rw [(tick_sync cfg s s' h).2.2.1]; exact hlen⟩

theorem sem_inv_run_calls (cfg : kconfig) (calls : List sem_call) :
    ∀ s s' : kernel_t, excl_inv cfg s → sem_inv cfg s →
      s.semaphores.length = cfg.SEM_MAX → sem_run cfg s calls = some s' →
      sem_calls_ok cfg s calls = true → sem_inv cfg s' := by
  induction calls with
  | nil =>
    intro s s' _ hinv _ h _
    simp only [sem_run, Option.some.injEq] at h
    rw [← h]
    exact hinv
  | cons c cs ih =>
    intro s s' hex hinv hlen h hu
    simp only [sem_run] at h
    simp only [sem_calls_ok, Bool.and_eq_true] at hu
    cases hs : sem_step cfg s c with
    | none => rw [hs] at h; simp at h
    | some s1 =>
      rw [hs] at h hu
      simp only at h hu
      obtain ⟨e1, e2, e3⟩ := sem_inv_step cfg s s1 c hex hinv hlen hu.1 hs
      exact ih s1 s' e1 e2 e3 h hu.2

/-- The boot leaves every semaphore with count 0 and an empty wait queue. -/
theorem boot_sem_inv (cfg : kconfig) (s0 sb : kernel_t) (h : boot cfg s0 = some sb) :
    sem_inv cfg sb ∧ sb.semaphores.length = cfg.SEM_MAX := by
  unfold boot at h
  cases h1 : kproc_init cfg (scheduler_init cfg s0) with
  | none => simp [h1] at h
  | some s1 =>
    simp only [h1, Option.some.injEq] at h
    have hs : sb.semaphores = (List.range cfg.SEM_MAX).map (fun (i : Nat) =>
        ({ allocated := 0, count := 0,
           wait_queue := queue_init cfg.QUEUE_SIZE
             (sem_at (kmutexes_init cfg s1).2 i).wait_queue } : sem_t)) := by
      rw [← h]
      rfl
    constructor
    · intro m hm
      rw [hs] at hm
      obtain ⟨i, _, rfl⟩ := List.mem_map.1 hm
      refine ⟨le_refl _, fun _ => queue_init_contents _ _, fun p hp => ?_⟩
      rw [queue_init_contents] at hp
      simp at hp
    · rw [hs]
      simp

/-- C27: the invariant of the semaphores. From memory as the loader leaves it, after the
boot of main.c and any sequence of `ksem_init` calls with a value that is not negative,
`ksem_wait` and `ksem_post` calls, interleaved in any way with `scheduler_run` and timer
ticks, that the kernel survives and in which the idle process makes no `ksem_wait`, every
semaphore has a count that is not negative, no waiter when its count is positive, and on
its wait queue only pids of live processes in state WAITING. -/
theorem semaphore_invariant (cfg : kconfig) (s0 sb s : kernel_t) (calls : List sem_call)
    (hmem : boot_memory cfg s0) (hboot : boot cfg s0 = some sb)
    (hrun : sem_run cfg sb calls = some s)
    (hok : sem_calls_ok cfg sb calls = true) :
    ∀ m ∈ s.semaphores,
      0 ≤ m.count ∧
      (0 < m.count → queue_contents cfg.QUEUE_SIZE m.wait_queue = []) ∧
      ∀ p ∈ queue_contents cfg.QUEUE_SIZE m.wait_queue,
        ∃ a, (proc_at s a).pid = p ∧ 0 ≤ p ∧ a < cfg.PROC_MAX ∧
          (proc_at s a).state = proc_state_t.WAITING := by
  obtain ⟨hb1, hb2⟩ := boot_sem_inv cfg s0 sb hboot
  have hinv := sem_inv_run_calls cfg calls sb s (boot_excl_inv cfg s0 sb hmem hboot) hb1 hb2
    hrun hok
  intro m hm
  obtain ⟨h1, h2, h3⟩ := hinv m hm
  refine ⟨h1, h2, fun p hp => ?_⟩
  obtain ⟨a, ha, hw⟩ := h3 p hp
  obtain ⟨e1, e2, _, e4⟩ := pid_to_proc_some cfg s p a ha
  exact ⟨a, e1, e2, e4, hw⟩

theorem semaphore_invariant_witness :
    boot_memory rr_config rr_start ∧ boot rr_config rr_start = some excl_booted ∧
    sem_run rr_config excl_booted sem_calls_boot = some sem_final ∧
    (sem_at sem_final 0).count = 0 ∧
    queue_contents 4 (sem_at sem_final 0).wait_queue = [2] ∧
    (proc_at sem_final 2).state = proc_state_t.WAITING ∧
    ∀ m ∈ sem_final.semaphores,
      0 ≤ m.count ∧
      (0 < m.count → queue_contents rr_config.QUEUE_SIZE m.wait_queue = []) ∧
      ∀ p ∈ queue_contents rr_config.QUEUE_SIZE m.wait_queue,
        ∃ a, (proc_at sem_final a).pid = p ∧ 0 ≤ p ∧ a < rr_config.PROC_MAX ∧
          (proc_at sem_final a).state = proc_state_t.WAITING :=
  have hm : boot_memory rr_config rr_start := by
    unfold boot_memory
    decide
  ⟨hm, by decide, by decide, by decide, by decide, by decide,
    semaphore_invariant rr_config rr_start excl_booted sem_final sem_calls_boot hm
      (by decide) (by decide) (by decide)⟩

/-! ## Supporting facts for C23 and C30 -/

/-- An id outside [0, MUTEX_MAX) is rejected by the three mutex calls, which return -1 and
leave the machine as it is. -/
theorem kmutex_calls_out_of_range (cfg : kconfig) (free : mutex_t → mutex_t) (s : kernel_t)
    (id : Int) (h : id < 0 ∨ id ≥ (cfg.MUTEX_MAX : Int)) :
    kmutex_lock cfg s id = some (-1, s) ∧ kmutex_unlock cfg s id = some (-1, s) ∧
    kmutex_destroy cfg free s id = (-1, s) := by
  refine ⟨?_, ?_, ?_⟩
  · simp only [kmutex_lock, if_pos h]
  · simp only [kmutex_unlock, if_pos h]
  · simp only [kmutex_destroy, if_pos h]

/-- For a valid direction, a source that is not NULL, a size that is not negative and an
active process with a buffer attached, `ksyscall_io_write` returns `size`, whatever the
state of the buffer; with size 0 the TTY table is unchanged. -/
theorem ksyscall_io_write_rc (RINGBUF_SIZE : Nat) (s : kernel_t) (tty_table : List tty_t)
    (io : Int) (mem : List Int) (size : Int) (a : Nat) (r : io_ref)
    (hio : 0 ≤ io ∧ io ≤ 1) (hsize : 0 ≤ size) (hact : s.active_proc = some a)
    (hbuf : (proc_at s a).io_get io = some r) :
    (ksyscall_io_write RINGBUF_SIZE s tty_table io (some mem) size).1 = size ∧
    (size = 0 →
      (ksyscall_io_write RINGBUF_SIZE s tty_table io (some mem) size).2 = tty_table) := by
  have h1 : ¬ (io < 0 ∨ io > 1) := by omega
  have h2 : ¬ size < 0 := by omega
  simp only [ksyscall_io_write, if_neg h1, if_neg h2, hact, hbuf]
  refine ⟨trivial, fun h0 => ?_⟩
  rw [h0]
  rfl

theorem io_load_store (tty_table : List tty_t) (r : io_ref) (b : ringbuf_t)
    (hr : r.tty < tty_table.length) :
    io_load (io_store tty_table r b) r = b ∧
    (io_store tty_table r b).length = tty_table.length := by
  cases r with
  | io_input t =>
    have ht : t < tty_table.length := hr
    simp only [io_load, io_store, tty_at, List.length_set]
    rw [getD_set_eq, if_pos ⟨rfl, ht⟩]
    exact ⟨rfl, trivial⟩
  | io_output t =>
    have ht : t < tty_table.length := hr
    simp only [io_load, io_store, tty_at, List.length_set]
    rw [getD_set_eq, if_pos ⟨rfl, ht⟩]
    exact ⟨rfl, trivial⟩

/-- The loop of `ksyscall_io_write` as seen from the buffer it writes to. -/
theorem io_write_loop (n : Nat) (r : io_ref) (mem : List Int) :
    ∀ (k : Nat) (tty_table : List tty_t), r.tty < tty_table.length →
      io_load ((List.range k).foldl
          (fun (t : List tty_t) (i : Nat) =>
            io_store t r (ringbuf_write n (io_load t r) (mem.getD i 0)).2) tty_table) r
        = ringbuf_write_all n (io_load tty_table r)
            ((List.range k).map (fun i => mem.getD i 0)) ∧
      ((List.range k).foldl
          (fun (t : List tty_t) (i : Nat) =>
            io_store t r (ringbuf_write n (io_load t r) (mem.getD i 0)).2) tty_table).length
        = tty_table.length := by
  intro k
  induction k with
  | zero =>
    intro tty_table _
    exact ⟨rfl, rfl⟩
  | succ k ih =>
    intro tty_table hr
    obtain ⟨h1, h2⟩ := ih tty_table hr
    rw [List.range_succ, List.foldl_append, List.map_append]
    simp only [List.foldl_cons, List.foldl_nil, List.map_cons, List.map_nil]
    obtain ⟨e1, e2⟩ := io_load_store ((List.range k).foldl
          (fun (t : List tty_t) (i : Nat) =>
            io_store t r (ringbuf_write n (io_load t r) (mem.getD i 0)).2) tty_table) r
      (ringbuf_write n (io_load ((List.range k).foldl
          (fun (t : List tty_t) (i : Nat) =>
            io_store t r (ringbuf_write n (io_load t r) (mem.getD i 0)).2) tty_table) r)
        (mem.getD k 0)).2 (by rw [h2]; exact hr)
    refine ⟨?_, by rw [e2, h2]⟩
    rw [e1, h1]
    unfold ringbuf_write_all
    rw [List.foldl_append]
    rfl

/-- Writing a list of bytes to a buffer: the bytes that fit are appended in order. -/
theorem ringbuf_write_all_contents (n : Nat) :
    ∀ (bytes : List Int) (b : ringbuf_t), ringbuf_inv n b →
      ringbuf_inv n (ringbuf_write_all n b bytes) ∧
      ringbuf_contents n (ringbuf_write_all n b bytes)
        = ringbuf_contents n b ++ bytes.take (n - (ringbuf_contents n b).length) := by
  intro bytes
  induction bytes with
  | nil =>
    intro b hb
    exact ⟨hb, by simp [ringbuf_write_all]⟩
  | cons x rest ih =>
    intro b hb
    have hstep : ringbuf_write_all n b (x :: rest)
        = ringbuf_write_all n (ringbuf_write n b x).2 rest := rfl
    rw [hstep]
    cases hf : ringbuf_is_full n b with
    | true =>
      have hw : (ringbuf_write n b x).2 = b := by simp [ringbuf_write, hf]
      rw [hw]
      obtain ⟨i1, i2⟩ := ih b hb
      have hlen := (ringbuf_full_iff n b hb).1 hf
      refine ⟨i1, ?_⟩
      rw [i2, hlen]
      simp
    | false =>
      obtain ⟨_, w2, w3⟩ := ringbuf_write_spec n b x hb hf
      obtain ⟨i1, i2⟩ := ih _ w2
      refine ⟨i1, ?_⟩
      rw [i2, w3]
      have hlt : (ringbuf_contents n b).length < n := by
        have hle : (ringbuf_contents n b).length ≤ n := by
          rw [ringbuf_contents_length]
          have := hb.1.2.2.1
          have := hb.1.2.1
          omega
        have hne : (ringbuf_contents n b).length ≠ n := fun e => by
          have := (ringbuf_full_iff n b hb).2 e
          rw [hf] at this
          simp at this
        omega
      have hk : n - (ringbuf_contents n b).length
          = (n - (ringbuf_contents n b ++ [x]).length) + 1 := by
        rw [List.length_append, List.length_singleton]
        omega
      rw [hk, List.take_succ_cons, List.append_assoc]
      rfl

/-- What `ksyscall_io_write` does for valid arguments, with `size` bytes of source memory
and a well-formed buffer attached: the first min(size, f) bytes are appended to the
buffer in order, f being the number of free cells, and `size` is returned. -/
theorem ksyscall_io_write_spec (RINGBUF_SIZE : Nat) (s : kernel_t) (tty_table : List tty_t)
    (io : Int) (mem : List Int) (size : Int) (a : Nat) (r : io_ref)
    (hio : 0 ≤ io ∧ io ≤ 1) (hsize : 0 ≤ size) (hmem : size.toNat ≤ mem.length)
    (hact : s.active_proc = some a) (hbuf : (proc_at s a).io_get io = some r)
    (hr : r.tty < tty_table.length) (hwf : ringbuf_inv RINGBUF_SIZE (io_load tty_table r)) :
    (ksyscall_io_write RINGBUF_SIZE s tty_table io (some mem) size).1 = size ∧
    ringbuf_contents RINGBUF_SIZE
        (io_load (ksyscall_io_write RINGBUF_SIZE s tty_table io (some mem) size).2 r)
      = ringbuf_contents RINGBUF_SIZE (io_load tty_table r)
          ++ (mem.take size.toNat).take
              (RINGBUF_SIZE - (ringbuf_contents RINGBUF_SIZE (io_load tty_table r)).length) := by
  have h1 : ¬ (io < 0 ∨ io > 1) := by omega
  have h2 : ¬ size < 0 := by omega
  simp only [ksyscall_io_write, if_neg h1, if_neg h2, hact, hbuf]
  refine ⟨trivial, ?_⟩
  rw [(io_write_loop RINGBUF_SIZE r mem size.toNat tty_table hr).1,
    (ringbuf_write_all_contents RINGBUF_SIZE _ _ hwf).2]
  congr 2
  apply List.ext_getElem
  · simp
    omega
  · intro i hi1 hi2
    simp only [List.length_map, List.length_range] at hi1
    simp only [List.getElem_map, List.getElem_range, List.getElem_take]
    rw [List.getD_eq_getElem?_getD, List.getElem?_eq_getElem (by omega)]
    rfl

/-! ## C34 to C37 and C39: five places where the code departs from the claim -/

/-- C34 fails in the code: the loop of `scheduler_remove` reads `run_queue.size` again at
every round, so that after the target has been dropped it stops one round early and
leaves the queue rotated. With P, Q, R (pids 1, 2, 3) on the run queue in that order,
removing P leaves R, Q (not Q, R) and removing Q leaves R, P (not P, R); only the removal
of the last pid keeps the order. -/
theorem scheduler_remove_rotates :
    queue_contents 4 s5_booted.run_queue = [1, 2, 3] ∧
    (proc_at s5_booted 1).pid = 1 ∧ (proc_at s5_booted 2).pid = 2 ∧
    (proc_at s5_booted 3).pid = 3 ∧
    (scheduler_remove s5_config s5_booted (some 1)).map
        (fun s => queue_contents 4 s.run_queue) = some [3, 2] ∧
    (scheduler_remove s5_config s5_booted (some 2)).map
        (fun s => queue_contents 4 s.run_queue) = some [3, 1] ∧
    (scheduler_remove s5_config s5_booted (some 3)).map
        (fun s => queue_contents 4 s.run_queue) = some [1, 2] := by
  refine ⟨by decide, by decide, by decide, by decide, by decide, by decide, by decide⟩

/-- C35 fails in the code: `kproc_destroy` calls `scheduler_remove`, which walks the run
queue only. A (pid 1, slot 1) is SLEEPING on the sleep queue; `kproc_destroy` on its slot
returns 0 and frees the slot, and pid 1 is still on the sleep queue. -/
theorem kproc_destroy_leaves_sleeper :
    (proc_at rr_asleep 1).pid = 1 ∧ (proc_at rr_asleep 1).state = proc_state_t.SLEEPING ∧
    queue_contents 4 rr_asleep.sleep_queue = [1] ∧
    (kproc_destroy rr_config rr_asleep (some 1)).map
        (fun r => (r.1, (proc_at r.2 1).pid, queue_contents 4 r.2.sleep_queue,
          queue_contents 4 r.2.run_queue))
      = some (0, -1, [1], []) := by
  refine ⟨by decide, by decide, by decide, by decide⟩

/-- C36 fails in the code: `ksyscall_proc_sleep` accepts 0 seconds, and `scheduler_sleep`
then leaves the caller in state SLEEPING on the sleep queue with sleep_time 0. After the
next tick its sleep_time is -1 and it is still SLEEPING: `scheduler_timer` wakes a sleeper
only at sleep_time 1. -/
theorem sleep_zero_breaks_sleep_time :
    kernel_run rr_config excl_booted [kernel_event.tick, kernel_event.proc_sleep 0]
      = some rr_sleep_zero ∧
    (proc_at rr_sleep_zero 1).pid = 1 ∧
    (proc_at rr_sleep_zero 1).state = proc_state_t.SLEEPING ∧
    (proc_at rr_sleep_zero 1).sleep_time = 0 ∧
    queue_contents 4 rr_sleep_zero.sleep_queue = [1] ∧
    (tick rr_config rr_sleep_zero).map
        (fun s => ((proc_at s 1).state, (proc_at s 1).sleep_time,
          queue_contents 4 s.sleep_queue))
      = some (proc_state_t.SLEEPING, -1, [1]) := by
  refine ⟨by decide, by decide, by decide, by decide, by decide, by decide⟩

/-- The trap-frame pointer that `kproc_create` stores for slot `e`, as a byte offset into
the stack pool: `&proc_stack[e][PROC_STACK_SIZE]` is the end of the region of slot `e`,
and the trap frame is put PROC_STACK_SIZE - sizeof(trapframe_t) bytes behind it. -/
theorem kproc_create_proc_trapframe (cfg : kconfig) (s : kernel_t) (e : Int) (proc_ptr : Nat)
    (proc_name : String) (proc_type : proc_type_t) :
    (kproc_create_proc cfg s e proc_ptr proc_name proc_type).stack
      = some ((e + 1) * cfg.PROC_STACK_SIZE) ∧
    (kproc_create_proc cfg s e proc_ptr proc_name proc_type).trapframe
      = some ((e + 2) * cfg.PROC_STACK_SIZE - cfg.TRAPFRAME_SIZE) := by
  constructor
  · show some (e * (cfg.PROC_STACK_SIZE : Int) + (cfg.PROC_STACK_SIZE : Int)) = _
    congr 1
    ring
  · show some (e * (cfg.PROC_STACK_SIZE : Int) + (cfg.PROC_STACK_SIZE : Int)
      + (cfg.PROC_STACK_SIZE : Int) - (cfg.TRAPFRAME_SIZE : Int)) = _
    congr 1
    ring

/-- C37 fails in the code: with PROC_STACK_SIZE = 4096, sizeof(trapframe_t) = 64 and
three slots (a stack pool of 12288 bytes), the boot leaves the trap frame of slot 0 at
offset 8128, inside the region [4096, 8192) of slot 1 and not at 4032 inside its own
region [0, 4096), the trap frame of slot 1 at 12224 inside the region of slot 2, and the
trap frame of slot 2 at 16320, past the end of the pool. -/
theorem trapframe_outside_own_stack :
    rr_config.PROC_STACK_SIZE = 4096 ∧ rr_config.TRAPFRAME_SIZE = 64 ∧
    rr_config.PROC_MAX = 3 ∧
    excl_booted.proc_table.map (fun p => (p.pid, p.stack, p.trapframe))
      = [(0, some 4096, some 8128), (1, some 8192, some 12224),
         (2, some 12288, some 16320)] := by
  refine ⟨by decide, by decide, by decide, by decide⟩

/-- Ids outside [0, SEM_MAX]: the three semaphore system calls return -1 and leave the
machine as it is. For SEM_MAX itself `ksyscall_sem_wait` and `ksyscall_sem_destroy` still
do, as `ksem_wait` and `ksem_destroy` check the range themselves. -/
theorem ksyscall_sem_out_of_range (cfg : kconfig) (free : sem_t → sem_t) (s : kernel_t)
    (id : Int) (h : id < 0 ∨ id ≥ (cfg.SEM_MAX : Int)) :
    ksyscall_sem_wait cfg s id = some (-1, s) ∧
    ksyscall_sem_destroy cfg free s id = (-1, s) ∧
    (id ≠ (cfg.SEM_MAX : Int) → ksyscall_sem_post cfg s id = some (-1, s)) := by
  refine ⟨?_, ?_, ?_⟩
  · unfold ksyscall_sem_wait
    split
    · rfl
    · simp only [ksem_wait, if_pos h]
  · unfold ksyscall_sem_destroy
    split
    · rfl
    · simp only [ksem_destroy, if_pos h]
  · intro hne
    have : id < 0 ∨ id > (cfg.SEM_MAX : Int) := by omega
    simp only [ksyscall_sem_post, if_pos this]

/-- C39 fails in the code for id = SEM_MAX and `ksyscall_sem_post`: the test of the
wrapper is `sem > SEM_MAX`, and `ksem_post` has no test of its own, so that it reads
`semaphores[SEM_MAX]`, one entry past the table (`none` in the model). Here SEM_MAX = 2
and the table has the entries 0 and 1. -/
theorem ksyscall_sem_post_reads_outside :
    rr_config.SEM_MAX = 2 ∧ rr_sem.semaphores.length = 2 ∧
    ksyscall_sem_post rr_config rr_sem 2 = ksem_post rr_config rr_sem 2 ∧
    ksem_post rr_config rr_sem 2 = none ∧
    ksyscall_sem_post rr_config rr_sem 3 = some (-1, rr_sem) ∧
    ksyscall_sem_wait rr_config rr_sem 2 = some (-1, rr_sem) := by
  refine ⟨by decide, by decide, by decide, by decide, by decide, by decide⟩

/-! ## C31: IO_READ -/

/-- C31 fails in the code: the loop of `ksyscall_io_read` runs `size` times, not
min(size, buffer size) times, and stores the local `c` into `buf[i]` at every round, also
when `ringbuf_read` has found the buffer empty and has left `c` as it was. The output
buffer of the active process holds 55, 56, 57; a read of 5 bytes into the destination
1, 2, 3, 4, 5 returns 3 and leaves the buffer empty, and the destination is
55, 56, 57, 57, 57: the cells 3 and 4 are overwritten. A read of 2 bytes from the empty
input buffer returns 0 and overwrites the cells 0 and 1 with 0. -/
theorem ksyscall_io_read_overwrites :
    io_running.active_proc = some 1 ∧
    (proc_at io_running 1).io0 = some (io_ref.io_input 1) ∧
    (proc_at io_running 1).io1 = some (io_ref.io_output 1) ∧
    ringbuf_inv 4 (io_load io_ttys (io_ref.io_output 1)) ∧
    ringbuf_contents 4 (io_load io_ttys (io_ref.io_output 1)) = [55, 56, 57] ∧
    ringbuf_contents 4 (io_load io_ttys (io_ref.io_input 1)) = [] ∧
    (ksyscall_io_read 4 2 io_running io_ttys 1 (some [1, 2, 3, 4, 5]) 5).map
        (fun r => (r.1, r.2.2, ringbuf_contents 4 (io_load r.2.1 (io_ref.io_output 1))))
      = some (3, [55, 56, 57, 57, 57], []) ∧
    (ksyscall_io_read 4 2 io_running io_ttys 0 (some [1, 2, 3, 4, 5]) 2).map
        (fun r => (r.1, r.2.2, ringbuf_contents 4 (io_load r.2.1 (io_ref.io_input 1))))
      = some (0, [0, 0, 3, 4, 5], []) := by
  refine ⟨by decide, by decide, by decide, ?_, by decide, by decide, by decide, by decide⟩
  unfold ringbuf_inv
  decide

/-! ## C32: the write-back of the return value -/

/-- When the service has left no active process, `ksyscall_irq_handler` stores nothing:
its result is the state that the service has left. -/
theorem ksyscall_irq_handler_parked (cfg : kconfig) (ids : syscall_ids)
    (RINGBUF_SIZE PROC_IO_MAX : Nat) (free_mutex : mutex_t → mutex_t) (free_sem : sem_t → sem_t)
    (user : Nat → List Int) (s : kernel_t) (tty_table : List tty_t) (a : Nat) (t : Int)
    (r : Int × kernel_t × List tty_t)
    (hact : s.active_proc = some a) (htf : (proc_at s a).trapframe = some t)
    (hid : (proc_at s a).frame.eax ≠ ids.SYSCALL_NONE)
    (hsw : ksyscall_switch cfg ids RINGBUF_SIZE PROC_IO_MAX free_mutex free_sem user s
      tty_table (proc_at s a).frame.eax (proc_at s a).frame.ebx (proc_at s a).frame.ecx
      (proc_at s a).frame.edx = some r)
    (hpark : r.2.1.active_proc = none) :
    ksyscall_irq_handler cfg ids RINGBUF_SIZE PROC_IO_MAX free_mutex free_sem user s tty_table
      = some (r.2.1, r.2.2) := by
  simp only [ksyscall_irq_handler, hact, htf, if_neg hid, hsw, hpark]

/-- C32 fails in the code for the calls that park the caller: the service takes the caller
off the processor through `scheduler_remove`, which sets `active_proc` to NULL, and the
store of `rc` at the end of `ksyscall_irq_handler` is under `if(active_proc)`. With
PROC_SLEEP = 6, MUTEX_LOCK = 12, SEM_WAIT = 16 and PROC_GET_PID = 8: A (pid 1, slot 1)
calls PROC_SLEEP(1), the service returns 0 and eax of the trap frame of A still holds 6;
A calls MUTEX_LOCK(0) on the mutex that is held, the service returns 2 and eax still
holds 12; A calls SEM_WAIT(0) on the semaphore with count 0, the service returns 0 and eax
still holds 16. For PROC_GET_PID, which does not park, eax holds the result 1. -/
theorem ksyscall_irq_handler_skips_parked :
    io_running.active_proc = some 1 ∧ rr_locked.active_proc = some 1 ∧
    rr_sem_zero.active_proc = some 1 ∧
    (ksyscall_proc_sleep rr_config (trap_enter io_running 6 1 0 0) 1).map Prod.fst
      = some 0 ∧
    (example_handler (trap_enter io_running 6 1 0 0)).map
        (fun r => (r.1.active_proc, (proc_at r.1 1).pid, (proc_at r.1 1).state,
          (proc_at r.1 1).frame.eax))
      = some (none, 1, proc_state_t.SLEEPING, 6) ∧
    (ksyscall_mutex_lock rr_config (trap_enter rr_locked 12 0 0 0) 0).map Prod.fst
      = some 2 ∧
    (example_handler (trap_enter rr_locked 12 0 0 0)).map
        (fun r => (r.1.active_proc, (proc_at r.1 1).pid, (proc_at r.1 1).state,
          (proc_at r.1 1).frame.eax))
      = some (none, 1, proc_state_t.WAITING, 12) ∧
    (ksyscall_sem_wait rr_config (trap_enter rr_sem_zero 16 0 0 0) 0).map Prod.fst
      = some 0 ∧
    (example_handler (trap_enter rr_sem_zero 16 0 0 0)).map
        (fun r => (r.1.active_proc, (proc_at r.1 1).pid, (proc_at r.1 1).state,
          (proc_at r.1 1).frame.eax))
      = some (none, 1, proc_state_t.WAITING, 16) ∧
    (example_handler (trap_enter io_running 8 0 0 0)).map
        (fun r => (r.1.active_proc, (proc_at r.1 1).pid, (proc_at r.1 1).state,
          (proc_at r.1 1).frame.eax))
      = some (some 1, 1, proc_state_t.ACTIVE, 1) := by
  refine ⟨by decide, by decide, by decide, by decide, by decide, by decide, by decide,
    by decide, by decide, by decide⟩

/-! ## C40: the lock count of a mutex counts the holder and the waiters -/

theorem mutex_cnt_update (cfg : kconfig) (s : kernel_t) (i : Nat) (g : mutex_t → mutex_t)
    (hinv : ∀ m ∈ s.mutexes, mutex_cnt cfg m)
    (hg : i < s.mutexes.length → mutex_cnt cfg (g (mutex_at s i))) :
    ∀ m ∈ (mutex_update s i g).mutexes, mutex_cnt cfg m := by
  by_cases hi : i < s.mutexes.length
  · intro m hm
    rcases List.mem_or_eq_of_mem_set hm with hm | hm
    · exact hinv m hm
    · rw [hm]
      exact hg hi
  · rw [mutex_update_out_of_range s i g (by omega)]
    exact hinv

theorem mutex_update_mutexes_congr (s s' : kernel_t) (i : Nat) (g : mutex_t → mutex_t)
    (h : s'.mutexes = s.mutexes) :
    (mutex_update s' i g).mutexes = (mutex_update s i g).mutexes := by
  simp only [mutex_update, mutex_at, h]

theorem mutex_cnt_kmutexes_init (cfg : kconfig) (s : kernel_t)
    (hmem : ∀ i, i < cfg.MUTEX_MAX →
      (mutex_at s i).wait_queue.items.length = cfg.QUEUE_SIZE) :
    ∀ m ∈ (kmutexes_init cfg s).2.mutexes, mutex_cnt cfg m := by
  intro m hm
  have hm' : m ∈ (List.range cfg.MUTEX_MAX).map (fun (i : Nat) =>
      ({ allocated := 0, locks := 0, owner := none,
         wait_queue := queue_init cfg.QUEUE_SIZE (mutex_at s i).wait_queue } : mutex_t)) := hm
  obtain ⟨i, hi, rfl⟩ := List.mem_map.1 hm'
  refine ⟨queue_init_wf _ _ (hmem i (List.mem_range.1 hi)), fun _ => ⟨rfl, rfl⟩, fun h => ?_⟩
  exact absurd rfl h

theorem mutex_cnt_kmutex_init (cfg : kconfig) (s : kernel_t)
    (hinv : ∀ m ∈ s.mutexes, mutex_cnt cfg m) :
    ∀ m ∈ (kmutex_init cfg s).2.mutexes, mutex_cnt cfg m := by
  unfold kmutex_init
  simp only
  split
  · exact hinv
  · split
    · exact hinv
    · refine mutex_cnt_update cfg _ _ _ hinv (fun _ => ?_)
      exact ⟨queue_init_replicate_wf _, fun _ => ⟨rfl, rfl⟩, fun h => absurd rfl h⟩

theorem mutex_cnt_kmutex_destroy (cfg : kconfig) (free : mutex_t → mutex_t) (s : kernel_t)
    (id : Int) (hfree : ∀ m, mutex_cnt cfg m → mutex_cnt cfg (free m))
    (hinv : ∀ m ∈ s.mutexes, mutex_cnt cfg m) :
    ∀ m ∈ (kmutex_destroy cfg free s id).2.mutexes, mutex_cnt cfg m := by
  unfold kmutex_destroy
  simp only
  split
  · exact hinv
  · split
    · exact hinv
    · split
      · exact hinv
      · refine mutex_cnt_update cfg _ _ _ hinv (fun hi => hfree _ ?_)
        exact hinv _ (mutex_at_mem s _ hi)

theorem mutex_cnt_kmutex_lock (cfg : kconfig) (s s' : kernel_t) (id rc : Int)
    (hinv : ∀ m ∈ s.mutexes, mutex_cnt cfg m) (hact : s.active_proc.isSome = true)
    (h : kmutex_lock cfg s id = some (rc, s')) : ∀ m ∈ s'.mutexes, mutex_cnt cfg m := by
  unfold kmutex_lock at h
  simp only at h
  split at h
  · simp only [Option.some.injEq, Prod.mk.injEq] at h
    rw [← h.2]
    exact hinv
  · split at h
    · rename_i o hown
      split at h
      · simp only [Option.some.injEq, Prod.mk.injEq] at h
        rw [← h.2]
        exact hinv
      · rename_i a ha
        have hat1 : mutex_at (proc_update s a
            (fun x => { x with state := proc_state_t.WAITING })) id.toNat
            = mutex_at s id.toNat := rfl
        have hmx1 : (proc_update s a
            (fun x => { x with state := proc_state_t.WAITING })).mutexes = s.mutexes := rfl
        rw [hat1] at h
        split at h
        · rename_i hrc
          simp only [Option.some.injEq, Prod.mk.injEq] at h
          rw [← h.2, mutex_update_mutexes_congr s _ _ _ hmx1]
          refine mutex_cnt_update cfg s _ _ hinv (fun hi => ?_)
          have hm := hinv _ (mutex_at_mem s _ hi)
          rcases queue_in_contents_cases cfg.QUEUE_SIZE (mutex_at s id.toNat).wait_queue
            (proc_at (proc_update s a
              (fun x => { x with state := proc_state_t.WAITING })) a).pid hm.1 with hc | hc
          · rw [hc.2]
            exact hm
          · exfalso
            simp [hc.1] at hrc
        · rename_i hrc
          split at h
          · simp at h
          · rename_i s3 hrem
            simp only [Option.some.injEq, Prod.mk.injEq] at h
            obtain ⟨k1, _, _, _⟩ := scheduler_remove_sync cfg _ s3 _ hrem
            rw [← h.2, mutex_update_mutexes_congr _ s3 _ _ k1, mutex_update_comp,
              mutex_update_mutexes_congr s _ _ _ hmx1]
            refine mutex_cnt_update cfg s _ _ hinv (fun hi => ?_)
            have hm := hinv _ (mutex_at_mem s _ hi)
            have hnf : queue_is_full cfg.QUEUE_SIZE (mutex_at s id.toNat).wait_queue = false := by
              cases hb : queue_is_full cfg.QUEUE_SIZE (mutex_at s id.toNat).wait_queue
              · rfl
              · exfalso
                apply hrc
                simp [queue_in, hb]
            obtain ⟨_, q2, q3, _⟩ := queue_in_spec cfg.QUEUE_SIZE (mutex_at s id.toNat).wait_queue
              (proc_at (proc_update s a
                (fun x => { x with state := proc_state_t.WAITING })) a).pid hm.1 hnf
            have hl := hm.2.2 (by rw [hown]; simp)
            refine ⟨q2, fun ho => ?_, fun _ => ?_⟩
            · have ho' : (mutex_at s id.toNat).owner = none := ho
              rw [hown] at ho'
              simp at ho'
            · show (mutex_at s id.toNat).locks + 1 = 1 + _
              rw [q3, hl]
              ring
    · rename_i hown
      simp only [Option.some.injEq, Prod.mk.injEq] at h
      rw [← h.2, mutex_update_comp]
      obtain ⟨a, ha⟩ := Option.isSome_iff_exists.1 hact
      refine mutex_cnt_update cfg s _ _ hinv (fun hi => ?_)
      have hm := hinv _ (mutex_at_mem s _ hi)
      obtain ⟨hl0, hs0⟩ := hm.2.1 hown
      refine ⟨hm.1, fun ho => ?_, fun _ => ?_⟩
      · have ho' : s.active_proc = none := ho
        rw [ha] at ho'
        simp at ho'
      · show (mutex_at s id.toNat).locks + 1 = 1 + (mutex_at s id.toNat).wait_queue.size
        omega

theorem mutex_cnt_kmutex_unlock (cfg : kconfig) (s s' : kernel_t) (id rc : Int)
    (hinv : ∀ m ∈ s.mutexes, mutex_cnt cfg m)
    (h : kmutex_unlock cfg s id = some (rc, s')) : ∀ m ∈ s'.mutexes, mutex_cnt cfg m := by
  unfold kmutex_unlock at h
  simp only at h
  split at h
  · simp only [Option.some.injEq, Prod.mk.injEq] at h
    rw [← h.2]
    exact hinv
  · split at h
    · simp only [Option.some.injEq, Prod.mk.injEq] at h
      rw [← h.2]
      exact hinv
    · rename_i o hown
      have hi : id.toNat < s.mutexes.length := by
        by_contra hge
        rw [mutex_at_out_of_range s id.toNat (by omega)] at hown
        simp at hown
      have hm := hinv _ (mutex_at_mem s _ hi)
      have hl := hm.2.2 (by rw [hown]; simp)
      have hm1 : mutex_at (mutex_update s id.toNat (fun m => { m with locks := m.locks - 1 }))
          id.toNat = { mutex_at s id.toNat with locks := (mutex_at s id.toNat).locks - 1 } :=
        mutex_at_update_self _ _ _ hi
      rw [hm1] at h
      split at h
      · rename_i hz
        simp only [Option.some.injEq, Prod.mk.injEq] at h
        rw [← h.2, mutex_update_comp]
        have hz' : (mutex_at s id.toNat).locks - 1 = 0 := by simpa using hz
        refine mutex_cnt_update cfg s _ _ hinv (fun _ => ⟨hm.1, fun _ => ⟨hz', ?_⟩, fun ho => ?_⟩)
        · show (mutex_at s id.toNat).wait_queue.size = 0
          omega
        · exact absurd rfl ho
      · rename_i hz
        have hz' : (mutex_at s id.toNat).locks - 1 ≠ 0 := by simpa using hz
        have hne : queue_is_empty (mutex_at s id.toNat).wait_queue = false := by
          simp only [queue_is_empty, beq_eq_false_iff_ne, ne_eq]
          omega
        obtain ⟨q1, q2, q3, _⟩ := queue_out_spec cfg.QUEUE_SIZE (mutex_at s id.toNat).wait_queue
          (-1) hm.1 hne
        split at h
        · rename_i hrc
          exfalso
          change ((queue_out cfg.QUEUE_SIZE (mutex_at s id.toNat).wait_queue (-1)).1 != 0) = true
            at hrc
          rw [q1] at hrc
          simp at hrc
        · split at h
          · simp at h
          · rename_i s3 hadd
            simp only [Option.some.injEq, Prod.mk.injEq] at h
            obtain ⟨k1, _, _, _⟩ := scheduler_add_sync cfg _ s3 _ hadd
            rw [← h.2, mutex_update_mutexes_congr _ s3 _ _ k1, mutex_update_comp,
              mutex_update_comp]
            cases hpp : pid_to_proc cfg (mutex_update (mutex_update s id.toNat
                (fun m => { m with locks := m.locks - 1 })) id.toNat
                (fun m => { m with wait_queue :=
                  (queue_out cfg.QUEUE_SIZE (mutex_at s id.toNat).wait_queue
                    (-1)).2.1 }))
                (queue_out cfg.QUEUE_SIZE (mutex_at s id.toNat).wait_queue
                    (-1)).2.2 with
            | none =>
              rw [hpp] at hadd
              simp [scheduler_add] at hadd
            | some p =>
              refine mutex_cnt_update cfg s _ _ hinv (fun _ => ⟨q2, fun ho => ?_, fun _ => ?_⟩)
              · simp at ho
              · show (mutex_at s id.toNat).locks - 1 = 1 + _
                rw [q3, hl]
                ring

theorem mutex_cnt_step (cfg : kconfig) (free : mutex_t → mutex_t) (s s' : kernel_t)
    (c : mutex_call) (hfree : ∀ m, mutex_cnt cfg m → mutex_cnt cfg (free m))
    (hinv : ∀ m ∈ s.mutexes, mutex_cnt cfg m)
    (hact : (match c with
      | mutex_call.lock _ => s.active_proc.isSome
      | _ => true) = true)
    (h : mutex_step cfg free s c = some s') : ∀ m ∈ s'.mutexes, mutex_cnt cfg m := by
  cases c with
  | init =>
    simp only [mutex_step, Option.some.injEq] at h
    rw [← h]
    exact mutex_cnt_kmutex_init cfg s hinv
  | destroy id =>
    simp only [mutex_step, Option.some.injEq] at h
    rw [← h]
    exact mutex_cnt_kmutex_destroy cfg free s id hfree hinv
  | lock id =>
    simp only [mutex_step, Option.map_eq_some', Prod.exists, exists_eq_right] at h
    obtain ⟨rc, hc⟩ := h
    exact mutex_cnt_kmutex_lock cfg s s' id rc hinv hact hc
  | unlock id =>
    simp only [mutex_step, Option.map_eq_some', Prod.exists, exists_eq_right] at h
    obtain ⟨rc, hc⟩ := h
    exact mutex_cnt_kmutex_unlock cfg s s' id rc hinv hc
  | run =>
    simp only [mutex_step] at h
    rw [(scheduler_run_sync cfg s s' h).1]
    exact hinv
  | tick =>
    simp only [mutex_step] at h
    rw [(tick_sync cfg s s' h).1]
    exact hinv

theorem mutex_cnt_run (cfg : kconfig) (free : mutex_t → mutex_t)
    (hfree : ∀ m, mutex_cnt cfg m → mutex_cnt cfg (free m)) (calls : List mutex_call) :
    ∀ s s' : kernel_t, (∀ m ∈ s.mutexes, mutex_cnt cfg m) →
      mutex_run cfg free s calls = some s' →
      locks_with_active cfg free s calls = true → ∀ m ∈ s'.mutexes, mutex_cnt cfg m := by
  induction calls with
  | nil =>
    intro s s' hinv h _
    simp only [mutex_run, Option.some.injEq] at h
    rw [← h]
    exact hinv
  | cons c cs ih =>
    intro s s' hinv h hu
    simp only [mutex_run] at h
    simp only [locks_with_active, Bool.and_eq_true] at hu
    cases hs : mutex_step cfg free s c with
    | none => rw [hs] at h; simp at h
    | some s1 =>
      rw [hs] at h hu
      simp only at h hu
      exact ih s1 s' (mutex_cnt_step cfg free s s1 c hfree hinv hu.1 hs) h hu.2

/-- C40: the lock count of a mutex counts the holder and the waiters. From the state that
`kmutexes_init` leaves on a table whose wait-queue arrays have QUEUE_SIZE cells, after any
sequence of `kmutex_init`, `kmutex_destroy`, `kmutex_lock` and `kmutex_unlock` calls,
interleaved in any way with `scheduler_run` and timer ticks, that the kernel survives and
in which every `kmutex_lock` is made while `active_proc` is not null, every mutex without
an owner has lock count 0, every mutex with an owner has lock count 1 + the number of
pids on its wait queue, and for a mutex with an owner whose lock count stays other than 0
after the decrement of `kmutex_unlock`, the `queue_out` on the wait queue that
`kmutex_unlock` makes succeeds. `free` is what the library call `free(mutex)` of
`kmutex_destroy` does to the table entry; it is assumed to leave an entry that satisfies
the invariant (as leaving the entry alone does), and plays no part in a sequence without
`kmutex_destroy`. -/
theorem mutex_lock_count (cfg : kconfig) (free : mutex_t → mutex_t) (s0 s : kernel_t)
    (calls : List mutex_call)
    (hfree : ∀ m, mutex_cnt cfg m → mutex_cnt cfg (free m))
    (hmem : ∀ i, i < cfg.MUTEX_MAX →
      (mutex_at s0 i).wait_queue.items.length = cfg.QUEUE_SIZE)
    (hrun : mutex_run cfg free (kmutexes_init cfg s0).2 calls = some s)
    (hact : locks_with_active cfg free (kmutexes_init cfg s0).2 calls = true) :
    ∀ m ∈ s.mutexes,
      (m.owner = none → m.locks = 0) ∧
      (m.owner ≠ none →
        m.locks = 1 + ((queue_contents cfg.QUEUE_SIZE m.wait_queue).length : Int)) ∧
      (m.owner ≠ none → m.locks - 1 ≠ 0 →
        (queue_out cfg.QUEUE_SIZE m.wait_queue (-1)).1 = 0) := by
  intro m hm
  obtain ⟨hwf, h1, h2⟩ := mutex_cnt_run cfg free hfree calls _ s
    (mutex_cnt_kmutexes_init cfg s0 hmem) hrun hact m hm
  have hs0 : 0 ≤ m.wait_queue.size := hwf.2.1
  refine ⟨fun ho => (h1 ho).1, fun ho => ?_, fun ho hl => ?_⟩
  · rw [queue_contents_length, Int.toNat_of_nonneg hs0]
    exact h2 ho
  · have hl2 := h2 ho
    have hne : queue_is_empty m.wait_queue = false := by
      simp only [queue_is_empty, beq_eq_false_iff_ne, ne_eq]
      omega
    exact (queue_out_nonempty cfg.QUEUE_SIZE m.wait_queue (-1) hne).1

theorem mutex_lock_count_witness :
    ∃ s, mutex_run rr_config (fun m => m) (kmutexes_init rr_config rr_boot).2
        (mutex_calls_example.take 7) = some s ∧
      (mutex_at s 0).owner = some 1 ∧ (mutex_at s 0).locks = 2 ∧
      queue_contents 4 (mutex_at s 0).wait_queue = [2] ∧
      ∀ m ∈ s.mutexes,
        (m.owner = none → m.locks = 0) ∧
        (m.owner ≠ none →
          m.locks = 1 + ((queue_contents rr_config.QUEUE_SIZE m.wait_queue).length : Int)) ∧
        (m.owner ≠ none → m.locks - 1 ≠ 0 →
          (queue_out rr_config.QUEUE_SIZE m.wait_queue (-1)).1 = 0) := by
  obtain ⟨s, hs, h1⟩ := map_eq_some_elim
    (mutex_run rr_config (fun m => m) (kmutexes_init rr_config rr_boot).2
      (mutex_calls_example.take 7))
    (fun s => ((mutex_at s 0).owner, (mutex_at s 0).locks,
      queue_contents 4 (mutex_at s 0).wait_queue)) (some 1, 2, [2]) (by decide)
  simp only [Prod.mk.injEq] at h1
  exact ⟨s, hs, h1.1, h1.2.1, h1.2.2,
    mutex_lock_count rr_config (fun m => m) rr_boot s (mutex_calls_example.take 7)
      (fun _ h => h) (by decide) hs (by decide)⟩

/-! ## C38: one ACTIVE process after every scheduling pass -/

theorem quiet_refl (s : kernel_t) : quiet s s :=
  ⟨fun _ h => h, fun _ => Or.inl rfl⟩

theorem quiet_trans (s1 s2 s3 : kernel_t) (h12 : quiet s1 s2) (h23 : quiet s2 s3) :
    quiet s1 s3 := by
  refine ⟨fun k h => h12.1 k (h23.1 k h), fun k => ?_⟩
  rcases h23.2 k with h | h
  · rw [h]
    exact h12.2 k
  · exact Or.inr h

theorem quiet_of_table (s s2 : kernel_t) (h : s2.proc_table = s.proc_table) : quiet s s2 := by
  have : ∀ k, proc_at s2 k = proc_at s k := fun k => by simp only [proc_at, h]
  exact ⟨fun k hk => by rw [← this k]; exact hk, fun k => Or.inl (by rw [this k])⟩

theorem quiet_set (s s2 : kernel_t) (p : Nat) (x : proc_t)
    (h : s2.proc_table = s.proc_table.set p x)
    (hst : x.state = proc_state_t.ACTIVE → (proc_at s p).state = proc_state_t.ACTIVE)
    (hcpu : x.cpu_time = (proc_at s p).cpu_time ∨ x.cpu_time ≤ 0) : quiet s s2 := by
  refine ⟨fun k hk => ?_, fun k => ?_⟩
  · rw [proc_at_set s s2 p k x h] at hk
    split at hk
    · rename_i hp
      rw [← hp.1]
      exact hst hk
    · exact hk
  · rw [proc_at_set s s2 p k x h]
    split
    · rename_i hp
      rw [← hp.1]
      exact hcpu
    · exact Or.inl rfl

theorem quiet_proc_update (s : kernel_t) (p : Nat) (f : proc_t → proc_t)
    (hst : ∀ x, (f x).state = proc_state_t.ACTIVE → x.state = proc_state_t.ACTIVE)
    (hcpu : ∀ x, (f x).cpu_time = x.cpu_time ∨ (f x).cpu_time ≤ 0) :
    quiet s (proc_update s p f) :=
  quiet_set s _ p _ rfl (hst _) (hcpu _)

theorem quiet_scheduler_add (cfg : kconfig) (s s2 : kernel_t) (proc : Option Nat)
    (h : scheduler_add cfg s proc = some s2) : quiet s s2 ∧ s2.active_proc = s.active_proc := by
  cases proc with
  | none => simp [scheduler_add] at h
  | some p =>
    rw [scheduler_add_eq] at h
    split at h
    · simp only [Option.some.injEq] at h
      rw [← h]
      exact ⟨quiet_refl s, rfl⟩
    · split at h
      · simp at h
      · simp only [Option.some.injEq] at h
        rw [← h]
        refine ⟨quiet_set s _ p _ rfl (fun hh => ?_) (Or.inr (le_refl _)), rfl⟩
        cases hh

theorem scheduler_remove_active (cfg : kconfig) (s s2 : kernel_t) (p : Nat)
    (h : scheduler_remove cfg s (some p) = some s2) :
    s2.proc_table = s.proc_table ∧
    ((s2.active_proc = s.active_proc ∧
        ∀ a, s.active_proc = some a → (proc_at s p).pid ≠ (proc_at s a).pid) ∨
     (s2.active_proc = none ∧
        ∃ a, s.active_proc = some a ∧ (proc_at s p).pid = (proc_at s a).pid)) := by
  unfold scheduler_remove at h
  simp only at h
  split at h
  · simp at h
  · rename_i q hq
    split at h
    · rename_i hact
      simp only [Option.some.injEq] at h
      rw [← h]
      have hact' : s.active_proc = none := hact
      refine ⟨rfl, Or.inl ⟨rfl, fun a ha => ?_⟩⟩
      rw [hact'] at ha
      cases ha
    · rename_i a hact
      have hact' : s.active_proc = some a := hact
      split at h
      · rename_i hpid
        simp only [Option.some.injEq] at h
        rw [← h]
        refine ⟨rfl, Or.inr ⟨rfl, a, hact', ?_⟩⟩
        simpa using hpid
      · rename_i hpid
        simp only [Option.some.injEq] at h
        rw [← h]
        refine ⟨rfl, Or.inl ⟨rfl, fun b hb => ?_⟩⟩
        rw [hact'] at hb
        cases hb
        intro hh
        apply hpid
        simpa using hh

/-- What `scheduler_run` establishes: from a state in which only the active process can
be in state ACTIVE and in which every `cpu_time` but that of an active process in state
ACTIVE is below the time slice, it leaves an active process in state ACTIVE, no other
slot in that state, and every `cpu_time` below the time slice. -/
theorem scheduler_run_act (cfg : kconfig) (s s2 : kernel_t)
    (hT : 0 < cfg.SCHEDULER_TIMESLICE) (hrun : queue_wf cfg.QUEUE_SIZE s.run_queue)
    (hA : ∀ k, (proc_at s k).state = proc_state_t.ACTIVE → s.active_proc = some k)
    (hB : ∀ k, (proc_at s k).cpu_time < (cfg.SCHEDULER_TIMESLICE : Int) ∨
      (s.active_proc = some k ∧ (proc_at s k).state = proc_state_t.ACTIVE))
    (h : scheduler_run cfg s = some s2) : act_inv cfg s2 := by
  -- the second half, from a state in which no process is active
  have hsel : ∀ t : kernel_t, t.active_proc = none → queue_wf cfg.QUEUE_SIZE t.run_queue →
      (∀ k, (proc_at t k).state ≠ proc_state_t.ACTIVE) →
      (∀ k, (proc_at t k).cpu_time < (cfg.SCHEDULER_TIMESLICE : Int)) →
      scheduler_run_select cfg t = some s2 → act_inv cfg s2 := by
    intro t hact hwf hst hcpu hs
    obtain ⟨_, _, _, _, _, _, _, j, hj, hpj, hoth, _, _⟩ :=
      scheduler_run_select_rel cfg t s2 hact hwf hs
    refine ⟨fun k hk => ?_, fun k => ?_, fun a ha => ?_⟩
    · by_cases hkj : k = j
      · rw [hkj]; exact hj
      · rw [hoth k hkj] at hk
        exact absurd hk (hst k)
    · by_cases hkj : k = j
      · rw [hkj, hpj]
        exact hcpu j
      · rw [hoth k hkj]
        exact hcpu k
    · rw [hj] at ha
      simp only [Option.some.injEq] at ha
      rw [← ha, hpj]
  unfold scheduler_run at h
  cases hp : scheduler_run_preempt cfg s with
  | none => rw [hp] at h; simp at h
  | some sp =>
    rw [hp] at h
    simp only at h
    have hwfp := (scheduler_run_preempt_rel cfg s sp hrun hp).2.2.2.2.2.2.2.1
    cases hact : s.active_proc with
    | none =>
      rw [scheduler_run_preempt_none cfg s hact] at hp
      simp only [Option.some.injEq] at hp
      rw [← hp] at h
      refine hsel s hact hrun (fun k hk => ?_) (fun k => ?_) h
      · have := hA k hk
        rw [hact] at this
        cases this
      · rcases hB k with hb | hb
        · exact hb
        · rw [hact] at hb
          cases hb.1
    | some a =>
      by_cases hst : (proc_at s a).state = proc_state_t.ACTIVE
      · have har : a < s.proc_table.length :=
          proc_at_in_range_of_state s a (by rw [hst]; decide)
        have hoth : ∀ k, k ≠ a → (proc_at s k).state ≠ proc_state_t.ACTIVE ∧
            (proc_at s k).cpu_time < (cfg.SCHEDULER_TIMESLICE : Int) := by
          intro k hk
          refine ⟨fun hh => ?_, ?_⟩
          · have := hA k hh
            rw [hact] at this
            simp only [Option.some.injEq] at this
            exact hk this.symm
          · rcases hB k with hb | hb
            · exact hb
            · rw [hact] at hb
              have := hb.1
              simp only [Option.some.injEq] at this
              exact absurd this.symm hk
        by_cases hcpu : (cfg.SCHEDULER_TIMESLICE : Int) ≤ (proc_at s a).cpu_time
        · -- the time slice is used up: in both cases slot a ends IDLE with cpu_time 0
          have hkey : sp.active_proc = none ∧
              proc_at sp a = { proc_at s a with cpu_time := 0, state := proc_state_t.IDLE } ∧
              (∀ j, j ≠ a → proc_at sp j = proc_at s j) := by
            by_cases hpid : (proc_at s a).pid = 0
            · obtain ⟨sp', e1, e2, e3, e4, _⟩ :=
                scheduler_run_preempt_idle_spec cfg s a hact hst hcpu hpid
              rw [hp] at e1
              simp only [Option.some.injEq] at e1
              rw [e1]
              exact ⟨e2, e3, e4⟩
            · rw [scheduler_run_preempt_user cfg s a hact hst hcpu hpid] at hp
              cases hadd : scheduler_add cfg
                  (proc_update s a (fun x => { x with cpu_time := 0 })) (some a) with
              | none => rw [hadd] at hp; simp at hp
              | some s3 =>
                rw [hadd] at hp
                simp only [Option.some.injEq] at hp
                have hpid' : (proc_at (proc_update s a (fun x => { x with cpu_time := 0 })) a).pid
                    ≠ 0 := by
                  rw [proc_update_pid s a a (fun x => { x with cpu_time := 0 }) (fun _ => rfl)]
                  exact hpid
                obtain ⟨_, _, _, _, _, _, p7, _, _, p10⟩ := scheduler_add_props cfg _ s3 a hadd
                  (by rw [proc_update_length]; exact har)
                rw [← hp]
                refine ⟨rfl, ?_, fun j hj => ?_⟩
                · show proc_at s3 a = _
                  rw [(p10 hpid').1, proc_at_update_self _ _ _ har]
                · show proc_at s3 j = _
                  rw [p7 j hj, proc_at_update_other _ _ _ _ hj]
          obtain ⟨k1, k2, k3⟩ := hkey
          refine hsel sp k1 hwfp (fun k hk => ?_) (fun k => ?_) h
          · by_cases hka : k = a
            · rw [hka, k2] at hk
              cases hk
            · rw [k3 k hka] at hk
              exact (hoth k hka).1 hk
          · by_cases hka : k = a
            · rw [hka, k2]
              show (0 : Int) < _
              omega
            · rw [k3 k hka]
              exact (hoth k hka).2
        · rw [scheduler_run_preempt_keep cfg s a hact hst (by omega)] at hp
          simp only [Option.some.injEq] at hp
          rw [← hp, scheduler_run_select_active cfg s a hact] at h
          simp only [Option.some.injEq] at h
          rw [← h]
          refine ⟨fun k hk => ?_, fun k => ?_, fun b hb => ?_⟩
          · show s.active_proc = some k
            by_cases hka : k = a
            · rw [hka]; exact hact
            · rw [proc_at_update_other _ _ _ _ hka] at hk
              exact absurd hk (hoth k hka).1
          · by_cases hka : k = a
            · rw [hka, proc_at_update_self _ _ _ har]
              show (proc_at s a).cpu_time < _
              omega
            · rw [proc_at_update_other _ _ _ _ hka]
              exact (hoth k hka).2
          · have hb' : s.active_proc = some b := hb
            rw [hact] at hb'
            simp only [Option.some.injEq] at hb'
            rw [← hb', proc_at_update_self _ _ _ har]
      · rw [scheduler_run_preempt_not_active cfg s a hact hst] at hp
        simp only [Option.some.injEq] at hp
        rw [← hp] at h
        refine hsel { s with active_proc := none } rfl hrun (fun k hk => ?_) (fun k => ?_) h
        · have hk' : (proc_at s k).state = proc_state_t.ACTIVE := hk
          have := hA k hk'
          rw [hact] at this
          simp only [Option.some.injEq] at this
          rw [← this] at hk'
          exact hst hk'
        · show (proc_at s k).cpu_time < _
          rcases hB k with hb | hb
          · exact hb
          · rw [hact] at hb
            have := hb.1
            simp only [Option.some.injEq] at this
            rw [← this] at hb
            exact absurd hb.2 hst

theorem quiet_timer_loop (cfg : kconfig) :
    ∀ (fuel : Nat) (i : Int) (s : kernel_t) (pid : Int) (s2 : kernel_t),
      scheduler_timer_loop cfg fuel i s pid = some s2 → quiet s s2 := by
  intro fuel
  induction fuel with
  | zero =>
    intro i s pid s2 h
    simp [scheduler_timer_loop] at h
  | succ fuel ih =>
    intro i s pid s2 h
    unfold scheduler_timer_loop at h
    simp only at h
    split at h
    · split at h
      · have hh := ih _ _ _ _ h
        exact quiet_trans _ _ _ (quiet_of_table s _ rfl) hh
      · split at h
        · have hh := ih _ _ _ _ h
          exact quiet_trans _ _ _ (quiet_of_table s _ rfl) hh
        · rename_i p hp
          split at h
          · split at h
            · simp at h
            · rename_i s3 hadd
              have hh := ih _ _ _ _ h
              have ha := (quiet_scheduler_add cfg _ s3 _ hadd).1
              have h0 : quiet s (proc_update
                  { s with sleep_queue := (queue_out cfg.QUEUE_SIZE s.sleep_queue pid).2.1 } p
                  (fun x => { x with sleep_time := 0 })) :=
                quiet_set s _ p _ rfl (fun hq => hq) (Or.inl rfl)
              exact quiet_trans _ _ _ h0 (quiet_trans _ _ _ ha hh)
          · have hh := ih _ _ _ _ h
            have h0 : quiet s (proc_update
                { s with sleep_queue := (queue_out cfg.QUEUE_SIZE s.sleep_queue pid).2.1 } p
                (fun x => { x with sleep_time := x.sleep_time - 1 })) :=
              quiet_set s _ p _ rfl (fun hq => hq) (Or.inl rfl)
            exact quiet_trans _ _ _ h0 (quiet_trans _ _ _ (quiet_of_table _ _ rfl) hh)
    · simp only [Option.some.injEq] at h
      subst h
      exact quiet_refl _

theorem quiet_timer (cfg : kconfig) (s s2 : kernel_t) (h : scheduler_timer cfg s = some s2) :
    quiet (scheduler_timer_charge s) s2 := by
  rw [scheduler_timer_eq] at h
  split at h
  · exact quiet_timer_loop cfg _ _ _ _ _ h
  · simp only [Option.some.injEq] at h
    subst h
    exact quiet_refl _

theorem scheduler_timer_charge_other (s : kernel_t) (k : Nat) (h : s.active_proc ≠ some k) :
    proc_at (scheduler_timer_charge s) k = proc_at s k := by
  unfold scheduler_timer_charge
  split
  · rename_i a ha
    rw [proc_at_update_other]
    intro hka
    apply h
    rw [ha, hka]
  · rfl

/-- The invariant survives a timer tick. -/
theorem act_inv_tick (cfg : kconfig) (s s2 : kernel_t) (hT : 0 < cfg.SCHEDULER_TIMESLICE)
    (hex : excl_inv cfg s) (hinv : act_inv cfg s) (h : tick cfg s = some s2) :
    act_inv cfg s2 := by
  unfold tick at h
  split at h
  · simp at h
  · rename_i t ht
    have hrel := (scheduler_timer_spec cfg s hex.1.2.2.1 hex.1.2.2.2.1).1 t ht
    have hq := quiet_timer cfg s t ht
    obtain ⟨hq1, hq2, hq3, hq4, hq5, hq6, hq7, hq8, hq9⟩ := scheduler_timer_charge_queues s
    obtain ⟨_, _, r3, _, _, _, _, _, _, _, _, r12, r13, _⟩ := hrel
    obtain ⟨hA, hB, hC⟩ := hinv
    refine scheduler_run_act cfg t s2 hT r13 (fun k hk => ?_) (fun k => ?_) h
    · rw [r3, hq3]
      apply hA
      rw [← scheduler_timer_charge_state]
      exact hq.1 k hk
    · by_cases hak : s.active_proc = some k
      · right
        have hns : (proc_at s k).pid ∉ queue_contents cfg.QUEUE_SIZE s.sleep_queue := by
          intro hmem
          apply (hex.1.2.2.2.2.2.2 k hak).2
          unfold queued_pids
          simp only [List.mem_append]
          exact Or.inl (Or.inr hmem)
        refine ⟨by rw [r3, hq3]; exact hak, ?_⟩
        rw [r12 k (by rw [hq9, hq2]; exact hns), scheduler_timer_charge_state]
        exact hC k hak
      · left
        rcases hq.2 k with hc | hc
        · rw [hc, scheduler_timer_charge_other s k hak]
          exact hB k
        · omega

/-- What a kernel service may do to the caller: `s2` is quiet against `s`, and the active
process of `s` is still the active one or is no longer in state ACTIVE. -/
theorem act_scheduler_sleep (cfg : kconfig) (s s2 : kernel_t) (a : Nat) (n : Int)
    (h : scheduler_sleep cfg s (some a) n = some s2) :
    quiet s s2 ∧
    (a < s.proc_table.length →
      s2.active_proc = s.active_proc ∨ (proc_at s2 a).state ≠ proc_state_t.ACTIVE) := by
  rw [scheduler_sleep_eq] at h
  split at h
  · simp only [Option.some.injEq] at h
    rw [← h]
    exact ⟨quiet_proc_update s a _ (fun _ hh => hh) (fun _ => Or.inl rfl), fun _ => Or.inl rfl⟩
  · split at h
    · simp at h
    · rename_i s3 hrem
      simp only [Option.some.injEq] at h
      obtain ⟨ht, _⟩ := scheduler_remove_active cfg _ s3 a hrem
      have hlen : a < s.proc_table.length → a < s3.proc_table.length := by
        intro ha
        rw [ht, proc_update_length]
        exact ha
      have h1 : quiet s (proc_update s a (fun x => { x with sleep_time := n })) :=
        quiet_proc_update s a _ (fun _ hh => hh) (fun _ => Or.inl rfl)
      have h2 : quiet (proc_update s a (fun x => { x with sleep_time := n })) s3 :=
        quiet_of_table _ _ ht
      have h3 : quiet s3 (proc_update s3 a (fun x => { x with state := proc_state_t.SLEEPING })) :=
        quiet_proc_update s3 a _ (fun _ hh => by cases hh) (fun _ => Or.inl rfl)
      rw [← h]
      refine ⟨quiet_trans _ _ _ h1 (quiet_trans _ _ _ h2
        (quiet_trans _ _ _ h3 (quiet_of_table _ _ rfl))), fun ha => Or.inr ?_⟩
      show (proc_at (proc_update s3 a (fun x => { x with state := proc_state_t.SLEEPING })) a).state
        ≠ proc_state_t.ACTIVE
      rw [proc_at_update_self _ _ _ (hlen ha)]
      intro hh
      cases hh

theorem quiet_mutex_update (s : kernel_t) (i : Nat) (g : mutex_t → mutex_t) :
    quiet s (mutex_update s i g) :=
  quiet_of_table _ _ rfl

theorem quiet_sem_update (s : kernel_t) (i : Nat) (g : sem_t → sem_t) :
    quiet s (sem_update s i g) :=
  quiet_of_table _ _ rfl

theorem act_kmutex_lock (cfg : kconfig) (s s2 : kernel_t) (id rc : Int)
    (h : kmutex_lock cfg s id = some (rc, s2)) :
    quiet s s2 ∧
    ∀ a, s.active_proc = some a → a < s.proc_table.length →
      s2.active_proc = some a ∨ (proc_at s2 a).state ≠ proc_state_t.ACTIVE := by
  unfold kmutex_lock at h
  simp only at h
  split at h
  · simp only [Option.some.injEq, Prod.mk.injEq] at h
    rw [← h.2]
    exact ⟨quiet_refl s, fun a ha _ => Or.inl ha⟩
  · split at h
    · split at h
      · simp only [Option.some.injEq, Prod.mk.injEq] at h
        rw [← h.2]
        exact ⟨quiet_refl s, fun a ha _ => Or.inl ha⟩
      · rename_i a hact
        have h1 : quiet s (proc_update s a (fun x => { x with state := proc_state_t.WAITING })) :=
          quiet_proc_update s a _ (fun _ hh => by cases hh) (fun _ => Or.inl rfl)
        have hst : ∀ t : kernel_t, t.proc_table = (proc_update s a
            (fun x => { x with state := proc_state_t.WAITING })).proc_table →
            ∀ b, s.active_proc = some b → b < s.proc_table.length →
              t.active_proc = some b ∨ (proc_at t b).state ≠ proc_state_t.ACTIVE := by
          intro t ht b hb hbl
          right
          have hba : a = b := by
            have hact' : s.active_proc = some a := hact
            rw [hact'] at hb
            simpa using hb
          have : proc_at t b = proc_at (proc_update s a
              (fun x => { x with state := proc_state_t.WAITING })) b := by
            simp only [proc_at, ht]
          rw [this, ← hba, proc_at_update_self _ _ _ (by rw [hba]; exact hbl)]
          intro hh
          cases hh
        split at h
        · simp only [Option.some.injEq, Prod.mk.injEq] at h
          rw [← h.2]
          exact ⟨quiet_trans _ _ _ h1 (quiet_of_table _ _ rfl), hst _ rfl⟩
        · split at h
          · simp at h
          · rename_i s3 hrem
            simp only [Option.some.injEq, Prod.mk.injEq] at h
            obtain ⟨ht, _⟩ := scheduler_remove_active cfg _ s3 a hrem
            rw [← h.2]
            exact ⟨quiet_trans _ _ _ h1 (quiet_of_table _ _ ht), hst _ ht⟩
    · simp only [Option.some.injEq, Prod.mk.injEq] at h
      rw [← h.2]
      exact ⟨quiet_of_table _ _ rfl, fun a ha _ => Or.inl ha⟩

theorem act_kmutex_unlock (cfg : kconfig) (s s2 : kernel_t) (id rc : Int)
    (h : kmutex_unlock cfg s id = some (rc, s2)) :
    quiet s s2 ∧ s2.active_proc = s.active_proc := by
  unfold kmutex_unlock at h
  simp only at h
  split at h
  · simp only [Option.some.injEq, Prod.mk.injEq] at h
    rw [← h.2]
    exact ⟨quiet_refl s, rfl⟩
  · split at h
    · simp only [Option.some.injEq, Prod.mk.injEq] at h
      rw [← h.2]
      exact ⟨quiet_refl s, rfl⟩
    · split at h
      · simp only [Option.some.injEq, Prod.mk.injEq] at h
        rw [← h.2]
        exact ⟨quiet_of_table _ _ rfl, rfl⟩
      · split at h
        · simp only [Option.some.injEq, Prod.mk.injEq] at h
          rw [← h.2]
          exact ⟨quiet_of_table _ _ rfl, rfl⟩
        · split at h
          · simp at h
          · rename_i s3 hadd
            simp only [Option.some.injEq, Prod.mk.injEq] at h
            obtain ⟨hq, hact⟩ := quiet_scheduler_add cfg _ s3 _ hadd
            rw [← h.2]
            exact ⟨quiet_trans _ _ _ (quiet_of_table s _ rfl) hq, hact⟩

theorem act_ksem_wait (cfg : kconfig) (s s2 : kernel_t) (id rc : Int)
    (h : ksem_wait cfg s id = some (rc, s2)) :
    quiet s s2 ∧
    ∀ a, s.active_proc = some a → a < s.proc_table.length →
      s2.active_proc = some a ∨ (proc_at s2 a).state ≠ proc_state_t.ACTIVE := by
  unfold ksem_wait at h
  simp only at h
  split at h
  · simp only [Option.some.injEq, Prod.mk.injEq] at h
    rw [← h.2]
    exact ⟨quiet_refl s, fun a ha _ => Or.inl ha⟩
  · split at h
    · simp only [Option.some.injEq, Prod.mk.injEq] at h
      rw [← h.2]
      exact ⟨quiet_refl s, fun a ha _ => Or.inl ha⟩
    · split at h
      · split at h
        · simp only [Option.some.injEq, Prod.mk.injEq] at h
          rw [← h.2]
          exact ⟨quiet_refl s, fun a ha _ => Or.inl ha⟩
        · rename_i a hact
          have h1 : quiet s (proc_update s a (fun x => { x with state := proc_state_t.WAITING })) :=
            quiet_proc_update s a _ (fun _ hh => by cases hh) (fun _ => Or.inl rfl)
          have hst : ∀ t : kernel_t, t.proc_table = (proc_update s a
              (fun x => { x with state := proc_state_t.WAITING })).proc_table →
              ∀ b, s.active_proc = some b → b < s.proc_table.length →
                t.active_proc = some b ∨ (proc_at t b).state ≠ proc_state_t.ACTIVE := by
            intro t ht b hb hbl
            right
            have hba : a = b := by
              have hact' : s.active_proc = some a := hact
              rw [hact'] at hb
              simpa using hb
            have : proc_at t b = proc_at (proc_update s a
                (fun x => { x with state := proc_state_t.WAITING })) b := by
              simp only [proc_at, ht]
            rw [this, ← hba, proc_at_update_self _ _ _ (by rw [hba]; exact hbl)]
            intro hh
            cases hh
          split at h
          · simp only [Option.some.injEq, Prod.mk.injEq] at h
            rw [← h.2]
            exact ⟨quiet_trans _ _ _ h1 (quiet_of_table _ _ rfl), hst _ rfl⟩
          · split at h
            · simp at h
            · rename_i s3 hrem
              simp only [Option.some.injEq, Prod.mk.injEq] at h
              obtain ⟨ht, _⟩ := scheduler_remove_active cfg _ s3 a hrem
              rw [← h.2]
              exact ⟨quiet_trans _ _ _ h1 (quiet_of_table _ _ ht), hst _ ht⟩
      · split at h
        · simp only [Option.some.injEq, Prod.mk.injEq] at h
          rw [← h.2]
          exact ⟨quiet_of_table _ _ rfl, fun a ha _ => Or.inl ha⟩
        · simp only [Option.some.injEq, Prod.mk.injEq] at h
          rw [← h.2]
          exact ⟨quiet_refl s, fun a ha _ => Or.inl ha⟩

theorem act_ksem_post (cfg : kconfig) (s s2 : kernel_t) (id rc : Int)
    (h : ksem_post cfg s id = some (rc, s2)) :
    quiet s s2 ∧ s2.active_proc = s.active_proc := by
  unfold ksem_post at h
  simp only at h
  split at h
  · simp at h
  · split at h
    · simp only [Option.some.injEq, Prod.mk.injEq] at h
      rw [← h.2]
      exact ⟨quiet_refl s, rfl⟩
    · split at h
      · split at h
        · simp only [Option.some.injEq, Prod.mk.injEq] at h
          rw [← h.2]
          exact ⟨quiet_of_table _ _ rfl, rfl⟩
        · split at h
          · simp at h
          · rename_i s3 hadd
            simp only [Option.some.injEq, Prod.mk.injEq] at h
            obtain ⟨hq, hact⟩ := quiet_scheduler_add cfg _ s3 _ hadd
            rw [← h.2]
            exact ⟨quiet_trans _ _ _ (quiet_of_table s _ rfl) hq, hact⟩
      · simp only [Option.some.injEq, Prod.mk.injEq] at h
        rw [← h.2]
        exact ⟨quiet_of_table _ _ rfl, rfl⟩

theorem act_kmutex_init (cfg : kconfig) (s : kernel_t) :
    (kmutex_init cfg s).2.proc_table = s.proc_table ∧
    (kmutex_init cfg s).2.active_proc = s.active_proc := by
  unfold kmutex_init
  simp only
  split
  · exact ⟨rfl, rfl⟩
  · split <;> exact ⟨rfl, rfl⟩

theorem act_ksem_init (cfg : kconfig) (s : kernel_t) (value : Int) :
    (ksem_init cfg s value).2.proc_table = s.proc_table ∧
    (ksem_init cfg s value).2.active_proc = s.active_proc := by
  unfold ksem_init
  simp only
  split
  · exact ⟨rfl, rfl⟩
  · split <;> exact ⟨rfl, rfl⟩

theorem act_kproc_destroy (cfg : kconfig) (s s2 : kernel_t) (p : Nat) (rc : Int)
    (hP : pid_inv cfg s) (h : kproc_destroy cfg s (some p) = some (rc, s2)) :
    quiet s s2 ∧
    ((s2.active_proc = s.active_proc ∧
        ∀ a, s.active_proc = some a → proc_at s2 a = proc_at s a) ∨
     (s2.active_proc = none ∧
        ∀ a, s.active_proc = some a → (proc_at s2 a).state ≠ proc_state_t.ACTIVE)) := by
  unfold kproc_destroy at h
  simp only at h
  split at h
  · simp only [Option.some.injEq, Prod.mk.injEq] at h
    rw [← h.2]
    exact ⟨quiet_refl s, Or.inl ⟨rfl, fun _ _ => rfl⟩⟩
  · split at h
    · simp at h
    · rename_i s1 hrem
      obtain ⟨ht, hact⟩ := scheduler_remove_active cfg s s1 p hrem
      by_cases hpid : 0 ≤ (proc_at s p).pid
      · have hent : proc_to_entry cfg s1 (some p) = (p : Int) := by
          rw [proc_to_entry_congr cfg s1 s _ ht]
          exact proc_to_entry_in_use cfg s p hP hpid
        have hpl : p < s.proc_table.length := proc_at_in_range s p (by omega)
        rw [hent] at h
        have hneg : ¬ ((p : Int) < 0) := by omega
        simp only [hneg, if_false, Int.toNat_ofNat] at h
        -- the table and the active process of the result
        have hres : s2.proc_table = s.proc_table.set p
            { proc_at s1 p with
              pid := -1, state := proc_state_t.NONE, type := proc_type_t.PROC_TYPE_NONE,
              name := "NULL", start_time := -1, run_time := -1, cpu_time := -1,
              sleep_time := 0, stack := none, trapframe := none } ∧
            s2.active_proc = s1.active_proc := by
          split at h
          · simp only [Option.some.injEq, Prod.mk.injEq] at h
            rw [← h.2]
            exact ⟨by rw [← ht], rfl⟩
          · simp only [Option.some.injEq, Prod.mk.injEq] at h
            rw [← h.2]
            exact ⟨by rw [← ht], rfl⟩
        obtain ⟨htab, hac⟩ := hres
        refine ⟨quiet_set s s2 p _ htab (fun hh => by cases hh)
          (Or.inr (by show (-1 : Int) ≤ 0; decide)), ?_⟩
        rcases hact with ⟨h1, h2⟩ | ⟨h1, a, ha, hpa⟩
        · left
          refine ⟨by rw [hac, h1], fun a ha => ?_⟩
          rw [proc_at_set s s2 p a _ htab, if_neg]
          rintro ⟨hpa, _⟩
          apply h2 a ha
          rw [hpa]
        · right
          refine ⟨by rw [hac, h1], fun b hb => ?_⟩
          rw [ha] at hb
          simp only [Option.some.injEq] at hb
          have hpa' : p = a := hP.2.2.2 p a hpid hpa
          rw [← hb, ← hpa', proc_at_set_self s s2 p _ htab hpl]
          intro hh
          cases hh
      · have hent : proc_to_entry cfg s1 (some p) = -1 := by
          rw [proc_to_entry_congr cfg s1 s _ ht]
          exact proc_to_entry_free cfg s p (by omega)
        rw [hent] at h
        simp at h

theorem act_kproc_create (cfg : kconfig) (s s2 : kernel_t) (proc_ptr : Nat)
    (proc_name : String) (proc_type : proc_type_t) (rc : Int)
    (h : kproc_create cfg s proc_ptr proc_name proc_type = some (rc, s2)) :
    quiet s s2 ∧ s2.active_proc = s.active_proc := by
  unfold kproc_create at h
  simp only at h
  split at h
  · simp only [Option.some.injEq, Prod.mk.injEq] at h
    rw [← h.2]
    exact ⟨quiet_of_table _ _ rfl, rfl⟩
  · split at h
    · simp at h
    · split at h
      · simp at h
      · rename_i s3 hadd
        simp only [Option.some.injEq, Prod.mk.injEq] at h
        obtain ⟨hq, hact⟩ := quiet_scheduler_add cfg _ s3 _ hadd
        rw [← h.2]
        refine ⟨quiet_trans _ _ _ ?_ hq, hact⟩
        exact quiet_set s _ _ _ rfl (fun hh => by cases hh) (Or.inr (le_refl _))

/-- What a system call handler may do to the caller. -/
theorem act_dispatch (cfg : kconfig) (s : kernel_t) (e : kernel_event) (r : Int × kernel_t)
    (hP : pid_inv cfg s) (h : ksyscall_dispatch cfg s e = some r) :
    quiet s r.2 ∧
    ∀ a, s.active_proc = some a → a < s.proc_table.length →
      r.2.active_proc = some a ∨ (proc_at r.2 a).state ≠ proc_state_t.ACTIVE := by
  obtain ⟨rc, s2⟩ := r
  cases e with
  | tick => simp [ksyscall_dispatch] at h
  | run => simp [ksyscall_dispatch] at h
  | create p n t => simp [ksyscall_dispatch] at h
  | destroy p => simp [ksyscall_dispatch] at h
  | proc_sleep seconds =>
    simp only [ksyscall_dispatch, ksyscall_proc_sleep] at h
    split at h
    · simp only [Option.some.injEq, Prod.mk.injEq] at h
      rw [← h.2]
      exact ⟨quiet_refl s, fun a ha _ => Or.inl ha⟩
    · cases hact : s.active_proc with
      | none =>
        rw [hact] at h
        simp [scheduler_sleep] at h
      | some a =>
        rw [hact] at h
        split at h
        · simp at h
        · rename_i s1 hs1
          simp only [Option.some.injEq, Prod.mk.injEq] at h
          rw [← h.2]
          obtain ⟨hq, hpark⟩ := act_scheduler_sleep cfg s s1 a _ hs1
          refine ⟨hq, fun b hb hbl => ?_⟩
          simp only [Option.some.injEq] at hb
          rw [← hb] at hbl ⊢
          rcases hpark hbl with hp | hp
          · left
            show s1.active_proc = some a
            rw [hp, hact]
          · exact Or.inr hp
  | proc_exit =>
    simp only [ksyscall_dispatch, ksyscall_proc_exit] at h
    split at h
    · simp only [Option.some.injEq, Prod.mk.injEq] at h
      rw [← h.2]
      exact ⟨quiet_refl s, fun a ha _ => Or.inl ha⟩
    · rename_i a hact
      obtain ⟨hq, hcase⟩ := act_kproc_destroy cfg s s2 a rc hP h
      refine ⟨hq, fun b hb _ => ?_⟩
      rcases hcase with ⟨h1, _⟩ | ⟨_, h2⟩
      · left
        show s2.active_proc = some b
        rw [h1]
        exact hb
      · exact Or.inr (h2 b hb)
  | mutex_init =>
    simp only [ksyscall_dispatch, ksyscall_mutex_init, Option.some.injEq] at h
    obtain ⟨h1, h2⟩ := act_kmutex_init cfg s
    rw [h] at h1 h2
    exact ⟨quiet_of_table _ _ h1, fun a ha _ => Or.inl (by rw [← ha]; exact h2)⟩
  | mutex_lock mutex =>
    simp only [ksyscall_dispatch, ksyscall_mutex_lock] at h
    split at h
    · simp only [Option.some.injEq, Prod.mk.injEq] at h
      rw [← h.2]
      exact ⟨quiet_refl s, fun a ha _ => Or.inl ha⟩
    · exact act_kmutex_lock cfg s s2 mutex rc h
  | mutex_unlock mutex =>
    simp only [ksyscall_dispatch, ksyscall_mutex_unlock] at h
    split at h
    · simp only [Option.some.injEq, Prod.mk.injEq] at h
      rw [← h.2]
      exact ⟨quiet_refl s, fun a ha _ => Or.inl ha⟩
    · obtain ⟨h1, h2⟩ := act_kmutex_unlock cfg s s2 mutex rc h
      exact ⟨h1, fun a ha _ => Or.inl (by rw [← ha]; exact h2)⟩
  | sem_init value =>
    simp only [ksyscall_dispatch, ksyscall_sem_init, Option.some.injEq] at h
    split at h
    · simp only [Prod.mk.injEq] at h
      rw [← h.2]
      exact ⟨quiet_refl s, fun a ha _ => Or.inl ha⟩
    · obtain ⟨h1, h2⟩ := act_ksem_init cfg s value
      rw [h] at h1 h2
      exact ⟨quiet_of_table _ _ h1, fun a ha _ => Or.inl (by rw [← ha]; exact h2)⟩
  | sem_wait sem =>
    simp only [ksyscall_dispatch, ksyscall_sem_wait] at h
    split at h
    · simp only [Option.some.injEq, Prod.mk.injEq] at h
      rw [← h.2]
      exact ⟨quiet_refl s, fun a ha _ => Or.inl ha⟩
    · exact act_ksem_wait cfg s s2 sem rc h
  | sem_post sem =>
    simp only [ksyscall_dispatch, ksyscall_sem_post] at h
    split at h
    · simp only [Option.some.injEq, Prod.mk.injEq] at h
      rw [← h.2]
      exact ⟨quiet_refl s, fun a ha _ => Or.inl ha⟩
    · obtain ⟨h1, h2⟩ := act_ksem_post cfg s s2 sem rc h
      exact ⟨h1, fun a ha _ => Or.inl (by rw [← ha]; exact h2)⟩

/-- The invariant holds after a quiet step that keeps the active process and its slot. -/
theorem act_inv_quiet (cfg : kconfig) (s s2 : kernel_t) (hT : 0 < cfg.SCHEDULER_TIMESLICE)
    (hinv : act_inv cfg s) (hq : quiet s s2)
    (hcase : (s2.active_proc = s.active_proc ∧
        ∀ a, s.active_proc = some a → proc_at s2 a = proc_at s a) ∨
      (s2.active_proc = none ∧
        ∀ a, s.active_proc = some a → (proc_at s2 a).state ≠ proc_state_t.ACTIVE)) :
    act_inv cfg s2 := by
  obtain ⟨hA, hB, hC⟩ := hinv
  refine ⟨fun k hk => ?_, fun k => ?_, fun a ha => ?_⟩
  · have hk0 := hA k (hq.1 k hk)
    rcases hcase with ⟨h1, _⟩ | ⟨_, h2⟩
    · rw [h1]
      exact hk0
    · exact absurd hk (h2 k hk0)
  · rcases hq.2 k with hc | hc
    · rw [hc]
      exact hB k
    · omega
  · rcases hcase with ⟨h1, h2⟩ | ⟨h1, _⟩
    · rw [h1] at ha
      rw [h2 a ha]
      exact hC a ha
    · rw [h1] at ha
      cases ha

/-- The invariant survives every transition of the kernel. -/
theorem act_inv_step (cfg : kconfig) (s s2 : kernel_t) (e : kernel_event)
    (hT : 0 < cfg.SCHEDULER_TIMESLICE) (hcap : cfg.PROC_MAX ≤ cfg.QUEUE_SIZE)
    (hex : excl_inv cfg s) (hinv : act_inv cfg s)
    (huser : e.is_syscall = true → ∀ a, s.active_proc = some a → (proc_at s a).pid ≠ 0)
    (h : kernel_step cfg s e = some s2) : act_inv cfg s2 := by
  have hsys : ∀ e1 : kernel_event, e1.is_syscall = true →
      (∀ a, s.active_proc = some a → (proc_at s a).pid ≠ 0) →
      (match s.active_proc with
       | none => none
       | some _ =>
         match ksyscall_dispatch cfg s e1 with
         | none => none
         | some r => scheduler_run cfg r.2) = some s2 → act_inv cfg s2 := by
    intro e1 _ hu h1
    split at h1
    · simp at h1
    · split at h1
      · simp at h1
      · rename_i r hr
        have hi := excl_inv_dispatch cfg s e1 r hcap hex hu hr
        obtain ⟨hq, hpark⟩ := act_dispatch cfg s e1 r hex.1.1 hr
        obtain ⟨hA, hB, hC⟩ := hinv
        refine scheduler_run_act cfg r.2 s2 hT hi.1.2.2.1 (fun k hk => ?_) (fun k => ?_) h1
        · have hk0 := hq.1 k hk
          have hkr : k < s.proc_table.length :=
            proc_at_in_range_of_state s k (by rw [hk0]; decide)
          rcases hpark k (hA k hk0) hkr with hp | hp
          · exact hp
          · exact absurd hk hp
        · left
          rcases hq.2 k with hc | hc
          · rw [hc]
            exact hB k
          · omega
  cases e with
  | tick =>
    simp only [kernel_step] at h
    exact act_inv_tick cfg s s2 hT hex hinv h
  | run =>
    simp only [kernel_step] at h
    exact scheduler_run_act cfg s s2 hT hex.1.2.2.1 hinv.1 (fun k => Or.inl (hinv.2.1 k)) h
  | create p n t =>
    simp only [kernel_step, Option.map_eq_some', Prod.exists, exists_eq_right] at h
    obtain ⟨rc, hc⟩ := h
    obtain ⟨hq, hact⟩ := act_kproc_create cfg s s2 p n t rc hc
    refine act_inv_quiet cfg s s2 hT hinv hq (Or.inl ⟨hact, fun a ha => ?_⟩)
    rcases kproc_create_cases cfg s s2 p n t rc hc hex.1.1.1 with
      ⟨_, _, hs⟩ | ⟨hne, e, he, hhead, _, _, _, _, _, hoth⟩
    · rw [hs]
    · apply hoth
      intro hae
      obtain ⟨hwf, _, hfree, _, _⟩ := hex.1.2.1
      obtain ⟨_, _, _, hcq⟩ := queue_out_spec cfg.QUEUE_SIZE s.proc_allocator (-1) hwf hne
      rw [(queue_out_nonempty cfg.QUEUE_SIZE s.proc_allocator (-1) hne).2, hhead] at hcq
      have hmem : (e : Int) ∈ queue_contents cfg.QUEUE_SIZE s.proc_allocator := by
        rw [hcq]
        exact List.mem_cons_self _ _
      have h1 := (hfree _ hmem).2.2
      simp only [Int.toNat_ofNat] at h1
      have h2 := (hex.1.2.2.2.2.2.2 a ha).1
      rw [hae, h1] at h2
      omega
  | destroy p =>
    simp only [kernel_step, Option.map_eq_some', Prod.exists, exists_eq_right] at h
    obtain ⟨rc, hc⟩ := h
    cases p with
    | none =>
      simp only [kproc_destroy, Option.some.injEq, Prod.mk.injEq] at hc
      rw [← hc.2]
      exact hinv
    | some p =>
      obtain ⟨hq, hcase⟩ := act_kproc_destroy cfg s s2 p rc hex.1.1 hc
      exact act_inv_quiet cfg s s2 hT hinv hq hcase
  | proc_sleep seconds => exact hsys (kernel_event.proc_sleep seconds) rfl (huser rfl) (by simpa only [kernel_step] using h)
  | proc_exit => exact hsys kernel_event.proc_exit rfl (huser rfl) (by simpa only [kernel_step] using h)
  | mutex_init => exact hsys kernel_event.mutex_init rfl (huser rfl) (by simpa only [kernel_step] using h)
  | mutex_lock m => exact hsys (kernel_event.mutex_lock m) rfl (huser rfl) (by simpa only [kernel_step] using h)
  | mutex_unlock m => exact hsys (kernel_event.mutex_unlock m) rfl (huser rfl) (by simpa only [kernel_step] using h)
  | sem_init v => exact hsys (kernel_event.sem_init v) rfl (huser rfl) (by simpa only [kernel_step] using h)
  | sem_wait m => exact hsys (kernel_event.sem_wait m) rfl (huser rfl) (by simpa only [kernel_step] using h)
  | sem_post m => exact hsys (kernel_event.sem_post m) rfl (huser rfl) (by simpa only [kernel_step] using h)

/-- The invariant holds after any sequence of transitions in which the idle process makes
no system call. -/
theorem act_inv_kernel_run (cfg : kconfig) (hT : 0 < cfg.SCHEDULER_TIMESLICE)
    (hcap : cfg.PROC_MAX ≤ cfg.QUEUE_SIZE) (events : List kernel_event) :
    ∀ s s2 : kernel_t, excl_inv cfg s → act_inv cfg s → kernel_run cfg s events = some s2 →
      syscalls_by_users cfg s events = true → excl_inv cfg s2 ∧ act_inv cfg s2 := by
  induction events with
  | nil =>
    intro s s2 hex hinv h _
    simp only [kernel_run, Option.some.injEq] at h
    rw [← h]
    exact ⟨hex, hinv⟩
  | cons e es ih =>
    intro s s2 hex hinv h hu
    simp only [kernel_run] at h
    simp only [syscalls_by_users, Bool.and_eq_true, Bool.or_eq_true, Bool.not_eq_true'] at hu
    cases hs : kernel_step cfg s e with
    | none => rw [hs] at h; simp at h
    | some s1 =>
      rw [hs] at h hu
      simp only at h hu
      have husr : e.is_syscall = true → ∀ a, s.active_proc = some a → (proc_at s a).pid ≠ 0 := by
        intro hsys a ha
        rcases hu.1 with hn | hp
        · rw [hsys] at hn
          cases hn
        · rw [ha] at hp
          simpa using hp
      exact ih s1 s2 (excl_inv_step cfg s s1 e hcap hex husr hs)
        (act_inv_step cfg s s1 e hT hcap hex hinv husr hs) h hu.2

theorem io_set_state (p : proc_t) (i : Nat) (v : Option io_ref) :
    (p.io_set i v).state = p.state ∧ (p.io_set i v).cpu_time = p.cpu_time := by
  unfold proc_t.io_set
  split
  · exact ⟨rfl, rfl⟩
  · split <;> exact ⟨rfl, rfl⟩

theorem act_kproc_attach_tty (cfg : kconfig) (s : kernel_t) (pid tty : Int) :
    quiet s (kproc_attach_tty cfg s pid tty).2 ∧
    (kproc_attach_tty cfg s pid tty).2.active_proc = s.active_proc := by
  unfold kproc_attach_tty
  split
  · refine ⟨quiet_set s _ _ _ rfl (fun hh => ?_) (Or.inl ?_), rfl⟩
    · rw [(io_set_state _ _ _).1, (io_set_state _ _ _).1] at hh
      exact hh
    · rw [(io_set_state _ _ _).2, (io_set_state _ _ _).2]
  · exact ⟨quiet_refl s, rfl⟩

/-- The boot leaves no process active, no slot in state ACTIVE and no `cpu_time` above
0. -/
theorem boot_act_inv (cfg : kconfig) (s0 sb : kernel_t) (hT : 0 < cfg.SCHEDULER_TIMESLICE)
    (hmem : boot_memory cfg s0) (h : boot cfg s0 = some sb) : act_inv cfg sb := by
  unfold boot at h
  cases h1 : kproc_init cfg (scheduler_init cfg s0) with
  | none => simp [h1] at h
  | some s1 =>
    simp only [h1, Option.some.injEq] at h
    have hact0 : (kproc_init_reset cfg (scheduler_init cfg s0)).active_proc = none :=
      hmem.2.2.2.2.2.2.2.2
    -- every slot of the reset table is in state NONE with cpu_time -1
    have hreset : ∀ k, (proc_at (kproc_init_reset cfg (scheduler_init cfg s0)) k).state
          = proc_state_t.NONE ∧
        (proc_at (kproc_init_reset cfg (scheduler_init cfg s0)) k).cpu_time = -1 := by
      intro k
      by_cases hk : k < cfg.PROC_MAX
      · simp [proc_at, kproc_init_reset, List.getD_eq_getElem?_getD, hk]
      · have : (kproc_init_reset cfg (scheduler_init cfg s0)).proc_table.length ≤ k := by
          simp [kproc_init_reset]
          omega
        unfold proc_at
        rw [List.getD_eq_getElem?_getD, List.getElem?_eq_none this]
        exact ⟨rfl, rfl⟩
    -- the creations and attachments are quiet and keep `active_proc`
    have hI : quiet (kproc_init_reset cfg (scheduler_init cfg s0)) s1 ∧
        s1.active_proc = (kproc_init_reset cfg (scheduler_init cfg s0)).active_proc := by
      have hshell : ∀ (s : kernel_t) (m : Nat) (s2 : kernel_t),
          kproc_init_shell cfg s m = some s2 →
          quiet (kproc_init_reset cfg (scheduler_init cfg s0)) s ∧
            s.active_proc = (kproc_init_reset cfg (scheduler_init cfg s0)).active_proc →
          quiet (kproc_init_reset cfg (scheduler_init cfg s0)) s2 ∧
            s2.active_proc = (kproc_init_reset cfg (scheduler_init cfg s0)).active_proc := by
        intro s m s2 hb hs
        unfold kproc_init_shell at hb
        cases hc : kproc_create cfg s cfg.prog_shell "shell" proc_type_t.PROC_TYPE_USER with
        | none => simp [hc] at hb
        | some r =>
          obtain ⟨pid, t1⟩ := r
          simp only [hc, Option.some.injEq] at hb
          obtain ⟨c1, c2⟩ := act_kproc_create cfg s t1 _ _ _ pid hc
          obtain ⟨a1, a2⟩ := act_kproc_attach_tty cfg t1 pid (m : Int)
          rw [← hb]
          split
          · exact ⟨quiet_trans _ _ _ hs.1 (quiet_trans _ _ _ c1 a1),
              a2.trans (c2.trans hs.2)⟩
          · exact ⟨quiet_trans _ _ _ hs.1 c1, c2.trans hs.2⟩
      have huserp : ∀ (proc_ptr : Nat) (name : String) (s : kernel_t) (i : Nat) (s2 : kernel_t),
          kproc_init_user cfg proc_ptr name s i = some s2 →
          quiet (kproc_init_reset cfg (scheduler_init cfg s0)) s ∧
            s.active_proc = (kproc_init_reset cfg (scheduler_init cfg s0)).active_proc →
          quiet (kproc_init_reset cfg (scheduler_init cfg s0)) s2 ∧
            s2.active_proc = (kproc_init_reset cfg (scheduler_init cfg s0)).active_proc := by
        intro proc_ptr name s i s2 hb hs
        unfold kproc_init_user at hb
        cases hc : kproc_create cfg s proc_ptr name proc_type_t.PROC_TYPE_USER with
        | none => simp [hc] at hb
        | some r =>
          obtain ⟨pid, t1⟩ := r
          simp only [hc, Option.some.injEq] at hb
          obtain ⟨c1, c2⟩ := act_kproc_create cfg s t1 _ _ _ pid hc
          obtain ⟨a1, a2⟩ := act_kproc_attach_tty cfg t1 pid
            ((cfg.TTY_MAX : Int) - Int.tmod pid 2 - 1)
          rw [← hb]
          exact ⟨quiet_trans _ _ _ hs.1 (quiet_trans _ _ _ c1 a1), a2.trans (c2.trans hs.2)⟩
      unfold kproc_init at h1
      cases hc : kproc_create cfg (kproc_init_reset cfg (scheduler_init cfg s0)) cfg.kproc_idle
          "idle" proc_type_t.PROC_TYPE_KERNEL with
      | none => simp [hc] at h1
      | some r =>
        obtain ⟨pid, t1⟩ := r
        simp only [hc] at h1
        have hI1 := act_kproc_create cfg _ t1 _ _ _ pid hc
        cases h2 : for_each (kproc_init_shell cfg) [1, 2, 3, 4] t1 with
        | none => simp [h2] at h1
        | some t2 =>
          simp only [h2] at h1
          have hI2 := for_each_inv (kproc_init_shell cfg) _ hshell _ t1 t2 h2 hI1
          cases h3 : for_each (kproc_init_user cfg cfg.prog_ping "ping") (List.range 3) t2 with
          | none => simp [h3] at h1
          | some t3 =>
            simp only [h3] at h1
            have hI3 := for_each_inv (kproc_init_user cfg cfg.prog_ping "ping") _
              (huserp cfg.prog_ping "ping") _ t2 t3 h3 hI2
            exact for_each_inv (kproc_init_user cfg cfg.prog_pong "pong") _
              (huserp cfg.prog_pong "pong") _ t3 s1 h1 hI3
    have htab : ∀ k, proc_at sb k = proc_at s1 k := by
      intro k
      rw [← h]
      rfl
    have hactb : sb.active_proc = none := by
      rw [← h]
      show s1.active_proc = none
      rw [hI.2, hact0]
    refine ⟨fun k hk => ?_, fun k => ?_, fun a ha => ?_⟩
    · rw [htab] at hk
      have := hI.1.1 k hk
      rw [(hreset k).1] at this
      cases this
    · rw [htab]
      rcases hI.1.2 k with hc | hc
      · rw [hc, (hreset k).2]
        omega
      · omega
    · rw [hactb] at ha
      cases ha

theorem kernel_run_append (cfg : kconfig) (es : List kernel_event) (e : kernel_event) :
    ∀ s s2 : kernel_t, kernel_run cfg s (es ++ [e]) = some s2 →
      ∃ s1, kernel_run cfg s es = some s1 ∧ kernel_step cfg s1 e = some s2 := by
  induction es with
  | nil =>
    intro s s2 h
    simp only [List.nil_append, kernel_run] at h
    cases hs : kernel_step cfg s e with
    | none => rw [hs] at h; simp at h
    | some t =>
      rw [hs] at h
      simp only [Option.some.injEq] at h
      exact ⟨s, rfl, by rw [← h]; exact hs⟩
  | cons x xs ih =>
    intro s s2 h
    simp only [List.cons_append, kernel_run] at h ⊢
    cases hs : kernel_step cfg s x with
    | none => rw [hs] at h; simp at h
    | some t =>
      rw [hs] at h
      simp only at h ⊢
      exact ih t s2 h

theorem scheduler_run_active (cfg : kconfig) (s s2 : kernel_t)
    (h : scheduler_run cfg s = some s2) : ∃ a, s2.active_proc = some a := by
  unfold scheduler_run at h
  split at h
  · simp at h
  · rename_i sp _
    unfold scheduler_run_select at h
    simp only at h
    split at h
    · simp at h
    · rename_i a ha
      simp only [Option.some.injEq] at h
      rw [← h]
      exact ⟨a, ha⟩

theorem kernel_step_active (cfg : kconfig) (s s2 : kernel_t) (e : kernel_event)
    (he : e.runs_scheduler = true) (h : kernel_step cfg s e = some s2) :
    ∃ a, s2.active_proc = some a := by
  have hsys : ∀ e1 : kernel_event,
      (match s.active_proc with
       | none => none
       | some _ =>
         match ksyscall_dispatch cfg s e1 with
         | none => none
         | some r => scheduler_run cfg r.2) = some s2 → ∃ a, s2.active_proc = some a := by
    intro e1 h1
    split at h1
    · simp at h1
    · split at h1
      · simp at h1
      · exact scheduler_run_active cfg _ s2 h1
  cases e with
  | tick =>
    simp only [kernel_step, tick] at h
    split at h
    · simp at h
    · exact scheduler_run_active cfg _ s2 h
  | run =>
    simp only [kernel_step] at h
    exact scheduler_run_active cfg _ s2 h
  | create p n t => cases he
  | destroy p => cases he
  | proc_sleep seconds => exact hsys (kernel_event.proc_sleep seconds) (by simpa only [kernel_step] using h)
  | proc_exit => exact hsys kernel_event.proc_exit (by simpa only [kernel_step] using h)
  | mutex_init => exact hsys kernel_event.mutex_init (by simpa only [kernel_step] using h)
  | mutex_lock m => exact hsys (kernel_event.mutex_lock m) (by simpa only [kernel_step] using h)
  | mutex_unlock m => exact hsys (kernel_event.mutex_unlock m) (by simpa only [kernel_step] using h)
  | sem_init v => exact hsys (kernel_event.sem_init v) (by simpa only [kernel_step] using h)
  | sem_wait m => exact hsys (kernel_event.sem_wait m) (by simpa only [kernel_step] using h)
  | sem_post m => exact hsys (kernel_event.sem_post m) (by simpa only [kernel_step] using h)

/-- C38: one ACTIVE process after every scheduling pass. From memory as the loader leaves
it, after the boot of main.c and any sequence of timer ticks, scheduling passes, system
calls of the active process (each followed by `scheduler_run`), `kproc_create` and
`kproc_destroy` calls that the kernel survives and in which the idle process makes no
system call, with a time slice of at least one tick: when the last of these events is one
that the kernel ends with `scheduler_run` (a tick, a scheduling pass or a system call),
then `active_proc` is not null, it points to a slot of the table that is in use (pid >= 0),
in state ACTIVE and with `cpu_time` below SCHEDULER_TIMESLICE, and no other slot of the
process table is in state ACTIVE. -/
theorem one_active_after_run (cfg : kconfig) (s0 sb s : kernel_t)
    (events : List kernel_event) (e : kernel_event)
    (hT : 0 < cfg.SCHEDULER_TIMESLICE) (hmem : boot_memory cfg s0)
    (hboot : boot cfg s0 = some sb) (he : e.runs_scheduler = true)
    (hrun : kernel_run cfg sb (events ++ [e]) = some s)
    (husers : syscalls_by_users cfg sb (events ++ [e]) = true) :
    ∃ a, s.active_proc = some a ∧ a < cfg.PROC_MAX ∧ 0 ≤ (proc_at s a).pid ∧
      (proc_at s a).state = proc_state_t.ACTIVE ∧
      (proc_at s a).cpu_time < (cfg.SCHEDULER_TIMESLICE : Int) ∧
      ∀ k, (proc_at s k).state = proc_state_t.ACTIVE → k = a := by
  obtain ⟨hex, hA, hB, hC⟩ := act_inv_kernel_run cfg hT hmem.1 (events ++ [e]) sb s
    (boot_excl_inv cfg s0 sb hmem hboot) (boot_act_inv cfg s0 sb hT hmem hboot) hrun husers
  obtain ⟨s1, _, hstep⟩ := kernel_run_append cfg events e sb s hrun
  obtain ⟨a, ha⟩ := kernel_step_active cfg s1 s e he hstep
  have hst := hC a ha
  refine ⟨a, ha, ?_, (hex.1.2.2.2.2.2.2 a ha).1, hst, hB a, fun k hk => ?_⟩
  · rw [← hex.1.1.1]
    exact proc_at_in_range_of_state s a (by rw [hst]; decide)
  · have := hA k hk
    rw [ha] at this
    simp only [Option.some.injEq] at this
    exact this.symm

theorem one_active_after_run_witness :
    boot_memory rr_config rr_start ∧ boot rr_config rr_start = some excl_booted ∧
    ∃ s, kernel_run rr_config excl_booted (excl_events ++ [kernel_event.tick]) = some s ∧
      s.proc_table.map (fun p => (p.pid, p.state, p.cpu_time))
        = [(0, proc_state_t.ACTIVE, 2), (3, proc_state_t.WAITING, 2),
           (2, proc_state_t.SLEEPING, 0)] ∧
      ∃ a, s.active_proc = some a ∧ a < rr_config.PROC_MAX ∧ 0 ≤ (proc_at s a).pid ∧
        (proc_at s a).state = proc_state_t.ACTIVE ∧
        (proc_at s a).cpu_time < (rr_config.SCHEDULER_TIMESLICE : Int) ∧
        ∀ k, (proc_at s k).state = proc_state_t.ACTIVE → k = a := by
  have hm : boot_memory rr_config rr_start := by
    unfold boot_memory
    decide
  obtain ⟨s, hs, h1⟩ := map_eq_some_elim
    (kernel_run rr_config excl_booted (excl_events ++ [kernel_event.tick]))
    (fun s => s.proc_table.map (fun p => (p.pid, p.state, p.cpu_time)))
    [(0, proc_state_t.ACTIVE, 2), (3, proc_state_t.WAITING, 2), (2, proc_state_t.SLEEPING, 0)]
    (by decide)
  exact ⟨hm, by decide, s, hs, h1,
    one_active_after_run rr_config rr_start excl_booted s excl_events kernel_event.tick
      (by decide) hm (by decide) (by decide) hs (by decide)⟩

/-! ## C33: fairness of the time slices -/

/-- A tick inside the time slice of the active process. -/
theorem rot_state_keep (cfg : kconfig) (s : kernel_t) (x : Nat) (ys : List Nat) (c : Int)
    (h : rot_state cfg s (x :: ys) c) (hc : c + 1 < (cfg.SCHEDULER_TIMESLICE : Int)) :
    ∃ s2, tick cfg s = some s2 ∧ rot_state cfg s2 (x :: ys) (c + 1) ∧
      (proc_at s2 x).run_time = (proc_at s x).run_time + 1 ∧
      ∀ j, j ≠ x → (proc_at s2 j).run_time = (proc_at s j).run_time := by
  obtain ⟨hinv, hrun, hsl, hqs, hnd, hpos, x', ys', hl, hact, hst, hcx, hcy, hq⟩ := h
  simp only [List.cons.injEq] at hl
  obtain ⟨hx', hys'⟩ := hl
  subst hx' hys'
  have hxl : x < s.proc_table.length :=
    proc_at_in_range s x (by have := hpos x (List.mem_cons_self _ _); omega)
  have ht := scheduler_timer_no_sleepers cfg s hsl
  rw [hact] at ht
  simp only at ht
  generalize hs1 : proc_update s x
      (fun p => { p with run_time := p.run_time + 1, cpu_time := p.cpu_time + 1 }) = s1 at ht
  have hx1 : proc_at s1 x = { proc_at s x with run_time := (proc_at s x).run_time + 1,
                                                cpu_time := (proc_at s x).cpu_time + 1 } := by
    rw [← hs1]
    exact proc_at_update_self s x _ hxl
  have hy1 : ∀ j, j ≠ x → proc_at s1 j = proc_at s j := by
    intro j hj
    rw [← hs1]
    exact proc_at_update_other s x j _ hj
  have hpids : ∀ j, (proc_at s1 j).pid = (proc_at s j).pid := fun j => by
    rw [← hs1]
    exact proc_update_pid s x j
      (fun p => { p with run_time := p.run_time + 1, cpu_time := p.cpu_time + 1 })
      (fun _ => rfl)
  have hlen1 : s1.proc_table.length = s.proc_table.length := by
    rw [← hs1]
    exact proc_update_length s x _
  have hrq1 : s1.run_queue = s.run_queue := by rw [← hs1]; rfl
  have hsq1 : s1.sleep_queue = s.sleep_queue := by rw [← hs1]; rfl
  have hnp1 : s1.next_pid = s.next_pid := by rw [← hs1]; rfl
  have hact1 : s1.active_proc = some x := by rw [← hs1]; exact hact
  have hst1 : (proc_at s1 x).state = proc_state_t.ACTIVE := by rw [hx1]; exact hst
  have hrun1 : scheduler_run cfg s1 = some s1 := by
    simp only [scheduler_run]
    rw [scheduler_run_preempt_keep cfg s1 x hact1 hst1 (by
      rw [hx1]
      show (proc_at s x).cpu_time + 1 < _
      rw [hcx]
      exact hc)]
    simp only
    rw [scheduler_run_select_active cfg s1 x hact1, proc_update_id s1 x _ (by
      show ({ proc_at s1 x with state := proc_state_t.ACTIVE } : proc_t) = _
      rw [← hst1])]
  have hnx : ∀ y ∈ ys, y ≠ x := by
    intro y hy hyx
    rw [hyx] at hy
    exact (List.nodup_cons.1 hnd).1 hy
  refine ⟨s1, by simp only [tick, ht, hrun1], ⟨pid_inv_congr cfg s s1 hinv hlen1 hnp1 hpids,
    by rw [hrq1]; exact hrun, by rw [hsq1]; exact hsl, hqs, hnd,
    fun k hk => by rw [hpids]; exact hpos k hk,
    x, ys, rfl, hact1, hst1, ?_, ?_, ?_⟩, ?_, ?_⟩
  · rw [hx1]
    show (proc_at s x).cpu_time + 1 = c + 1
    rw [hcx]
  · intro y hy
    rw [hy1 y (hnx y hy)]
    exact hcy y hy
  · rw [hrq1, hq]
    exact List.map_congr_left (fun k _ => (hpids k).symm)
  · rw [hx1]
  · intro j hj
    rw [hy1 j hj]

/-- The tick that ends the time slice of the active process: it goes to the tail of the
run queue and the head of the run queue becomes active. -/
theorem rot_state_switch (cfg : kconfig) (s : kernel_t) (x : Nat) (ys : List Nat) (c : Int)
    (h : rot_state cfg s (x :: ys) c) (hc : (cfg.SCHEDULER_TIMESLICE : Int) ≤ c + 1) :
    ∃ s2, tick cfg s = some s2 ∧ rot_state cfg s2 (ys ++ [x]) 0 ∧
      (proc_at s2 x).run_time = (proc_at s x).run_time + 1 ∧
      ∀ j, j ≠ x → (proc_at s2 j).run_time = (proc_at s j).run_time := by
  obtain ⟨hinv, hrun, hsl, hqs, hnd, hpos, x', ys', hl, hact, hst, hcx, hcy, hq⟩ := h
  simp only [List.cons.injEq] at hl
  obtain ⟨hx', hys'⟩ := hl
  subst hx' hys'
  have hpx := hpos x (List.mem_cons_self _ _)
  have hxl : x < s.proc_table.length := proc_at_in_range s x (by omega)
  have hnx : ∀ y ∈ ys, y ≠ x := by
    intro y hy hyx
    rw [hyx] at hy
    exact (List.nodup_cons.1 hnd).1 hy
  have ht := scheduler_timer_no_sleepers cfg s hsl
  rw [hact] at ht
  simp only at ht
  generalize hs1 : proc_update s x
      (fun p => { p with run_time := p.run_time + 1, cpu_time := p.cpu_time + 1 }) = s1 at ht
  have hx1 : proc_at s1 x = { proc_at s x with run_time := (proc_at s x).run_time + 1,
                                                cpu_time := (proc_at s x).cpu_time + 1 } := by
    rw [← hs1]
    exact proc_at_update_self s x _ hxl
  have hy1 : ∀ j, j ≠ x → proc_at s1 j = proc_at s j := by
    intro j hj
    rw [← hs1]
    exact proc_at_update_other s x j _ hj
  have hpids : ∀ j, (proc_at s1 j).pid = (proc_at s j).pid := fun j => by
    rw [← hs1]
    exact proc_update_pid s x j
      (fun p => { p with run_time := p.run_time + 1, cpu_time := p.cpu_time + 1 })
      (fun _ => rfl)
  have hlen1 : s1.proc_table.length = s.proc_table.length := by
    rw [← hs1]
    exact proc_update_length s x _
  have hrq1 : s1.run_queue = s.run_queue := by rw [← hs1]; rfl
  have hsq1 : s1.sleep_queue = s.sleep_queue := by rw [← hs1]; rfl
  have hnp1 : s1.next_pid = s.next_pid := by rw [← hs1]; rfl
  have hact1 : s1.active_proc = some x := by rw [← hs1]; exact hact
  have hroom : queue_is_full cfg.QUEUE_SIZE s1.run_queue = false := by
    rw [hrq1]
    apply queue_not_full_of_length cfg.QUEUE_SIZE _ hrun
    rw [hq, List.length_map]
    simp only [List.length_cons] at hqs
    omega
  obtain ⟨sp, hsp, hnone, hselfp, hothp, hwfp, hcp, hsqp, hnpp, hlenp, _⟩ :=
    scheduler_run_preempt_user_spec cfg s1 x hact1 (by rw [hx1]; exact hst)
      (by rw [hx1]; show _ ≤ (proc_at s x).cpu_time + 1; rw [hcx]; exact hc)
      (by rw [hpids]; omega) (by rw [hrq1]; exact hrun) hroom
  rw [hrq1, hq, hpids] at hcp
  have hpidp : ∀ j, (proc_at sp j).pid = (proc_at s j).pid := by
    intro j
    by_cases hj : j = x
    · rw [hj, hselfp]
      exact hpids x
    · rw [hothp j hj, hpids]
  have hinvp : pid_inv cfg sp :=
    pid_inv_congr cfg s sp hinv (hlenp.trans hlen1) (hnpp.trans hnp1) hpidp
  -- every process of the rotation has cpu_time 0 and its run_time of `s1` in `sp`
  have hcpup : ∀ k ∈ ys ++ [x], (proc_at sp k).cpu_time = 0 := by
    intro k hk
    rcases List.mem_append.1 hk with hk | hk
    · rw [hothp k (hnx k hk), hy1 k (hnx k hk)]
      exact hcy k hk
    · rw [List.mem_singleton] at hk
      rw [hk, hselfp]
  have hrtp : ∀ k, (proc_at sp k).run_time = (proc_at s1 k).run_time := by
    intro k
    by_cases hk : k = x
    · rw [hk, hselfp]
    · rw [hothp k hk]
  have hcp' : queue_contents cfg.QUEUE_SIZE sp.run_queue
      = (ys ++ [x]).map (fun k => (proc_at s k).pid) := by
    rw [hcp, List.map_append]
    rfl
  -- the head of the rotation is selected
  obtain ⟨y, r, hyr⟩ : ∃ y r, ys ++ [x] = y :: r := by
    cases ys with
    | nil => exact ⟨x, [], rfl⟩
    | cons y r => exact ⟨y, r ++ [x], rfl⟩
  have hmem : ∀ k, k ∈ ys ++ [x] → k ∈ x :: ys := by
    intro k hk
    rcases List.mem_append.1 hk with hk | hk
    · exact List.mem_cons_of_mem _ hk
    · rw [List.mem_singleton] at hk
      rw [hk]
      exact List.mem_cons_self _ _
  have hy_in : y ∈ ys ++ [x] := by rw [hyr]; exact List.mem_cons_self _ _
  have hpy := hpos y (hmem y hy_in)
  rw [hyr, List.map_cons] at hcp'
  have hly : pid_to_proc cfg sp (proc_at s y).pid = some y := by
    have := pid_to_proc_in_use cfg sp y hinvp (by rw [hpidp]; omega)
    rwa [hpidp] at this
  obtain ⟨s2, h2, hact2, hself2, _, hoth2, hwf2, hc2, hsq2, hnp2, hlen2, _⟩ :=
    scheduler_run_select_head cfg sp (proc_at s y).pid (r.map (fun k => (proc_at s k).pid)) y
      hnone hwfp hcp' hly
  have hpid2 : ∀ j, (proc_at s2 j).pid = (proc_at s j).pid := by
    intro j
    by_cases hj : j = y
    · rw [hj, hself2]
      exact hpidp y
    · rw [hoth2 j hj, hpidp]
  have hcpu2 : ∀ k ∈ ys ++ [x], (proc_at s2 k).cpu_time = 0 := by
    intro k hk
    by_cases hj : k = y
    · rw [hj, hself2]
      exact hcpup y hy_in
    · rw [hoth2 k hj]
      exact hcpup k hk
  have hrt2 : ∀ k, (proc_at s2 k).run_time = (proc_at s1 k).run_time := by
    intro k
    by_cases hj : k = y
    · rw [hj, hself2]
      exact hrtp y
    · rw [hoth2 k hj]
      exact hrtp k
  have hnd2 : (ys ++ [x]).Nodup := by
    have hp : (ys ++ [x]).Perm (x :: ys) := by
      rw [← List.singleton_append]
      exact List.perm_append_comm
    exact hp.nodup_iff.2 hnd
  refine ⟨s2, by simp only [tick, ht, scheduler_run, hsp, h2], ⟨pid_inv_congr cfg s s2 hinv
    (hlen2.trans (hlenp.trans hlen1)) (hnp2.trans (hnpp.trans hnp1)) hpid2, hwf2,
    by rw [hsq2, hsqp, hsq1]; exact hsl, by simpa using hqs, hnd2,
    fun k hk => by rw [hpid2]; exact hpos k (hmem k hk),
    y, r, hyr, hact2, by rw [hself2], hcpu2 y hy_in, ?_, ?_⟩, ?_, ?_⟩
  · intro k hk
    exact hcpu2 k (by rw [hyr]; exact List.mem_cons_of_mem _ hk)
  · rw [hc2]
    exact List.map_congr_left (fun k _ => (hpid2 k).symm)
  · rw [hrt2, hx1]
  · intro j hj
    rw [hrt2, hy1 j hj]

/-- The first tick after the boot: nobody is charged, and the head of the run queue
becomes active. -/
theorem rot_boot_tick (cfg : kconfig) (s : kernel_t) (x : Nat) (ys : List Nat)
    (h : rot_boot cfg s (x :: ys)) :
    ∃ s2, tick cfg s = some s2 ∧ rot_state cfg s2 (x :: ys) 0 ∧
      ∀ j, (proc_at s2 j).run_time = (proc_at s j).run_time := by
  obtain ⟨hinv, hrun, hsl, hqs, hnd, hpos, hact, hq⟩ := h
  have ht := scheduler_timer_no_sleepers cfg s hsl
  rw [hact] at ht
  simp only at ht
  have hpx := (hpos x (List.mem_cons_self _ _)).1
  rw [List.map_cons] at hq
  have hly : pid_to_proc cfg s (proc_at s x).pid = some x :=
    pid_to_proc_in_use cfg s x hinv (by omega)
  obtain ⟨s2, h2, hact2, hself2, _, hoth2, hwf2, hc2, hsq2, hnp2, hlen2, _⟩ :=
    scheduler_run_select_head cfg s (proc_at s x).pid (ys.map (fun k => (proc_at s k).pid)) x
      hact hrun hq hly
  have hpid2 : ∀ j, (proc_at s2 j).pid = (proc_at s j).pid := by
    intro j
    by_cases hj : j = x
    · rw [hj, hself2]
    · rw [hoth2 j hj]
  have hrt2 : ∀ j, (proc_at s2 j).run_time = (proc_at s j).run_time := by
    intro j
    by_cases hj : j = x
    · rw [hj, hself2]
    · rw [hoth2 j hj]
  have hcpu2 : ∀ j, (proc_at s2 j).cpu_time = (proc_at s j).cpu_time := by
    intro j
    by_cases hj : j = x
    · rw [hj, hself2]
    · rw [hoth2 j hj]
  refine ⟨s2, by simp only [tick, ht, scheduler_run, scheduler_run_preempt_none cfg s hact, h2],
    ⟨pid_inv_congr cfg s s2 hinv hlen2 hnp2 hpid2, hwf2, by rw [hsq2]; exact hsl, hqs, hnd,
    fun k hk => by rw [hpid2]; exact (hpos k hk).1,
    x, ys, rfl, hact2, by rw [hself2], ?_, ?_, ?_⟩, hrt2⟩
  · rw [hcpu2]
    exact (hpos x (List.mem_cons_self _ _)).2
  · intro y hy
    rw [hcpu2]
    exact (hpos y (List.mem_cons_of_mem _ hy)).2
  · rw [hc2]
    exact List.map_congr_left (fun k _ => (hpid2 k).symm)

theorem ticks_add (cfg : kconfig) (a b : Nat) :
    ∀ s : kernel_t, ticks cfg (a + b) s = (ticks cfg a s).bind (ticks cfg b) := by
  induction a with
  | zero =>
    intro s
    simp only [Nat.zero_add, ticks, Option.some_bind]
  | succ a ih =>
    intro s
    rw [Nat.add_right_comm]
    simp only [ticks]
    cases tick cfg s with
    | none => rfl
    | some s1 => exact ih s1

theorem ticks_then (cfg : kconfig) (a b : Nat) (s s1 s2 : kernel_t)
    (h1 : ticks cfg a s = some s1) (h2 : ticks cfg b s1 = some s2) :
    ticks cfg (a + b) s = some s2 := by
  rw [ticks_add, h1, Option.some_bind, h2]

/-- The ticks that are left of the time slice of the active process. -/
theorem rot_state_finish (cfg : kconfig) (x : Nat) (ys : List Nat) :
    ∀ (m : Nat) (s : kernel_t) (c : Int), rot_state cfg s (x :: ys) c →
      c + ((m + 1 : Nat) : Int) = (cfg.SCHEDULER_TIMESLICE : Int) →
      ∃ s2, ticks cfg (m + 1) s = some s2 ∧ rot_state cfg s2 (ys ++ [x]) 0 ∧
        (proc_at s2 x).run_time = (proc_at s x).run_time + ((m + 1 : Nat) : Int) ∧
        ∀ j, j ≠ x → (proc_at s2 j).run_time = (proc_at s j).run_time := by
  intro m
  induction m with
  | zero =>
    intro s c h hc
    obtain ⟨s2, h1, h2, h3, h4⟩ := rot_state_switch cfg s x ys c h (by
      push_cast at hc
      omega)
    refine ⟨s2, by simp only [ticks, h1], h2, ?_, h4⟩
    rw [h3]
    rfl
  | succ m ih =>
    intro s c h hc
    obtain ⟨s1, h1, h2, h3, h4⟩ := rot_state_keep cfg s x ys c h (by
      push_cast at hc
      omega)
    obtain ⟨s2, g1, g2, g3, g4⟩ := ih s1 (c + 1) h2 (by
      push_cast at hc ⊢
      omega)
    refine ⟨s2, by rw [ticks_step cfg (m + 1) s s1 h1]; exact g1, g2, ?_, fun j hj => ?_⟩
    · rw [g3, h3]
      push_cast
      ring
    · rw [g4 j hj, h4 j hj]

/-- Some ticks inside the time slice of the active process. -/
theorem rot_state_part (cfg : kconfig) (x : Nat) (ys : List Nat) :
    ∀ (m : Nat) (s : kernel_t) (c : Int), rot_state cfg s (x :: ys) c →
      c + (m : Int) < (cfg.SCHEDULER_TIMESLICE : Int) →
      ∃ s2, ticks cfg m s = some s2 ∧ rot_state cfg s2 (x :: ys) (c + (m : Int)) ∧
        (proc_at s2 x).run_time = (proc_at s x).run_time + (m : Int) ∧
        ∀ j, j ≠ x → (proc_at s2 j).run_time = (proc_at s j).run_time := by
  intro m
  induction m with
  | zero =>
    intro s c h _
    refine ⟨s, rfl, ?_, ?_, fun _ _ => rfl⟩
    · simpa using h
    · simp
  | succ m ih =>
    intro s c h hc
    obtain ⟨s1, h1, h2, h3, h4⟩ := rot_state_keep cfg s x ys c h (by
      push_cast at hc
      omega)
    obtain ⟨s2, g1, g2, g3, g4⟩ := ih s1 (c + 1) h2 (by
      push_cast at hc ⊢
      omega)
    refine ⟨s2, by rw [ticks_step cfg m s s1 h1]; exact g1, ?_, ?_, fun j hj => ?_⟩
    · have : c + ((m + 1 : Nat) : Int) = c + 1 + (m : Int) := by
        push_cast
        ring
      rw [this]
      exact g2
    · rw [g3, h3]
      push_cast
      ring
    · rw [g4 j hj, h4 j hj]

/-- Whole turns: from the start of a time slice, the processes `l1` at the front of the
rotation each get a whole time slice and go behind the others. -/
theorem rot_state_turns (cfg : kconfig) (hT : 0 < cfg.SCHEDULER_TIMESLICE) :
    ∀ (l1 l2 : List Nat) (s : kernel_t), rot_state cfg s (l1 ++ l2) 0 →
      ∃ s2, ticks cfg (l1.length * cfg.SCHEDULER_TIMESLICE) s = some s2 ∧
        rot_state cfg s2 (l2 ++ l1) 0 ∧
        (∀ j ∈ l1, (proc_at s2 j).run_time
          = (proc_at s j).run_time + (cfg.SCHEDULER_TIMESLICE : Int)) ∧
        ∀ j, j ∉ l1 → (proc_at s2 j).run_time = (proc_at s j).run_time := by
  intro l1
  induction l1 with
  | nil =>
    intro l2 s h
    refine ⟨s, by simp [ticks], by simpa using h, fun j hj => by simp at hj, fun _ _ => rfl⟩
  | cons x l1 ih =>
    intro l2 s h
    have hnd : (x :: (l1 ++ l2)).Nodup := h.2.2.2.2.1
    have hx1 : x ∉ l1 := fun hx =>
      (List.nodup_cons.1 hnd).1 (List.mem_append_left _ hx)
    obtain ⟨m, hm⟩ : ∃ m, cfg.SCHEDULER_TIMESLICE = m + 1 :=
      ⟨cfg.SCHEDULER_TIMESLICE - 1, by omega⟩
    obtain ⟨s1, h1, h2, h3, h4⟩ := rot_state_finish cfg x (l1 ++ l2) m s 0 h (by
      rw [hm]
      simp)
    rw [List.append_assoc] at h2
    obtain ⟨s2, g1, g2, g3, g4⟩ := ih (l2 ++ [x]) s1 h2
    refine ⟨s2, ?_, ?_, fun j hj => ?_, fun j hj => ?_⟩
    · have : (x :: l1).length * cfg.SCHEDULER_TIMESLICE
          = (m + 1) + l1.length * cfg.SCHEDULER_TIMESLICE := by
        rw [List.length_cons, Nat.succ_mul, hm]
        omega
      rw [this]
      exact ticks_then cfg _ _ s s1 s2 h1 g1
    · have : l2 ++ x :: l1 = l2 ++ [x] ++ l1 := by simp
      rw [this]
      exact g2
    · rcases List.mem_cons.1 hj with hj | hj
      · rw [hj, g4 x hx1, h3, hm]
      · have hjx : j ≠ x := fun hh => hx1 (hh ▸ hj)
        rw [g3 j hj, h4 j hjx]
    · have hjx : j ≠ x := fun hh => hj (hh ▸ List.mem_cons_self _ _)
      have hj1 : j ∉ l1 := fun hh => hj (List.mem_cons_of_mem _ hh)
      rw [g4 j hj1, h4 j hjx]

/-- A window of N * SCHEDULER_TIMESLICE ticks that starts with a process active: every one
of the N processes is charged SCHEDULER_TIMESLICE ticks, and the rotation is back where it
was. -/
theorem rot_state_window (cfg : kconfig) (s : kernel_t) (l : List Nat) (c : Int)
    (h : rot_state cfg s l c) (hc0 : 0 ≤ c) (hc : c < (cfg.SCHEDULER_TIMESLICE : Int)) :
    ∃ s2, ticks cfg (l.length * cfg.SCHEDULER_TIMESLICE) s = some s2 ∧ rot_state cfg s2 l c ∧
      ∀ k ∈ l, (proc_at s2 k).run_time
        = (proc_at s k).run_time + (cfg.SCHEDULER_TIMESLICE : Int) := by
  have hT : 0 < cfg.SCHEDULER_TIMESLICE := by omega
  obtain ⟨x, ys, hl⟩ : ∃ x ys, l = x :: ys := by
    obtain ⟨_, _, _, _, _, _, x, ys, hl, _⟩ := h
    exact ⟨x, ys, hl⟩
  subst hl
  have hnd : (x :: ys).Nodup := h.2.2.2.2.1
  have hxy : x ∉ ys := (List.nodup_cons.1 hnd).1
  -- the rest of the running time slice
  obtain ⟨m, hm⟩ : ∃ m : Nat, c + ((m + 1 : Nat) : Int) = (cfg.SCHEDULER_TIMESLICE : Int) :=
    ⟨(cfg.SCHEDULER_TIMESLICE - c.toNat) - 1, by
      push_cast
      omega⟩
  obtain ⟨s1, a1, a2, a3, a4⟩ := rot_state_finish cfg x ys m s c h hm
  -- a whole time slice for each of the others
  obtain ⟨s2, b1, b2, b3, b4⟩ := rot_state_turns cfg hT ys [x] s1 a2
  -- the first part of the next time slice of `x`
  obtain ⟨s3, c1, c2, c3, c4⟩ := rot_state_part cfg x ys c.toNat s2 0 b2 (by
    rw [Int.toNat_of_nonneg hc0]
    omega)
  rw [Int.toNat_of_nonneg hc0] at c2 c3
  refine ⟨s3, ?_, by simpa using c2, fun k hk => ?_⟩
  · have : (x :: ys).length * cfg.SCHEDULER_TIMESLICE
        = (m + 1) + ys.length * cfg.SCHEDULER_TIMESLICE + c.toNat := by
      rw [List.length_cons, Nat.succ_mul]
      have : ((m + 1 : Nat) : Int) + (c.toNat : Int) = (cfg.SCHEDULER_TIMESLICE : Int) := by
        rw [Int.toNat_of_nonneg hc0]
        omega
      omega
    rw [this]
    exact ticks_then cfg _ _ s s2 s3 (ticks_then cfg _ _ s s1 s2 a1 b1) c1
  · rcases List.mem_cons.1 hk with hk | hk
    · rw [hk, c3, b4 x hxy, a3]
      omega
    · have hkx : k ≠ x := fun hh => hxy (hh ▸ hk)
      rw [c4 k hkx, b3 k hk, a4 k hkx]

/-- Every tick keeps the rotation going: after any number of ticks the same processes
take turns, with some process active at some point of its time slice. -/
theorem rot_state_reach (cfg : kconfig) :
    ∀ (m : Nat) (s : kernel_t) (l : List Nat) (c : Int), rot_state cfg s l c → 0 ≤ c →
      c < (cfg.SCHEDULER_TIMESLICE : Int) →
      ∃ s2 l2 c2, ticks cfg m s = some s2 ∧ rot_state cfg s2 l2 c2 ∧ 0 ≤ c2 ∧
        c2 < (cfg.SCHEDULER_TIMESLICE : Int) ∧ l2.Perm l := by
  intro m
  induction m with
  | zero =>
    intro s l c h hc0 hc
    exact ⟨s, l, c, rfl, h, hc0, hc, List.Perm.refl _⟩
  | succ m ih =>
    intro s l c h hc0 hc
    obtain ⟨x, ys, hl⟩ : ∃ x ys, l = x :: ys := by
      obtain ⟨_, _, _, _, _, _, x, ys, hl, _⟩ := h
      exact ⟨x, ys, hl⟩
    subst hl
    by_cases hk : c + 1 < (cfg.SCHEDULER_TIMESLICE : Int)
    · obtain ⟨s1, h1, h2, _⟩ := rot_state_keep cfg s x ys c h hk
      obtain ⟨s2, l2, c2, g1, g2, g3, g4, g5⟩ := ih s1 (x :: ys) (c + 1) h2 (by omega) hk
      exact ⟨s2, l2, c2, by rw [ticks_step cfg m s s1 h1]; exact g1, g2, g3, g4, g5⟩
    · obtain ⟨s1, h1, h2, _⟩ := rot_state_switch cfg s x ys c h (by omega)
      obtain ⟨s2, l2, c2, g1, g2, g3, g4, g5⟩ := ih s1 (ys ++ [x]) 0 h2 (le_refl _) (by omega)
      refine ⟨s2, l2, c2, by rw [ticks_step cfg m s s1 h1]; exact g1, g2, g3, g4, g5.trans ?_⟩
      rw [← List.singleton_append]
      exact List.perm_append_comm

/-- The window that starts at the first tick after the boot: the first tick charges
nobody, so that in N * SCHEDULER_TIMESLICE ticks the process queued last is charged one
tick less than a time slice, and the others a whole one. -/
theorem first_window_last (cfg : kconfig) (s : kernel_t) (init : List Nat) (z : Nat)
    (hT : 0 < cfg.SCHEDULER_TIMESLICE) (h : rot_boot cfg s (init ++ [z])) :
    ∃ s2, ticks cfg ((init ++ [z]).length * cfg.SCHEDULER_TIMESLICE) s = some s2 ∧
      (proc_at s2 z).run_time = (proc_at s z).run_time + (cfg.SCHEDULER_TIMESLICE : Int) - 1 ∧
      ∀ k ∈ init, (proc_at s2 k).run_time
        = (proc_at s k).run_time + (cfg.SCHEDULER_TIMESLICE : Int) := by
  have hnd : (init ++ [z]).Nodup := h.2.2.2.2.1
  have hz : z ∉ init := by
    intro hz
    have := (List.nodup_append.1 hnd).2.2
    exact this hz (List.mem_singleton_self z)
  obtain ⟨x, ys, hxy⟩ : ∃ x ys, init ++ [z] = x :: ys := by
    cases init with
    | nil => exact ⟨z, [], rfl⟩
    | cons x r => exact ⟨x, r ++ [z], rfl⟩
  rw [hxy] at h
  obtain ⟨s1, a1, a2, a3⟩ := rot_boot_tick cfg s x ys h
  rw [← hxy] at a2
  obtain ⟨s2, b1, b2, b3, b4⟩ := rot_state_turns cfg hT init [z] s1 a2
  obtain ⟨s3, c1, c2, c3, c4⟩ := rot_state_part cfg z init (cfg.SCHEDULER_TIMESLICE - 1) s2 0 b2
    (by omega)
  refine ⟨s3, ?_, ?_, fun k hk => ?_⟩
  · have : (init ++ [z]).length * cfg.SCHEDULER_TIMESLICE
        = 1 + init.length * cfg.SCHEDULER_TIMESLICE + (cfg.SCHEDULER_TIMESLICE - 1) := by
      rw [List.length_append, List.length_singleton, Nat.succ_mul]
      omega
    rw [this]
    refine ticks_then cfg _ _ s s2 s3 (ticks_then cfg _ _ s s1 s2 ?_ b1) c1
    simp only [ticks, a1]
  · rw [c3, b4 z hz, a3]
    omega
  · have hkz : k ≠ z := fun hh => hz (hh ▸ hk)
    rw [c4 k hkz, b3 k hk, a3]

/-- C33 fails as stated, for the window that starts at the first tick after the boot.
After the boot of main.c for `rr_config` (SCHEDULER_TIMESLICE = 3) the two shells A
(pid 1) and B (pid 2) are on the run queue and no process is active, so that the first
tick charges nobody and only selects A. After the 2 * 3 = 6 ticks of the window, in which
nobody sleeps, blocks or exits, the run_time of A has gone from 0 to 3 and the run_time
of B from 0 to 2, which is less than SCHEDULER_TIMESLICE. -/
theorem first_window_is_short :
    boot rr_config rr_start = some excl_booted ∧ rr_config.SCHEDULER_TIMESLICE = 3 ∧
    excl_booted.active_proc = none ∧ queue_contents 4 excl_booted.run_queue = [1, 2] ∧
    excl_booted.proc_table.map (fun p => (p.pid, p.run_time)) = [(0, 0), (1, 0), (2, 0)] ∧
    (ticks rr_config (2 * 3) excl_booted).map
        (fun s => s.proc_table.map (fun p => (p.pid, p.run_time)))
      = some [(0, 0), (1, 3), (2, 2)] := by
  refine ⟨by decide, by decide, by decide, by decide, by decide, by decide⟩

/-- C33, amended: fairness of the time slices from the first selection on. Let the boot
leave the N >= 1 user processes of the slots `l` on the run queue, nobody active and
nobody asleep, and let only timer ticks follow (`scheduler_timer`, then `scheduler_run`:
no process sleeps, blocks or exits). Then for every m >= 1 the kernel survives m ticks and
the N * SCHEDULER_TIMESLICE ticks after them, and over this window the run_time of each of
the N processes goes up by exactly SCHEDULER_TIMESLICE. -/
theorem timeslice_fairness (cfg : kconfig) (s : kernel_t) (l : List Nat) (m : Nat)
    (hT : 0 < cfg.SCHEDULER_TIMESLICE) (hl : l ≠ []) (hb : rot_boot cfg s l) (hm : 1 ≤ m) :
    ∃ sm s2, ticks cfg m s = some sm ∧
      ticks cfg (l.length * cfg.SCHEDULER_TIMESLICE) sm = some s2 ∧
      ∀ k ∈ l, (proc_at s2 k).run_time
        = (proc_at sm k).run_time + (cfg.SCHEDULER_TIMESLICE : Int) := by
  obtain ⟨x, ys, hxy⟩ : ∃ x ys, l = x :: ys := by
    cases l with
    | nil => exact absurd rfl hl
    | cons x ys => exact ⟨x, ys, rfl⟩
  obtain ⟨m1, hm1⟩ : ∃ m1, m = m1 + 1 := ⟨m - 1, by omega⟩
  rw [hxy] at hb
  obtain ⟨s1, a1, a2, _⟩ := rot_boot_tick cfg s x ys hb
  rw [← hxy] at a2
  obtain ⟨sm, l2, c2, b1, b2, b3, b4, b5⟩ := rot_state_reach cfg m1 s1 l 0 a2 (le_refl _)
    (by omega)
  obtain ⟨s2, w1, _, w3⟩ := rot_state_window cfg sm l2 c2 b2 b3 b4
  rw [b5.length_eq] at w1
  refine ⟨sm, s2, ?_, w1, fun k hk => w3 k (b5.mem_iff.2 hk)⟩
  rw [hm1, ticks_step cfg m1 s s1 a1]
  exact b1

theorem timeslice_fairness_witness :
    rot_boot rr_config excl_booted [1, 2] ∧
    (ticks rr_config 2 excl_booted).map
        (fun s => s.proc_table.map (fun p => (p.pid, p.run_time)))
      = some [(0, 0), (1, 1), (2, 0)] ∧
    (ticks rr_config (2 + 2 * 3) excl_booted).map
        (fun s => s.proc_table.map (fun p => (p.pid, p.run_time)))
      = some [(0, 0), (1, 4), (2, 3)] ∧
    ∃ sm s2, ticks rr_config 2 excl_booted = some sm ∧
      ticks rr_config ([1, 2].length * rr_config.SCHEDULER_TIMESLICE) sm = some s2 ∧
      ∀ k ∈ [1, 2], (proc_at s2 k).run_time
        = (proc_at sm k).run_time + (rr_config.SCHEDULER_TIMESLICE : Int) := by
  have hb : rot_boot rr_config excl_booted [1, 2] := by
    refine ⟨pid_inv_of_bounded _ _ (by decide) (by decide) (by decide) (by decide), ?_,
      by decide, by decide, by decide, by decide, by decide, by decide⟩
    unfold queue_wf
    decide
  exact ⟨hb, by decide, by decide,
    timeslice_fairness rr_config excl_booted [1, 2] 2 (by decide) (by decide) hb (by decide)⟩

/-! ## C34, C36 and C32 in general -/

/-- The order in which `scheduler_remove` leaves the run queue. When the pid of the
process is queued between `A` and `R`, the rounds of the loop stop one short once the pid
has been dropped, and what is left is `R ++ A` rotated by `R.length - 1`: the last pid of
`R` first, then `A`, then the rest of `R`. The order of `A ++ R` is kept only when `R` is
empty or `A` is empty and `R` has one entry. -/
theorem scheduler_remove_order (cfg : kconfig) (s : kernel_t) (p : Nat) (A R : List Int)
    (hwf : queue_wf cfg.QUEUE_SIZE s.run_queue)
    (hc : queue_contents cfg.QUEUE_SIZE s.run_queue = A ++ (proc_at s p).pid :: R)
    (hA : (proc_at s p).pid ∉ A) (hR : (proc_at s p).pid ∉ R) :
    ∃ s2, scheduler_remove cfg s (some p) = some s2 ∧
      queue_contents cfg.QUEUE_SIZE s2.run_queue = (R ++ A).rotate (R.length - 1) := by
  obtain ⟨q2, h1, _, h3⟩ := scheduler_remove_loop_present cfg (proc_at s p).pid A
    (s.run_queue.size.toNat + 1) 0 s.run_queue 0 R hwf hc hA hR (le_refl _)
    (by omega) (by omega)
  have h3' : queue_contents cfg.QUEUE_SIZE q2 = (R ++ A).rotate (R.length - 1) := by
    rw [h3]
    rfl
  unfold scheduler_remove
  simp only [h1]
  split
  · exact ⟨_, rfl, h3'⟩
  · split
    · exact ⟨_, rfl, h3'⟩
    · exact ⟨_, rfl, h3'⟩

/-- PROC_SLEEP(0) by an active process that is not asleep, on a sound run queue:
`ksyscall_proc_sleep` returns 0 and leaves the caller in state SLEEPING with sleep_time
0, its pid queued on the sleep queue. -/
theorem ksyscall_proc_sleep_zero (cfg : kconfig) (s : kernel_t) (a : Nat)
    (hact : s.active_proc = some a) (ha : a < s.proc_table.length)
    (hst : (proc_at s a).state ≠ proc_state_t.SLEEPING)
    (hrun : queue_wf cfg.QUEUE_SIZE s.run_queue)
    (hnd : (queue_contents cfg.QUEUE_SIZE s.run_queue).Nodup) :
    ∃ s2, ksyscall_proc_sleep cfg s 0 = some (0, s2) ∧
      (proc_at s2 a).state = proc_state_t.SLEEPING ∧ (proc_at s2 a).sleep_time = 0 ∧
      (proc_at s2 a).pid = (proc_at s a).pid ∧
      s2.sleep_queue = (queue_in cfg.QUEUE_SIZE s.sleep_queue (proc_at s a).pid).2 := by
  obtain ⟨s2, h1, h2, _, _, _, _, _, _, _, _, _, _, _, _, _, _, _, _, h3⟩ :=
    scheduler_sleep_awake cfg s a (int_mul 0 100) ha hst hrun hnd
  refine ⟨s2, ?_, by rw [h2], by rw [h2]; rfl, by rw [h2], h3⟩
  simp only [ksyscall_proc_sleep, hact, h1]
  rfl

/-- The write-back is skipped for PROC_SLEEP, whatever the numbering of the system calls.
Let the active process, in state ACTIVE on a sound run queue, trap with eax =
SYSCALL_PROC_SLEEP (a case label other than SYSCALL_NONE and the labels of the cases
before it) and a number of seconds below 2^31 in ebx. Then `ksyscall_irq_handler`
returns with `active_proc` null and the caller SLEEPING, and the trap frame of the caller
is as it was: eax still holds SYSCALL_PROC_SLEEP and not the 0 that `ksyscall_proc_sleep`
returned. -/
theorem ksyscall_irq_handler_sleep (cfg : kconfig) (ids : syscall_ids)
    (RINGBUF_SIZE PROC_IO_MAX : Nat) (free_mutex : mutex_t → mutex_t) (free_sem : sem_t → sem_t)
    (user : Nat → List Int) (s : kernel_t) (tty_table : List tty_t) (a : Nat) (t : Int)
    (hact : s.active_proc = some a) (htf : (proc_at s a).trapframe = some t)
    (hst : (proc_at s a).state = proc_state_t.ACTIVE)
    (hid : (proc_at s a).frame.eax = ids.SYSCALL_PROC_SLEEP)
    (hnone : ids.SYSCALL_PROC_SLEEP ≠ ids.SYSCALL_NONE)
    (h1 : ids.SYSCALL_PROC_SLEEP ≠ ids.SYSCALL_IO_READ)
    (h2 : ids.SYSCALL_PROC_SLEEP ≠ ids.SYSCALL_IO_WRITE)
    (h3 : ids.SYSCALL_PROC_SLEEP ≠ ids.SYSCALL_IO_FLUSH)
    (h4 : ids.SYSCALL_PROC_SLEEP ≠ ids.SYSCALL_SYS_GET_TIME)
    (h5 : ids.SYSCALL_PROC_SLEEP ≠ ids.SYSCALL_SYS_GET_NAME)
    (harg : (proc_at s a).frame.ebx < 2 ^ 31)
    (hrun : queue_wf cfg.QUEUE_SIZE s.run_queue)
    (hnd : (queue_contents cfg.QUEUE_SIZE s.run_queue).Nodup) :
    ∃ s2, ksyscall_irq_handler cfg ids RINGBUF_SIZE PROC_IO_MAX free_mutex free_sem user s
        tty_table = some (s2, tty_table) ∧
      (ksyscall_proc_sleep cfg s (int_of_size_t (proc_at s a).frame.ebx)).map Prod.fst
        = some 0 ∧
      s2.active_proc = none ∧ (proc_at s2 a).state = proc_state_t.SLEEPING ∧
      (proc_at s2 a).frame = (proc_at s a).frame ∧
      (proc_at s2 a).frame.eax = ids.SYSCALL_PROC_SLEEP := by
  have ha : a < s.proc_table.length :=
    proc_at_in_range_of_state s a (by rw [hst]; decide)
  have hsec : ¬ int_of_size_t (proc_at s a).frame.ebx < 0 := by
    unfold int_of_size_t
    have hm : (proc_at s a).frame.ebx % 2 ^ 32 = (proc_at s a).frame.ebx :=
      Nat.mod_eq_of_lt (by omega)
    rw [hm, if_pos harg]
    omega
  obtain ⟨s2, g1, g2, _, _, _, _, _, _, _, _, _, _, _, _, _, g3, _, _, _⟩ :=
    scheduler_sleep_awake cfg s a
      (int_mul (int_of_size_t (proc_at s a).frame.ebx) 100) ha (by rw [hst]; decide) hrun hnd
  have gact : s2.active_proc = none := g3 a hact rfl
  have hsl : ksyscall_proc_sleep cfg s (int_of_size_t (proc_at s a).frame.ebx)
      = some (0, s2) := by
    simp only [ksyscall_proc_sleep, if_neg hsec, hact, g1]
  have hsw : ksyscall_switch cfg ids RINGBUF_SIZE PROC_IO_MAX free_mutex free_sem user s
      tty_table (proc_at s a).frame.eax (proc_at s a).frame.ebx (proc_at s a).frame.ecx
      (proc_at s a).frame.edx = some (0, s2, tty_table) := by
    simp only [ksyscall_switch, hid, if_neg h1, if_neg h2, if_neg h3, if_neg h4, if_neg h5,
      if_true, hsl, Option.map_some']
  have hne : (proc_at s a).frame.eax ≠ ids.SYSCALL_NONE := by
    rw [hid]
    exact hnone
  refine ⟨s2, ?_, by rw [hsl]; rfl, gact, by rw [g2], by rw [g2], by rw [g2]; exact hid⟩
  exact ksyscall_irq_handler_parked cfg ids RINGBUF_SIZE PROC_IO_MAX free_mutex free_sem user
    s tty_table a t (0, s2, tty_table) hact htf hne hsw gact

/-! ## C31 in general -/

/-- The state of the copy loop of `ksyscall_io_read` after `k` rounds, for a well-formed
attached buffer with the unread bytes `L`: the buffer holds what is left of `L`, the local
`c` holds the byte read last (0 before the first), and the cells below `k` of the
destination hold what `c` was at their round, which from round `L.length` on is the byte
read last. -/
theorem ksyscall_io_read_loop_spec (RINGBUF_SIZE : Nat) (r : io_ref) (tty_table : List tty_t)
    (mem : List Int) (hr : r.tty < tty_table.length)
    (hwf : ringbuf_inv RINGBUF_SIZE (io_load tty_table r)) :
    ∀ k : Nat,
      (ksyscall_io_read_loop RINGBUF_SIZE r k (tty_table, 0, mem)).1.length = tty_table.length ∧
      ringbuf_inv RINGBUF_SIZE
        (io_load (ksyscall_io_read_loop RINGBUF_SIZE r k (tty_table, 0, mem)).1 r) ∧
      ringbuf_contents RINGBUF_SIZE
          (io_load (ksyscall_io_read_loop RINGBUF_SIZE r k (tty_table, 0, mem)).1 r)
        = (ringbuf_contents RINGBUF_SIZE (io_load tty_table r)).drop k ∧
      (ksyscall_io_read_loop RINGBUF_SIZE r k (tty_table, 0, mem)).2.1
        = ((0 : Int) :: ringbuf_contents RINGBUF_SIZE (io_load tty_table r)).getD
            (min k (ringbuf_contents RINGBUF_SIZE (io_load tty_table r)).length) 0 ∧
      (ksyscall_io_read_loop RINGBUF_SIZE r k (tty_table, 0, mem)).2.2.length = mem.length ∧
      ∀ i : Nat, (ksyscall_io_read_loop RINGBUF_SIZE r k (tty_table, 0, mem)).2.2.getD i 0
        = if i < k ∧ i < mem.length then
            ((0 : Int) :: ringbuf_contents RINGBUF_SIZE (io_load tty_table r)).getD
              (min (i + 1) (ringbuf_contents RINGBUF_SIZE (io_load tty_table r)).length) 0
          else mem.getD i 0 := by
  intro k
  induction k with
  | zero =>
    refine ⟨rfl, hwf, by simp [ksyscall_io_read_loop], by simp [ksyscall_io_read_loop], rfl,
      fun i => ?_⟩
    simp [ksyscall_io_read_loop]
  | succ k ih =>
    obtain ⟨h1, h2, h3, h4, h5, h6⟩ := ih
    have hstep : ksyscall_io_read_loop RINGBUF_SIZE r (k + 1) (tty_table, 0, mem)
        = (io_store (ksyscall_io_read_loop RINGBUF_SIZE r k (tty_table, 0, mem)).1 r
            (ringbuf_read RINGBUF_SIZE
              (io_load (ksyscall_io_read_loop RINGBUF_SIZE r k (tty_table, 0, mem)).1 r)
              (ksyscall_io_read_loop RINGBUF_SIZE r k (tty_table, 0, mem)).2.1).2.1,
           (ringbuf_read RINGBUF_SIZE
              (io_load (ksyscall_io_read_loop RINGBUF_SIZE r k (tty_table, 0, mem)).1 r)
              (ksyscall_io_read_loop RINGBUF_SIZE r k (tty_table, 0, mem)).2.1).2.2,
           arr_set (ksyscall_io_read_loop RINGBUF_SIZE r k (tty_table, 0, mem)).2.2 (k : Int)
             (ringbuf_read RINGBUF_SIZE
              (io_load (ksyscall_io_read_loop RINGBUF_SIZE r k (tty_table, 0, mem)).1 r)
              (ksyscall_io_read_loop RINGBUF_SIZE r k (tty_table, 0, mem)).2.1).2.2) := by
      unfold ksyscall_io_read_loop
      rw [List.range_succ, List.foldl_append]
      rfl
    generalize ksyscall_io_read_loop RINGBUF_SIZE r k (tty_table, 0, mem) = st at *
    generalize hL : ringbuf_contents RINGBUF_SIZE (io_load tty_table r) = L at *
    rw [hstep]
    obtain ⟨e1, e2⟩ := io_load_store st.1 r
      (ringbuf_read RINGBUF_SIZE (io_load st.1 r) st.2.1).2.1 (by rw [h1]; exact hr)
    -- the byte and the buffer after the read of this round
    have hread : ringbuf_inv RINGBUF_SIZE (ringbuf_read RINGBUF_SIZE (io_load st.1 r) st.2.1).2.1 ∧
        ringbuf_contents RINGBUF_SIZE (ringbuf_read RINGBUF_SIZE (io_load st.1 r) st.2.1).2.1
          = L.drop (k + 1) ∧
        (ringbuf_read RINGBUF_SIZE (io_load st.1 r) st.2.1).2.2
          = ((0 : Int) :: L).getD (min (k + 1) L.length) 0 := by
      by_cases hk : k < L.length
      · have hne : ringbuf_is_empty (io_load st.1 r) = false := by
          cases hb : ringbuf_is_empty (io_load st.1 r)
          · rfl
          · have := (ringbuf_empty_iff RINGBUF_SIZE _ h2).1 hb
            rw [h3] at this
            have := congrArg List.length this
            simp at this
            omega
        obtain ⟨_, q2, q3⟩ := ringbuf_read_spec RINGBUF_SIZE (io_load st.1 r) st.2.1 h2 hne
        rw [h3, List.drop_eq_getElem_cons hk] at q3
        simp only [List.cons.injEq] at q3
        refine ⟨q2, q3.2.symm, ?_⟩
        rw [← q3.1, Nat.min_eq_left (by omega), List.getD_cons_succ,
          List.getD_eq_getElem?_getD, List.getElem?_eq_getElem hk]
        rfl
      · have he : ringbuf_is_empty (io_load st.1 r) = true := by
          apply (ringbuf_empty_iff RINGBUF_SIZE _ h2).2
          rw [h3]
          exact List.drop_eq_nil_of_le (by omega)
        have hrd : ringbuf_read RINGBUF_SIZE (io_load st.1 r) st.2.1
            = (-1, io_load st.1 r, st.2.1) := by
          simp [ringbuf_read, he]
        rw [hrd]
        refine ⟨h2, ?_, ?_⟩
        · rw [h3, List.drop_eq_nil_of_le (by omega), List.drop_eq_nil_of_le (by omega)]
        · show st.2.1 = _
          rw [h4, Nat.min_eq_right (by omega), Nat.min_eq_right (by omega)]
    obtain ⟨r1, r2, r3⟩ := hread
    refine ⟨by rw [e2, h1], by rw [e1]; exact r1, by rw [e1]; exact r2, r3, ?_, fun i => ?_⟩
    · show (arr_set st.2.2 (k : Int) _).length = mem.length
      rw [arr_set_length, h5]
    · show (arr_set st.2.2 (k : Int) _).getD i 0 = _
      have hset : ∀ v : Int, (arr_set st.2.2 (k : Int) v).getD i 0
          = if k = i ∧ k < st.2.2.length then v else st.2.2.getD i 0 := by
        intro v
        unfold arr_set
        rw [if_pos (by omega), Int.toNat_ofNat]
        simp only [List.getD_eq_getElem?_getD, List.getElem?_set]
        by_cases hki : k = i
        · subst hki
          by_cases hkl : k < st.2.2.length
          · simp [hkl]
          · simp [hkl]
            rw [List.getElem?_eq_none (by omega)]
            rfl
        · simp [hki]
      rw [hset, h5, h6 i, r3]
      by_cases hki : k = i
      · subst hki
        by_cases hkl : k < mem.length
        · simp [hkl]
        · simp [hkl]
      · have : (i < k + 1 ∧ i < mem.length) ↔ (i < k ∧ i < mem.length) := by omega
        simp only [hki, false_and, if_false, this]

/-- What `ksyscall_io_read` does for valid arguments and a well-formed attached buffer
with the unread bytes `L`: it returns min(size, L.length) and leaves the buffer empty; a
destination cell at an index below `size` holds the byte of `L` at that index when there
is one, and otherwise the last byte of `L` (0 when `L` is empty); the cells from `size` on
are as they were. So the cells from L.length up to `size` are overwritten. -/
theorem ksyscall_io_read_spec (RINGBUF_SIZE PROC_IO_MAX : Nat) (s : kernel_t)
    (tty_table : List tty_t) (io : Int) (mem : List Int) (size : Int) (a : Nat) (r : io_ref)
    (hio : 0 ≤ io ∧ io ≤ 1) (hmax : 1 ≤ PROC_IO_MAX) (hsize : 0 ≤ size)
    (hact : s.active_proc = some a) (hbuf : (proc_at s a).io_get io = some r)
    (hr : r.tty < tty_table.length) (hwf : ringbuf_inv RINGBUF_SIZE (io_load tty_table r)) :
    ∃ tty2 dst, ksyscall_io_read RINGBUF_SIZE PROC_IO_MAX s tty_table io (some mem) size
        = some (min size ((ringbuf_contents RINGBUF_SIZE (io_load tty_table r)).length : Int),
            tty2, dst) ∧
      ringbuf_contents RINGBUF_SIZE (io_load tty2 r) = [] ∧ dst.length = mem.length ∧
      ∀ i : Nat, dst.getD i 0
        = if (i : Int) < size ∧ i < mem.length then
            ((0 : Int) :: ringbuf_contents RINGBUF_SIZE (io_load tty_table r)).getD
              (min (i + 1) (ringbuf_contents RINGBUF_SIZE (io_load tty_table r)).length) 0
          else mem.getD i 0 := by
  have h1 : ¬ (io < 0 ∨ io > 1) := by omega
  have h2 : ¬ size < 0 := by omega
  have h3 : ¬ (io < 0 ∨ io > (PROC_IO_MAX : Int)) := by omega
  have h4 : ¬ io > 1 := by omega
  obtain ⟨l1, l2, l3, l4, l5, l6⟩ :=
    ksyscall_io_read_loop_spec RINGBUF_SIZE r tty_table mem hr hwf size.toNat
  obtain ⟨e1, _⟩ := io_load_store
    (ksyscall_io_read_loop RINGBUF_SIZE r size.toNat (tty_table, 0, mem)).1 r
    (ringbuf_flush RINGBUF_SIZE (io_load
      (ksyscall_io_read_loop RINGBUF_SIZE r size.toNat (tty_table, 0, mem)).1 r)).2
    (by rw [l1]; exact hr)
  have hlen : ((ringbuf_contents RINGBUF_SIZE (io_load tty_table r)).length : Int)
      = (io_load tty_table r).size := by
    rw [ringbuf_contents_length, Int.toNat_of_nonneg hwf.1.2.1]
  refine ⟨io_store (ksyscall_io_read_loop RINGBUF_SIZE r size.toNat (tty_table, 0, mem)).1 r
      (ringbuf_flush RINGBUF_SIZE (io_load
        (ksyscall_io_read_loop RINGBUF_SIZE r size.toNat (tty_table, 0, mem)).1 r)).2,
    (ksyscall_io_read_loop RINGBUF_SIZE r size.toNat (tty_table, 0, mem)).2.2,
    ?_, ?_, l5, fun i => ?_⟩
  · simp only [ksyscall_io_read, if_neg h1, if_neg h2, hact, hbuf, ksyscall_io_flush, if_neg h3,
      if_neg h4]
    congr 2
    rw [hlen]
    split <;> omega
  · rw [e1]
    exact ringbuf_init_contents RINGBUF_SIZE _
  · rw [l6 i]
    have : (i < size.toNat ∧ i < mem.length) ↔ ((i : Int) < size ∧ i < mem.length) := by omega
    simp only [this]

end WUROS
